import Mathlib

/-!
# helloengine: board representation and move application

Shallow embedding of `board.h` / `board.cpp` (namespace `chesseng`).

Machine integers are natural numbers: a `uint8_t` is a `Nat` below 256, an
enumeration with underlying type `uint8_t` is the `Nat` of its enumerator.
`std::array<Square,64>` is a function from the index to the square; the
indices below 64 are the cells of the array. The evaluator reads at a larger
index for a pawn on the last row of its side: that is a read of the memory
behind the array, and the function gives the byte found there, so that a
statement about every board holds whatever this memory holds.
`std::string` is a list of characters.
-/

namespace chesseng

/-! ## board.h: bit layout of a square -/

abbrev PIECE_MASK : Nat := 7
abbrev SIDE_BIT : Nat := 1 <<< 3
abbrev MOVED_BIT : Nat := 1 <<< 4
abbrev PAWN_MOVED_TWICE_BIT : Nat := 1 <<< 5
abbrev WHOSE_TURN_BIT : Nat := 1

/-- The predicate `rowcolok` of board.h, on an `int8_t`. -/
def rowcolok (rowcol : Int) : Bool := decide (rowcol ≥ 0) && decide (rowcol < 8)

/-- The enumeration `Side`. -/
inductive Side where
  | WHITE
  | BLACK
deriving DecidableEq, Repr

namespace SideBit
abbrev WHITE : Nat := 0
abbrev BLACK : Nat := SIDE_BIT
end SideBit

namespace PieceType
abbrev NO_PIECE : Nat := 0
abbrev PAWN_PIECE : Nat := 1
abbrev ROOK_PIECE : Nat := 2
abbrev KNIGHT_PIECE : Nat := 3
abbrev BISHOP_PIECE : Nat := 4
abbrev QUEEN_PIECE : Nat := 5
abbrev KING_PIECE : Nat := 6
end PieceType

namespace MovedBit
abbrev NO : Nat := 0
abbrev YES : Nat := MOVED_BIT
end MovedBit

namespace PawnMovedTwiceBit
abbrev NO : Nat := 0
abbrev YES : Nat := PAWN_MOVED_TWICE_BIT
end PawnMovedTwiceBit

namespace MoveType
abbrev MOVE : Nat := 0
abbrev CAPTURE : Nat := 1
end MoveType

/-- The struct `Square`: one byte. -/
structure Square where
  data : Nat
deriving DecidableEq, Repr

namespace Square

/-- The constructor `Square(piece, sideBit, movedBit, movedTwiceBit)`; the two
defaulted arguments of the source are passed explicitly. -/
def make (piece sideBit movedBit movedTwiceBit : Nat) : Square :=
  ⟨piece ||| sideBit ||| movedBit ||| movedTwiceBit⟩

def getPieceType (s : Square) : Nat := s.data &&& PIECE_MASK

def getSideBit (s : Square) : Nat := s.data &&& SIDE_BIT

def getMovedBit (s : Square) : Nat := s.data &&& MOVED_BIT

def getPawnMovedTwiceBit (s : Square) : Nat := s.data &&& PAWN_MOVED_TWICE_BIT

end Square

/-- Conversion of an `int8_t` (or `int`) argument to the `uint8_t` parameter it
is passed to. -/
def toU8 (x : Int) : Nat := (x % 256).toNat

/-- The struct `Position`: `data = (row << 3) + col`, truncated to a byte. -/
structure Position where
  data : Nat
deriving DecidableEq, Repr

namespace Position

def make (row col : Nat) : Position := ⟨((row <<< 3) + col) % 256⟩

def getRow (p : Position) : Nat := p.data >>> 3

def getCol (p : Position) : Nat := p.data &&& 7

/-- The method `Position::print`. -/
def print (p : Position) : List Char :=
  [Char.ofNat (('a'.toNat + p.getCol) % 256), Char.ofNat (('1'.toNat + p.getRow) % 256)]

end Position

/-- The struct `Move`: a 32-bit word. -/
structure Move where
  data : Nat
deriving DecidableEq, Repr

namespace Move

def make (fromPos toPos : Position) (type promotionType : Nat) : Move :=
  ⟨((promotionType <<< 18) + (type <<< 12) + (fromPos.data <<< 6) + toPos.data) % 4294967296⟩

def getFrom (m : Move) : Position := ⟨(m.data >>> 6) &&& 63⟩

def getTo (m : Move) : Position := ⟨m.data &&& 63⟩

def getMoveType (m : Move) : Nat := (m.data >>> 12) &&& 63

def getPromotionType (m : Move) : Nat := (m.data >>> 18) &&& 63

end Move

/-- The struct `Board`: 64 squares and the game-state byte. -/
structure Board where
  squares : Nat → Square
  gamestate : Nat

namespace Board

/-- The constructor `Board()`: every square is `Square(0)`. -/
def empty : Board := ⟨fun _ => ⟨0⟩, 0⟩

def setSquare (b : Board) (pos : Position) (square : Square) : Board :=
  { b with squares := fun i => if i = pos.data then square else b.squares i }

def getSquare (b : Board) (pos : Position) : Square := b.squares pos.data

/-- The overload `getSquare(int8_t row, int8_t col)`. -/
def getSquareRC (b : Board) (row col : Int) : Square :=
  b.squares (Position.make (toU8 row) (toU8 col)).data

def getMovingSide (b : Board) : Side :=
  if b.gamestate &&& WHOSE_TURN_BIT = 0 then Side.WHITE else Side.BLACK

/-- The method `setMovingSide`; `~WHOSE_TURN_BIT` on a byte is 254. -/
def setMovingSide (b : Board) (side : Side) : Board :=
  match side with
  | Side.WHITE => { b with gamestate := b.gamestate &&& 254 }
  | Side.BLACK => { b with gamestate := b.gamestate ||| WHOSE_TURN_BIT }

def getSide (sideBit : Nat) : Side :=
  if sideBit = SideBit.WHITE then Side.WHITE else Side.BLACK

def getSideBit (side : Side) : Nat :=
  match side with
  | Side.WHITE => SideBit.WHITE
  | Side.BLACK => SideBit.BLACK

def getSideSign (side : Side) : Int :=
  match side with
  | Side.WHITE => 1
  | Side.BLACK => -1

/-! ## board.cpp: makeMove -/

/-- Body of the loop that clears the moved-twice bit, at one `(row, col)`. -/
def clearMovedTwiceAt (result : Board) (row col : Nat) : Board :=
  let maybePawn := result.getSquareRC row col
  if maybePawn.getPawnMovedTwiceBit = PawnMovedTwiceBit.YES
      ∧ maybePawn.getPieceType = PieceType.PAWN_PIECE then
    result.setSquare (Position.make row col)
      (Square.make maybePawn.getPieceType maybePawn.getSideBit maybePawn.getMovedBit
        PawnMovedTwiceBit.NO)
  else result

/-- The loop `for row in 3..4, for col in 0..7` at the head of `makeMove`. -/
def clearMovedTwice (board : Board) : Board :=
  [3, 4].foldl (fun r row => (List.range 8).foldl (fun r col => clearMovedTwiceAt r row col) r)
    board

/-- The pawn block of `makeMove`: en passant, then the moved-twice mark. -/
def pawnStep (board result : Board) (movingPiece : Square) (fromPos toPos : Position) : Board :=
  if movingPiece.getPieceType = PieceType.PAWN_PIECE then
    let result :=
      if fromPos.getCol ≠ toPos.getCol
          ∧ (board.getSquare toPos).getPieceType = PieceType.NO_PIECE then
        let enpassantCaptureRow := fromPos.getRow
        let enpassantCaptureCol := toPos.getCol
        result.setSquare (Position.make enpassantCaptureRow enpassantCaptureCol)
          (Square.make PieceType.NO_PIECE SideBit.WHITE MovedBit.NO PawnMovedTwiceBit.NO)
      else result
    let rowDelta : Int := (fromPos.getRow : Int) - (toPos.getRow : Int)
    if rowDelta.natAbs = 2 then
      result.setSquare toPos
        (Square.make movingPiece.getPieceType movingPiece.getSideBit MovedBit.YES
          PawnMovedTwiceBit.YES)
    else result
  else result

/-- The castling block of `makeMove`. -/
def castlingStep (result : Board) (movingPiece : Square) (fromPos toPos : Position) : Board :=
  if movingPiece.getPieceType = PieceType.KING_PIECE then
    if fromPos.getCol = 4 ∧ toPos.getCol = 6 then
      let expectRook := result.getSquareRC fromPos.getRow 7
      let result := result.setSquare (Position.make fromPos.getRow 7)
        (Square.make PieceType.NO_PIECE SideBit.WHITE MovedBit.NO PawnMovedTwiceBit.NO)
      result.setSquare (Position.make fromPos.getRow 5)
        (Square.make expectRook.getPieceType expectRook.getSideBit MovedBit.YES
          PawnMovedTwiceBit.NO)
    else if fromPos.getCol = 4 ∧ toPos.getCol = 2 then
      let expectRook := result.getSquareRC fromPos.getRow 0
      let result := result.setSquare (Position.make fromPos.getRow 0)
        (Square.make PieceType.NO_PIECE SideBit.WHITE MovedBit.NO PawnMovedTwiceBit.NO)
      result.setSquare (Position.make fromPos.getRow 3)
        (Square.make expectRook.getPieceType expectRook.getSideBit MovedBit.YES
          PawnMovedTwiceBit.NO)
    else result
  else result

/-- The promotion block of `makeMove`. -/
def promotionStep (result : Board) (movingPiece : Square) (toPos : Position)
    (promotionType : Nat) : Board :=
  if promotionType ≠ PieceType.NO_PIECE then
    result.setSquare toPos
      (Square.make promotionType movingPiece.getSideBit MovedBit.YES PawnMovedTwiceBit.NO)
  else result

/-- The function `Board::makeMove(board, fromPos, toPos, promotionType)`. -/
def makeMove (board : Board) (fromPos toPos : Position) (promotionType : Nat) : Board :=
  let result := clearMovedTwice board
  let result := result.setMovingSide
    (if result.getMovingSide = Side.WHITE then Side.BLACK else Side.WHITE)
  let movingPiece := result.getSquare fromPos
  let result := result.setSquare fromPos
    (Square.make PieceType.NO_PIECE SideBit.WHITE MovedBit.NO PawnMovedTwiceBit.NO)
  let result := result.setSquare toPos
    (Square.make movingPiece.getPieceType movingPiece.getSideBit MovedBit.YES
      PawnMovedTwiceBit.NO)
  let result := pawnStep board result movingPiece fromPos toPos
  let result := castlingStep result movingPiece fromPos toPos
  promotionStep result movingPiece toPos promotionType

/-- The overload `Board::makeMove(board, Move)`. -/
def makeMoveM (board : Board) (move : Move) : Board :=
  makeMove board move.getFrom move.getTo move.getPromotionType

end Board

/-! ## Auxiliary definitions used in statements -/

/-- What the clearing loop of `makeMove` leaves on a square it visits. -/
def clearSq (s : Square) : Square :=
  if s.getPawnMovedTwiceBit = PawnMovedTwiceBit.YES
      ∧ s.getPieceType = PieceType.PAWN_PIECE then
    Square.make s.getPieceType s.getSideBit s.getMovedBit PawnMovedTwiceBit.NO
  else s

/-- The local `movingPiece` of `makeMove`: the from-square after the clearing loop. -/
def movingPieceOf (B : Board) (f : Position) : Square := (Board.clearMovedTwice B).getSquare f

/-- The local `result` of `makeMove` after the side toggle and the writes to the from-square
and the to-square (source lines 88 to 92). -/
def afterWrites (B : Board) (f t : Position) : Board :=
  let result := Board.clearMovedTwice B
  let result := result.setMovingSide
    (if result.getMovingSide = Side.WHITE then Side.BLACK else Side.WHITE)
  let movingPiece := result.getSquare f
  let result := result.setSquare f
    (Square.make PieceType.NO_PIECE SideBit.WHITE MovedBit.NO PawnMovedTwiceBit.NO)
  result.setSquare t
    (Square.make movingPiece.getPieceType movingPiece.getSideBit MovedBit.YES
      PawnMovedTwiceBit.NO)

namespace Board

/-- The method `Board::startingPosition`, applied to the board `b`. -/
def startingPosition (b : Board) : Board :=
  let b := (List.range 8).foldl (fun b col =>
    let b := b.setSquare (Position.make 1 col)
      (Square.make PieceType.PAWN_PIECE SideBit.WHITE MovedBit.NO PawnMovedTwiceBit.NO)
    b.setSquare (Position.make 6 col)
      (Square.make PieceType.PAWN_PIECE SideBit.BLACK MovedBit.NO PawnMovedTwiceBit.NO)) b
  let b := b.setSquare (Position.make 0 0)
    (Square.make PieceType.ROOK_PIECE SideBit.WHITE MovedBit.NO PawnMovedTwiceBit.NO)
  let b := b.setSquare (Position.make 0 7)
    (Square.make PieceType.ROOK_PIECE SideBit.WHITE MovedBit.NO PawnMovedTwiceBit.NO)
  let b := b.setSquare (Position.make 7 0)
    (Square.make PieceType.ROOK_PIECE SideBit.BLACK MovedBit.NO PawnMovedTwiceBit.NO)
  let b := b.setSquare (Position.make 7 7)
    (Square.make PieceType.ROOK_PIECE SideBit.BLACK MovedBit.NO PawnMovedTwiceBit.NO)
  let b := b.setSquare (Position.make 0 1)
    (Square.make PieceType.KNIGHT_PIECE SideBit.WHITE MovedBit.NO PawnMovedTwiceBit.NO)
  let b := b.setSquare (Position.make 0 6)
    (Square.make PieceType.KNIGHT_PIECE SideBit.WHITE MovedBit.NO PawnMovedTwiceBit.NO)
  let b := b.setSquare (Position.make 7 1)
    (Square.make PieceType.KNIGHT_PIECE SideBit.BLACK MovedBit.NO PawnMovedTwiceBit.NO)
  let b := b.setSquare (Position.make 7 6)
    (Square.make PieceType.KNIGHT_PIECE SideBit.BLACK MovedBit.NO PawnMovedTwiceBit.NO)
  let b := b.setSquare (Position.make 0 2)
    (Square.make PieceType.BISHOP_PIECE SideBit.WHITE MovedBit.NO PawnMovedTwiceBit.NO)
  let b := b.setSquare (Position.make 0 5)
    (Square.make PieceType.BISHOP_PIECE SideBit.WHITE MovedBit.NO PawnMovedTwiceBit.NO)
  let b := b.setSquare (Position.make 7 2)
    (Square.make PieceType.BISHOP_PIECE SideBit.BLACK MovedBit.NO PawnMovedTwiceBit.NO)
  let b := b.setSquare (Position.make 7 5)
    (Square.make PieceType.BISHOP_PIECE SideBit.BLACK MovedBit.NO PawnMovedTwiceBit.NO)
  let b := b.setSquare (Position.make 0 3)
    (Square.make PieceType.QUEEN_PIECE SideBit.WHITE MovedBit.NO PawnMovedTwiceBit.NO)
  let b := b.setSquare (Position.make 7 3)
    (Square.make PieceType.QUEEN_PIECE SideBit.BLACK MovedBit.NO PawnMovedTwiceBit.NO)
  let b := b.setSquare (Position.make 0 4)
    (Square.make PieceType.KING_PIECE SideBit.WHITE MovedBit.NO PawnMovedTwiceBit.NO)
  let b := b.setSquare (Position.make 7 4)
    (Square.make PieceType.KING_PIECE SideBit.BLACK MovedBit.NO PawnMovedTwiceBit.NO)
  b.setMovingSide Side.WHITE

/-- The standard starting position: `Board()` followed by `startingPosition()`. -/
def start : Board := startingPosition empty

/-- A board given by the bytes of its squares, index 0 first; squares past the end of the
list are `Square(0)`. -/
def ofList (l : List Nat) (gamestate : Nat) : Board :=
  ⟨fun i => ⟨l.getD i 0⟩, gamestate⟩

end Board

/-- A board with a single white pawn, on a2, White to move. -/
def loneWhitePawn : Board := Board.ofList [0, 0, 0, 0, 0, 0, 0, 0, 1] 0

/-- The board of the castling test: white rooks on a1 and h1, white king on e1, White to
move. -/
def castlingBoard : Board := Board.ofList [2, 0, 0, 0, 6, 0, 0, 2] 0

/-! ## board.cpp: the wire format of a move and the board printer -/

/-- The method `Move::print`. -/
def Move.print (m : Move) : List Char :=
  let res : List Char :=
    [Char.ofNat (('a'.toNat + m.getFrom.getCol) % 256),
     Char.ofNat (('1'.toNat + m.getFrom.getRow) % 256),
     Char.ofNat (('a'.toNat + m.getTo.getCol) % 256),
     Char.ofNat (('1'.toNat + m.getTo.getRow) % 256)]
  let promotionType := m.getPromotionType
  if promotionType ≠ PieceType.NO_PIECE then
    if promotionType = PieceType.PAWN_PIECE then res ++ ['p']
    else if promotionType = PieceType.ROOK_PIECE then res ++ ['r']
    else if promotionType = PieceType.BISHOP_PIECE then res ++ ['b']
    else if promotionType = PieceType.KNIGHT_PIECE then res ++ ['n']
    else if promotionType = PieceType.QUEEN_PIECE then res ++ ['q']
    else res
  else res

namespace Board

/-- The overload `Board::makeMove(board, std::string)`. The result is `none` when the source
stops with a hard error: `std::string::at` past the end of the string, or `assert(false)`
(assertions are taken to be enabled). A character is its code; the difference of two
characters is stored in an `int8_t` and passed to the `uint8_t` parameters of `Position`. -/
def makeMoveStr (board : Board) (move : List Char) : Option Board :=
  match move[0]?, move[1]?, move[2]?, move[3]? with
  | some c0, some c1, some c2, some c3 =>
    let fromCol : Int := (c0.toNat : Int) - ('a'.toNat : Int)
    let fromRow : Int := (c1.toNat : Int) - ('1'.toNat : Int)
    let toCol : Int := (c2.toNat : Int) - ('a'.toNat : Int)
    let toRow : Int := (c3.toNat : Int) - ('1'.toNat : Int)
    let fromPos := Position.make (toU8 fromRow) (toU8 fromCol)
    let toPos := Position.make (toU8 toRow) (toU8 toCol)
    if move.length > 4 then
      match move[4]? with
      | some newPieceType =>
        if newPieceType = 'q' then
          some (makeMove board fromPos toPos PieceType.QUEEN_PIECE)
        else if newPieceType = 'r' then
          some (makeMove board fromPos toPos PieceType.ROOK_PIECE)
        else if newPieceType = 'b' then
          some (makeMove board fromPos toPos PieceType.BISHOP_PIECE)
        else if newPieceType = 'n' then
          some (makeMove board fromPos toPos PieceType.KNIGHT_PIECE)
        else none
      | none => none
    else some (makeMove board fromPos toPos PieceType.NO_PIECE)
  | _, _, _, _ => none

/-- The character `logBoard` prints for one square. -/
def pieceChar (square : Square) : Char :=
  let pieceType := square.getPieceType
  if pieceType = PieceType.NO_PIECE then '.'
  else if pieceType = PieceType.PAWN_PIECE then
    (if square.getSideBit = SideBit.WHITE then 'p' else 'P')
  else if pieceType = PieceType.ROOK_PIECE then
    (if square.getSideBit = SideBit.WHITE then 'r' else 'R')
  else if pieceType = PieceType.KNIGHT_PIECE then
    (if square.getSideBit = SideBit.WHITE then 'n' else 'N')
  else if pieceType = PieceType.BISHOP_PIECE then
    (if square.getSideBit = SideBit.WHITE then 'b' else 'B')
  else if pieceType = PieceType.QUEEN_PIECE then
    (if square.getSideBit = SideBit.WHITE then 'q' else 'Q')
  else if pieceType = PieceType.KING_PIECE then
    (if square.getSideBit = SideBit.WHITE then 'k' else 'K')
  else '?'

/-- The character written by `std::endl`. -/
def endl : Char := Char.ofNat 10

/-- The array `boardPrint` of `logBoard`, at one row. -/
def boardPrint (b : Board) (row : Nat) : List Char :=
  (List.range 8).map (fun col => pieceChar (b.getSquare (Position.make row col)))

/-- The method `Board::logBoard`. -/
def logBoard (b : Board) : List Char :=
  "Move:".toList ++ (if b.gamestate &&& WHOSE_TURN_BIT ≠ 0 then "BLACK" else "WHITE").toList
    ++ [endl]
    ++ ([7, 6, 5, 4, 3, 2, 1, 0].map (fun row => boardPrint b row ++ [endl])).flatten

end Board

/-! ## engine.h / engine.cpp: the static evaluator

The `int8_t` locals of `evaluateBoard` (rows, columns and their deltas) stay within -2..9 and
are integers here. An attack counter is incremented at most once by each of the at most 64
pieces, so it stays below 127 and is an integer as well. The score is an `int16_t`: every
`+=` on it is followed by the conversion back to 16 bits. -/

abbrev MIN_SCORE : Int := -30000
abbrev MAX_SCORE : Int := 30000

/-- The enumeration `EvalStatus`. -/
inductive EvalStatus where
  | NOT_EVALUATED
  | IN_EVALUATION
  | DONE_PARTIAL
  | DONE_COMPLETE
deriving DecidableEq, Repr

/-- The struct `EvalRecord`. -/
structure EvalRecord where
  moves : List Move
  bestMove : Move
  score : Int
  minWhite : Int
  maxBlack : Int
  evalStatus : EvalStatus
  evalDepth : Nat
  qsEvalDepth : Nat
  isQuietPosition : Bool

/-- The constructor `EvalRecord()` with the default member initialisers. -/
def EvalRecord.new : EvalRecord :=
  ⟨[], ⟨0⟩, 0, MIN_SCORE, MAX_SCORE, EvalStatus.NOT_EVALUATED, 0, 0, true⟩

namespace Engine

abbrev PAWN_BONUS : Int := 100
abbrev ROOK_BONUS : Int := 500
abbrev KNIGHT_BONUS : Int := 300
abbrev BISHOP_BONUS : Int := 300
abbrev QUEEN_BONUS : Int := 900
abbrev KING_BONUS : Int := 20000
abbrev CAN_MOVE_BONUS : Int := 5
abbrev CENTER_BONUS : Int := 20
abbrev NEAR_CENTER_BONUS : Int := 10
abbrev PAWN_ROW_PROGRESS_BONUS : Int := 20
abbrev UNDEFENDED_PIECE_PENALTY_WITH_ATTACKERS : Int := -75
abbrev UNDEFENDED_PIECE_PENALTY_NO_ATTACKERS : Int := -50
abbrev NO_ATTACKERS_HAVE_DEFENDERS_BONUS : Int := 20
abbrev CHECK_PENALTY : Int := -100
abbrev STALEMATE_SCORE : Int := -300
abbrev AFTER_CHECKMATE_SCORE : Int := 10000
abbrev EXACT_EVAL_DEPTH : Nat := 100

/-- Conversion of an `int` to `int16_t`. -/
def wrapI16 (x : Int) : Int := (x + 32768) % 65536 - 32768

/-- The struct `HeuristicsContext`: two arrays of 64 counters, `blackAttackCount` right behind
`whiteAttackCount` in the object; the constructor fills both arrays with 0. The cells of an
array are the indices below 64. -/
structure HeuristicsContext where
  whiteAttackCount : Nat → Int
  blackAttackCount : Nat → Int

def HeuristicsContext.new : HeuristicsContext := ⟨fun _ => 0, fun _ => 0⟩

/-- The function `countAttackerDefender`. The index `movePosition.data` is not checked against
the size of the array. The capture branch of a white pawn on row 7 passes the position of
row 8, with data `64 + c`: the counter `whiteAttackCount[64 + c]` is the cell
`blackAttackCount[c]` of the array that follows in the object. For a black pawn on row 0 the
data is `248 + c`, which lies behind both arrays: the count is kept at this index of
`blackAttackCount`, which no loop of `evaluateBoard` reads. -/
def countAttackerDefender (evalContext : HeuristicsContext) (movePosition : Position)
    (pieceSide : Side) : HeuristicsContext :=
  match pieceSide with
  | Side.WHITE =>
    if movePosition.data < 64 then
      { evalContext with whiteAttackCount := fun i =>
          if i = movePosition.data then evalContext.whiteAttackCount i + 1
          else evalContext.whiteAttackCount i }
    else
      { evalContext with blackAttackCount := fun i =>
          if i = movePosition.data - 64 then evalContext.blackAttackCount i + 1
          else evalContext.blackAttackCount i }
  | Side.BLACK =>
    { evalContext with blackAttackCount := fun i =>
        if i = movePosition.data then evalContext.blackAttackCount i + 1
        else evalContext.blackAttackCount i }

/-- The two objects `evaluateBoard` updates while it sweeps the board. -/
structure EvalState where
  record : EvalRecord
  evalContext : HeuristicsContext

/-- The statement `record.score += delta`. -/
def EvalState.addScore (st : EvalState) (delta : Int) : EvalState :=
  { st with record := { st.record with score := wrapI16 (st.record.score + delta) } }

/-- The statement `record.moves.push_back(move)`. -/
def EvalState.pushMove (st : EvalState) (move : Move) : EvalState :=
  { st with record := { st.record with moves := st.record.moves ++ [move] } }

/-- The statement `countAttackerDefender(evalContext, movePosition, pieceSide)`. -/
def EvalState.count (st : EvalState) (movePosition : Position) (pieceSide : Side) : EvalState :=
  { st with evalContext := countAttackerDefender st.evalContext movePosition pieceSide }

/-- The attack count of the side other than `pieceSide` at an index:
`pieceSide == Side::WHITE ? blackAttackCount[i] : whiteAttackCount[i]`. -/
def HeuristicsContext.enemyCount (evalContext : HeuristicsContext) (pieceSide : Side)
    (i : Nat) : Int :=
  if pieceSide = Side.WHITE then evalContext.blackAttackCount i
  else evalContext.whiteAttackCount i

/-- The function `evaluateRayMove`; the second component is true when the call sets
`rayEnds`. -/
def evaluateRayMove (board : Board) (st : EvalState) (fromPosition : Position)
    (moveRow moveCol : Int) : EvalState × Bool :=
  if !rowcolok moveRow || !rowcolok moveCol then (st, true)
  else
    let movePosition := Position.make (toU8 moveRow) (toU8 moveCol)
    let square := board.getSquare fromPosition
    let pieceSide := Board.getSide square.getSideBit
    let pieceSign := Board.getSideSign pieceSide
    let moveSquare := board.getSquare movePosition
    let movePieceType := moveSquare.getPieceType
    let movePieceSide := Board.getSide moveSquare.getSideBit
    let st :=
      if movePieceType = PieceType.NO_PIECE ∨ movePieceSide ≠ pieceSide then
        let st := st.addScore (CAN_MOVE_BONUS * pieceSign)
        if pieceSide = board.getMovingSide then
          st.pushMove (Move.make fromPosition movePosition
            (if movePieceType = PieceType.NO_PIECE then MoveType.MOVE else MoveType.CAPTURE)
            PieceType.NO_PIECE)
        else st
      else st
    let st := st.count movePosition pieceSide
    (st, decide (movePieceType ≠ PieceType.NO_PIECE))

/-- One ray loop, `for (...; inRange && !rayEnds; step) evaluateRayMove(...)`, started at
`(moveRow, moveCol)`; `fuel` bounds the number of iterations (a ray has at most 7 squares). -/
def rayLoop (board : Board) (fromPosition : Position) (inRange : Int → Int → Bool)
    (dRow dCol : Int) : Nat → Int → Int → EvalState → EvalState
  | 0, _, _, st => st
  | fuel + 1, moveRow, moveCol, st =>
    if inRange moveRow moveCol then
      let r := evaluateRayMove board st fromPosition moveRow moveCol
      if r.2 then r.1
      else rayLoop board fromPosition inRange dRow dCol fuel (moveRow + dRow) (moveCol + dCol) r.1
    else st

/-- The four rook loops (the rook branch and the first half of the queen branch). -/
def rookRays (board : Board) (pos : Position) (row col : Int) (st : EvalState) : EvalState :=
  let st := rayLoop board pos (fun r _ => decide (r < 8)) 1 0 8 (row + 1) col st
  let st := rayLoop board pos (fun r _ => decide (r ≥ 0)) (-1) 0 8 (row - 1) col st
  let st := rayLoop board pos (fun _ c => decide (c < 8)) 0 1 8 row (col + 1) st
  rayLoop board pos (fun _ c => decide (c ≥ 0)) 0 (-1) 8 row (col - 1) st

/-- The four bishop loops (the bishop branch and the second half of the queen branch); the
column of the loop over `moveRow` is `col + (moveRow - row)` or `col + (row - moveRow)`. -/
def bishopRays (board : Board) (pos : Position) (row col : Int) (st : EvalState) : EvalState :=
  let st := rayLoop board pos (fun r _ => decide (r < 8)) 1 1 8 (row + 1) (col + 1) st
  let st := rayLoop board pos (fun r _ => decide (r < 8)) 1 (-1) 8 (row + 1) (col - 1) st
  let st := rayLoop board pos (fun r _ => decide (r ≥ 0)) (-1) (-1) 8 (row - 1) (col - 1) st
  rayLoop board pos (fun r _ => decide (r ≥ 0)) (-1) 1 8 (row - 1) (col + 1) st

/-- The array `knightDeltas`. -/
def knightDeltas : List (Int × Int) :=
  [(-2, -1), (-2, 1), (-1, -2), (-1, 2), (1, -2), (1, 2), (2, -1), (2, 1)]

/-- The knight loop. -/
def knightMoves (board : Board) (pos : Position) (row col : Int) (st : EvalState) : EvalState :=
  knightDeltas.foldl
    (fun st deltaPair =>
      (evaluateRayMove board st pos (row + deltaPair.1) (col + deltaPair.2)).1) st

end Engine

namespace Engine

/-- The body of the pawn capture loop, for one `colshift`: the regular capture, then the
en-passant capture. -/
def pawnCapture (board : Board) (movingSideBit : Nat) (pos : Position) (square : Square)
    (row col forwardMoveRow : Int) (st : EvalState) (colshift : Int) : EvalState :=
  let pieceSideBit := square.getSideBit
  let pieceSide := Board.getSide pieceSideBit
  let pieceSign := Board.getSideSign pieceSide
  let takesCol := col + colshift
  if rowcolok takesCol then
    -- regular capture
    let takesPos := Position.make (toU8 forwardMoveRow) (toU8 takesCol)
    let takesSquare := board.getSquare takesPos
    let st :=
      if takesSquare.getPieceType ≠ PieceType.NO_PIECE ∧ takesSquare.getSideBit ≠ pieceSideBit
      then
        let st := st.addScore (CAN_MOVE_BONUS * pieceSign)
        if square.getSideBit = movingSideBit then
          let promotionPossible :=
            (pieceSide = Side.WHITE ∧ forwardMoveRow = 7)
              ∨ (pieceSide = Side.BLACK ∧ forwardMoveRow = 0)
          st.pushMove (Move.make pos takesPos MoveType.CAPTURE
            (if promotionPossible then PieceType.QUEEN_PIECE else PieceType.NO_PIECE))
        else st
      else st
    let st := st.count takesPos pieceSide
    -- en passant capture
    let enpassantPawnPos := Position.make (toU8 row) (toU8 takesCol)
    let maybePawnSquare := board.getSquare enpassantPawnPos
    if maybePawnSquare.getPieceType = PieceType.PAWN_PIECE
        ∧ maybePawnSquare.getSideBit ≠ pieceSideBit
        ∧ maybePawnSquare.getPawnMovedTwiceBit = PawnMovedTwiceBit.YES then
      let st := st.addScore (CAN_MOVE_BONUS * pieceSign)
      let movePosition := Position.make (toU8 forwardMoveRow) (toU8 takesCol)
      st.pushMove (Move.make pos movePosition MoveType.CAPTURE PieceType.NO_PIECE)
    else st
  else st

/-- The forward-move block of the pawn branch. -/
def pawnForward (board : Board) (movingSideBit : Nat) (pos : Position) (square : Square)
    (row col : Int) (st : EvalState) : EvalState :=
  let pieceSide := Board.getSide square.getSideBit
  let pieceSign := Board.getSideSign pieceSide
  let forwardMoveRow := row + pieceSign
  if rowcolok forwardMoveRow then
    let forwardMoveSquare := board.getSquareRC forwardMoveRow col
    if forwardMoveSquare.getPieceType = PieceType.NO_PIECE then
      let st := st.addScore (CAN_MOVE_BONUS * pieceSign)
      if square.getSideBit = movingSideBit then
        let promotionPossible :=
          (pieceSide = Side.WHITE ∧ forwardMoveRow = 7)
            ∨ (pieceSide = Side.BLACK ∧ forwardMoveRow = 0)
        st.pushMove (Move.make pos (Position.make (toU8 forwardMoveRow) (toU8 col))
          MoveType.MOVE
          (if promotionPossible then PieceType.QUEEN_PIECE else PieceType.NO_PIECE))
      else st
    else st
  else st

/-- The twice-forward block of the pawn branch. -/
def pawnTwiceForward (board : Board) (movingSideBit : Nat) (pos : Position) (square : Square)
    (row col : Int) (st : EvalState) : EvalState :=
  let pieceSide := Board.getSide square.getSideBit
  let pieceSign := Board.getSideSign pieceSide
  let forwardMoveRow := row + pieceSign
  let twiceForwardStartingRow : Int := if pieceSide = Side.WHITE then 1 else 6
  let twiceForwardMoveRow := row + 2 * pieceSign
  if row = twiceForwardStartingRow ∧ rowcolok twiceForwardMoveRow = true then
    let forwardMoveSquare := board.getSquareRC forwardMoveRow col
    let twiceForwardMoveSquare := board.getSquareRC twiceForwardMoveRow col
    if forwardMoveSquare.getPieceType = PieceType.NO_PIECE
        ∧ twiceForwardMoveSquare.getPieceType = PieceType.NO_PIECE then
      let st := st.addScore (CAN_MOVE_BONUS * pieceSign)
      if square.getSideBit = movingSideBit then
        st.pushMove (Move.make pos (Position.make (toU8 twiceForwardMoveRow) (toU8 col))
          MoveType.MOVE PieceType.NO_PIECE)
      else st
    else st
  else st

/-- The pawn branch of `evaluateBoard`: the piece value, the row progress, the forward move,
the twice-forward move, then the capture loop over `colshift` -1 and 1. -/
def evalPawn (board : Board) (movingSideBit : Nat) (pos : Position) (square : Square)
    (row col : Int) (st : EvalState) : EvalState :=
  let pieceSideBit := square.getSideBit
  let pieceSide := Board.getSide pieceSideBit
  let pieceSign := Board.getSideSign pieceSide
  let st := st.addScore (PAWN_BONUS * pieceSign)
  let pawnRowProgress : Int := if pieceSide = Side.WHITE then row - 1 else 6 - row
  let st := st.addScore (pawnRowProgress * PAWN_ROW_PROGRESS_BONUS * pieceSign)
  let forwardMoveRow := row + pieceSign
  let st := pawnForward board movingSideBit pos square row col st
  let st := pawnTwiceForward board movingSideBit pos square row col st
  [-1, 1].foldl (pawnCapture board movingSideBit pos square row col forwardMoveRow) st

/-- The body of the two king loops, for one `(rowDelta, colDelta)`. -/
def kingStep (board : Board) (pos : Position) (square : Square) (row col : Int)
    (st : EvalState) (rowDelta colDelta : Int) : EvalState :=
  let pieceSide := Board.getSide square.getSideBit
  let pieceSign := Board.getSideSign pieceSide
  if colDelta = 0 ∧ rowDelta = 0 then st
  else if !rowcolok (row + rowDelta) || !rowcolok (col + colDelta) then st
  else
    let movePos := Position.make (toU8 (row + rowDelta)) (toU8 (col + colDelta))
    let moveSquare := board.getSquare movePos
    let movePieceType := moveSquare.getPieceType
    let movePieceSide := Board.getSide moveSquare.getSideBit
    if movePieceType = PieceType.NO_PIECE ∨ movePieceSide ≠ pieceSide then
      let moveSquareAttackerCount := st.evalContext.enemyCount pieceSide movePos.data
      if moveSquareAttackerCount > 0 then
        -- `continue`: the attack count of the square is not touched
        st
      else
        let st := st.addScore (CAN_MOVE_BONUS * pieceSign)
        let st :=
          if pieceSide = board.getMovingSide then
            st.pushMove (Move.make pos movePos
              (if movePieceType = PieceType.NO_PIECE then MoveType.MOVE else MoveType.CAPTURE)
              PieceType.NO_PIECE)
          else st
        st.count movePos pieceSide
    else st.count movePos pieceSide

/-- One castling block of the king branch: the rook is expected on column `rookCol`, the
columns of `middleCols` must be empty and not attacked, the king goes to column `toCol`. -/
def castle (board : Board) (pos : Position) (square : Square) (row : Int)
    (rookCol : Int) (middleCols : List Int) (toCol : Int) (st : EvalState) : EvalState :=
  let pieceSide := Board.getSide square.getSideBit
  let pieceSign := Board.getSideSign pieceSide
  let expectRook := board.getSquareRC row rookCol
  if expectRook.getPieceType = PieceType.ROOK_PIECE ∧ expectRook.getMovedBit = MovedBit.NO then
    let valid := middleCols.foldl
      (fun (valid : Bool) middleCol =>
        let middlePos := Position.make (toU8 row) (toU8 middleCol)
        let attackerCount := st.evalContext.enemyCount pieceSide middlePos.data
        valid && (decide ((board.getSquare middlePos).getPieceType = PieceType.NO_PIECE)
          && decide (attackerCount = 0))) true
    if valid then
      let st := st.addScore (CAN_MOVE_BONUS * pieceSign)
      if pieceSide = board.getMovingSide then
        st.pushMove (Move.make pos (Position.make (toU8 row) (toU8 toCol)) MoveType.MOVE
          PieceType.NO_PIECE)
      else st
    else st
  else st

/-- The king branch of `evaluateBoard`. -/
def evalKing (board : Board) (pos : Position) (square : Square) (row col : Int)
    (st : EvalState) : EvalState :=
  let pieceSide := Board.getSide square.getSideBit
  let st := [-1, 0, 1].foldl
    (fun st rowDelta =>
      [-1, 0, 1].foldl (fun st colDelta => kingStep board pos square row col st rowDelta colDelta)
        st) st
  if pos.getCol = 4 ∧ square.getMovedBit = MovedBit.NO then
    let attackerCount := st.evalContext.enemyCount pieceSide pos.data
    if attackerCount = 0 then
      let st := castle board pos square row 7 [5, 6] 6 st
      castle board pos square row 0 [1, 2, 3] 2 st
    else st
  else st

/-- The body of the sweep of `evaluateBoard`, for one side and one square index. -/
def evalSquare (board : Board) (movingSideBit : Nat) (evalSide : Side) (st : EvalState)
    (posIndex : Nat) : EvalState :=
  let pos : Position := ⟨posIndex⟩
  let square := board.getSquare pos
  let pieceType := square.getPieceType
  if pieceType = PieceType.NO_PIECE then st
  else
    let pieceSideBit := square.getSideBit
    let pieceSide := Board.getSide pieceSideBit
    if pieceSide ≠ evalSide then st
    else
      let pieceSign := Board.getSideSign pieceSide
      let row : Int := pos.getRow
      let col : Int := pos.getCol
      let st :=
        if square.getPieceType = PieceType.PAWN_PIECE then
          evalPawn board movingSideBit pos square row col st
        else if square.getPieceType = PieceType.ROOK_PIECE then
          rookRays board pos row col (st.addScore (ROOK_BONUS * pieceSign))
        else if square.getPieceType = PieceType.BISHOP_PIECE then
          bishopRays board pos row col (st.addScore (BISHOP_BONUS * pieceSign))
        else if square.getPieceType = PieceType.QUEEN_PIECE then
          bishopRays board pos row col
            (rookRays board pos row col (st.addScore (QUEEN_BONUS * pieceSign)))
        else if square.getPieceType = PieceType.KNIGHT_PIECE then
          knightMoves board pos row col (st.addScore (KNIGHT_BONUS * pieceSign))
        else if square.getPieceType = PieceType.KING_PIECE then
          evalKing board pos square row col (st.addScore (KING_BONUS * pieceSign))
        else st
      if (row = 3 ∨ row = 4) ∧ (col = 3 ∨ col = 4) then
        st.addScore (CENTER_BONUS * pieceSign)
      else if row ≥ 2 ∧ row ≤ 5 ∧ col ≥ 2 ∧ col ≤ 5 then
        st.addScore (NEAR_CENTER_BONUS * pieceSign)
      else st

/-- The array `sideEvalOrder`: the side that is not to move comes first. -/
def sideEvalOrder (movingSide : Side) : List Side :=
  if movingSide = Side.BLACK then [Side.WHITE, Side.BLACK] else [Side.BLACK, Side.WHITE]

/-- The two nested loops of `evaluateBoard` over the sides and the 64 squares. -/
def sweep (board : Board) : EvalState :=
  let movingSide := board.getMovingSide
  let movingSideBit := Board.getSideBit movingSide
  (sideEvalOrder movingSide).foldl
    (fun st evalSide =>
      (List.range 64).foldl (fun st posIndex => evalSquare board movingSideBit evalSide st posIndex)
        st)
    ⟨EvalRecord.new, HeuristicsContext.new⟩

/-- The statement `record.score += delta` on a record. -/
def addScore (record : EvalRecord) (delta : Int) : EvalRecord :=
  { record with score := wrapI16 (record.score + delta) }

/-- The function `setExactScore`. -/
def setExactScore (record : EvalRecord) (score : Int) : EvalRecord :=
  { record with score := score, evalStatus := EvalStatus.DONE_COMPLETE,
                evalDepth := EXACT_EVAL_DEPTH }

/-- Outcome of the attacker-count loop: it either ran to its end with a record, or executed
`return record`. -/
inductive PassResult where
  | running (record : EvalRecord)
  | returned (record : EvalRecord)

/-- The attacker-count loop of `evaluateBoard`, over the square indices of a list. -/
def attackerPass (board : Board) (evalContext : HeuristicsContext) (movingSide : Side)
    (movingSideSign : Int) : List Nat → EvalRecord → PassResult
  | [], record => PassResult.running record
  | posIndex :: rest, record =>
    let square := board.getSquare ⟨posIndex⟩
    let pieceType := square.getPieceType
    let pieceSide := Board.getSide square.getSideBit
    let pieceSign := Board.getSideSign pieceSide
    if pieceType = PieceType.NO_PIECE then
      attackerPass board evalContext movingSide movingSideSign rest record
    else
      let whiteAC := evalContext.whiteAttackCount posIndex
      let blackAC := evalContext.blackAttackCount posIndex
      if whiteAC = 0 ∧ blackAC = 0 then
        attackerPass board evalContext movingSide movingSideSign rest record
      else if pieceType = PieceType.KING_PIECE ∧ pieceSide ≠ movingSide
          ∧ ((pieceSide = Side.WHITE ∧ blackAC > 0) ∨ (pieceSide = Side.BLACK ∧ whiteAC > 0)) then
        PassResult.returned
          (setExactScore { record with moves := [] }
            (wrapI16 (AFTER_CHECKMATE_SCORE * movingSideSign)))
      else
        let record :=
          if pieceType = PieceType.KING_PIECE then
            if (if pieceSide = Side.WHITE then blackAC > 0 else whiteAC > 0) then
              { addScore record (CHECK_PENALTY * pieceSign) with isQuietPosition := false }
            else record
          else
            let record :=
              if (if pieceSide = Side.WHITE then blackAC > whiteAC else whiteAC > blackAC) then
                addScore record (UNDEFENDED_PIECE_PENALTY_WITH_ATTACKERS * pieceSign)
              else record
            if (if pieceSide = Side.WHITE then blackAC = 0 ∧ whiteAC > 0
                else whiteAC = 0 ∧ blackAC > 0) then
              addScore record (NO_ATTACKERS_HAVE_DEFENDERS_BONUS * pieceSign)
            else record
        attackerPass board evalContext movingSide movingSideSign rest record

/-- The function `Engine::evaluateBoard`. -/
def evaluateBoard (board : Board) : EvalRecord :=
  let movingSide := board.getMovingSide
  let movingSideSign := Board.getSideSign movingSide
  let st := sweep board
  match attackerPass board st.evalContext movingSide movingSideSign (List.range 64) st.record with
  | PassResult.returned record => record
  | PassResult.running record =>
    if record.moves.length = 0 then
      setExactScore record (wrapI16 (STALEMATE_SCORE * movingSideSign))
    else { record with evalStatus := EvalStatus.DONE_COMPLETE }

end Engine

/-- The board of the stalemate test: black rooks on b2 and b8, white king on a1, White to
move. -/
def stalemateBoard : Board :=
  ((Board.empty.setSquare (Position.make 1 1)
      (Square.make PieceType.ROOK_PIECE SideBit.BLACK MovedBit.NO PawnMovedTwiceBit.NO)).setSquare
    (Position.make 7 1)
      (Square.make PieceType.ROOK_PIECE SideBit.BLACK MovedBit.NO PawnMovedTwiceBit.NO)).setSquare
    (Position.make 0 0)
      (Square.make PieceType.KING_PIECE SideBit.WHITE MovedBit.NO PawnMovedTwiceBit.NO)

/-- The board of the after-checkmate test: black rooks on b2 and b1, white king on a1, Black
to move. -/
def afterCheckmateBoard : Board :=
  (((Board.empty.setSquare (Position.make 1 1)
      (Square.make PieceType.ROOK_PIECE SideBit.BLACK MovedBit.NO PawnMovedTwiceBit.NO)).setSquare
    (Position.make 0 1)
      (Square.make PieceType.ROOK_PIECE SideBit.BLACK MovedBit.NO PawnMovedTwiceBit.NO)).setSquare
    (Position.make 0 0)
      (Square.make PieceType.KING_PIECE SideBit.WHITE MovedBit.NO PawnMovedTwiceBit.NO)).setMovingSide
    Side.BLACK

/-! ## Auxiliary definitions for the move list of the evaluator -/

/-- The constructor call `Position(row, col)` with `int8_t` arguments. -/
def Position.ofRC (row col : Int) : Position := Position.make (toU8 row) (toU8 col)

namespace Engine

/-- The promotion kind the pawn branch gives a move onto `forwardMoveRow`. -/
def promotionOf (pieceSide : Side) (forwardMoveRow : Int) : Nat :=
  if (pieceSide = Side.WHITE ∧ forwardMoveRow = 7) ∨ (pieceSide = Side.BLACK ∧ forwardMoveRow = 0)
  then PieceType.QUEEN_PIECE else PieceType.NO_PIECE

/-- The move kind `evaluateRayMove` and the king loop give a move onto a square. -/
def moveTypeOf (moveSquare : Square) : Nat :=
  if moveSquare.getPieceType = PieceType.NO_PIECE then MoveType.MOVE else MoveType.CAPTURE

/-- The target square of a move is free for a piece of side `pieceSide`: empty, or held by
the other side (the test of `evaluateRayMove` and of the king loop). -/
def freeFor (board : Board) (pieceSide : Side) (p : Position) : Prop :=
  (board.getSquare p).getPieceType = PieceType.NO_PIECE
    ∨ Board.getSide (board.getSquare p).getSideBit ≠ pieceSide

/-- The directions of the four rook loops. -/
def rookDirs : List (Int × Int) := [(1, 0), (-1, 0), (0, 1), (0, -1)]

/-- The directions of the four bishop loops. -/
def bishopDirs : List (Int × Int) := [(1, 1), (1, -1), (-1, -1), (-1, 1)]

/-- The move a ray loop lists at its iteration `k` (counted from 0) when it starts on
`(r0, c0)` and steps by `(dRow, dCol)`: the iterations up to `k` are on the board, those
before `k` met an empty square, and the square of iteration `k` is free for the piece. -/
def RayMove (B : Board) (pos : Position) (r0 c0 dRow dCol : Int) (k : Nat) (m : Move) : Prop :=
  (∀ j : Nat, j ≤ k → rowcolok (r0 + j * dRow) = true ∧ rowcolok (c0 + j * dCol) = true)
  ∧ (∀ j : Nat, j < k →
      (B.getSquare (Position.ofRC (r0 + j * dRow) (c0 + j * dCol))).getPieceType
        = PieceType.NO_PIECE)
  ∧ freeFor B (Board.getSide (B.getSquare pos).getSideBit)
      (Position.ofRC (r0 + k * dRow) (c0 + k * dCol))
  ∧ Board.getSide (B.getSquare pos).getSideBit = B.getMovingSide
  ∧ m = Move.make pos (Position.ofRC (r0 + k * dRow) (c0 + k * dCol))
      (moveTypeOf (B.getSquare (Position.ofRC (r0 + k * dRow) (c0 + k * dCol))))
      PieceType.NO_PIECE

/-- The moves pushed while the sweep evaluates the piece `square` that stands on `pos`, in
row `row` and column `col`, of side `pieceSide` with sign `pieceSign`: one constructor for
each `push_back` of `evaluateBoard` and `evaluateRayMove`, under the conditions that guard
it. `E` gives the attack counts of the other side, which the king branch reads. -/
inductive Gen (B : Board) (E : Nat → Int) (pos : Position) (square : Square) (row col : Int)
    (pieceSide : Side) (pieceSign : Int) : Move → Prop
  | pawnForward :
      square.getPieceType = PieceType.PAWN_PIECE →
      square.getSideBit = Board.getSideBit B.getMovingSide →
      rowcolok (row + pieceSign) = true →
      (B.getSquare (Position.ofRC (row + pieceSign) col)).getPieceType = PieceType.NO_PIECE →
      Gen B E pos square row col pieceSide pieceSign
        (Move.make pos (Position.ofRC (row + pieceSign) col) MoveType.MOVE
          (promotionOf pieceSide (row + pieceSign)))
  | pawnTwice :
      square.getPieceType = PieceType.PAWN_PIECE →
      square.getSideBit = Board.getSideBit B.getMovingSide →
      row = (if pieceSide = Side.WHITE then 1 else 6) →
      rowcolok (row + 2 * pieceSign) = true →
      (B.getSquare (Position.ofRC (row + pieceSign) col)).getPieceType = PieceType.NO_PIECE →
      (B.getSquare (Position.ofRC (row + 2 * pieceSign) col)).getPieceType
        = PieceType.NO_PIECE →
      Gen B E pos square row col pieceSide pieceSign
        (Move.make pos (Position.ofRC (row + 2 * pieceSign) col) MoveType.MOVE
          PieceType.NO_PIECE)
  | pawnCapture (colshift : Int) :
      colshift = -1 ∨ colshift = 1 →
      square.getPieceType = PieceType.PAWN_PIECE →
      square.getSideBit = Board.getSideBit B.getMovingSide →
      rowcolok (col + colshift) = true →
      (B.getSquare (Position.ofRC (row + pieceSign) (col + colshift))).getPieceType
        ≠ PieceType.NO_PIECE →
      (B.getSquare (Position.ofRC (row + pieceSign) (col + colshift))).getSideBit
        ≠ square.getSideBit →
      Gen B E pos square row col pieceSide pieceSign
        (Move.make pos (Position.ofRC (row + pieceSign) (col + colshift)) MoveType.CAPTURE
          (promotionOf pieceSide (row + pieceSign)))
  | enPassant (colshift : Int) :
      colshift = -1 ∨ colshift = 1 →
      square.getPieceType = PieceType.PAWN_PIECE →
      rowcolok (col + colshift) = true →
      (B.getSquare (Position.ofRC row (col + colshift))).getPieceType
        = PieceType.PAWN_PIECE →
      (B.getSquare (Position.ofRC row (col + colshift))).getSideBit ≠ square.getSideBit →
      (B.getSquare (Position.ofRC row (col + colshift))).getPawnMovedTwiceBit
        = PawnMovedTwiceBit.YES →
      Gen B E pos square row col pieceSide pieceSign
        (Move.make pos (Position.ofRC (row + pieceSign) (col + colshift)) MoveType.CAPTURE
          PieceType.NO_PIECE)
  | ray (dRow dCol : Int) (k : Nat) (m : Move) :
      ((square.getPieceType = PieceType.ROOK_PIECE ∨ square.getPieceType = PieceType.QUEEN_PIECE)
          ∧ (dRow, dCol) ∈ rookDirs)
        ∨ ((square.getPieceType = PieceType.BISHOP_PIECE
            ∨ square.getPieceType = PieceType.QUEEN_PIECE) ∧ (dRow, dCol) ∈ bishopDirs) →
      k < 8 →
      RayMove B pos (row + dRow) (col + dCol) dRow dCol k m →
      Gen B E pos square row col pieceSide pieceSign m
  | knight (dRow dCol : Int) :
      square.getPieceType = PieceType.KNIGHT_PIECE →
      (dRow, dCol) ∈ knightDeltas →
      pieceSide = B.getMovingSide →
      rowcolok (row + dRow) = true →
      rowcolok (col + dCol) = true →
      freeFor B pieceSide (Position.ofRC (row + dRow) (col + dCol)) →
      Gen B E pos square row col pieceSide pieceSign
        (Move.make pos (Position.ofRC (row + dRow) (col + dCol))
          (moveTypeOf (B.getSquare (Position.ofRC (row + dRow) (col + dCol))))
          PieceType.NO_PIECE)
  | kingStep (rowDelta colDelta : Int) :
      square.getPieceType = PieceType.KING_PIECE →
      rowDelta ∈ [-1, 0, 1] → colDelta ∈ [-1, 0, 1] →
      ¬ (colDelta = 0 ∧ rowDelta = 0) →
      pieceSide = B.getMovingSide →
      rowcolok (row + rowDelta) = true →
      rowcolok (col + colDelta) = true →
      freeFor B pieceSide (Position.ofRC (row + rowDelta) (col + colDelta)) →
      ¬ E (Position.ofRC (row + rowDelta) (col + colDelta)).data > 0 →
      Gen B E pos square row col pieceSide pieceSign
        (Move.make pos (Position.ofRC (row + rowDelta) (col + colDelta))
          (moveTypeOf (B.getSquare (Position.ofRC (row + rowDelta) (col + colDelta))))
          PieceType.NO_PIECE)
  | castleShort :
      square.getPieceType = PieceType.KING_PIECE →
      pieceSide = B.getMovingSide →
      pos.getCol = 4 →
      square.getMovedBit = MovedBit.NO →
      E pos.data = 0 →
      (B.getSquare (Position.ofRC row 7)).getPieceType = PieceType.ROOK_PIECE →
      (B.getSquare (Position.ofRC row 7)).getMovedBit = MovedBit.NO →
      (∀ middleCol : Int, middleCol ∈ [5, 6] →
        (B.getSquare (Position.ofRC row middleCol)).getPieceType = PieceType.NO_PIECE
        ∧ E (Position.ofRC row middleCol).data = 0) →
      Gen B E pos square row col pieceSide pieceSign
        (Move.make pos (Position.ofRC row 6) MoveType.MOVE PieceType.NO_PIECE)
  | castleLong :
      square.getPieceType = PieceType.KING_PIECE →
      pieceSide = B.getMovingSide →
      pos.getCol = 4 →
      square.getMovedBit = MovedBit.NO →
      E pos.data = 0 →
      (B.getSquare (Position.ofRC row 0)).getPieceType = PieceType.ROOK_PIECE →
      (B.getSquare (Position.ofRC row 0)).getMovedBit = MovedBit.NO →
      (∀ middleCol : Int, middleCol ∈ [1, 2, 3] →
        (B.getSquare (Position.ofRC row middleCol)).getPieceType = PieceType.NO_PIECE
        ∧ E (Position.ofRC row middleCol).data = 0) →
      Gen B E pos square row col pieceSide pieceSign
        (Move.make pos (Position.ofRC row 2) MoveType.MOVE PieceType.NO_PIECE)

/-- The moves pushed while the sweep evaluates the piece on the square with index `i`. -/
def GenAt (B : Board) (E : Nat → Int) (i : Nat) (m : Move) : Prop :=
  Gen B E ⟨i⟩ (B.getSquare ⟨i⟩) ((⟨i⟩ : Position).getRow : Int) ((⟨i⟩ : Position).getCol : Int)
    (Board.getSide (B.getSquare ⟨i⟩).getSideBit)
    (Board.getSideSign (Board.getSide (B.getSquare ⟨i⟩).getSideBit)) m

end Engine

namespace Engine

/-- What evaluating a piece of side `pieceSide` leaves alone in the state: the flags of the
record, the attack counts of the other side, and the moves already listed. -/
def Frame (pieceSide : Side) (st st' : EvalState) : Prop :=
  st'.record.isQuietPosition = st.record.isQuietPosition
  ∧ st'.record.evalStatus = st.record.evalStatus
  ∧ st'.record.evalDepth = st.record.evalDepth
  ∧ (∀ j, st'.evalContext.enemyCount pieceSide j = st.evalContext.enemyCount pieceSide j)
  ∧ (∀ m, m ∈ st.record.moves → m ∈ st'.record.moves)

end Engine

namespace Engine

/-- The sweep of `evaluateBoard` for one side, over the 64 squares. -/
def sweepSide (board : Board) (evalSide : Side) (st : EvalState) : EvalState :=
  (List.range 64).foldl
    (fun st posIndex => evalSquare board (Board.getSideBit board.getMovingSide) evalSide st posIndex)
    st

/-- The attack counts of the side that is not to move, after the sweep: the counts the king
branch reads for the side to move. -/
def attackedBy (B : Board) (i : Nat) : Int :=
  (sweep B).evalContext.enemyCount B.getMovingSide i

end Engine

namespace Engine

/-- The after-checkmate condition of the attacker-count loop holds at some square: a king of
the side not to move stands on a square with a positive attack count of the side to move. -/
def AfterCheckmate (B : Board) : Prop :=
  ∃ i, i < 64 ∧ (B.getSquare ⟨i⟩).getPieceType = PieceType.KING_PIECE
    ∧ Board.getSide (B.getSquare ⟨i⟩).getSideBit ≠ B.getMovingSide
    ∧ (sweep B).evalContext.enemyCount (Board.getSide (B.getSquare ⟨i⟩).getSideBit) i > 0

end Engine

/-- A board on which both kings are attacked: black king a1, black rook h1, white rook a8,
white king h8, White to move. -/
def bothKingsAttacked : Board :=
  Board.ofList ([14, 0, 0, 0, 0, 0, 0, 10] ++ List.replicate 48 0 ++ [2, 0, 0, 0, 0, 0, 0, 6]) 0

namespace Engine

/-- The evaluator reads only cells of the `squares` array on this board: no pawn stands on
the last row of its side (the capture branch of a pawn reads the square diagonally ahead
without a check of the row). -/
def InBounds (B : Board) : Prop :=
  ∀ i, i < 64 → (B.getSquare ⟨i⟩).getPieceType = PieceType.PAWN_PIECE →
    rowcolok (((⟨i⟩ : Position).getRow : Int)
      + Board.getSideSign (Board.getSide (B.getSquare ⟨i⟩).getSideBit)) = true

end Engine

namespace Engine

/-- The listed moves by target row `r`, target column `c`, move kind `ty` and promotion `pr`,
for the piece on square index `i`: a pawn's forward move, twice-forward move, regular capture
and en-passant capture, a move of a rook, knight, bishop or queen, a step of the king, and a
castling move. -/
def Listed (B : Board) (E : Nat → Int) (i : Nat) (r c : Int) (ty pr : Nat) : Prop :=
  ((B.getSquare ⟨i⟩).getPieceType = PieceType.PAWN_PIECE
    ∧ Board.getSide (B.getSquare ⟨i⟩).getSideBit = B.getMovingSide
    ∧ r = ((⟨i⟩ : Position).getRow : Int)
        + Board.getSideSign (Board.getSide (B.getSquare ⟨i⟩).getSideBit)
    ∧ c = ((⟨i⟩ : Position).getCol : Int)
    ∧ (B.getSquare (Position.ofRC r c)).getPieceType = PieceType.NO_PIECE
    ∧ ty = MoveType.MOVE
    ∧ pr = promotionOf (Board.getSide (B.getSquare ⟨i⟩).getSideBit) r)
  ∨ ((B.getSquare ⟨i⟩).getPieceType = PieceType.PAWN_PIECE
    ∧ Board.getSide (B.getSquare ⟨i⟩).getSideBit = B.getMovingSide
    ∧ ((⟨i⟩ : Position).getRow : Int)
        = (if Board.getSide (B.getSquare ⟨i⟩).getSideBit = Side.WHITE then 1 else 6)
    ∧ r = ((⟨i⟩ : Position).getRow : Int)
        + 2 * Board.getSideSign (Board.getSide (B.getSquare ⟨i⟩).getSideBit)
    ∧ c = ((⟨i⟩ : Position).getCol : Int)
    ∧ (B.getSquare (Position.ofRC r c)).getPieceType = PieceType.NO_PIECE
    ∧ ty = MoveType.MOVE ∧ pr = PieceType.NO_PIECE)
  ∨ ((B.getSquare ⟨i⟩).getPieceType = PieceType.PAWN_PIECE
    ∧ Board.getSide (B.getSquare ⟨i⟩).getSideBit = B.getMovingSide
    ∧ r = ((⟨i⟩ : Position).getRow : Int)
        + Board.getSideSign (Board.getSide (B.getSquare ⟨i⟩).getSideBit)
    ∧ (c = ((⟨i⟩ : Position).getCol : Int) - 1 ∨ c = ((⟨i⟩ : Position).getCol : Int) + 1)
    ∧ (B.getSquare (Position.ofRC r c)).getPieceType ≠ PieceType.NO_PIECE
    ∧ (B.getSquare (Position.ofRC r c)).getSideBit ≠ (B.getSquare ⟨i⟩).getSideBit
    ∧ ty = MoveType.CAPTURE
    ∧ pr = promotionOf (Board.getSide (B.getSquare ⟨i⟩).getSideBit) r)
  ∨ ((B.getSquare ⟨i⟩).getPieceType = PieceType.PAWN_PIECE
    ∧ r = ((⟨i⟩ : Position).getRow : Int)
        + Board.getSideSign (Board.getSide (B.getSquare ⟨i⟩).getSideBit)
    ∧ (c = ((⟨i⟩ : Position).getCol : Int) - 1 ∨ c = ((⟨i⟩ : Position).getCol : Int) + 1)
    ∧ (B.getSquare (Position.ofRC ((⟨i⟩ : Position).getRow : Int) c)).getPieceType
        = PieceType.PAWN_PIECE
    ∧ (B.getSquare (Position.ofRC ((⟨i⟩ : Position).getRow : Int) c)).getSideBit
        ≠ (B.getSquare ⟨i⟩).getSideBit
    ∧ (B.getSquare (Position.ofRC ((⟨i⟩ : Position).getRow : Int) c)).getPawnMovedTwiceBit
        = PawnMovedTwiceBit.YES
    ∧ ty = MoveType.CAPTURE ∧ pr = PieceType.NO_PIECE)
  ∨ (((B.getSquare ⟨i⟩).getPieceType = PieceType.ROOK_PIECE
      ∨ (B.getSquare ⟨i⟩).getPieceType = PieceType.KNIGHT_PIECE
      ∨ (B.getSquare ⟨i⟩).getPieceType = PieceType.BISHOP_PIECE
      ∨ (B.getSquare ⟨i⟩).getPieceType = PieceType.QUEEN_PIECE)
    ∧ Board.getSide (B.getSquare ⟨i⟩).getSideBit = B.getMovingSide
    ∧ freeFor B (Board.getSide (B.getSquare ⟨i⟩).getSideBit) (Position.ofRC r c)
    ∧ ty = moveTypeOf (B.getSquare (Position.ofRC r c)) ∧ pr = PieceType.NO_PIECE)
  ∨ ((B.getSquare ⟨i⟩).getPieceType = PieceType.KING_PIECE
    ∧ Board.getSide (B.getSquare ⟨i⟩).getSideBit = B.getMovingSide
    ∧ (r - ((⟨i⟩ : Position).getRow : Int) = -1 ∨ r - ((⟨i⟩ : Position).getRow : Int) = 0
      ∨ r - ((⟨i⟩ : Position).getRow : Int) = 1)
    ∧ (c - ((⟨i⟩ : Position).getCol : Int) = -1 ∨ c - ((⟨i⟩ : Position).getCol : Int) = 0
      ∨ c - ((⟨i⟩ : Position).getCol : Int) = 1)
    ∧ ¬ (c = ((⟨i⟩ : Position).getCol : Int) ∧ r = ((⟨i⟩ : Position).getRow : Int))
    ∧ freeFor B (Board.getSide (B.getSquare ⟨i⟩).getSideBit) (Position.ofRC r c)
    ∧ ¬ E (Position.ofRC r c).data > 0
    ∧ ty = moveTypeOf (B.getSquare (Position.ofRC r c)) ∧ pr = PieceType.NO_PIECE)
  ∨ ((B.getSquare ⟨i⟩).getPieceType = PieceType.KING_PIECE
    ∧ Board.getSide (B.getSquare ⟨i⟩).getSideBit = B.getMovingSide
    ∧ (⟨i⟩ : Position).getCol = 4
    ∧ (B.getSquare ⟨i⟩).getMovedBit = MovedBit.NO
    ∧ E i = 0
    ∧ r = ((⟨i⟩ : Position).getRow : Int)
    ∧ ((c = 6
        ∧ (B.getSquare (Position.ofRC r 7)).getPieceType = PieceType.ROOK_PIECE
        ∧ (B.getSquare (Position.ofRC r 7)).getMovedBit = MovedBit.NO
        ∧ (∀ middleCol : Int, middleCol ∈ [5, 6] →
            (B.getSquare (Position.ofRC r middleCol)).getPieceType = PieceType.NO_PIECE
            ∧ E (Position.ofRC r middleCol).data = 0))
      ∨ (c = 2
        ∧ (B.getSquare (Position.ofRC r 0)).getPieceType = PieceType.ROOK_PIECE
        ∧ (B.getSquare (Position.ofRC r 0)).getMovedBit = MovedBit.NO
        ∧ (∀ middleCol : Int, middleCol ∈ [1, 2, 3] →
            (B.getSquare (Position.ofRC r middleCol)).getPieceType = PieceType.NO_PIECE
            ∧ E (Position.ofRC r middleCol).data = 0)))
    ∧ ty = MoveType.MOVE ∧ pr = PieceType.NO_PIECE)

end Engine

namespace Engine

/-- The move is, by its shape on the board, a one-step advance or a regular diagonal capture
of a pawn onto the last row of the pawn's side. -/
def PromotingPawnMove (B : Board) (m : Move) : Prop :=
  (B.getSquare m.getFrom).getPieceType = PieceType.PAWN_PIECE
  ∧ (m.getTo.getRow : Int) = (m.getFrom.getRow : Int)
      + Board.getSideSign (Board.getSide (B.getSquare m.getFrom).getSideBit)
  ∧ ((Board.getSide (B.getSquare m.getFrom).getSideBit = Side.WHITE
        ∧ (m.getTo.getRow : Int) = 7)
    ∨ (Board.getSide (B.getSquare m.getFrom).getSideBit = Side.BLACK
        ∧ (m.getTo.getRow : Int) = 0))
  ∧ ((m.getTo.getCol : Int) = (m.getFrom.getCol : Int)
    ∨ (((m.getTo.getCol : Int) = (m.getFrom.getCol : Int) - 1
        ∨ (m.getTo.getCol : Int) = (m.getFrom.getCol : Int) + 1)
      ∧ (B.getSquare m.getTo).getPieceType ≠ PieceType.NO_PIECE
      ∧ (B.getSquare m.getTo).getSideBit ≠ (B.getSquare m.getFrom).getSideBit))

/-- The moved-twice bit is set only on squares of rows 3 and 4. -/
def FlagsOnMiddleRows (B : Board) : Prop :=
  ∀ i, i < 64 → (B.getSquare ⟨i⟩).getPawnMovedTwiceBit = PawnMovedTwiceBit.YES →
    ((⟨i⟩ : Position).getRow : Int) = 3 ∨ ((⟨i⟩ : Position).getRow : Int) = 4

end Engine

/-- A board with the moved-twice bit on row 6: white pawn a7, black pawn b7 carrying the bit,
black rook b8, White to move. -/
def flaggedRow6Board : Board :=
  Board.ofList (List.replicate 48 0 ++ [1, 41, 0, 0, 0, 0, 0, 0, 0, 10]) 0

namespace Engine

/-- The conditions of one castling block of the king branch for the king on square `i`: the
king has not moved and is not attacked, the square on column `rookCol` of its row holds a rook
that has not moved, and the squares on the columns `middleCols` are empty and not attacked. -/
def CastleCond (B : Board) (i : Nat) (rookCol : Int) (middleCols : List Int) : Prop :=
  (B.getSquare ⟨i⟩).getMovedBit = MovedBit.NO
  ∧ attackedBy B i = 0
  ∧ (B.getSquare (Position.ofRC ((⟨i⟩ : Position).getRow : Int) rookCol)).getPieceType
      = PieceType.ROOK_PIECE
  ∧ (B.getSquare (Position.ofRC ((⟨i⟩ : Position).getRow : Int) rookCol)).getMovedBit
      = MovedBit.NO
  ∧ ∀ middleCol : Int, middleCol ∈ middleCols →
      (B.getSquare (Position.ofRC ((⟨i⟩ : Position).getRow : Int) middleCol)).getPieceType
        = PieceType.NO_PIECE
      ∧ attackedBy B (Position.ofRC ((⟨i⟩ : Position).getRow : Int) middleCol).data = 0

end Engine

/-- The second board of the castling test: the rook of a1 has moved to a2 and back. -/
def castlingRookMoved : Board :=
  Board.makeMoveM (Board.makeMoveM (Board.makeMoveM (Board.makeMoveM castlingBoard
    (Move.make (Position.make 0 0) (Position.make 1 0) MoveType.MOVE PieceType.NO_PIECE))
    (Move.make (Position.make 0 0) (Position.make 0 0) MoveType.MOVE PieceType.NO_PIECE))
    (Move.make (Position.make 1 0) (Position.make 0 0) MoveType.MOVE PieceType.NO_PIECE))
    (Move.make (Position.make 0 0) (Position.make 0 0) MoveType.MOVE PieceType.NO_PIECE)

/-- The third board of the castling test: a white pawn blocks g1. -/
def castlingBlocked : Board :=
  castlingBoard.setSquare (Position.make 0 6)
    (Square.make PieceType.PAWN_PIECE SideBit.WHITE MovedBit.NO PawnMovedTwiceBit.NO)

/-- The fourth board of the castling test: a black rook on c8 attacks c1. -/
def castlingAttacked : Board :=
  castlingBlocked.setSquare (Position.make 7 2)
    (Square.make PieceType.ROOK_PIECE SideBit.BLACK MovedBit.NO PawnMovedTwiceBit.NO)

namespace Engine

/-- The loops of the piece `square` step by `(dRow, dCol)`: a rook or queen along the four
rook directions, a bishop or queen along the four bishop directions. -/
def SliderDir (square : Square) (dRow dCol : Int) : Prop :=
  ((square.getPieceType = PieceType.ROOK_PIECE ∨ square.getPieceType = PieceType.QUEEN_PIECE)
      ∧ (dRow, dCol) ∈ rookDirs)
    ∨ ((square.getPieceType = PieceType.BISHOP_PIECE
        ∨ square.getPieceType = PieceType.QUEEN_PIECE) ∧ (dRow, dCol) ∈ bishopDirs)

/-- The square `(r, c)` is the `n`-th square, `n ≥ 1`, of a ray of the piece on square `i`,
the squares of the ray before it are empty, and it is empty or holds a piece of the other
side. -/
def RayTarget (B : Board) (i : Nat) (r c : Int) : Prop :=
  ∃ (dRow dCol : Int) (n : Nat), SliderDir (B.getSquare ⟨i⟩) dRow dCol ∧ 1 ≤ n
    ∧ r = ((⟨i⟩ : Position).getRow : Int) + n * dRow
    ∧ c = ((⟨i⟩ : Position).getCol : Int) + n * dCol
    ∧ (∀ j : Nat, 1 ≤ j → j < n →
        (B.getSquare (Position.ofRC (((⟨i⟩ : Position).getRow : Int) + j * dRow)
          (((⟨i⟩ : Position).getCol : Int) + j * dCol))).getPieceType = PieceType.NO_PIECE)
    ∧ freeFor B (Board.getSide (B.getSquare ⟨i⟩).getSideBit) (Position.ofRC r c)

end Engine

/-- The board of the pawn-rook test: white pawns d2 and h4, white rook c4, black pawn c3,
White to move. -/
def pawnRookBoard : Board :=
  ((((Board.empty.setSquare (Position.make 1 3)
      (Square.make PieceType.PAWN_PIECE SideBit.WHITE MovedBit.NO PawnMovedTwiceBit.NO)).setSquare
    (Position.make 3 7)
      (Square.make PieceType.PAWN_PIECE SideBit.WHITE MovedBit.NO PawnMovedTwiceBit.NO)).setSquare
    (Position.make 3 2)
      (Square.make PieceType.ROOK_PIECE SideBit.WHITE MovedBit.NO PawnMovedTwiceBit.NO)).setSquare
    (Position.make 2 2)
      (Square.make PieceType.PAWN_PIECE SideBit.BLACK MovedBit.NO PawnMovedTwiceBit.NO)).setMovingSide
    Side.WHITE

namespace Engine

/-- The boards of a game: the standard starting position, and every board produced by
applying with `makeMove` a move of the move list `evaluateBoard` gives for a board of a
game. -/
inductive Reachable : Board → Prop
  | start : Reachable Board.start
  | step (B : Board) (m : Move) :
      Reachable B → m ∈ (evaluateBoard B).moves → Reachable (Board.makeMoveM B m)

/-- Every square that carries the moved-twice bit holds a pawn of the side that is not to
move, on row 3 or 4. -/
def FlagInv (B : Board) : Prop :=
  ∀ i, i < 64 → (B.getSquare ⟨i⟩).getPawnMovedTwiceBit = PawnMovedTwiceBit.YES →
    (B.getSquare ⟨i⟩).getPieceType = PieceType.PAWN_PIECE
    ∧ (((⟨i⟩ : Position).getRow : Int) = 3 ∨ ((⟨i⟩ : Position).getRow : Int) = 4)
    ∧ Board.getSide (B.getSquare ⟨i⟩).getSideBit ≠ B.getMovingSide

end Engine

/-- The board of the en-passant test: white pawns a2 and b2, black pawns c4 and g4, White to
move. -/
def enpassantBoard : Board :=
  ((((Board.empty.setSquare (Position.make 1 0)
      (Square.make PieceType.PAWN_PIECE SideBit.WHITE MovedBit.NO PawnMovedTwiceBit.NO)).setSquare
    (Position.make 1 1)
      (Square.make PieceType.PAWN_PIECE SideBit.WHITE MovedBit.NO PawnMovedTwiceBit.NO)).setSquare
    (Position.make 3 2)
      (Square.make PieceType.PAWN_PIECE SideBit.BLACK MovedBit.NO PawnMovedTwiceBit.NO)).setSquare
    (Position.make 3 6)
      (Square.make PieceType.PAWN_PIECE SideBit.BLACK MovedBit.NO PawnMovedTwiceBit.NO)).setMovingSide
    Side.WHITE

/-- The board of the en-passant test with a white king on d3, next to the black pawn c4. -/
def enpassantKingBoard : Board :=
  enpassantBoard.setSquare (Position.make 2 3)
    (Square.make PieceType.KING_PIECE SideBit.WHITE MovedBit.NO PawnMovedTwiceBit.NO)

namespace Engine

/-- The attack count of the side `pieceSide` itself at an index. -/
def HeuristicsContext.ownCount (evalContext : HeuristicsContext) (pieceSide : Side)
    (i : Nat) : Int :=
  match pieceSide with
  | Side.WHITE => evalContext.whiteAttackCount i
  | Side.BLACK => evalContext.blackAttackCount i

/-- The safety term of the square with index `i`, in the words of the specification: for a
piece other than a king with `a` attackers of the other side and `d` defenders of its own
side, -75 times the sign of the piece if `a > d`, plus 20 times the sign if `a = 0` and
`d > 0`; nothing for an empty square and for a king. -/
def safetyTermSpec (B : Board) (evalContext : HeuristicsContext) (i : Nat) : Int :=
  if (B.getSquare ⟨i⟩).getPieceType = PieceType.NO_PIECE
      ∨ (B.getSquare ⟨i⟩).getPieceType = PieceType.KING_PIECE then 0
  else
    (if evalContext.enemyCount (Board.getSide (B.getSquare ⟨i⟩).getSideBit) i
        > evalContext.ownCount (Board.getSide (B.getSquare ⟨i⟩).getSideBit) i
      then -75 * Board.getSideSign (Board.getSide (B.getSquare ⟨i⟩).getSideBit) else 0)
    + (if evalContext.enemyCount (Board.getSide (B.getSquare ⟨i⟩).getSideBit) i = 0
        ∧ evalContext.ownCount (Board.getSide (B.getSquare ⟨i⟩).getSideBit) i > 0
      then 20 * Board.getSideSign (Board.getSide (B.getSquare ⟨i⟩).getSideBit) else 0)

/-- The statement `record.score += term` on an `int16_t` score, executed only for a term
other than 0. -/
def addTerm (score term : Int) : Int :=
  if term = 0 then score else wrapI16 (score + term)

end Engine

/-- A lone white rook on a1, White to move. -/
def loneWhiteRook : Board := Board.ofList [2] 0

/-! ## engine.cpp: the search -/

/-- The function `operator==` on boards: the 64 squares and the game state. -/
def Board.beq (lhs rhs : Board) : Bool :=
  (List.range 64).all (fun i => (lhs.squares i).data == (rhs.squares i).data)
    && lhs.gamestate == rhs.gamestate

/-- The enumeration `EvalResultCode`. -/
inductive EvalResultCode where
  | SUCCESS
  | TIMEOUT
  | LOOP
deriving DecidableEq, Repr

/-- The struct `EvalResult`. The pointer `record` is the key of the record in the table
`evals`, `none` for `nullptr`. -/
structure EvalResult where
  record : Option Board
  result : EvalResultCode
  score : Int

/-- The struct `EvalContext`. The clock is a function `elapsedMs` of the number of evaluated
nodes: the value `getMsSinceStartTime()` returns when it is called at that count. -/
structure EvalContext where
  nodesEvaluated : Nat
  depthAchieved : Int
  depthRequired : Int
  nodesEvaluatedCallbackInterval : Nat
  allowedRunTimeMs : Int
  elapsedMs : Nat → Int

/-- The constructor `EvalContext(trackTime, allowedTimeMs, depthRequired)`. -/
def EvalContext.make (allowedTimeMs depthRequired : Int) (elapsedMs : Nat → Int) : EvalContext :=
  ⟨0, 0, depthRequired, 1000, allowedTimeMs, elapsedMs⟩

/-- The function `EvalContext::searchShouldTimeout`. -/
def EvalContext.searchShouldTimeout (context : EvalContext) : Bool :=
  decide (context.depthAchieved ≥ context.depthRequired) && decide (context.allowedRunTimeMs > 0)
    && decide (context.elapsedMs context.nodesEvaluated > 2 * context.allowedRunTimeMs)

/-- The table `evals`: the boards in the order of their insertion, each with its record. -/
abbrev Cache := List (Board × EvalRecord)

namespace Cache

/-- The call `evals.find(board)`. -/
def find (evals : Cache) (board : Board) : Option EvalRecord :=
  match evals with
  | [] => none
  | (b, r) :: rest => if b.beq board then some r else find rest board

/-- The call `evals.insert` for a board that `find` did not find. -/
def insert (evals : Cache) (board : Board) (record : EvalRecord) : Cache :=
  evals ++ [(board, record)]

/-- A write through the pointer `record` to the record of `board`. -/
def modify (evals : Cache) (board : Board) (f : EvalRecord → EvalRecord) : Cache :=
  evals.map (fun e => if e.1.beq board then (e.1, f e.2) else e)

end Cache

namespace Engine

abbrev MAX_DEPTH : Int := 6
abbrev DISTANT_CHECKMATE_DECAY : Int := -5

/-- The struct `MoveScore`; the pointer `record` is the key of the record of the child
board, `none` for `nullptr`. -/
structure MoveScore where
  move : Move
  movingSide : Side
  record : Option Board

/-- The record a `MoveScore` points to, read from the table. -/
def MoveScore.deref (evals : Cache) (ms : MoveScore) : Option EvalRecord :=
  match ms.record with
  | none => none
  | some b => evals.find b

/-- The value `typeScore` of `bestScoreFirst`. -/
def typeScore (move : Move) : Int :=
  if move.getMoveType = MoveType.CAPTURE then 1 else 0

/-- The value `lscore` / `rscore` of `bestScoreFirst` for a record. -/
def orderScore (movingSide : Side) (record : EvalRecord) : Int :=
  if record.evalStatus = EvalStatus.DONE_PARTIAL then
    (if movingSide = Side.WHITE then record.minWhite else record.maxBlack)
  else record.score

/-- The function `MoveScore::bestScoreFirst`, on the records the table holds. -/
def bestScoreFirst (evals : Cache) (lhs rhs : MoveScore) : Bool :=
  match lhs.deref evals, rhs.deref evals with
  | none, none =>
    if typeScore lhs.move ≠ typeScore rhs.move then
      decide (typeScore lhs.move > typeScore rhs.move)
    else decide (lhs.move.data < rhs.move.data)
  | some _, none => true
  | none, some _ => false
  | some lrec, some rrec =>
    if lrec.evalStatus ≠ rrec.evalStatus then
      decide (lrec.evalStatus = EvalStatus.DONE_COMPLETE)
    else
      let lscore := orderScore lhs.movingSide lrec
      let rscore := orderScore rhs.movingSide rrec
      if lscore = rscore then
        if typeScore lhs.move ≠ typeScore rhs.move then
          decide (typeScore lhs.move > typeScore rhs.move)
        else if lrec.score ≠ rrec.score then
          (if lhs.movingSide = Side.WHITE then decide (lrec.score > rrec.score)
            else decide (lrec.score < rrec.score))
        else decide (lhs.move.data < rhs.move.data)
      else
        (if lhs.movingSide = Side.WHITE then decide (lscore > rscore)
          else decide (lscore < rscore))

/-- Insertion of an element into a list sorted by `lt`, before the first element it
precedes. -/
def insertBy (lt : MoveScore → MoveScore → Bool) (x : MoveScore) : List MoveScore → List MoveScore
  | [] => [x]
  | y :: rest => if lt x y then x :: y :: rest else y :: insertBy lt x rest

/-- The call `std::sort(first, last, lt)` on a list: a sorted permutation. -/
def sortBy (lt : MoveScore → MoveScore → Bool) : List MoveScore → List MoveScore
  | [] => []
  | x :: rest => insertBy lt x (sortBy lt rest)

/-- The function `sortMoveScores`: the slice `[sortBeginIndex, sortEndIndex)` of `moveScores`
is sorted and its moves are copied to the same slice of `moves`. -/
def sortMoveScores (evals : Cache) (moveScores : List MoveScore) (moves : List Move)
    (sortBeginIndex sortEndIndex : Nat) : List MoveScore × List Move :=
  let sorted := sortBy (bestScoreFirst evals)
    ((moveScores.drop sortBeginIndex).take (sortEndIndex - sortBeginIndex))
  (moveScores.take sortBeginIndex ++ sorted ++ moveScores.drop sortEndIndex,
    moves.take sortBeginIndex ++ sorted.map (fun ms => ms.move) ++ moves.drop sortEndIndex)

/-- The enumeration `SearchMode`. -/
inductive SearchMode where
  | REGULAR
  | QUIET
deriving DecidableEq, Repr

/-- The table and the context, which `evaluate` updates. -/
structure SearchState where
  evals : Cache
  context : EvalContext

/-- The local variables of `evaluate` that the loop over the moves updates. -/
structure LoopState where
  newScore : Int
  bestMoveIndex : Nat
  bestMove : Move
  minWhite : Int
  maxBlack : Int
  moveScores : List MoveScore

/-- Outcome of one iteration of the loop over the moves: the loop goes on, or `evaluate`
returns. -/
inductive LoopOutcome where
  | next (s : SearchState) (l : LoopState)
  | done (s : SearchState) (r : EvalResult)

/-- The value `searchMode` of `evaluate`. -/
def searchModeOf (record : EvalRecord) (toDepth : Int) : SearchMode :=
  if (record.evalDepth : Int) < toDepth then SearchMode.REGULAR else SearchMode.QUIET

/-- The value `examineMove` of the loop over the moves. -/
def examineMove (searchMode : SearchMode) (record : EvalRecord) (move : Move) : Bool :=
  decide (searchMode = SearchMode.REGULAR) || !record.isQuietPosition
    || decide (move.getMoveType = MoveType.CAPTURE)

/-- The writes of a cutoff: the bound, the status, the depths and the best move are stored in
the record of `board`, then the slice `[1, moveIndex + 1)` of the moves is sorted. -/
def cutoffWrites (evals : Cache) (board : Board) (record : EvalRecord) (toDepth toQsDepth : Int)
    (moveIndex : Nat) (move : Move) (moveScores : List MoveScore)
    (setBound : EvalRecord → EvalRecord) : Cache :=
  let evals := evals.modify board (fun r =>
    { setBound r with evalStatus := EvalStatus.DONE_PARTIAL, evalDepth := toU8 toDepth,
                      qsEvalDepth := toU8 toQsDepth, bestMove := move })
  let sorted := sortMoveScores evals moveScores record.moves 1 (moveIndex + 1)
  evals.modify board (fun r => { r with moves := sorted.2 })

/-- What the loop does with the result of the recursive call for the move at `moveIndex`. -/
def afterChild (board : Board) (record : EvalRecord) (toDepth toQsDepth : Int)
    (moveIndex : Nat) (move : Move) (s : SearchState) (l : LoopState)
    (nextEvalResult : EvalResult) : LoopOutcome :=
  match nextEvalResult.result with
  | EvalResultCode.TIMEOUT =>
    LoopOutcome.done
      { s with evals := s.evals.modify board (fun r =>
          { r with evalStatus := EvalStatus.DONE_COMPLETE, evalDepth := 0, qsEvalDepth := 0 }) }
      ⟨none, EvalResultCode.TIMEOUT, 0⟩
  | EvalResultCode.LOOP => LoopOutcome.next s l
  | EvalResultCode.SUCCESS =>
    let l := { l with moveScores :=
      l.moveScores.set moveIndex ⟨move, board.getMovingSide, nextEvalResult.record⟩ }
    let l :=
      if (board.getMovingSide = Side.WHITE ∧ l.newScore < nextEvalResult.score)
          ∨ (board.getMovingSide = Side.BLACK ∧ l.newScore > nextEvalResult.score) then
        { l with newScore := nextEvalResult.score, bestMoveIndex := moveIndex, bestMove := move }
      else l
    if board.getMovingSide = Side.WHITE then
      -- alphabeta max
      if l.newScore ≥ l.maxBlack then
        let evals := cutoffWrites s.evals board record toDepth toQsDepth moveIndex move
          l.moveScores (fun r => { r with maxBlack := l.maxBlack })
        LoopOutcome.done { s with evals := evals } ⟨some board, EvalResultCode.SUCCESS, l.maxBlack⟩
      else
        LoopOutcome.next s
          (if l.newScore > l.minWhite then { l with minWhite := l.newScore } else l)
    else
      -- alphabeta min
      if l.newScore ≤ l.minWhite then
        let evals := cutoffWrites s.evals board record toDepth toQsDepth moveIndex move
          l.moveScores (fun r => { r with minWhite := l.minWhite })
        LoopOutcome.done { s with evals := evals } ⟨some board, EvalResultCode.SUCCESS, l.minWhite⟩
      else
        LoopOutcome.next s
          (if l.newScore < l.maxBlack then { l with maxBlack := l.newScore } else l)

/-- The loop over the moves of `evaluate`, from index `moveIndex` over the moves `moves` that
are left. The record of `board` has status IN_EVALUATION while the loop runs, so no recursive
call writes to it and the loop reads it as it was before the loop: `record`. `recurse` is
`evaluate` with less fuel. -/
def searchLoop
    (recurse : Board → SearchState → Int → Int → Int → Int → Bool →
      Option (SearchState × EvalResult))
    (board : Board) (record : EvalRecord) (searchMode : SearchMode) (toDepth toQsDepth : Int) :
    List Move → Nat → SearchState → LoopState → Option LoopOutcome
  | [], _, s, l => some (LoopOutcome.next s l)
  | move :: rest, moveIndex, s, l =>
    if !examineMove searchMode record move then
      searchLoop recurse board record searchMode toDepth toQsDepth rest (moveIndex + 1) s l
    else
      let quietMove := record.isQuietPosition && decide (move.getMoveType = MoveType.MOVE)
      let nextBoard := Board.makeMove board move.getFrom move.getTo move.getPromotionType
      match recurse nextBoard s (if toDepth > 0 then toDepth - 1 else 0) l.minWhite l.maxBlack
          (if toDepth > 0 then toQsDepth else wrapI16 (toQsDepth - 1)) quietMove with
      | none => none
      | some (s2, nextEvalResult) =>
        match afterChild board record toDepth toQsDepth moveIndex move s2 l nextEvalResult with
        | LoopOutcome.done s3 r => some (LoopOutcome.done s3 r)
        | LoopOutcome.next s3 l3 =>
          searchLoop recurse board record searchMode toDepth toQsDepth rest (moveIndex + 1) s3 l3

/-- The mate-distance adjustment of the end of `evaluate`. -/
def mateDecay (score : Int) : Int :=
  if score.natAbs > AFTER_CHECKMATE_SCORE / 2 then
    wrapI16 (score + (if score > 0 then DISTANT_CHECKMATE_DECAY else -DISTANT_CHECKMATE_DECAY))
  else score

/-- The end of `evaluate`, after the loop has run over all moves: the score, the status, the
depths and the best move are stored in the record of `board`, the moves are sorted, and the
score is adjusted for the distance to mate. -/
def finish (board : Board) (record : EvalRecord) (toDepth toQsDepth : Int) (s : SearchState)
    (l : LoopState) : SearchState × EvalResult :=
  let score := if l.newScore ≠ MIN_SCORE ∧ l.newScore ≠ MAX_SCORE then l.newScore else record.score
  let evals := s.evals.modify board (fun r =>
    { r with score := score, evalStatus := EvalStatus.DONE_COMPLETE,
             evalDepth := toU8 toDepth, qsEvalDepth := toU8 toQsDepth, bestMove := l.bestMove })
  let sorted := sortMoveScores evals l.moveScores record.moves 0 record.moves.length
  let evals := evals.modify board (fun r => { r with moves := sorted.2, score := mateDecay score })
  ({ s with evals := evals }, ⟨some board, EvalResultCode.SUCCESS, mateDecay score⟩)

/-- The start of `evaluate`: the record of `board` is looked up; when there is none, the
record `evaluateBoard` gives is inserted and the node is counted. The flag tells whether the
search times out at this node. -/
def lookupRecord (s : SearchState) (board : Board) : SearchState × Bool :=
  match s.evals.find board with
  | some _ => (s, false)
  | none =>
    let s : SearchState :=
      ⟨s.evals.insert board (evaluateBoard board),
        { s.context with nodesEvaluated := s.context.nodesEvaluated + 1 }⟩
    (s, s.context.nodesEvaluated % s.context.nodesEvaluatedCallbackInterval = 0
          && s.context.searchShouldTimeout)

/-- The handling of a record of status DONE_PARTIAL: the score `evaluate` returns at once
when the depths of the record suffice and its bound cuts the window. -/
def partialCutoff (board : Board) (record : EvalRecord)
    (toDepth minWhite maxBlack toQsDepth : Int) : Option Int :=
  if record.evalStatus = EvalStatus.DONE_PARTIAL
      ∧ (record.evalDepth : Int) ≥ toDepth ∧ (record.qsEvalDepth : Int) ≥ toQsDepth then
    if board.getMovingSide = Side.WHITE ∧ record.maxBlack ≥ maxBlack then some maxBlack
    else if board.getMovingSide = Side.BLACK ∧ record.minWhite ≤ minWhite then some minWhite
    else none
  else none

/-- A record of status DONE_PARTIAL that is of no use to the search is reset. -/
def resetPartial (s : SearchState) (board : Board) (record : EvalRecord) : SearchState :=
  if record.evalStatus = EvalStatus.DONE_PARTIAL then
    { s with evals := s.evals.modify board (fun r =>
        { r with evalDepth := 0, qsEvalDepth := 0, evalStatus := EvalStatus.DONE_COMPLETE }) }
  else s

/-- The value `quietAndDepthAchieved || notQuietAndDepthAchievedAndQsDepthAchived`. -/
def depthAchieved (record : EvalRecord) (toDepth toQsDepth : Int) (fromQuietMove : Bool) :
    Bool :=
  let quietSearchRequired := !record.isQuietPosition || !fromQuietMove
  let quietAndDepthAchieved := decide ((record.evalDepth : Int) ≥ toDepth) && !quietSearchRequired
  let notQuietAndDepthAchievedAndQsDepthAchived :=
    decide ((record.evalDepth : Int) ≥ toDepth) && decide ((record.qsEvalDepth : Int) ≥ toQsDepth)
  quietAndDepthAchieved || notQuietAndDepthAchievedAndQsDepthAchived

/-- The statement `record->evalStatus = EvalStatus::IN_EVALUATION`. -/
def markInEvaluation (s : SearchState) (board : Board) : SearchState :=
  { s with evals := s.evals.modify board (fun r =>
      { r with evalStatus := EvalStatus.IN_EVALUATION }) }

/-- The local variables of `evaluate` before the loop over the moves. -/
def initLoop (board : Board) (record : EvalRecord) (minWhite maxBlack : Int) : LoopState :=
  ⟨if board.getMovingSide = Side.WHITE then MIN_SCORE else MAX_SCORE, 0, ⟨0⟩, minWhite, maxBlack,
    record.moves.map (fun move => (⟨move, board.getMovingSide, none⟩ : MoveScore))⟩

/-- The function `Engine::evaluate`. Each recursive call uses one unit of `fuel`; `none` is
returned when the fuel runs out. -/
def evaluate : Nat → Board → SearchState → Int → Int → Int → Int → Bool →
    Option (SearchState × EvalResult)
  | 0, _, _, _, _, _, _, _ => none
  | fuel + 1, board, s, toDepth, minWhite, maxBlack, toQsDepth, fromQuietMove =>
    if (lookupRecord s board).2 = true then
      some ((lookupRecord s board).1, ⟨none, EvalResultCode.TIMEOUT, 0⟩)
    else
      let s := (lookupRecord s board).1
      let record := (s.evals.find board).getD EvalRecord.new
      if record.evalStatus = EvalStatus.IN_EVALUATION then
        some (s, ⟨none, EvalResultCode.LOOP, 0⟩)
      else
        match partialCutoff board record toDepth minWhite maxBlack toQsDepth with
        | some score => some (s, ⟨some board, EvalResultCode.SUCCESS, score⟩)
        | none =>
          let s := resetPartial s board record
          let record := (s.evals.find board).getD EvalRecord.new
          if depthAchieved record toDepth toQsDepth fromQuietMove = true then
            some (s, ⟨some board, EvalResultCode.SUCCESS, record.score⟩)
          else
            match searchLoop (evaluate fuel) board record (searchModeOf record toDepth) toDepth
                toQsDepth record.moves 0 (markInEvaluation s board)
                (initLoop board record minWhite maxBlack) with
            | none => none
            | some (LoopOutcome.done s r) => some (s, r)
            | some (LoopOutcome.next s l) => some (finish board record toDepth toQsDepth s l)

abbrev TRIM_TABLE_SIZE : Nat := 10000 * 1000

/-- The loop over the depths of `findBestMove`, from `depth` on. `record` is the pointer
`record`; the list is the trace of the depths of the calls of `evaluate`, in their order.
Each iteration uses one unit of `fuel`, and each call of `evaluate` receives the fuel its
depths call for. -/
def depthLoop (board : Board) (toDepth toQsDepth allowedTimeMs : Int) :
    Nat → Int → Bool → SearchState → Option Board → List Int →
      Option (SearchState × Option Board × List Int)
  | 0, _, _, _, _, _ => none
  | fuel + 1, depth, haveTimeForMoreSearch, s, record, trace =>
    if depth ≤ toDepth ∨ haveTimeForMoreSearch = true then
      match evaluate (depth.toNat + toQsDepth.toNat + 1) board s depth MIN_SCORE MAX_SCORE
          toQsDepth true with
      | none => none
      | some (s, result) =>
        if result.result = EvalResultCode.SUCCESS then
          let s := { s with context := { s.context with depthAchieved := depth } }
          let haveTime := decide (allowedTimeMs > 0) && decide (depth < toDepth * 2)
            && decide (s.context.elapsedMs s.context.nodesEvaluated < Int.tdiv allowedTimeMs 6)
          depthLoop board toDepth toQsDepth allowedTimeMs fuel (depth + 1) haveTime s
            result.record (trace ++ [depth])
        else some (s, record, trace ++ [depth])
    else some (s, record, trace)

/-- The function `Engine::findBestMove`, up to the loop over the depths and without the
logging: the table after the search, the pointer `record`, and the trace of the depths of the
calls of `evaluate`. -/
def findBestMove (evals : Cache) (board : Board) (toDepth toQsDepth allowedTimeMs : Int)
    (elapsedMs : Nat → Int) : Option (SearchState × Option Board × List Int) :=
  let toDepth := if toDepth > MAX_DEPTH then MAX_DEPTH else toDepth
  let evalContext := EvalContext.make allowedTimeMs toDepth elapsedMs
  let evals := if evals.length > TRIM_TABLE_SIZE then [] else evals
  depthLoop board toDepth toQsDepth allowedTimeMs (2 * toDepth.toNat + 2) (min toDepth 3) false
    ⟨evals, evalContext⟩ none []

end Engine

/-- The first board of the quiet-search test: black pawns c6 and g3, white king h1, Black to
move. -/
def quietSearchBoard : Board :=
  (((Board.empty.setSquare (Position.make 5 2)
      (Square.make PieceType.PAWN_PIECE SideBit.BLACK MovedBit.NO PawnMovedTwiceBit.NO)).setSquare
    (Position.make 2 6)
      (Square.make PieceType.PAWN_PIECE SideBit.BLACK MovedBit.NO PawnMovedTwiceBit.NO)).setSquare
    (Position.make 0 7)
      (Square.make PieceType.KING_PIECE SideBit.WHITE MovedBit.NO PawnMovedTwiceBit.NO)).setMovingSide
    Side.BLACK

/-- The table holds for the board a record of status IN_EVALUATION. -/
def Cache.InEval (evals : Cache) (b : Board) : Prop :=
  ∃ r, evals.find b = some r ∧ r.evalStatus = EvalStatus.IN_EVALUATION

namespace Engine

/-- The lexicographic order on lists of integers: the first entry that differs decides. -/
def lexLt : List Int → List Int → Bool
  | [], _ => false
  | _ :: _, [] => false
  | a :: as, b :: bs => decide (a < b) || (decide (a = b) && lexLt as bs)

/-- The sort key of a move of a board with `side` to move, as the specification words the
order of the moves: moves with a child record come before moves without; among the moves
without, captures come before the other moves, then the lower wire value; among the moves
with, children of status DONE_COMPLETE come before the others, then the better score for the
side (for a child of status DONE_PARTIAL its `minWhite` when the side is White and its
`maxBlack` otherwise; the higher score is the better one for White, the lower one otherwise),
then captures before the other moves, then the better `score` of the child, then the lower
wire value. The move with the smaller key comes first. -/
def bestFirstKey (evals : Cache) (side : Side) (ms : MoveScore) : List Int :=
  let capture : Int := if ms.move.getMoveType = MoveType.CAPTURE then 0 else 1
  let sign : Int := if side = Side.WHITE then -1 else 1
  match ms.deref evals with
  | none => [1, 0, 0, capture, 0, (ms.move.data : Int)]
  | some child =>
    [0, if child.evalStatus = EvalStatus.DONE_COMPLETE then 0 else 1,
      sign * (if child.evalStatus = EvalStatus.DONE_PARTIAL then
        (if side = Side.WHITE then child.minWhite else child.maxBlack) else child.score),
      capture, sign * child.score, (ms.move.data : Int)]

/-- The list of move scores is in the order of the specification, best first. -/
def BestFirst (evals : Cache) (side : Side) (moveScores : List MoveScore) : Prop :=
  moveScores.Pairwise
    (fun a b => lexLt (bestFirstKey evals side b) (bestFirstKey evals side a) = false)

/-- No record of the table has the status NOT_EVALUATED. -/
def Cache.Evaluated (evals : Cache) : Prop :=
  ∀ b r, evals.find b = some r → r.evalStatus ≠ EvalStatus.NOT_EVALUATED

/-- The record of `board` that `evaluate` works on: the record of the table after the lookup,
with a status DONE_PARTIAL reset. -/
def entryRecord (s : SearchState) (board : Board) : EvalRecord :=
  ((resetPartial (lookupRecord s board).1 board
    (((lookupRecord s board).1.evals.find board).getD EvalRecord.new)).evals.find
      board).getD EvalRecord.new

end Engine

namespace Engine

/-- The vector `moveScores` of `evaluate` is in step with the moves of the record: it holds
the moves of `moves` in their order, each with the side to move of `board`, and a pointer that
is set points to the record of the board the move leads to, which is not of status
IN_EVALUATION. -/
def MoveScoresOk (evals : Cache) (board : Board) (moves : List Move)
    (moveScores : List MoveScore) : Prop :=
  moveScores.map (fun ms => ms.move) = moves ∧
  ∀ ms ∈ moveScores, ms.movingSide = board.getMovingSide ∧
    ∀ b, ms.record = some b →
      b = Board.makeMove board ms.move.getFrom ms.move.getTo ms.move.getPromotionType
      ∧ ¬ Cache.InEval evals b

end Engine

/-- A board with the two kings only: white king a1, black king h8, White to move. -/
def twoKingsBoard : Board :=
  ((Board.empty.setSquare (Position.make 0 0)
      (Square.make PieceType.KING_PIECE SideBit.WHITE MovedBit.NO PawnMovedTwiceBit.NO)).setSquare
    (Position.make 7 7)
      (Square.make PieceType.KING_PIECE SideBit.BLACK MovedBit.NO PawnMovedTwiceBit.NO)).setMovingSide
    Side.WHITE

namespace Engine

/-- The move scores of the moves `moves` of `board`, each with the pointer to the record of
the board the move leads to. -/
def childScores (board : Board) (moves : List Move) : List MoveScore :=
  moves.map (fun m => ⟨m, board.getMovingSide,
    some (Board.makeMove board m.getFrom m.getTo m.getPromotionType)⟩)

end Engine

/-! ## The mirror of a board -/

/-- The side other than `side`. -/
def Side.other (side : Side) : Side :=
  match side with
  | Side.WHITE => Side.BLACK
  | Side.BLACK => Side.WHITE

/-- The square with the side of its piece swapped; an empty square is left as it is. -/
def Square.swapSide (s : Square) : Square :=
  if s.getPieceType = PieceType.NO_PIECE then s
  else Square.make s.getPieceType
    (if s.getSideBit = SideBit.WHITE then SideBit.BLACK else SideBit.WHITE) s.getMovedBit
    s.getPawnMovedTwiceBit

/-- The index of the square `(7 - r, c)`, for the index of the square `(r, c)`. -/
def mirrorIndex (i : Nat) : Nat := if i < 64 then 8 * (7 - i / 8) + i % 8 else i

/-- A board mirrored: the square `(r, c)` holds what `B` holds on `(7 - r, c)`, with the side
swapped, and the other side is to move. -/
def Board.mirror (B : Board) : Board :=
  ⟨fun i => if i < 64 then (B.squares (mirrorIndex i)).swapSide else B.squares i,
    (B.setMovingSide B.getMovingSide.other).gamestate⟩

/-- The number of kings of a side on the board. -/
def Board.kingCount (B : Board) (side : Side) : Nat :=
  ((List.range 64).filter (fun i => decide ((B.squares i).getPieceType = PieceType.KING_PIECE
    ∧ Board.getSide (B.squares i).getSideBit = side))).length

/-- The number of pieces of a side on the board that are not kings. -/
def Board.otherCount (B : Board) (side : Side) : Nat :=
  ((List.range 64).filter (fun i => decide ((B.squares i).getPieceType ≠ PieceType.NO_PIECE
    ∧ (B.squares i).getPieceType ≠ PieceType.KING_PIECE
    ∧ Board.getSide (B.squares i).getSideBit = side))).length

namespace Engine

/-- An effect on the state of the sweep, mirrored: the change of the score negated, the number
of listed moves, and the changes of the attack counts on the mirrored squares. -/
def mirrorEff (e : Int × Nat × (Nat → Int)) : Int × Nat × (Nat → Int) :=
  (-e.1, e.2.1, fun j => e.2.2 (mirrorIndex j))

/-- A step of the sweep for a piece of side `side` acts as the effect `e` on every state whose
attack counts of the other side are `E`: it leaves these counts alone, adds `e.1` to the
score in 16-bit arithmetic, lists `e.2.1` moves, adds `e.2.2` to the attack counts of `side`,
and keeps the score in the range of `int16_t`. -/
def Acts (side : Side) (E : Nat → Int) (F : EvalState → EvalState)
    (e : Int × Nat × (Nat → Int)) : Prop :=
  ∀ st : EvalState, (∀ j, st.evalContext.enemyCount side j = E j) →
    (∀ j, (F st).evalContext.enemyCount side j = E j)
    ∧ ((F st).record.score - st.record.score - e.1) % 65536 = 0
    ∧ (F st).record.moves.length = st.record.moves.length + e.2.1
    ∧ (∀ j, (F st).evalContext.ownCount side j = st.evalContext.ownCount side j + e.2.2 j)
    ∧ (-32768 ≤ st.record.score ∧ st.record.score ≤ 32767 →
        -32768 ≤ (F st).record.score ∧ (F st).record.score ≤ 32767)

/-- Two steps of the sweep mirror each other: `F`, for a piece of side `side`, acts as an
effect, `F'`, for a piece of the other side, acts as the mirrored effect on the mirrored
attack counts, and the change of the score is a multiple of 5 of size at most `n`. -/
def Mir (side : Side) (E : Nat → Int) (n : Int) (F F' : EvalState → EvalState) : Prop :=
  ∃ e : Int × Nat × (Nat → Int), Acts side E F e
    ∧ Acts side.other (fun j => E (mirrorIndex j)) F' (mirrorEff e)
    ∧ |e.1| ≤ n ∧ 5 ∣ e.1

end Engine

namespace Engine

/-- A bound of the change of the score by the step of the sweep of side `side` for the square
of index `i`: nothing for an empty square or a piece of the other side, 20075 for a king, 1240
for another piece. -/
def stepBound (B : Board) (side : Side) (i : Nat) : Int :=
  if (B.getSquare ⟨i⟩).getPieceType = PieceType.NO_PIECE
      ∨ Board.getSide (B.getSquare ⟨i⟩).getSideBit ≠ side then 0
  else if (B.getSquare ⟨i⟩).getPieceType = PieceType.KING_PIECE then 20075
  else 1240

end Engine

namespace Engine

/-- A bound of the change of the score by the sweep of one side. -/
def sweepBound (B : Board) (side : Side) : Int :=
  ((List.range 64).map (stepBound B side)).sum

end Engine

namespace Engine

/-- The change of the score by one iteration of the attacker-count loop that does not return,
for the square of index `i`: the check penalty for a king on a square the other side attacks;
for another piece the penalty for more attackers than defenders and the bonus for defenders and
no attackers. -/
def passTerm (B : Board) (evalContext : HeuristicsContext) (i : Nat) : Int :=
  if (B.getSquare ⟨i⟩).getPieceType = PieceType.NO_PIECE then 0
  else if (B.getSquare ⟨i⟩).getPieceType = PieceType.KING_PIECE then
    (if evalContext.enemyCount (Board.getSide (B.getSquare ⟨i⟩).getSideBit) i > 0
      then CHECK_PENALTY * Board.getSideSign (Board.getSide (B.getSquare ⟨i⟩).getSideBit) else 0)
  else
    (if evalContext.enemyCount (Board.getSide (B.getSquare ⟨i⟩).getSideBit) i
        > evalContext.ownCount (Board.getSide (B.getSquare ⟨i⟩).getSideBit) i
      then UNDEFENDED_PIECE_PENALTY_WITH_ATTACKERS
        * Board.getSideSign (Board.getSide (B.getSquare ⟨i⟩).getSideBit) else 0)
    + (if evalContext.enemyCount (Board.getSide (B.getSquare ⟨i⟩).getSideBit) i = 0
        ∧ evalContext.ownCount (Board.getSide (B.getSquare ⟨i⟩).getSideBit) i > 0
      then NO_ATTACKERS_HAVE_DEFENDERS_BONUS
        * Board.getSideSign (Board.getSide (B.getSquare ⟨i⟩).getSideBit) else 0)

end Engine

namespace Engine

/-- A bound of the change of the score by one iteration of the attacker-count loop: nothing
for an empty square, 100 for a piece. -/
def passBound (B : Board) (i : Nat) : Int :=
  if (B.getSquare ⟨i⟩).getPieceType = PieceType.NO_PIECE then 0 else 100

end Engine

/-- A board that play does not reach: a white pawn on e4 with the moved-twice bit, a black pawn
on d4 beside it, White to move. -/
def strayEnpassantBoard : Board :=
  ((Board.empty.setSquare (Position.make 3 4)
      (Square.make PieceType.PAWN_PIECE SideBit.WHITE MovedBit.YES PawnMovedTwiceBit.YES)).setSquare
    (Position.make 3 3)
      (Square.make PieceType.PAWN_PIECE SideBit.BLACK MovedBit.YES PawnMovedTwiceBit.NO)).setMovingSide
    Side.WHITE

namespace Engine

/-- A move score is of the moving side `side`, and its child record, when the table holds
one, is of status DONE_COMPLETE or DONE_PARTIAL. -/
def MoveScore.Sortable (evals : Cache) (side : Side) (a : MoveScore) : Prop :=
  a.movingSide = side ∧ ∀ r, a.deref evals = some r →
    r.evalStatus = EvalStatus.DONE_COMPLETE ∨ r.evalStatus = EvalStatus.DONE_PARTIAL

end Engine

namespace Engine

/-- The loop of `Engine::getBestMoveSequence`. `seenBoards` is the set of the boards seen,
`curRecord` the pointer `curRecord` as the record it points to, `none` for `nullptr`. Each
round of the loop uses one unit of `fuel`. -/
def bestMoveLoop (evals : Cache) :
    Nat → List Board → Board → Option EvalRecord → List Move → Option (List Move)
  | 0, _, _, _, _ => none
  | fuel + 1, seenBoards, curBoard, curRecord, res =>
    match curRecord with
    | none => some res
    | some record =>
      if record.evalDepth > 0 ∧ record.moves.length > 0 then
        let seenBoards := seenBoards ++ [curBoard]
        let res := res ++ [record.bestMove]
        if record.moves.length = 0 then some res
        else
          let curBoard := Board.makeMoveM curBoard record.bestMove
          let curRecord := evals.find curBoard
          let curRecord :=
            if seenBoards.any (fun b => b.beq curBoard) = true then none else curRecord
          bestMoveLoop evals fuel seenBoards curBoard curRecord res
      else some res

/-- The function `Engine::getBestMoveSequence`. -/
def getBestMoveSequence (fuel : Nat) (evals : Cache) (board : Board) : Option (List Move) :=
  bestMoveLoop evals fuel [] board (evals.find board) []

/-- The boards of the walk along the moves `res` from `board`: the board before each move. -/
def walkBoards (board : Board) (res : List Move) : List Board :=
  (List.range res.length).map (fun k => (res.take k).foldl Board.makeMoveM board)

end Engine

namespace Engine

/-- The best move of a record is the default move or one of the moves of the record. -/
def EvalRecord.BestListed (r : EvalRecord) : Prop :=
  r.bestMove = ⟨0⟩ ∨ r.bestMove ∈ r.moves

/-- From the table `e1` to the table `e2` the moves of the records are kept up to their order:
a board with a record in `e1` has a record in `e2` with the same moves in some order (and a
best move that is the default move or a move of the record, if it was so in `e1`); a board
with no record in `e1` has in `e2` no record, or a record whose moves are, in some order, the
moves of `evaluateBoard` on the board. -/
def Cache.MovesKept (e1 e2 : Cache) : Prop :=
  ∀ b, (∀ r, e1.find b = some r →
        ∃ r2, e2.find b = some r2 ∧ r2.moves.Perm r.moves
          ∧ (EvalRecord.BestListed r → EvalRecord.BestListed r2))
    ∧ (e1.find b = none → ∀ r2, e2.find b = some r2 →
        ∃ c, c.beq b = true ∧ r2.moves.Perm (evaluateBoard c).moves)

end Engine

/-- A board without a white king: a white pawn on a3, black queens on e7, f7, g7, h7 and on
a8 to g8, the black king on h8, White to move. -/
def elevenQueensBoard : Board :=
  Board.ofList (List.replicate 16 0 ++ [17] ++ List.replicate 35 0 ++ List.replicate 11 13
    ++ [14]) 0

namespace Engine

end Engine

/-- A board with a pawn on the last row of its side: white king a1, white pawn b8, black king
h8, White to move. -/
def lastRowPawnBoard : Board :=
  Board.ofList ([6] ++ List.replicate 56 0 ++ [1] ++ List.replicate 5 0 ++ [14]) 0

/-- A board with a white pawn on its last row beside a black pawn that carries the moved-twice
bit: black pawn a8, white pawn b8, white rook c8, White to move. -/
def strayCaptureBoard : Board :=
  Board.ofList (List.replicate 56 0 ++ [41, 1, 2]) 0

/-- A board with a white pawn on its last row and Black to move: white king a1, white pawn b8,
black king e8 and black rook h8, neither of which has moved. The byte behind the 64 squares is
the game state. -/
def phantomCheckBoard : Board :=
  Board.ofList ([6] ++ List.replicate 56 0 ++ [1, 0, 0, 14, 0, 0, 10, 1]) 1

namespace Engine

/-- The table after the search of the board with the two kings to the depth 1, with the full
window, from the empty table. -/
def twoKingsCache : Cache :=
  match evaluate 3 twoKingsBoard ⟨[], EvalContext.make 0 1 (fun _ => 0)⟩ 1 MIN_SCORE MAX_SCORE 0
      true with
  | some out => out.1.evals
  | none => []

end Engine

namespace Engine

/-- The pointer `record` of the move score of `move` once the loop over the moves of `board`
has passed the move: the loop sets it, to the record of the board the move leads to, when the
move is examined and the recursive call returns SUCCESS, which is when the record of that
board is not of status IN_EVALUATION (the call returns LOOP then); it is `nullptr` otherwise.
`evals` is the table; `record` and `searchMode` are those of the loop. -/
def pointerOf (evals : Cache) (board : Board) (record : EvalRecord) (searchMode : SearchMode)
    (move : Move) : Option Board :=
  if examineMove searchMode record move = true
      ∧ (evals.find (Board.makeMove board move.getFrom move.getTo move.getPromotionType)).map
          (fun r => r.evalStatus) ≠ some EvalStatus.IN_EVALUATION then
    some (Board.makeMove board move.getFrom move.getTo move.getPromotionType)
  else none

/-- The move scores of the moves `moves` of `board`, each with its pointer `pointerOf`. -/
def pointedScores (evals : Cache) (board : Board) (record : EvalRecord)
    (searchMode : SearchMode) (moves : List Move) : List MoveScore :=
  moves.map (fun move =>
    ⟨move, board.getMovingSide, pointerOf evals board record searchMode move⟩)

end Engine

namespace Engine

/-- A recursive call of `evaluate` in the loop over the moves: the move, the arguments of the
call, and what the call returned (`none` when the fuel ran out). -/
structure LoopCall where
  move : Move
  board : Board
  s : SearchState
  toDepth : Int
  minWhite : Int
  maxBlack : Int
  toQsDepth : Int
  fromQuietMove : Bool
  out : Option (SearchState × EvalResult)

/-- The recursive calls of the loop over the moves of `evaluate`, in their order: the loop
`searchLoop`, with its control flow, giving the calls it makes in place of its outcome. -/
def loopCalls
    (recurse : Board → SearchState → Int → Int → Int → Int → Bool →
      Option (SearchState × EvalResult))
    (board : Board) (record : EvalRecord) (searchMode : SearchMode) (toDepth toQsDepth : Int) :
    List Move → Nat → SearchState → LoopState → List LoopCall
  | [], _, _, _ => []
  | move :: rest, moveIndex, s, l =>
    if !examineMove searchMode record move then
      loopCalls recurse board record searchMode toDepth toQsDepth rest (moveIndex + 1) s l
    else
      let quietMove := record.isQuietPosition && decide (move.getMoveType = MoveType.MOVE)
      let nextBoard := Board.makeMove board move.getFrom move.getTo move.getPromotionType
      match recurse nextBoard s (if toDepth > 0 then toDepth - 1 else 0) l.minWhite l.maxBlack
          (if toDepth > 0 then toQsDepth else wrapI16 (toQsDepth - 1)) quietMove with
      | none =>
        [⟨move, nextBoard, s, if toDepth > 0 then toDepth - 1 else 0, l.minWhite, l.maxBlack,
          if toDepth > 0 then toQsDepth else wrapI16 (toQsDepth - 1), quietMove, none⟩]
      | some (s2, nextEvalResult) =>
        ⟨move, nextBoard, s, if toDepth > 0 then toDepth - 1 else 0, l.minWhite, l.maxBlack,
          if toDepth > 0 then toQsDepth else wrapI16 (toQsDepth - 1), quietMove,
          some (s2, nextEvalResult)⟩ ::
        match afterChild board record toDepth toQsDepth moveIndex move s2 l nextEvalResult with
        | LoopOutcome.done _ _ => []
        | LoopOutcome.next s3 l3 =>
          loopCalls recurse board record searchMode toDepth toQsDepth rest (moveIndex + 1) s3 l3

/-- The recursive calls of the loop over the moves of a call of `evaluate`, in their order;
there is none when the call returns before the loop. -/
def evaluateCalls : Nat → Board → SearchState → Int → Int → Int → Int → Bool → List LoopCall
  | 0, _, _, _, _, _, _, _ => []
  | fuel + 1, board, s, toDepth, minWhite, maxBlack, toQsDepth, fromQuietMove =>
    if (lookupRecord s board).2 = true then []
    else
      let s := (lookupRecord s board).1
      let record := (s.evals.find board).getD EvalRecord.new
      if record.evalStatus = EvalStatus.IN_EVALUATION then []
      else
        match partialCutoff board record toDepth minWhite maxBlack toQsDepth with
        | some _ => []
        | none =>
          let s := resetPartial s board record
          let record := (s.evals.find board).getD EvalRecord.new
          if depthAchieved record toDepth toQsDepth fromQuietMove = true then []
          else
            loopCalls (evaluate fuel) board record (searchModeOf record toDepth) toDepth
              toQsDepth record.moves 0 (markInEvaluation s board)
              (initLoop board record minWhite maxBlack)

/-- The recursive call returned TIMEOUT. -/
def LoopCall.timedOut (c : LoopCall) : Bool :=
  match c.out with
  | some (_, r) => decide (r.result = EvalResultCode.TIMEOUT)
  | none => false

/-- The boards whose records are under search when a TIMEOUT comes up through a call of
`evaluate`, the board of the call first: the board of the call when a recursive call of its
loop returned TIMEOUT, then the boards under search in that recursive call. The list is
empty when no recursive call of the loop returned TIMEOUT. -/
def timeoutPath : Nat → Board → SearchState → Int → Int → Int → Int → Bool → List Board
  | 0, _, _, _, _, _, _, _ => []
  | fuel + 1, board, s, toDepth, minWhite, maxBlack, toQsDepth, fromQuietMove =>
    match (evaluateCalls (fuel + 1) board s toDepth minWhite maxBlack toQsDepth
        fromQuietMove).find? LoopCall.timedOut with
    | none => []
    | some c =>
      board :: timeoutPath fuel c.board c.s c.toDepth c.minWhite c.maxBlack c.toQsDepth
        c.fromQuietMove

/-- The last call of `evaluate` in the loop over the depths of `findBestMove` that returned
SUCCESS: its depth and the table and the context it started from. The loop is `depthLoop`;
`last` is the call found so far. -/
def lastSearch (board : Board) (toDepth toQsDepth allowedTimeMs : Int) :
    Nat → Int → Bool → SearchState → Option (Int × SearchState) → Option (Int × SearchState)
  | 0, _, _, _, last => last
  | fuel + 1, depth, haveTimeForMoreSearch, s, last =>
    if depth ≤ toDepth ∨ haveTimeForMoreSearch = true then
      match evaluate (depth.toNat + toQsDepth.toNat + 1) board s depth MIN_SCORE MAX_SCORE
          toQsDepth true with
      | none => last
      | some (s2, result) =>
        if result.result = EvalResultCode.SUCCESS then
          let s3 := { s2 with context := { s2.context with depthAchieved := depth } }
          let haveTime := decide (allowedTimeMs > 0) && decide (depth < toDepth * 2)
            && decide (s3.context.elapsedMs s3.context.nodesEvaluated < Int.tdiv allowedTimeMs 6)
          lastSearch board toDepth toQsDepth allowedTimeMs fuel (depth + 1) haveTime s3
            (some (depth, s))
        else last
    else last

/-- The last call of `evaluate` of `findBestMove` that returned SUCCESS. -/
def findBestMoveLast (evals : Cache) (board : Board) (toDepth toQsDepth allowedTimeMs : Int)
    (elapsedMs : Nat → Int) : Option (Int × SearchState) :=
  let toDepth := if toDepth > MAX_DEPTH then MAX_DEPTH else toDepth
  let evalContext := EvalContext.make allowedTimeMs toDepth elapsedMs
  let evals := if evals.length > TRIM_TABLE_SIZE then [] else evals
  lastSearch board toDepth toQsDepth allowedTimeMs (2 * toDepth.toNat + 2) (min toDepth 3) false
    ⟨evals, evalContext⟩ none

end Engine

namespace Engine

/-- The recursive calls `calls` of a search of `board` went into every move of `moves`, and
each returned SUCCESS with a score that is not better for the side to move than the start
value of the best score (`MIN_SCORE` for White, `MAX_SCORE` for Black). -/
def NoBetterMove (board : Board) (moves : List Move) (calls : List LoopCall) : Prop :=
  (calls.map (fun c => c.move)).Perm moves
  ∧ ∀ c ∈ calls, ∃ (s2 : SearchState) (res : EvalResult), c.out = some (s2, res)
      ∧ res.result = EvalResultCode.SUCCESS
      ∧ ¬ ((board.getMovingSide = Side.WHITE ∧ MIN_SCORE < res.score)
          ∨ (board.getMovingSide = Side.BLACK ∧ MAX_SCORE > res.score))

end Engine

namespace Engine

/-- The table `e2` holds a record of every board that has a record in the table `e1`. -/
def Cache.Keeps (e1 e2 : Cache) : Prop :=
  ∀ b r, e1.find b = some r → ∃ r2, e2.find b = some r2

end Engine

theorem and7_eq (d : Nat) : d &&& 7 = d % 8 := Nat.and_pow_two_sub_one_eq_mod d 3

theorem and63_eq (d : Nat) : d &&& 63 = d % 64 := Nat.and_pow_two_sub_one_eq_mod d 6

theorem and_two_pow_eq (d i : Nat) : d &&& 2 ^ i = 2 ^ i * (d / 2 ^ i % 2) := by
  rw [Nat.and_two_pow, Nat.testBit_to_div_mod]
  rcases Nat.mod_two_eq_zero_or_one (d / 2 ^ i) with h | h <;> simp [h]

theorem and1_eq (d : Nat) : d &&& 1 = d % 2 := Nat.and_one_is_mod d

theorem and8_eq (d : Nat) : d &&& 8 = 8 * (d / 8 % 2) := and_two_pow_eq d 3

theorem and16_eq (d : Nat) : d &&& 16 = 16 * (d / 16 % 2) := and_two_pow_eq d 4

theorem and32_eq (d : Nat) : d &&& 32 = 32 * (d / 32 % 2) := and_two_pow_eq d 5

theorem shl3_eq (d : Nat) : d <<< 3 = d * 8 := by simp [Nat.shiftLeft_eq]

theorem shr3_eq (d : Nat) : d >>> 3 = d / 8 := by simp [Nat.shiftRight_eq_div_pow]

theorem or_fields (t s m w : Nat) (ht : t < 8) (hs : s = 0 ∨ s = 8) (hm : m = 0 ∨ m = 16)
    (hw : w = 0 ∨ w = 32) : t ||| s ||| m ||| w = t + s + m + w := by
  rcases hs with rfl | rfl <;> rcases hm with rfl | rfl <;> rcases hw with rfl | rfl <;>
    interval_cases t <;> rfl

namespace Square

theorem getPieceType_eq (s : Square) : s.getPieceType = s.data % 8 := and7_eq _

theorem getSideBit_eq (s : Square) : s.getSideBit = 8 * (s.data / 8 % 2) := and8_eq _

theorem getMovedBit_eq (s : Square) : s.getMovedBit = 16 * (s.data / 16 % 2) := and16_eq _

theorem getPawnMovedTwiceBit_eq (s : Square) :
    s.getPawnMovedTwiceBit = 32 * (s.data / 32 % 2) := and32_eq _

theorem make_data (t s m w : Nat) (ht : t < 8) (hs : s = 0 ∨ s = 8) (hm : m = 0 ∨ m = 16)
    (hw : w = 0 ∨ w = 32) : (make t s m w).data = t + s + m + w := or_fields t s m w ht hs hm hw

end Square

/-! ## Squares: fields of a constructed square -/

namespace Square

theorem getPieceType_lt (s : Square) : s.getPieceType < 8 := by
  rw [getPieceType_eq]; omega

theorem getSideBit_cases (s : Square) : s.getSideBit = 0 ∨ s.getSideBit = 8 := by
  rw [getSideBit_eq]; omega

theorem getMovedBit_cases (s : Square) : s.getMovedBit = 0 ∨ s.getMovedBit = 16 := by
  rw [getMovedBit_eq]; omega

theorem getPawnMovedTwiceBit_cases (s : Square) :
    s.getPawnMovedTwiceBit = 0 ∨ s.getPawnMovedTwiceBit = 32 := by
  rw [getPawnMovedTwiceBit_eq]; omega

theorem make_getPieceType (t s m w : Nat) (ht : t < 8) (hs : s = 0 ∨ s = 8)
    (hm : m = 0 ∨ m = 16) (hw : w = 0 ∨ w = 32) : (make t s m w).getPieceType = t := by
  rw [getPieceType_eq, make_data t s m w ht hs hm hw]; omega

theorem make_getSideBit (t s m w : Nat) (ht : t < 8) (hs : s = 0 ∨ s = 8)
    (hm : m = 0 ∨ m = 16) (hw : w = 0 ∨ w = 32) : (make t s m w).getSideBit = s := by
  rw [getSideBit_eq, make_data t s m w ht hs hm hw]; omega

theorem make_getMovedBit (t s m w : Nat) (ht : t < 8) (hs : s = 0 ∨ s = 8)
    (hm : m = 0 ∨ m = 16) (hw : w = 0 ∨ w = 32) : (make t s m w).getMovedBit = m := by
  rw [getMovedBit_eq, make_data t s m w ht hs hm hw]; omega

theorem make_getPawnMovedTwiceBit (t s m w : Nat) (ht : t < 8) (hs : s = 0 ∨ s = 8)
    (hm : m = 0 ∨ m = 16) (hw : w = 0 ∨ w = 32) :
    (make t s m w).getPawnMovedTwiceBit = w := by
  rw [getPawnMovedTwiceBit_eq, make_data t s m w ht hs hm hw]; omega

theorem make_empty : make PieceType.NO_PIECE SideBit.WHITE MovedBit.NO PawnMovedTwiceBit.NO = ⟨0⟩ :=
  rfl

end Square

/-- The fields of `clearSq s`: kind, side and moved bit are those of `s`. -/
theorem clearSq_getPieceType (s : Square) : (clearSq s).getPieceType = s.getPieceType := by
  unfold clearSq
  split_ifs
  · exact Square.make_getPieceType _ _ _ _ s.getPieceType_lt s.getSideBit_cases
      s.getMovedBit_cases (Or.inl rfl)
  · rfl

theorem clearSq_getSideBit (s : Square) : (clearSq s).getSideBit = s.getSideBit := by
  unfold clearSq
  split_ifs
  · exact Square.make_getSideBit _ _ _ _ s.getPieceType_lt s.getSideBit_cases
      s.getMovedBit_cases (Or.inl rfl)
  · rfl

theorem clearSq_getMovedBit (s : Square) : (clearSq s).getMovedBit = s.getMovedBit := by
  unfold clearSq
  split_ifs
  · exact Square.make_getMovedBit _ _ _ _ s.getPieceType_lt s.getSideBit_cases
      s.getMovedBit_cases (Or.inl rfl)
  · rfl

/-- After clearing, a square is never a pawn that carries the moved-twice bit. -/
theorem clearSq_not_flagged_pawn (s : Square) :
    ¬ ((clearSq s).getPawnMovedTwiceBit = PawnMovedTwiceBit.YES
        ∧ (clearSq s).getPieceType = PieceType.PAWN_PIECE) := by
  unfold clearSq
  split_ifs with h
  · rw [Square.make_getPawnMovedTwiceBit _ _ _ _ s.getPieceType_lt s.getSideBit_cases
      s.getMovedBit_cases (Or.inl rfl)]
    intro h2
    exact absurd h2.1 (by decide)
  · exact h

theorem clearSq_of_not_flagged (s : Square)
    (h : ¬ (s.getPawnMovedTwiceBit = PawnMovedTwiceBit.YES
        ∧ s.getPieceType = PieceType.PAWN_PIECE)) : clearSq s = s := by
  unfold clearSq; rw [if_neg h]

theorem clearSq_idem (s : Square) : clearSq (clearSq s) = clearSq s :=
  clearSq_of_not_flagged _ (clearSq_not_flagged_pawn s)

namespace Board

theorem setSquare_squares (b : Board) (pos : Position) (sq : Square) (i : Nat) :
    (b.setSquare pos sq).squares i = if i = pos.data then sq else b.squares i := rfl

theorem setSquare_gamestate (b : Board) (pos : Position) (sq : Square) :
    (b.setSquare pos sq).gamestate = b.gamestate := rfl

theorem setMovingSide_squares (b : Board) (side : Side) :
    (b.setMovingSide side).squares = b.squares := by
  cases side <;> rfl

/-- One iteration of the clearing loop, on the index of the visited square. -/
theorem clearMovedTwiceAt_squares (r : Board) (row col : Nat) (hr : row < 32) (hc : col < 8)
    (i : Nat) : (clearMovedTwiceAt r row col).squares i
      = if i = 8 * row + col then clearSq (r.squares i) else r.squares i := by
  have hp : (Position.make row col).data = 8 * row + col := by
    simp only [Position.make, shl3_eq]; omega
  have hq : (Position.make (toU8 (row : Int)) (toU8 (col : Int))).data = 8 * row + col := by
    have h1 : toU8 (row : Int) = row := by unfold toU8; omega
    have h2 : toU8 (col : Int) = col := by unfold toU8; omega
    rw [h1, h2, hp]
  unfold clearMovedTwiceAt getSquareRC
  simp only [hq]
  by_cases hi : i = 8 * row + col
  · rw [if_pos hi, hi]
    unfold clearSq
    by_cases hcond : (r.squares (8 * row + col)).getPawnMovedTwiceBit = PawnMovedTwiceBit.YES
        ∧ (r.squares (8 * row + col)).getPieceType = PieceType.PAWN_PIECE
    · rw [if_pos hcond, if_pos hcond, setSquare_squares, hp, if_pos rfl]
    · rw [if_neg hcond, if_neg hcond]
  · rw [if_neg hi]
    split_ifs
    · rw [setSquare_squares, hp, if_neg hi]
    · rfl

theorem clearMovedTwiceAt_gamestate (r : Board) (row col : Nat) :
    (clearMovedTwiceAt r row col).gamestate = r.gamestate := by
  unfold clearMovedTwiceAt
  simp only []
  split_ifs <;> rfl

/-- The clearing loop rewrites exactly the sixteen squares of rows 3 and 4. -/
theorem clearMovedTwice_squares (b : Board) (i : Nat) :
    (clearMovedTwice b).squares i
      = if 24 ≤ i ∧ i < 40 then clearSq (b.squares i) else b.squares i := by
  unfold clearMovedTwice
  simp only [List.foldl, List.range, List.range.loop]
  simp only [clearMovedTwiceAt_squares _ _ _ (by decide : (3:Nat) < 32),
    clearMovedTwiceAt_squares _ _ _ (by decide : (4:Nat) < 32), (by decide : (0:Nat) < 8),
    (by decide : (1:Nat) < 8), (by decide : (2:Nat) < 8), (by decide : (3:Nat) < 8),
    (by decide : (4:Nat) < 8), (by decide : (5:Nat) < 8), (by decide : (6:Nat) < 8),
    (by decide : (7:Nat) < 8)]
  by_cases h : 24 ≤ i ∧ i < 40
  · rw [if_pos h]
    obtain ⟨h1, h2⟩ := h
    interval_cases i <;> simp [clearSq_idem]
  · rw [if_neg h]
    have : ∀ k, 24 ≤ k → k < 40 → i ≠ k := fun k h1 h2 hk => h (hk ▸ ⟨h1, h2⟩)
    simp [this]

theorem clearMovedTwice_gamestate (b : Board) : (clearMovedTwice b).gamestate = b.gamestate := by
  unfold clearMovedTwice
  simp only [List.foldl, List.range, List.range.loop, clearMovedTwiceAt_gamestate]

end Board

/-! ## makeMove: the squares of the result -/

theorem toU8_natCast (n : Nat) : toU8 (n : Int) = n % 256 := by
  unfold toU8; omega

theorem Position.make_data_mod (row col : Nat) :
    (Position.make row col).data = (8 * row + col) % 256 := by
  simp only [Position.make, shl3_eq]; omega

theorem Position.make_mod (row col : Nat) :
    Position.make (row % 256) col = Position.make row col := by
  simp only [Position.make, shl3_eq, Position.mk.injEq]; omega

theorem Position.getRow_eq (p : Position) : p.getRow = p.data / 8 := shr3_eq _

theorem Position.getCol_eq (p : Position) : p.getCol = p.data % 8 := and7_eq _

theorem Position.ext_data (p q : Position) (h : p.data = q.data) : p = q := by
  cases p; cases q; simp_all

namespace Board

theorem getSquareRC_natCast (b : Board) (r : Nat) (c : Int) :
    b.getSquareRC (r : Int) c = b.squares (Position.make r (toU8 c)).data := by
  unfold getSquareRC
  rw [toU8_natCast, Position.make_mod]

/-- Kind, side and moved bit of a square survive the clearing loop. -/
theorem clearMovedTwice_getPieceType (b : Board) (i : Nat) :
    ((clearMovedTwice b).squares i).getPieceType = (b.squares i).getPieceType := by
  rw [clearMovedTwice_squares]; split_ifs
  · exact clearSq_getPieceType _
  · rfl

theorem clearMovedTwice_getSideBit (b : Board) (i : Nat) :
    ((clearMovedTwice b).squares i).getSideBit = (b.squares i).getSideBit := by
  rw [clearMovedTwice_squares]; split_ifs
  · exact clearSq_getSideBit _
  · rfl

theorem clearMovedTwice_getMovedBit (b : Board) (i : Nat) :
    ((clearMovedTwice b).squares i).getMovedBit = (b.squares i).getMovedBit := by
  rw [clearMovedTwice_squares]; split_ifs
  · exact clearSq_getMovedBit _
  · rfl

end Board

namespace Board

theorem makeMove_eq (B : Board) (f t : Position) (P : Nat) :
    makeMove B f t P
      = promotionStep
          (castlingStep (pawnStep B (afterWrites B f t) (movingPieceOf B f) f t)
            (movingPieceOf B f) f t)
          (movingPieceOf B f) t P := by
  have h : ∀ s : Side, ((clearMovedTwice B).setMovingSide s).getSquare f = movingPieceOf B f := by
    intro s; cases s <;> rfl
  unfold makeMove afterWrites
  simp only [h]

theorem afterWrites_squares (B : Board) (f t : Position) (i : Nat) :
    (afterWrites B f t).squares i
      = if i = t.data then
          Square.make (movingPieceOf B f).getPieceType (movingPieceOf B f).getSideBit
            MovedBit.YES PawnMovedTwiceBit.NO
        else if i = f.data then ⟨0⟩ else (clearMovedTwice B).squares i := by
  unfold afterWrites movingPieceOf getSquare
  simp only [setSquare_squares, setMovingSide_squares, Square.make_empty]

theorem pawnStep_squares (B R : Board) (mp : Square) (f t : Position) (i : Nat) :
    (pawnStep B R mp f t).squares i
      = if mp.getPieceType = PieceType.PAWN_PIECE then
          (if ((f.getRow : Int) - (t.getRow : Int)).natAbs = 2 ∧ i = t.data then
            Square.make mp.getPieceType mp.getSideBit MovedBit.YES PawnMovedTwiceBit.YES
          else if (f.getCol ≠ t.getCol ∧ (B.getSquare t).getPieceType = PieceType.NO_PIECE)
              ∧ i = (Position.make f.getRow t.getCol).data then ⟨0⟩
          else R.squares i)
        else R.squares i := by
  unfold pawnStep
  simp only [Square.make_empty]
  split_ifs <;> simp_all [setSquare_squares]

theorem castlingStep_squares (R : Board) (mp : Square) (f t : Position) (i : Nat) :
    (castlingStep R mp f t).squares i
      = if mp.getPieceType = PieceType.KING_PIECE then
          (if f.getCol = 4 ∧ t.getCol = 6 then
            (if i = (Position.make f.getRow 5).data then
              Square.make (R.squares (Position.make f.getRow 7).data).getPieceType
                (R.squares (Position.make f.getRow 7).data).getSideBit MovedBit.YES
                PawnMovedTwiceBit.NO
            else if i = (Position.make f.getRow 7).data then ⟨0⟩ else R.squares i)
          else if f.getCol = 4 ∧ t.getCol = 2 then
            (if i = (Position.make f.getRow 3).data then
              Square.make (R.squares (Position.make f.getRow 0).data).getPieceType
                (R.squares (Position.make f.getRow 0).data).getSideBit MovedBit.YES
                PawnMovedTwiceBit.NO
            else if i = (Position.make f.getRow 0).data then ⟨0⟩ else R.squares i)
          else R.squares i)
        else R.squares i := by
  unfold castlingStep
  have h7 : toU8 7 = 7 := by decide
  have h0 : toU8 0 = 0 := by decide
  simp only [Square.make_empty, getSquareRC_natCast, h7, h0]
  split_ifs <;> simp_all [setSquare_squares]

theorem promotionStep_squares (R : Board) (mp : Square) (t : Position) (P i : Nat) :
    (promotionStep R mp t P).squares i
      = if P ≠ PieceType.NO_PIECE ∧ i = t.data then
          Square.make P mp.getSideBit MovedBit.YES PawnMovedTwiceBit.NO
        else R.squares i := by
  unfold promotionStep
  split_ifs <;> simp_all [setSquare_squares]

theorem movingPieceOf_getPieceType (B : Board) (f : Position) :
    (movingPieceOf B f).getPieceType = (B.getSquare f).getPieceType :=
  clearMovedTwice_getPieceType B f.data

theorem movingPieceOf_getSideBit (B : Board) (f : Position) :
    (movingPieceOf B f).getSideBit = (B.getSquare f).getSideBit :=
  clearMovedTwice_getSideBit B f.data

end Board

namespace Board

theorem pawnStep_of_not_pawn (B R : Board) (mp : Square) (f t : Position)
    (h : mp.getPieceType ≠ PieceType.PAWN_PIECE) : pawnStep B R mp f t = R := by
  unfold pawnStep; rw [if_neg h]

theorem castlingStep_of_not_king (R : Board) (mp : Square) (f t : Position)
    (h : mp.getPieceType ≠ PieceType.KING_PIECE) : castlingStep R mp f t = R := by
  unfold castlingStep; rw [if_neg h]

/-- Squares of the result when the moving piece is neither a pawn nor a king. -/
theorem makeMove_squares_other (B : Board) (f t : Position) (P i : Nat)
    (h1 : (movingPieceOf B f).getPieceType ≠ PieceType.PAWN_PIECE)
    (h6 : (movingPieceOf B f).getPieceType ≠ PieceType.KING_PIECE) :
    (makeMove B f t P).squares i
      = if P ≠ PieceType.NO_PIECE ∧ i = t.data then
          Square.make P (movingPieceOf B f).getSideBit MovedBit.YES PawnMovedTwiceBit.NO
        else (afterWrites B f t).squares i := by
  rw [makeMove_eq, pawnStep_of_not_pawn _ _ _ _ _ h1, castlingStep_of_not_king _ _ _ _ h6,
    promotionStep_squares]

/-- Squares of the result when the moving piece is a pawn. -/
theorem makeMove_squares_pawn (B : Board) (f t : Position) (P i : Nat)
    (h1 : (movingPieceOf B f).getPieceType = PieceType.PAWN_PIECE) :
    (makeMove B f t P).squares i
      = if P ≠ PieceType.NO_PIECE ∧ i = t.data then
          Square.make P (movingPieceOf B f).getSideBit MovedBit.YES PawnMovedTwiceBit.NO
        else if ((f.getRow : Int) - (t.getRow : Int)).natAbs = 2 ∧ i = t.data then
          Square.make (movingPieceOf B f).getPieceType (movingPieceOf B f).getSideBit
            MovedBit.YES PawnMovedTwiceBit.YES
        else if (f.getCol ≠ t.getCol ∧ (B.getSquare t).getPieceType = PieceType.NO_PIECE)
            ∧ i = (Position.make f.getRow t.getCol).data then ⟨0⟩
        else (afterWrites B f t).squares i := by
  have h6 : (movingPieceOf B f).getPieceType ≠ PieceType.KING_PIECE := by
    rw [h1]; decide
  rw [makeMove_eq, castlingStep_of_not_king _ _ _ _ h6, promotionStep_squares,
    pawnStep_squares, if_pos h1]

/-- Squares of the result when the moving piece is a king. -/
theorem makeMove_squares_king (B : Board) (f t : Position) (P i : Nat)
    (h6 : (movingPieceOf B f).getPieceType = PieceType.KING_PIECE) :
    (makeMove B f t P).squares i
      = if P ≠ PieceType.NO_PIECE ∧ i = t.data then
          Square.make P (movingPieceOf B f).getSideBit MovedBit.YES PawnMovedTwiceBit.NO
        else if f.getCol = 4 ∧ t.getCol = 6 then
          (if i = (Position.make f.getRow 5).data then
            Square.make ((afterWrites B f t).squares (Position.make f.getRow 7).data).getPieceType
              ((afterWrites B f t).squares (Position.make f.getRow 7).data).getSideBit
              MovedBit.YES PawnMovedTwiceBit.NO
          else if i = (Position.make f.getRow 7).data then ⟨0⟩
          else (afterWrites B f t).squares i)
        else if f.getCol = 4 ∧ t.getCol = 2 then
          (if i = (Position.make f.getRow 3).data then
            Square.make ((afterWrites B f t).squares (Position.make f.getRow 0).data).getPieceType
              ((afterWrites B f t).squares (Position.make f.getRow 0).data).getSideBit
              MovedBit.YES PawnMovedTwiceBit.NO
          else if i = (Position.make f.getRow 0).data then ⟨0⟩
          else (afterWrites B f t).squares i)
        else (afterWrites B f t).squares i := by
  have h1 : (movingPieceOf B f).getPieceType ≠ PieceType.PAWN_PIECE := by
    rw [h6]; decide
  rw [makeMove_eq, pawnStep_of_not_pawn _ _ _ _ _ h1, promotionStep_squares,
    castlingStep_squares, if_pos h6]

/-- Every square of the result of `makeMove` is the square the clearing loop left, the empty
square, a copy of some square with the moved bit, the promoted piece on the to-square, or the
moved-twice pawn on the to-square. -/
theorem makeMove_squares_cases (B : Board) (f t : Position) (P i : Nat) :
    (i ≠ t.data ∧ i ≠ f.data ∧ (makeMove B f t P).squares i = (clearMovedTwice B).squares i)
    ∨ (makeMove B f t P).squares i = ⟨0⟩
    ∨ (∃ x : Square, (makeMove B f t P).squares i
        = Square.make x.getPieceType x.getSideBit MovedBit.YES PawnMovedTwiceBit.NO)
    ∨ (P ≠ PieceType.NO_PIECE ∧ i = t.data ∧ (makeMove B f t P).squares i
        = Square.make P (movingPieceOf B f).getSideBit MovedBit.YES PawnMovedTwiceBit.NO)
    ∨ (i = t.data ∧ (movingPieceOf B f).getPieceType = PieceType.PAWN_PIECE
        ∧ ((f.getRow : Int) - (t.getRow : Int)).natAbs = 2
        ∧ (makeMove B f t P).squares i
          = Square.make (movingPieceOf B f).getPieceType (movingPieceOf B f).getSideBit
              MovedBit.YES PawnMovedTwiceBit.YES) := by
  generalize hS : (makeMove B f t P).squares i = S
  by_cases h1 : (movingPieceOf B f).getPieceType = PieceType.PAWN_PIECE
  · rw [makeMove_squares_pawn B f t P i h1, afterWrites_squares] at hS
    split_ifs at hS with c1 c2 c3 c4 c5 <;> subst hS
    · exact Or.inr (Or.inr (Or.inr (Or.inl ⟨c1.1, c1.2, rfl⟩)))
    · exact Or.inr (Or.inr (Or.inr (Or.inr ⟨c2.2, h1, c2.1, rfl⟩)))
    · exact Or.inr (Or.inl rfl)
    · exact Or.inr (Or.inr (Or.inl ⟨_, rfl⟩))
    · exact Or.inr (Or.inl rfl)
    · exact Or.inl ⟨by assumption, by assumption, rfl⟩
  · by_cases h6 : (movingPieceOf B f).getPieceType = PieceType.KING_PIECE
    · rw [makeMove_squares_king B f t P i h6] at hS
      simp only [afterWrites_squares B f t i] at hS
      split_ifs at hS with c1 <;> subst hS <;>
        first
        | exact Or.inr (Or.inr (Or.inr (Or.inl ⟨c1.1, c1.2, rfl⟩)))
        | exact Or.inr (Or.inl rfl)
        | exact Or.inr (Or.inr (Or.inl ⟨_, rfl⟩))
        | exact Or.inl ⟨by assumption, by assumption, rfl⟩
    · rw [makeMove_squares_other B f t P i h1 h6, afterWrites_squares] at hS
      split_ifs at hS with c1 c2 c3 <;> subst hS
      · exact Or.inr (Or.inr (Or.inr (Or.inl ⟨c1.1, c1.2, rfl⟩)))
      · exact Or.inr (Or.inr (Or.inl ⟨_, rfl⟩))
      · exact Or.inr (Or.inl rfl)
      · exact Or.inl ⟨by assumption, by assumption, rfl⟩

end Board

namespace Square

theorem copy_twice (x : Square) :
    (make x.getPieceType x.getSideBit MovedBit.YES PawnMovedTwiceBit.NO).getPawnMovedTwiceBit
      = 0 :=
  make_getPawnMovedTwiceBit _ _ _ _ x.getPieceType_lt x.getSideBit_cases (Or.inr rfl)
    (Or.inl rfl)

theorem promo_twice (P : Nat) (hP : P ≤ PieceType.KING_PIECE) (x : Square) :
    (make P x.getSideBit MovedBit.YES PawnMovedTwiceBit.NO).getPawnMovedTwiceBit = 0 :=
  make_getPawnMovedTwiceBit _ _ _ _ (by simp only [PieceType.KING_PIECE] at hP; omega)
    x.getSideBit_cases (Or.inr rfl) (Or.inl rfl)

end Square

namespace Board

/-- C1: in the result of `makeMove`, a pawn on row 3 or 4 that carries the moved-twice bit
stands on the to-square, and then the moved piece was a pawn whose from-row and to-row differ
by exactly 2; hence at most one pawn on rows 3 and 4 carries the bit. -/
theorem makeMove_movedTwice_only_on_to (B : Board) (f t : Position) (P : Nat)
    (hP : P ≤ PieceType.KING_PIECE) :
    (∀ p : Position, (p.getRow = 3 ∨ p.getRow = 4) →
      ((makeMove B f t P).getSquare p).getPieceType = PieceType.PAWN_PIECE →
      ((makeMove B f t P).getSquare p).getPawnMovedTwiceBit = PawnMovedTwiceBit.YES →
      p = t ∧ (B.getSquare f).getPieceType = PieceType.PAWN_PIECE
        ∧ ((f.getRow : Int) - (t.getRow : Int)).natAbs = 2)
    ∧ (∀ p q : Position, (p.getRow = 3 ∨ p.getRow = 4) → (q.getRow = 3 ∨ q.getRow = 4) →
      ((makeMove B f t P).getSquare p).getPieceType = PieceType.PAWN_PIECE →
      ((makeMove B f t P).getSquare p).getPawnMovedTwiceBit = PawnMovedTwiceBit.YES →
      ((makeMove B f t P).getSquare q).getPieceType = PieceType.PAWN_PIECE →
      ((makeMove B f t P).getSquare q).getPawnMovedTwiceBit = PawnMovedTwiceBit.YES →
      p = q) := by
  have key : ∀ p : Position, (p.getRow = 3 ∨ p.getRow = 4) →
      ((makeMove B f t P).getSquare p).getPieceType = PieceType.PAWN_PIECE →
      ((makeMove B f t P).getSquare p).getPawnMovedTwiceBit = PawnMovedTwiceBit.YES →
      p = t ∧ (B.getSquare f).getPieceType = PieceType.PAWN_PIECE
        ∧ ((f.getRow : Int) - (t.getRow : Int)).natAbs = 2 := by
    intro p hrow hk hw
    have hi : 24 ≤ p.data ∧ p.data < 40 := by
      rw [Position.getRow_eq] at hrow; omega
    unfold getSquare at hk hw
    have h32 : (0 : Nat) ≠ PawnMovedTwiceBit.YES := by decide
    rcases makeMove_squares_cases B f t P p.data with
      ⟨_, _, h⟩ | h | ⟨x, h⟩ | ⟨_, _, h⟩ | ⟨h1, h2, h3, _⟩
    · rw [h, clearMovedTwice_squares, if_pos hi] at hk hw
      exact absurd ⟨hw, hk⟩ (clearSq_not_flagged_pawn _)
    · rw [h] at hw; exact absurd hw h32
    · rw [h, Square.copy_twice] at hw; exact absurd hw h32
    · rw [h, Square.promo_twice P hP] at hw; exact absurd hw h32
    · exact ⟨Position.ext_data _ _ h1, (movingPieceOf_getPieceType B f) ▸ h2, h3⟩
  refine ⟨key, ?_⟩
  intro p q hp hq h1 h2 h3 h4
  rw [(key p hp h1 h2).1, (key q hq h3 h4).1]

end Board

namespace Board

theorem makeMove_movedTwice_only_on_to_witness :
    (0 : Nat) ≤ PieceType.KING_PIECE
    ∧ ((makeMove start ⟨12⟩ ⟨28⟩ 0).getSquare ⟨28⟩).getPawnMovedTwiceBit
        = PawnMovedTwiceBit.YES
    ∧ ((⟨28⟩ : Position) = ⟨28⟩
      ∧ (start.getSquare ⟨12⟩).getPieceType = PieceType.PAWN_PIECE
      ∧ (((⟨12⟩ : Position).getRow : Int) - ((⟨28⟩ : Position).getRow : Int)).natAbs = 2) :=
  ⟨by decide, by decide,
    (makeMove_movedTwice_only_on_to start ⟨12⟩ ⟨28⟩ 0 (by decide)).1 ⟨28⟩
      (Or.inl (by decide)) (by decide) (by decide)⟩

end Board

namespace Square

theorem copy_type (x : Square) (m w : Nat) (hm : m = 0 ∨ m = 16) (hw : w = 0 ∨ w = 32) :
    (make x.getPieceType x.getSideBit m w).getPieceType = x.getPieceType :=
  make_getPieceType _ _ _ _ x.getPieceType_lt x.getSideBit_cases hm hw

theorem copy_side (x : Square) (m w : Nat) (hm : m = 0 ∨ m = 16) (hw : w = 0 ∨ w = 32) :
    (make x.getPieceType x.getSideBit m w).getSideBit = x.getSideBit :=
  make_getSideBit _ _ _ _ x.getPieceType_lt x.getSideBit_cases hm hw

theorem copy_moved (x : Square) (m w : Nat) (hm : m = 0 ∨ m = 16) (hw : w = 0 ∨ w = 32) :
    (make x.getPieceType x.getSideBit m w).getMovedBit = m :=
  make_getMovedBit _ _ _ _ x.getPieceType_lt x.getSideBit_cases hm hw

theorem promo_type (P : Nat) (hP : P ≤ PieceType.KING_PIECE) (x : Square) :
    (make P x.getSideBit MovedBit.YES PawnMovedTwiceBit.NO).getPieceType = P :=
  make_getPieceType _ _ _ _ (by simp only [PieceType.KING_PIECE] at hP; omega)
    x.getSideBit_cases (Or.inr rfl) (Or.inl rfl)

theorem promo_moved (P : Nat) (hP : P ≤ PieceType.KING_PIECE) (x : Square) :
    (make P x.getSideBit MovedBit.YES PawnMovedTwiceBit.NO).getMovedBit = MovedBit.YES :=
  make_getMovedBit _ _ _ _ (by simp only [PieceType.KING_PIECE] at hP; omega)
    x.getSideBit_cases (Or.inr rfl) (Or.inl rfl)

end Square

namespace Board

theorem pawnStep_gamestate (B R : Board) (mp : Square) (f t : Position) :
    (pawnStep B R mp f t).gamestate = R.gamestate := by
  unfold pawnStep
  simp only []
  split_ifs <;> rfl

theorem castlingStep_gamestate (R : Board) (mp : Square) (f t : Position) :
    (castlingStep R mp f t).gamestate = R.gamestate := by
  unfold castlingStep
  simp only []
  split_ifs <;> rfl

theorem promotionStep_gamestate (R : Board) (mp : Square) (t : Position) (P : Nat) :
    (promotionStep R mp t P).gamestate = R.gamestate := by
  unfold promotionStep
  split_ifs <;> rfl

theorem getMovingSide_congr (a b : Board) (h : a.gamestate = b.gamestate) :
    a.getMovingSide = b.getMovingSide := by
  unfold getMovingSide; rw [h]

theorem getMovingSide_clearMovedTwice (B : Board) :
    (clearMovedTwice B).getMovingSide = B.getMovingSide :=
  getMovingSide_congr _ _ (clearMovedTwice_gamestate B)

theorem getMovingSide_setMovingSide (b : Board) (s : Side) :
    (b.setMovingSide s).getMovingSide = s := by
  cases s
  · have h : (b.gamestate &&& 254) &&& 1 = 0 := by rw [Nat.land_assoc]; simp
    simp only [setMovingSide, getMovingSide, WHOSE_TURN_BIT, h, if_true]
  · have h : (b.gamestate ||| 1) &&& 1 = 1 := by
      rw [Nat.and_one_is_mod]; exact Nat.or_mod_two_eq_one.mpr (Or.inr rfl)
    simp only [setMovingSide, getMovingSide, WHOSE_TURN_BIT, h]
    rfl

/-- The side to move of the result of `makeMove` is the other side. -/
theorem makeMove_getMovingSide (B : Board) (f t : Position) (P : Nat) :
    (makeMove B f t P).getMovingSide
      = if B.getMovingSide = Side.WHITE then Side.BLACK else Side.WHITE := by
  have h : (makeMove B f t P).gamestate
      = ((clearMovedTwice B).setMovingSide
          (if (clearMovedTwice B).getMovingSide = Side.WHITE then Side.BLACK
            else Side.WHITE)).gamestate := by
    rw [makeMove_eq, promotionStep_gamestate, castlingStep_gamestate, pawnStep_gamestate]
    rfl
  have h2 : (makeMove B f t P).getMovingSide
      = ((clearMovedTwice B).setMovingSide
          (if (clearMovedTwice B).getMovingSide = Side.WHITE then Side.BLACK
            else Side.WHITE)).getMovingSide := getMovingSide_congr _ _ h
  rw [h2, getMovingSide_setMovingSide, getMovingSide_clearMovedTwice]

end Board

namespace Board

/-- C3 (as first stated) fails: a white pawn moved sideways from a2 to the empty b2 with
promotion to a queen meets the en-passant guard, yet the square (from.row, to.col), which is
the to-square, holds the queen in the result. -/
theorem makeMove_enPassant_counterexample :
    (loneWhitePawn.getSquare ⟨8⟩).getPieceType = PieceType.PAWN_PIECE
    ∧ (⟨8⟩ : Position).getCol ≠ (⟨9⟩ : Position).getCol
    ∧ (loneWhitePawn.getSquare ⟨9⟩).getPieceType = PieceType.NO_PIECE
    ∧ ((makeMove loneWhitePawn ⟨8⟩ ⟨9⟩ PieceType.QUEEN_PIECE).getSquare
        (Position.make (⟨8⟩ : Position).getRow (⟨9⟩ : Position).getCol)).getPieceType
        = PieceType.QUEEN_PIECE := by
  decide

/-- C3 (amended): for a pawn move (positions are bytes), if the columns differ and the
destination is empty in `B`, and the rows differ or the promotion is empty, the square
(from.row, to.col) is the byte 0 in the result; if the columns are equal or the destination
is occupied in `B`, every square other than from and to is as the clearing loop left it (the
en-passant rule writes nothing), in particular it keeps its kind. -/
theorem makeMove_enPassant (B : Board) (f t : Position) (P : Nat)
    (hf : f.data < 256)
    (h1 : (B.getSquare f).getPieceType = PieceType.PAWN_PIECE) :
    (f.getCol ≠ t.getCol → (B.getSquare t).getPieceType = PieceType.NO_PIECE →
      (f.getRow ≠ t.getRow ∨ P = PieceType.NO_PIECE) →
      (makeMove B f t P).getSquare (Position.make f.getRow t.getCol) = ⟨0⟩)
    ∧ (¬ (f.getCol ≠ t.getCol ∧ (B.getSquare t).getPieceType = PieceType.NO_PIECE) →
      ∀ p : Position, p ≠ f → p ≠ t →
        (makeMove B f t P).getSquare p = (clearMovedTwice B).getSquare p
        ∧ ((makeMove B f t P).getSquare p).getPieceType = (B.getSquare p).getPieceType) := by
  have g1 : (movingPieceOf B f).getPieceType = PieceType.PAWN_PIECE := by
    rw [movingPieceOf_getPieceType]; exact h1
  constructor
  · intro hc he hor
    have hidx : (Position.make f.getRow t.getCol).data = 8 * (f.data / 8) + t.data % 8 := by
      rw [Position.make_data_mod, Position.getRow_eq, Position.getCol_eq]; omega
    have hrow : (Position.make f.getRow t.getCol).data = t.data → f.getRow = t.getRow := by
      rw [hidx, Position.getRow_eq, Position.getRow_eq]; omega
    unfold getSquare
    rw [makeMove_squares_pawn B f t P _ g1]
    have c1 : ¬ (P ≠ PieceType.NO_PIECE ∧ (Position.make f.getRow t.getCol).data = t.data) := by
      rintro ⟨hP, hi⟩
      rcases hor with h | h
      · exact h (hrow hi)
      · exact hP h
    have c2 : ¬ (((f.getRow : Int) - (t.getRow : Int)).natAbs = 2
        ∧ (Position.make f.getRow t.getCol).data = t.data) := by
      rintro ⟨hd, hi⟩
      have := hrow hi
      omega
    rw [if_neg c1, if_neg c2, if_pos ⟨⟨hc, he⟩, rfl⟩]
  · intro hg p hpf hpt
    have hpf2 : p.data ≠ f.data := fun h => hpf (Position.ext_data _ _ h)
    have hpt2 : p.data ≠ t.data := fun h => hpt (Position.ext_data _ _ h)
    have key : (makeMove B f t P).getSquare p = (clearMovedTwice B).getSquare p := by
      unfold getSquare
      rw [makeMove_squares_pawn B f t P _ g1, if_neg (fun h => hpt2 h.2),
        if_neg (fun h => hpt2 h.2), if_neg (fun h => hg h.1), afterWrites_squares,
        if_neg hpt2, if_neg hpf2]
    refine ⟨key, ?_⟩
    rw [key]
    exact clearMovedTwice_getPieceType B p.data

theorem makeMove_enPassant_witness :
    ((⟨8⟩ : Position).data < 256
      ∧ (loneWhitePawn.getSquare ⟨8⟩).getPieceType = PieceType.PAWN_PIECE)
    ∧ (makeMove loneWhitePawn ⟨8⟩ ⟨17⟩ PieceType.NO_PIECE).getSquare
        (Position.make (⟨8⟩ : Position).getRow (⟨17⟩ : Position).getCol) = ⟨0⟩ :=
  ⟨⟨by decide, by decide⟩,
    (makeMove_enPassant loneWhitePawn ⟨8⟩ ⟨17⟩ PieceType.NO_PIECE (by decide)
      (by decide)).1 (by decide) (by decide) (Or.inl (by decide))⟩

end Board

namespace Board

/-- The squares written by the castling block: the corner is emptied and the square next to
the king receives a copy, with the moved bit, of what the clearing loop left on the corner. -/
theorem makeMove_castled_rook (B : Board) (f t : Position) (P : Nat)
    (g6 : (movingPieceOf B f).getPieceType = PieceType.KING_PIECE) :
    (f.getCol = 4 → t.getCol = 6 →
      (makeMove B f t P).squares (Position.make f.getRow 7).data = ⟨0⟩
      ∧ (makeMove B f t P).squares (Position.make f.getRow 5).data
        = Square.make ((clearMovedTwice B).squares (Position.make f.getRow 7).data).getPieceType
            ((clearMovedTwice B).squares (Position.make f.getRow 7).data).getSideBit
            MovedBit.YES PawnMovedTwiceBit.NO)
    ∧ (f.getCol = 4 → t.getCol = 2 →
      (makeMove B f t P).squares (Position.make f.getRow 0).data = ⟨0⟩
      ∧ (makeMove B f t P).squares (Position.make f.getRow 3).data
        = Square.make ((clearMovedTwice B).squares (Position.make f.getRow 0).data).getPieceType
            ((clearMovedTwice B).squares (Position.make f.getRow 0).data).getSideBit
            MovedBit.YES PawnMovedTwiceBit.NO) := by
  have hcol : ∀ c : Nat, c < 8 → (Position.make f.getRow c).data % 8 = c := by
    intro c hc; rw [Position.make_data_mod]; omega
  have hbase : ∀ (c : Nat), c < 8 → c ≠ f.getCol → c ≠ t.getCol →
      (afterWrites B f t).squares (Position.make f.getRow c).data
        = (clearMovedTwice B).squares (Position.make f.getRow c).data := by
    intro c hc hcf hct
    have := hcol c hc
    rw [Position.getCol_eq] at hcf hct
    rw [afterWrites_squares, if_neg (by omega), if_neg (by omega)]
  have h7 := hcol 7 (by decide)
  have h5 := hcol 5 (by decide)
  have h3 := hcol 3 (by decide)
  have h0 := hcol 0 (by decide)
  constructor
  · intro hf4 ht6
    have ht6b := ht6
    rw [Position.getCol_eq] at ht6b
    constructor
    · rw [makeMove_squares_king B f t P _ g6, if_neg (fun h => by omega), if_pos ⟨hf4, ht6⟩,
        if_neg (by omega), if_pos rfl]
    · rw [makeMove_squares_king B f t P _ g6, if_neg (fun h => by omega), if_pos ⟨hf4, ht6⟩,
        if_pos rfl, hbase 7 (by decide) (by omega) (by omega)]
  · intro hf4 ht2
    have hn : ¬ (f.getCol = 4 ∧ t.getCol = 6) := fun h => by omega
    have ht2b := ht2
    rw [Position.getCol_eq] at ht2b
    constructor
    · rw [makeMove_squares_king B f t P _ g6, if_neg (fun h => by omega), if_neg hn,
        if_pos ⟨hf4, ht2⟩, if_neg (by omega), if_pos rfl]
    · rw [makeMove_squares_king B f t P _ g6, if_neg (fun h => by omega), if_neg hn,
        if_pos ⟨hf4, ht2⟩, if_pos rfl, hbase 0 (by decide) (by omega) (by omega)]

/-- C4: for a king move from column 4: to column 6, the square (from.row, 7) is the byte 0
and (from.row, 5) holds the kind and side of what stood on (from.row, 7) in `B`, with the
moved bit; to column 2, the same with (from.row, 0) and (from.row, 3); for every other king
move every square other than from and to keeps its kind, side and moved bit. -/
theorem makeMove_castling (B : Board) (f t : Position) (P : Nat)
    (h6 : (B.getSquare f).getPieceType = PieceType.KING_PIECE) :
    (f.getCol = 4 → t.getCol = 6 →
      (makeMove B f t P).getSquare (Position.make f.getRow 7) = ⟨0⟩
      ∧ ((makeMove B f t P).getSquare (Position.make f.getRow 5)).getPieceType
          = (B.getSquare (Position.make f.getRow 7)).getPieceType
      ∧ ((makeMove B f t P).getSquare (Position.make f.getRow 5)).getSideBit
          = (B.getSquare (Position.make f.getRow 7)).getSideBit
      ∧ ((makeMove B f t P).getSquare (Position.make f.getRow 5)).getMovedBit = MovedBit.YES)
    ∧ (f.getCol = 4 → t.getCol = 2 →
      (makeMove B f t P).getSquare (Position.make f.getRow 0) = ⟨0⟩
      ∧ ((makeMove B f t P).getSquare (Position.make f.getRow 3)).getPieceType
          = (B.getSquare (Position.make f.getRow 0)).getPieceType
      ∧ ((makeMove B f t P).getSquare (Position.make f.getRow 3)).getSideBit
          = (B.getSquare (Position.make f.getRow 0)).getSideBit
      ∧ ((makeMove B f t P).getSquare (Position.make f.getRow 3)).getMovedBit = MovedBit.YES)
    ∧ (¬ (f.getCol = 4 ∧ (t.getCol = 6 ∨ t.getCol = 2)) →
      ∀ p : Position, p ≠ f → p ≠ t →
        ((makeMove B f t P).getSquare p).getPieceType = (B.getSquare p).getPieceType
        ∧ ((makeMove B f t P).getSquare p).getSideBit = (B.getSquare p).getSideBit
        ∧ ((makeMove B f t P).getSquare p).getMovedBit = (B.getSquare p).getMovedBit) := by
  have g6 : (movingPieceOf B f).getPieceType = PieceType.KING_PIECE := by
    rw [movingPieceOf_getPieceType]; exact h6
  refine ⟨?_, ?_, ?_⟩
  · intro hf4 ht6
    obtain ⟨e7, e5⟩ := (makeMove_castled_rook B f t P g6).1 hf4 ht6
    unfold getSquare
    refine ⟨e7, ?_, ?_, ?_⟩
    · rw [e5, Square.copy_type _ MovedBit.YES PawnMovedTwiceBit.NO (Or.inr rfl) (Or.inl rfl),
        clearMovedTwice_getPieceType]
    · rw [e5, Square.copy_side _ MovedBit.YES PawnMovedTwiceBit.NO (Or.inr rfl) (Or.inl rfl),
        clearMovedTwice_getSideBit]
    · rw [e5, Square.copy_moved _ MovedBit.YES PawnMovedTwiceBit.NO (Or.inr rfl) (Or.inl rfl)]
  · intro hf4 ht2
    obtain ⟨e0, e3⟩ := (makeMove_castled_rook B f t P g6).2 hf4 ht2
    unfold getSquare
    refine ⟨e0, ?_, ?_, ?_⟩
    · rw [e3, Square.copy_type _ MovedBit.YES PawnMovedTwiceBit.NO (Or.inr rfl) (Or.inl rfl),
        clearMovedTwice_getPieceType]
    · rw [e3, Square.copy_side _ MovedBit.YES PawnMovedTwiceBit.NO (Or.inr rfl) (Or.inl rfl),
        clearMovedTwice_getSideBit]
    · rw [e3, Square.copy_moved _ MovedBit.YES PawnMovedTwiceBit.NO (Or.inr rfl) (Or.inl rfl)]
  · intro hn p hpf hpt
    have hpf2 : p.data ≠ f.data := fun h => hpf (Position.ext_data _ _ h)
    have hpt2 : p.data ≠ t.data := fun h => hpt (Position.ext_data _ _ h)
    have key : (makeMove B f t P).squares p.data = (clearMovedTwice B).squares p.data := by
      rw [makeMove_squares_king B f t P _ g6, if_neg (fun h => hpt2 h.2),
        if_neg (fun h => hn ⟨h.1, Or.inl h.2⟩), if_neg (fun h => hn ⟨h.1, Or.inr h.2⟩),
        afterWrites_squares, if_neg hpt2, if_neg hpf2]
    unfold getSquare
    rw [key]
    exact ⟨clearMovedTwice_getPieceType B _, clearMovedTwice_getSideBit B _,
      clearMovedTwice_getMovedBit B _⟩

theorem makeMove_castling_witness :
    (castlingBoard.getSquare ⟨4⟩).getPieceType = PieceType.KING_PIECE
    ∧ (makeMove castlingBoard ⟨4⟩ ⟨6⟩ PieceType.NO_PIECE).getSquare
        (Position.make (⟨4⟩ : Position).getRow 7) = ⟨0⟩
    ∧ ((makeMove castlingBoard ⟨4⟩ ⟨6⟩ PieceType.NO_PIECE).getSquare
        (Position.make (⟨4⟩ : Position).getRow 5)).getPieceType
        = (castlingBoard.getSquare (Position.make (⟨4⟩ : Position).getRow 7)).getPieceType
    ∧ ((makeMove castlingBoard ⟨4⟩ ⟨6⟩ PieceType.NO_PIECE).getSquare
        (Position.make (⟨4⟩ : Position).getRow 5)).getSideBit
        = (castlingBoard.getSquare (Position.make (⟨4⟩ : Position).getRow 7)).getSideBit
    ∧ ((makeMove castlingBoard ⟨4⟩ ⟨6⟩ PieceType.NO_PIECE).getSquare
        (Position.make (⟨4⟩ : Position).getRow 5)).getMovedBit = MovedBit.YES :=
  ⟨by decide,
    (makeMove_castling castlingBoard ⟨4⟩ ⟨6⟩ PieceType.NO_PIECE (by decide)).1 (by decide)
      (by decide)⟩

end Board

namespace Board

end Board

namespace Board

/-- C6: the moved bit is monotonic under `makeMove`: a square occupied in the result whose
moved bit was set in `B` still has it; and the occupant of the to-square, the castled rook
square and a promoted piece have the moved bit set. -/
theorem makeMove_hasMoved_monotonic (B : Board) (f t : Position) (P : Nat)
    (hP : P ≤ PieceType.KING_PIECE) :
    (∀ p : Position, ((makeMove B f t P).getSquare p).getPieceType ≠ PieceType.NO_PIECE →
      (B.getSquare p).getMovedBit = MovedBit.YES →
      ((makeMove B f t P).getSquare p).getMovedBit = MovedBit.YES)
    ∧ (((makeMove B f t P).getSquare t).getPieceType ≠ PieceType.NO_PIECE →
      ((makeMove B f t P).getSquare t).getMovedBit = MovedBit.YES)
    ∧ ((B.getSquare f).getPieceType = PieceType.KING_PIECE → f.getCol = 4 → t.getCol = 6 →
      ((makeMove B f t P).getSquare (Position.make f.getRow 5)).getMovedBit = MovedBit.YES)
    ∧ ((B.getSquare f).getPieceType = PieceType.KING_PIECE → f.getCol = 4 → t.getCol = 2 →
      ((makeMove B f t P).getSquare (Position.make f.getRow 3)).getMovedBit = MovedBit.YES)
    ∧ (P ≠ PieceType.NO_PIECE →
      ((makeMove B f t P).getSquare t).getMovedBit = MovedBit.YES) := by
  have key : ∀ i : Nat, ((makeMove B f t P).squares i).getPieceType ≠ PieceType.NO_PIECE →
      (i ≠ t.data ∧ ((makeMove B f t P).squares i).getMovedBit = (B.squares i).getMovedBit)
      ∨ ((makeMove B f t P).squares i).getMovedBit = MovedBit.YES := by
    intro i hocc
    rcases makeMove_squares_cases B f t P i with
      ⟨h1, _, h⟩ | h | ⟨x, h⟩ | ⟨_, _, h⟩ | ⟨_, _, _, h⟩
    · left; rw [h]; exact ⟨h1, clearMovedTwice_getMovedBit B i⟩
    · rw [h] at hocc; exact absurd rfl hocc
    · right; rw [h]
      exact Square.copy_moved _ MovedBit.YES PawnMovedTwiceBit.NO (Or.inr rfl) (Or.inl rfl)
    · right; rw [h]; exact Square.promo_moved P hP _
    · right; rw [h]
      exact Square.copy_moved _ MovedBit.YES PawnMovedTwiceBit.YES (Or.inr rfl) (Or.inr rfl)
  refine ⟨?_, ?_, ?_, ?_, ?_⟩
  · intro p hocc hm
    rcases key p.data hocc with ⟨_, h⟩ | h
    · unfold getSquare; rw [h]; exact hm
    · exact h
  · intro hocc
    rcases key t.data hocc with ⟨h, _⟩ | h
    · exact absurd rfl h
    · exact h
  · intro h6 hf4 ht6
    unfold getSquare
    rw [((makeMove_castled_rook B f t P ((movingPieceOf_getPieceType B f).trans h6)).1 hf4
      ht6).2]
    exact Square.copy_moved _ MovedBit.YES PawnMovedTwiceBit.NO (Or.inr rfl) (Or.inl rfl)
  · intro h6 hf4 ht2
    unfold getSquare
    rw [((makeMove_castled_rook B f t P ((movingPieceOf_getPieceType B f).trans h6)).2 hf4
      ht2).2]
    exact Square.copy_moved _ MovedBit.YES PawnMovedTwiceBit.NO (Or.inr rfl) (Or.inl rfl)
  · intro hP0
    unfold getSquare
    rw [makeMove_eq, promotionStep_squares, if_pos ⟨hP0, rfl⟩]
    exact Square.promo_moved P hP _

theorem makeMove_hasMoved_monotonic_witness :
    PieceType.NO_PIECE ≤ PieceType.KING_PIECE
    ∧ ((makeMove castlingBoard ⟨4⟩ ⟨6⟩ PieceType.NO_PIECE).getSquare ⟨6⟩).getPieceType
        = PieceType.KING_PIECE
    ∧ ((makeMove castlingBoard ⟨4⟩ ⟨6⟩ PieceType.NO_PIECE).getSquare ⟨6⟩).getMovedBit
        = MovedBit.YES :=
  ⟨by decide, by decide,
    (makeMove_hasMoved_monotonic castlingBoard ⟨4⟩ ⟨6⟩ PieceType.NO_PIECE (by decide)).2.1
      (by decide)⟩

end Board

namespace Board

/-- C8: `makeMove(board, string)` stops with a hard error exactly when the string has fewer
than 4 characters or has a fifth character other than q, r, b, n; otherwise it is
`makeMove(board, from, to, P)` with from = (s[1]-'1', s[0]-'a'), to = (s[3]-'1', s[2]-'a'),
and P the queen, rook, bishop or knight for a fifth character q, r, b, n, or empty for a
string of exactly 4 characters. -/
theorem makeMoveStr_spec (B : Board) (s : List Char) :
    (makeMoveStr B s = none ↔
      (s.length < 4 ∨ ∃ c, s[4]? = some c ∧ c ≠ 'q' ∧ c ≠ 'r' ∧ c ≠ 'b' ∧ c ≠ 'n'))
    ∧ (∀ (c0 c1 c2 c3 : Char) (rest : List Char), s = c0 :: c1 :: c2 :: c3 :: rest →
        (rest = [] → makeMoveStr B s = some (makeMove B
          (Position.make (toU8 ((c1.toNat : Int) - ('1'.toNat : Int)))
            (toU8 ((c0.toNat : Int) - ('a'.toNat : Int))))
          (Position.make (toU8 ((c3.toNat : Int) - ('1'.toNat : Int)))
            (toU8 ((c2.toNat : Int) - ('a'.toNat : Int))))
          PieceType.NO_PIECE))
        ∧ (∀ (P : Nat) (tail : List Char),
            (rest = 'q' :: tail ∧ P = PieceType.QUEEN_PIECE)
            ∨ (rest = 'r' :: tail ∧ P = PieceType.ROOK_PIECE)
            ∨ (rest = 'b' :: tail ∧ P = PieceType.BISHOP_PIECE)
            ∨ (rest = 'n' :: tail ∧ P = PieceType.KNIGHT_PIECE) →
            makeMoveStr B s = some (makeMove B
              (Position.make (toU8 ((c1.toNat : Int) - ('1'.toNat : Int)))
                (toU8 ((c0.toNat : Int) - ('a'.toNat : Int))))
              (Position.make (toU8 ((c3.toNat : Int) - ('1'.toNat : Int)))
                (toU8 ((c2.toNat : Int) - ('a'.toNat : Int))))
              P))) := by
  constructor
  · rcases s with _ | ⟨c0, _ | ⟨c1, _ | ⟨c2, _ | ⟨c3, _ | ⟨c4, tail⟩⟩⟩⟩⟩
    · simp [makeMoveStr]
    · simp [makeMoveStr]
    · simp [makeMoveStr]
    · simp [makeMoveStr]
    · simp [makeMoveStr]
    · simp only [makeMoveStr, List.getElem?_cons_zero, List.getElem?_cons_succ, List.length_cons]
      have hlen : tail.length + 1 + 1 + 1 + 1 + 1 > 4 := by omega
      have hlen2 : ¬ (tail.length + 1 + 1 + 1 + 1 + 1 < 4) := by omega
      rw [if_pos hlen]
      simp only [hlen2, false_or, Option.some.injEq, exists_eq_left']
      split_ifs <;> simp_all
  · intro c0 c1 c2 c3 rest hs
    subst hs
    constructor
    · intro hr
      subst hr
      simp [makeMoveStr]
    · intro P tail h
      rcases h with ⟨rfl, rfl⟩ | ⟨rfl, rfl⟩ | ⟨rfl, rfl⟩ | ⟨rfl, rfl⟩ <;>
        simp [makeMoveStr]

end Board

/-! ## The wire format -/

theorem Move.make_data_eq (f t : Position) (ty pr : Nat) (hf : f.data < 64) (ht : t.data < 64)
    (hty : ty < 64) (hpr : pr < 64) :
    (Move.make f t ty pr).data = pr * 262144 + ty * 4096 + f.data * 64 + t.data := by
  simp only [Move.make, Nat.shiftLeft_eq]
  omega

theorem Move.make_getFrom (f t : Position) (ty pr : Nat) (hf : f.data < 64) (ht : t.data < 64)
    (hty : ty < 64) (hpr : pr < 64) : (Move.make f t ty pr).getFrom = f := by
  apply Position.ext_data
  simp only [Move.getFrom, Move.make_data_eq f t ty pr hf ht hty hpr, and63_eq,
    Nat.shiftRight_eq_div_pow]
  omega

theorem Move.make_getTo (f t : Position) (ty pr : Nat) (hf : f.data < 64) (ht : t.data < 64)
    (hty : ty < 64) (hpr : pr < 64) : (Move.make f t ty pr).getTo = t := by
  apply Position.ext_data
  simp only [Move.getTo, Move.make_data_eq f t ty pr hf ht hty hpr, and63_eq]
  omega

theorem Move.make_getMoveType (f t : Position) (ty pr : Nat) (hf : f.data < 64)
    (ht : t.data < 64) (hty : ty < 64) (hpr : pr < 64) :
    (Move.make f t ty pr).getMoveType = ty := by
  simp only [Move.getMoveType, Move.make_data_eq f t ty pr hf ht hty hpr, and63_eq,
    Nat.shiftRight_eq_div_pow]
  omega

theorem Move.make_getPromotionType (f t : Position) (ty pr : Nat) (hf : f.data < 64)
    (ht : t.data < 64) (hty : ty < 64) (hpr : pr < 64) :
    (Move.make f t ty pr).getPromotionType = pr := by
  simp only [Move.getPromotionType, Move.make_data_eq f t ty pr hf ht hty hpr, and63_eq,
    Nat.shiftRight_eq_div_pow]
  omega

theorem Position.make_lt (r c : Nat) (hr : r < 8) (hc : c < 8) :
    (Position.make r c).data < 64 := by
  rw [Position.make_data_mod]; omega

theorem Position.make_getRow (r c : Nat) (hr : r < 32) (hc : c < 8) :
    (Position.make r c).getRow = r := by
  rw [Position.getRow_eq, Position.make_data_mod]; omega

theorem Position.make_getCol (r c : Nat) (hc : c < 8) :
    (Position.make r c).getCol = c := by
  rw [Position.getCol_eq, Position.make_data_mod]; omega

theorem fileChar_toNat (c : Nat) (hc : c < 8) :
    (Char.ofNat ((97 + c) % 256)).toNat = 97 + c := by
  interval_cases c <;> rfl

theorem rankChar_toNat (r : Nat) (hr : r < 8) :
    (Char.ofNat ((49 + r) % 256)).toNat = 49 + r := by
  interval_cases r <;> rfl

theorem toU8_file (c : Nat) (hc : c < 8) :
    toU8 (((Char.ofNat ((97 + c) % 256)).toNat : Int) - 97) = c := by
  rw [fileChar_toNat c hc]
  unfold toU8
  omega

theorem toU8_rank (r : Nat) (hr : r < 8) :
    toU8 (((Char.ofNat ((49 + r) % 256)).toNat : Int) - 49) = r := by
  rw [rankChar_toNat r hr]
  unfold toU8
  omega

namespace Board

/-- C9: a move built from positions with rows and columns 0..7, either move kind and a
promotion among empty, queen, rook, bishop, knight prints as file, rank, file, rank and, iff
the promotion is not empty, its letter; and applying the printed string to a board is
applying the move. -/
theorem print_roundTrip (B : Board) (fr fc tr tc type promo : Nat)
    (hfr : fr < 8) (hfc : fc < 8) (htr : tr < 8) (htc : tc < 8)
    (htype : type = MoveType.MOVE ∨ type = MoveType.CAPTURE)
    (hpromo : promo = PieceType.NO_PIECE ∨ promo = PieceType.QUEEN_PIECE
      ∨ promo = PieceType.ROOK_PIECE ∨ promo = PieceType.BISHOP_PIECE
      ∨ promo = PieceType.KNIGHT_PIECE) :
    (Move.make (Position.make fr fc) (Position.make tr tc) type promo).print
      = [Char.ofNat ('a'.toNat + fc), Char.ofNat ('1'.toNat + fr),
          Char.ofNat ('a'.toNat + tc), Char.ofNat ('1'.toNat + tr)]
        ++ (if promo = PieceType.QUEEN_PIECE then ['q']
            else if promo = PieceType.ROOK_PIECE then ['r']
            else if promo = PieceType.BISHOP_PIECE then ['b']
            else if promo = PieceType.KNIGHT_PIECE then ['n'] else [])
    ∧ ((Move.make (Position.make fr fc) (Position.make tr tc) type promo).print.length = 4
      ∨ (Move.make (Position.make fr fc) (Position.make tr tc) type promo).print.length = 5)
    ∧ ((Move.make (Position.make fr fc) (Position.make tr tc) type promo).print.length = 5
      ↔ promo ≠ PieceType.NO_PIECE)
    ∧ makeMoveStr B (Move.make (Position.make fr fc) (Position.make tr tc) type promo).print
      = some (makeMoveM B (Move.make (Position.make fr fc) (Position.make tr tc) type promo)) := by
  have hf := Position.make_lt fr fc hfr hfc
  have ht := Position.make_lt tr tc htr htc
  have hty : type < 64 := by rcases htype with rfl | rfl <;> decide
  have hpr : promo < 64 := by
    rcases hpromo with rfl | rfl | rfl | rfl | rfl <;> decide
  have e1 := Move.make_getFrom _ _ type promo hf ht hty hpr
  have e2 := Move.make_getTo _ _ type promo hf ht hty hpr
  have e3 := Move.make_getPromotionType _ _ type promo hf ht hty hpr
  have hprint : (Move.make (Position.make fr fc) (Position.make tr tc) type promo).print
      = [Char.ofNat (('a'.toNat + fc) % 256), Char.ofNat (('1'.toNat + fr) % 256),
          Char.ofNat (('a'.toNat + tc) % 256), Char.ofNat (('1'.toNat + tr) % 256)]
        ++ (if promo = PieceType.QUEEN_PIECE then ['q']
            else if promo = PieceType.ROOK_PIECE then ['r']
            else if promo = PieceType.BISHOP_PIECE then ['b']
            else if promo = PieceType.KNIGHT_PIECE then ['n'] else []) := by
    simp only [Move.print, e1, e2, e3, Position.make_getRow _ _ (by omega : fr < 32) hfc,
      Position.make_getCol _ _ hfc, Position.make_getRow _ _ (by omega : tr < 32) htc,
      Position.make_getCol _ _ htc]
    rcases hpromo with rfl | rfl | rfl | rfl | rfl <;> simp
  have hm : ∀ c : Nat, c < 8 → ('a'.toNat + c) % 256 = 'a'.toNat + c := by
    intro c hc
    have : 'a'.toNat = 97 := rfl
    omega
  have hm1 : ∀ c : Nat, c < 8 → ('1'.toNat + c) % 256 = '1'.toNat + c := by
    intro c hc
    have : '1'.toNat = 49 := rfl
    omega
  refine ⟨?_, ?_, ?_, ?_⟩
  · rw [hprint, hm fc hfc, hm tc htc, hm1 fr hfr, hm1 tr htr]
  · rw [hprint]
    rcases hpromo with rfl | rfl | rfl | rfl | rfl <;> simp
  · rw [hprint]
    rcases hpromo with rfl | rfl | rfl | rfl | rfl <;> simp
  · rw [hprint]
    unfold makeMoveM
    rw [e1, e2, e3]
    rcases hpromo with rfl | rfl | rfl | rfl | rfl <;>
      simp [makeMoveStr, toU8_file, toU8_rank, hfr, hfc, htr, htc]

theorem print_roundTrip_witness :
    ((4 : Nat) < 8 ∧ (1 : Nat) < 8 ∧ (3 : Nat) < 8)
    ∧ (Move.make (Position.make 1 4) (Position.make 3 4) MoveType.MOVE
        PieceType.NO_PIECE).print = ['e', '2', 'e', '4']
    ∧ makeMoveStr start ['e', '2', 'e', '4']
      = some (makeMoveM start (Move.make (Position.make 1 4) (Position.make 3 4)
          MoveType.MOVE PieceType.NO_PIECE)) :=
  ⟨by decide,
    (print_roundTrip start 1 4 3 4 MoveType.MOVE PieceType.NO_PIECE (by decide) (by decide)
      (by decide) (by decide) (Or.inl rfl) (Or.inl rfl)).1,
    (print_roundTrip start 1 4 3 4 MoveType.MOVE PieceType.NO_PIECE (by decide) (by decide)
      (by decide) (by decide) (Or.inl rfl) (Or.inl rfl)).2.2.2⟩

end Board

namespace Board

theorem pieceChar_ne_endl (sq : Square) : pieceChar sq ≠ endl := by
  unfold pieceChar
  simp only []
  split_ifs <;> decide

theorem pieceChar_cases (sq : Square) (h : sq.getPieceType ≤ PieceType.KING_PIECE) :
    (sq.getPieceType = PieceType.NO_PIECE ∧ pieceChar sq = '.')
    ∨ (sq.getPieceType = PieceType.PAWN_PIECE
        ∧ pieceChar sq = if sq.getSideBit = SideBit.WHITE then 'p' else 'P')
    ∨ (sq.getPieceType = PieceType.ROOK_PIECE
        ∧ pieceChar sq = if sq.getSideBit = SideBit.WHITE then 'r' else 'R')
    ∨ (sq.getPieceType = PieceType.KNIGHT_PIECE
        ∧ pieceChar sq = if sq.getSideBit = SideBit.WHITE then 'n' else 'N')
    ∨ (sq.getPieceType = PieceType.BISHOP_PIECE
        ∧ pieceChar sq = if sq.getSideBit = SideBit.WHITE then 'b' else 'B')
    ∨ (sq.getPieceType = PieceType.QUEEN_PIECE
        ∧ pieceChar sq = if sq.getSideBit = SideBit.WHITE then 'q' else 'Q')
    ∨ (sq.getPieceType = PieceType.KING_PIECE
        ∧ pieceChar sq = if sq.getSideBit = SideBit.WHITE then 'k' else 'K') := by
  have h' : sq.getPieceType = 0 ∨ sq.getPieceType = 1 ∨ sq.getPieceType = 2
      ∨ sq.getPieceType = 3 ∨ sq.getPieceType = 4 ∨ sq.getPieceType = 5
      ∨ sq.getPieceType = 6 := by
    simp only [PieceType.KING_PIECE] at h; omega
  unfold pieceChar
  rcases h' with h' | h' | h' | h' | h' | h' | h' <;> simp [h']

theorem boardPrint_length (b : Board) (row : Nat) : (boardPrint b row).length = 8 := by
  simp [boardPrint]

theorem boardPrint_getElem (b : Board) (row c : Nat) (hc : c < 8) :
    (boardPrint b row)[c]? = some (pieceChar (b.getSquare (Position.make row c))) := by
  simp [boardPrint, List.getElem?_map, List.getElem?_range hc]

theorem boardPrint_no_endl (b : Board) (row : Nat) : endl ∉ boardPrint b row := by
  unfold boardPrint
  intro h
  rw [List.mem_map] at h
  obtain ⟨c, _, hc⟩ := h
  exact pieceChar_ne_endl _ hc

/-- C10: on a board whose 64 squares all hold a kind from empty to king, `logBoard` returns
exactly 9 lines, each ended by a newline: the first is Move:WHITE if White is to move and
Move:BLACK otherwise, and line 1+i (i = 0..7) has exactly 8 characters, the c-th describing
the square (row 7-i, col c): a dot if empty, else the letter p, r, n, b, q, k of its kind,
lower case for White and upper case for Black. -/
theorem logBoard_format (b : Board)
    (hk : ∀ i : Nat, i < 64 → (b.squares i).getPieceType ≤ PieceType.KING_PIECE) :
    ∃ lines : List (List Char), lines.length = 9
      ∧ b.logBoard = (lines.map (fun l => l ++ [endl])).flatten
      ∧ (∀ l ∈ lines, endl ∉ l)
      ∧ lines[0]? = some (if b.getMovingSide = Side.WHITE then "Move:WHITE".toList
          else "Move:BLACK".toList)
      ∧ ∀ i : Nat, i < 8 → ∃ row : List Char, lines[1 + i]? = some row ∧ row.length = 8
        ∧ ∀ c : Nat, c < 8 → ∃ ch : Char, row[c]? = some ch
          ∧ ((((b.getSquare (Position.make (7 - i) c)).getPieceType = PieceType.NO_PIECE
                ∧ ch = '.')
            ∨ ((b.getSquare (Position.make (7 - i) c)).getPieceType = PieceType.PAWN_PIECE
                ∧ ch = if (b.getSquare (Position.make (7 - i) c)).getSideBit = SideBit.WHITE
                  then 'p' else 'P')
            ∨ ((b.getSquare (Position.make (7 - i) c)).getPieceType = PieceType.ROOK_PIECE
                ∧ ch = if (b.getSquare (Position.make (7 - i) c)).getSideBit = SideBit.WHITE
                  then 'r' else 'R')
            ∨ ((b.getSquare (Position.make (7 - i) c)).getPieceType = PieceType.KNIGHT_PIECE
                ∧ ch = if (b.getSquare (Position.make (7 - i) c)).getSideBit = SideBit.WHITE
                  then 'n' else 'N')
            ∨ ((b.getSquare (Position.make (7 - i) c)).getPieceType = PieceType.BISHOP_PIECE
                ∧ ch = if (b.getSquare (Position.make (7 - i) c)).getSideBit = SideBit.WHITE
                  then 'b' else 'B')
            ∨ ((b.getSquare (Position.make (7 - i) c)).getPieceType = PieceType.QUEEN_PIECE
                ∧ ch = if (b.getSquare (Position.make (7 - i) c)).getSideBit = SideBit.WHITE
                  then 'q' else 'Q')
            ∨ ((b.getSquare (Position.make (7 - i) c)).getPieceType = PieceType.KING_PIECE
                ∧ ch = if (b.getSquare (Position.make (7 - i) c)).getSideBit = SideBit.WHITE
                  then 'k' else 'K'))) := by
  refine ⟨(if b.getMovingSide = Side.WHITE then "Move:WHITE".toList else "Move:BLACK".toList)
    :: [7, 6, 5, 4, 3, 2, 1, 0].map (boardPrint b), rfl, ?_, ?_, rfl, ?_⟩
  · unfold logBoard getMovingSide
    by_cases h : b.gamestate &&& WHOSE_TURN_BIT = 0
    · rw [if_neg (fun h2 => h2 h), if_pos h, if_pos rfl]; rfl
    · rw [if_pos h, if_neg h, if_neg (by decide)]; rfl
  · intro l hl
    rw [List.mem_cons] at hl
    rcases hl with rfl | hl
    · split_ifs <;> decide
    · rw [List.mem_map] at hl
      obtain ⟨row, _, rfl⟩ := hl
      exact boardPrint_no_endl b row
  · intro i hi
    refine ⟨boardPrint b (7 - i), ?_, boardPrint_length b _, ?_⟩
    · interval_cases i <;> rfl
    · intro c hc
      refine ⟨pieceChar (b.getSquare (Position.make (7 - i) c)), boardPrint_getElem b _ c hc, ?_⟩
      apply pieceChar_cases
      apply hk
      rw [Position.make_data_mod]
      omega

theorem logBoard_format_witness :
    (∀ i : Nat, i < 64 → (start.squares i).getPieceType ≤ PieceType.KING_PIECE)
    ∧ start.logBoard
      = ("Move:WHITE".toList ++ [endl] ++ "RNBQKBNR".toList ++ [endl]
        ++ "PPPPPPPP".toList ++ [endl] ++ "........".toList ++ [endl]
        ++ "........".toList ++ [endl] ++ "........".toList ++ [endl]
        ++ "........".toList ++ [endl] ++ "pppppppp".toList ++ [endl]
        ++ "rnbqkbnr".toList ++ [endl])
    ∧ ∃ lines : List (List Char), lines.length = 9
      ∧ start.logBoard = (lines.map (fun l => l ++ [endl])).flatten :=
  ⟨by decide, by decide,
    (logBoard_format start (by decide)).imp (fun _ h => ⟨h.1, h.2.1⟩)⟩

end Board

/-! ## The attacker-count loop -/

namespace Engine

theorem side_cases (s : Side) : s = Side.WHITE ∨ s = Side.BLACK := by
  cases s
  · exact Or.inl rfl
  · exact Or.inr rfl

/-- The after-checkmate condition of the source, in terms of `enemyCount`. -/
theorem afterCheckmate_cond (evalContext : HeuristicsContext) (pieceSide : Side) (i : Nat) :
    ((pieceSide = Side.WHITE ∧ evalContext.blackAttackCount i > 0)
      ∨ (pieceSide = Side.BLACK ∧ evalContext.whiteAttackCount i > 0))
    ↔ evalContext.enemyCount pieceSide i > 0 := by
  unfold HeuristicsContext.enemyCount
  cases pieceSide <;> simp

/-- When some index of the list meets the after-checkmate condition, the loop returns early
with the exact after-checkmate record. -/
theorem attackerPass_returned (board : Board) (evalContext : HeuristicsContext)
    (movingSide : Side) (movingSideSign : Int) (l : List Nat) :
    ∀ record : EvalRecord,
    (∃ i ∈ l, (board.getSquare ⟨i⟩).getPieceType = PieceType.KING_PIECE
      ∧ Board.getSide (board.getSquare ⟨i⟩).getSideBit ≠ movingSide
      ∧ evalContext.enemyCount (Board.getSide (board.getSquare ⟨i⟩).getSideBit) i > 0) →
    ∃ r : EvalRecord,
      attackerPass board evalContext movingSide movingSideSign l record = PassResult.returned r
      ∧ r.moves = [] ∧ r.score = wrapI16 (AFTER_CHECKMATE_SCORE * movingSideSign)
      ∧ r.evalStatus = EvalStatus.DONE_COMPLETE ∧ r.evalDepth = EXACT_EVAL_DEPTH := by
  induction l with
  | nil => intro record h; obtain ⟨i, hi, _⟩ := h; exact absurd hi (List.not_mem_nil i)
  | cons j rest ih =>
    intro record h
    unfold attackerPass
    simp only []
    by_cases hk : (board.getSquare ⟨j⟩).getPieceType = PieceType.NO_PIECE
    · rw [if_pos hk]
      apply ih
      obtain ⟨i, hi, h1, h2, h3⟩ := h
      rcases List.mem_cons.mp hi with rfl | hi
      · rw [hk] at h1; exact absurd h1 (by decide)
      · exact ⟨i, hi, h1, h2, h3⟩
    · rw [if_neg hk]
      by_cases hz : evalContext.whiteAttackCount j = 0 ∧ evalContext.blackAttackCount j = 0
      · rw [if_pos hz]
        apply ih
        obtain ⟨i, hi, h1, h2, h3⟩ := h
        rcases List.mem_cons.mp hi with rfl | hi
        · exfalso
          unfold HeuristicsContext.enemyCount at h3
          split_ifs at h3 <;> omega
        · exact ⟨i, hi, h1, h2, h3⟩
      · rw [if_neg hz]
        by_cases ht : (board.getSquare ⟨j⟩).getPieceType = PieceType.KING_PIECE
            ∧ Board.getSide (board.getSquare ⟨j⟩).getSideBit ≠ movingSide
            ∧ ((Board.getSide (board.getSquare ⟨j⟩).getSideBit = Side.WHITE
                ∧ evalContext.blackAttackCount j > 0)
              ∨ (Board.getSide (board.getSquare ⟨j⟩).getSideBit = Side.BLACK
                ∧ evalContext.whiteAttackCount j > 0))
        · rw [if_pos ht]
          exact ⟨_, rfl, rfl, rfl, rfl, rfl⟩
        · rw [if_neg ht]
          apply ih
          obtain ⟨i, hi, h1, h2, h3⟩ := h
          rcases List.mem_cons.mp hi with rfl | hi
          · exact absurd ⟨h1, h2, (afterCheckmate_cond _ _ _).mpr h3⟩ ht
          · exact ⟨i, hi, h1, h2, h3⟩

/-- When no index of the list meets the after-checkmate condition, the loop runs to its end;
it leaves the move list alone, and the position stays quiet exactly when it was quiet and no
king on the list stands on a square the other side attacks. -/
theorem attackerPass_running (board : Board) (evalContext : HeuristicsContext)
    (movingSide : Side) (movingSideSign : Int) (l : List Nat) :
    ∀ record : EvalRecord,
    (¬ ∃ i ∈ l, (board.getSquare ⟨i⟩).getPieceType = PieceType.KING_PIECE
      ∧ Board.getSide (board.getSquare ⟨i⟩).getSideBit ≠ movingSide
      ∧ evalContext.enemyCount (Board.getSide (board.getSquare ⟨i⟩).getSideBit) i > 0) →
    ∃ r : EvalRecord,
      attackerPass board evalContext movingSide movingSideSign l record = PassResult.running r
      ∧ r.moves = record.moves ∧ r.evalStatus = record.evalStatus
      ∧ r.evalDepth = record.evalDepth
      ∧ (r.isQuietPosition = true ↔ (record.isQuietPosition = true
          ∧ ¬ ∃ i ∈ l, (board.getSquare ⟨i⟩).getPieceType = PieceType.KING_PIECE
            ∧ evalContext.enemyCount (Board.getSide (board.getSquare ⟨i⟩).getSideBit) i > 0))
        := by
  induction l with
  | nil =>
    intro record _
    exact ⟨record, rfl, rfl, rfl, rfl, by simp⟩
  | cons j rest ih =>
    intro record h
    have hrest : ¬ ∃ i ∈ rest, (board.getSquare ⟨i⟩).getPieceType = PieceType.KING_PIECE
        ∧ Board.getSide (board.getSquare ⟨i⟩).getSideBit ≠ movingSide
        ∧ evalContext.enemyCount (Board.getSide (board.getSquare ⟨i⟩).getSideBit) i > 0 := by
      rintro ⟨i, hi, hc⟩
      exact h ⟨i, List.mem_cons_of_mem _ hi, hc⟩
    have hj : ¬ ((board.getSquare ⟨j⟩).getPieceType = PieceType.KING_PIECE
        ∧ Board.getSide (board.getSquare ⟨j⟩).getSideBit ≠ movingSide
        ∧ evalContext.enemyCount (Board.getSide (board.getSquare ⟨j⟩).getSideBit) j > 0) :=
      fun hc => h ⟨j, List.mem_cons_self _ _, hc⟩
    unfold attackerPass
    simp only []
    by_cases hk : (board.getSquare ⟨j⟩).getPieceType = PieceType.NO_PIECE
    · rw [if_pos hk]
      obtain ⟨r, e, h1, h2, h3, h4⟩ := ih record hrest
      refine ⟨r, e, h1, h2, h3, ?_⟩
      rw [h4]
      have : ¬ (board.getSquare ⟨j⟩).getPieceType = PieceType.KING_PIECE := by
        rw [hk]; decide
      simp [this]
    · rw [if_neg hk]
      by_cases hz : evalContext.whiteAttackCount j = 0 ∧ evalContext.blackAttackCount j = 0
      · rw [if_pos hz]
        obtain ⟨r, e, h1, h2, h3, h4⟩ := ih record hrest
        refine ⟨r, e, h1, h2, h3, ?_⟩
        rw [h4]
        have : ¬ evalContext.enemyCount (Board.getSide (board.getSquare ⟨j⟩).getSideBit) j > 0
            := by
          unfold HeuristicsContext.enemyCount
          split_ifs <;> omega
        simp [this]
      · rw [if_neg hz]
        have ht : ¬ ((board.getSquare ⟨j⟩).getPieceType = PieceType.KING_PIECE
            ∧ Board.getSide (board.getSquare ⟨j⟩).getSideBit ≠ movingSide
            ∧ ((Board.getSide (board.getSquare ⟨j⟩).getSideBit = Side.WHITE
                ∧ evalContext.blackAttackCount j > 0)
              ∨ (Board.getSide (board.getSquare ⟨j⟩).getSideBit = Side.BLACK
                ∧ evalContext.whiteAttackCount j > 0))) :=
          fun hc => hj ⟨hc.1, hc.2.1, (afterCheckmate_cond _ _ _).mp hc.2.2⟩
        rw [if_neg ht]
        by_cases hking : (board.getSquare ⟨j⟩).getPieceType = PieceType.KING_PIECE
        · rw [if_pos hking]
          by_cases hatt : evalContext.enemyCount
              (Board.getSide (board.getSquare ⟨j⟩).getSideBit) j > 0
          · have hatt2 : (if Board.getSide (board.getSquare ⟨j⟩).getSideBit = Side.WHITE
                then evalContext.blackAttackCount j > 0
                else evalContext.whiteAttackCount j > 0) := by
              unfold HeuristicsContext.enemyCount at hatt
              split_ifs at hatt ⊢ <;> exact hatt
            rw [if_pos hatt2]
            obtain ⟨r, e, h1, h2, h3, h4⟩ := ih _ hrest
            refine ⟨r, e, h1, h2, h3, ?_⟩
            rw [h4]
            constructor
            · intro hq; exact absurd hq.1 (by simp)
            · intro hq; exact absurd ⟨j, List.mem_cons_self _ _, hking, hatt⟩ hq.2
          · have hatt2 : ¬ (if Board.getSide (board.getSquare ⟨j⟩).getSideBit = Side.WHITE
                then evalContext.blackAttackCount j > 0
                else evalContext.whiteAttackCount j > 0) := by
              unfold HeuristicsContext.enemyCount at hatt
              split_ifs at hatt ⊢ <;> exact hatt
            rw [if_neg hatt2]
            obtain ⟨r, e, h1, h2, h3, h4⟩ := ih record hrest
            refine ⟨r, e, h1, h2, h3, ?_⟩
            rw [h4]
            simp [hatt]
        · rw [if_neg hking]
          obtain ⟨r, e, h1, h2, h3, h4⟩ := ih _ hrest
          refine ⟨r, e, ?_, ?_, ?_, ?_⟩
          · rw [h1]; unfold addScore; split_ifs <;> rfl
          · rw [h2]; unfold addScore; split_ifs <;> rfl
          · rw [h3]; unfold addScore; split_ifs <;> rfl
          · rw [h4]
            have e2 : ∀ x : EvalRecord, ∀ d : Int, (addScore x d).isQuietPosition
                = x.isQuietPosition := fun _ _ => rfl
            simp only [hking, false_and, List.mem_cons, exists_eq_or_imp]
            split_ifs <;> simp [e2]

end Engine

namespace Engine

theorem mem_range64 (i : Nat) : i ∈ List.range 64 ↔ i < 64 := List.mem_range

/-- C11: if a king of the side not to move stands on a square that the side to move attacks
at least once (by the attack counts of the evaluator), `evaluateBoard` returns an empty move
list, score +10000 when White is to move and -10000 when Black is to move, status
DONE_COMPLETE and evalDepth 100. -/
theorem evaluateBoard_afterCheckmate (B : Board)
    (h : ∃ i, i < 64 ∧ (B.getSquare ⟨i⟩).getPieceType = PieceType.KING_PIECE
      ∧ Board.getSide (B.getSquare ⟨i⟩).getSideBit ≠ B.getMovingSide
      ∧ (sweep B).evalContext.enemyCount (Board.getSide (B.getSquare ⟨i⟩).getSideBit) i > 0) :
    (evaluateBoard B).moves = []
    ∧ (evaluateBoard B).score = (if B.getMovingSide = Side.WHITE then 10000 else -10000)
    ∧ (evaluateBoard B).evalStatus = EvalStatus.DONE_COMPLETE
    ∧ (evaluateBoard B).evalDepth = 100 := by
  obtain ⟨i, hi, hc⟩ := h
  obtain ⟨r, e, h1, h2, h3, h4⟩ := attackerPass_returned B (sweep B).evalContext B.getMovingSide
    (Board.getSideSign B.getMovingSide) (List.range 64) (sweep B).record
    ⟨i, (mem_range64 i).mpr hi, hc⟩
  unfold evaluateBoard
  simp only [e]
  refine ⟨h1, ?_, h3, h4⟩
  rw [h2]
  cases B.getMovingSide <;> rfl

theorem evaluateBoard_afterCheckmate_witness :
    (∃ i, i < 64 ∧ (afterCheckmateBoard.getSquare ⟨i⟩).getPieceType = PieceType.KING_PIECE
      ∧ Board.getSide (afterCheckmateBoard.getSquare ⟨i⟩).getSideBit
          ≠ afterCheckmateBoard.getMovingSide
      ∧ (sweep afterCheckmateBoard).evalContext.enemyCount
          (Board.getSide (afterCheckmateBoard.getSquare ⟨i⟩).getSideBit) i > 0)
    ∧ (evaluateBoard afterCheckmateBoard).moves = []
    ∧ (evaluateBoard afterCheckmateBoard).score = -10000
    ∧ (evaluateBoard afterCheckmateBoard).evalStatus = EvalStatus.DONE_COMPLETE
    ∧ (evaluateBoard afterCheckmateBoard).evalDepth = 100 :=
  ⟨⟨0, by decide⟩,
    evaluateBoard_afterCheckmate afterCheckmateBoard ⟨0, by decide⟩⟩

/-- C12: if no after-checkmate is detected and the sweep generates no move, `evaluateBoard`
returns score -300 when White is to move and +300 when Black is to move, status
DONE_COMPLETE, evalDepth 100 and an empty move list. -/
theorem evaluateBoard_stalemate (B : Board)
    (h : ¬ ∃ i, i < 64 ∧ (B.getSquare ⟨i⟩).getPieceType = PieceType.KING_PIECE
      ∧ Board.getSide (B.getSquare ⟨i⟩).getSideBit ≠ B.getMovingSide
      ∧ (sweep B).evalContext.enemyCount (Board.getSide (B.getSquare ⟨i⟩).getSideBit) i > 0)
    (hm : (sweep B).record.moves = []) :
    (evaluateBoard B).score = (if B.getMovingSide = Side.WHITE then -300 else 300)
    ∧ (evaluateBoard B).evalStatus = EvalStatus.DONE_COMPLETE
    ∧ (evaluateBoard B).evalDepth = 100
    ∧ (evaluateBoard B).moves = [] := by
  have h' : ¬ ∃ i ∈ List.range 64, (B.getSquare ⟨i⟩).getPieceType = PieceType.KING_PIECE
      ∧ Board.getSide (B.getSquare ⟨i⟩).getSideBit ≠ B.getMovingSide
      ∧ (sweep B).evalContext.enemyCount (Board.getSide (B.getSquare ⟨i⟩).getSideBit) i > 0 := by
    rintro ⟨i, hi, hc⟩
    exact h ⟨i, (mem_range64 i).mp hi, hc⟩
  obtain ⟨r, e, h1, _, _, _⟩ := attackerPass_running B (sweep B).evalContext B.getMovingSide
    (Board.getSideSign B.getMovingSide) (List.range 64) (sweep B).record h'
  have hlen : r.moves.length = 0 := by rw [h1, hm]; rfl
  unfold evaluateBoard
  simp only [e, hlen, if_true]
  refine ⟨?_, rfl, rfl, ?_⟩
  · unfold setExactScore
    cases B.getMovingSide <;> rfl
  · unfold setExactScore
    simp only [h1, hm]

theorem evaluateBoard_stalemate_witness :
    ((¬ ∃ i, i < 64 ∧ (stalemateBoard.getSquare ⟨i⟩).getPieceType = PieceType.KING_PIECE
        ∧ Board.getSide (stalemateBoard.getSquare ⟨i⟩).getSideBit ≠ stalemateBoard.getMovingSide
        ∧ (sweep stalemateBoard).evalContext.enemyCount
            (Board.getSide (stalemateBoard.getSquare ⟨i⟩).getSideBit) i > 0)
      ∧ (sweep stalemateBoard).record.moves = [] ∧ stalemateBoard.getMovingSide = Side.WHITE)
    ∧ (evaluateBoard stalemateBoard).score = -300
    ∧ (evaluateBoard stalemateBoard).evalStatus = EvalStatus.DONE_COMPLETE
    ∧ (evaluateBoard stalemateBoard).evalDepth = 100
    ∧ (evaluateBoard stalemateBoard).moves = [] :=
  ⟨⟨by decide, by decide, by decide⟩,
    evaluateBoard_stalemate stalemateBoard (by decide) (by decide)⟩

end Engine

/-! ## The sweep: what a step leaves alone -/

namespace Engine

theorem Frame.refl (s : Side) (st : EvalState) : Frame s st st :=
  ⟨rfl, rfl, rfl, fun _ => rfl, fun _ h => h⟩

theorem Frame.trans {s : Side} {a b c : EvalState} (h1 : Frame s a b) (h2 : Frame s b c) :
    Frame s a c :=
  ⟨h2.1.trans h1.1, h2.2.1.trans h1.2.1, h2.2.2.1.trans h1.2.2.1,
    fun j => (h2.2.2.2.1 j).trans (h1.2.2.2.1 j), fun m h => h2.2.2.2.2 m (h1.2.2.2.2 m h)⟩

theorem frame_addScore (s : Side) (st : EvalState) (d : Int) : Frame s st (st.addScore d) :=
  ⟨rfl, rfl, rfl, fun _ => rfl, fun _ h => h⟩

theorem frame_pushMove (s : Side) (st : EvalState) (m : Move) : Frame s st (st.pushMove m) :=
  ⟨rfl, rfl, rfl, fun _ => rfl, fun _ h => List.mem_append_left _ h⟩

/-- A count at a cell of the array changes the counts of the counting side only. -/
theorem frame_count (s : Side) (st : EvalState) (p : Position) (hp : p.data < 64) :
    Frame s st (st.count p s) := by
  refine ⟨rfl, rfl, rfl, ?_, fun _ h => h⟩
  intro j
  cases s
  · show (countAttackerDefender st.evalContext p Side.WHITE).blackAttackCount j = _
    unfold countAttackerDefender
    simp only [if_pos hp]
    rfl
  · rfl

theorem moves_addScore (st : EvalState) (d : Int) :
    (st.addScore d).record.moves = st.record.moves := rfl

theorem moves_pushMove (st : EvalState) (m : Move) :
    (st.pushMove m).record.moves = st.record.moves ++ [m] := rfl

theorem moves_count (st : EvalState) (p : Position) (s : Side) :
    (st.count p s).record.moves = st.record.moves := rfl

theorem ctx_addScore (st : EvalState) (d : Int) :
    (st.addScore d).evalContext = st.evalContext := rfl

theorem ctx_pushMove (st : EvalState) (m : Move) :
    (st.pushMove m).evalContext = st.evalContext := rfl

theorem rowcolok_iff (x : Int) : rowcolok x = true ↔ 0 ≤ x ∧ x < 8 := by
  simp [rowcolok]

/-- The position of a row and a column of the board is a cell of the arrays. -/
theorem rowcolok_make_lt (r c : Int) (hr : rowcolok r = true) (hc : rowcolok c = true) :
    (Position.make (toU8 r) (toU8 c)).data < 64 := by
  rw [rowcolok_iff] at hr hc
  rw [Position.make_data_mod]
  unfold toU8
  omega

/-- The moves `evaluateRayMove` lists. -/
theorem evaluateRayMove_moves (B : Board) (st : EvalState) (pos : Position) (r c : Int)
    (m : Move) :
    m ∈ (evaluateRayMove B st pos r c).1.record.moves ↔
      m ∈ st.record.moves
      ∨ (rowcolok r = true ∧ rowcolok c = true
        ∧ freeFor B (Board.getSide (B.getSquare pos).getSideBit) (Position.ofRC r c)
        ∧ Board.getSide (B.getSquare pos).getSideBit = B.getMovingSide
        ∧ m = Move.make pos (Position.ofRC r c) (moveTypeOf (B.getSquare (Position.ofRC r c)))
            PieceType.NO_PIECE) := by
  unfold evaluateRayMove
  by_cases hr : rowcolok r = true <;> by_cases hc : rowcolok c = true
  · simp only [hr, hc, Bool.not_true, Bool.or_self, Bool.false_eq_true, if_false, true_and]
    by_cases hfree : freeFor B (Board.getSide (B.getSquare pos).getSideBit) (Position.ofRC r c)
    · have hfree2 := hfree
      unfold freeFor Position.ofRC at hfree2
      rw [if_pos hfree2]
      by_cases hs : Board.getSide (B.getSquare pos).getSideBit = B.getMovingSide
      · rw [if_pos hs]
        simp only [moves_count, moves_pushMove, moves_addScore, List.mem_append,
          List.mem_singleton]
        constructor
        · rintro (h | h)
          · exact Or.inl h
          · exact Or.inr ⟨hfree, hs, h⟩
        · rintro (h | ⟨_, _, h⟩)
          · exact Or.inl h
          · exact Or.inr h
      · rw [if_neg hs]
        simp only [moves_count, moves_addScore]
        constructor
        · exact fun h => Or.inl h
        · rintro (h | ⟨_, h, _⟩)
          · exact h
          · exact absurd h hs
    · have hfree2 := hfree
      unfold freeFor Position.ofRC at hfree2
      rw [if_neg hfree2]
      simp only [moves_count]
      constructor
      · exact fun h => Or.inl h
      · rintro (h | ⟨h, _⟩)
        · exact h
        · exact absurd h hfree
  · simp [hr, hc]
  · simp [hr, hc]
  · simp [hr, hc]

/-- When `evaluateRayMove` ends the ray. -/
theorem evaluateRayMove_ends (B : Board) (st : EvalState) (pos : Position) (r c : Int) :
    (evaluateRayMove B st pos r c).2 = true ↔
      ¬ (rowcolok r = true ∧ rowcolok c = true)
      ∨ (B.getSquare (Position.ofRC r c)).getPieceType ≠ PieceType.NO_PIECE := by
  unfold evaluateRayMove
  by_cases hr : rowcolok r = true <;> by_cases hc : rowcolok c = true
  · simp only [hr, hc, Bool.not_true, Bool.or_self, Bool.false_eq_true, if_false, true_and,
      not_true, false_or, decide_eq_true_eq]
    rfl
  · simp [hr, hc]
  · simp [hr, hc]
  · simp [hr, hc]

theorem evaluateRayMove_frame (B : Board) (st : EvalState) (pos : Position) (r c : Int) :
    Frame (Board.getSide (B.getSquare pos).getSideBit) st (evaluateRayMove B st pos r c).1 := by
  unfold evaluateRayMove
  by_cases hr : rowcolok r = true <;> by_cases hc : rowcolok c = true
  · have hp := rowcolok_make_lt r c hr hc
    simp only [hr, hc, Bool.not_true, Bool.or_self, Bool.false_eq_true, if_false]
    split_ifs <;>
      first
      | exact ((frame_addScore _ _ _).trans (frame_pushMove _ _ _)).trans (frame_count _ _ _ hp)
      | exact (frame_addScore _ _ _).trans (frame_count _ _ _ hp)
      | exact frame_count _ _ _ hp
  · simp only [hr, hc, Bool.not_true, Bool.not_false, Bool.or_true, Bool.true_or, if_true]
    exact Frame.refl _ _
  · simp only [hr, hc, Bool.not_true, Bool.not_false, Bool.or_true, Bool.true_or, if_true]
    exact Frame.refl _ _
  · simp only [hr, hc, Bool.not_true, Bool.not_false, Bool.or_true, Bool.true_or, if_true]
    exact Frame.refl _ _

end Engine

namespace Engine

theorem rayLoop_frame (B : Board) (pos : Position) (inRange : Int → Int → Bool)
    (dr dc : Int) :
    ∀ (fuel : Nat) (r c : Int) (st : EvalState),
      Frame (Board.getSide (B.getSquare pos).getSideBit) st
        (rayLoop B pos inRange dr dc fuel r c st) := by
  intro fuel
  induction fuel with
  | zero => intro r c st; exact Frame.refl _ _
  | succ n ih =>
    intro r c st
    unfold rayLoop
    simp only []
    split_ifs
    · exact evaluateRayMove_frame B st pos r c
    · exact (evaluateRayMove_frame B st pos r c).trans (ih _ _ _)
    · exact Frame.refl _ _

theorem RayMove_zero (B : Board) (pos : Position) (r0 c0 dr dc : Int) (m : Move) :
    RayMove B pos r0 c0 dr dc 0 m ↔
      (rowcolok r0 = true ∧ rowcolok c0 = true
        ∧ freeFor B (Board.getSide (B.getSquare pos).getSideBit) (Position.ofRC r0 c0)
        ∧ Board.getSide (B.getSquare pos).getSideBit = B.getMovingSide
        ∧ m = Move.make pos (Position.ofRC r0 c0) (moveTypeOf (B.getSquare (Position.ofRC r0 c0)))
            PieceType.NO_PIECE) := by
  unfold RayMove
  simp only [Nat.le_zero, forall_eq, Nat.cast_zero, zero_mul, add_zero, Nat.not_lt_zero,
    false_implies, implies_true, true_and, and_assoc]

theorem RayMove_succ (B : Board) (pos : Position) (r0 c0 dr dc : Int) (k : Nat) (m : Move) :
    RayMove B pos r0 c0 dr dc (k + 1) m ↔
      (rowcolok r0 = true ∧ rowcolok c0 = true
        ∧ (B.getSquare (Position.ofRC r0 c0)).getPieceType = PieceType.NO_PIECE
        ∧ RayMove B pos (r0 + dr) (c0 + dc) dr dc k m) := by
  have e1 : ∀ j : Nat, r0 + dr + (j : Int) * dr = r0 + ((j + 1 : Nat) : Int) * dr := by
    intro j; push_cast; ring
  have e2 : ∀ j : Nat, c0 + dc + (j : Int) * dc = c0 + ((j + 1 : Nat) : Int) * dc := by
    intro j; push_cast; ring
  unfold RayMove
  simp only [e1, e2]
  constructor
  · rintro ⟨h1, h2, h3, h4, h5⟩
    have h10 := h1 0 (Nat.zero_le _)
    have h20 := h2 0 (Nat.succ_pos _)
    simp only [Nat.cast_zero, zero_mul, add_zero] at h10 h20
    exact ⟨h10.1, h10.2, h20, fun j hj => h1 (j + 1) (Nat.succ_le_succ hj),
      fun j hj => h2 (j + 1) (Nat.succ_lt_succ hj), h3, h4, h5⟩
  · rintro ⟨ha, hb, hc, h1, h2, h3, h4, h5⟩
    refine ⟨?_, ?_, h3, h4, h5⟩
    · intro j hj
      cases j with
      | zero => simpa using ⟨ha, hb⟩
      | succ j => exact h1 j (Nat.le_of_succ_le_succ hj)
    · intro j hj
      cases j with
      | zero => simpa using hc
      | succ j => exact h2 j (Nat.lt_of_succ_lt_succ hj)

/-- The moves a ray loop lists. -/
theorem rayLoop_moves (B : Board) (pos : Position) (inRange : Int → Int → Bool)
    (dr dc : Int)
    (hin : ∀ r c, rowcolok r = true → rowcolok c = true → inRange r c = true) (m : Move) :
    ∀ (fuel : Nat) (r0 c0 : Int) (st : EvalState),
      m ∈ (rayLoop B pos inRange dr dc fuel r0 c0 st).record.moves ↔
        m ∈ st.record.moves ∨ ∃ k : Nat, k < fuel ∧ RayMove B pos r0 c0 dr dc k m := by
  intro fuel
  induction fuel with
  | zero =>
    intro r0 c0 st
    simp [rayLoop]
  | succ n ih =>
    intro r0 c0 st
    unfold rayLoop
    simp only []
    by_cases hr : inRange r0 c0 = true
    · rw [if_pos hr]
      by_cases he : (evaluateRayMove B st pos r0 c0).2 = true
      · rw [if_pos he, evaluateRayMove_moves, ← RayMove_zero B pos r0 c0 dr dc m]
        have he2 := (evaluateRayMove_ends B st pos r0 c0).mp he
        constructor
        · rintro (h | h)
          · exact Or.inl h
          · exact Or.inr ⟨0, Nat.succ_pos _, h⟩
        · rintro (h | ⟨k, _, hk⟩)
          · exact Or.inl h
          · cases k with
            | zero => exact Or.inr hk
            | succ k =>
              exfalso
              obtain ⟨a, b, c, _⟩ := (RayMove_succ B pos r0 c0 dr dc k m).mp hk
              rcases he2 with h | h
              · exact h ⟨a, b⟩
              · exact h c
      · rw [if_neg he, ih, evaluateRayMove_moves, ← RayMove_zero B pos r0 c0 dr dc m]
        have he2 : (rowcolok r0 = true ∧ rowcolok c0 = true)
            ∧ (B.getSquare (Position.ofRC r0 c0)).getPieceType = PieceType.NO_PIECE := by
          have := (not_congr (evaluateRayMove_ends B st pos r0 c0)).mp he
          push_neg at this
          exact this
        constructor
        · rintro ((h | h) | ⟨k, hk, h⟩)
          · exact Or.inl h
          · exact Or.inr ⟨0, Nat.succ_pos _, h⟩
          · exact Or.inr ⟨k + 1, Nat.succ_lt_succ hk,
              (RayMove_succ B pos r0 c0 dr dc k m).mpr ⟨he2.1.1, he2.1.2, he2.2, h⟩⟩
        · rintro (h | ⟨k, hk, h⟩)
          · exact Or.inl (Or.inl h)
          · cases k with
            | zero => exact Or.inl (Or.inr h)
            | succ k =>
              exact Or.inr ⟨k, Nat.lt_of_succ_lt_succ hk,
                ((RayMove_succ B pos r0 c0 dr dc k m).mp h).2.2.2⟩
    · rw [if_neg hr]
      constructor
      · exact fun h => Or.inl h
      · rintro (h | ⟨k, _, hk⟩)
        · exact h
        · exfalso
          have := hk.1 0 (Nat.zero_le _)
          simp only [Nat.cast_zero, zero_mul, add_zero] at this
          exact hr (hin r0 c0 this.1 this.2)

end Engine

namespace Engine

theorem inRange_up (r c : Int) (hr : rowcolok r = true) (_ : rowcolok c = true) :
    (fun (r : Int) (_ : Int) => decide (r < 8)) r c = true := by
  simp only [decide_eq_true_eq]; exact ((rowcolok_iff r).mp hr).2

theorem inRange_down (r c : Int) (hr : rowcolok r = true) (_ : rowcolok c = true) :
    (fun (r : Int) (_ : Int) => decide (r ≥ 0)) r c = true := by
  simp only [decide_eq_true_eq]; exact ((rowcolok_iff r).mp hr).1

theorem inRange_right (r c : Int) (_ : rowcolok r = true) (hc : rowcolok c = true) :
    (fun (_ : Int) (c : Int) => decide (c < 8)) r c = true := by
  simp only [decide_eq_true_eq]; exact ((rowcolok_iff c).mp hc).2

theorem inRange_left (r c : Int) (_ : rowcolok r = true) (hc : rowcolok c = true) :
    (fun (_ : Int) (c : Int) => decide (c ≥ 0)) r c = true := by
  simp only [decide_eq_true_eq]; exact ((rowcolok_iff c).mp hc).1

theorem rookRays_frame (B : Board) (pos : Position) (row col : Int) (st : EvalState) :
    Frame (Board.getSide (B.getSquare pos).getSideBit) st (rookRays B pos row col st) := by
  unfold rookRays
  exact (((rayLoop_frame B pos _ _ _ _ _ _ _).trans (rayLoop_frame B pos _ _ _ _ _ _ _)).trans
    (rayLoop_frame B pos _ _ _ _ _ _ _)).trans (rayLoop_frame B pos _ _ _ _ _ _ _)

theorem bishopRays_frame (B : Board) (pos : Position) (row col : Int) (st : EvalState) :
    Frame (Board.getSide (B.getSquare pos).getSideBit) st (bishopRays B pos row col st) := by
  unfold bishopRays
  exact (((rayLoop_frame B pos _ _ _ _ _ _ _).trans (rayLoop_frame B pos _ _ _ _ _ _ _)).trans
    (rayLoop_frame B pos _ _ _ _ _ _ _)).trans (rayLoop_frame B pos _ _ _ _ _ _ _)

/-- The moves the four rook loops list. -/
theorem rookRays_moves (B : Board) (pos : Position) (row col : Int) (st : EvalState)
    (m : Move) :
    m ∈ (rookRays B pos row col st).record.moves ↔
      m ∈ st.record.moves
      ∨ (∃ k : Nat, k < 8 ∧ RayMove B pos (row + 1) col 1 0 k m)
      ∨ (∃ k : Nat, k < 8 ∧ RayMove B pos (row - 1) col (-1) 0 k m)
      ∨ (∃ k : Nat, k < 8 ∧ RayMove B pos row (col + 1) 0 1 k m)
      ∨ (∃ k : Nat, k < 8 ∧ RayMove B pos row (col - 1) 0 (-1) k m) := by
  unfold rookRays
  simp only []
  rw [rayLoop_moves B pos _ _ _ inRange_left, rayLoop_moves B pos _ _ _ inRange_right,
    rayLoop_moves B pos _ _ _ inRange_down, rayLoop_moves B pos _ _ _ inRange_up]
  simp only [or_assoc]

/-- The moves the four bishop loops list. -/
theorem bishopRays_moves (B : Board) (pos : Position) (row col : Int) (st : EvalState)
    (m : Move) :
    m ∈ (bishopRays B pos row col st).record.moves ↔
      m ∈ st.record.moves
      ∨ (∃ k : Nat, k < 8 ∧ RayMove B pos (row + 1) (col + 1) 1 1 k m)
      ∨ (∃ k : Nat, k < 8 ∧ RayMove B pos (row + 1) (col - 1) 1 (-1) k m)
      ∨ (∃ k : Nat, k < 8 ∧ RayMove B pos (row - 1) (col - 1) (-1) (-1) k m)
      ∨ (∃ k : Nat, k < 8 ∧ RayMove B pos (row - 1) (col + 1) (-1) 1 k m) := by
  unfold bishopRays
  simp only []
  rw [rayLoop_moves B pos _ _ _ inRange_down, rayLoop_moves B pos _ _ _ inRange_down,
    rayLoop_moves B pos _ _ _ inRange_up, rayLoop_moves B pos _ _ _ inRange_up]
  simp only [or_assoc]

theorem knightMoves_frame (B : Board) (pos : Position) (row col : Int) (st : EvalState) :
    Frame (Board.getSide (B.getSquare pos).getSideBit) st (knightMoves B pos row col st) := by
  unfold knightMoves knightDeltas
  simp only [List.foldl]
  exact (((((((evaluateRayMove_frame B _ pos _ _).trans (evaluateRayMove_frame B _ pos _ _)).trans
    (evaluateRayMove_frame B _ pos _ _)).trans (evaluateRayMove_frame B _ pos _ _)).trans
    (evaluateRayMove_frame B _ pos _ _)).trans (evaluateRayMove_frame B _ pos _ _)).trans
    (evaluateRayMove_frame B _ pos _ _)).trans (evaluateRayMove_frame B _ pos _ _)

/-- The moves the knight loop lists. -/
theorem knightMoves_moves (B : Board) (pos : Position) (row col : Int) (st : EvalState)
    (m : Move) :
    m ∈ (knightMoves B pos row col st).record.moves ↔
      m ∈ st.record.moves
      ∨ ∃ d ∈ knightDeltas, rowcolok (row + d.1) = true ∧ rowcolok (col + d.2) = true
        ∧ freeFor B (Board.getSide (B.getSquare pos).getSideBit)
            (Position.ofRC (row + d.1) (col + d.2))
        ∧ Board.getSide (B.getSquare pos).getSideBit = B.getMovingSide
        ∧ m = Move.make pos (Position.ofRC (row + d.1) (col + d.2))
            (moveTypeOf (B.getSquare (Position.ofRC (row + d.1) (col + d.2))))
            PieceType.NO_PIECE := by
  unfold knightMoves knightDeltas
  simp only [List.foldl, evaluateRayMove_moves, List.mem_cons, List.mem_singleton,
    exists_eq_or_imp, exists_eq_left, List.not_mem_nil, false_and, exists_false, or_false,
    or_assoc, Prod.exists, Prod.mk.injEq]

end Engine

namespace Engine

theorem enemyCount_count (st : EvalState) (p : Position) (s : Side) (j : Nat)
    (hp : p.data < 64) :
    (st.count p s).evalContext.enemyCount s j = st.evalContext.enemyCount s j :=
  (frame_count s st p hp).2.2.2.1 j

theorem enemyCount_addScore (st : EvalState) (d : Int) (s : Side) (j : Nat) :
    (st.addScore d).evalContext.enemyCount s j = st.evalContext.enemyCount s j := rfl

theorem enemyCount_pushMove (st : EvalState) (m : Move) (s : Side) (j : Nat) :
    (st.pushMove m).evalContext.enemyCount s j = st.evalContext.enemyCount s j := rfl

theorem quiet_addScore (st : EvalState) (d : Int) :
    (st.addScore d).record.isQuietPosition = st.record.isQuietPosition := rfl

theorem quiet_pushMove (st : EvalState) (m : Move) :
    (st.pushMove m).record.isQuietPosition = st.record.isQuietPosition := rfl

theorem quiet_count (st : EvalState) (p : Position) (s : Side) :
    (st.count p s).record.isQuietPosition = st.record.isQuietPosition := rfl

theorem status_addScore (st : EvalState) (d : Int) :
    (st.addScore d).record.evalStatus = st.record.evalStatus := rfl

theorem status_pushMove (st : EvalState) (m : Move) :
    (st.pushMove m).record.evalStatus = st.record.evalStatus := rfl

theorem status_count (st : EvalState) (p : Position) (s : Side) :
    (st.count p s).record.evalStatus = st.record.evalStatus := rfl

theorem depth_addScore (st : EvalState) (d : Int) :
    (st.addScore d).record.evalDepth = st.record.evalDepth := rfl

theorem depth_pushMove (st : EvalState) (m : Move) :
    (st.pushMove m).record.evalDepth = st.record.evalDepth := rfl

theorem depth_count (st : EvalState) (p : Position) (s : Side) :
    (st.count p s).record.evalDepth = st.record.evalDepth := rfl

theorem pawnCapture_frame (B : Board) (msb : Nat) (pos : Position) (sq : Square)
    (row col fwd : Int) (st : EvalState) (cs : Int) (hf : rowcolok fwd = true) :
    Frame (Board.getSide sq.getSideBit) st (pawnCapture B msb pos sq row col fwd st cs) := by
  unfold pawnCapture
  by_cases hc : rowcolok (col + cs) = true
  · have hp := rowcolok_make_lt fwd (col + cs) hf hc
    simp only [hc, if_true]
    split_ifs <;>
      simp only [Frame, enemyCount_count _ _ _ _ hp, enemyCount_addScore, enemyCount_pushMove,
        quiet_addScore, quiet_pushMove, quiet_count, status_addScore, status_pushMove,
        status_count, depth_addScore, depth_pushMove, depth_count, moves_addScore,
        moves_pushMove, moves_count, List.mem_append, implies_true, and_self, true_and] <;>
      first
      | (intro m h; exact h)
      | (intro m h; exact Or.inl h)
      | (intro m h; exact Or.inl (Or.inl h))
  · simp only [hc, Bool.false_eq_true, if_false]
    exact Frame.refl _ _

/-- The moves one iteration of the pawn capture loop lists. -/
theorem pawnCapture_moves (B : Board) (msb : Nat) (pos : Position) (sq : Square)
    (row col fwd : Int) (st : EvalState) (cs : Int) (m : Move) :
    m ∈ (pawnCapture B msb pos sq row col fwd st cs).record.moves ↔
      m ∈ st.record.moves
      ∨ (rowcolok (col + cs) = true
        ∧ (B.getSquare (Position.ofRC fwd (col + cs))).getPieceType ≠ PieceType.NO_PIECE
        ∧ (B.getSquare (Position.ofRC fwd (col + cs))).getSideBit ≠ sq.getSideBit
        ∧ sq.getSideBit = msb
        ∧ m = Move.make pos (Position.ofRC fwd (col + cs)) MoveType.CAPTURE
            (promotionOf (Board.getSide sq.getSideBit) fwd))
      ∨ (rowcolok (col + cs) = true
        ∧ (B.getSquare (Position.ofRC row (col + cs))).getPieceType = PieceType.PAWN_PIECE
        ∧ (B.getSquare (Position.ofRC row (col + cs))).getSideBit ≠ sq.getSideBit
        ∧ (B.getSquare (Position.ofRC row (col + cs))).getPawnMovedTwiceBit
            = PawnMovedTwiceBit.YES
        ∧ m = Move.make pos (Position.ofRC fwd (col + cs)) MoveType.CAPTURE
            PieceType.NO_PIECE) := by
  unfold pawnCapture promotionOf Position.ofRC
  simp only []
  generalize Move.make pos (Position.make (toU8 fwd) (toU8 (col + cs))) MoveType.CAPTURE
    PieceType.NO_PIECE = mE
  generalize Move.make pos (Position.make (toU8 fwd) (toU8 (col + cs))) MoveType.CAPTURE
    (if (Board.getSide sq.getSideBit = Side.WHITE ∧ fwd = 7)
        ∨ (Board.getSide sq.getSideBit = Side.BLACK ∧ fwd = 0) then PieceType.QUEEN_PIECE
      else PieceType.NO_PIECE) = mC
  split_ifs <;>
    (try simp only [moves_pushMove, moves_addScore, moves_count, List.mem_append,
      List.mem_singleton]) <;>
    tauto

end Engine

namespace Engine

theorem make_toU8 (r c : Int) : Position.make (toU8 r) (toU8 c) = Position.ofRC r c := rfl

theorem getSquareRC_eq (B : Board) (r c : Int) :
    B.getSquareRC r c = B.getSquare (Position.ofRC r c) := rfl

theorem promotion_eq (s : Side) (fwd : Int) :
    (if (s = Side.WHITE ∧ fwd = 7) ∨ (s = Side.BLACK ∧ fwd = 0) then PieceType.QUEEN_PIECE
      else PieceType.NO_PIECE) = promotionOf s fwd := rfl

theorem pawnForward_frame (B : Board) (msb : Nat) (pos : Position) (sq : Square)
    (row col : Int) (st : EvalState) :
    Frame (Board.getSide sq.getSideBit) st (pawnForward B msb pos sq row col st) := by
  unfold pawnForward
  simp only []
  split_ifs <;>
    simp only [Frame, enemyCount_count, enemyCount_addScore, enemyCount_pushMove,
      quiet_addScore, quiet_pushMove, quiet_count, status_addScore, status_pushMove,
      status_count, depth_addScore, depth_pushMove, depth_count, moves_addScore,
      moves_pushMove, moves_count, List.mem_append, implies_true, and_self, true_and] <;>
    first
    | (intro m h; exact h)
    | (intro m h; exact Or.inl h)

theorem pawnTwiceForward_frame (B : Board) (msb : Nat) (pos : Position) (sq : Square)
    (row col : Int) (st : EvalState) :
    Frame (Board.getSide sq.getSideBit) st (pawnTwiceForward B msb pos sq row col st) := by
  unfold pawnTwiceForward
  simp only []
  split_ifs <;>
    simp only [Frame, enemyCount_count, enemyCount_addScore, enemyCount_pushMove,
      quiet_addScore, quiet_pushMove, quiet_count, status_addScore, status_pushMove,
      status_count, depth_addScore, depth_pushMove, depth_count, moves_addScore,
      moves_pushMove, moves_count, List.mem_append, implies_true, and_self, true_and] <;>
    first
    | (intro m h; exact h)
    | (intro m h; exact Or.inl h)

theorem evalPawn_frame (B : Board) (msb : Nat) (pos : Position) (sq : Square)
    (row col : Int) (st : EvalState)
    (hf : rowcolok (row + Board.getSideSign (Board.getSide sq.getSideBit)) = true) :
    Frame (Board.getSide sq.getSideBit) st (evalPawn B msb pos sq row col st) := by
  unfold evalPawn
  simp only [List.foldl]
  exact ((((frame_addScore _ _ _).trans (frame_addScore _ _ _)).trans
    (pawnForward_frame _ _ _ _ _ _ _)).trans (pawnTwiceForward_frame _ _ _ _ _ _ _)).trans
    ((pawnCapture_frame _ _ _ _ _ _ _ _ _ hf).trans (pawnCapture_frame _ _ _ _ _ _ _ _ _ hf))

theorem pawnForward_moves (B : Board) (msb : Nat) (pos : Position) (sq : Square)
    (row col : Int) (st : EvalState) (m : Move) :
    m ∈ (pawnForward B msb pos sq row col st).record.moves ↔
      m ∈ st.record.moves
      ∨ (rowcolok (row + Board.getSideSign (Board.getSide sq.getSideBit)) = true
        ∧ (B.getSquare (Position.ofRC (row + Board.getSideSign (Board.getSide sq.getSideBit))
            col)).getPieceType = PieceType.NO_PIECE
        ∧ sq.getSideBit = msb
        ∧ m = Move.make pos
            (Position.ofRC (row + Board.getSideSign (Board.getSide sq.getSideBit)) col)
            MoveType.MOVE
            (promotionOf (Board.getSide sq.getSideBit)
              (row + Board.getSideSign (Board.getSide sq.getSideBit)))) := by
  unfold pawnForward
  simp only [getSquareRC_eq, make_toU8, promotion_eq]
  generalize Move.make pos _ _ _ = mF
  split_ifs <;>
    (try simp only [moves_pushMove, moves_addScore, moves_count, List.mem_append,
      List.mem_singleton]) <;>
    tauto

theorem pawnTwiceForward_moves (B : Board) (msb : Nat) (pos : Position) (sq : Square)
    (row col : Int) (st : EvalState) (m : Move) :
    m ∈ (pawnTwiceForward B msb pos sq row col st).record.moves ↔
      m ∈ st.record.moves
      ∨ (row = (if Board.getSide sq.getSideBit = Side.WHITE then 1 else 6)
        ∧ rowcolok (row + 2 * Board.getSideSign (Board.getSide sq.getSideBit)) = true
        ∧ (B.getSquare (Position.ofRC (row + Board.getSideSign (Board.getSide sq.getSideBit))
            col)).getPieceType = PieceType.NO_PIECE
        ∧ (B.getSquare (Position.ofRC
            (row + 2 * Board.getSideSign (Board.getSide sq.getSideBit)) col)).getPieceType
          = PieceType.NO_PIECE
        ∧ sq.getSideBit = msb
        ∧ m = Move.make pos
            (Position.ofRC (row + 2 * Board.getSideSign (Board.getSide sq.getSideBit)) col)
            MoveType.MOVE PieceType.NO_PIECE) := by
  unfold pawnTwiceForward
  simp only [getSquareRC_eq, make_toU8]
  generalize Move.make pos _ _ _ = mT
  split_ifs <;>
    (try simp only [moves_pushMove, moves_addScore, moves_count, List.mem_append,
      List.mem_singleton]) <;>
    tauto

end Engine

namespace Engine

theorem enemyCount_congr (s : Side) (a b : EvalState) (h : Frame s a b) :
    b.evalContext.enemyCount s = a.evalContext.enemyCount s :=
  funext h.2.2.2.1

/-- Folding a step that only appends moves, and whose new moves depend on the state through
the attack counts of the other side alone. -/
theorem foldl_moves {α : Type} (s : Side) (f : EvalState → α → EvalState)
    (Q : (Nat → Int) → α → Move → Prop)
    (hf : ∀ st a, Frame s st (f st a))
    (hm : ∀ st a m, m ∈ (f st a).record.moves ↔
      m ∈ st.record.moves ∨ Q (st.evalContext.enemyCount s) a m) :
    ∀ (l : List α) (st : EvalState),
      Frame s st (l.foldl f st)
      ∧ ∀ m, m ∈ (l.foldl f st).record.moves ↔
        m ∈ st.record.moves ∨ ∃ a ∈ l, Q (st.evalContext.enemyCount s) a m := by
  intro l
  induction l with
  | nil => intro st; exact ⟨Frame.refl _ _, fun m => by simp⟩
  | cons a rest ih =>
    intro st
    obtain ⟨h1, h2⟩ := ih (f st a)
    refine ⟨(hf st a).trans h1, ?_⟩
    intro m
    rw [List.foldl_cons, h2, hm, enemyCount_congr s st (f st a) (hf st a)]
    simp only [List.mem_cons, exists_eq_or_imp, or_assoc]

/-- The same for a step that behaves so on the elements of the list. -/
theorem foldl_moves_on {α : Type} (s : Side) (f : EvalState → α → EvalState)
    (Q : (Nat → Int) → α → Move → Prop) :
    ∀ (l : List α),
      (∀ st, ∀ a ∈ l, Frame s st (f st a)) →
      (∀ st, ∀ a ∈ l, ∀ m, m ∈ (f st a).record.moves ↔
        m ∈ st.record.moves ∨ Q (st.evalContext.enemyCount s) a m) →
      ∀ st : EvalState,
      Frame s st (l.foldl f st)
      ∧ ∀ m, m ∈ (l.foldl f st).record.moves ↔
        m ∈ st.record.moves ∨ ∃ a ∈ l, Q (st.evalContext.enemyCount s) a m := by
  intro l
  induction l with
  | nil => intro _ _ st; exact ⟨Frame.refl _ _, fun m => by simp⟩
  | cons a rest ih =>
    intro hf hm st
    obtain ⟨h1, h2⟩ := ih (fun st b hb => hf st b (List.mem_cons_of_mem _ hb))
      (fun st b hb => hm st b (List.mem_cons_of_mem _ hb)) (f st a)
    have hfa := hf st a (List.mem_cons_self _ _)
    refine ⟨hfa.trans h1, ?_⟩
    intro m
    rw [List.foldl_cons, h2, hm st a (List.mem_cons_self _ _), enemyCount_congr s st (f st a) hfa]
    simp only [List.mem_cons, exists_eq_or_imp, or_assoc]

theorem kingStep_frame (B : Board) (pos : Position) (sq : Square) (row col : Int)
    (st : EvalState) (rd cd : Int) :
    Frame (Board.getSide sq.getSideBit) st (kingStep B pos sq row col st rd cd) := by
  unfold kingStep
  by_cases hr : rowcolok (row + rd) = true <;> by_cases hc : rowcolok (col + cd) = true
  · have hp := rowcolok_make_lt (row + rd) (col + cd) hr hc
    simp only []
    split_ifs <;>
      simp only [Frame, enemyCount_count _ _ _ _ hp, enemyCount_addScore, enemyCount_pushMove,
        quiet_addScore, quiet_pushMove, quiet_count, status_addScore, status_pushMove,
        status_count, depth_addScore, depth_pushMove, depth_count, moves_addScore,
        moves_pushMove, moves_count, List.mem_append, implies_true, and_self, true_and] <;>
      first
      | (intro m h; exact h)
      | (intro m h; exact Or.inl h)
  · simp only [hr, hc, Bool.not_true, Bool.not_false, Bool.or_true, Bool.true_or, if_true]
    split_ifs <;> exact Frame.refl _ _
  · simp only [hr, hc, Bool.not_true, Bool.not_false, Bool.or_true, Bool.true_or, if_true]
    split_ifs <;> exact Frame.refl _ _
  · simp only [hr, hc, Bool.not_true, Bool.not_false, Bool.or_true, Bool.true_or, if_true]
    split_ifs <;> exact Frame.refl _ _

/-- The moves one iteration of the king loops lists. -/
theorem kingStep_moves (B : Board) (pos : Position) (sq : Square) (row col : Int)
    (st : EvalState) (rd cd : Int) (m : Move) :
    m ∈ (kingStep B pos sq row col st rd cd).record.moves ↔
      m ∈ st.record.moves
      ∨ (¬ (cd = 0 ∧ rd = 0) ∧ rowcolok (row + rd) = true ∧ rowcolok (col + cd) = true
        ∧ freeFor B (Board.getSide sq.getSideBit) (Position.ofRC (row + rd) (col + cd))
        ∧ ¬ st.evalContext.enemyCount (Board.getSide sq.getSideBit)
            (Position.ofRC (row + rd) (col + cd)).data > 0
        ∧ Board.getSide sq.getSideBit = B.getMovingSide
        ∧ m = Move.make pos (Position.ofRC (row + rd) (col + cd))
            (moveTypeOf (B.getSquare (Position.ofRC (row + rd) (col + cd))))
            PieceType.NO_PIECE) := by
  unfold kingStep freeFor moveTypeOf
  simp only [make_toU8]
  generalize Move.make pos _ _ _ = mK
  by_cases hr : rowcolok (row + rd) = true <;> by_cases hc : rowcolok (col + cd) = true <;>
    simp only [hr, hc, Bool.not_true, Bool.not_false, Bool.or_self, Bool.or_true,
      Bool.or_false, Bool.true_or] <;>
    split_ifs <;>
    (try simp only [moves_pushMove, moves_addScore, moves_count, List.mem_append,
      List.mem_singleton]) <;>
    tauto

end Engine

namespace Engine

/-- The moves the two nested king loops list. -/
theorem kingLoops_spec (B : Board) (pos : Position) (sq : Square) (row col : Int)
    (st : EvalState) :
    Frame (Board.getSide sq.getSideBit) st
      ([-1, 0, 1].foldl (fun st rd =>
        [-1, 0, 1].foldl (fun st cd => kingStep B pos sq row col st rd cd) st) st)
    ∧ ∀ m, m ∈ ([-1, 0, 1].foldl (fun st rd =>
        [-1, 0, 1].foldl (fun st cd => kingStep B pos sq row col st rd cd) st) st).record.moves
      ↔ m ∈ st.record.moves
        ∨ ∃ rd ∈ ([-1, 0, 1] : List Int), ∃ cd ∈ ([-1, 0, 1] : List Int),
          (¬ (cd = 0 ∧ rd = 0) ∧ rowcolok (row + rd) = true ∧ rowcolok (col + cd) = true
          ∧ freeFor B (Board.getSide sq.getSideBit) (Position.ofRC (row + rd) (col + cd))
          ∧ ¬ st.evalContext.enemyCount (Board.getSide sq.getSideBit)
              (Position.ofRC (row + rd) (col + cd)).data > 0
          ∧ Board.getSide sq.getSideBit = B.getMovingSide
          ∧ m = Move.make pos (Position.ofRC (row + rd) (col + cd))
              (moveTypeOf (B.getSquare (Position.ofRC (row + rd) (col + cd))))
              PieceType.NO_PIECE) := by
  have inner : ∀ rd : Int, ∀ st : EvalState,
      Frame (Board.getSide sq.getSideBit) st
        ([-1, 0, 1].foldl (fun st cd => kingStep B pos sq row col st rd cd) st)
      ∧ ∀ m, m ∈ ([-1, 0, 1].foldl
          (fun st cd => kingStep B pos sq row col st rd cd) st).record.moves
        ↔ m ∈ st.record.moves ∨ ∃ cd ∈ ([-1, 0, 1] : List Int),
          (fun (E : Nat → Int) (cd : Int) (m : Move) =>
            ¬ (cd = 0 ∧ rd = 0) ∧ rowcolok (row + rd) = true ∧ rowcolok (col + cd) = true
            ∧ freeFor B (Board.getSide sq.getSideBit) (Position.ofRC (row + rd) (col + cd))
            ∧ ¬ E (Position.ofRC (row + rd) (col + cd)).data > 0
            ∧ Board.getSide sq.getSideBit = B.getMovingSide
            ∧ m = Move.make pos (Position.ofRC (row + rd) (col + cd))
                (moveTypeOf (B.getSquare (Position.ofRC (row + rd) (col + cd))))
                PieceType.NO_PIECE)
            (st.evalContext.enemyCount (Board.getSide sq.getSideBit)) cd m := by
    intro rd st
    exact foldl_moves (Board.getSide sq.getSideBit)
      (fun st cd => kingStep B pos sq row col st rd cd)
      (fun (E : Nat → Int) (cd : Int) (m : Move) =>
        ¬ (cd = 0 ∧ rd = 0) ∧ rowcolok (row + rd) = true ∧ rowcolok (col + cd) = true
        ∧ freeFor B (Board.getSide sq.getSideBit) (Position.ofRC (row + rd) (col + cd))
        ∧ ¬ E (Position.ofRC (row + rd) (col + cd)).data > 0
        ∧ Board.getSide sq.getSideBit = B.getMovingSide
        ∧ m = Move.make pos (Position.ofRC (row + rd) (col + cd))
            (moveTypeOf (B.getSquare (Position.ofRC (row + rd) (col + cd))))
            PieceType.NO_PIECE)
      (fun st cd => kingStep_frame B pos sq row col st rd cd)
      (fun st cd m => kingStep_moves B pos sq row col st rd cd m) [-1, 0, 1] st
  exact foldl_moves (Board.getSide sq.getSideBit)
    (fun st rd => [-1, 0, 1].foldl (fun st cd => kingStep B pos sq row col st rd cd) st)
    (fun (E : Nat → Int) (rd : Int) (m : Move) => ∃ cd ∈ ([-1, 0, 1] : List Int),
      ¬ (cd = 0 ∧ rd = 0) ∧ rowcolok (row + rd) = true ∧ rowcolok (col + cd) = true
      ∧ freeFor B (Board.getSide sq.getSideBit) (Position.ofRC (row + rd) (col + cd))
      ∧ ¬ E (Position.ofRC (row + rd) (col + cd)).data > 0
      ∧ Board.getSide sq.getSideBit = B.getMovingSide
      ∧ m = Move.make pos (Position.ofRC (row + rd) (col + cd))
          (moveTypeOf (B.getSquare (Position.ofRC (row + rd) (col + cd))))
          PieceType.NO_PIECE)
    (fun st rd => (inner rd st).1) (fun st rd m => (inner rd st).2 m) [-1, 0, 1] st

theorem validFold (p : Int → Bool) (l : List Int) :
    ∀ acc : Bool, l.foldl (fun (valid : Bool) middleCol => valid && p middleCol) acc = true ↔
      (acc = true ∧ ∀ c ∈ l, p c = true) := by
  induction l with
  | nil => intro acc; simp
  | cons a rest ih =>
    intro acc
    rw [List.foldl_cons, ih]
    simp only [Bool.and_eq_true, List.mem_cons, forall_eq_or_imp, and_assoc]

theorem castle_frame (B : Board) (pos : Position) (sq : Square) (row : Int)
    (rookCol : Int) (middleCols : List Int) (toCol : Int) (st : EvalState) :
    Frame (Board.getSide sq.getSideBit) st
      (castle B pos sq row rookCol middleCols toCol st) := by
  unfold castle
  simp only []
  split_ifs <;>
    simp only [Frame, enemyCount_count, enemyCount_addScore, enemyCount_pushMove,
      quiet_addScore, quiet_pushMove, quiet_count, status_addScore, status_pushMove,
      status_count, depth_addScore, depth_pushMove, depth_count, moves_addScore,
      moves_pushMove, moves_count, List.mem_append, implies_true, and_self, true_and] <;>
    first
    | (intro m h; exact h)
    | (intro m h; exact Or.inl h)

/-- The move one castling block lists. -/
theorem castle_moves (B : Board) (pos : Position) (sq : Square) (row : Int)
    (rookCol : Int) (middleCols : List Int) (toCol : Int) (st : EvalState) (m : Move) :
    m ∈ (castle B pos sq row rookCol middleCols toCol st).record.moves ↔
      m ∈ st.record.moves
      ∨ ((B.getSquare (Position.ofRC row rookCol)).getPieceType = PieceType.ROOK_PIECE
        ∧ (B.getSquare (Position.ofRC row rookCol)).getMovedBit = MovedBit.NO
        ∧ (∀ middleCol ∈ middleCols,
            (B.getSquare (Position.ofRC row middleCol)).getPieceType = PieceType.NO_PIECE
            ∧ st.evalContext.enemyCount (Board.getSide sq.getSideBit)
                (Position.ofRC row middleCol).data = 0)
        ∧ Board.getSide sq.getSideBit = B.getMovingSide
        ∧ m = Move.make pos (Position.ofRC row toCol) MoveType.MOVE PieceType.NO_PIECE) := by
  unfold castle
  simp only [make_toU8, getSquareRC_eq,
    validFold (fun middleCol =>
      decide ((B.getSquare (Position.ofRC row middleCol)).getPieceType = PieceType.NO_PIECE)
      && decide (st.evalContext.enemyCount (Board.getSide sq.getSideBit)
          (Position.ofRC row middleCol).data = 0)),
    Bool.and_eq_true, decide_eq_true_eq, true_and]
  generalize Move.make pos _ _ _ = mC
  split_ifs <;>
    (try simp only [moves_pushMove, moves_addScore, moves_count, List.mem_append,
      List.mem_singleton]) <;>
    tauto

end Engine

namespace Engine

/-- The pawn branch lists exactly the pawn moves of `Gen`. -/
theorem evalPawn_gen (B : Board) (pos : Position) (sq : Square) (row col : Int)
    (st : EvalState) (E : Nat → Int) (m : Move)
    (hk : sq.getPieceType = PieceType.PAWN_PIECE) :
    m ∈ (evalPawn B (Board.getSideBit B.getMovingSide) pos sq row col st).record.moves ↔
      m ∈ st.record.moves
      ∨ Gen B E pos sq row col (Board.getSide sq.getSideBit)
          (Board.getSideSign (Board.getSide sq.getSideBit)) m := by
  unfold evalPawn
  simp only [List.foldl, pawnCapture_moves, pawnTwiceForward_moves, pawnForward_moves,
    moves_addScore, or_assoc]
  constructor
  · rintro (h | ⟨h1, h2, h3, rfl⟩ | ⟨h1, h2, h3, h4, h5, rfl⟩ | ⟨h1, h2, h3, h4, rfl⟩
      | ⟨h1, h2, h3, h4, rfl⟩ | ⟨h1, h2, h3, h4, rfl⟩ | ⟨h1, h2, h3, h4, rfl⟩)
    · exact Or.inl h
    · exact Or.inr (Gen.pawnForward hk h3 h1 h2)
    · exact Or.inr (Gen.pawnTwice hk h5 h1 h2 h3 h4)
    · exact Or.inr (Gen.pawnCapture (-1) (Or.inl rfl) hk h4 h1 h2 h3)
    · exact Or.inr (Gen.enPassant (-1) (Or.inl rfl) hk h1 h2 h3 h4)
    · exact Or.inr (Gen.pawnCapture 1 (Or.inr rfl) hk h4 h1 h2 h3)
    · exact Or.inr (Gen.enPassant 1 (Or.inr rfl) hk h1 h2 h3 h4)
  · rintro (h | g)
    · exact Or.inl h
    · cases g with
      | pawnForward _ h2 h3 h4 => exact Or.inr (Or.inl ⟨h3, h4, h2, rfl⟩)
      | pawnTwice _ h2 h3 h4 h5 h6 => exact Or.inr (Or.inr (Or.inl ⟨h3, h4, h5, h6, h2, rfl⟩))
      | pawnCapture cs hcs _ h2 h3 h4 h5 =>
        rcases hcs with rfl | rfl
        · exact Or.inr (Or.inr (Or.inr (Or.inl ⟨h3, h4, h5, h2, rfl⟩)))
        · exact Or.inr (Or.inr (Or.inr (Or.inr (Or.inr (Or.inl ⟨h3, h4, h5, h2, rfl⟩)))))
      | enPassant cs hcs _ h3 h4 h5 h6 =>
        rcases hcs with rfl | rfl
        · exact Or.inr (Or.inr (Or.inr (Or.inr (Or.inl ⟨h3, h4, h5, h6, rfl⟩))))
        · exact Or.inr (Or.inr (Or.inr (Or.inr (Or.inr (Or.inr ⟨h3, h4, h5, h6, rfl⟩)))))
      | ray dRow dCol k m h _ _ =>
        exfalso; rw [hk] at h
        rcases h with ⟨h | h, _⟩ | ⟨h | h, _⟩ <;> exact absurd h (by decide)
      | knight dRow dCol h => exfalso; rw [hk] at h; exact absurd h (by decide)
      | kingStep rd cd h => exfalso; rw [hk] at h; exact absurd h (by decide)
      | castleShort h => exfalso; rw [hk] at h; exact absurd h (by decide)
      | castleLong h => exfalso; rw [hk] at h; exact absurd h (by decide)

/-- The knight branch lists exactly the knight moves of `Gen`. -/
theorem knightMoves_gen (B : Board) (pos : Position) (row col : Int)
    (st : EvalState) (E : Nat → Int) (m : Move)
    (hk : (B.getSquare pos).getPieceType = PieceType.KNIGHT_PIECE) :
    m ∈ (knightMoves B pos row col st).record.moves ↔
      m ∈ st.record.moves
      ∨ Gen B E pos (B.getSquare pos) row col (Board.getSide (B.getSquare pos).getSideBit)
          (Board.getSideSign (Board.getSide (B.getSquare pos).getSideBit)) m := by
  rw [knightMoves_moves]
  constructor
  · rintro (h | ⟨d, hd, h1, h2, h3, h4, rfl⟩)
    · exact Or.inl h
    · exact Or.inr (Gen.knight d.1 d.2 hk hd h4 h1 h2 h3)
  · rintro (h | g)
    · exact Or.inl h
    · cases g with
      | pawnForward h => exfalso; rw [hk] at h; exact absurd h (by decide)
      | pawnTwice h => exfalso; rw [hk] at h; exact absurd h (by decide)
      | pawnCapture cs hcs h => exfalso; rw [hk] at h; exact absurd h (by decide)
      | enPassant cs hcs h => exfalso; rw [hk] at h; exact absurd h (by decide)
      | ray dRow dCol k m h _ _ =>
        exfalso; rw [hk] at h
        rcases h with ⟨h | h, _⟩ | ⟨h | h, _⟩ <;> exact absurd h (by decide)
      | knight dRow dCol _ hd h3 h4 h5 h6 =>
        exact Or.inr ⟨(dRow, dCol), hd, h4, h5, h6, h3, rfl⟩
      | kingStep rd cd h => exfalso; rw [hk] at h; exact absurd h (by decide)
      | castleShort h => exfalso; rw [hk] at h; exact absurd h (by decide)
      | castleLong h => exfalso; rw [hk] at h; exact absurd h (by decide)

end Engine

namespace Engine

/-- The rook loops list the `RayMove`s of the four rook directions. -/
theorem rookRays_dirs (B : Board) (pos : Position) (row col : Int) (st : EvalState)
    (m : Move) :
    m ∈ (rookRays B pos row col st).record.moves ↔
      m ∈ st.record.moves
      ∨ ∃ d ∈ rookDirs, ∃ k : Nat, k < 8
        ∧ RayMove B pos (row + d.1) (col + d.2) d.1 d.2 k m := by
  rw [rookRays_moves]
  simp only [rookDirs, List.mem_cons, List.mem_singleton, exists_eq_or_imp, exists_eq_left,
    List.not_mem_nil, false_and, exists_false, or_false, add_zero, Int.add_neg_one,
    ← sub_eq_add_neg]

/-- The bishop loops list the `RayMove`s of the four bishop directions. -/
theorem bishopRays_dirs (B : Board) (pos : Position) (row col : Int) (st : EvalState)
    (m : Move) :
    m ∈ (bishopRays B pos row col st).record.moves ↔
      m ∈ st.record.moves
      ∨ ∃ d ∈ bishopDirs, ∃ k : Nat, k < 8
        ∧ RayMove B pos (row + d.1) (col + d.2) d.1 d.2 k m := by
  rw [bishopRays_moves]
  simp only [bishopDirs, List.mem_cons, List.mem_singleton, exists_eq_or_imp, exists_eq_left,
    List.not_mem_nil, false_and, exists_false, or_false, add_zero, Int.add_neg_one,
    ← sub_eq_add_neg]

/-- The ray moves of `Gen` for a rook, a bishop or a queen. -/
theorem gen_slider (B : Board) (E : Nat → Int) (pos : Position) (sq : Square) (row col : Int)
    (m : Move)
    (hk : sq.getPieceType = PieceType.ROOK_PIECE ∨ sq.getPieceType = PieceType.BISHOP_PIECE
      ∨ sq.getPieceType = PieceType.QUEEN_PIECE) :
    Gen B E pos sq row col (Board.getSide sq.getSideBit)
        (Board.getSideSign (Board.getSide sq.getSideBit)) m ↔
      (((sq.getPieceType = PieceType.ROOK_PIECE ∨ sq.getPieceType = PieceType.QUEEN_PIECE)
          ∧ ∃ d ∈ rookDirs, ∃ k : Nat, k < 8
            ∧ RayMove B pos (row + d.1) (col + d.2) d.1 d.2 k m)
        ∨ ((sq.getPieceType = PieceType.BISHOP_PIECE ∨ sq.getPieceType = PieceType.QUEEN_PIECE)
          ∧ ∃ d ∈ bishopDirs, ∃ k : Nat, k < 8
            ∧ RayMove B pos (row + d.1) (col + d.2) d.1 d.2 k m)) := by
  have hn1 : sq.getPieceType ≠ PieceType.PAWN_PIECE := by
    rcases hk with h | h | h <;> rw [h] <;> decide
  have hn3 : sq.getPieceType ≠ PieceType.KNIGHT_PIECE := by
    rcases hk with h | h | h <;> rw [h] <;> decide
  have hn6 : sq.getPieceType ≠ PieceType.KING_PIECE := by
    rcases hk with h | h | h <;> rw [h] <;> decide
  constructor
  · intro g
    cases g with
    | pawnForward h => exact absurd h hn1
    | pawnTwice h => exact absurd h hn1
    | pawnCapture cs hcs h => exact absurd h hn1
    | enPassant cs hcs h => exact absurd h hn1
    | ray dRow dCol k m h h8 hr =>
      rcases h with ⟨h, hd⟩ | ⟨h, hd⟩
      · exact Or.inl ⟨h, (dRow, dCol), hd, k, h8, hr⟩
      · exact Or.inr ⟨h, (dRow, dCol), hd, k, h8, hr⟩
    | knight dRow dCol h => exact absurd h hn3
    | kingStep rd cd h => exact absurd h hn6
    | castleShort h => exact absurd h hn6
    | castleLong h => exact absurd h hn6
  · rintro (⟨h, d, hd, k, h8, hr⟩ | ⟨h, d, hd, k, h8, hr⟩)
    · exact Gen.ray d.1 d.2 k m (Or.inl ⟨h, hd⟩) h8 hr
    · exact Gen.ray d.1 d.2 k m (Or.inr ⟨h, hd⟩) h8 hr

end Engine

namespace Engine

theorem evalKing_frame (B : Board) (pos : Position) (sq : Square) (row col : Int)
    (st : EvalState) :
    Frame (Board.getSide sq.getSideBit) st (evalKing B pos sq row col st) := by
  unfold evalKing
  simp only []
  have h1 := (kingLoops_spec B pos sq row col st).1
  split_ifs
  · exact (h1.trans (castle_frame _ _ _ _ _ _ _ _)).trans (castle_frame _ _ _ _ _ _ _ _)
  · exact h1
  · exact h1

/-- The king branch lists exactly the king moves of `Gen`. -/
theorem evalKing_gen (B : Board) (pos : Position) (sq : Square) (row col : Int)
    (st : EvalState) (m : Move)
    (hk : sq.getPieceType = PieceType.KING_PIECE) :
    m ∈ (evalKing B pos sq row col st).record.moves ↔
      m ∈ st.record.moves
      ∨ Gen B (st.evalContext.enemyCount (Board.getSide sq.getSideBit)) pos sq row col
          (Board.getSide sq.getSideBit) (Board.getSideSign (Board.getSide sq.getSideBit)) m := by
  have hn1 : sq.getPieceType ≠ PieceType.PAWN_PIECE := by rw [hk]; decide
  have hn3 : sq.getPieceType ≠ PieceType.KNIGHT_PIECE := by rw [hk]; decide
  obtain ⟨f1, m1⟩ := kingLoops_spec B pos sq row col st
  have e1 := enemyCount_congr _ _ _ f1
  have f2 := castle_frame B pos sq row 7 [5, 6] 6
    ([-1, 0, 1].foldl (fun st rd =>
      [-1, 0, 1].foldl (fun st cd => kingStep B pos sq row col st rd cd) st) st)
  have e2 := enemyCount_congr _ _ _ f2
  unfold evalKing
  simp only []
  have hstep : (m ∈ st.record.moves ∨ ∃ rd ∈ ([-1, 0, 1] : List Int),
        ∃ cd ∈ ([-1, 0, 1] : List Int),
          (¬ (cd = 0 ∧ rd = 0) ∧ rowcolok (row + rd) = true ∧ rowcolok (col + cd) = true
          ∧ freeFor B (Board.getSide sq.getSideBit) (Position.ofRC (row + rd) (col + cd))
          ∧ ¬ st.evalContext.enemyCount (Board.getSide sq.getSideBit)
              (Position.ofRC (row + rd) (col + cd)).data > 0
          ∧ Board.getSide sq.getSideBit = B.getMovingSide
          ∧ m = Move.make pos (Position.ofRC (row + rd) (col + cd))
              (moveTypeOf (B.getSquare (Position.ofRC (row + rd) (col + cd))))
              PieceType.NO_PIECE)) →
      (m ∈ st.record.moves
      ∨ Gen B (st.evalContext.enemyCount (Board.getSide sq.getSideBit)) pos sq row col
          (Board.getSide sq.getSideBit) (Board.getSideSign (Board.getSide sq.getSideBit)) m) := by
    rintro (h | ⟨rd, hrd, cd, hcd, h1, h2, h3, h4, h5, h6, rfl⟩)
    · exact Or.inl h
    · exact Or.inr (Gen.kingStep rd cd hk hrd hcd h1 h6 h2 h3 h4 h5)
  by_cases hc : pos.getCol = 4 ∧ sq.getMovedBit = MovedBit.NO
  · rw [if_pos hc]
    by_cases ha : ([-1, 0, 1].foldl (fun st rd =>
        [-1, 0, 1].foldl (fun st cd => kingStep B pos sq row col st rd cd) st)
          st).evalContext.enemyCount (Board.getSide sq.getSideBit) pos.data = 0
    · rw [if_pos ha, castle_moves, castle_moves, m1, e2, e1]
      rw [e1] at ha
      constructor
      · rintro ((h | ⟨h1, h2, h3, h4, rfl⟩) | ⟨h1, h2, h3, h4, rfl⟩)
        · exact hstep h
        · exact Or.inr (Gen.castleShort hk h4 hc.1 hc.2 ha h1 h2 h3)
        · exact Or.inr (Gen.castleLong hk h4 hc.1 hc.2 ha h1 h2 h3)
      · rintro (h | g)
        · exact Or.inl (Or.inl (Or.inl h))
        · cases g with
          | pawnForward h => exact absurd h hn1
          | pawnTwice h => exact absurd h hn1
          | pawnCapture cs hcs h => exact absurd h hn1
          | enPassant cs hcs h => exact absurd h hn1
          | ray dRow dCol k m h _ _ =>
            exfalso; rw [hk] at h
            rcases h with ⟨h | h, _⟩ | ⟨h | h, _⟩ <;> exact absurd h (by decide)
          | knight dRow dCol h => exact absurd h hn3
          | kingStep rd cd _ hrd hcd h1 h6 h2 h3 h4 h5 =>
            exact Or.inl (Or.inl (Or.inr ⟨rd, hrd, cd, hcd, h1, h2, h3, h4, h5, h6, rfl⟩))
          | castleShort _ h4 _ _ _ h1 h2 h3 => exact Or.inl (Or.inr ⟨h1, h2, h3, h4, rfl⟩)
          | castleLong _ h4 _ _ _ h1 h2 h3 => exact Or.inr ⟨h1, h2, h3, h4, rfl⟩
    · rw [if_neg ha, m1]
      rw [e1] at ha
      constructor
      · exact hstep
      · rintro (h | g)
        · exact Or.inl h
        · cases g with
          | pawnForward h => exact absurd h hn1
          | pawnTwice h => exact absurd h hn1
          | pawnCapture cs hcs h => exact absurd h hn1
          | enPassant cs hcs h => exact absurd h hn1
          | ray dRow dCol k m h _ _ =>
            exfalso; rw [hk] at h
            rcases h with ⟨h | h, _⟩ | ⟨h | h, _⟩ <;> exact absurd h (by decide)
          | knight dRow dCol h => exact absurd h hn3
          | kingStep rd cd _ hrd hcd h1 h6 h2 h3 h4 h5 =>
            exact Or.inr ⟨rd, hrd, cd, hcd, h1, h2, h3, h4, h5, h6, rfl⟩
          | castleShort _ _ _ _ h5 => exact absurd h5 ha
          | castleLong _ _ _ _ h5 => exact absurd h5 ha
  · rw [if_neg hc, m1]
    constructor
    · exact hstep
    · rintro (h | g)
      · exact Or.inl h
      · cases g with
        | pawnForward h => exact absurd h hn1
        | pawnTwice h => exact absurd h hn1
        | pawnCapture cs hcs h => exact absurd h hn1
        | enPassant cs hcs h => exact absurd h hn1
        | ray dRow dCol k m h _ _ =>
          exfalso; rw [hk] at h
          rcases h with ⟨h | h, _⟩ | ⟨h | h, _⟩ <;> exact absurd h (by decide)
        | knight dRow dCol h => exact absurd h hn3
        | kingStep rd cd _ hrd hcd h1 h6 h2 h3 h4 h5 =>
          exact Or.inr ⟨rd, hrd, cd, hcd, h1, h2, h3, h4, h5, h6, rfl⟩
        | castleShort _ _ h3 h4 => exact absurd ⟨h3, h4⟩ hc
        | castleLong _ _ h3 h4 => exact absurd ⟨h3, h4⟩ hc

end Engine

namespace Engine

/-- Every move of `Gen` is pushed by a pawn, rook, knight, bishop, queen or king. -/
theorem gen_kind (B : Board) (E : Nat → Int) (pos : Position) (sq : Square) (row col : Int)
    (s : Side) (sign : Int) (m : Move) (g : Gen B E pos sq row col s sign m) :
    sq.getPieceType = PieceType.PAWN_PIECE ∨ sq.getPieceType = PieceType.ROOK_PIECE
    ∨ sq.getPieceType = PieceType.KNIGHT_PIECE ∨ sq.getPieceType = PieceType.BISHOP_PIECE
    ∨ sq.getPieceType = PieceType.QUEEN_PIECE ∨ sq.getPieceType = PieceType.KING_PIECE := by
  cases g with
  | pawnForward h => exact Or.inl h
  | pawnTwice h => exact Or.inl h
  | pawnCapture cs hcs h => exact Or.inl h
  | enPassant cs hcs h => exact Or.inl h
  | ray dRow dCol k m h _ _ =>
    rcases h with ⟨h | h, _⟩ | ⟨h | h, _⟩
    · exact Or.inr (Or.inl h)
    · exact Or.inr (Or.inr (Or.inr (Or.inr (Or.inl h))))
    · exact Or.inr (Or.inr (Or.inr (Or.inl h)))
    · exact Or.inr (Or.inr (Or.inr (Or.inr (Or.inl h))))
  | knight dRow dCol h => exact Or.inr (Or.inr (Or.inl h))
  | kingStep rd cd h => exact Or.inr (Or.inr (Or.inr (Or.inr (Or.inr h))))
  | castleShort h => exact Or.inr (Or.inr (Or.inr (Or.inr (Or.inr h))))
  | castleLong h => exact Or.inr (Or.inr (Or.inr (Or.inr (Or.inr h))))

/-- The piece branches of the sweep, before the centre bonus. -/
theorem pieceBranch_spec (B : Board) (pos : Position) (row col : Int) (st : EvalState)
    (sign : Int)
    (hb : (B.getSquare pos).getPieceType = PieceType.PAWN_PIECE →
      rowcolok (row + Board.getSideSign (Board.getSide (B.getSquare pos).getSideBit)) = true) :
    Frame (Board.getSide (B.getSquare pos).getSideBit) st
      (if (B.getSquare pos).getPieceType = PieceType.PAWN_PIECE then
        evalPawn B (Board.getSideBit B.getMovingSide) pos (B.getSquare pos) row col st
      else if (B.getSquare pos).getPieceType = PieceType.ROOK_PIECE then
        rookRays B pos row col (st.addScore (ROOK_BONUS * sign))
      else if (B.getSquare pos).getPieceType = PieceType.BISHOP_PIECE then
        bishopRays B pos row col (st.addScore (BISHOP_BONUS * sign))
      else if (B.getSquare pos).getPieceType = PieceType.QUEEN_PIECE then
        bishopRays B pos row col (rookRays B pos row col (st.addScore (QUEEN_BONUS * sign)))
      else if (B.getSquare pos).getPieceType = PieceType.KNIGHT_PIECE then
        knightMoves B pos row col (st.addScore (KNIGHT_BONUS * sign))
      else if (B.getSquare pos).getPieceType = PieceType.KING_PIECE then
        evalKing B pos (B.getSquare pos) row col (st.addScore (KING_BONUS * sign))
      else st)
    ∧ ∀ m, m ∈ (if (B.getSquare pos).getPieceType = PieceType.PAWN_PIECE then
        evalPawn B (Board.getSideBit B.getMovingSide) pos (B.getSquare pos) row col st
      else if (B.getSquare pos).getPieceType = PieceType.ROOK_PIECE then
        rookRays B pos row col (st.addScore (ROOK_BONUS * sign))
      else if (B.getSquare pos).getPieceType = PieceType.BISHOP_PIECE then
        bishopRays B pos row col (st.addScore (BISHOP_BONUS * sign))
      else if (B.getSquare pos).getPieceType = PieceType.QUEEN_PIECE then
        bishopRays B pos row col (rookRays B pos row col (st.addScore (QUEEN_BONUS * sign)))
      else if (B.getSquare pos).getPieceType = PieceType.KNIGHT_PIECE then
        knightMoves B pos row col (st.addScore (KNIGHT_BONUS * sign))
      else if (B.getSquare pos).getPieceType = PieceType.KING_PIECE then
        evalKing B pos (B.getSquare pos) row col (st.addScore (KING_BONUS * sign))
      else st).record.moves
      ↔ m ∈ st.record.moves
        ∨ Gen B (st.evalContext.enemyCount (Board.getSide (B.getSquare pos).getSideBit)) pos
            (B.getSquare pos) row col (Board.getSide (B.getSquare pos).getSideBit)
            (Board.getSideSign (Board.getSide (B.getSquare pos).getSideBit)) m := by
  by_cases h1 : (B.getSquare pos).getPieceType = PieceType.PAWN_PIECE
  · rw [if_pos h1]
    exact ⟨evalPawn_frame _ _ _ _ _ _ _ (hb h1), fun m => evalPawn_gen B pos _ row col st _ m h1⟩
  rw [if_neg h1]
  by_cases h2 : (B.getSquare pos).getPieceType = PieceType.ROOK_PIECE
  · rw [if_pos h2]
    refine ⟨(frame_addScore _ _ _).trans (rookRays_frame _ _ _ _ _), fun m => ?_⟩
    rw [rookRays_dirs, moves_addScore, gen_slider B _ pos _ row col m (Or.inl h2)]
    have hb : ¬ ((B.getSquare pos).getPieceType = PieceType.BISHOP_PIECE
        ∨ (B.getSquare pos).getPieceType = PieceType.QUEEN_PIECE) := by
      rw [h2]; decide
    have ha : (B.getSquare pos).getPieceType = PieceType.ROOK_PIECE
        ∨ (B.getSquare pos).getPieceType = PieceType.QUEEN_PIECE := Or.inl h2
    simp only [ha, true_and, hb, false_and, or_false]
  rw [if_neg h2]
  by_cases h4 : (B.getSquare pos).getPieceType = PieceType.BISHOP_PIECE
  · rw [if_pos h4]
    refine ⟨(frame_addScore _ _ _).trans (bishopRays_frame _ _ _ _ _), fun m => ?_⟩
    rw [bishopRays_dirs, moves_addScore, gen_slider B _ pos _ row col m (Or.inr (Or.inl h4))]
    have hb : ¬ ((B.getSquare pos).getPieceType = PieceType.ROOK_PIECE
        ∨ (B.getSquare pos).getPieceType = PieceType.QUEEN_PIECE) := by
      rw [h4]; decide
    have ha : (B.getSquare pos).getPieceType = PieceType.BISHOP_PIECE
        ∨ (B.getSquare pos).getPieceType = PieceType.QUEEN_PIECE := Or.inl h4
    simp only [ha, true_and, hb, false_and, false_or]
  rw [if_neg h4]
  by_cases h5 : (B.getSquare pos).getPieceType = PieceType.QUEEN_PIECE
  · rw [if_pos h5]
    refine ⟨((frame_addScore _ _ _).trans (rookRays_frame _ _ _ _ _)).trans
      (bishopRays_frame _ _ _ _ _), fun m => ?_⟩
    rw [bishopRays_dirs, rookRays_dirs, moves_addScore,
      gen_slider B _ pos _ row col m (Or.inr (Or.inr h5))]
    have ha : (B.getSquare pos).getPieceType = PieceType.ROOK_PIECE
        ∨ (B.getSquare pos).getPieceType = PieceType.QUEEN_PIECE := Or.inr h5
    have hb : (B.getSquare pos).getPieceType = PieceType.BISHOP_PIECE
        ∨ (B.getSquare pos).getPieceType = PieceType.QUEEN_PIECE := Or.inr h5
    simp only [ha, hb, true_and, or_assoc]
  rw [if_neg h5]
  by_cases h3 : (B.getSquare pos).getPieceType = PieceType.KNIGHT_PIECE
  · rw [if_pos h3]
    refine ⟨(frame_addScore _ _ _).trans (knightMoves_frame _ _ _ _ _), fun m => ?_⟩
    rw [knightMoves_gen B pos row col _ _ m h3, moves_addScore]
  rw [if_neg h3]
  by_cases h6 : (B.getSquare pos).getPieceType = PieceType.KING_PIECE
  · rw [if_pos h6]
    refine ⟨(frame_addScore _ _ _).trans (evalKing_frame _ _ _ _ _ _), fun m => ?_⟩
    rw [evalKing_gen B pos _ row col _ m h6, moves_addScore]
    rfl
  rw [if_neg h6]
  refine ⟨Frame.refl _ _, fun m => ?_⟩
  constructor
  · exact fun h => Or.inl h
  · rintro (h | g)
    · exact h
    · exfalso
      rcases gen_kind _ _ _ _ _ _ _ _ _ g with h | h | h | h | h | h
      · exact h1 h
      · exact h2 h
      · exact h3 h
      · exact h4 h
      · exact h5 h
      · exact h6 h

end Engine

namespace Engine

/-- One step of the sweep: it appends the moves of `Gen` for the piece on the square, when
there is one and it belongs to the side under evaluation. -/
theorem evalSquare_spec (B : Board) (side : Side) (st : EvalState) (i : Nat)
    (hb : (B.getSquare ⟨i⟩).getPieceType = PieceType.PAWN_PIECE →
      rowcolok (((⟨i⟩ : Position).getRow : Int)
        + Board.getSideSign (Board.getSide (B.getSquare ⟨i⟩).getSideBit)) = true) :
    Frame side st (evalSquare B (Board.getSideBit B.getMovingSide) side st i)
    ∧ ∀ m, m ∈ (evalSquare B (Board.getSideBit B.getMovingSide) side st i).record.moves ↔
        m ∈ st.record.moves
        ∨ ((B.getSquare ⟨i⟩).getPieceType ≠ PieceType.NO_PIECE
          ∧ Board.getSide (B.getSquare ⟨i⟩).getSideBit = side
          ∧ GenAt B (st.evalContext.enemyCount side) i m) := by
  unfold evalSquare GenAt
  simp only []
  by_cases h0 : (B.getSquare ⟨i⟩).getPieceType = PieceType.NO_PIECE
  · rw [if_pos h0]
    exact ⟨Frame.refl _ _, fun m => by simp [h0]⟩
  rw [if_neg h0]
  by_cases hs : Board.getSide (B.getSquare ⟨i⟩).getSideBit = side
  · rw [if_neg (fun h => h hs)]
    obtain ⟨fX, mX⟩ := pieceBranch_spec B ⟨i⟩ ((⟨i⟩ : Position).getRow : Int)
      ((⟨i⟩ : Position).getCol : Int) st
      (Board.getSideSign (Board.getSide (B.getSquare ⟨i⟩).getSideBit)) hb
    generalize (if (B.getSquare ⟨i⟩).getPieceType = PieceType.PAWN_PIECE then _ else _) = X
      at fX mX ⊢
    rw [hs] at fX mX
    have hm : ∀ d : Int, (X.addScore d).record.moves = X.record.moves := fun _ => rfl
    constructor
    · split_ifs
      · exact fX.trans (frame_addScore _ _ _)
      · exact fX.trans (frame_addScore _ _ _)
      · exact fX
    · intro m
      have : m ∈ (if ((((⟨i⟩ : Position).getRow : Int) = 3 ∨ ((⟨i⟩ : Position).getRow : Int) = 4)
            ∧ (((⟨i⟩ : Position).getCol : Int) = 3 ∨ ((⟨i⟩ : Position).getCol : Int) = 4)) then
          X.addScore (CENTER_BONUS * Board.getSideSign (Board.getSide (B.getSquare ⟨i⟩).getSideBit))
        else if ((⟨i⟩ : Position).getRow : Int) ≥ 2 ∧ ((⟨i⟩ : Position).getRow : Int) ≤ 5
            ∧ ((⟨i⟩ : Position).getCol : Int) ≥ 2 ∧ ((⟨i⟩ : Position).getCol : Int) ≤ 5 then
          X.addScore (NEAR_CENTER_BONUS
            * Board.getSideSign (Board.getSide (B.getSquare ⟨i⟩).getSideBit))
        else X).record.moves ↔ m ∈ X.record.moves := by
        split_ifs <;> simp only [hm]
      rw [this, mX]
      simp only [ne_eq, h0, not_false_eq_true, hs, true_and]
  · rw [if_pos hs]
    exact ⟨Frame.refl _ _, fun m => by simp [hs]⟩

end Engine

namespace Engine

theorem sweepSide_spec (B : Board) (hB : InBounds B) (side : Side) (st : EvalState) :
    Frame side st (sweepSide B side st)
    ∧ ∀ m, m ∈ (sweepSide B side st).record.moves ↔
        m ∈ st.record.moves
        ∨ ∃ i ∈ List.range 64, ((B.getSquare ⟨i⟩).getPieceType ≠ PieceType.NO_PIECE
          ∧ Board.getSide (B.getSquare ⟨i⟩).getSideBit = side
          ∧ GenAt B (st.evalContext.enemyCount side) i m) :=
  foldl_moves_on side
    (fun st posIndex => evalSquare B (Board.getSideBit B.getMovingSide) side st posIndex)
    (fun E i m => (B.getSquare ⟨i⟩).getPieceType ≠ PieceType.NO_PIECE
      ∧ Board.getSide (B.getSquare ⟨i⟩).getSideBit = side ∧ GenAt B E i m)
    (List.range 64)
    (fun st i hi => (evalSquare_spec B side st i (hB i (List.mem_range.mp hi))).1)
    (fun st i hi m => (evalSquare_spec B side st i (hB i (List.mem_range.mp hi))).2 m) st

theorem other_ne (s : Side) : (if s = Side.BLACK then Side.WHITE else Side.BLACK) ≠ s := by
  cases s <;> decide

/-- The sweep is the sweep of the side not to move followed by the sweep of the side to
move. -/
theorem sweep_eq (B : Board) :
    sweep B = sweepSide B B.getMovingSide
      (sweepSide B (if B.getMovingSide = Side.BLACK then Side.WHITE else Side.BLACK)
        ⟨EvalRecord.new, HeuristicsContext.new⟩) := by
  unfold sweep sweepSide sideEvalOrder
  cases B.getMovingSide <;> rfl

/-- For a piece that is not of the side to move, `Gen` does not depend on the attack
counts. -/
theorem gen_counts_irrelevant (B : Board) (E E2 : Nat → Int) (pos : Position) (sq : Square)
    (row col : Int) (s : Side) (sign : Int) (m : Move) (hs : s ≠ B.getMovingSide)
    (g : Gen B E pos sq row col s sign m) : Gen B E2 pos sq row col s sign m := by
  cases g with
  | pawnForward h1 h2 h3 h4 => exact Gen.pawnForward h1 h2 h3 h4
  | pawnTwice h1 h2 h3 h4 h5 h6 => exact Gen.pawnTwice h1 h2 h3 h4 h5 h6
  | pawnCapture cs hcs h1 h2 h3 h4 h5 => exact Gen.pawnCapture cs hcs h1 h2 h3 h4 h5
  | enPassant cs hcs h1 h2 h3 h4 h5 => exact Gen.enPassant cs hcs h1 h2 h3 h4 h5
  | ray dRow dCol k m h1 h2 h3 => exact Gen.ray dRow dCol k m h1 h2 h3
  | knight dRow dCol h1 h2 h3 h4 h5 h6 => exact Gen.knight dRow dCol h1 h2 h3 h4 h5 h6
  | kingStep rd cd _ _ _ _ h => exact absurd h hs
  | castleShort _ h => exact absurd h hs
  | castleLong _ h => exact absurd h hs

/-- The move list after the sweep: the moves of `Gen` for the pieces of the 64 squares, the
king branch reading the final attack counts of the side not to move. -/
theorem sweep_moves (B : Board) (hB : InBounds B) (m : Move) :
    m ∈ (sweep B).record.moves ↔
      ∃ i, i < 64 ∧ (B.getSquare ⟨i⟩).getPieceType ≠ PieceType.NO_PIECE
        ∧ GenAt B (attackedBy B) i m := by
  have hE : attackedBy B = (sweepSide B (if B.getMovingSide = Side.BLACK then Side.WHITE
      else Side.BLACK) ⟨EvalRecord.new, HeuristicsContext.new⟩).evalContext.enemyCount
        B.getMovingSide := by
    unfold attackedBy
    rw [sweep_eq]
    exact enemyCount_congr _ _ _ (sweepSide_spec B hB B.getMovingSide _).1
  rw [sweep_eq, (sweepSide_spec B hB B.getMovingSide _).2, (sweepSide_spec B hB _ _).2, ← hE]
  constructor
  · rintro ((h | ⟨i, hi, h0, hs, g⟩) | ⟨i, hi, h0, hs, g⟩)
    · exact absurd h (List.not_mem_nil m)
    · refine ⟨i, List.mem_range.mp hi, h0, ?_⟩
      unfold GenAt at g ⊢
      rw [hs] at g ⊢
      exact gen_counts_irrelevant B _ _ _ _ _ _ _ _ m (other_ne _) g
    · exact ⟨i, List.mem_range.mp hi, h0, g⟩
  · rintro ⟨i, hi, h0, g⟩
    by_cases hs : Board.getSide (B.getSquare ⟨i⟩).getSideBit = B.getMovingSide
    · exact Or.inr ⟨i, List.mem_range.mpr hi, h0, hs, g⟩
    · refine Or.inl (Or.inr ⟨i, List.mem_range.mpr hi, h0, ?_, ?_⟩)
      · revert hs
        cases Board.getSide (B.getSquare ⟨i⟩).getSideBit <;> cases B.getMovingSide <;> simp
      · unfold GenAt at g ⊢
        exact gen_counts_irrelevant B _ _ _ _ _ _ _ _ m hs g

/-- One iteration of the pawn capture loop leaves the flags of the record alone, on every
board. -/
theorem pawnCapture_flags (B : Board) (msb : Nat) (pos : Position) (sq : Square)
    (row col fwd : Int) (st : EvalState) (cs : Int) :
    (pawnCapture B msb pos sq row col fwd st cs).record.isQuietPosition
        = st.record.isQuietPosition
    ∧ (pawnCapture B msb pos sq row col fwd st cs).record.evalStatus = st.record.evalStatus
    ∧ (pawnCapture B msb pos sq row col fwd st cs).record.evalDepth = st.record.evalDepth := by
  unfold pawnCapture
  simp only []
  split_ifs <;> exact ⟨rfl, rfl, rfl⟩

theorem evalPawn_flags (B : Board) (msb : Nat) (pos : Position) (sq : Square)
    (row col : Int) (st : EvalState) :
    (evalPawn B msb pos sq row col st).record.isQuietPosition = st.record.isQuietPosition
    ∧ (evalPawn B msb pos sq row col st).record.evalStatus = st.record.evalStatus
    ∧ (evalPawn B msb pos sq row col st).record.evalDepth = st.record.evalDepth := by
  unfold evalPawn
  simp only [List.foldl]
  obtain ⟨a1, a2, a3, _⟩ := (((frame_addScore (Board.getSide sq.getSideBit) st
      (PAWN_BONUS * Board.getSideSign (Board.getSide sq.getSideBit))).trans
    (frame_addScore _ _ _)).trans (pawnForward_frame B msb pos sq row col _)).trans
    (pawnTwiceForward_frame B msb pos sq row col _)
  obtain ⟨b1, b2, b3⟩ := pawnCapture_flags B msb pos sq row col
    (row + Board.getSideSign (Board.getSide sq.getSideBit)) _ (-1)
  obtain ⟨c1, c2, c3⟩ := pawnCapture_flags B msb pos sq row col
    (row + Board.getSideSign (Board.getSide sq.getSideBit)) _ 1
  exact ⟨(c1.trans b1).trans a1, (c2.trans b2).trans a2, (c3.trans b3).trans a3⟩

/-- One step of the sweep leaves the flags of the record alone, on every board. -/
theorem evalSquare_flags (B : Board) (side : Side) (st : EvalState) (i : Nat) :
    (evalSquare B (Board.getSideBit B.getMovingSide) side st i).record.isQuietPosition
        = st.record.isQuietPosition
    ∧ (evalSquare B (Board.getSideBit B.getMovingSide) side st i).record.evalStatus
        = st.record.evalStatus
    ∧ (evalSquare B (Board.getSideBit B.getMovingSide) side st i).record.evalDepth
        = st.record.evalDepth := by
  by_cases hp : (B.getSquare ⟨i⟩).getPieceType = PieceType.PAWN_PIECE
  · have h0 : ¬ (B.getSquare ⟨i⟩).getPieceType = PieceType.NO_PIECE := by
      rw [hp]; decide
    unfold evalSquare
    simp only []
    rw [if_neg h0]
    by_cases hs : Board.getSide (B.getSquare ⟨i⟩).getSideBit = side
    · rw [if_neg (fun h => h hs), if_pos hp]
      obtain ⟨a, b, c⟩ := evalPawn_flags B (Board.getSideBit B.getMovingSide) ⟨i⟩
        (B.getSquare ⟨i⟩) ((⟨i⟩ : Position).getRow : Int) ((⟨i⟩ : Position).getCol : Int) st
      split_ifs <;> exact ⟨a, b, c⟩
    · rw [if_pos hs]
      exact ⟨rfl, rfl, rfl⟩
  · obtain ⟨a, b, c, _⟩ := (evalSquare_spec B side st i (fun h => absurd h hp)).1
    exact ⟨a, b, c⟩

theorem sweepSide_flags (B : Board) (side : Side) (st : EvalState) :
    (sweepSide B side st).record.isQuietPosition = st.record.isQuietPosition
    ∧ (sweepSide B side st).record.evalStatus = st.record.evalStatus
    ∧ (sweepSide B side st).record.evalDepth = st.record.evalDepth := by
  unfold sweepSide
  generalize List.range 64 = l
  induction l generalizing st with
  | nil => exact ⟨rfl, rfl, rfl⟩
  | cons a rest ih =>
    rw [List.foldl_cons]
    obtain ⟨a1, a2, a3⟩ := ih (evalSquare B (Board.getSideBit B.getMovingSide) side st a)
    obtain ⟨b1, b2, b3⟩ := evalSquare_flags B side st a
    exact ⟨a1.trans b1, a2.trans b2, a3.trans b3⟩

/-- The sweep leaves the flags of a fresh record alone, on every board. -/
theorem sweep_flags (B : Board) :
    (sweep B).record.isQuietPosition = true
    ∧ (sweep B).record.evalStatus = EvalStatus.NOT_EVALUATED
    ∧ (sweep B).record.evalDepth = 0 := by
  rw [sweep_eq]
  obtain ⟨a, b, c⟩ := sweepSide_flags B B.getMovingSide
    (sweepSide B (if B.getMovingSide = Side.BLACK then Side.WHITE else Side.BLACK)
      ⟨EvalRecord.new, HeuristicsContext.new⟩)
  obtain ⟨a2, b2, c2⟩ := sweepSide_flags B
    (if B.getMovingSide = Side.BLACK then Side.WHITE else Side.BLACK)
      ⟨EvalRecord.new, HeuristicsContext.new⟩
  exact ⟨a.trans a2, b.trans b2, c.trans c2⟩

end Engine

namespace Engine

/-- The record `evaluateBoard` returns when no after-checkmate is detected: the move list of
the sweep, and the quiet flag of the attacker-count loop. -/
theorem evaluateBoard_running (B : Board) (h : ¬ AfterCheckmate B) :
    (evaluateBoard B).moves = (sweep B).record.moves
    ∧ (evaluateBoard B).evalStatus = EvalStatus.DONE_COMPLETE
    ∧ ((evaluateBoard B).isQuietPosition = true ↔
        ¬ ∃ i, i < 64 ∧ (B.getSquare ⟨i⟩).getPieceType = PieceType.KING_PIECE
          ∧ (sweep B).evalContext.enemyCount (Board.getSide (B.getSquare ⟨i⟩).getSideBit) i > 0)
    := by
  have h' : ¬ ∃ i ∈ List.range 64, (B.getSquare ⟨i⟩).getPieceType = PieceType.KING_PIECE
      ∧ Board.getSide (B.getSquare ⟨i⟩).getSideBit ≠ B.getMovingSide
      ∧ (sweep B).evalContext.enemyCount (Board.getSide (B.getSquare ⟨i⟩).getSideBit) i > 0 := by
    rintro ⟨i, hi, hc⟩
    exact h ⟨i, (mem_range64 i).mp hi, hc⟩
  obtain ⟨r, e, h1, _, _, h4⟩ := attackerPass_running B (sweep B).evalContext B.getMovingSide
    (Board.getSideSign B.getMovingSide) (List.range 64) (sweep B).record h'
  have hq : (r.isQuietPosition = true ↔
      ¬ ∃ i, i < 64 ∧ (B.getSquare ⟨i⟩).getPieceType = PieceType.KING_PIECE
        ∧ (sweep B).evalContext.enemyCount (Board.getSide (B.getSquare ⟨i⟩).getSideBit) i > 0)
      := by
    rw [h4, (sweep_flags B).1]
    simp only [true_and, List.mem_range]
  unfold evaluateBoard
  simp only [e]
  split_ifs
  · exact ⟨h1, rfl, hq⟩
  · exact ⟨h1, rfl, hq⟩

/-- The record `evaluateBoard` returns when an after-checkmate is detected has no moves. -/
theorem evaluateBoard_returned (B : Board) (h : AfterCheckmate B) :
    (evaluateBoard B).moves = [] := by
  obtain ⟨i, hi, hc⟩ := h
  obtain ⟨r, e, h1, _⟩ := attackerPass_returned B (sweep B).evalContext B.getMovingSide
    (Board.getSideSign B.getMovingSide) (List.range 64) (sweep B).record
    ⟨i, (mem_range64 i).mpr hi, hc⟩
  unfold evaluateBoard
  simp only [e]
  exact h1

set_option maxRecDepth 100000 in
/-- C13 (as first stated) fails: with black king a1, black rook h1, white rook a8, white king
h8 and White to move, the white king stands on a square Black attacks, yet the record is
quiet: the loop returns at the black king on a1 before it reaches the white king. -/
theorem isQuiet_counterexample :
    (evaluateBoard bothKingsAttacked).isQuietPosition = true
    ∧ (bothKingsAttacked.getSquare ⟨63⟩).getPieceType = PieceType.KING_PIECE
    ∧ Board.getSide (bothKingsAttacked.getSquare ⟨63⟩).getSideBit
        = bothKingsAttacked.getMovingSide
    ∧ (sweep bothKingsAttacked).evalContext.enemyCount
        (Board.getSide (bothKingsAttacked.getSquare ⟨63⟩).getSideBit) 63 > 0 := by
  decide

/-- C13 (amended): on a board without a pawn on the last row of its side (there the
evaluator reads only cells of its arrays) and on which no after-checkmate is detected, the
record of `evaluateBoard` is quiet exactly when no king of the side to move stands on a square
with a positive attack count of the other side. -/
theorem evaluateBoard_isQuiet (B : Board) (_hB : InBounds B) (h : ¬ AfterCheckmate B) :
    (evaluateBoard B).isQuietPosition = true ↔
      ¬ ∃ i, i < 64 ∧ (B.getSquare ⟨i⟩).getPieceType = PieceType.KING_PIECE
        ∧ Board.getSide (B.getSquare ⟨i⟩).getSideBit = B.getMovingSide
        ∧ (sweep B).evalContext.enemyCount (Board.getSide (B.getSquare ⟨i⟩).getSideBit) i > 0
    := by
  rw [(evaluateBoard_running B h).2.2]
  constructor
  · rintro hn ⟨i, hi, hk, _, hc⟩
    exact hn ⟨i, hi, hk, hc⟩
  · rintro hn ⟨i, hi, hk, hc⟩
    by_cases hs : Board.getSide (B.getSquare ⟨i⟩).getSideBit = B.getMovingSide
    · exact hn ⟨i, hi, hk, hs, hc⟩
    · exact h ⟨i, hi, hk, hs, hc⟩

theorem evaluateBoard_isQuiet_witness :
    InBounds stalemateBoard ∧ ¬ AfterCheckmate stalemateBoard
    ∧ ((evaluateBoard stalemateBoard).isQuietPosition = true ↔
      ¬ ∃ i, i < 64 ∧ (stalemateBoard.getSquare ⟨i⟩).getPieceType = PieceType.KING_PIECE
        ∧ Board.getSide (stalemateBoard.getSquare ⟨i⟩).getSideBit
            = stalemateBoard.getMovingSide
        ∧ (sweep stalemateBoard).evalContext.enemyCount
            (Board.getSide (stalemateBoard.getSquare ⟨i⟩).getSideBit) i > 0) :=
  ⟨by unfold InBounds; decide, by unfold AfterCheckmate; decide,
    evaluateBoard_isQuiet stalemateBoard (by unfold InBounds; decide)
      (by unfold AfterCheckmate; decide)⟩

end Engine

/-! ## Decoding the listed moves -/

theorem Position.ofRC_data (r c : Int) (hr : 0 ≤ r ∧ r < 8) (hc : 0 ≤ c ∧ c < 8) :
    ((Position.ofRC r c).data : Int) = 8 * r + c := by
  unfold Position.ofRC toU8
  rw [Position.make_data_mod]
  omega

theorem Position.ofRC_lt (r c : Int) (hr : 0 ≤ r ∧ r < 8) (hc : 0 ≤ c ∧ c < 8) :
    (Position.ofRC r c).data < 64 := by
  have := Position.ofRC_data r c hr hc
  omega

theorem Position.ofRC_getRow (r c : Int) (hr : 0 ≤ r ∧ r < 8) (hc : 0 ≤ c ∧ c < 8) :
    ((Position.ofRC r c).getRow : Int) = r := by
  have := Position.ofRC_data r c hr hc
  rw [Position.getRow_eq]
  omega

theorem Position.ofRC_getCol (r c : Int) (hr : 0 ≤ r ∧ r < 8) (hc : 0 ≤ c ∧ c < 8) :
    ((Position.ofRC r c).getCol : Int) = c := by
  have := Position.ofRC_data r c hr hc
  rw [Position.getCol_eq]
  omega

theorem Position.row_range (i : Nat) (hi : i < 64) :
    0 ≤ ((⟨i⟩ : Position).getRow : Int) ∧ ((⟨i⟩ : Position).getRow : Int) < 8 := by
  rw [Position.getRow_eq]
  show 0 ≤ ((i / 8 : Nat) : Int) ∧ ((i / 8 : Nat) : Int) < 8
  omega

theorem Position.col_range (i : Nat) :
    0 ≤ ((⟨i⟩ : Position).getCol : Int) ∧ ((⟨i⟩ : Position).getCol : Int) < 8 := by
  rw [Position.getCol_eq]
  show 0 ≤ ((i % 8 : Nat) : Int) ∧ ((i % 8 : Nat) : Int) < 8
  omega

theorem Position.ofRC_self (i : Nat) (hi : i < 64) :
    Position.ofRC ((⟨i⟩ : Position).getRow : Int) ((⟨i⟩ : Position).getCol : Int) = ⟨i⟩ := by
  apply Position.ext_data
  have h := Position.ofRC_data _ _ (Position.row_range i hi) (Position.col_range i)
  rw [Position.getRow_eq, Position.getCol_eq] at h
  have h2 : (((Position.ofRC ((⟨i⟩ : Position).getRow : Int)
      ((⟨i⟩ : Position).getCol : Int)).data : Nat) : Int) = (i : Int) := by
    rw [Position.getRow_eq, Position.getCol_eq, h]
    show 8 * ((i / 8 : Nat) : Int) + ((i % 8 : Nat) : Int) = (i : Int)
    omega
  exact_mod_cast h2

namespace Engine

/-- The four fields of a move built from squares of the board. -/
theorem decode (i : Nat) (r c : Int) (ty pr : Nat) (hi : i < 64) (hr : 0 ≤ r ∧ r < 8)
    (hc : 0 ≤ c ∧ c < 8) (hty : ty < 64) (hpr : pr < 64) :
    (Move.make ⟨i⟩ (Position.ofRC r c) ty pr).getFrom = ⟨i⟩
    ∧ (Move.make ⟨i⟩ (Position.ofRC r c) ty pr).getTo = Position.ofRC r c
    ∧ (Move.make ⟨i⟩ (Position.ofRC r c) ty pr).getMoveType = ty
    ∧ (Move.make ⟨i⟩ (Position.ofRC r c) ty pr).getPromotionType = pr :=
  ⟨Move.make_getFrom _ _ _ _ hi (Position.ofRC_lt r c hr hc) hty hpr,
    Move.make_getTo _ _ _ _ hi (Position.ofRC_lt r c hr hc) hty hpr,
    Move.make_getMoveType _ _ _ _ hi (Position.ofRC_lt r c hr hc) hty hpr,
    Move.make_getPromotionType _ _ _ _ hi (Position.ofRC_lt r c hr hc) hty hpr⟩

theorem moveTypeOf_lt (sq : Square) : moveTypeOf sq < 64 := by
  unfold moveTypeOf; split_ifs <;> decide

theorem promotionOf_lt (s : Side) (r : Int) : promotionOf s r < 64 := by
  unfold promotionOf; split_ifs <;> decide

theorem sign_cases (s : Side) : Board.getSideSign s = 1 ∨ Board.getSideSign s = -1 := by
  cases s
  · exact Or.inl rfl
  · exact Or.inr rfl

end Engine

namespace Engine

theorem sideBit_eq_iff (sq : Square) (s : Side) :
    sq.getSideBit = Board.getSideBit s ↔ Board.getSide sq.getSideBit = s := by
  rcases sq.getSideBit_cases with h | h <;> rw [h] <;> cases s <;> decide

/-- Every move of `Gen` for the piece on a square of the board is built from that square and
a target square of the board, and is one of the listed kinds. -/
theorem gen_listed (B : Board) (E : Nat → Int) (i : Nat) (m : Move) (hi : i < 64)
    (hB : InBounds B) (g : GenAt B E i m) :
    ∃ (r c : Int) (ty pr : Nat), (0 ≤ r ∧ r < 8) ∧ (0 ≤ c ∧ c < 8)
      ∧ m = Move.make ⟨i⟩ (Position.ofRC r c) ty pr ∧ Listed B E i r c ty pr := by
  have hrow := Position.row_range i hi
  have hcol := Position.col_range i
  unfold GenAt at g
  unfold Listed
  cases g with
  | pawnForward h1 h2 h3 h4 =>
    exact ⟨_, _, _, _, (rowcolok_iff _).mp h3, hcol, rfl,
      Or.inl ⟨h1, (sideBit_eq_iff _ _).mp h2, rfl, rfl, h4, rfl, rfl⟩⟩
  | pawnTwice h1 h2 h3 h4 h5 h6 =>
    exact ⟨_, _, _, _, (rowcolok_iff _).mp h4, hcol, rfl,
      Or.inr (Or.inl ⟨h1, (sideBit_eq_iff _ _).mp h2, h3, rfl, rfl, h6, rfl, rfl⟩)⟩
  | pawnCapture cs hcs h1 h2 h3 h4 h5 =>
    refine ⟨_, _, _, _, (rowcolok_iff _).mp (hB i hi h1), (rowcolok_iff _).mp h3, rfl,
      Or.inr (Or.inr (Or.inl ⟨h1, (sideBit_eq_iff _ _).mp h2, rfl, ?_, h4, h5, rfl, rfl⟩))⟩
    rcases hcs with rfl | rfl
    · exact Or.inl rfl
    · exact Or.inr rfl
  | enPassant cs hcs h1 h3 h4 h5 h6 =>
    refine ⟨_, _, _, _, (rowcolok_iff _).mp (hB i hi h1), (rowcolok_iff _).mp h3, rfl,
      Or.inr (Or.inr (Or.inr (Or.inl ⟨h1, rfl, ?_, h4, h5, h6, rfl, rfl⟩)))⟩
    rcases hcs with rfl | rfl
    · exact Or.inl rfl
    · exact Or.inr rfl
  | ray dRow dCol k m h1 h2 h3 =>
    obtain ⟨a, _, c3, c4, rfl⟩ := h3
    have hk := a k (Nat.le_refl k)
    refine ⟨_, _, _, _, (rowcolok_iff _).mp hk.1, (rowcolok_iff _).mp hk.2, rfl,
      Or.inr (Or.inr (Or.inr (Or.inr (Or.inl ⟨?_, c4, c3, rfl, rfl⟩))))⟩
    rcases h1 with ⟨h | h, _⟩ | ⟨h | h, _⟩
    · exact Or.inl h
    · exact Or.inr (Or.inr (Or.inr h))
    · exact Or.inr (Or.inr (Or.inl h))
    · exact Or.inr (Or.inr (Or.inr h))
  | knight dRow dCol h1 h2 h3 h4 h5 h6 =>
    exact ⟨_, _, _, _, (rowcolok_iff _).mp h4, (rowcolok_iff _).mp h5, rfl,
      Or.inr (Or.inr (Or.inr (Or.inr (Or.inl ⟨Or.inr (Or.inl h1), h3, h6, rfl, rfl⟩))))⟩
  | kingStep rd cd h1 hrd hcd h2 h3 h4 h5 h6 h7 =>
    refine ⟨_, _, _, _, (rowcolok_iff _).mp h4, (rowcolok_iff _).mp h5, rfl,
      Or.inr (Or.inr (Or.inr (Or.inr (Or.inr (Or.inl
        ⟨h1, h3, ?_, ?_, ?_, h6, h7, rfl, rfl⟩)))))⟩
    · simp only [List.mem_cons, List.mem_singleton, List.not_mem_nil, or_false] at hrd
      omega
    · simp only [List.mem_cons, List.mem_singleton, List.not_mem_nil, or_false] at hcd
      omega
    · intro hh
      apply h2
      omega
  | castleShort h1 h2 h3 h4 h5 h6 h7 h8 =>
    exact ⟨_, 6, _, _, hrow, by decide, rfl,
      Or.inr (Or.inr (Or.inr (Or.inr (Or.inr (Or.inr
        ⟨h1, h2, h3, h4, h5, rfl, Or.inl ⟨rfl, h6, h7, h8⟩, rfl, rfl⟩)))))⟩
  | castleLong h1 h2 h3 h4 h5 h6 h7 h8 =>
    exact ⟨_, 2, _, _, hrow, by decide, rfl,
      Or.inr (Or.inr (Or.inr (Or.inr (Or.inr (Or.inr
        ⟨h1, h2, h3, h4, h5, rfl, Or.inr ⟨rfl, h6, h7, h8⟩, rfl, rfl⟩)))))⟩

end Engine

namespace Engine

/-- Every move of the record of `evaluateBoard` is built from a square of the board that
holds a piece and a target square of the board, and is one of the listed kinds. -/
theorem evaluateBoard_listed (B : Board) (hB : InBounds B) (m : Move)
    (hm : m ∈ (evaluateBoard B).moves) :
    ∃ (i : Nat) (r c : Int) (ty pr : Nat), i < 64 ∧ (0 ≤ r ∧ r < 8) ∧ (0 ≤ c ∧ c < 8)
      ∧ m = Move.make ⟨i⟩ (Position.ofRC r c) ty pr
      ∧ Listed B (attackedBy B) i r c ty pr := by
  by_cases h : AfterCheckmate B
  · rw [evaluateBoard_returned B h] at hm
    exact absurd hm (List.not_mem_nil m)
  · rw [(evaluateBoard_running B h).1, sweep_moves B hB] at hm
    obtain ⟨i, hi, _, g⟩ := hm
    obtain ⟨r, c, ty, pr, hr, hc, e, l⟩ := gen_listed B _ i m hi hB g
    exact ⟨i, r, c, ty, pr, hi, hr, hc, e, l⟩

theorem moveTypeOf_cases (sq : Square) :
    (sq.getPieceType = PieceType.NO_PIECE ∧ moveTypeOf sq = MoveType.MOVE)
    ∨ (sq.getPieceType ≠ PieceType.NO_PIECE ∧ moveTypeOf sq = MoveType.CAPTURE) := by
  unfold moveTypeOf
  by_cases h : sq.getPieceType = PieceType.NO_PIECE
  · exact Or.inl ⟨h, if_pos h⟩
  · exact Or.inr ⟨h, if_neg h⟩

theorem listed_lt (B : Board) (E : Nat → Int) (i : Nat) (r c : Int) (ty pr : Nat)
    (l : Listed B E i r c ty pr) : ty < 64 ∧ pr < 64 := by
  unfold Listed at l
  rcases l with ⟨_, _, _, _, _, rfl, rfl⟩ | ⟨_, _, _, _, _, _, rfl, rfl⟩
    | ⟨_, _, _, _, _, _, rfl, rfl⟩ | ⟨_, _, _, _, _, _, rfl, rfl⟩ | ⟨_, _, _, rfl, rfl⟩
    | ⟨_, _, _, _, _, _, _, rfl, rfl⟩ | ⟨_, _, _, _, _, _, _, rfl, rfl⟩
  · exact ⟨by decide, promotionOf_lt _ _⟩
  · exact ⟨by decide, by decide⟩
  · exact ⟨by decide, promotionOf_lt _ _⟩
  · exact ⟨by decide, by decide⟩
  · exact ⟨moveTypeOf_lt _, by decide⟩
  · exact ⟨moveTypeOf_lt _, by decide⟩
  · exact ⟨by decide, by decide⟩

/-- The move kind of a listed move against the content of its target square. -/
theorem listed_kind (B : Board) (E : Nat → Int) (i : Nat) (r c : Int) (ty pr : Nat)
    (l : Listed B E i r c ty pr) :
    ((B.getSquare (Position.ofRC r c)).getPieceType ≠ PieceType.NO_PIECE →
      ty = MoveType.CAPTURE)
    ∧ (ty = MoveType.MOVE →
      (B.getSquare (Position.ofRC r c)).getPieceType = PieceType.NO_PIECE)
    ∧ (ty = MoveType.CAPTURE →
      (B.getSquare (Position.ofRC r c)).getPieceType = PieceType.NO_PIECE →
      (B.getSquare ⟨i⟩).getPieceType = PieceType.PAWN_PIECE
      ∧ c ≠ ((⟨i⟩ : Position).getCol : Int))
    ∧ ((B.getSquare ⟨i⟩).getPieceType ≠ PieceType.PAWN_PIECE →
      freeFor B (Board.getSide (B.getSquare ⟨i⟩).getSideBit) (Position.ofRC r c)) := by
  have hmc : MoveType.MOVE ≠ MoveType.CAPTURE := by decide
  unfold Listed at l
  rcases l with ⟨h1, _, _, _, h5, rfl, rfl⟩ | ⟨h1, _, _, _, _, h5, rfl, rfl⟩
    | ⟨h1, _, _, _, h5, _, rfl, rfl⟩ | ⟨h1, _, h3, _, _, _, rfl, rfl⟩ | ⟨_, _, h3, rfl, rfl⟩
    | ⟨_, _, _, _, _, h3, _, rfl, rfl⟩ | ⟨_, _, _, _, _, rfl, h7, rfl, rfl⟩
  · exact ⟨fun h => absurd h5 h, fun _ => h5, fun h => absurd h hmc, fun h => absurd h1 h⟩
  · exact ⟨fun h => absurd h5 h, fun _ => h5, fun h => absurd h hmc, fun h => absurd h1 h⟩
  · exact ⟨fun _ => rfl, fun h => absurd h.symm hmc, fun _ h => absurd h h5,
      fun h => absurd h1 h⟩
  · refine ⟨fun _ => rfl, fun h => absurd h.symm hmc, fun _ _ => ⟨h1, ?_⟩,
      fun h => absurd h1 h⟩
    omega
  · rcases moveTypeOf_cases (B.getSquare (Position.ofRC r c)) with ⟨a, b⟩ | ⟨a, b⟩
    · exact ⟨fun h => absurd a h, fun _ => a, fun h => absurd (b.symm.trans h) hmc,
        fun _ => h3⟩
    · exact ⟨fun _ => b, fun h => absurd (h.symm.trans b) hmc, fun _ h => absurd h a,
        fun _ => h3⟩
  · rcases moveTypeOf_cases (B.getSquare (Position.ofRC r c)) with ⟨a, b⟩ | ⟨a, b⟩
    · exact ⟨fun h => absurd a h, fun _ => a, fun h => absurd (b.symm.trans h) hmc,
        fun _ => h3⟩
    · exact ⟨fun _ => b, fun h => absurd (h.symm.trans b) hmc, fun _ h => absurd h a,
        fun _ => h3⟩
  · have he : (B.getSquare (Position.ofRC ((⟨i⟩ : Position).getRow : Int) c)).getPieceType
        = PieceType.NO_PIECE := by
      rcases h7 with ⟨rfl, _, _, h⟩ | ⟨rfl, _, _, h⟩
      · exact (h 6 (by simp)).1
      · exact (h 2 (by simp)).1
    exact ⟨fun h => absurd he h, fun _ => he, fun h => absurd h hmc, fun _ => Or.inl he⟩

/-- What C18 says holds on a board on which the evaluator reads only cells of the array (no
pawn stands on the last row of its side). For every listed
move: a target held by a piece of the other side gives the kind CAPTURE; the kind MOVE gives
an empty target; a CAPTURE onto an empty target is made by a pawn and changes column; and no
move of a rook, bishop, queen, knight or king has a target held by a piece of its own side. -/
theorem moveKind_sound (B : Board) (hB : InBounds B) (m : Move)
    (hm : m ∈ (evaluateBoard B).moves) :
    ((B.getSquare m.getTo).getPieceType ≠ PieceType.NO_PIECE →
      Board.getSide (B.getSquare m.getTo).getSideBit
        ≠ Board.getSide (B.getSquare m.getFrom).getSideBit →
      m.getMoveType = MoveType.CAPTURE)
    ∧ (m.getMoveType = MoveType.MOVE →
      (B.getSquare m.getTo).getPieceType = PieceType.NO_PIECE)
    ∧ (m.getMoveType = MoveType.CAPTURE →
      (B.getSquare m.getTo).getPieceType = PieceType.NO_PIECE →
      (B.getSquare m.getFrom).getPieceType = PieceType.PAWN_PIECE
      ∧ m.getFrom.getCol ≠ m.getTo.getCol)
    ∧ (((B.getSquare m.getFrom).getPieceType = PieceType.ROOK_PIECE
        ∨ (B.getSquare m.getFrom).getPieceType = PieceType.BISHOP_PIECE
        ∨ (B.getSquare m.getFrom).getPieceType = PieceType.QUEEN_PIECE
        ∨ (B.getSquare m.getFrom).getPieceType = PieceType.KNIGHT_PIECE
        ∨ (B.getSquare m.getFrom).getPieceType = PieceType.KING_PIECE) →
      ¬ ((B.getSquare m.getTo).getPieceType ≠ PieceType.NO_PIECE
        ∧ Board.getSide (B.getSquare m.getTo).getSideBit
          = Board.getSide (B.getSquare m.getFrom).getSideBit)) := by
  obtain ⟨i, r, c, ty, pr, hi, hr, hc, rfl, l⟩ := evaluateBoard_listed B hB m hm
  obtain ⟨hty, hpr⟩ := listed_lt B _ i r c ty pr l
  obtain ⟨d1, d2, d3, _⟩ := decode i r c ty pr hi hr hc hty hpr
  obtain ⟨k1, k2, k3, k4⟩ := listed_kind B _ i r c ty pr l
  rw [d1, d2, d3]
  refine ⟨fun h _ => k1 h, k2, ?_, ?_⟩
  · intro h1 h2
    obtain ⟨a, b⟩ := k3 h1 h2
    refine ⟨a, ?_⟩
    intro hcol
    apply b
    rw [← Position.ofRC_getCol r c hr hc, hcol]
  · intro hk ⟨h1, h2⟩
    have hnp : (B.getSquare ⟨i⟩).getPieceType ≠ PieceType.PAWN_PIECE := by
      rcases hk with h | h | h | h | h <;> rw [h] <;> decide
    rcases k4 hnp with h | h
    · exact h1 h
    · exact h h2

theorem moveKind_sound_witness :
    InBounds castlingBoard
    ∧ Move.make ⟨0⟩ ⟨8⟩ MoveType.MOVE PieceType.NO_PIECE ∈ (evaluateBoard castlingBoard).moves
    ∧ ((Move.make ⟨0⟩ ⟨8⟩ MoveType.MOVE PieceType.NO_PIECE).getMoveType = MoveType.MOVE →
      (castlingBoard.getSquare
        (Move.make ⟨0⟩ ⟨8⟩ MoveType.MOVE PieceType.NO_PIECE).getTo).getPieceType
        = PieceType.NO_PIECE) :=
  ⟨by unfold InBounds; decide, by decide,
    (moveKind_sound castlingBoard (by unfold InBounds; decide) _ (by decide)).2.1⟩

end Engine

namespace Engine

theorem promotionOf_cases (s : Side) (r : Int) :
    (((s = Side.WHITE ∧ r = 7) ∨ (s = Side.BLACK ∧ r = 0))
      ∧ promotionOf s r = PieceType.QUEEN_PIECE)
    ∨ (¬ ((s = Side.WHITE ∧ r = 7) ∨ (s = Side.BLACK ∧ r = 0))
      ∧ promotionOf s r = PieceType.NO_PIECE) := by
  unfold promotionOf
  by_cases h : (s = Side.WHITE ∧ r = 7) ∨ (s = Side.BLACK ∧ r = 0)
  · exact Or.inl ⟨h, if_pos h⟩
  · exact Or.inr ⟨h, if_neg h⟩

/-- C19 (counterexample): with the moved-twice bit on a pawn of row 6, the en-passant branch
lists a capture by the white pawn a7 of the rook on b8, a regular diagonal capture onto the
last row by its shape, with promotion Empty. -/
theorem promotion_counterexample :
    InBounds flaggedRow6Board
    ∧ Move.make ⟨48⟩ ⟨57⟩ MoveType.CAPTURE PieceType.NO_PIECE
        ∈ (evaluateBoard flaggedRow6Board).moves
    ∧ PromotingPawnMove flaggedRow6Board
        (Move.make ⟨48⟩ ⟨57⟩ MoveType.CAPTURE PieceType.NO_PIECE)
    ∧ (Move.make ⟨48⟩ ⟨57⟩ MoveType.CAPTURE PieceType.NO_PIECE).getPromotionType
        ≠ PieceType.QUEEN_PIECE := by
  refine ⟨?_, ?_, ?_, ?_⟩
  · unfold InBounds; decide
  · decide
  · unfold PromotingPawnMove; decide
  · decide

/-- C19 (amended): on a board on which the evaluator reads only cells of the array and the
moved-twice bit is set only on squares of rows 3 and 4, a listed move has promotion Queen if
it is a pawn's one-step advance or regular diagonal capture onto the last row of the pawn's
side, and promotion Empty otherwise. -/
theorem promotion_kind (B : Board) (hB : InBounds B) (hF : FlagsOnMiddleRows B) (m : Move)
    (hm : m ∈ (evaluateBoard B).moves) :
    (PromotingPawnMove B m → m.getPromotionType = PieceType.QUEEN_PIECE)
    ∧ (¬ PromotingPawnMove B m → m.getPromotionType = PieceType.NO_PIECE) := by
  obtain ⟨i, r, c, ty, pr, hi, hr, hc, rfl, l⟩ := evaluateBoard_listed B hB m hm
  obtain ⟨hty, hpr⟩ := listed_lt B _ i r c ty pr l
  obtain ⟨d1, d2, d3, d4⟩ := decode i r c ty pr hi hr hc hty hpr
  have hrow := Position.row_range i hi
  have hsign := sign_cases (Board.getSide (B.getSquare ⟨i⟩).getSideBit)
  unfold PromotingPawnMove
  rw [d1, d2, d4, Position.ofRC_getRow r c hr hc, Position.ofRC_getCol r c hr hc]
  have hq : PieceType.QUEEN_PIECE ≠ PieceType.NO_PIECE := by decide
  have hkp : ∀ k : Nat, (k = PieceType.ROOK_PIECE ∨ k = PieceType.KNIGHT_PIECE
      ∨ k = PieceType.BISHOP_PIECE ∨ k = PieceType.QUEEN_PIECE ∨ k = PieceType.KING_PIECE) →
      k ≠ PieceType.PAWN_PIECE := by
    intro k h
    rcases h with h | h | h | h | h <;> rw [h] <;> decide
  unfold Listed at l
  rcases l with ⟨h1, _, h3, h4, _, _, rfl⟩ | ⟨_, _, _, h4, _, _, _, rfl⟩
    | ⟨h1, _, h3, h4, h5, h6, _, rfl⟩ | ⟨_, h2, _, _, _, h6, _, rfl⟩ | ⟨h1, _, _, _, rfl⟩
    | ⟨h1, _, _, _, _, _, _, _, rfl⟩ | ⟨h1, _, _, _, _, _, _, _, rfl⟩
  · rcases promotionOf_cases (Board.getSide (B.getSquare ⟨i⟩).getSideBit) r with ⟨a, b⟩ | ⟨a, b⟩
    · exact ⟨fun _ => b, fun h => absurd ⟨h1, h3, a, Or.inl h4⟩ h⟩
    · exact ⟨fun h => absurd h.2.2.1 a, fun _ => b⟩
  · refine ⟨fun h => ?_, fun _ => rfl⟩
    have := h.2.1
    omega
  · rcases promotionOf_cases (Board.getSide (B.getSquare ⟨i⟩).getSideBit) r with ⟨a, b⟩ | ⟨a, b⟩
    · exact ⟨fun _ => b, fun h => absurd ⟨h1, h3, a, Or.inr ⟨h4, h5, h6⟩⟩ h⟩
    · exact ⟨fun h => absurd h.2.2.1 a, fun _ => b⟩
  · refine ⟨fun h => ?_, fun _ => rfl⟩
    have hlt := Position.ofRC_lt ((⟨i⟩ : Position).getRow : Int) c hrow hc
    have hf := hF (Position.ofRC ((⟨i⟩ : Position).getRow : Int) c).data hlt h6
    have hg := Position.ofRC_getRow ((⟨i⟩ : Position).getRow : Int) c hrow hc
    have hf2 : ((Position.ofRC ((⟨i⟩ : Position).getRow : Int) c).getRow : Int) = 3
        ∨ ((Position.ofRC ((⟨i⟩ : Position).getRow : Int) c).getRow : Int) = 4 := hf
    rw [hg] at hf2
    have h3 := h.2.2.1
    omega
  · have := hkp _ (by tauto)
    exact ⟨fun h => absurd h.1 this, fun _ => rfl⟩
  · have := hkp _ (Or.inr (Or.inr (Or.inr (Or.inr h1))))
    exact ⟨fun h => absurd h.1 this, fun _ => rfl⟩
  · have := hkp _ (Or.inr (Or.inr (Or.inr (Or.inr h1))))
    exact ⟨fun h => absurd h.1 this, fun _ => rfl⟩

theorem promotion_kind_witness :
    InBounds castlingBoard ∧ FlagsOnMiddleRows castlingBoard
    ∧ Move.make ⟨0⟩ ⟨8⟩ MoveType.MOVE PieceType.NO_PIECE ∈ (evaluateBoard castlingBoard).moves
    ∧ (¬ PromotingPawnMove castlingBoard (Move.make ⟨0⟩ ⟨8⟩ MoveType.MOVE PieceType.NO_PIECE) →
      (Move.make ⟨0⟩ ⟨8⟩ MoveType.MOVE PieceType.NO_PIECE).getPromotionType
        = PieceType.NO_PIECE) :=
  ⟨by unfold InBounds; decide, by unfold FlagsOnMiddleRows; decide, by decide,
    (promotion_kind castlingBoard (by unfold InBounds; decide)
      (by unfold FlagsOnMiddleRows; decide) _ (by decide)).2⟩

end Engine

namespace Engine

/-- A move built from a square and a target of the board determines them. -/
theorem make_inj (i j : Nat) (r c r2 c2 : Int) (ty pr ty2 pr2 : Nat) (hi : i < 64) (hj : j < 64)
    (hr : 0 ≤ r ∧ r < 8) (hc : 0 ≤ c ∧ c < 8) (hr2 : 0 ≤ r2 ∧ r2 < 8) (hc2 : 0 ≤ c2 ∧ c2 < 8)
    (hty : ty < 64) (hpr : pr < 64) (hty2 : ty2 < 64) (hpr2 : pr2 < 64)
    (h : Move.make ⟨i⟩ (Position.ofRC r c) ty pr = Move.make ⟨j⟩ (Position.ofRC r2 c2) ty2 pr2) :
    i = j ∧ r = r2 ∧ c = c2 ∧ ty = ty2 ∧ pr = pr2 := by
  obtain ⟨a1, a2, a3, a4⟩ := decode i r c ty pr hi hr hc hty hpr
  obtain ⟨b1, b2, b3, b4⟩ := decode j r2 c2 ty2 pr2 hj hr2 hc2 hty2 hpr2
  rw [h] at a1 a2 a3 a4
  have e1 : (⟨j⟩ : Position) = ⟨i⟩ := b1.symm.trans a1
  have e2 : Position.ofRC r2 c2 = Position.ofRC r c := b2.symm.trans a2
  refine ⟨?_, ?_, ?_, a3.symm.trans b3, a4.symm.trans b4⟩
  · exact (congrArg Position.data e1).symm
  · rw [← Position.ofRC_getRow r c hr hc, ← Position.ofRC_getRow r2 c2 hr2 hc2, e2]
  · rw [← Position.ofRC_getCol r c hr hc, ← Position.ofRC_getCol r2 c2 hr2 hc2, e2]

set_option maxRecDepth 100000 in
/-- C16 (counterexample): on the board of the stalemate test the white king a1 is to move, b1
is empty, one step away and attacked by Black, and the attack count of White on b1 that the
final pass reads is 0: the king is not counted on it. -/
theorem kingStep_counterexample :
    (stalemateBoard.getSquare ⟨0⟩).getPieceType = PieceType.KING_PIECE
    ∧ Board.getSide (stalemateBoard.getSquare ⟨0⟩).getSideBit = stalemateBoard.getMovingSide
    ∧ (stalemateBoard.getSquare ⟨1⟩).getPieceType = PieceType.NO_PIECE
    ∧ attackedBy stalemateBoard 1 > 0
    ∧ (sweep stalemateBoard).evalContext.whiteAttackCount 1 = 0 := by
  decide

/-- C16 (amended): for a king of the side to move on square `i` and a target `(r, c)` one step
away that is empty or held by the other side and has a positive attack count of the other
side, no move from `i` to `(r, c)` is listed, and the body of the king loop skips the target:
it returns the state it was given, attack counts included. -/
theorem kingStep_attacked (B : Board) (hB : InBounds B) (i : Nat) (hi : i < 64) (r c : Int)
    (hr : 0 ≤ r ∧ r < 8) (hc : 0 ≤ c ∧ c < 8)
    (hk : (B.getSquare ⟨i⟩).getPieceType = PieceType.KING_PIECE)
    (hstep : (r - ((⟨i⟩ : Position).getRow : Int) = -1
        ∨ r - ((⟨i⟩ : Position).getRow : Int) = 0 ∨ r - ((⟨i⟩ : Position).getRow : Int) = 1)
      ∧ (c - ((⟨i⟩ : Position).getCol : Int) = -1
        ∨ c - ((⟨i⟩ : Position).getCol : Int) = 0 ∨ c - ((⟨i⟩ : Position).getCol : Int) = 1))
    (hfree : freeFor B (Board.getSide (B.getSquare ⟨i⟩).getSideBit) (Position.ofRC r c))
    (hatt : attackedBy B (Position.ofRC r c).data > 0) :
    (∀ ty pr : Nat, ty < 64 → pr < 64 →
      Move.make ⟨i⟩ (Position.ofRC r c) ty pr ∉ (evaluateBoard B).moves)
    ∧ (∀ st : EvalState,
      st.evalContext.enemyCount (Board.getSide (B.getSquare ⟨i⟩).getSideBit)
        (Position.ofRC r c).data > 0 →
      kingStep B ⟨i⟩ (B.getSquare ⟨i⟩) ((⟨i⟩ : Position).getRow : Int)
        ((⟨i⟩ : Position).getCol : Int) st (r - ((⟨i⟩ : Position).getRow : Int))
        (c - ((⟨i⟩ : Position).getCol : Int)) = st) := by
  constructor
  · intro ty pr hty hpr hm
    obtain ⟨j, r2, c2, ty2, pr2, hj, hr2, hc2, e, l⟩ := evaluateBoard_listed B hB _ hm
    obtain ⟨hty2, hpr2⟩ := listed_lt B _ j r2 c2 ty2 pr2 l
    obtain ⟨rfl, rfl, rfl, _, _⟩ :=
      make_inj i j r c r2 c2 ty pr ty2 pr2 hi hj hr hc hr2 hc2 hty hpr hty2 hpr2 e
    have hnk : ∀ k : Nat, (k = PieceType.PAWN_PIECE ∨ k = PieceType.ROOK_PIECE
        ∨ k = PieceType.KNIGHT_PIECE ∨ k = PieceType.BISHOP_PIECE
        ∨ k = PieceType.QUEEN_PIECE) → k ≠ PieceType.KING_PIECE := by
      intro k h
      rcases h with h | h | h | h | h <;> rw [h] <;> decide
    have hcol := Position.col_range i
    unfold Listed at l
    rcases l with ⟨h1, _⟩ | ⟨h1, _⟩ | ⟨h1, _⟩ | ⟨h1, _⟩ | ⟨h1, _⟩
      | ⟨_, _, _, _, _, _, h7, _⟩ | ⟨_, _, h3, _, _, _, h7, _⟩
    · exact hnk _ (Or.inl h1) hk
    · exact hnk _ (Or.inl h1) hk
    · exact hnk _ (Or.inl h1) hk
    · exact hnk _ (Or.inl h1) hk
    · exact hnk _ (Or.inr h1) hk
    · exact h7 hatt
    · have h4 : ((⟨i⟩ : Position).getCol : Int) = 4 := by rw [h3]; rfl
      have hcd := hstep.2
      rcases h7 with ⟨rfl, _⟩ | ⟨rfl, _⟩ <;> omega
  · intro st hst
    unfold kingStep
    simp only []
    have e1 : ((⟨i⟩ : Position).getRow : Int) + (r - ((⟨i⟩ : Position).getRow : Int)) = r := by
      omega
    have e2 : ((⟨i⟩ : Position).getCol : Int) + (c - ((⟨i⟩ : Position).getCol : Int)) = c := by
      omega
    rw [e1, e2]
    have e3 : Position.make (toU8 r) (toU8 c) = Position.ofRC r c := rfl
    rw [e3]
    unfold freeFor at hfree
    split_ifs <;> rfl

theorem kingStep_attacked_witness :
    InBounds stalemateBoard
    ∧ attackedBy stalemateBoard (Position.ofRC 0 1).data > 0
    ∧ (∀ ty pr : Nat, ty < 64 → pr < 64 →
      Move.make ⟨0⟩ (Position.ofRC 0 1) ty pr ∉ (evaluateBoard stalemateBoard).moves) :=
  ⟨by unfold InBounds; decide, by decide,
    (kingStep_attacked stalemateBoard (by unfold InBounds; decide) 0 (by decide) 0 1
      (by decide) (by decide) (by decide) (by decide)
      (by unfold freeFor; decide) (by decide)).1⟩

end Engine

namespace Engine

/-- The moves of `Gen` are the moves of the record when no after-checkmate is detected. -/
theorem evaluateBoard_gen (B : Board) (hB : InBounds B) (hA : ¬ AfterCheckmate B) (i : Nat)
    (hi : i < 64)
    (hk : (B.getSquare ⟨i⟩).getPieceType ≠ PieceType.NO_PIECE) (m : Move)
    (g : GenAt B (attackedBy B) i m) : m ∈ (evaluateBoard B).moves := by
  rw [(evaluateBoard_running B hA).1, sweep_moves B hB]
  exact ⟨i, hi, hk, g⟩

theorem castle_listed (B : Board) (hB : InBounds B) (i : Nat) (hi : i < 64)
    (hk : (B.getSquare ⟨i⟩).getPieceType = PieceType.KING_PIECE)
    (h4 : (⟨i⟩ : Position).getCol = 4) (c : Int) (hc : c = 6 ∨ c = 2)
    (hm : Move.make ⟨i⟩ (Position.ofRC ((⟨i⟩ : Position).getRow : Int) c) MoveType.MOVE
      PieceType.NO_PIECE ∈ (evaluateBoard B).moves) :
    (c = 6 ∧ CastleCond B i 7 [5, 6]) ∨ (c = 2 ∧ CastleCond B i 0 [1, 2, 3]) := by
  have hrow := Position.row_range i hi
  have hc8 : 0 ≤ c ∧ c < 8 := by omega
  obtain ⟨j, r2, c2, ty2, pr2, hj, hr2, hc2, e, l⟩ := evaluateBoard_listed B hB _ hm
  obtain ⟨hty2, hpr2⟩ := listed_lt B _ j r2 c2 ty2 pr2 l
  obtain ⟨e1, e2, e3, _, _⟩ :=
    make_inj i j _ c r2 c2 _ _ ty2 pr2 hi hj hrow hc8 hr2 hc2 (by decide) (by decide)
      hty2 hpr2 e
  subst e1 e2 e3
  have hnk : ∀ k : Nat, (k = PieceType.PAWN_PIECE ∨ k = PieceType.ROOK_PIECE
      ∨ k = PieceType.KNIGHT_PIECE ∨ k = PieceType.BISHOP_PIECE
      ∨ k = PieceType.QUEEN_PIECE) → k ≠ PieceType.KING_PIECE := by
    intro k h
    rcases h with h | h | h | h | h <;> rw [h] <;> decide
  have h4i : ((⟨i⟩ : Position).getCol : Int) = 4 := by rw [h4]; rfl
  unfold Listed at l
  rcases l with ⟨h1, _⟩ | ⟨h1, _⟩ | ⟨h1, _⟩ | ⟨h1, _⟩ | ⟨h1, _⟩
    | ⟨_, _, _, h5, _⟩ | ⟨_, _, _, h4m, h5, _, h7, _⟩
  · exact absurd hk (hnk _ (Or.inl h1))
  · exact absurd hk (hnk _ (Or.inl h1))
  · exact absurd hk (hnk _ (Or.inl h1))
  · exact absurd hk (hnk _ (Or.inl h1))
  · exact absurd hk (hnk _ (Or.inr h1))
  · omega
  · rcases h7 with ⟨a, b1, b2, b3⟩ | ⟨a, b1, b2, b3⟩
    · exact Or.inl ⟨a, h4m, h5, b1, b2, b3⟩
    · exact Or.inr ⟨a, h4m, h5, b1, b2, b3⟩

/-- What C17 says holds on a board on which the evaluator reads only cells of the array (no
pawn stands on the last row of its side) and no
after-checkmate is detected: for a king of the side to move on column 4 of row `r`: the quiet
move to `(r, 6)` is listed iff the king has not moved, its square is not attacked, `(r, 7)`
holds a rook that has not moved and `(r, 5)`, `(r, 6)` are empty and not attacked; the quiet
move to `(r, 2)` is listed iff the same holds with the rook on `(r, 0)` and the squares
`(r, 1)`, `(r, 2)`, `(r, 3)`. -/
theorem castling_legality (B : Board) (hB : InBounds B) (hA : ¬ AfterCheckmate B) (i : Nat)
    (hi : i < 64) (hk : (B.getSquare ⟨i⟩).getPieceType = PieceType.KING_PIECE)
    (hs : Board.getSide (B.getSquare ⟨i⟩).getSideBit = B.getMovingSide)
    (h4 : (⟨i⟩ : Position).getCol = 4) :
    (Move.make ⟨i⟩ (Position.ofRC ((⟨i⟩ : Position).getRow : Int) 6) MoveType.MOVE
        PieceType.NO_PIECE ∈ (evaluateBoard B).moves ↔ CastleCond B i 7 [5, 6])
    ∧ (Move.make ⟨i⟩ (Position.ofRC ((⟨i⟩ : Position).getRow : Int) 2) MoveType.MOVE
        PieceType.NO_PIECE ∈ (evaluateBoard B).moves ↔ CastleCond B i 0 [1, 2, 3]) := by
  have hne : (B.getSquare ⟨i⟩).getPieceType ≠ PieceType.NO_PIECE := by rw [hk]; decide
  constructor
  · constructor
    · intro hm
      rcases castle_listed B hB i hi hk h4 6 (Or.inl rfl) hm with ⟨_, h⟩ | ⟨h, _⟩
      · exact h
      · exact absurd h (by decide)
    · rintro ⟨a1, a2, a3, a4, a5⟩
      exact evaluateBoard_gen B hB hA i hi hne _ (Gen.castleShort hk hs h4 a1 a2 a3 a4 a5)
  · constructor
    · intro hm
      rcases castle_listed B hB i hi hk h4 2 (Or.inr rfl) hm with ⟨h, _⟩ | ⟨_, h⟩
      · exact absurd h (by decide)
      · exact h
    · rintro ⟨a1, a2, a3, a4, a5⟩
      exact evaluateBoard_gen B hB hA i hi hne _ (Gen.castleLong hk hs h4 a1 a2 a3 a4 a5)

set_option maxRecDepth 100000 in
theorem castling_legality_witness :
    InBounds castlingBoard ∧ ¬ AfterCheckmate castlingBoard
    ∧ ((Move.make ⟨4⟩ (Position.ofRC ((⟨4⟩ : Position).getRow : Int) 6) MoveType.MOVE
        PieceType.NO_PIECE ∈ (evaluateBoard castlingBoard).moves
          ↔ CastleCond castlingBoard 4 7 [5, 6])
      ∧ (Move.make ⟨4⟩ (Position.ofRC ((⟨4⟩ : Position).getRow : Int) 2) MoveType.MOVE
        PieceType.NO_PIECE ∈ (evaluateBoard castlingBoard).moves
          ↔ CastleCond castlingBoard 4 0 [1, 2, 3]))
    ∧ (evaluateBoard castlingBoard).moves.length = 26
    ∧ (evaluateBoard castlingRookMoved).moves.length = 25
    ∧ (evaluateBoard castlingBlocked).moves.length = 24
    ∧ (evaluateBoard castlingAttacked).moves.length = 23 :=
  ⟨by unfold InBounds; decide, by unfold AfterCheckmate; decide,
    castling_legality castlingBoard (by unfold InBounds; decide)
      (by unfold AfterCheckmate; decide) 4 (by decide) (by decide) (by decide) (by decide),
    by decide, by decide, by decide, by decide⟩

end Engine

namespace Engine

theorem sliderDir_cases (sq : Square) (dRow dCol : Int) (h : SliderDir sq dRow dCol) :
    (dRow = 1 ∨ dRow = 0 ∨ dRow = -1) ∧ (dCol = 1 ∨ dCol = 0 ∨ dCol = -1)
    ∧ ¬ (dRow = 0 ∧ dCol = 0) := by
  unfold SliderDir rookDirs bishopDirs at h
  simp only [List.mem_cons, List.mem_singleton, Prod.mk.injEq, List.not_mem_nil, or_false] at h
  omega

theorem sliderDir_iff (sq : Square) (dRow dCol : Int) :
    SliderDir sq dRow dCol ↔
      (((sq.getPieceType = PieceType.ROOK_PIECE ∨ sq.getPieceType = PieceType.QUEEN_PIECE)
          ∧ (dRow, dCol) ∈ rookDirs)
        ∨ ((sq.getPieceType = PieceType.BISHOP_PIECE
            ∨ sq.getPieceType = PieceType.QUEEN_PIECE) ∧ (dRow, dCol) ∈ bishopDirs)) :=
  Iff.rfl

/-- A ray move of the piece on square `i` goes to a ray target, and conversely. -/
theorem rayMove_target (B : Board) (i : Nat) (dRow dCol : Int) (k : Nat)
    (hd : SliderDir (B.getSquare ⟨i⟩) dRow dCol) (m : Move)
    (h : RayMove B ⟨i⟩ (((⟨i⟩ : Position).getRow : Int) + dRow)
      (((⟨i⟩ : Position).getCol : Int) + dCol) dRow dCol k m) :
    ∃ r c : Int, (0 ≤ r ∧ r < 8) ∧ (0 ≤ c ∧ c < 8) ∧ RayTarget B i r c
      ∧ m = Move.make ⟨i⟩ (Position.ofRC r c) (moveTypeOf (B.getSquare (Position.ofRC r c)))
          PieceType.NO_PIECE := by
  obtain ⟨q1, q2, q3, _, q5⟩ := h
  have hk := q1 k (le_refl k)
  rw [rowcolok_iff, rowcolok_iff] at hk
  refine ⟨_, _, hk.1, hk.2, ⟨dRow, dCol, k + 1, hd, by omega, ?_, ?_, ?_, q3⟩, q5⟩
  · push_cast; ring
  · push_cast; ring
  · intro j hj1 hjn
    obtain ⟨j2, rfl⟩ : ∃ j2, j = j2 + 1 := ⟨j - 1, by omega⟩
    have := q2 j2 (by omega)
    have e1 : ((⟨i⟩ : Position).getRow : Int) + ((j2 + 1 : Nat) : Int) * dRow
        = ((⟨i⟩ : Position).getRow : Int) + dRow + j2 * dRow := by push_cast; ring
    have e2 : ((⟨i⟩ : Position).getCol : Int) + ((j2 + 1 : Nat) : Int) * dCol
        = ((⟨i⟩ : Position).getCol : Int) + dCol + j2 * dCol := by push_cast; ring
    rw [e1, e2]
    exact this

theorem target_rayMove (B : Board) (i : Nat) (hi : i < 64) (r c : Int)
    (hr : 0 ≤ r ∧ r < 8) (hc : 0 ≤ c ∧ c < 8)
    (hs : Board.getSide (B.getSquare ⟨i⟩).getSideBit = B.getMovingSide)
    (h : RayTarget B i r c) :
    ∃ (dRow dCol : Int) (k : Nat), SliderDir (B.getSquare ⟨i⟩) dRow dCol ∧ k < 8
      ∧ RayMove B ⟨i⟩ (((⟨i⟩ : Position).getRow : Int) + dRow)
        (((⟨i⟩ : Position).getCol : Int) + dCol) dRow dCol k
        (Move.make ⟨i⟩ (Position.ofRC r c) (moveTypeOf (B.getSquare (Position.ofRC r c)))
          PieceType.NO_PIECE) := by
  obtain ⟨dRow, dCol, n, hd, hn, er, ec, he, hf⟩ := h
  obtain ⟨k, rfl⟩ : ∃ k, n = k + 1 := ⟨n - 1, by omega⟩
  have hrow := Position.row_range i hi
  have hcol := Position.col_range i
  obtain ⟨d1, d2, d3⟩ := sliderDir_cases _ _ _ hd
  have er2 : ((⟨i⟩ : Position).getRow : Int) + dRow + k * dRow = r := by
    rw [er]; push_cast; ring
  have ec2 : ((⟨i⟩ : Position).getCol : Int) + dCol + k * dCol = c := by
    rw [ec]; push_cast; ring
  refine ⟨dRow, dCol, k, hd, ?_, ?_, ?_, ?_, hs, ?_⟩
  · rcases d1 with rfl | rfl | rfl <;> rcases d2 with rfl | rfl | rfl <;>
      simp only [mul_one, mul_zero, mul_neg] at er2 ec2 <;> omega
  · intro j hj
    rw [rowcolok_iff, rowcolok_iff]
    rcases d1 with rfl | rfl | rfl <;> rcases d2 with rfl | rfl | rfl <;>
      simp only [mul_one, mul_zero, mul_neg] at er2 ec2 ⊢ <;> omega
  · intro j hj
    have := he (j + 1) (by omega) (by omega)
    have e1 : ((⟨i⟩ : Position).getRow : Int) + ((j + 1 : Nat) : Int) * dRow
        = ((⟨i⟩ : Position).getRow : Int) + dRow + j * dRow := by push_cast; ring
    have e2 : ((⟨i⟩ : Position).getCol : Int) + ((j + 1 : Nat) : Int) * dCol
        = ((⟨i⟩ : Position).getCol : Int) + dCol + j * dCol := by push_cast; ring
    rw [e1, e2] at this
    exact this
  · rw [er2, ec2]; exact hf
  · rw [er2, ec2]

/-- What C20 says holds on a board on which the evaluator reads only cells of the array (no
pawn stands on the last row of its side) and no
after-checkmate is detected: for a rook, bishop or queen of the side to move on square `i`
and every square `(r, c)` of the board: a move from `i` to `(r, c)` is listed exactly when
`(r, c)` lies on one of the rays of the piece behind empty squares only and is empty or holds
a piece of the other side; the move is then a MOVE onto an empty square and a CAPTURE
otherwise, without promotion. -/
theorem slider_moves (B : Board) (hB : InBounds B) (hA : ¬ AfterCheckmate B) (i : Nat)
    (hi : i < 64)
    (hk : (B.getSquare ⟨i⟩).getPieceType = PieceType.ROOK_PIECE
      ∨ (B.getSquare ⟨i⟩).getPieceType = PieceType.BISHOP_PIECE
      ∨ (B.getSquare ⟨i⟩).getPieceType = PieceType.QUEEN_PIECE)
    (hs : Board.getSide (B.getSquare ⟨i⟩).getSideBit = B.getMovingSide)
    (r c : Int) (hr : 0 ≤ r ∧ r < 8) (hc : 0 ≤ c ∧ c < 8) (ty pr : Nat) (hty : ty < 64)
    (hpr : pr < 64) :
    Move.make ⟨i⟩ (Position.ofRC r c) ty pr ∈ (evaluateBoard B).moves ↔
      RayTarget B i r c ∧ ty = moveTypeOf (B.getSquare (Position.ofRC r c))
        ∧ pr = PieceType.NO_PIECE := by
  have hne : (B.getSquare ⟨i⟩).getPieceType ≠ PieceType.NO_PIECE := by
    rcases hk with h | h | h <;> rw [h] <;> decide
  constructor
  · intro hm
    rw [(evaluateBoard_running B hA).1, sweep_moves B hB] at hm
    obtain ⟨j, hj, _, g⟩ := hm
    obtain ⟨r2, c2, ty2, pr2, hr2, hc2, e, l⟩ := gen_listed B _ j _ hj hB g
    obtain ⟨hty2, hpr2⟩ := listed_lt B _ j r2 c2 ty2 pr2 l
    obtain ⟨e1, _⟩ := make_inj i j r c r2 c2 ty pr ty2 pr2 hi hj hr hc hr2 hc2 hty hpr
      hty2 hpr2 e
    subst e1
    unfold GenAt at g
    rw [gen_slider B _ _ _ _ _ _ hk] at g
    have key : ∃ (dRow dCol : Int) (k : Nat), SliderDir (B.getSquare ⟨i⟩) dRow dCol
        ∧ RayMove B ⟨i⟩ (((⟨i⟩ : Position).getRow : Int) + dRow)
          (((⟨i⟩ : Position).getCol : Int) + dCol) dRow dCol k
          (Move.make ⟨i⟩ (Position.ofRC r c) ty pr) := by
      rcases g with ⟨a, d, hd, k, _, h⟩ | ⟨a, d, hd, k, _, h⟩
      · exact ⟨d.1, d.2, k, Or.inl ⟨a, hd⟩, h⟩
      · exact ⟨d.1, d.2, k, Or.inr ⟨a, hd⟩, h⟩
    obtain ⟨dRow, dCol, k, hd, h⟩ := key
    obtain ⟨r3, c3, hr3, hc3, ht, e3⟩ := rayMove_target B i dRow dCol k hd _ h
    obtain ⟨_, f2, f3, f4, f5⟩ := make_inj i i r c r3 c3 ty pr _ _ hi hi hr hc hr3 hc3 hty hpr
      (moveTypeOf_lt _) (by decide) e3
    subst f2 f3
    exact ⟨ht, f4, f5⟩
  · rintro ⟨ht, rfl, rfl⟩
    obtain ⟨dRow, dCol, k, hd, hk8, h⟩ := target_rayMove B i hi r c hr hc hs ht
    exact evaluateBoard_gen B hB hA i hi hne _ (Gen.ray dRow dCol k _ hd hk8 h)

set_option maxRecDepth 100000 in
theorem slider_moves_witness :
    InBounds pawnRookBoard ∧ ¬ AfterCheckmate pawnRookBoard
    ∧ (Move.make ⟨26⟩ (Position.ofRC 2 2) MoveType.CAPTURE PieceType.NO_PIECE
        ∈ (evaluateBoard pawnRookBoard).moves ↔
      RayTarget pawnRookBoard 26 2 2
        ∧ MoveType.CAPTURE = moveTypeOf (pawnRookBoard.getSquare (Position.ofRC 2 2))
        ∧ PieceType.NO_PIECE = PieceType.NO_PIECE)
    ∧ Move.make ⟨26⟩ (Position.ofRC 2 2) MoveType.CAPTURE PieceType.NO_PIECE
        ∈ (evaluateBoard pawnRookBoard).moves
    ∧ (evaluateBoard pawnRookBoard).moves.length = 15
    ∧ 500 < (evaluateBoard pawnRookBoard).score ∧ (evaluateBoard pawnRookBoard).score < 1000
    ∧ (evaluateBoard pawnRookBoard).evalStatus = EvalStatus.DONE_COMPLETE :=
  ⟨by unfold InBounds; decide, by unfold AfterCheckmate; decide,
    slider_moves pawnRookBoard (by unfold InBounds; decide) (by unfold AfterCheckmate; decide)
      26 (by decide) (by decide) (by decide) 2 2 (by decide) (by decide) MoveType.CAPTURE
      PieceType.NO_PIECE (by decide) (by decide),
    by decide, by decide, by decide, by decide, by decide⟩

end Engine

namespace Board

/-- The square of the rook of a castling move is not touched by the two writes of the
move. -/
theorem afterWrites_rookSquare (B : Board) (f t : Position) (c : Nat) (hc : c < 8)
    (hcf : c ≠ f.getCol) (hct : c ≠ t.getCol) :
    (afterWrites B f t).squares (Position.make f.getRow c).data
      = (clearMovedTwice B).squares (Position.make f.getRow c).data := by
  have : (Position.make f.getRow c).data % 8 = c := by
    rw [Position.make_data_mod]; omega
  rw [Position.getCol_eq] at hcf hct
  rw [afterWrites_squares, if_neg (by omega), if_neg (by omega)]

/-- Where a square of the result of `makeMove` comes from: it is the square of the board
after the clearing loop, or empty, or the moved piece on the to-square, or the promoted piece
on the to-square, or the pawn that moved two rows on the to-square, or the rook of a castling
move. -/
theorem makeMove_origin (B : Board) (f t : Position) (P j : Nat) :
    (j ≠ t.data ∧ (makeMove B f t P).squares j = (clearMovedTwice B).squares j)
    ∨ (makeMove B f t P).squares j = ⟨0⟩
    ∨ (j = t.data ∧ P = PieceType.NO_PIECE ∧ (makeMove B f t P).squares j
        = Square.make (movingPieceOf B f).getPieceType (movingPieceOf B f).getSideBit
            MovedBit.YES PawnMovedTwiceBit.NO)
    ∨ (j = t.data ∧ P ≠ PieceType.NO_PIECE ∧ (makeMove B f t P).squares j
        = Square.make P (movingPieceOf B f).getSideBit MovedBit.YES PawnMovedTwiceBit.NO)
    ∨ (j = t.data ∧ (movingPieceOf B f).getPieceType = PieceType.PAWN_PIECE
        ∧ ((f.getRow : Int) - (t.getRow : Int)).natAbs = 2
        ∧ (makeMove B f t P).squares j
          = Square.make (movingPieceOf B f).getPieceType (movingPieceOf B f).getSideBit
              MovedBit.YES PawnMovedTwiceBit.YES)
    ∨ ((movingPieceOf B f).getPieceType = PieceType.KING_PIECE ∧ f.getCol = 4
        ∧ ∃ rookCol : Nat, ((t.getCol = 6 ∧ rookCol = 7) ∨ (t.getCol = 2 ∧ rookCol = 0))
          ∧ (makeMove B f t P).squares j
            = Square.make
                ((clearMovedTwice B).squares (Position.make f.getRow rookCol).data).getPieceType
                ((clearMovedTwice B).squares (Position.make f.getRow rookCol).data).getSideBit
                MovedBit.YES PawnMovedTwiceBit.NO) := by
  have hP : ∀ (Q : Prop), ¬ (P ≠ PieceType.NO_PIECE ∧ Q) → Q → P = PieceType.NO_PIECE := by
    intro Q h q
    by_contra hne
    exact h ⟨hne, q⟩
  generalize hS : (makeMove B f t P).squares j = S
  by_cases h1 : (movingPieceOf B f).getPieceType = PieceType.PAWN_PIECE
  · rw [makeMove_squares_pawn B f t P j h1, afterWrites_squares] at hS
    split_ifs at hS with c1 c2 c3 c4 c5 <;> subst hS
    · exact Or.inr (Or.inr (Or.inr (Or.inl ⟨c1.2, c1.1, rfl⟩)))
    · exact Or.inr (Or.inr (Or.inr (Or.inr (Or.inl ⟨c2.2, h1, c2.1, rfl⟩))))
    · exact Or.inr (Or.inl rfl)
    · exact Or.inr (Or.inr (Or.inl ⟨c4, hP _ c1 c4, rfl⟩))
    · exact Or.inr (Or.inl rfl)
    · exact Or.inl ⟨c4, rfl⟩
  · by_cases h6 : (movingPieceOf B f).getPieceType = PieceType.KING_PIECE
    · rw [makeMove_squares_king B f t P j h6] at hS
      by_cases c1 : P ≠ PieceType.NO_PIECE ∧ j = t.data
      · rw [if_pos c1] at hS
        subst hS
        exact Or.inr (Or.inr (Or.inr (Or.inl ⟨c1.2, c1.1, rfl⟩)))
      · rw [if_neg c1] at hS
        have haw : (afterWrites B f t).squares j = S →
            (j ≠ t.data ∧ S = (clearMovedTwice B).squares j) ∨ S = ⟨0⟩
            ∨ (j = t.data ∧ P = PieceType.NO_PIECE ∧ S
              = Square.make (movingPieceOf B f).getPieceType (movingPieceOf B f).getSideBit
                  MovedBit.YES PawnMovedTwiceBit.NO) := by
          intro h
          rw [afterWrites_squares] at h
          split_ifs at h with d1 d2 <;> subst h
          · exact Or.inr (Or.inr ⟨d1, hP _ c1 d1, rfl⟩)
          · exact Or.inr (Or.inl rfl)
          · exact Or.inl ⟨d1, rfl⟩
        by_cases c2 : f.getCol = 4 ∧ t.getCol = 6
        · rw [if_pos c2] at hS
          by_cases c3 : j = (Position.make f.getRow 5).data
          · rw [if_pos c3, afterWrites_rookSquare B f t 7 (by decide) (by omega) (by omega)] at hS
            exact Or.inr (Or.inr (Or.inr (Or.inr (Or.inr
              ⟨h6, c2.1, 7, Or.inl ⟨c2.2, rfl⟩, hS.symm⟩))))
          · rw [if_neg c3] at hS
            by_cases c4 : j = (Position.make f.getRow 7).data
            · rw [if_pos c4] at hS
              exact Or.inr (Or.inl hS.symm)
            · rw [if_neg c4] at hS
              rcases haw hS with a | a | a
              · exact Or.inl a
              · exact Or.inr (Or.inl a)
              · exact Or.inr (Or.inr (Or.inl a))
        · rw [if_neg c2] at hS
          by_cases c2b : f.getCol = 4 ∧ t.getCol = 2
          · rw [if_pos c2b] at hS
            by_cases c3 : j = (Position.make f.getRow 3).data
            · rw [if_pos c3,
                afterWrites_rookSquare B f t 0 (by decide) (by omega) (by omega)] at hS
              exact Or.inr (Or.inr (Or.inr (Or.inr (Or.inr
                ⟨h6, c2b.1, 0, Or.inr ⟨c2b.2, rfl⟩, hS.symm⟩))))
            · rw [if_neg c3] at hS
              by_cases c4 : j = (Position.make f.getRow 0).data
              · rw [if_pos c4] at hS
                exact Or.inr (Or.inl hS.symm)
              · rw [if_neg c4] at hS
                rcases haw hS with a | a | a
                · exact Or.inl a
                · exact Or.inr (Or.inl a)
                · exact Or.inr (Or.inr (Or.inl a))
          · rw [if_neg c2b] at hS
            rcases haw hS with a | a | a
            · exact Or.inl a
            · exact Or.inr (Or.inl a)
            · exact Or.inr (Or.inr (Or.inl a))
    · rw [makeMove_squares_other B f t P j h1 h6, afterWrites_squares] at hS
      split_ifs at hS with c1 c2 c3 <;> subst hS
      · exact Or.inr (Or.inr (Or.inr (Or.inl ⟨c1.2, c1.1, rfl⟩)))
      · exact Or.inr (Or.inr (Or.inl ⟨c2, hP _ c1 c2, rfl⟩))
      · exact Or.inr (Or.inl rfl)
      · exact Or.inl ⟨c2, rfl⟩

end Board
namespace Engine

theorem flagInv_rows (B : Board) (h : FlagInv B) : FlagsOnMiddleRows B :=
  fun i hi hf => (h i hi hf).2.1

/-- The two sides: a square whose side bit differs from that of a square of the side not to
move is of the side to move. -/
theorem side_of_ne (a b : Square) (s : Side) (hab : a.getSideBit ≠ b.getSideBit)
    (ha : Board.getSide a.getSideBit ≠ s) : Board.getSide b.getSideBit = s := by
  rcases a.getSideBit_cases with h1 | h1 <;> rcases b.getSideBit_cases with h2 | h2 <;>
    rw [h1] at hab ha <;> rw [h2] at hab ⊢ <;> cases s <;> revert hab ha <;> decide

/-- On a board with the flag invariant every listed move is made by a piece of the side to
move. -/
theorem listed_side (B : Board) (E : Nat → Int) (i : Nat) (r c : Int) (ty pr : Nat)
    (hi : i < 64) (hc : 0 ≤ c ∧ c < 8) (hF : FlagInv B) (l : Listed B E i r c ty pr) :
    Board.getSide (B.getSquare ⟨i⟩).getSideBit = B.getMovingSide := by
  have hrow := Position.row_range i hi
  unfold Listed at l
  rcases l with ⟨_, h, _⟩ | ⟨_, h, _⟩ | ⟨_, h, _⟩ | ⟨_, _, _, _, h5, h6, _⟩ | ⟨_, h, _⟩
    | ⟨_, h, _⟩ | ⟨_, h, _⟩
  · exact h
  · exact h
  · exact h
  · have hlt := Position.ofRC_lt ((⟨i⟩ : Position).getRow : Int) c hrow hc
    have := (hF (Position.ofRC ((⟨i⟩ : Position).getRow : Int) c).data hlt h6).2.2
    exact side_of_ne _ _ _ h5 this
  · exact h
  · exact h
  · exact h

theorem rookSquare_eq (p : Position) (c : Nat) (hc : c < 8) :
    Position.make p.getRow c = Position.ofRC (p.getRow : Int) (c : Int) := by
  unfold Position.ofRC
  rw [toU8_natCast, toU8_natCast, Position.make_mod]
  have : c % 256 = c := by omega
  rw [this]

/-- What the invariant of the boards of a game needs of a listed move. -/
theorem listed_step (B : Board) (E : Nat → Int) (i : Nat) (r c : Int) (ty pr : Nat)
    (hi : i < 64) (hr : 0 ≤ r ∧ r < 8) (hc : 0 ≤ c ∧ c < 8) (hF : FlagsOnMiddleRows B)
    (l : Listed B E i r c ty pr) :
    (pr = PieceType.NO_PIECE ∨ pr = PieceType.QUEEN_PIECE)
    ∧ ((B.getSquare ⟨i⟩).getPieceType = PieceType.PAWN_PIECE →
        (r = ((⟨i⟩ : Position).getRow : Int) + 2 ∨ r = ((⟨i⟩ : Position).getRow : Int) - 2) →
        Board.getSide (B.getSquare ⟨i⟩).getSideBit = B.getMovingSide ∧ (r = 3 ∨ r = 4))
    ∧ ((B.getSquare ⟨i⟩).getPieceType = PieceType.PAWN_PIECE → pr = PieceType.NO_PIECE →
        rowcolok (r + Board.getSideSign (Board.getSide (B.getSquare ⟨i⟩).getSideBit)) = true)
    ∧ ((B.getSquare ⟨i⟩).getPieceType = PieceType.KING_PIECE →
        (c = 6 ∨ c = 2) → ((⟨i⟩ : Position).getCol : Int) = 4 →
        r = ((⟨i⟩ : Position).getRow : Int)
        ∧ (c = 6 → (B.getSquare (Position.ofRC r 7)).getPieceType = PieceType.ROOK_PIECE)
        ∧ (c = 2 → (B.getSquare (Position.ofRC r 0)).getPieceType = PieceType.ROOK_PIECE)) := by
  have hrow := Position.row_range i hi
  have hcol := Position.col_range i
  have hq : PieceType.QUEEN_PIECE ≠ PieceType.NO_PIECE := by decide
  have hkp : ∀ k : Nat, (k = PieceType.ROOK_PIECE ∨ k = PieceType.KNIGHT_PIECE
      ∨ k = PieceType.BISHOP_PIECE ∨ k = PieceType.QUEEN_PIECE ∨ k = PieceType.KING_PIECE) →
      k ≠ PieceType.PAWN_PIECE := by
    intro k h
    rcases h with h | h | h | h | h <;> rw [h] <;> decide
  have hpk : PieceType.PAWN_PIECE ≠ PieceType.KING_PIECE := by decide
  have hnk : ∀ k : Nat, (k = PieceType.ROOK_PIECE ∨ k = PieceType.KNIGHT_PIECE
      ∨ k = PieceType.BISHOP_PIECE ∨ k = PieceType.QUEEN_PIECE) →
      k ≠ PieceType.KING_PIECE := by
    intro k h
    rcases h with h | h | h | h <;> rw [h] <;> decide
  have hsign := sign_cases (Board.getSide (B.getSquare ⟨i⟩).getSideBit)
  have hsw : Board.getSide (B.getSquare ⟨i⟩).getSideBit = Side.WHITE →
      Board.getSideSign (Board.getSide (B.getSquare ⟨i⟩).getSideBit) = 1 := by
    intro h; rw [h]; rfl
  have hsb : Board.getSide (B.getSquare ⟨i⟩).getSideBit = Side.BLACK →
      Board.getSideSign (Board.getSide (B.getSquare ⟨i⟩).getSideBit) = -1 := by
    intro h; rw [h]; rfl
  have hside := side_cases (Board.getSide (B.getSquare ⟨i⟩).getSideBit)
  rw [rowcolok_iff]
  unfold Listed at l
  rcases l with ⟨h1, _, h3, _, _, _, rfl⟩ | ⟨h1, h2, h3, h4, _, _, _, rfl⟩
    | ⟨h1, _, h3, _, _, _, _, rfl⟩ | ⟨h1, h3, h4, _, _, h6, _, rfl⟩ | ⟨h1, _, _, _, rfl⟩
    | ⟨h1, _, h3, h4, _, _, _, _, rfl⟩ | ⟨h1, _, _, _, _, h6, h7, _, rfl⟩
  · refine ⟨?_, fun _ h => by omega, ?_, fun h => absurd (h1.symm.trans h) hpk⟩
    · rcases promotionOf_cases (Board.getSide (B.getSquare ⟨i⟩).getSideBit) r with ⟨_, b⟩ | ⟨_, b⟩
      · exact Or.inr b
      · exact Or.inl b
    · intro _ hp
      rcases promotionOf_cases (Board.getSide (B.getSquare ⟨i⟩).getSideBit) r with ⟨_, b⟩ | ⟨a, _⟩
      · exact absurd (b.symm.trans hp) hq
      · rcases hside with hs | hs
        · have := hsw hs
          have : r ≠ 7 := fun h => a (Or.inl ⟨hs, h⟩)
          omega
        · have := hsb hs
          have : r ≠ 0 := fun h => a (Or.inr ⟨hs, h⟩)
          omega
  · refine ⟨Or.inl rfl, fun _ _ => ⟨h2, ?_⟩, fun _ _ => ?_, fun h => absurd (h1.symm.trans h) hpk⟩
    · rcases hside with hs | hs
      · rw [if_pos hs] at h3
        have := hsw hs
        omega
      · rw [if_neg (by rw [hs]; decide)] at h3
        have := hsb hs
        omega
    · rcases hside with hs | hs
      · rw [if_pos hs] at h3
        have := hsw hs
        omega
      · rw [if_neg (by rw [hs]; decide)] at h3
        have := hsb hs
        omega
  · refine ⟨?_, fun _ h => by omega, ?_, fun h => absurd (h1.symm.trans h) hpk⟩
    · rcases promotionOf_cases (Board.getSide (B.getSquare ⟨i⟩).getSideBit) r with ⟨_, b⟩ | ⟨_, b⟩
      · exact Or.inr b
      · exact Or.inl b
    · intro _ hp
      rcases promotionOf_cases (Board.getSide (B.getSquare ⟨i⟩).getSideBit) r with ⟨_, b⟩ | ⟨a, _⟩
      · exact absurd (b.symm.trans hp) hq
      · rcases hside with hs | hs
        · have := hsw hs
          have : r ≠ 7 := fun h => a (Or.inl ⟨hs, h⟩)
          omega
        · have := hsb hs
          have : r ≠ 0 := fun h => a (Or.inr ⟨hs, h⟩)
          omega
  · refine ⟨Or.inl rfl, fun _ h => by omega, fun _ _ => ?_,
      fun h => absurd (h1.symm.trans h) hpk⟩
    have hlt := Position.ofRC_lt ((⟨i⟩ : Position).getRow : Int) c hrow hc
    have hf := hF (Position.ofRC ((⟨i⟩ : Position).getRow : Int) c).data hlt h6
    have hg := Position.ofRC_getRow ((⟨i⟩ : Position).getRow : Int) c hrow hc
    have hf2 : ((Position.ofRC ((⟨i⟩ : Position).getRow : Int) c).getRow : Int) = 3
        ∨ ((Position.ofRC ((⟨i⟩ : Position).getRow : Int) c).getRow : Int) = 4 := hf
    rw [hg] at hf2
    omega
  · have hnp := hkp _ (by tauto)
    have hk := hnk _ h1
    exact ⟨Or.inl rfl, fun h => absurd h hnp, fun h => absurd h hnp, fun h => absurd h hk⟩
  · have hnp := hkp _ (Or.inr (Or.inr (Or.inr (Or.inr h1))))
    refine ⟨Or.inl rfl, fun h => absurd h hnp, fun h => absurd h hnp, fun _ h2 h4i => ?_⟩
    omega
  · have hnp := hkp _ (Or.inr (Or.inr (Or.inr (Or.inr h1))))
    refine ⟨Or.inl rfl, fun h => absurd h hnp, fun h => absurd h hnp, fun _ _ _ => ⟨h6, ?_, ?_⟩⟩
    · intro h
      rcases h7 with ⟨_, b, _⟩ | ⟨a, _⟩
      · exact b
      · omega
    · intro h
      rcases h7 with ⟨a, _⟩ | ⟨_, b, _⟩
      · omega
      · exact b

end Engine
namespace Engine

theorem clearMovedTwice_noflag (B : Board) (hF : FlagInv B) (j : Nat) (hj : j < 64) :
    ((Board.clearMovedTwice B).squares j).getPawnMovedTwiceBit ≠ PawnMovedTwiceBit.YES := by
  intro h
  rw [Board.clearMovedTwice_squares] at h
  by_cases hf : (B.squares j).getPawnMovedTwiceBit = PawnMovedTwiceBit.YES
  · obtain ⟨hp, hrows, _⟩ := hF j hj hf
    have e : (⟨j⟩ : Position).getRow = j / 8 := Position.getRow_eq _
    rw [e] at hrows
    have hin : 24 ≤ j ∧ j < 40 := by omega
    rw [if_pos hin] at h
    exact clearSq_not_flagged_pawn _ ⟨h, by rw [clearSq_getPieceType]; exact hp⟩
  · split_ifs at h
    · rw [clearSq_of_not_flagged _ (fun hh => hf hh.1)] at h
      exact hf h
    · exact hf h

theorem rookSquare7 (p : Position) :
    Position.make p.getRow 7 = Position.ofRC (p.getRow : Int) 7 := by
  have h7 : toU8 (7 : Int) = 7 := by decide
  unfold Position.ofRC
  rw [toU8_natCast, h7, Position.make_mod]

theorem rookSquare0 (p : Position) :
    Position.make p.getRow 0 = Position.ofRC (p.getRow : Int) 0 := by
  have h0 : toU8 (0 : Int) = 0 := by decide
  unfold Position.ofRC
  rw [toU8_natCast, h0, Position.make_mod]

/-- One listed move keeps the invariant of the boards of a game: the evaluator reads only
cells of the array on the result, the flag invariant holds on it, and only its to-square can
carry the moved-twice bit. -/
theorem inv_step (B : Board) (E : Nat → Int) (hB : InBounds B) (hF : FlagInv B) (i : Nat)
    (r c : Int) (ty pr : Nat) (hi : i < 64) (hr : 0 ≤ r ∧ r < 8) (hc : 0 ≤ c ∧ c < 8)
    (l : Listed B E i r c ty pr) :
    InBounds (Board.makeMove B ⟨i⟩ (Position.ofRC r c) pr)
    ∧ FlagInv (Board.makeMove B ⟨i⟩ (Position.ofRC r c) pr)
    ∧ ∀ j, j < 64 →
        ((Board.makeMove B ⟨i⟩ (Position.ofRC r c) pr).getSquare ⟨j⟩).getPawnMovedTwiceBit
          = PawnMovedTwiceBit.YES → j = (Position.ofRC r c).data := by
  obtain ⟨s1, s2, s3, s4⟩ := listed_step B E i r c ty pr hi hr hc (flagInv_rows B hF) l
  have hside := listed_side B E i r c ty pr hi hc hF l
  have hP : pr ≤ PieceType.KING_PIECE := by
    rcases s1 with h | h <;> rw [h] <;> decide
  have hkf := Board.movingPieceOf_getPieceType B ⟨i⟩
  have hsf := Board.movingPieceOf_getSideBit B ⟨i⟩
  have hmv := Board.makeMove_getMovingSide B ⟨i⟩ (Position.ofRC r c) pr
  have htrow := Position.ofRC_getRow r c hr hc
  have htcol := Position.ofRC_getCol r c hr hc
  have hsign := sign_cases (Board.getSide (B.getSquare ⟨i⟩).getSideBit)
  have hmove : B.getMovingSide
      ≠ (Board.makeMove B ⟨i⟩ (Position.ofRC r c) pr).getMovingSide := by
    rw [hmv]
    cases B.getMovingSide <;> decide
  have hjt : ∀ j, j = (Position.ofRC r c).data → ((⟨j⟩ : Position).getRow : Int) = r := by
    intro j h
    rw [h]
    exact htrow
  have key : ∀ j, j < 64 → ∀ S : Square,
      (Board.makeMove B ⟨i⟩ (Position.ofRC r c) pr).squares j = S →
      (S.getPawnMovedTwiceBit = PawnMovedTwiceBit.YES →
        j = (Position.ofRC r c).data ∧ S.getPieceType = PieceType.PAWN_PIECE
        ∧ (((⟨j⟩ : Position).getRow : Int) = 3 ∨ ((⟨j⟩ : Position).getRow : Int) = 4)
        ∧ Board.getSide S.getSideBit
          ≠ (Board.makeMove B ⟨i⟩ (Position.ofRC r c) pr).getMovingSide)
      ∧ (S.getPieceType = PieceType.PAWN_PIECE →
        rowcolok (((⟨j⟩ : Position).getRow : Int)
          + Board.getSideSign (Board.getSide S.getSideBit)) = true) := by
    intro j hj S hS
    rcases Board.makeMove_origin B ⟨i⟩ (Position.ofRC r c) pr j with
      ⟨_, e⟩ | e | ⟨ht, _, e⟩ | ⟨_, hpn, e⟩ | ⟨ht, hpawn, hd, e⟩ | ⟨hking, hf4, rc, hrc, e⟩ <;>
      rw [hS] at e <;> subst e
    · constructor
      · intro h
        exact absurd h (clearMovedTwice_noflag B hF j hj)
      · intro h
        rw [Board.clearMovedTwice_getPieceType] at h
        rw [Board.clearMovedTwice_getSideBit]
        exact hB j hj h
    · constructor
      · intro h
        exact absurd h (by decide)
      · intro h
        exact absurd h (by decide)
    · constructor
      · intro h
        rw [Square.copy_twice] at h
        exact absurd h (by decide)
      · intro h
        rw [Square.copy_type _ MovedBit.YES PawnMovedTwiceBit.NO (Or.inr rfl) (Or.inl rfl),
          hkf] at h
        rw [Square.copy_side _ MovedBit.YES PawnMovedTwiceBit.NO (Or.inr rfl) (Or.inl rfl),
          hsf, hjt j ht]
        rcases s1 with hp0 | hpq
        · exact s3 h hp0
        · exact absurd hpq (by rw [‹pr = PieceType.NO_PIECE›]; decide)
    · constructor
      · intro h
        rw [Square.promo_twice pr hP] at h
        exact absurd h (by decide)
      · intro h
        rw [Square.promo_type pr hP] at h
        rcases s1 with hp0 | hpq
        · exact absurd hp0 hpn
        · rw [hpq] at h
          exact absurd h (by decide)
    · rw [hkf] at hpawn
      have hrows : r = ((⟨i⟩ : Position).getRow : Int) + 2
          ∨ r = ((⟨i⟩ : Position).getRow : Int) - 2 := by
        rw [htrow] at hd
        omega
      obtain ⟨t1, t2⟩ := s2 hpawn hrows
      have hk : (Square.make (movingPieceOf B ⟨i⟩).getPieceType
          (movingPieceOf B ⟨i⟩).getSideBit MovedBit.YES
          PawnMovedTwiceBit.YES).getPieceType = PieceType.PAWN_PIECE := by
        rw [Square.copy_type _ MovedBit.YES PawnMovedTwiceBit.YES (Or.inr rfl) (Or.inr rfl),
          hkf]
        exact hpawn
      have hs : (Square.make (movingPieceOf B ⟨i⟩).getPieceType
          (movingPieceOf B ⟨i⟩).getSideBit MovedBit.YES
          PawnMovedTwiceBit.YES).getSideBit = (B.getSquare ⟨i⟩).getSideBit := by
        rw [Square.copy_side _ MovedBit.YES PawnMovedTwiceBit.YES (Or.inr rfl) (Or.inr rfl),
          hsf]
      rw [hs, hjt j ht]
      constructor
      · intro _
        refine ⟨ht, hk, t2, ?_⟩
        rw [t1]
        exact hmove
      · intro _
        rw [rowcolok_iff]
        omega
    · constructor
      · intro h
        rw [Square.copy_twice] at h
        exact absurd h (by decide)
      · intro h
        exfalso
        rw [Square.copy_type _ MovedBit.YES PawnMovedTwiceBit.NO (Or.inr rfl) (Or.inl rfl),
          Board.clearMovedTwice_getPieceType] at h
        rw [hkf] at hking
        have h4 : ((⟨i⟩ : Position).getCol : Int) = 4 := by rw [hf4]; rfl
        rcases hrc with ⟨h6, rfl⟩ | ⟨h2, rfl⟩
        · have hc6 : c = 6 := by rw [← htcol, h6]; rfl
          obtain ⟨e1, e2, _⟩ := s4 hking (Or.inl hc6) h4
          have := e2 hc6
          rw [rookSquare7, ← e1] at h
          have h' : (B.getSquare (Position.ofRC r 7)).getPieceType = PieceType.PAWN_PIECE := h
          rw [this] at h'
          exact absurd h' (by decide)
        · have hc2 : c = 2 := by rw [← htcol, h2]; rfl
          obtain ⟨e1, _, e3⟩ := s4 hking (Or.inr hc2) h4
          have := e3 hc2
          rw [rookSquare0, ← e1] at h
          have h' : (B.getSquare (Position.ofRC r 0)).getPieceType = PieceType.PAWN_PIECE := h
          rw [this] at h'
          exact absurd h' (by decide)
  refine ⟨fun j hj hk => (key j hj _ rfl).2 hk, fun j hj hf => ((key j hj _ rfl).1 hf).2,
    fun j hj hf => ((key j hj _ rfl).1 hf).1⟩

end Engine
namespace Engine

/-- A listed move applied with `makeMoveM` is `makeMove` on its square and its target. -/
theorem makeMoveM_decode (B : Board) (i : Nat) (r c : Int) (ty pr : Nat) (hi : i < 64)
    (hr : 0 ≤ r ∧ r < 8) (hc : 0 ≤ c ∧ c < 8) (hty : ty < 64) (hpr : pr < 64) :
    Board.makeMoveM B (Move.make ⟨i⟩ (Position.ofRC r c) ty pr)
      = Board.makeMove B ⟨i⟩ (Position.ofRC r c) pr := by
  obtain ⟨d1, d2, _, d4⟩ := decode i r c ty pr hi hr hc hty hpr
  unfold Board.makeMoveM
  rw [d1, d2, d4]

/-- The invariant of the boards of a game: the evaluator reads only cells of the array, the
flag invariant holds, and at most one square carries the moved-twice bit. -/
theorem reachable_inv (B : Board) (h : Reachable B) :
    InBounds B ∧ FlagInv B
    ∧ ∀ j k, j < 64 → k < 64 →
        (B.getSquare ⟨j⟩).getPawnMovedTwiceBit = PawnMovedTwiceBit.YES →
        (B.getSquare ⟨k⟩).getPawnMovedTwiceBit = PawnMovedTwiceBit.YES → j = k := by
  induction h with
  | start =>
    have h0 : ∀ j, j < 64 →
        (Board.start.getSquare ⟨j⟩).getPawnMovedTwiceBit ≠ PawnMovedTwiceBit.YES := by
      decide
    refine ⟨by unfold InBounds; decide, fun j hj hf => absurd hf (h0 j hj),
      fun j k hj _ hf _ => absurd hf (h0 j hj)⟩
  | step B m _ hm ih =>
    obtain ⟨hB, hF, _⟩ := ih
    obtain ⟨i, r, c, ty, pr, hi, hr, hc, rfl, l⟩ := evaluateBoard_listed B hB m hm
    obtain ⟨hty, hpr⟩ := listed_lt B _ i r c ty pr l
    rw [makeMoveM_decode B i r c ty pr hi hr hc hty hpr]
    obtain ⟨a, b, d⟩ := inv_step B _ hB hF i r c ty pr hi hr hc l
    exact ⟨a, b, fun j k hj hk hfj hfk => (d j hj hfj).trans (d k hk hfk).symm⟩

theorem listed_occupied (B : Board) (E : Nat → Int) (i : Nat) (r c : Int) (ty pr : Nat)
    (l : Listed B E i r c ty pr) :
    (B.getSquare ⟨i⟩).getPieceType ≠ PieceType.NO_PIECE := by
  have hk : ∀ k : Nat, (k = PieceType.PAWN_PIECE ∨ k = PieceType.ROOK_PIECE
      ∨ k = PieceType.KNIGHT_PIECE ∨ k = PieceType.BISHOP_PIECE ∨ k = PieceType.QUEEN_PIECE
      ∨ k = PieceType.KING_PIECE) → k ≠ PieceType.NO_PIECE := by
    intro k h
    rcases h with h | h | h | h | h | h <;> rw [h] <;> decide
  unfold Listed at l
  rcases l with ⟨h, _⟩ | ⟨h, _⟩ | ⟨h, _⟩ | ⟨h, _⟩ | ⟨h, _⟩ | ⟨h, _⟩ | ⟨h, _⟩
  · exact hk _ (Or.inl h)
  · exact hk _ (Or.inl h)
  · exact hk _ (Or.inl h)
  · exact hk _ (Or.inl h)
  · exact hk _ (Or.inr (by tauto))
  · exact hk _ (by tauto)
  · exact hk _ (by tauto)

/-- C7: on every board of a game the moved-twice bit is set on at most one of the 64 squares,
and a square that carries it holds a pawn on row 3 or row 4. -/
theorem reachable_movedTwice (B : Board) (h : Reachable B) :
    (∀ j k, j < 64 → k < 64 →
      (B.getSquare ⟨j⟩).getPawnMovedTwiceBit = PawnMovedTwiceBit.YES →
      (B.getSquare ⟨k⟩).getPawnMovedTwiceBit = PawnMovedTwiceBit.YES → j = k)
    ∧ ∀ j, j < 64 → (B.getSquare ⟨j⟩).getPawnMovedTwiceBit = PawnMovedTwiceBit.YES →
      (B.getSquare ⟨j⟩).getPieceType = PieceType.PAWN_PIECE
      ∧ ((⟨j⟩ : Position).getRow = 3 ∨ (⟨j⟩ : Position).getRow = 4) := by
  obtain ⟨_, hF, h1⟩ := reachable_inv B h
  refine ⟨h1, fun j hj hf => ?_⟩
  obtain ⟨a, b, _⟩ := hF j hj hf
  refine ⟨a, ?_⟩
  omega

theorem reachable_movedTwice_witness :
    Reachable (Board.makeMoveM Board.start
      (Move.make ⟨12⟩ ⟨28⟩ MoveType.MOVE PieceType.NO_PIECE))
    ∧ ((Board.makeMoveM Board.start
        (Move.make ⟨12⟩ ⟨28⟩ MoveType.MOVE PieceType.NO_PIECE)).getSquare
          ⟨28⟩).getPawnMovedTwiceBit = PawnMovedTwiceBit.YES
    ∧ ((Board.makeMoveM Board.start
        (Move.make ⟨12⟩ ⟨28⟩ MoveType.MOVE PieceType.NO_PIECE)).getSquare
          ⟨28⟩).getPieceType = PieceType.PAWN_PIECE
    ∧ ((⟨28⟩ : Position).getRow = 3 ∨ (⟨28⟩ : Position).getRow = 4) :=
  ⟨Reachable.step _ _ Reachable.start (by decide), by decide,
    (reachable_movedTwice _ (Reachable.step _ _ Reachable.start (by decide))).2 28
      (by decide) (by decide)⟩

/-- C14: on every board of a game, the from-square of every listed move holds a piece of the
side to move. -/
theorem reachable_from_side (B : Board) (h : Reachable B) (m : Move)
    (hm : m ∈ (evaluateBoard B).moves) :
    (B.getSquare m.getFrom).getPieceType ≠ PieceType.NO_PIECE
    ∧ Board.getSide (B.getSquare m.getFrom).getSideBit = B.getMovingSide := by
  obtain ⟨hB, hF, _⟩ := reachable_inv B h
  obtain ⟨i, r, c, ty, pr, hi, hr, hc, rfl, l⟩ := evaluateBoard_listed B hB m hm
  obtain ⟨hty, hpr⟩ := listed_lt B _ i r c ty pr l
  obtain ⟨d1, _⟩ := decode i r c ty pr hi hr hc hty hpr
  rw [d1]
  exact ⟨listed_occupied B _ i r c ty pr l, listed_side B _ i r c ty pr hi hc hF l⟩

theorem reachable_from_side_witness :
    Reachable Board.start
    ∧ Move.make ⟨12⟩ ⟨28⟩ MoveType.MOVE PieceType.NO_PIECE ∈ (evaluateBoard Board.start).moves
    ∧ (Board.start.getSquare
        (Move.make ⟨12⟩ ⟨28⟩ MoveType.MOVE PieceType.NO_PIECE).getFrom).getPieceType
        ≠ PieceType.NO_PIECE
    ∧ Board.getSide (Board.start.getSquare
        (Move.make ⟨12⟩ ⟨28⟩ MoveType.MOVE PieceType.NO_PIECE).getFrom).getSideBit
        = Board.start.getMovingSide :=
  ⟨Reachable.start, by decide,
    reachable_from_side Board.start Reachable.start _ (by decide)⟩

end Engine

namespace Engine

theorem sign_opp (a b : Square) (h : a.getSideBit ≠ b.getSideBit) :
    Board.getSideSign (Board.getSide a.getSideBit)
      = - Board.getSideSign (Board.getSide b.getSideBit) := by
  rcases a.getSideBit_cases with h1 | h1 <;> rcases b.getSideBit_cases with h2 | h2 <;>
    rw [h1] at h ⊢ <;> rw [h2] at h ⊢ <;> first | exact absurd rfl h | decide

/-- The squares of the board after a pawn has moved two rows along its column. -/
theorem doubleStep_squares (B : Board) (f t : Position)
    (hpawn : (B.getSquare f).getPieceType = PieceType.PAWN_PIECE)
    (hd : ((f.getRow : Int) - (t.getRow : Int)).natAbs = 2) (hcol : f.getCol = t.getCol) :
    (Board.makeMove B f t PieceType.NO_PIECE).squares t.data
      = Square.make (movingPieceOf B f).getPieceType (movingPieceOf B f).getSideBit
          MovedBit.YES PawnMovedTwiceBit.YES
    ∧ ∀ j, j ≠ t.data → j ≠ f.data →
      (Board.makeMove B f t PieceType.NO_PIECE).squares j = (Board.clearMovedTwice B).squares j := by
  have g1 : (movingPieceOf B f).getPieceType = PieceType.PAWN_PIECE := by
    rw [Board.movingPieceOf_getPieceType]; exact hpawn
  constructor
  · rw [Board.makeMove_squares_pawn B f t _ _ g1, if_neg (fun h => h.1 rfl), if_pos ⟨hd, rfl⟩]
  · intro j hjt hjf
    rw [Board.makeMove_squares_pawn B f t _ _ g1, if_neg (fun h => h.1 rfl),
      if_neg (fun h => hjt h.2), if_neg (fun h => h.1.1 hcol), Board.afterWrites_squares,
      if_neg hjt, if_neg hjf]

/-- After a pawn has moved two rows forward along its column onto row 3 or 4, on a board on
which the evaluator reads only cells of the array and detects no after-checkmate, the capture
of every pawn of the other side beside it onto the square passed over is listed. -/
theorem enPassant_listed (B : Board) (f t p : Position) (hf : f.data < 64) (ht : t.data < 64)
    (hp : p.data < 64)
    (hpawn : (B.getSquare f).getPieceType = PieceType.PAWN_PIECE)
    (hfwd : (t.getRow : Int)
      = (f.getRow : Int) + 2 * Board.getSideSign (Board.getSide (B.getSquare f).getSideBit))
    (hcol : f.getCol = t.getCol)
    (hB : InBounds (Board.makeMove B f t PieceType.NO_PIECE))
    (hA : ¬ AfterCheckmate (Board.makeMove B f t PieceType.NO_PIECE))
    (hprow : p.getRow = t.getRow)
    (hpcol : (p.getCol : Int) = (t.getCol : Int) - 1 ∨ (p.getCol : Int) = (t.getCol : Int) + 1)
    (hpp : (B.getSquare p).getPieceType = PieceType.PAWN_PIECE)
    (hps : (B.getSquare p).getSideBit ≠ (B.getSquare f).getSideBit) :
    Move.make p (Position.ofRC ((f.getRow : Int)
        + Board.getSideSign (Board.getSide (B.getSquare f).getSideBit)) (t.getCol : Int))
      MoveType.CAPTURE PieceType.NO_PIECE
      ∈ (evaluateBoard (Board.makeMove B f t PieceType.NO_PIECE)).moves := by
  obtain ⟨fi⟩ := f
  obtain ⟨ti⟩ := t
  obtain ⟨pi⟩ := p
  have hsign := sign_cases (Board.getSide (B.getSquare ⟨fi⟩).getSideBit)
  have hd : ((((⟨fi⟩ : Position).getRow : Nat) : Int)
      - (((⟨ti⟩ : Position).getRow : Nat) : Int)).natAbs = 2 := by omega
  obtain ⟨sq1, sq2⟩ := doubleStep_squares B ⟨fi⟩ ⟨ti⟩ hpawn hd hcol
  have er : (⟨pi⟩ : Position).getRow = pi / 8 := Position.getRow_eq _
  have ec : (⟨pi⟩ : Position).getCol = pi % 8 := Position.getCol_eq _
  have er2 : (⟨ti⟩ : Position).getRow = ti / 8 := Position.getRow_eq _
  have ec2 : (⟨ti⟩ : Position).getCol = ti % 8 := Position.getCol_eq _
  have er3 : (⟨fi⟩ : Position).getRow = fi / 8 := Position.getRow_eq _
  have hpt : pi ≠ ti := by
    intro h
    rw [h] at hpcol
    omega
  have hpf : pi ≠ fi := by
    intro h
    rw [h] at hprow
    rw [← hprow] at hfwd
    omega
  have hsqp := sq2 pi hpt hpf
  have hkp : ((Board.makeMove B ⟨fi⟩ ⟨ti⟩ PieceType.NO_PIECE).getSquare ⟨pi⟩).getPieceType
      = PieceType.PAWN_PIECE := by
    show ((Board.makeMove B ⟨fi⟩ ⟨ti⟩ PieceType.NO_PIECE).squares pi).getPieceType = _
    rw [hsqp, Board.clearMovedTwice_getPieceType]
    exact hpp
  have hsp : ((Board.makeMove B ⟨fi⟩ ⟨ti⟩ PieceType.NO_PIECE).getSquare ⟨pi⟩).getSideBit
      = (B.getSquare ⟨pi⟩).getSideBit := by
    show ((Board.makeMove B ⟨fi⟩ ⟨ti⟩ PieceType.NO_PIECE).squares pi).getSideBit = _
    rw [hsqp, Board.clearMovedTwice_getSideBit]
    rfl
  have hkt : ((Board.makeMove B ⟨fi⟩ ⟨ti⟩ PieceType.NO_PIECE).getSquare ⟨ti⟩).getPieceType
      = PieceType.PAWN_PIECE := by
    show ((Board.makeMove B ⟨fi⟩ ⟨ti⟩ PieceType.NO_PIECE).squares ti).getPieceType = _
    rw [sq1, Square.copy_type _ MovedBit.YES PawnMovedTwiceBit.YES (Or.inr rfl) (Or.inr rfl),
      Board.movingPieceOf_getPieceType]
    exact hpawn
  have hst : ((Board.makeMove B ⟨fi⟩ ⟨ti⟩ PieceType.NO_PIECE).getSquare ⟨ti⟩).getSideBit
      = (B.getSquare ⟨fi⟩).getSideBit := by
    show ((Board.makeMove B ⟨fi⟩ ⟨ti⟩ PieceType.NO_PIECE).squares ti).getSideBit = _
    rw [sq1, Square.copy_side _ MovedBit.YES PawnMovedTwiceBit.YES (Or.inr rfl) (Or.inr rfl),
      Board.movingPieceOf_getSideBit]
  have hft : ((Board.makeMove B ⟨fi⟩ ⟨ti⟩ PieceType.NO_PIECE).getSquare
      ⟨ti⟩).getPawnMovedTwiceBit = PawnMovedTwiceBit.YES := by
    show ((Board.makeMove B ⟨fi⟩ ⟨ti⟩ PieceType.NO_PIECE).squares ti).getPawnMovedTwiceBit = _
    rw [sq1]
    exact Square.make_getPawnMovedTwiceBit _ _ _ _ (Square.getPieceType_lt _)
      (Square.getSideBit_cases _) (Or.inr rfl) (Or.inr rfl)
  have hne : ((Board.makeMove B ⟨fi⟩ ⟨ti⟩ PieceType.NO_PIECE).getSquare ⟨pi⟩).getPieceType
      ≠ PieceType.NO_PIECE := by rw [hkp]; decide
  have hso := sign_opp _ _ hps
  have hnb : Position.ofRC (((⟨pi⟩ : Position).getRow : Nat) : Int)
      ((((⟨pi⟩ : Position).getCol : Nat) : Int)
        + ((((⟨ti⟩ : Position).getCol : Nat) : Int) - (((⟨pi⟩ : Position).getCol : Nat) : Int)))
      = ⟨ti⟩ := by
    have := Position.ofRC_self ti ht
    rw [hprow]
    have e : ((((⟨pi⟩ : Position).getCol : Nat) : Int)
        + ((((⟨ti⟩ : Position).getCol : Nat) : Int) - (((⟨pi⟩ : Position).getCol : Nat) : Int)))
        = (((⟨ti⟩ : Position).getCol : Nat) : Int) := by omega
    rw [e]
    exact this
  have g := @Gen.enPassant (Board.makeMove B ⟨fi⟩ ⟨ti⟩ PieceType.NO_PIECE)
    (attackedBy (Board.makeMove B ⟨fi⟩ ⟨ti⟩ PieceType.NO_PIECE)) ⟨pi⟩
    ((Board.makeMove B ⟨fi⟩ ⟨ti⟩ PieceType.NO_PIECE).getSquare ⟨pi⟩)
    (((⟨pi⟩ : Position).getRow : Nat) : Int)
    (((⟨pi⟩ : Position).getCol : Nat) : Int)
    (Board.getSide
      ((Board.makeMove B ⟨fi⟩ ⟨ti⟩ PieceType.NO_PIECE).getSquare ⟨pi⟩).getSideBit)
    (Board.getSideSign (Board.getSide
      ((Board.makeMove B ⟨fi⟩ ⟨ti⟩ PieceType.NO_PIECE).getSquare ⟨pi⟩).getSideBit))
    ((((⟨ti⟩ : Position).getCol : Nat) : Int) - (((⟨pi⟩ : Position).getCol : Nat) : Int))
    (by omega) hkp (by rw [rowcolok_iff]; omega) (by rw [hnb]; exact hkt)
    (by rw [hnb, hst, hsp]; exact fun h => hps h.symm) (by rw [hnb]; exact hft)
  have e1 : (((⟨pi⟩ : Position).getRow : Nat) : Int) + Board.getSideSign (Board.getSide
      ((Board.makeMove B ⟨fi⟩ ⟨ti⟩ PieceType.NO_PIECE).getSquare ⟨pi⟩).getSideBit)
      = (((⟨fi⟩ : Position).getRow : Nat) : Int)
        + Board.getSideSign (Board.getSide (B.getSquare ⟨fi⟩).getSideBit) := by
    rw [hsp, hso, hprow, hfwd]
    ring
  have e2 : ((((⟨pi⟩ : Position).getCol : Nat) : Int)
      + ((((⟨ti⟩ : Position).getCol : Nat) : Int) - (((⟨pi⟩ : Position).getCol : Nat) : Int)))
      = (((⟨ti⟩ : Position).getCol : Nat) : Int) := by omega
  rw [e1, e2] at g
  exact evaluateBoard_gen _ hB hA pi hp hne _ g

end Engine
namespace Engine

/-- A pawn on row 3 or 4 does not carry the moved-twice bit after the next move, unless that
move is itself a move of a pawn by two rows onto its square. -/
theorem flag_expires (B1 : Board) (t f2 t2 : Position) (P2 : Nat) (hP2 : P2 ≤ PieceType.KING_PIECE)
    (hrow : t.getRow = 3 ∨ t.getRow = 4)
    (hpt : (B1.getSquare t).getPieceType = PieceType.PAWN_PIECE)
    (hm2 : ¬ (t2 = t ∧ (B1.getSquare f2).getPieceType = PieceType.PAWN_PIECE
      ∧ ((f2.getRow : Int) - (t2.getRow : Int)).natAbs = 2)) :
    ((Board.makeMove B1 f2 t2 P2).getSquare t).getPawnMovedTwiceBit ≠ PawnMovedTwiceBit.YES := by
  have hin : 24 ≤ t.data ∧ t.data < 40 := by
    rw [Position.getRow_eq] at hrow; omega
  show ((Board.makeMove B1 f2 t2 P2).squares t.data).getPawnMovedTwiceBit ≠ _
  rcases Board.makeMove_origin B1 f2 t2 P2 t.data with
    ⟨_, e⟩ | e | ⟨_, _, e⟩ | ⟨_, _, e⟩ | ⟨ht, hpawn, hd, _⟩ | ⟨_, _, rc, _, e⟩
  · rw [e, Board.clearMovedTwice_squares, if_pos hin]
    intro h
    exact clearSq_not_flagged_pawn _ ⟨h, by rw [clearSq_getPieceType]; exact hpt⟩
  · rw [e]; decide
  · rw [e, Square.copy_twice]; decide
  · rw [e, Square.promo_twice P2 hP2]; decide
  · rw [Board.movingPieceOf_getPieceType] at hpawn
    exact absurd ⟨(Position.ext_data _ _ ht).symm, hpawn, hd⟩ hm2
  · rw [e, Square.copy_twice]; decide

/-- On a board on which the square `t` does not carry the moved-twice bit, no listed capture
onto an empty square starts beside `t` on its row and ends on its column. -/
theorem no_enPassant_of (B2 : Board) (t : Position) (ht : t.data < 64) (hB : InBounds B2)
    (hflag : (B2.getSquare t).getPawnMovedTwiceBit ≠ PawnMovedTwiceBit.YES) (m : Move)
    (hm : m ∈ (evaluateBoard B2).moves) (hty : m.getMoveType = MoveType.CAPTURE)
    (he : (B2.getSquare m.getTo).getPieceType = PieceType.NO_PIECE) :
    ¬ (m.getFrom.getRow = t.getRow ∧ m.getTo.getCol = t.getCol) := by
  obtain ⟨i, r, c, ty, pr, hi, hr, hc, rfl, l⟩ := evaluateBoard_listed B2 hB m hm
  obtain ⟨hty2, hpr⟩ := listed_lt B2 _ i r c ty pr l
  obtain ⟨d1, d2, d3, _⟩ := decode i r c ty pr hi hr hc hty2 hpr
  rw [d3] at hty
  rw [d2] at he
  rw [d1, d2]
  have hmc : MoveType.MOVE ≠ MoveType.CAPTURE := by decide
  rintro ⟨h1, h2⟩
  have hc2 := Position.ofRC_getCol r c hr hc
  rw [h2] at hc2
  have hself := Position.ofRC_self t.data ht
  have hsq : ∀ sq : Square, sq.getPieceType = PieceType.NO_PIECE →
      moveTypeOf sq ≠ MoveType.CAPTURE := by
    intro sq h
    unfold moveTypeOf
    rw [if_pos h]
    exact hmc
  unfold Listed at l
  rcases l with ⟨_, _, _, _, _, a, _⟩ | ⟨_, _, _, _, _, _, a, _⟩
    | ⟨_, _, _, _, a, _⟩ | ⟨_, _, _, _, _, a, _⟩ | ⟨_, _, _, a, _⟩
    | ⟨_, _, _, _, _, _, _, a, _⟩ | ⟨_, _, _, _, _, _, _, a, _⟩
  · exact hmc (a.symm.trans hty)
  · exact hmc (a.symm.trans hty)
  · exact a he
  · apply hflag
    have e : Position.ofRC ((⟨i⟩ : Position).getRow : Int) c = t := by
      rw [h1, ← hc2]
      exact hself
    rw [e] at a
    exact a
  · exact hsq _ he (a.symm.trans hty)
  · exact hsq _ he (a.symm.trans hty)
  · exact hmc (a.symm.trans hty)

end Engine
namespace Engine

set_option maxRecDepth 100000 in
/-- C21 (counterexample): with a white king on d3 next to the black pawn c4, after the white
pawn has moved b2-b4 the evaluator detects an after-checkmate and lists no move: the
en-passant capture c4-b3 is not listed. -/
theorem enPassant_counterexample :
    (enpassantKingBoard.getSquare ⟨9⟩).getPieceType = PieceType.PAWN_PIECE
    ∧ (((⟨25⟩ : Position).getRow : Nat) : Int) = (((⟨9⟩ : Position).getRow : Nat) : Int)
        + 2 * Board.getSideSign (Board.getSide (enpassantKingBoard.getSquare ⟨9⟩).getSideBit)
    ∧ (⟨9⟩ : Position).getCol = (⟨25⟩ : Position).getCol
    ∧ (⟨25⟩ : Position).getRow = 3
    ∧ (⟨26⟩ : Position).getRow = (⟨25⟩ : Position).getRow
    ∧ (((⟨26⟩ : Position).getCol : Nat) : Int) = (((⟨25⟩ : Position).getCol : Nat) : Int) + 1
    ∧ (enpassantKingBoard.getSquare ⟨26⟩).getPieceType = PieceType.PAWN_PIECE
    ∧ (enpassantKingBoard.getSquare ⟨26⟩).getSideBit
        ≠ (enpassantKingBoard.getSquare ⟨9⟩).getSideBit
    ∧ Board.getSide (enpassantKingBoard.getSquare ⟨26⟩).getSideBit
        = (Board.makeMove enpassantKingBoard ⟨9⟩ ⟨25⟩ PieceType.NO_PIECE).getMovingSide
    ∧ Move.make ⟨26⟩ (Position.ofRC 2 1) MoveType.CAPTURE PieceType.NO_PIECE
        ∉ (evaluateBoard (Board.makeMove enpassantKingBoard ⟨9⟩ ⟨25⟩ PieceType.NO_PIECE)).moves
    := by
  decide

/-- C21 (amended): let a pawn move two rows forward along its column, without promotion, from
`f` onto a square `t` of row 3 or 4, and let no pawn stand on the last row of its side on the
boards that are evaluated (there the evaluator reads only cells of its arrays). Unless the
evaluator detects an after-checkmate on the result, it lists for every pawn of the other side
beside `t` on its row the CAPTURE onto the square passed over. After a further move that is
not itself a move of a pawn by two rows onto `t`, no listed CAPTURE onto an empty square
starts on the row of `t` and ends on the column of `t`. -/
theorem enPassant_window (B : Board) (f t : Position) (hf : f.data < 64) (ht : t.data < 64)
    (hpawn : (B.getSquare f).getPieceType = PieceType.PAWN_PIECE)
    (hfwd : (t.getRow : Int)
      = (f.getRow : Int) + 2 * Board.getSideSign (Board.getSide (B.getSquare f).getSideBit))
    (hcol : f.getCol = t.getCol) (hrow : t.getRow = 3 ∨ t.getRow = 4) :
    (InBounds (Board.makeMove B f t PieceType.NO_PIECE) →
      ¬ AfterCheckmate (Board.makeMove B f t PieceType.NO_PIECE) →
      ∀ p : Position, p.data < 64 → p.getRow = t.getRow →
        ((p.getCol : Int) = (t.getCol : Int) - 1 ∨ (p.getCol : Int) = (t.getCol : Int) + 1) →
        (B.getSquare p).getPieceType = PieceType.PAWN_PIECE →
        (B.getSquare p).getSideBit ≠ (B.getSquare f).getSideBit →
        Move.make p (Position.ofRC ((f.getRow : Int)
            + Board.getSideSign (Board.getSide (B.getSquare f).getSideBit)) (t.getCol : Int))
          MoveType.CAPTURE PieceType.NO_PIECE
          ∈ (evaluateBoard (Board.makeMove B f t PieceType.NO_PIECE)).moves)
    ∧ (∀ (f2 t2 : Position) (P2 : Nat), P2 ≤ PieceType.KING_PIECE →
      ¬ (t2 = t
        ∧ ((Board.makeMove B f t PieceType.NO_PIECE).getSquare f2).getPieceType
            = PieceType.PAWN_PIECE
        ∧ ((f2.getRow : Int) - (t2.getRow : Int)).natAbs = 2) →
      InBounds (Board.makeMove (Board.makeMove B f t PieceType.NO_PIECE) f2 t2 P2) →
      ∀ m, m ∈ (evaluateBoard
          (Board.makeMove (Board.makeMove B f t PieceType.NO_PIECE) f2 t2 P2)).moves →
        m.getMoveType = MoveType.CAPTURE →
        ((Board.makeMove (Board.makeMove B f t PieceType.NO_PIECE) f2 t2 P2).getSquare
          m.getTo).getPieceType = PieceType.NO_PIECE →
        ¬ (m.getFrom.getRow = t.getRow ∧ m.getTo.getCol = t.getCol)) := by
  constructor
  · intro hB hA p hp hprow hpcol hpp hps
    exact enPassant_listed B f t p hf ht hp hpawn hfwd hcol hB hA hprow hpcol hpp hps
  · intro f2 t2 P2 hP2 hm2 hB2 m hm hty he
    have hsign := sign_cases (Board.getSide (B.getSquare f).getSideBit)
    have hd : ((f.getRow : Int) - (t.getRow : Int)).natAbs = 2 := by omega
    have hpt : ((Board.makeMove B f t PieceType.NO_PIECE).getSquare t).getPieceType
        = PieceType.PAWN_PIECE := by
      show ((Board.makeMove B f t PieceType.NO_PIECE).squares t.data).getPieceType = _
      rw [(doubleStep_squares B f t hpawn hd hcol).1,
        Square.copy_type _ MovedBit.YES PawnMovedTwiceBit.YES (Or.inr rfl) (Or.inr rfl),
        Board.movingPieceOf_getPieceType]
      exact hpawn
    exact no_enPassant_of _ t ht hB2
      (flag_expires _ t f2 t2 P2 hP2 hrow hpt hm2) m hm hty he

set_option maxRecDepth 100000 in
theorem enPassant_window_witness :
    ((enpassantBoard.getSquare ⟨9⟩).getPieceType = PieceType.PAWN_PIECE
      ∧ InBounds (Board.makeMove enpassantBoard ⟨9⟩ ⟨25⟩ PieceType.NO_PIECE)
      ∧ ¬ AfterCheckmate (Board.makeMove enpassantBoard ⟨9⟩ ⟨25⟩ PieceType.NO_PIECE))
    ∧ Move.make ⟨26⟩ (Position.ofRC ((((⟨9⟩ : Position).getRow : Nat) : Int)
          + Board.getSideSign (Board.getSide (enpassantBoard.getSquare ⟨9⟩).getSideBit))
          (((⟨25⟩ : Position).getCol : Nat) : Int))
        MoveType.CAPTURE PieceType.NO_PIECE
        ∈ (evaluateBoard (Board.makeMove enpassantBoard ⟨9⟩ ⟨25⟩ PieceType.NO_PIECE)).moves
    ∧ (evaluateBoard (Board.makeMove enpassantBoard ⟨9⟩ ⟨25⟩ PieceType.NO_PIECE)).moves.length
        = 3
    ∧ (evaluateBoard (Board.makeMove (Board.makeMove
        (Board.makeMove enpassantBoard ⟨9⟩ ⟨25⟩ PieceType.NO_PIECE) ⟨30⟩ ⟨22⟩
          PieceType.NO_PIECE) ⟨8⟩ ⟨24⟩ PieceType.NO_PIECE)).moves.length = 2 :=
  ⟨⟨by decide, by unfold InBounds; decide, by unfold AfterCheckmate; decide⟩,
    (enPassant_window enpassantBoard ⟨9⟩ ⟨25⟩ (by decide) (by decide) (by decide) (by decide)
      (by decide) (by decide)).1 (by unfold InBounds; decide)
      (by unfold AfterCheckmate; decide) ⟨26⟩ (by decide)
      (by decide) (by decide) (by decide) (by decide),
    by decide, by decide⟩

end Engine

namespace Engine

theorem addTerm_zero (s : Int) : addTerm s 0 = s := by
  unfold addTerm; rw [if_pos rfl]

theorem c1_iff (evalContext : HeuristicsContext) (s : Side) (i : Nat) :
    (if s = Side.WHITE then evalContext.blackAttackCount i > evalContext.whiteAttackCount i
      else evalContext.whiteAttackCount i > evalContext.blackAttackCount i)
    ↔ evalContext.enemyCount s i > evalContext.ownCount s i := by
  cases s <;> simp [HeuristicsContext.enemyCount, HeuristicsContext.ownCount]

theorem c2_iff (evalContext : HeuristicsContext) (s : Side) (i : Nat) :
    (if s = Side.WHITE then evalContext.blackAttackCount i = 0
        ∧ evalContext.whiteAttackCount i > 0
      else evalContext.whiteAttackCount i = 0 ∧ evalContext.blackAttackCount i > 0)
    ↔ (evalContext.enemyCount s i = 0 ∧ evalContext.ownCount s i > 0) := by
  cases s <;> simp [HeuristicsContext.enemyCount, HeuristicsContext.ownCount]

theorem c0_iff (evalContext : HeuristicsContext) (s : Side) (i : Nat) :
    (evalContext.whiteAttackCount i = 0 ∧ evalContext.blackAttackCount i = 0)
    ↔ (evalContext.enemyCount s i = 0 ∧ evalContext.ownCount s i = 0) := by
  cases s <;> simp [HeuristicsContext.enemyCount, HeuristicsContext.ownCount]
  exact And.comm

theorem check_iff (evalContext : HeuristicsContext) (s : Side) (i : Nat) :
    (if s = Side.WHITE then evalContext.blackAttackCount i > 0
      else evalContext.whiteAttackCount i > 0)
    ↔ evalContext.enemyCount s i > 0 := by
  cases s <;> simp [HeuristicsContext.enemyCount]

/-- The attacker-count loop on squares on which no king is attacked: it runs to its end,
keeps the moves, and adds the safety term of each square to the score. -/
theorem attackerPass_score (board : Board) (evalContext : HeuristicsContext)
    (movingSide : Side) (movingSideSign : Int) (l : List Nat) :
    (∀ i ∈ l, (board.getSquare ⟨i⟩).getPieceType = PieceType.KING_PIECE →
      ¬ evalContext.enemyCount (Board.getSide (board.getSquare ⟨i⟩).getSideBit) i > 0) →
    ∀ record : EvalRecord, ∃ r : EvalRecord,
      attackerPass board evalContext movingSide movingSideSign l record = PassResult.running r
      ∧ r.moves = record.moves
      ∧ r.score = l.foldl (fun s i => addTerm s (safetyTermSpec board evalContext i))
          record.score := by
  induction l with
  | nil =>
    intro _ record
    exact ⟨record, rfl, rfl, rfl⟩
  | cons i rest ih =>
    intro hK record
    have hKi := hK i (List.mem_cons_self i rest)
    have ih2 := ih (fun j hj => hK j (List.mem_cons_of_mem i hj))
    have done : ∀ record2 : EvalRecord, record2.moves = record.moves →
        record2.score = addTerm record.score (safetyTermSpec board evalContext i) →
        ∃ r : EvalRecord,
          attackerPass board evalContext movingSide movingSideSign rest record2
            = PassResult.running r
          ∧ r.moves = record.moves
          ∧ r.score = rest.foldl (fun s i => addTerm s (safetyTermSpec board evalContext i))
              (addTerm record.score (safetyTermSpec board evalContext i)) := by
      intro record2 h1 h2
      obtain ⟨r, a, b, c⟩ := ih2 record2
      exact ⟨r, a, b.trans h1, by rw [c, h2]⟩
    have hsign := sign_cases (Board.getSide (board.getSquare ⟨i⟩).getSideBit)
    rw [List.foldl_cons]
    unfold attackerPass
    simp only []
    by_cases h0 : (board.getSquare ⟨i⟩).getPieceType = PieceType.NO_PIECE
    · rw [if_pos h0]
      refine done record rfl ?_
      unfold safetyTermSpec
      rw [if_pos (Or.inl h0), addTerm_zero]
    · rw [if_neg h0]
      by_cases hz : evalContext.whiteAttackCount i = 0 ∧ evalContext.blackAttackCount i = 0
      · rw [if_pos hz]
        refine done record rfl ?_
        have hz2 := (c0_iff evalContext (Board.getSide (board.getSquare ⟨i⟩).getSideBit) i).mp hz
        unfold safetyTermSpec
        split_ifs <;> first | (rw [addTerm_zero]) | (exfalso; omega) | (simp only [add_zero, addTerm_zero])
      · rw [if_neg hz]
        by_cases h6 : (board.getSquare ⟨i⟩).getPieceType = PieceType.KING_PIECE
        · have hk := hKi h6
          have hk2 := fun h => hk
            ((afterCheckmate_cond evalContext (Board.getSide (board.getSquare ⟨i⟩).getSideBit)
              i).mp h)
          have hk3 := fun h => hk
            ((check_iff evalContext (Board.getSide (board.getSquare ⟨i⟩).getSideBit) i).mp h)
          rw [if_neg (fun h => hk2 h.2.2), if_pos h6, if_neg hk3]
          refine done record rfl ?_
          unfold safetyTermSpec
          rw [if_pos (Or.inr h6), addTerm_zero]
        · rw [if_neg (fun h => h6 h.1), if_neg h6]
          have ht : safetyTermSpec board evalContext i
              = (if evalContext.enemyCount (Board.getSide (board.getSquare ⟨i⟩).getSideBit) i
                  > evalContext.ownCount (Board.getSide (board.getSquare ⟨i⟩).getSideBit) i
                then -75 * Board.getSideSign (Board.getSide (board.getSquare ⟨i⟩).getSideBit)
                else 0)
              + (if evalContext.enemyCount (Board.getSide (board.getSquare ⟨i⟩).getSideBit) i = 0
                  ∧ evalContext.ownCount (Board.getSide (board.getSquare ⟨i⟩).getSideBit) i > 0
                then 20 * Board.getSideSign (Board.getSide (board.getSquare ⟨i⟩).getSideBit)
                else 0) := by
            unfold safetyTermSpec
            rw [if_neg (fun h => h.elim h0 h6)]
          by_cases c1 : evalContext.enemyCount (Board.getSide (board.getSquare ⟨i⟩).getSideBit) i
              > evalContext.ownCount (Board.getSide (board.getSquare ⟨i⟩).getSideBit) i
          · have c2 : ¬ (evalContext.enemyCount
                (Board.getSide (board.getSquare ⟨i⟩).getSideBit) i = 0
                ∧ evalContext.ownCount (Board.getSide (board.getSquare ⟨i⟩).getSideBit) i > 0) :=
              by omega
            rw [if_pos ((c1_iff _ _ _).mpr c1), if_neg (fun h => c2 ((c2_iff _ _ _).mp h))]
            refine done _ rfl ?_
            rw [ht, if_pos c1, if_neg c2, add_zero]
            unfold addTerm
            rw [if_neg (by omega)]
            rfl
          · rw [if_neg (fun h => c1 ((c1_iff _ _ _).mp h))]
            by_cases c2 : evalContext.enemyCount
                (Board.getSide (board.getSquare ⟨i⟩).getSideBit) i = 0
                ∧ evalContext.ownCount (Board.getSide (board.getSquare ⟨i⟩).getSideBit) i > 0
            · rw [if_pos ((c2_iff _ _ _).mpr c2)]
              refine done _ rfl ?_
              rw [ht, if_neg c1, if_pos c2, zero_add]
              unfold addTerm
              rw [if_neg (by omega)]
              rfl
            · rw [if_neg (fun h => c2 ((c2_iff _ _ _).mp h))]
              refine done record rfl ?_
              rw [ht, if_neg c1, if_neg c2, add_zero, addTerm_zero]

/-- C22: on a board on which no king stands on a square attacked by the other side (by the
attack counts of the evaluator: no check and no after-checkmate) and with a non-empty move
list, the score of the record is the score after the sweep with the safety
term of each of the 64 squares added in `int16_t` arithmetic: for a piece other than a king
with `a` attackers and `d` defenders, -75 times its sign if `a > d`, plus 20 times its sign if
`a = 0` and `d > 0`, and nothing if `a = 0` and `d = 0`; no term of -50 occurs. -/
theorem safety_terms (B : Board)
    (hK : ∀ i, i < 64 → (B.getSquare ⟨i⟩).getPieceType = PieceType.KING_PIECE →
      ¬ (sweep B).evalContext.enemyCount (Board.getSide (B.getSquare ⟨i⟩).getSideBit) i > 0)
    (hM : (evaluateBoard B).moves ≠ []) :
    (evaluateBoard B).score
      = (List.range 64).foldl
          (fun s i => addTerm s (safetyTermSpec B (sweep B).evalContext i))
          (sweep B).record.score
    ∧ ∀ i, ((sweep B).evalContext.enemyCount (Board.getSide (B.getSquare ⟨i⟩).getSideBit) i = 0
        ∧ (sweep B).evalContext.ownCount (Board.getSide (B.getSquare ⟨i⟩).getSideBit) i = 0) →
      safetyTermSpec B (sweep B).evalContext i = 0 := by
  constructor
  · obtain ⟨r, e, h1, h2⟩ := attackerPass_score B (sweep B).evalContext B.getMovingSide
      (Board.getSideSign B.getMovingSide) (List.range 64)
      (fun i hi => hK i ((mem_range64 i).mp hi)) (sweep B).record
    have hev : evaluateBoard B = (if r.moves.length = 0 then
        setExactScore r (wrapI16 (STALEMATE_SCORE * Board.getSideSign B.getMovingSide))
        else { r with evalStatus := EvalStatus.DONE_COMPLETE }) := by
      unfold evaluateBoard
      simp only [e]
    by_cases hl : r.moves.length = 0
    · exfalso
      apply hM
      rw [hev, if_pos hl]
      exact List.length_eq_zero.mp hl
    · rw [hev, if_neg hl]
      exact h2
  · intro i hz
    unfold safetyTermSpec
    split_ifs <;> first | rfl | (exfalso; omega)

set_option maxRecDepth 100000 in
theorem safety_terms_witness :
    (evaluateBoard loneWhiteRook).moves ≠ []
    ∧ (evaluateBoard loneWhiteRook).score
      = (List.range 64).foldl
          (fun s i => addTerm s (safetyTermSpec loneWhiteRook (sweep loneWhiteRook).evalContext i))
          (sweep loneWhiteRook).record.score
    ∧ (evaluateBoard loneWhiteRook).score = 570 :=
  ⟨by decide, (safety_terms loneWhiteRook (by decide) (by decide)).1, by decide⟩

end Engine

/-! ## The table of records -/

theorem Board.beq_iff (a b : Board) :
    a.beq b = true ↔
      (∀ i, i < 64 → (a.squares i).data = (b.squares i).data) ∧ a.gamestate = b.gamestate := by
  unfold Board.beq
  simp only [Bool.and_eq_true, List.all_eq_true, List.mem_range, beq_iff_eq]

theorem Board.beq_refl (a : Board) : a.beq a = true :=
  (Board.beq_iff a a).mpr ⟨fun _ _ => rfl, rfl⟩

theorem Board.beq_symm (a b : Board) (h : a.beq b = true) : b.beq a = true := by
  rw [Board.beq_iff] at h ⊢
  exact ⟨fun i hi => (h.1 i hi).symm, h.2.symm⟩

theorem Board.beq_trans (a b c : Board) (h1 : a.beq b = true) (h2 : b.beq c = true) :
    a.beq c = true := by
  rw [Board.beq_iff] at h1 h2 ⊢
  exact ⟨fun i hi => (h1.1 i hi).trans (h2.1 i hi), h1.2.trans h2.2⟩

/-- Two boards that `operator==` equates are equated with the same boards. -/
theorem Board.beq_congr (a b c : Board) (h : a.beq b = true) : a.beq c = b.beq c := by
  cases h2 : b.beq c
  · cases h3 : a.beq c
    · rfl
    · rw [Board.beq_trans b a c (Board.beq_symm a b h) h3] at h2
      exact absurd h2 (by decide)
  · exact Board.beq_trans a b c h h2

namespace Cache

theorem find_cons (k : Board) (r : EvalRecord) (rest : Cache) (b2 : Board) :
    find ((k, r) :: rest) b2 = if k.beq b2 = true then some r else find rest b2 := rfl

theorem modify_cons (k : Board) (r : EvalRecord) (rest : Cache) (b : Board)
    (f : EvalRecord → EvalRecord) :
    modify ((k, r) :: rest) b f
      = (if k.beq b = true then (k, f r) else (k, r)) :: modify rest b f := rfl

theorem insert_cons (k : Board) (r : EvalRecord) (rest : Cache) (b : Board) (r2 : EvalRecord) :
    insert ((k, r) :: rest) b r2 = (k, r) :: insert rest b r2 := rfl

theorem find_modify (evals : Cache) (b : Board) (f : EvalRecord → EvalRecord) (b2 : Board) :
    (evals.modify b f).find b2
      = if b.beq b2 = true then (evals.find b2).map f else evals.find b2 := by
  induction evals with
  | nil =>
    show (none : Option EvalRecord) = if b.beq b2 = true then Option.map f none else none
    simp only [Option.map_none', ite_self]
  | cons e rest ih =>
    obtain ⟨k, r⟩ := e
    rw [modify_cons]
    by_cases hkb : k.beq b = true
    · have e1 : k.beq b2 = b.beq b2 := Board.beq_congr k b b2 hkb
      rw [if_pos hkb, find_cons, find_cons, ih, e1]
      by_cases hb : b.beq b2 = true
      · simp only [hb, if_true, Option.map_some']
      · simp only [hb, if_false, Bool.false_eq_true]
    · rw [if_neg hkb, find_cons, find_cons, ih]
      by_cases hk2 : k.beq b2 = true
      · have hb : ¬ b.beq b2 = true := by
          intro h
          exact hkb (Board.beq_trans k b2 b hk2 (Board.beq_symm b b2 h))
        simp only [hk2, if_true, hb, if_false, Bool.false_eq_true]
      · simp only [hk2, if_false, Bool.false_eq_true]

theorem find_modify_same (evals : Cache) (b : Board) (f : EvalRecord → EvalRecord) :
    (evals.modify b f).find b = (evals.find b).map f := by
  rw [find_modify, if_pos (Board.beq_refl b)]

theorem find_insert (evals : Cache) (b : Board) (r : EvalRecord) (b2 : Board) :
    (evals.insert b r).find b2
      = match evals.find b2 with
        | some x => some x
        | none => if b.beq b2 = true then some r else none := by
  induction evals with
  | nil => rfl
  | cons e rest ih =>
    obtain ⟨k, r2⟩ := e
    rw [insert_cons, find_cons, find_cons, ih]
    by_cases hk : k.beq b2 = true
    · simp only [hk, if_true]
    · simp only [hk, if_false, Bool.false_eq_true]

theorem find_insert_same (evals : Cache) (b : Board) (r : EvalRecord)
    (h : evals.find b = none) : (evals.insert b r).find b = some r := by
  rw [find_insert, h]
  simp only [Board.beq_refl, if_true]

end Cache
namespace Engine

theorem toU8_small (x : Int) (h : 0 ≤ x ∧ x < 256) : ((toU8 x : Nat) : Int) = x := by
  unfold toU8
  omega

theorem mateDecay_spec (score : Int) (h : -32768 ≤ score ∧ score ≤ 32767) :
    mateDecay score
      = if score > 5000 then score - 5 else if score < -5000 then score + 5 else score := by
  unfold mateDecay wrapI16
  simp only [AFTER_CHECKMATE_SCORE, DISTANT_CHECKMATE_DECAY]
  split_ifs <;> omega

/-- The record of `board` after the end of `evaluate`. -/
theorem finish_find (board : Board) (record : EvalRecord) (toDepth toQsDepth : Int)
    (s : SearchState) (l : LoopState) (r0 : EvalRecord) (hfind : s.evals.find board = some r0) :
    ∃ moves : List Move,
      (finish board record toDepth toQsDepth s l).1.evals.find board
        = some { r0 with
            score := mateDecay (if l.newScore ≠ MIN_SCORE ∧ l.newScore ≠ MAX_SCORE
              then l.newScore else record.score),
            evalStatus := EvalStatus.DONE_COMPLETE, evalDepth := toU8 toDepth,
            qsEvalDepth := toU8 toQsDepth, bestMove := l.bestMove, moves := moves } := by
  unfold finish
  simp only []
  rw [Cache.find_modify_same, Cache.find_modify_same, hfind]
  exact ⟨_, rfl⟩

/-- C27: at the end of `evaluate` after the loop over all moves, with `s` the score of the
record after the loop (an `int16_t`): the score that is stored in the record and returned is
`s - 5` if `s > 5000`, `s + 5` if `s < -5000`, and `s` itself otherwise; in the first two
cases it is strictly closer to zero. -/
theorem finish_mate_decay (board : Board) (record : EvalRecord) (toDepth toQsDepth : Int)
    (s : SearchState) (l : LoopState) (r0 : EvalRecord) (score : Int)
    (hfind : s.evals.find board = some r0)
    (hscore : score = if l.newScore ≠ MIN_SCORE ∧ l.newScore ≠ MAX_SCORE then l.newScore
      else record.score)
    (hrange : -32768 ≤ score ∧ score ≤ 32767) :
    (finish board record toDepth toQsDepth s l).2.result = EvalResultCode.SUCCESS
    ∧ (finish board record toDepth toQsDepth s l).2.score
        = (if score > 5000 then score - 5 else if score < -5000 then score + 5 else score)
    ∧ ((finish board record toDepth toQsDepth s l).1.evals.find board).map (fun r => r.score)
        = some (if score > 5000 then score - 5 else if score < -5000 then score + 5 else score)
    ∧ ((finish board record toDepth toQsDepth s l).1.evals.find board).map
        (fun r => r.evalStatus) = some EvalStatus.DONE_COMPLETE
    ∧ (score.natAbs > 5000 →
        (if score > 5000 then score - 5 else if score < -5000 then score + 5
          else score).natAbs < score.natAbs) := by
  obtain ⟨moves, hf⟩ := finish_find board record toDepth toQsDepth s l r0 hfind
  rw [hf, ← hscore, ← mateDecay_spec score hrange]
  refine ⟨rfl, ?_, rfl, rfl, ?_⟩
  · show mateDecay (if l.newScore ≠ MIN_SCORE ∧ l.newScore ≠ MAX_SCORE then l.newScore
      else record.score) = mateDecay score
    rw [← hscore]
  · intro h
    rw [mateDecay_spec score hrange]
    split_ifs <;> omega

theorem finish_mate_decay_witness :
    (finish Board.start EvalRecord.new 1 0
      ⟨[(Board.start, EvalRecord.new)], EvalContext.make 0 1 (fun _ => 0)⟩
      ⟨9000, 0, ⟨0⟩, MIN_SCORE, MAX_SCORE, []⟩).2.score = 8995 :=
  (finish_mate_decay Board.start EvalRecord.new 1 0
    ⟨[(Board.start, EvalRecord.new)], EvalContext.make 0 1 (fun _ => 0)⟩
    ⟨9000, 0, ⟨0⟩, MIN_SCORE, MAX_SCORE, []⟩ EvalRecord.new 9000 rfl (by decide)
    (by decide)).2.1

end Engine
namespace Engine

/-- The record of `board` after the writes of a cutoff. -/
theorem cutoffWrites_find (evals : Cache) (board : Board) (record : EvalRecord)
    (toDepth toQsDepth : Int) (moveIndex : Nat) (move : Move) (moveScores : List MoveScore)
    (setBound : EvalRecord → EvalRecord) (r0 : EvalRecord) (hfind : evals.find board = some r0) :
    ∃ moves : List Move,
      (cutoffWrites evals board record toDepth toQsDepth moveIndex move moveScores
        setBound).find board
        = some { setBound r0 with
            evalStatus := EvalStatus.DONE_PARTIAL, evalDepth := toU8 toDepth,
            qsEvalDepth := toU8 toQsDepth, bestMove := move, moves := moves } := by
  unfold cutoffWrites
  simp only []
  rw [Cache.find_modify_same, Cache.find_modify_same, hfind]
  exact ⟨_, rfl⟩

/-- One iteration of the loop over the moves for a move that is examined, when the recursive
call runs out of fuel. -/
theorem searchLoop_child_none
    (recurse : Board → SearchState → Int → Int → Int → Int → Bool →
      Option (SearchState × EvalResult))
    (board : Board) (record : EvalRecord) (searchMode : SearchMode) (toDepth toQsDepth : Int)
    (move : Move) (rest : List Move) (moveIndex : Nat) (s : SearchState) (l : LoopState)
    (hex : examineMove searchMode record move = true)
    (hrec : recurse (Board.makeMove board move.getFrom move.getTo move.getPromotionType) s
      (if toDepth > 0 then toDepth - 1 else 0) l.minWhite l.maxBlack
      (if toDepth > 0 then toQsDepth else wrapI16 (toQsDepth - 1))
      (record.isQuietPosition && decide (move.getMoveType = MoveType.MOVE)) = none) :
    searchLoop recurse board record searchMode toDepth toQsDepth (move :: rest) moveIndex s l
      = none := by
  rw [searchLoop]
  simp only [hex, Bool.not_true, Bool.false_eq_true, if_false, hrec]

/-- One iteration of the loop over the moves for a move that is examined, when `evaluate`
returns after the recursive call. -/
theorem searchLoop_child_done
    (recurse : Board → SearchState → Int → Int → Int → Int → Bool →
      Option (SearchState × EvalResult))
    (board : Board) (record : EvalRecord) (searchMode : SearchMode) (toDepth toQsDepth : Int)
    (move : Move) (rest : List Move) (moveIndex : Nat) (s s2 s3 : SearchState) (l : LoopState)
    (res r : EvalResult)
    (hex : examineMove searchMode record move = true)
    (hrec : recurse (Board.makeMove board move.getFrom move.getTo move.getPromotionType) s
      (if toDepth > 0 then toDepth - 1 else 0) l.minWhite l.maxBlack
      (if toDepth > 0 then toQsDepth else wrapI16 (toQsDepth - 1))
      (record.isQuietPosition && decide (move.getMoveType = MoveType.MOVE)) = some (s2, res))
    (hafter : afterChild board record toDepth toQsDepth moveIndex move s2 l res
      = LoopOutcome.done s3 r) :
    searchLoop recurse board record searchMode toDepth toQsDepth (move :: rest) moveIndex s l
      = some (LoopOutcome.done s3 r) := by
  rw [searchLoop]
  simp only [hex, Bool.not_true, Bool.false_eq_true, if_false, hrec, hafter]

/-- One iteration of the loop over the moves for a move that is examined, when the loop goes
on after the recursive call. -/
theorem searchLoop_child_next
    (recurse : Board → SearchState → Int → Int → Int → Int → Bool →
      Option (SearchState × EvalResult))
    (board : Board) (record : EvalRecord) (searchMode : SearchMode) (toDepth toQsDepth : Int)
    (move : Move) (rest : List Move) (moveIndex : Nat) (s s2 s3 : SearchState) (l l3 : LoopState)
    (res : EvalResult)
    (hex : examineMove searchMode record move = true)
    (hrec : recurse (Board.makeMove board move.getFrom move.getTo move.getPromotionType) s
      (if toDepth > 0 then toDepth - 1 else 0) l.minWhite l.maxBlack
      (if toDepth > 0 then toQsDepth else wrapI16 (toQsDepth - 1))
      (record.isQuietPosition && decide (move.getMoveType = MoveType.MOVE)) = some (s2, res))
    (hafter : afterChild board record toDepth toQsDepth moveIndex move s2 l res
      = LoopOutcome.next s3 l3) :
    searchLoop recurse board record searchMode toDepth toQsDepth (move :: rest) moveIndex s l
      = searchLoop recurse board record searchMode toDepth toQsDepth rest (moveIndex + 1)
          s3 l3 := by
  rw [searchLoop]
  simp only [hex, Bool.not_true, Bool.false_eq_true, if_false, hrec, hafter]

/-- One iteration of the loop over the moves for a move that is not examined. -/
theorem searchLoop_skipped
    (recurse : Board → SearchState → Int → Int → Int → Int → Bool →
      Option (SearchState × EvalResult))
    (board : Board) (record : EvalRecord) (searchMode : SearchMode) (toDepth toQsDepth : Int)
    (move : Move) (rest : List Move) (moveIndex : Nat) (s : SearchState) (l : LoopState)
    (hex : examineMove searchMode record move = false) :
    searchLoop recurse board record searchMode toDepth toQsDepth (move :: rest) moveIndex s l
      = searchLoop recurse board record searchMode toDepth toQsDepth rest (moveIndex + 1)
          s l := by
  rw [searchLoop]
  simp only [hex, Bool.not_false, if_true]

/-- C25, amended: when the recursive call for an examined move returns SUCCESS and the best
score so far, updated with the score of the call, reaches the bound of the window (at least
`maxBlack` with White to move, at most `minWhite` with Black to move), `evaluate` returns
SUCCESS with the bound as score, and the record of the board holds the bound, the status
DONE_PARTIAL, the move as best move, and as depths `toDepth` and `toQsDepth` converted to the
`uint8_t` of the fields: the depths themselves when they lie in 0..255. The score of the
record is the score it had. -/
theorem cutoff_contract
    (recurse : Board → SearchState → Int → Int → Int → Int → Bool →
      Option (SearchState × EvalResult))
    (board : Board) (record : EvalRecord) (searchMode : SearchMode) (toDepth toQsDepth : Int)
    (move : Move) (rest : List Move) (moveIndex : Nat) (s s2 : SearchState) (l : LoopState)
    (res : EvalResult) (r0 : EvalRecord)
    (hex : examineMove searchMode record move = true)
    (hrec : recurse (Board.makeMove board move.getFrom move.getTo move.getPromotionType) s
      (if toDepth > 0 then toDepth - 1 else 0) l.minWhite l.maxBlack
      (if toDepth > 0 then toQsDepth else wrapI16 (toQsDepth - 1))
      (record.isQuietPosition && decide (move.getMoveType = MoveType.MOVE)) = some (s2, res))
    (hres : res.result = EvalResultCode.SUCCESS)
    (hfind : s2.evals.find board = some r0) :
    (board.getMovingSide = Side.WHITE → max l.newScore res.score ≥ l.maxBlack →
      ∃ (s3 : SearchState) (r : EvalRecord),
        searchLoop recurse board record searchMode toDepth toQsDepth (move :: rest) moveIndex
          s l = some (LoopOutcome.done s3 ⟨some board, EvalResultCode.SUCCESS, l.maxBlack⟩)
        ∧ s3.evals.find board = some r
        ∧ r.maxBlack = l.maxBlack ∧ r.evalStatus = EvalStatus.DONE_PARTIAL
        ∧ r.evalDepth = toU8 toDepth ∧ r.qsEvalDepth = toU8 toQsDepth
        ∧ (0 ≤ toDepth ∧ toDepth < 256 → (r.evalDepth : Int) = toDepth)
        ∧ (0 ≤ toQsDepth ∧ toQsDepth < 256 → (r.qsEvalDepth : Int) = toQsDepth)
        ∧ r.bestMove = move ∧ r.score = r0.score ∧ r.minWhite = r0.minWhite)
    ∧ (board.getMovingSide = Side.BLACK → min l.newScore res.score ≤ l.minWhite →
      ∃ (s3 : SearchState) (r : EvalRecord),
        searchLoop recurse board record searchMode toDepth toQsDepth (move :: rest) moveIndex
          s l = some (LoopOutcome.done s3 ⟨some board, EvalResultCode.SUCCESS, l.minWhite⟩)
        ∧ s3.evals.find board = some r
        ∧ r.minWhite = l.minWhite ∧ r.evalStatus = EvalStatus.DONE_PARTIAL
        ∧ r.evalDepth = toU8 toDepth ∧ r.qsEvalDepth = toU8 toQsDepth
        ∧ (0 ≤ toDepth ∧ toDepth < 256 → (r.evalDepth : Int) = toDepth)
        ∧ (0 ≤ toQsDepth ∧ toQsDepth < 256 → (r.qsEvalDepth : Int) = toQsDepth)
        ∧ r.bestMove = move ∧ r.score = r0.score ∧ r.maxBlack = r0.maxBlack) := by
  have hdone : ∀ (s3 : SearchState) (r : EvalResult),
      afterChild board record toDepth toQsDepth moveIndex move s2 l res
        = LoopOutcome.done s3 r →
      searchLoop recurse board record searchMode toDepth toQsDepth (move :: rest) moveIndex
        s l = some (LoopOutcome.done s3 r) := fun s3 r h =>
    searchLoop_child_done recurse board record searchMode toDepth toQsDepth move rest moveIndex
      s s2 s3 l res r hex hrec h
  constructor
  · intro hw hcut
    obtain ⟨moves, hf⟩ := cutoffWrites_find s2.evals board record toDepth toQsDepth
      moveIndex move (l.moveScores.set moveIndex ⟨move, Side.WHITE, res.record⟩)
      (fun r => { r with maxBlack := l.maxBlack }) r0 hfind
    refine ⟨⟨cutoffWrites s2.evals board record toDepth toQsDepth moveIndex
        move (l.moveScores.set moveIndex ⟨move, Side.WHITE, res.record⟩)
        (fun r => { r with maxBlack := l.maxBlack }), s2.context⟩, _, hdone _ _ ?_, hf, rfl, rfl,
      rfl, rfl, fun hd => toU8_small _ hd, fun hq => toU8_small _ hq, rfl, rfl, rfl⟩
    unfold afterChild
    simp only [hres, hw, true_and, reduceCtorEq, false_and, or_false, if_true]
    by_cases hlt : l.newScore < res.score
    · have hc : res.score ≥ l.maxBlack := by
        rw [max_eq_right (le_of_lt hlt)] at hcut; exact hcut
      simp only [hlt, if_true, hc]
    · have hc : l.newScore ≥ l.maxBlack := by
        rw [max_eq_left (not_lt.mp hlt)] at hcut; exact hcut
      simp only [hlt, if_false, hc, if_true]
  · intro hb hcut
    obtain ⟨moves, hf⟩ := cutoffWrites_find s2.evals board record toDepth toQsDepth
      moveIndex move (l.moveScores.set moveIndex ⟨move, Side.BLACK, res.record⟩)
      (fun r => { r with minWhite := l.minWhite }) r0 hfind
    refine ⟨⟨cutoffWrites s2.evals board record toDepth toQsDepth moveIndex
        move (l.moveScores.set moveIndex ⟨move, Side.BLACK, res.record⟩)
        (fun r => { r with minWhite := l.minWhite }), s2.context⟩, _, hdone _ _ ?_, hf, rfl, rfl,
      rfl, rfl, fun hd => toU8_small _ hd, fun hq => toU8_small _ hq, rfl, rfl, rfl⟩
    unfold afterChild
    simp only [hres, hb, true_and, reduceCtorEq, false_and, false_or, if_false]
    by_cases hgt : l.newScore > res.score
    · have hc : res.score ≤ l.minWhite := by
        rw [min_eq_right (le_of_lt hgt)] at hcut; exact hcut
      simp only [hgt, if_true, hc]
    · have hc : l.newScore ≤ l.minWhite := by
        rw [min_eq_left (not_lt.mp hgt)] at hcut; exact hcut
      simp only [hgt, if_false, hc, if_true]

end Engine

namespace Engine

set_option maxRecDepth 1000000 in
theorem cutoff_contract_witness :
    ∃ (s3 : SearchState) (r : EvalRecord),
      searchLoop (evaluate 1) twoKingsBoard (evaluateBoard twoKingsBoard) SearchMode.REGULAR 1
        256 (⟨1⟩ :: [⟨8⟩, ⟨9⟩]) 0
        (markInEvaluation (lookupRecord ⟨[], EvalContext.make 0 1 (fun _ => 0)⟩
          twoKingsBoard).1 twoKingsBoard)
        (initLoop twoKingsBoard (evaluateBoard twoKingsBoard) MIN_SCORE 10)
        = some (LoopOutcome.done s3 ⟨some twoKingsBoard, EvalResultCode.SUCCESS, 10⟩)
      ∧ s3.evals.find twoKingsBoard = some r
      ∧ r.maxBlack = 10 ∧ r.evalStatus = EvalStatus.DONE_PARTIAL
      ∧ r.evalDepth = 1 ∧ r.qsEvalDepth = 0
      ∧ r.bestMove = ⟨1⟩ := by
  obtain ⟨s3, r, h1, h2, h3, h4, h5, h6, _, _, h9, _⟩ :=
    (cutoff_contract (evaluate 1) twoKingsBoard (evaluateBoard twoKingsBoard)
      SearchMode.REGULAR 1 256 ⟨1⟩ [⟨8⟩, ⟨9⟩] 0
      (markInEvaluation (lookupRecord ⟨[], EvalContext.make 0 1 (fun _ => 0)⟩
        twoKingsBoard).1 twoKingsBoard) _
      (initLoop twoKingsBoard (evaluateBoard twoKingsBoard) MIN_SCORE 10) _ _ (by decide)
      (Option.some_get (by decide)).symm (by decide) (Option.some_get (by decide)).symm).1
      (by decide) (by decide)
  exact ⟨s3, r, h1, h2, h3, h4, h5, h6, h9⟩

end Engine
namespace Engine

end Engine
namespace Engine

/-- The ways `evaluate` returns. -/
theorem evaluate_cases (fuel : Nat) (board : Board) (s : SearchState)
    (toDepth minWhite maxBlack toQsDepth : Int) (fromQuietMove : Bool)
    (out : SearchState × EvalResult)
    (h : evaluate (fuel + 1) board s toDepth minWhite maxBlack toQsDepth fromQuietMove
      = some out) :
    ((lookupRecord s board).2 = true
      ∧ out = ((lookupRecord s board).1, ⟨none, EvalResultCode.TIMEOUT, 0⟩))
    ∨ ((lookupRecord s board).2 = false
      ∧ (((lookupRecord s board).1.evals.find board).getD EvalRecord.new).evalStatus
          = EvalStatus.IN_EVALUATION
      ∧ out = ((lookupRecord s board).1, ⟨none, EvalResultCode.LOOP, 0⟩))
    ∨ ((lookupRecord s board).2 = false
      ∧ (((lookupRecord s board).1.evals.find board).getD EvalRecord.new).evalStatus
          ≠ EvalStatus.IN_EVALUATION
      ∧ ∃ score, partialCutoff board
          (((lookupRecord s board).1.evals.find board).getD EvalRecord.new)
          toDepth minWhite maxBlack toQsDepth = some score
        ∧ out = ((lookupRecord s board).1, ⟨some board, EvalResultCode.SUCCESS, score⟩))
    ∨ ((lookupRecord s board).2 = false
      ∧ (((lookupRecord s board).1.evals.find board).getD EvalRecord.new).evalStatus
          ≠ EvalStatus.IN_EVALUATION
      ∧ partialCutoff board (((lookupRecord s board).1.evals.find board).getD EvalRecord.new)
          toDepth minWhite maxBlack toQsDepth = none
      ∧ ((depthAchieved (((resetPartial (lookupRecord s board).1 board
              (((lookupRecord s board).1.evals.find board).getD EvalRecord.new)).evals.find
              board).getD EvalRecord.new) toDepth toQsDepth fromQuietMove = true
          ∧ out = (resetPartial (lookupRecord s board).1 board
              (((lookupRecord s board).1.evals.find board).getD EvalRecord.new),
            ⟨some board, EvalResultCode.SUCCESS,
              (((resetPartial (lookupRecord s board).1 board
                (((lookupRecord s board).1.evals.find board).getD EvalRecord.new)).evals.find
                board).getD EvalRecord.new).score⟩))
        ∨ (depthAchieved (((resetPartial (lookupRecord s board).1 board
              (((lookupRecord s board).1.evals.find board).getD EvalRecord.new)).evals.find
              board).getD EvalRecord.new) toDepth toQsDepth fromQuietMove = false
          ∧ ((∃ (s3 : SearchState) (r : EvalResult),
              searchLoop (evaluate fuel) board
                (((resetPartial (lookupRecord s board).1 board
                  (((lookupRecord s board).1.evals.find board).getD EvalRecord.new)).evals.find
                  board).getD EvalRecord.new)
                (searchModeOf (((resetPartial (lookupRecord s board).1 board
                  (((lookupRecord s board).1.evals.find board).getD EvalRecord.new)).evals.find
                  board).getD EvalRecord.new) toDepth) toDepth toQsDepth
                (((resetPartial (lookupRecord s board).1 board
                  (((lookupRecord s board).1.evals.find board).getD EvalRecord.new)).evals.find
                  board).getD EvalRecord.new).moves 0
                (markInEvaluation (resetPartial (lookupRecord s board).1 board
                  (((lookupRecord s board).1.evals.find board).getD EvalRecord.new)) board)
                (initLoop board (((resetPartial (lookupRecord s board).1 board
                  (((lookupRecord s board).1.evals.find board).getD EvalRecord.new)).evals.find
                  board).getD EvalRecord.new) minWhite maxBlack)
                = some (LoopOutcome.done s3 r)
              ∧ out = (s3, r))
            ∨ (∃ (s3 : SearchState) (l3 : LoopState),
              searchLoop (evaluate fuel) board
                (((resetPartial (lookupRecord s board).1 board
                  (((lookupRecord s board).1.evals.find board).getD EvalRecord.new)).evals.find
                  board).getD EvalRecord.new)
                (searchModeOf (((resetPartial (lookupRecord s board).1 board
                  (((lookupRecord s board).1.evals.find board).getD EvalRecord.new)).evals.find
                  board).getD EvalRecord.new) toDepth) toDepth toQsDepth
                (((resetPartial (lookupRecord s board).1 board
                  (((lookupRecord s board).1.evals.find board).getD EvalRecord.new)).evals.find
                  board).getD EvalRecord.new).moves 0
                (markInEvaluation (resetPartial (lookupRecord s board).1 board
                  (((lookupRecord s board).1.evals.find board).getD EvalRecord.new)) board)
                (initLoop board (((resetPartial (lookupRecord s board).1 board
                  (((lookupRecord s board).1.evals.find board).getD EvalRecord.new)).evals.find
                  board).getD EvalRecord.new) minWhite maxBlack)
                = some (LoopOutcome.next s3 l3)
              ∧ out = finish board (((resetPartial (lookupRecord s board).1 board
                  (((lookupRecord s board).1.evals.find board).getD EvalRecord.new)).evals.find
                  board).getD EvalRecord.new) toDepth toQsDepth s3 l3))))) := by
  rw [evaluate] at h
  by_cases h1 : (lookupRecord s board).2 = true
  · rw [if_pos h1] at h
    exact Or.inl ⟨h1, (Option.some.inj h).symm⟩
  · rw [if_neg h1] at h
    have h1f : (lookupRecord s board).2 = false := by
      cases hh : (lookupRecord s board).2
      · rfl
      · exact absurd hh h1
    simp only [] at h
    by_cases h2 : (((lookupRecord s board).1.evals.find board).getD EvalRecord.new).evalStatus
        = EvalStatus.IN_EVALUATION
    · rw [if_pos h2] at h
      exact Or.inr (Or.inl ⟨h1f, h2, (Option.some.inj h).symm⟩)
    · rw [if_neg h2] at h
      cases h3 : partialCutoff board
          (((lookupRecord s board).1.evals.find board).getD EvalRecord.new)
          toDepth minWhite maxBlack toQsDepth with
      | some score =>
        rw [h3] at h
        exact Or.inr (Or.inr (Or.inl ⟨h1f, h2, score, rfl, (Option.some.inj h).symm⟩))
      | none =>
        rw [h3] at h
        simp only [] at h
        refine Or.inr (Or.inr (Or.inr ⟨h1f, h2, rfl, ?_⟩))
        by_cases h4 : depthAchieved (((resetPartial (lookupRecord s board).1 board
              (((lookupRecord s board).1.evals.find board).getD EvalRecord.new)).evals.find
              board).getD EvalRecord.new) toDepth toQsDepth fromQuietMove = true
        · rw [if_pos h4] at h
          exact Or.inl ⟨h4, (Option.some.inj h).symm⟩
        · rw [if_neg h4] at h
          have h4f : depthAchieved (((resetPartial (lookupRecord s board).1 board
              (((lookupRecord s board).1.evals.find board).getD EvalRecord.new)).evals.find
              board).getD EvalRecord.new) toDepth toQsDepth fromQuietMove = false := by
            cases hh : depthAchieved (((resetPartial (lookupRecord s board).1 board
              (((lookupRecord s board).1.evals.find board).getD EvalRecord.new)).evals.find
              board).getD EvalRecord.new) toDepth toQsDepth fromQuietMove
            · rfl
            · exact absurd hh h4
          refine Or.inr ⟨h4f, ?_⟩
          generalize searchLoop (evaluate fuel) board _ _ toDepth toQsDepth _ 0 _ _ = sl at h ⊢
          match sl, h with
          | some (LoopOutcome.done s3 r), h =>
            exact Or.inl ⟨s3, r, rfl, (Option.some.inj h).symm⟩
          | some (LoopOutcome.next s3 l3), h =>
            exact Or.inr ⟨s3, l3, rfl, (Option.some.inj h).symm⟩

end Engine
namespace Cache

theorem find_congr (evals : Cache) (a b : Board) (h : a.beq b = true) :
    evals.find a = evals.find b := by
  induction evals with
  | nil => rfl
  | cons e rest ih =>
    obtain ⟨k, r⟩ := e
    rw [find_cons, find_cons, ih]
    have e1 : k.beq a = k.beq b := by
      cases h2 : k.beq b
      · cases h3 : k.beq a
        · rfl
        · rw [Board.beq_trans k a b h3 h] at h2
          exact absurd h2 (by decide)
      · exact Board.beq_trans k b a h2 (Board.beq_symm a b h)
    rw [e1]

theorem inEval_congr (evals : Cache) (a b : Board) (h : a.beq b = true) :
    InEval evals a ↔ InEval evals b := by
  unfold InEval
  rw [find_congr evals a b h]

/-- A write to the record of `board` that gives it a status other than IN_EVALUATION. -/
theorem inEval_modify_done (evals : Cache) (board : Board) (f : EvalRecord → EvalRecord)
    (st : EvalStatus) (hst : st ≠ EvalStatus.IN_EVALUATION)
    (hf2 : ∀ r, (f r).evalStatus = st) (b : Board) :
    InEval (evals.modify board f) b ↔ (InEval evals b ∧ ¬ board.beq b = true) := by
  have hf : ∀ r, (f r).evalStatus ≠ EvalStatus.IN_EVALUATION := fun r => by
    rw [hf2 r]; exact hst
  unfold InEval
  rw [find_modify]
  by_cases hb : board.beq b = true
  · rw [if_pos hb]
    constructor
    · rintro ⟨r, h1, h2⟩
      cases hfind : evals.find b with
      | none => rw [hfind] at h1; exact absurd h1 (by simp)
      | some r0 =>
        rw [hfind, Option.map_some'] at h1
        rw [← Option.some.inj h1] at h2
        exact absurd h2 (hf r0)
    · rintro ⟨_, h⟩
      exact absurd hb h
  · rw [if_neg hb]
    exact ⟨fun h => ⟨h, hb⟩, fun h => h.1⟩

/-- A write to the record of `board` that keeps its status. -/
theorem inEval_modify_keep (evals : Cache) (board : Board) (f : EvalRecord → EvalRecord)
    (hf : ∀ r, (f r).evalStatus = r.evalStatus) (b : Board) :
    InEval (evals.modify board f) b ↔ InEval evals b := by
  unfold InEval
  rw [find_modify]
  by_cases hb : board.beq b = true
  · rw [if_pos hb]
    cases hfind : evals.find b with
    | none => simp
    | some r0 =>
      rw [Option.map_some']
      constructor
      · rintro ⟨r, h1, h2⟩
        rw [← Option.some.inj h1, hf] at h2
        exact ⟨r0, rfl, h2⟩
      · rintro ⟨r, h1, h2⟩
        rw [← Option.some.inj h1] at h2
        exact ⟨f r0, rfl, by rw [hf]; exact h2⟩
  · rw [if_neg hb]

/-- The write of the status IN_EVALUATION to the record of `board`. -/
theorem inEval_modify_mark (evals : Cache) (board : Board) (f : EvalRecord → EvalRecord)
    (hf : ∀ r, (f r).evalStatus = EvalStatus.IN_EVALUATION) (r0 : EvalRecord)
    (hfind : evals.find board = some r0) (b : Board) :
    InEval (evals.modify board f) b ↔ (InEval evals b ∨ board.beq b = true) := by
  unfold InEval
  rw [find_modify]
  by_cases hb : board.beq b = true
  · rw [if_pos hb, ← find_congr evals board b hb, hfind, Option.map_some']
    constructor
    · intro _
      exact Or.inr hb
    · intro _
      exact ⟨f r0, rfl, hf r0⟩
  · rw [if_neg hb]
    exact ⟨fun h => Or.inl h, fun h => h.elim id (fun h2 => absurd h2 hb)⟩

theorem inEval_insert (evals : Cache) (board : Board) (r : EvalRecord)
    (hr : r.evalStatus ≠ EvalStatus.IN_EVALUATION) (b : Board) :
    InEval (evals.insert board r) b ↔ InEval evals b := by
  unfold InEval
  rw [find_insert]
  cases hfind : evals.find b with
  | some x => simp
  | none =>
    by_cases hb : board.beq b = true
    · simp only [hb, if_true]
      constructor
      · rintro ⟨r2, h1, h2⟩
        rw [← Option.some.inj h1] at h2
        exact absurd h2 hr
      · rintro ⟨r2, h1, _⟩
        exact absurd h1 (by simp)
    · simp only [hb, if_false, Bool.false_eq_true]

end Cache

namespace Engine

/-- The record `evaluateBoard` returns has status DONE_COMPLETE. -/
theorem evaluateBoard_status (B : Board) :
    (evaluateBoard B).evalStatus = EvalStatus.DONE_COMPLETE := by
  by_cases h : AfterCheckmate B
  · obtain ⟨i, hi, hc⟩ := h
    obtain ⟨r, e, _, _, h3, _⟩ := attackerPass_returned B (sweep B).evalContext B.getMovingSide
      (Board.getSideSign B.getMovingSide) (List.range 64) (sweep B).record
      ⟨i, (mem_range64 i).mpr hi, hc⟩
    unfold evaluateBoard
    simp only [e]
    exact h3
  · exact (evaluateBoard_running B h).2.1

end Engine
namespace Engine

theorem lookupRecord_found (s : SearchState) (board : Board) (r0 : EvalRecord)
    (h : s.evals.find board = some r0) : lookupRecord s board = (s, false) := by
  unfold lookupRecord
  rw [h]

theorem lookupRecord_new (s : SearchState) (board : Board) (h : s.evals.find board = none) :
    (lookupRecord s board).1.evals = s.evals.insert board (evaluateBoard board)
    ∧ (lookupRecord s board).1.context.nodesEvaluated = s.context.nodesEvaluated + 1 := by
  unfold lookupRecord
  rw [h]
  exact ⟨rfl, rfl⟩

theorem lookupRecord_inEval (s : SearchState) (board b : Board) :
    Cache.InEval (lookupRecord s board).1.evals b ↔ Cache.InEval s.evals b := by
  cases h : s.evals.find board with
  | some r0 => rw [lookupRecord_found s board r0 h]
  | none =>
    rw [(lookupRecord_new s board h).1]
    exact Cache.inEval_insert _ _ _ (by rw [evaluateBoard_status]; decide) b

theorem lookupRecord_find (s : SearchState) (board : Board) :
    ∃ r, (lookupRecord s board).1.evals.find board = some r := by
  cases h : s.evals.find board with
  | some r0 => rw [lookupRecord_found s board r0 h]; exact ⟨r0, h⟩
  | none =>
    rw [(lookupRecord_new s board h).1]
    exact ⟨_, Cache.find_insert_same _ _ _ h⟩

theorem not_inEval_of_status (evals : Cache) (board b : Board) (r0 : EvalRecord)
    (hfind : evals.find board = some r0)
    (hst : r0.evalStatus ≠ EvalStatus.IN_EVALUATION) (hb : board.beq b = true) :
    ¬ Cache.InEval evals b := by
  rw [← Cache.inEval_congr evals board b hb]
  rintro ⟨r, h1, h2⟩
  rw [hfind] at h1
  rw [← Option.some.inj h1] at h2
  exact hst h2

theorem resetPartial_inEval (s : SearchState) (board : Board) (r0 : EvalRecord)
    (hfind : s.evals.find board = some r0)
    (hst : r0.evalStatus ≠ EvalStatus.IN_EVALUATION) (b : Board) :
    Cache.InEval (resetPartial s board r0).evals b ↔ Cache.InEval s.evals b := by
  unfold resetPartial
  split_ifs
  · dsimp only
    refine (Cache.inEval_modify_done _ _ _ EvalStatus.DONE_COMPLETE (by decide) ?_ b).trans ?_
    · intro r; rfl
    constructor
    · exact fun h => h.1
    · intro h
      exact ⟨h, fun hb => not_inEval_of_status s.evals board b r0 hfind hst hb h⟩
  · rfl

theorem resetPartial_find (s : SearchState) (board : Board) (r0 : EvalRecord)
    (hfind : s.evals.find board = some r0)
    (hst : r0.evalStatus ≠ EvalStatus.IN_EVALUATION) :
    ∃ r, (resetPartial s board r0).evals.find board = some r
      ∧ r.evalStatus ≠ EvalStatus.IN_EVALUATION := by
  unfold resetPartial
  split_ifs
  · dsimp only
    rw [Cache.find_modify_same, hfind]
    exact ⟨_, rfl, fun h => EvalStatus.noConfusion h⟩
  · exact ⟨r0, hfind, hst⟩

theorem markInEvaluation_inEval (s : SearchState) (board : Board) (r0 : EvalRecord)
    (hfind : s.evals.find board = some r0) (b : Board) :
    Cache.InEval (markInEvaluation s board).evals b
      ↔ (Cache.InEval s.evals b ∨ board.beq b = true) := by
  unfold markInEvaluation
  dsimp only
  refine Cache.inEval_modify_mark s.evals board _ ?_ r0 hfind b
  intro r; rfl

theorem cutoffWrites_inEval (evals : Cache) (board : Board) (record : EvalRecord)
    (toDepth toQsDepth : Int) (moveIndex : Nat) (move : Move) (moveScores : List MoveScore)
    (setBound : EvalRecord → EvalRecord) (b : Board) :
    Cache.InEval (cutoffWrites evals board record toDepth toQsDepth moveIndex move moveScores
      setBound) b ↔ (Cache.InEval evals b ∧ ¬ board.beq b = true) := by
  unfold cutoffWrites
  dsimp only
  refine (Cache.inEval_modify_keep _ _ _ ?_ b).trans
    (Cache.inEval_modify_done _ _ _ EvalStatus.DONE_PARTIAL (by decide) ?_ b)
  · intro r; rfl
  · intro r; rfl

/-- When the loop goes on after a recursive call, the table and the context are those the
call left. -/
theorem afterChild_next (board : Board) (record : EvalRecord) (toDepth toQsDepth : Int)
    (moveIndex : Nat) (move : Move) (s2 s3 : SearchState) (l l3 : LoopState) (res : EvalResult)
    (h : afterChild board record toDepth toQsDepth moveIndex move s2 l res
      = LoopOutcome.next s3 l3) : s3 = s2 := by
  unfold afterChild at h
  cases hr : res.result <;> simp only [hr] at h
  · split_ifs at h <;>
      first | exact LoopOutcome.noConfusion h | exact (LoopOutcome.next.inj h).1.symm
  · exact LoopOutcome.noConfusion h
  · exact (LoopOutcome.next.inj h).1.symm

/-- When `evaluate` returns after a recursive call: the record of the board is no longer of
status IN_EVALUATION, the other records are untouched, the result is not LOOP, and after a
TIMEOUT the record of the board has status DONE_COMPLETE and depths 0. -/
theorem afterChild_done (board : Board) (record : EvalRecord) (toDepth toQsDepth : Int)
    (moveIndex : Nat) (move : Move) (s2 s3 : SearchState) (l : LoopState) (res r : EvalResult)
    (h : afterChild board record toDepth toQsDepth moveIndex move s2 l res
      = LoopOutcome.done s3 r) :
    (∀ b, Cache.InEval s3.evals b ↔ (Cache.InEval s2.evals b ∧ ¬ board.beq b = true))
    ∧ s3.context = s2.context
    ∧ r.result ≠ EvalResultCode.LOOP
    ∧ (r.result = EvalResultCode.TIMEOUT → ∀ r0, s2.evals.find board = some r0 →
        ∃ r1, s3.evals.find board = some r1 ∧ r1.evalStatus = EvalStatus.DONE_COMPLETE
          ∧ r1.evalDepth = 0 ∧ r1.qsEvalDepth = 0) := by
  unfold afterChild at h
  cases hr : res.result <;> simp only [hr] at h
  · split_ifs at h <;>
      first
      | exact LoopOutcome.noConfusion h
      | (obtain ⟨h1, h2⟩ := LoopOutcome.done.inj h
         subst h1 h2
         refine ⟨fun b => ?_, rfl, fun h => EvalResultCode.noConfusion h,
           fun h => EvalResultCode.noConfusion h⟩
         dsimp only
         exact cutoffWrites_inEval _ _ _ _ _ _ _ _ _ b)
  · obtain ⟨h1, h2⟩ := LoopOutcome.done.inj h
    subst h1 h2
    refine ⟨fun b => ?_, rfl, fun h => EvalResultCode.noConfusion h, fun _ r0 hf => ?_⟩
    · dsimp only
      refine Cache.inEval_modify_done _ _ _ EvalStatus.DONE_COMPLETE (by decide) ?_ b
      intro r; rfl
    · dsimp only
      rw [Cache.find_modify_same, hf]
      exact ⟨_, rfl, rfl, rfl, rfl⟩
  · exact LoopOutcome.noConfusion h

theorem finish_inEval (board : Board) (record : EvalRecord) (toDepth toQsDepth : Int)
    (s : SearchState) (l : LoopState) (b : Board) :
    Cache.InEval (finish board record toDepth toQsDepth s l).1.evals b
      ↔ (Cache.InEval s.evals b ∧ ¬ board.beq b = true) := by
  unfold finish
  dsimp only
  refine (Cache.inEval_modify_keep _ _ _ ?_ b).trans
    (Cache.inEval_modify_done _ _ _ EvalStatus.DONE_COMPLETE (by decide) ?_ b)
  · intro r; rfl
  · intro r; rfl

/-- The loop over the moves, for recursive calls that leave the records of status
IN_EVALUATION as they are. -/
theorem searchLoop_inEval
    (recurse : Board → SearchState → Int → Int → Int → Int → Bool →
      Option (SearchState × EvalResult))
    (hrec : ∀ b s d mw mb q fq out, recurse b s d mw mb q fq = some out →
      ∀ b2, Cache.InEval out.1.evals b2 ↔ Cache.InEval s.evals b2)
    (board : Board) (record : EvalRecord) (searchMode : SearchMode) (toDepth toQsDepth : Int)
    (moves : List Move) :
    ∀ (moveIndex : Nat) (s : SearchState) (l : LoopState) (out : LoopOutcome),
      searchLoop recurse board record searchMode toDepth toQsDepth moves moveIndex s l
        = some out →
      match out with
      | LoopOutcome.next s3 _ => ∀ b, Cache.InEval s3.evals b ↔ Cache.InEval s.evals b
      | LoopOutcome.done s3 r =>
        (∀ b, Cache.InEval s3.evals b ↔ (Cache.InEval s.evals b ∧ ¬ board.beq b = true))
        ∧ r.result ≠ EvalResultCode.LOOP
        ∧ (r.result = EvalResultCode.TIMEOUT → Cache.InEval s.evals board →
            ∃ r1, s3.evals.find board = some r1 ∧ r1.evalStatus = EvalStatus.DONE_COMPLETE
              ∧ r1.evalDepth = 0 ∧ r1.qsEvalDepth = 0) := by
  induction moves with
  | nil =>
    intro moveIndex s l out h
    rw [searchLoop] at h
    rw [← Option.some.inj h]
    exact fun b => Iff.rfl
  | cons move rest ih =>
    intro moveIndex s l out h
    by_cases hex : examineMove searchMode record move = true
    · cases hr : recurse (Board.makeMove board move.getFrom move.getTo move.getPromotionType) s
          (if toDepth > 0 then toDepth - 1 else 0) l.minWhite l.maxBlack
          (if toDepth > 0 then toQsDepth else wrapI16 (toQsDepth - 1))
          (record.isQuietPosition && decide (move.getMoveType = MoveType.MOVE)) with
      | none =>
        rw [searchLoop_child_none recurse board record searchMode toDepth toQsDepth move rest
          moveIndex s l hex hr] at h
        exact absurd h (by simp)
      | some p =>
        obtain ⟨s2, res⟩ := p
        have hs2 := hrec _ _ _ _ _ _ _ _ hr
        cases ha : afterChild board record toDepth toQsDepth moveIndex move s2 l res with
        | done s3 r =>
          rw [searchLoop_child_done recurse board record searchMode toDepth toQsDepth move rest
            moveIndex s s2 s3 l res r hex hr ha] at h
          rw [← Option.some.inj h]
          obtain ⟨a1, _, a3, a4⟩ := afterChild_done board record toDepth toQsDepth moveIndex
            move s2 s3 l res r ha
          refine ⟨fun b => ?_, a3, fun ht hin => ?_⟩
          · rw [a1 b, hs2 b]
          · obtain ⟨r0, hf, _⟩ := (hs2 board).mpr hin
            exact a4 ht r0 hf
        | next s3 l3 =>
          rw [searchLoop_child_next recurse board record searchMode toDepth toQsDepth move rest
            moveIndex s s2 s3 l l3 res hex hr ha] at h
          have e3 := afterChild_next board record toDepth toQsDepth moveIndex move s2 s3 l l3
            res ha
          subst e3
          have := ih (moveIndex + 1) s3 l3 out h
          cases out with
          | next s4 l4 =>
            intro b
            rw [this b, hs2 b]
          | done s4 r =>
            obtain ⟨b1, b2, b3⟩ := this
            refine ⟨fun b => ?_, b2, fun ht hin => b3 ht ((hs2 board).mpr hin)⟩
            rw [b1 b, hs2 b]
    · have hex2 : examineMove searchMode record move = false := by
        cases hh : examineMove searchMode record move
        · rfl
        · exact absurd hh hex
      rw [searchLoop_skipped recurse board record searchMode toDepth toQsDepth move rest
        moveIndex s l hex2] at h
      exact ih (moveIndex + 1) s l out h

end Engine
namespace Engine

/-- A call of `evaluate` leaves the set of the boards whose record has status
IN_EVALUATION as it is. -/
theorem evaluate_inEval : ∀ (fuel : Nat) (board : Board) (s : SearchState)
    (toDepth minWhite maxBlack toQsDepth : Int) (fromQuietMove : Bool)
    (out : SearchState × EvalResult),
    evaluate fuel board s toDepth minWhite maxBlack toQsDepth fromQuietMove = some out →
    ∀ b, Cache.InEval out.1.evals b ↔ Cache.InEval s.evals b := by
  intro fuel
  induction fuel with
  | zero =>
    intro board s toDepth minWhite maxBlack toQsDepth fromQuietMove out h
    rw [evaluate] at h
    exact Option.noConfusion h
  | succ fuel ih =>
    intro board s toDepth minWhite maxBlack toQsDepth fromQuietMove out h b
    obtain ⟨r1, hr1⟩ := lookupRecord_find s board
    have hc := evaluate_cases fuel board s toDepth minWhite maxBlack toQsDepth fromQuietMove
      out h
    simp only [hr1, Option.getD_some] at hc
    rcases hc with ⟨_, rfl⟩ | ⟨_, _, rfl⟩ | ⟨_, _, score, _, rfl⟩ | ⟨_, hst, _, hc⟩
    · exact lookupRecord_inEval s board b
    · exact lookupRecord_inEval s board b
    · exact lookupRecord_inEval s board b
    · obtain ⟨r2, hr2, hst2⟩ := resetPartial_find (lookupRecord s board).1 board r1 hr1 hst
      have hreset := resetPartial_inEval (lookupRecord s board).1 board r1 hr1 hst
      simp only [hr2, Option.getD_some] at hc
      have hmark := markInEvaluation_inEval (resetPartial (lookupRecord s board).1 board r1)
        board r2 hr2
      have hnot : Cache.InEval (resetPartial (lookupRecord s board).1 board r1).evals b →
          ¬ board.beq b = true := fun hin hb =>
        not_inEval_of_status _ board b r2 hr2 hst2 hb hin
      have key : (Cache.InEval (markInEvaluation (resetPartial (lookupRecord s board).1 board
            r1) board).evals b ∧ ¬ board.beq b = true) ↔ Cache.InEval s.evals b := by
        rw [hmark b, hreset b, lookupRecord_inEval s board b] at *
        constructor
        · rintro ⟨h1 | h1, h2⟩
          · exact h1
          · exact absurd h1 h2
        · intro h1
          exact ⟨Or.inl h1, hnot h1⟩
      rcases hc with ⟨_, rfl⟩ | ⟨_, ⟨s3, r, hl, rfl⟩ | ⟨s3, l3, hl, rfl⟩⟩
      · rw [hreset b, lookupRecord_inEval s board b]
      · have := searchLoop_inEval (evaluate fuel) ih board r2 (searchModeOf r2 toDepth) toDepth
          toQsDepth r2.moves 0 _ _ _ hl
        rw [this.1 b, key]
      · have := searchLoop_inEval (evaluate fuel) ih board r2 (searchModeOf r2 toDepth) toDepth
          toQsDepth r2.moves 0 _ _ _ hl
        rw [finish_inEval, this b, key]

end Engine
namespace Engine

/-- The loop over the moves returns when the recursive calls do. -/
theorem searchLoop_total
    (recurse : Board → SearchState → Int → Int → Int → Int → Bool →
      Option (SearchState × EvalResult))
    (board : Board) (record : EvalRecord) (searchMode : SearchMode) (toDepth toQsDepth : Int)
    (htot : ∀ b s mw mb fq, (recurse b s (if toDepth > 0 then toDepth - 1 else 0) mw mb
      (if toDepth > 0 then toQsDepth else wrapI16 (toQsDepth - 1)) fq).isSome = true)
    (moves : List Move) :
    ∀ (moveIndex : Nat) (s : SearchState) (l : LoopState),
      (searchLoop recurse board record searchMode toDepth toQsDepth moves moveIndex s
        l).isSome = true := by
  induction moves with
  | nil =>
    intro moveIndex s l
    rw [searchLoop]
    rfl
  | cons move rest ih =>
    intro moveIndex s l
    by_cases hex : examineMove searchMode record move = true
    · have ht := htot (Board.makeMove board move.getFrom move.getTo move.getPromotionType) s
        l.minWhite l.maxBlack (record.isQuietPosition && decide (move.getMoveType = MoveType.MOVE))
      obtain ⟨p, hp⟩ := Option.isSome_iff_exists.mp ht
      obtain ⟨s2, res⟩ := p
      cases ha : afterChild board record toDepth toQsDepth moveIndex move s2 l res with
      | done s3 r =>
        rw [searchLoop_child_done recurse board record searchMode toDepth toQsDepth move rest
          moveIndex s s2 s3 l res r hex hp ha]
        rfl
      | next s3 l3 =>
        rw [searchLoop_child_next recurse board record searchMode toDepth toQsDepth move rest
          moveIndex s s2 s3 l l3 res hex hp ha]
        exact ih (moveIndex + 1) s3 l3
    · have hex2 : examineMove searchMode record move = false := by
        cases hh : examineMove searchMode record move
        · rfl
        · exact absurd hh hex
      rw [searchLoop_skipped recurse board record searchMode toDepth toQsDepth move rest
        moveIndex s l hex2]
      exact ih (moveIndex + 1) s l

theorem depthAchieved_false (record : EvalRecord) (toDepth toQsDepth : Int)
    (fromQuietMove : Bool) (h : depthAchieved record toDepth toQsDepth fromQuietMove = false)
    (hd : toDepth ≤ 0) : 1 ≤ toQsDepth := by
  unfold depthAchieved at h
  simp only [Bool.or_eq_false_iff, Bool.and_eq_false_iff, decide_eq_false_iff_not] at h
  have := h.2
  omega

/-- With more fuel than the sum of the two depths, `evaluate` returns. -/
theorem evaluate_total : ∀ (fuel : Nat) (board : Board) (s : SearchState)
    (toDepth minWhite maxBlack toQsDepth : Int) (fromQuietMove : Bool),
    toQsDepth ≤ 32767 → toDepth.toNat + toQsDepth.toNat < fuel →
    (evaluate fuel board s toDepth minWhite maxBlack toQsDepth fromQuietMove).isSome = true := by
  intro fuel
  induction fuel with
  | zero =>
    intro board s toDepth minWhite maxBlack toQsDepth fromQuietMove _ h
    exact absurd h (Nat.not_lt_zero _)
  | succ fuel ih =>
    intro board s toDepth minWhite maxBlack toQsDepth fromQuietMove hq hfuel
    rw [evaluate]
    by_cases h1 : (lookupRecord s board).2 = true
    · rw [if_pos h1]
      rfl
    · rw [if_neg h1]
      dsimp only
      by_cases h2 : (((lookupRecord s board).1.evals.find board).getD EvalRecord.new).evalStatus
          = EvalStatus.IN_EVALUATION
      · rw [if_pos h2]
        rfl
      · rw [if_neg h2]
        cases h3 : partialCutoff board
            (((lookupRecord s board).1.evals.find board).getD EvalRecord.new)
            toDepth minWhite maxBlack toQsDepth with
        | some score => rfl
        | none =>
          dsimp only
          by_cases h4 : depthAchieved (((resetPartial (lookupRecord s board).1 board
              (((lookupRecord s board).1.evals.find board).getD EvalRecord.new)).evals.find
              board).getD EvalRecord.new) toDepth toQsDepth fromQuietMove = true
          · rw [if_pos h4]
            rfl
          rw [if_neg h4]
          have h4f : depthAchieved (((resetPartial (lookupRecord s board).1 board
              (((lookupRecord s board).1.evals.find board).getD EvalRecord.new)).evals.find
              board).getD EvalRecord.new) toDepth toQsDepth fromQuietMove = false := by
            cases hh : depthAchieved (((resetPartial (lookupRecord s board).1 board
              (((lookupRecord s board).1.evals.find board).getD EvalRecord.new)).evals.find
              board).getD EvalRecord.new) toDepth toQsDepth fromQuietMove
            · rfl
            · exact absurd hh h4
          have htot : ∀ b s mw mb fq, (evaluate fuel b s (if toDepth > 0 then toDepth - 1 else 0)
              mw mb (if toDepth > 0 then toQsDepth else wrapI16 (toQsDepth - 1)) fq).isSome
              = true := by
            intro b s2 mw mb fq
            by_cases hd : toDepth > 0
            · rw [if_pos hd, if_pos hd]
              exact ih b s2 _ mw mb _ fq hq (by omega)
            · rw [if_neg hd, if_neg hd]
              have h1q := depthAchieved_false _ _ _ _ h4f (by omega)
              have hw : wrapI16 (toQsDepth - 1) = toQsDepth - 1 := by
                unfold wrapI16; omega
              rw [hw]
              exact ih b s2 _ mw mb _ fq (by omega) (by omega)
          have hsl := searchLoop_total (evaluate fuel) board
            (((resetPartial (lookupRecord s board).1 board
              (((lookupRecord s board).1.evals.find board).getD EvalRecord.new)).evals.find
              board).getD EvalRecord.new)
            (searchModeOf (((resetPartial (lookupRecord s board).1 board
              (((lookupRecord s board).1.evals.find board).getD EvalRecord.new)).evals.find
              board).getD EvalRecord.new) toDepth) toDepth toQsDepth htot
            (((resetPartial (lookupRecord s board).1 board
              (((lookupRecord s board).1.evals.find board).getD EvalRecord.new)).evals.find
              board).getD EvalRecord.new).moves 0
            (markInEvaluation (resetPartial (lookupRecord s board).1 board
              (((lookupRecord s board).1.evals.find board).getD EvalRecord.new)) board)
            (initLoop board (((resetPartial (lookupRecord s board).1 board
              (((lookupRecord s board).1.evals.find board).getD EvalRecord.new)).evals.find
              board).getD EvalRecord.new) minWhite maxBlack)
          generalize searchLoop (evaluate fuel) board _ _ toDepth toQsDepth _ 0 _ _ = sl at hsl ⊢
          match sl, hsl with
          | some (LoopOutcome.done s3 r), _ => rfl
          | some (LoopOutcome.next s3 l3), _ => rfl

end Engine
namespace Engine

/-- On a board whose record has status IN_EVALUATION, `evaluate` returns LOOP and leaves
the table and the context as they are. -/
theorem evaluate_loop (fuel : Nat) (board : Board) (s : SearchState)
    (toDepth minWhite maxBlack toQsDepth : Int) (fromQuietMove : Bool) (r0 : EvalRecord)
    (hfind : s.evals.find board = some r0)
    (hst : r0.evalStatus = EvalStatus.IN_EVALUATION) :
    evaluate (fuel + 1) board s toDepth minWhite maxBlack toQsDepth fromQuietMove
      = some (s, ⟨none, EvalResultCode.LOOP, 0⟩) := by
  rw [evaluate, lookupRecord_found s board r0 hfind]
  dsimp only
  rw [if_neg (by decide), hfind, Option.getD_some, if_pos hst]

/-- When `evaluate` returns LOOP, the record of the board had status IN_EVALUATION at the
lookup, and the table and the context are as they were. -/
theorem evaluate_loop_inv (fuel : Nat) (board : Board) (s : SearchState)
    (toDepth minWhite maxBlack toQsDepth : Int) (fromQuietMove : Bool)
    (out : SearchState × EvalResult)
    (h : evaluate fuel board s toDepth minWhite maxBlack toQsDepth fromQuietMove = some out)
    (hres : out.2.result = EvalResultCode.LOOP) :
    out.1 = s ∧ ∃ r0, s.evals.find board = some r0
      ∧ r0.evalStatus = EvalStatus.IN_EVALUATION := by
  cases fuel with
  | zero =>
    rw [evaluate] at h
    exact Option.noConfusion h
  | succ fuel =>
    obtain ⟨r1, hr1⟩ := lookupRecord_find s board
    have hc := evaluate_cases fuel board s toDepth minWhite maxBlack toQsDepth fromQuietMove
      out h
    simp only [hr1, Option.getD_some] at hc
    rcases hc with ⟨_, rfl⟩ | ⟨_, hst, rfl⟩ | ⟨_, _, score, _, rfl⟩ | ⟨_, hst, _, hc⟩
    · exact EvalResultCode.noConfusion hres
    · cases hfind : s.evals.find board with
      | some r0 =>
        rw [lookupRecord_found s board r0 hfind] at hr1 ⊢
        rw [hfind] at hr1
        rw [Option.some.inj hr1]
        exact ⟨rfl, r1, rfl, hst⟩
      | none =>
        rw [(lookupRecord_new s board hfind).1, Cache.find_insert_same _ _ _ hfind] at hr1
        rw [← Option.some.inj hr1, evaluateBoard_status] at hst
        exact EvalStatus.noConfusion hst
    · exact EvalResultCode.noConfusion hres
    · obtain ⟨r2, hr2, _⟩ := resetPartial_find (lookupRecord s board).1 board r1 hr1 hst
      simp only [hr2, Option.getD_some] at hc
      rcases hc with ⟨_, rfl⟩ | ⟨_, ⟨s3, r, hl, rfl⟩ | ⟨s3, l3, hl, rfl⟩⟩
      · exact EvalResultCode.noConfusion hres
      · have := searchLoop_inEval (evaluate fuel) (evaluate_inEval fuel) board r2
          (searchModeOf r2 toDepth) toDepth toQsDepth r2.moves 0 _ _ _ hl
        exact absurd hres this.2.1
      · exact EvalResultCode.noConfusion hres

/-- C24: `evaluate` returns LOOP, with the table and the context as they were, exactly
when the record of the board has status IN_EVALUATION at the lookup; and in the loop over
the moves an examined move that leads to a board whose record has status IN_EVALUATION
leaves the best score, the best move, the window, the table and the context as they are:
the loop goes on with the next move as if the move had not been met. -/
theorem cycle_handling :
    (∀ (fuel : Nat) (board : Board) (s : SearchState)
        (toDepth minWhite maxBlack toQsDepth : Int) (fromQuietMove : Bool) (r0 : EvalRecord),
      s.evals.find board = some r0 → r0.evalStatus = EvalStatus.IN_EVALUATION →
      evaluate (fuel + 1) board s toDepth minWhite maxBlack toQsDepth fromQuietMove
        = some (s, ⟨none, EvalResultCode.LOOP, 0⟩))
    ∧ (∀ (fuel : Nat) (board : Board) (s : SearchState)
        (toDepth minWhite maxBlack toQsDepth : Int) (fromQuietMove : Bool)
        (out : SearchState × EvalResult),
      evaluate fuel board s toDepth minWhite maxBlack toQsDepth fromQuietMove = some out →
      out.2.result = EvalResultCode.LOOP →
      out.1 = s ∧ ∃ r0, s.evals.find board = some r0
        ∧ r0.evalStatus = EvalStatus.IN_EVALUATION)
    ∧ (∀ (fuel : Nat) (board : Board) (record : EvalRecord) (searchMode : SearchMode)
        (toDepth toQsDepth : Int) (move : Move) (rest : List Move) (moveIndex : Nat)
        (s : SearchState) (l : LoopState) (rc : EvalRecord),
      examineMove searchMode record move = true →
      s.evals.find (Board.makeMove board move.getFrom move.getTo move.getPromotionType)
        = some rc →
      rc.evalStatus = EvalStatus.IN_EVALUATION →
      searchLoop (evaluate (fuel + 1)) board record searchMode toDepth toQsDepth (move :: rest)
        moveIndex s l
        = searchLoop (evaluate (fuel + 1)) board record searchMode toDepth toQsDepth rest
            (moveIndex + 1) s l) := by
  refine ⟨fun fuel board s toDepth minWhite maxBlack toQsDepth fromQuietMove r0 h1 h2 =>
      evaluate_loop fuel board s toDepth minWhite maxBlack toQsDepth fromQuietMove r0 h1 h2,
    fun fuel board s toDepth minWhite maxBlack toQsDepth fromQuietMove out h1 h2 =>
      evaluate_loop_inv fuel board s toDepth minWhite maxBlack toQsDepth fromQuietMove out h1 h2,
    ?_⟩
  intro fuel board record searchMode toDepth toQsDepth move rest moveIndex s l rc hex hfind hst
  exact searchLoop_child_next (evaluate (fuel + 1)) board record searchMode toDepth toQsDepth
    move rest moveIndex s s s l l ⟨none, EvalResultCode.LOOP, 0⟩ hex
    (evaluate_loop fuel _ s _ _ _ _ _ rc hfind hst) rfl

end Engine

namespace Engine

theorem lookupRecord_elapsed (s : SearchState) (board : Board) :
    (lookupRecord s board).1.context.elapsedMs = s.context.elapsedMs := by
  cases h : s.evals.find board with
  | some r0 => rw [lookupRecord_found s board r0 h]
  | none =>
    unfold lookupRecord
    rw [h]

theorem resetPartial_context (s : SearchState) (board : Board) (r0 : EvalRecord) :
    (resetPartial s board r0).context = s.context := by
  unfold resetPartial
  split_ifs <;> rfl

/-- The loop over the moves keeps the clock of the context when the recursive calls do. -/
theorem searchLoop_elapsed
    (recurse : Board → SearchState → Int → Int → Int → Int → Bool →
      Option (SearchState × EvalResult))
    (hrec : ∀ b s d mw mb q fq out, recurse b s d mw mb q fq = some out →
      out.1.context.elapsedMs = s.context.elapsedMs)
    (board : Board) (record : EvalRecord) (searchMode : SearchMode) (toDepth toQsDepth : Int)
    (moves : List Move) :
    ∀ (moveIndex : Nat) (s : SearchState) (l : LoopState) (out : LoopOutcome),
      searchLoop recurse board record searchMode toDepth toQsDepth moves moveIndex s l
        = some out →
      match out with
      | LoopOutcome.next s3 _ => s3.context.elapsedMs = s.context.elapsedMs
      | LoopOutcome.done s3 _ => s3.context.elapsedMs = s.context.elapsedMs := by
  induction moves with
  | nil =>
    intro moveIndex s l out h
    rw [searchLoop] at h
    rw [← Option.some.inj h]
  | cons move rest ih =>
    intro moveIndex s l out h
    by_cases hex : examineMove searchMode record move = true
    · cases hr : recurse (Board.makeMove board move.getFrom move.getTo move.getPromotionType) s
          (if toDepth > 0 then toDepth - 1 else 0) l.minWhite l.maxBlack
          (if toDepth > 0 then toQsDepth else wrapI16 (toQsDepth - 1))
          (record.isQuietPosition && decide (move.getMoveType = MoveType.MOVE)) with
      | none =>
        rw [searchLoop_child_none recurse board record searchMode toDepth toQsDepth move rest
          moveIndex s l hex hr] at h
        exact Option.noConfusion h
      | some p =>
        obtain ⟨s2, res⟩ := p
        have hs2 := hrec _ _ _ _ _ _ _ _ hr
        cases ha : afterChild board record toDepth toQsDepth moveIndex move s2 l res with
        | done s3 r =>
          rw [searchLoop_child_done recurse board record searchMode toDepth toQsDepth move rest
            moveIndex s s2 s3 l res r hex hr ha] at h
          rw [← Option.some.inj h]
          obtain ⟨_, a2, _, _⟩ := afterChild_done board record toDepth toQsDepth moveIndex
            move s2 s3 l res r ha
          show s3.context.elapsedMs = s.context.elapsedMs
          rw [a2]
          exact hs2
        | next s3 l3 =>
          rw [searchLoop_child_next recurse board record searchMode toDepth toQsDepth move rest
            moveIndex s s2 s3 l l3 res hex hr ha] at h
          have e3 := afterChild_next board record toDepth toQsDepth moveIndex move s2 s3 l l3
            res ha
          subst e3
          have := ih (moveIndex + 1) s3 l3 out h
          cases out with
          | next s4 l4 => exact Eq.trans this hs2
          | done s4 r => exact Eq.trans this hs2
    · have hex2 : examineMove searchMode record move = false := by
        cases hh : examineMove searchMode record move
        · rfl
        · exact absurd hh hex
      rw [searchLoop_skipped recurse board record searchMode toDepth toQsDepth move rest
        moveIndex s l hex2] at h
      exact ih (moveIndex + 1) s l out h

/-- A call of `evaluate` keeps the clock of the context. -/
theorem evaluate_elapsed : ∀ (fuel : Nat) (board : Board) (s : SearchState)
    (toDepth minWhite maxBlack toQsDepth : Int) (fromQuietMove : Bool)
    (out : SearchState × EvalResult),
    evaluate fuel board s toDepth minWhite maxBlack toQsDepth fromQuietMove = some out →
    out.1.context.elapsedMs = s.context.elapsedMs := by
  intro fuel
  induction fuel with
  | zero =>
    intro board s toDepth minWhite maxBlack toQsDepth fromQuietMove out h
    rw [evaluate] at h
    exact Option.noConfusion h
  | succ fuel ih =>
    intro board s toDepth minWhite maxBlack toQsDepth fromQuietMove out h
    have hc := evaluate_cases fuel board s toDepth minWhite maxBlack toQsDepth fromQuietMove
      out h
    have hl := lookupRecord_elapsed s board
    rcases hc with ⟨_, rfl⟩ | ⟨_, _, rfl⟩ | ⟨_, _, score, _, rfl⟩ | ⟨_, hst, _, hc⟩
    · exact hl
    · exact hl
    · exact hl
    · rcases hc with ⟨_, rfl⟩ | ⟨_, ⟨s3, r, hsl, rfl⟩ | ⟨s3, l3, hsl, rfl⟩⟩
      · show (resetPartial _ _ _).context.elapsedMs = _
        rw [resetPartial_context]
        exact hl
      · have := searchLoop_elapsed (evaluate fuel) ih board _ _ toDepth toQsDepth _ 0 _ _ _ hsl
        have e : (markInEvaluation (resetPartial (lookupRecord s board).1 board
            (((lookupRecord s board).1.evals.find board).getD EvalRecord.new))
            board).context.elapsedMs = s.context.elapsedMs := by
          show (resetPartial _ _ _).context.elapsedMs = _
          rw [resetPartial_context]
          exact hl
        exact Eq.trans this e
      · have := searchLoop_elapsed (evaluate fuel) ih board _ _ toDepth toQsDepth _ 0 _ _ _ hsl
        have e : (markInEvaluation (resetPartial (lookupRecord s board).1 board
            (((lookupRecord s board).1.evals.find board).getD EvalRecord.new))
            board).context.elapsedMs = s.context.elapsedMs := by
          show (resetPartial _ _ _).context.elapsedMs = _
          rw [resetPartial_context]
          exact hl
        exact Eq.trans this e

end Engine
namespace Engine

theorem range_shift (depth : Int) (k : Nat) :
    (List.range (k + 1)).map (fun i : Nat => depth + (i : Int))
      = depth :: (List.range k).map (fun i : Nat => depth + 1 + (i : Int)) := by
  rw [List.range_succ_eq_map, List.map_cons, List.map_map]
  congr 1
  · simp
  · apply List.map_congr_left
    intro i _
    simp only [Function.comp, Nat.succ_eq_add_one, Nat.cast_add, Nat.cast_one]
    omega

/-- One round of the loop over the depths: the trace grows by consecutive depths; the first
needs the loop condition, each later one either is at most `toDepth` or follows a round that
left time for more search. -/
theorem depthLoop_trace (board : Board) (toDepth toQsDepth allowedTimeMs : Int) :
    ∀ (fuel : Nat) (depth : Int) (haveTime : Bool) (s : SearchState) (record : Option Board)
      (trace : List Int) (out : SearchState × Option Board × List Int),
      depthLoop board toDepth toQsDepth allowedTimeMs fuel depth haveTime s record trace
        = some out →
      ∃ k : Nat, out.2.2 = trace ++ (List.range k).map (fun i : Nat => depth + (i : Int)) ∧
        (0 < k ↔ depth ≤ toDepth ∨ haveTime = true) ∧
        (∀ i : Nat, i + 1 < k → depth + (i : Int) + 1 ≤ toDepth ∨
          (allowedTimeMs > 0 ∧ depth + (i : Int) < toDepth * 2 ∧
            ∃ n, s.context.elapsedMs n < Int.tdiv allowedTimeMs 6)) := by
  intro fuel
  induction fuel with
  | zero =>
    intro depth haveTime s record trace out h
    rw [depthLoop] at h
    exact Option.noConfusion h
  | succ fuel ih =>
    intro depth haveTime s record trace out h
    rw [depthLoop] at h
    by_cases hc : depth ≤ toDepth ∨ haveTime = true
    · rw [if_pos hc] at h
      cases he : evaluate (depth.toNat + toQsDepth.toNat + 1) board s depth MIN_SCORE MAX_SCORE
          toQsDepth true with
      | none =>
        rw [he] at h
        exact Option.noConfusion h
      | some p =>
        obtain ⟨s2, result⟩ := p
        rw [he] at h
        dsimp only at h
        have hel : s2.context.elapsedMs = s.context.elapsedMs :=
          evaluate_elapsed _ _ _ _ _ _ _ _ _ he
        by_cases hs : result.result = EvalResultCode.SUCCESS
        · rw [if_pos hs] at h
          obtain ⟨k, hk1, hk2, hk3⟩ := ih _ _ _ _ _ _ h
          refine ⟨k + 1, ?_, ⟨fun _ => hc, fun _ => Nat.succ_pos k⟩, ?_⟩
          · rw [hk1, range_shift, List.append_assoc]
            rfl
          · intro i hi
            cases i with
            | zero =>
              have h0 := hk2.1 (by omega)
              rcases h0 with h0 | h0
              · left
                simpa using h0
              · right
                simp only [Bool.and_eq_true, decide_eq_true_eq] at h0
                obtain ⟨⟨a, b⟩, c⟩ := h0
                refine ⟨a, by simpa using b, s2.context.nodesEvaluated, ?_⟩
                rw [← hel]
                exact c
            | succ j =>
              have hj := hk3 j (by omega)
              rcases hj with hj | ⟨a, b, n, c⟩
              · left
                push_cast
                omega
              · right
                refine ⟨a, by push_cast; omega, n, ?_⟩
                rw [← hel]
                exact c
        · rw [if_neg hs] at h
          rw [← Option.some.inj h]
          refine ⟨1, ?_, ⟨fun _ => hc, fun _ => Nat.one_pos⟩, ?_⟩
          · show trace ++ [depth] = trace ++ [depth + ((0 : Nat) : Int)]
            simp
          · intro i hi
            omega
    · rw [if_neg hc] at h
      rw [← Option.some.inj h]
      refine ⟨0, ?_, ⟨?_, ?_⟩, ?_⟩
      · simp
      · intro h0
        exact absurd h0 (Nat.lt_irrefl 0)
      · intro h0
        exact absurd h0 hc
      · intro i hi
        omega

/-- The loop over the depths ends: with fuel for every depth up to `2 * toDepth + 1` it returns
a result. -/
theorem depthLoop_total (board : Board) (toDepth toQsDepth allowedTimeMs : Int)
    (hq : toQsDepth ≤ 32767) (hd : 0 ≤ toDepth) :
    ∀ (fuel : Nat) (depth : Int) (haveTime : Bool) (s : SearchState) (record : Option Board)
      (trace : List Int),
      depth ≤ 2 * toDepth + 1 → (haveTime = true → depth ≤ 2 * toDepth) →
      (2 * toDepth + 2 - depth).toNat ≤ fuel →
      (depthLoop board toDepth toQsDepth allowedTimeMs fuel depth haveTime s record
        trace).isSome = true := by
  intro fuel
  induction fuel with
  | zero =>
    intro depth haveTime s record trace h1 h2 h3
    omega
  | succ fuel ih =>
    intro depth haveTime s record trace h1 h2 h3
    rw [depthLoop]
    by_cases hc : depth ≤ toDepth ∨ haveTime = true
    · rw [if_pos hc]
      have hd2 : depth ≤ 2 * toDepth := by
        rcases hc with hc | hc
        · omega
        · exact h2 hc
      have ht := evaluate_total (depth.toNat + toQsDepth.toNat + 1) board s depth MIN_SCORE
        MAX_SCORE toQsDepth true hq (Nat.lt_succ_self _)
      cases he : evaluate (depth.toNat + toQsDepth.toNat + 1) board s depth MIN_SCORE MAX_SCORE
          toQsDepth true with
      | none =>
        rw [he] at ht
        exact Bool.noConfusion ht
      | some p =>
        obtain ⟨s2, result⟩ := p
        dsimp only
        by_cases hs : result.result = EvalResultCode.SUCCESS
        · rw [if_pos hs]
          apply ih
          · omega
          · intro hh
            simp only [Bool.and_eq_true, decide_eq_true_eq] at hh
            omega
          · omega
        · rw [if_neg hs]
          rfl
    · rw [if_neg hc]
      rfl

theorem clamp_eq_min (toDepth : Int) :
    (if toDepth > MAX_DEPTH then MAX_DEPTH else toDepth) = min toDepth 6 := by
  unfold MAX_DEPTH
  split_ifs with h
  · omega
  · omega

end Engine
namespace Engine

/-- C30: for `toDepth >= 1` (and a quiet-search depth in the range of `int16_t`) the call
`findBestMove(B, toDepth, qs, timeMs)` returns, and with `d = min(toDepth, 6)` the depths of
its root calls of `evaluate` are `min(d, 3), min(d, 3) + 1, ...` in steps of one, at least one
of them; a depth greater than `d` is tried only if `timeMs > 0`, the previous depth was below
`2 * d` and a clock reading was below `timeMs / 6`; so no root call uses a depth greater than
`2 * d <= 12`. -/
theorem findBestMove_depths (evals : Cache) (board : Board)
    (toDepth toQsDepth allowedTimeMs : Int) (elapsedMs : Nat → Int)
    (h1 : 1 ≤ toDepth) (hq : toQsDepth ≤ 32767) :
    ∃ (s : SearchState) (record : Option Board) (trace : List Int),
      findBestMove evals board toDepth toQsDepth allowedTimeMs elapsedMs
        = some (s, record, trace) ∧
      trace ≠ [] ∧
      trace = (List.range trace.length).map
        (fun i : Nat => min (min toDepth 6) 3 + (i : Int)) ∧
      (∀ x ∈ trace, x > min toDepth 6 →
        allowedTimeMs > 0 ∧ x - 1 < 2 * min toDepth 6 ∧
          ∃ n, elapsedMs n < Int.tdiv allowedTimeMs 6) ∧
      (∀ x ∈ trace, x ≤ 2 * min toDepth 6 ∧ 2 * min toDepth 6 ≤ 12) := by
  have hd1 : 1 ≤ min toDepth 6 := by omega
  have htot := depthLoop_total board (min toDepth 6) toQsDepth allowedTimeMs hq (by omega)
    (2 * (min toDepth 6).toNat + 2) (min (min toDepth 6) 3) false
    ⟨if evals.length > TRIM_TABLE_SIZE then [] else evals,
      EvalContext.make allowedTimeMs (min toDepth 6) elapsedMs⟩ none []
    (by omega) (fun h => Bool.noConfusion h) (by omega)
  have hfb : findBestMove evals board toDepth toQsDepth allowedTimeMs elapsedMs
      = depthLoop board (min toDepth 6) toQsDepth allowedTimeMs
          (2 * (min toDepth 6).toNat + 2) (min (min toDepth 6) 3) false
          ⟨if evals.length > TRIM_TABLE_SIZE then [] else evals,
            EvalContext.make allowedTimeMs (min toDepth 6) elapsedMs⟩ none [] := by
    unfold findBestMove
    simp only [clamp_eq_min]
  rw [hfb]
  cases hdl : depthLoop board (min toDepth 6) toQsDepth allowedTimeMs
      (2 * (min toDepth 6).toNat + 2) (min (min toDepth 6) 3) false
      ⟨if evals.length > TRIM_TABLE_SIZE then [] else evals,
        EvalContext.make allowedTimeMs (min toDepth 6) elapsedMs⟩ none [] with
  | none =>
    rw [hdl] at htot
    exact Bool.noConfusion htot
  | some out =>
    obtain ⟨s, record, trace⟩ := out
    obtain ⟨k, hk1, hk2, hk3⟩ := depthLoop_trace board (min toDepth 6) toQsDepth allowedTimeMs
      _ _ _ _ _ _ _ hdl
    have hk : 0 < k := hk2.2 (Or.inl (by omega))
    have htr : trace = (List.range k).map (fun i : Nat => min (min toDepth 6) 3 + (i : Int)) := by
      simpa using hk1
    have hlen : trace.length = k := by
      rw [htr, List.length_map, List.length_range]
    have hmem : ∀ x ∈ trace, x ≤ min toDepth 6 ∨
        (allowedTimeMs > 0 ∧ x - 1 < 2 * min toDepth 6 ∧
          ∃ n, elapsedMs n < Int.tdiv allowedTimeMs 6) := by
      intro x hx
      rw [htr, List.mem_map] at hx
      obtain ⟨i, hi, rfl⟩ := hx
      rw [List.mem_range] at hi
      cases i with
      | zero =>
        left
        simp only [Nat.cast_zero, add_zero]
        omega
      | succ j =>
        rcases hk3 j hi with h | ⟨a, b, c⟩
        · left
          push_cast
          omega
        · right
          refine ⟨a, ?_, c⟩
          push_cast
          omega
    refine ⟨s, record, trace, rfl, ?_, ?_, ?_, ?_⟩
    · intro h0
      rw [h0] at hlen
      simp only [List.length_nil] at hlen
      omega
    · rw [hlen]
      exact htr
    · intro x hx hgt
      rcases hmem x hx with h | h
      · omega
      · exact h
    · intro x hx
      rcases hmem x hx with h | ⟨_, h, _⟩
      · omega
      · omega

theorem findBestMove_depths_witness :
    (1 : Int) ≤ 2 ∧ (1 : Int) ≤ 32767 ∧
    ∃ (s : SearchState) (record : Option Board) (trace : List Int),
      findBestMove [] quietSearchBoard 2 1 600 (fun n => (n : Int))
        = some (s, record, trace) ∧
      trace ≠ [] ∧
      trace = (List.range trace.length).map
        (fun i : Nat => min (min (2 : Int) 6) 3 + (i : Int)) ∧
      (∀ x ∈ trace, x > min (2 : Int) 6 →
        (600 : Int) > 0 ∧ x - 1 < 2 * min (2 : Int) 6 ∧
          ∃ n, (fun n : Nat => (n : Int)) n < Int.tdiv 600 6) ∧
      (∀ x ∈ trace, x ≤ 2 * min (2 : Int) 6 ∧ 2 * min (2 : Int) 6 ≤ 12) :=
  ⟨by decide, by decide,
    findBestMove_depths [] quietSearchBoard 2 1 600 (fun n => (n : Int)) (by decide)
      (by decide)⟩

end Engine

namespace Engine

theorem lexLt_irrefl : ∀ a : List Int, lexLt a a = false := by
  intro a
  induction a with
  | nil => rfl
  | cons x xs ih =>
    rw [lexLt, ih]
    simp

theorem lexLt_trans : ∀ a b c : List Int, lexLt a b = true → lexLt b c = true →
    lexLt a c = true := by
  intro a
  induction a with
  | nil =>
    intro b c h
    simp only [lexLt] at h
    exact Bool.noConfusion h
  | cons x xs ih =>
    intro b c h1 h2
    cases b with
    | nil =>
      simp only [lexLt] at h1
      exact Bool.noConfusion h1
    | cons y ys =>
      cases c with
      | nil =>
        simp only [lexLt] at h2
        exact Bool.noConfusion h2
      | cons z zs =>
        rw [lexLt] at h1 h2 ⊢
        simp only [Bool.or_eq_true, Bool.and_eq_true, decide_eq_true_eq] at h1 h2 ⊢
        rcases h1 with h1 | ⟨h1, h1b⟩
        · rcases h2 with h2 | ⟨h2, _⟩
          · left; omega
          · left; omega
        · rcases h2 with h2 | ⟨h2, h2b⟩
          · left; omega
          · right
            exact ⟨by omega, ih ys zs h1b h2b⟩

theorem lexLt_asymm (a b : List Int) (h : lexLt a b = true) : lexLt b a = false := by
  cases h2 : lexLt b a
  · rfl
  · have := lexLt_trans a b a h h2
    rw [lexLt_irrefl] at this
    exact Bool.noConfusion this

theorem insertBy_perm (lt : MoveScore → MoveScore → Bool) (x : MoveScore) :
    ∀ xs : List MoveScore, (insertBy lt x xs).Perm (x :: xs) := by
  intro xs
  induction xs with
  | nil => exact List.Perm.refl _
  | cons y rest ih =>
    rw [insertBy]
    split_ifs
    · exact List.Perm.refl _
    · exact (List.Perm.cons y ih).trans (List.Perm.swap x y rest)

theorem sortBy_perm (lt : MoveScore → MoveScore → Bool) :
    ∀ xs : List MoveScore, (sortBy lt xs).Perm xs := by
  intro xs
  induction xs with
  | nil => exact List.Perm.refl _
  | cons x rest ih =>
    rw [sortBy]
    exact (insertBy_perm lt x _).trans (List.Perm.cons x ih)

/-- Insertion into a list in the order of a key keeps the order, when the comparison is the
comparison of the keys on the elements at hand. -/
theorem insertBy_sorted (lt : MoveScore → MoveScore → Bool) (key : MoveScore → List Int)
    (P : MoveScore → Prop)
    (hlt : ∀ a b, P a → P b → lt a b = lexLt (key a) (key b)) (x : MoveScore) (hx : P x) :
    ∀ xs : List MoveScore, (∀ y ∈ xs, P y) →
      xs.Pairwise (fun a b => lexLt (key b) (key a) = false) →
      (insertBy lt x xs).Pairwise (fun a b => lexLt (key b) (key a) = false) := by
  intro xs
  induction xs with
  | nil =>
    intro _ _
    rw [insertBy]
    exact List.pairwise_singleton _ _
  | cons y rest ih =>
    intro hP hs
    rw [insertBy]
    have hy : P y := hP y (List.mem_cons_self _ _)
    rw [List.pairwise_cons] at hs
    by_cases hc : lt x y = true
    · rw [if_pos hc]
      rw [hlt x y hx hy] at hc
      refine List.pairwise_cons.mpr ⟨?_, List.pairwise_cons.mpr hs⟩
      intro z hz
      rcases List.mem_cons.mp hz with rfl | hz
      · exact lexLt_asymm _ _ hc
      · cases hzx : lexLt (key z) (key x)
        · rfl
        · have := lexLt_trans _ _ _ hzx hc
          rw [hs.1 z hz] at this
          exact Bool.noConfusion this
    · rw [if_neg hc]
      have hc2 : lexLt (key x) (key y) = false := by
        rw [← hlt x y hx hy]
        cases hh : lt x y
        · rfl
        · exact absurd hh hc
      refine List.pairwise_cons.mpr ⟨?_, ih (fun z hz => hP z (List.mem_cons_of_mem _ hz)) hs.2⟩
      intro z hz
      rcases List.mem_cons.mp ((insertBy_perm lt x rest).subset hz) with rfl | hz
      · exact hc2
      · exact hs.1 z hz

theorem sortBy_sorted (lt : MoveScore → MoveScore → Bool) (key : MoveScore → List Int)
    (P : MoveScore → Prop)
    (hlt : ∀ a b, P a → P b → lt a b = lexLt (key a) (key b)) :
    ∀ xs : List MoveScore, (∀ y ∈ xs, P y) →
      (sortBy lt xs).Pairwise (fun a b => lexLt (key b) (key a) = false) := by
  intro xs
  induction xs with
  | nil =>
    intro _
    exact List.Pairwise.nil
  | cons x rest ih =>
    intro hP
    rw [sortBy]
    exact insertBy_sorted lt key P hlt x (hP x (List.mem_cons_self _ _)) _
      (fun y hy => hP y (List.mem_cons_of_mem _ ((sortBy_perm lt rest).subset hy)))
      (ih (fun y hy => hP y (List.mem_cons_of_mem _ hy)))

end Engine

namespace Engine

/-- On move scores of one side whose child records have status DONE_COMPLETE or DONE_PARTIAL,
`bestScoreFirst` is the comparison of the keys of the specification. -/
theorem bestScoreFirst_key (evals : Cache) (side : Side) (a b : MoveScore)
    (ha : a.movingSide = side) (hb : b.movingSide = side)
    (hsa : ∀ r, a.deref evals = some r →
      r.evalStatus = EvalStatus.DONE_COMPLETE ∨ r.evalStatus = EvalStatus.DONE_PARTIAL)
    (hsb : ∀ r, b.deref evals = some r →
      r.evalStatus = EvalStatus.DONE_COMPLETE ∨ r.evalStatus = EvalStatus.DONE_PARTIAL) :
    bestScoreFirst evals a b
      = lexLt (bestFirstKey evals side a) (bestFirstKey evals side b) := by
  unfold bestScoreFirst bestFirstKey
  cases hda : a.deref evals with
  | none =>
    cases hdb : b.deref evals with
    | none =>
      simp only [lexLt, typeScore]
      rw [Bool.eq_iff_iff]
      split_ifs <;> simp <;> omega
    | some rb =>
      simp [lexLt]
  | some ra =>
    cases hdb : b.deref evals with
    | none =>
      simp [lexLt]
    | some rb =>
      have h1 := hsa ra hda
      have h2 := hsb rb hdb
      simp only [lexLt, typeScore, orderScore, ha, hb]
      rw [Bool.eq_iff_iff]
      rcases h1 with h1 | h1 <;> rcases h2 with h2 | h2 <;> rw [h1, h2] <;>
        by_cases hw : side = Side.WHITE <;>
        simp [hw] <;> split_ifs <;> simp <;> omega

end Engine

namespace Engine

theorem Cache.evaluated_modify (evals : Cache) (board : Board) (f : EvalRecord → EvalRecord)
    (h : Cache.Evaluated evals)
    (hf : ∀ r, r.evalStatus ≠ EvalStatus.NOT_EVALUATED →
      (f r).evalStatus ≠ EvalStatus.NOT_EVALUATED) :
    Cache.Evaluated (evals.modify board f) := by
  intro b r hfind
  rw [Cache.find_modify] at hfind
  by_cases hb : board.beq b = true
  · rw [if_pos hb] at hfind
    cases h0 : evals.find b with
    | none =>
      rw [h0] at hfind
      exact Option.noConfusion hfind
    | some r0 =>
      rw [h0] at hfind
      rw [← Option.some.inj hfind]
      exact hf r0 (h b r0 h0)
  · rw [if_neg hb] at hfind
    exact h b r hfind

theorem Cache.evaluated_insert (evals : Cache) (board : Board) (r : EvalRecord)
    (h : Cache.Evaluated evals) (hr : r.evalStatus ≠ EvalStatus.NOT_EVALUATED) :
    Cache.Evaluated (evals.insert board r) := by
  intro b r2 hfind
  rw [Cache.find_insert] at hfind
  cases h0 : evals.find b with
  | some x =>
    rw [h0] at hfind
    rw [← Option.some.inj hfind]
    exact h b x h0
  | none =>
    rw [h0] at hfind
    dsimp only at hfind
    by_cases hb : board.beq b = true
    · rw [if_pos hb] at hfind
      rw [← Option.some.inj hfind]
      exact hr
    · rw [if_neg hb] at hfind
      exact Option.noConfusion hfind

theorem lookupRecord_evaluated (s : SearchState) (board : Board)
    (h : Cache.Evaluated s.evals) : Cache.Evaluated (lookupRecord s board).1.evals := by
  cases hf : s.evals.find board with
  | some r0 =>
    rw [lookupRecord_found s board r0 hf]
    exact h
  | none =>
    rw [(lookupRecord_new s board hf).1]
    refine Cache.evaluated_insert _ _ _ h ?_
    rw [evaluateBoard_status]
    exact fun h => EvalStatus.noConfusion h

theorem resetPartial_evaluated (s : SearchState) (board : Board) (r0 : EvalRecord)
    (h : Cache.Evaluated s.evals) : Cache.Evaluated (resetPartial s board r0).evals := by
  unfold resetPartial
  split_ifs
  · dsimp only
    refine Cache.evaluated_modify _ _ _ h ?_
    intro r _ h2
    exact EvalStatus.noConfusion h2
  · exact h

theorem markInEvaluation_evaluated (s : SearchState) (board : Board)
    (h : Cache.Evaluated s.evals) : Cache.Evaluated (markInEvaluation s board).evals := by
  unfold markInEvaluation
  dsimp only
  refine Cache.evaluated_modify _ _ _ h ?_
  intro r _ h2
  exact EvalStatus.noConfusion h2

theorem cutoffWrites_evaluated (evals : Cache) (board : Board) (record : EvalRecord)
    (toDepth toQsDepth : Int) (moveIndex : Nat) (move : Move) (moveScores : List MoveScore)
    (setBound : EvalRecord → EvalRecord) (h : Cache.Evaluated evals) :
    Cache.Evaluated (cutoffWrites evals board record toDepth toQsDepth moveIndex move
      moveScores setBound) := by
  unfold cutoffWrites
  dsimp only
  refine Cache.evaluated_modify _ _ _ (Cache.evaluated_modify _ _ _ h ?_) ?_
  · intro r _ h2
    exact EvalStatus.noConfusion h2
  · intro r h1
    exact h1

theorem finish_evaluated (board : Board) (record : EvalRecord) (toDepth toQsDepth : Int)
    (s : SearchState) (l : LoopState) (h : Cache.Evaluated s.evals) :
    Cache.Evaluated (finish board record toDepth toQsDepth s l).1.evals := by
  unfold finish
  dsimp only
  refine Cache.evaluated_modify _ _ _ (Cache.evaluated_modify _ _ _ h ?_) ?_
  · intro r _ h2
    exact EvalStatus.noConfusion h2
  · intro r h1
    exact h1

/-- What a cutoff leaves: the recursive call returned SUCCESS and the table is the one of the
writes of the cutoff, with the pointer of the move set. -/
theorem afterChild_cutoff (board : Board) (record : EvalRecord) (toDepth toQsDepth : Int)
    (moveIndex : Nat) (move : Move) (s2 s3 : SearchState) (l : LoopState) (res r : EvalResult)
    (h : afterChild board record toDepth toQsDepth moveIndex move s2 l res
      = LoopOutcome.done s3 r)
    (hr : r.result = EvalResultCode.SUCCESS) :
    res.result = EvalResultCode.SUCCESS ∧ r.record = some board ∧
    ∃ setBound : EvalRecord → EvalRecord,
      s3.evals = cutoffWrites s2.evals board record toDepth toQsDepth moveIndex move
        (l.moveScores.set moveIndex ⟨move, board.getMovingSide, res.record⟩) setBound := by
  unfold afterChild at h
  cases hres : res.result <;> simp only [hres] at h
  · split_ifs at h <;>
      first
      | exact LoopOutcome.noConfusion h
      | (obtain ⟨h1, h2⟩ := LoopOutcome.done.inj h
         subst h1 h2
         exact ⟨rfl, rfl, _, rfl⟩)
  · obtain ⟨h1, h2⟩ := LoopOutcome.done.inj h
    subst h1 h2
    exact EvalResultCode.noConfusion hr
  · exact LoopOutcome.noConfusion h

theorem afterChild_evaluated (board : Board) (record : EvalRecord) (toDepth toQsDepth : Int)
    (moveIndex : Nat) (move : Move) (s2 s3 : SearchState) (l : LoopState) (res r : EvalResult)
    (h : afterChild board record toDepth toQsDepth moveIndex move s2 l res
      = LoopOutcome.done s3 r)
    (hev : Cache.Evaluated s2.evals) : Cache.Evaluated s3.evals := by
  unfold afterChild at h
  cases hres : res.result <;> simp only [hres] at h
  · split_ifs at h <;>
      first
      | exact LoopOutcome.noConfusion h
      | (obtain ⟨h1, h2⟩ := LoopOutcome.done.inj h
         subst h1 h2
         exact cutoffWrites_evaluated _ _ _ _ _ _ _ _ _ hev)
  · obtain ⟨h1, h2⟩ := LoopOutcome.done.inj h
    subst h1 h2
    dsimp only
    refine Cache.evaluated_modify _ _ _ hev ?_
    intro r _ h2
    exact EvalStatus.noConfusion h2
  · exact LoopOutcome.noConfusion h

/-- When the loop goes on after a recursive call, the move scores are as they were after a
LOOP, and have the pointer of the move set after a SUCCESS. -/
theorem afterChild_scores (board : Board) (record : EvalRecord) (toDepth toQsDepth : Int)
    (moveIndex : Nat) (move : Move) (s2 s3 : SearchState) (l l3 : LoopState) (res : EvalResult)
    (h : afterChild board record toDepth toQsDepth moveIndex move s2 l res
      = LoopOutcome.next s3 l3) :
    (res.result = EvalResultCode.LOOP ∧ l3.moveScores = l.moveScores)
    ∨ (res.result = EvalResultCode.SUCCESS ∧ l3.moveScores
        = l.moveScores.set moveIndex ⟨move, board.getMovingSide, res.record⟩) := by
  unfold afterChild at h
  cases hres : res.result <;> simp only [hres] at h
  · right
    refine ⟨rfl, ?_⟩
    split_ifs at h <;>
      first
      | exact LoopOutcome.noConfusion h
      | (rw [← (LoopOutcome.next.inj h).2])
  · exact LoopOutcome.noConfusion h
  · left
    exact ⟨rfl, by rw [← (LoopOutcome.next.inj h).2]⟩

end Engine

namespace Engine

/-- The loop over the moves keeps the table free of records of status NOT_EVALUATED when the
recursive calls do, and a result SUCCESS of the loop points to the record of the board. -/
theorem searchLoop_evaluated
    (recurse : Board → SearchState → Int → Int → Int → Int → Bool →
      Option (SearchState × EvalResult))
    (hrec : ∀ b s d mw mb q fq out, recurse b s d mw mb q fq = some out →
      Cache.Evaluated s.evals → Cache.Evaluated out.1.evals)
    (board : Board) (record : EvalRecord) (searchMode : SearchMode) (toDepth toQsDepth : Int)
    (moves : List Move) :
    ∀ (moveIndex : Nat) (s : SearchState) (l : LoopState) (out : LoopOutcome),
      searchLoop recurse board record searchMode toDepth toQsDepth moves moveIndex s l
        = some out →
      match out with
      | LoopOutcome.next s3 _ => Cache.Evaluated s.evals → Cache.Evaluated s3.evals
      | LoopOutcome.done s3 r => (Cache.Evaluated s.evals → Cache.Evaluated s3.evals)
          ∧ (r.result = EvalResultCode.SUCCESS → r.record = some board) := by
  induction moves with
  | nil =>
    intro moveIndex s l out h
    rw [searchLoop] at h
    rw [← Option.some.inj h]
    exact fun h => h
  | cons move rest ih =>
    intro moveIndex s l out h
    by_cases hex : examineMove searchMode record move = true
    · cases hr : recurse (Board.makeMove board move.getFrom move.getTo move.getPromotionType) s
          (if toDepth > 0 then toDepth - 1 else 0) l.minWhite l.maxBlack
          (if toDepth > 0 then toQsDepth else wrapI16 (toQsDepth - 1))
          (record.isQuietPosition && decide (move.getMoveType = MoveType.MOVE)) with
      | none =>
        rw [searchLoop_child_none recurse board record searchMode toDepth toQsDepth move rest
          moveIndex s l hex hr] at h
        exact Option.noConfusion h
      | some p =>
        obtain ⟨s2, res⟩ := p
        have hs2 := hrec _ _ _ _ _ _ _ _ hr
        cases ha : afterChild board record toDepth toQsDepth moveIndex move s2 l res with
        | done s3 r =>
          rw [searchLoop_child_done recurse board record searchMode toDepth toQsDepth move rest
            moveIndex s s2 s3 l res r hex hr ha] at h
          rw [← Option.some.inj h]
          refine ⟨fun hev => afterChild_evaluated board record toDepth toQsDepth moveIndex
            move s2 s3 l res r ha (hs2 hev), fun hres => ?_⟩
          exact (afterChild_cutoff board record toDepth toQsDepth moveIndex move s2 s3 l res r
            ha hres).2.1
        | next s3 l3 =>
          rw [searchLoop_child_next recurse board record searchMode toDepth toQsDepth move rest
            moveIndex s s2 s3 l l3 res hex hr ha] at h
          have e3 := afterChild_next board record toDepth toQsDepth moveIndex move s2 s3 l l3
            res ha
          subst e3
          have := ih (moveIndex + 1) s3 l3 out h
          cases out with
          | next s4 l4 => exact fun hev => this (hs2 hev)
          | done s4 r => exact ⟨fun hev => this.1 (hs2 hev), this.2⟩
    · have hex2 : examineMove searchMode record move = false := by
        cases hh : examineMove searchMode record move
        · rfl
        · exact absurd hh hex
      rw [searchLoop_skipped recurse board record searchMode toDepth toQsDepth move rest
        moveIndex s l hex2] at h
      exact ih (moveIndex + 1) s l out h

/-- A call of `evaluate` keeps the table free of records of status NOT_EVALUATED. -/
theorem evaluate_evaluated : ∀ (fuel : Nat) (board : Board) (s : SearchState)
    (toDepth minWhite maxBlack toQsDepth : Int) (fromQuietMove : Bool)
    (out : SearchState × EvalResult),
    evaluate fuel board s toDepth minWhite maxBlack toQsDepth fromQuietMove = some out →
    Cache.Evaluated s.evals → Cache.Evaluated out.1.evals := by
  intro fuel
  induction fuel with
  | zero =>
    intro board s toDepth minWhite maxBlack toQsDepth fromQuietMove out h
    rw [evaluate] at h
    exact Option.noConfusion h
  | succ fuel ih =>
    intro board s toDepth minWhite maxBlack toQsDepth fromQuietMove out h hev
    have hc := evaluate_cases fuel board s toDepth minWhite maxBlack toQsDepth fromQuietMove
      out h
    have hl := lookupRecord_evaluated s board hev
    rcases hc with ⟨_, rfl⟩ | ⟨_, _, rfl⟩ | ⟨_, _, score, _, rfl⟩ | ⟨_, hst, _, hc⟩
    · exact hl
    · exact hl
    · exact hl
    · have hreset := resetPartial_evaluated (lookupRecord s board).1 board
        (((lookupRecord s board).1.evals.find board).getD EvalRecord.new) hl
      have hmark := markInEvaluation_evaluated _ board hreset
      rcases hc with ⟨_, rfl⟩ | ⟨_, ⟨s3, r, hsl, rfl⟩ | ⟨s3, l3, hsl, rfl⟩⟩
      · exact hreset
      · have := searchLoop_evaluated (evaluate fuel) ih board _ _ toDepth toQsDepth _ 0 _ _ _
          hsl
        exact this.1 hmark
      · have := searchLoop_evaluated (evaluate fuel) ih board _ _ toDepth toQsDepth _ 0 _ _ _
          hsl
        exact finish_evaluated _ _ _ _ _ _ (this hmark)

/-- A result SUCCESS of `evaluate` points to the record of the board, and this record is
not of status IN_EVALUATION. -/
theorem evaluate_success (fuel : Nat) (board : Board) (s : SearchState)
    (toDepth minWhite maxBlack toQsDepth : Int) (fromQuietMove : Bool)
    (out : SearchState × EvalResult)
    (h : evaluate fuel board s toDepth minWhite maxBlack toQsDepth fromQuietMove = some out)
    (hres : out.2.result = EvalResultCode.SUCCESS) :
    out.2.record = some board ∧ ¬ Cache.InEval out.1.evals board := by
  cases fuel with
  | zero =>
    rw [evaluate] at h
    exact Option.noConfusion h
  | succ fuel =>
    obtain ⟨r1, hr1⟩ := lookupRecord_find s board
    have hc := evaluate_cases fuel board s toDepth minWhite maxBlack toQsDepth fromQuietMove
      out h
    simp only [hr1, Option.getD_some] at hc
    rcases hc with ⟨_, rfl⟩ | ⟨_, _, rfl⟩ | ⟨_, hst, score, _, rfl⟩ | ⟨_, hst, _, hc⟩
    · exact EvalResultCode.noConfusion hres
    · exact EvalResultCode.noConfusion hres
    · exact ⟨rfl, not_inEval_of_status _ board board r1 hr1 hst (Board.beq_refl board)⟩
    · obtain ⟨r2, hr2, hst2⟩ := resetPartial_find (lookupRecord s board).1 board r1 hr1 hst
      simp only [hr2, Option.getD_some] at hc
      rcases hc with ⟨_, rfl⟩ | ⟨_, ⟨s3, r, hl, rfl⟩ | ⟨s3, l3, hl, rfl⟩⟩
      · exact ⟨rfl, not_inEval_of_status _ board board r2 hr2 hst2 (Board.beq_refl board)⟩
      · have h1 := searchLoop_inEval (evaluate fuel) (evaluate_inEval fuel) board r2
          (searchModeOf r2 toDepth) toDepth toQsDepth r2.moves 0 _ _ _ hl
        have h2 := searchLoop_evaluated (evaluate fuel) (evaluate_evaluated fuel) board r2
          (searchModeOf r2 toDepth) toDepth toQsDepth r2.moves 0 _ _ _ hl
        refine ⟨h2.2 hres, fun hin => ?_⟩
        exact ((h1.1 board).mp hin).2 (Board.beq_refl board)
      · refine ⟨rfl, fun hin => ?_⟩
        exact ((finish_inEval board r2 toDepth toQsDepth s3 l3 board).mp hin).2
          (Board.beq_refl board)

end Engine

namespace Engine

theorem set_append_self (pre : List Move) (move : Move) (rest : List Move) :
    (pre ++ move :: rest).set pre.length move = pre ++ move :: rest := by
  induction pre with
  | nil => rfl
  | cons x xs ih =>
    simp only [List.cons_append, List.length_cons, List.set_cons_succ, ih]

theorem scoresOk_congr (e1 e2 : Cache) (board : Board) (moves : List Move)
    (moveScores : List MoveScore) (h : ∀ b, Cache.InEval e2 b ↔ Cache.InEval e1 b)
    (hok : MoveScoresOk e1 board moves moveScores) : MoveScoresOk e2 board moves moveScores := by
  refine ⟨hok.1, fun ms hms => ⟨(hok.2 ms hms).1, fun b hb => ?_⟩⟩
  obtain ⟨a1, a2⟩ := (hok.2 ms hms).2 b hb
  exact ⟨a1, fun hin => a2 ((h b).mp hin)⟩

theorem scoresOk_set (evals : Cache) (board : Board) (pre : List Move) (move : Move)
    (rest : List Move) (moveScores : List MoveScore) (ptr : Option Board)
    (hok : MoveScoresOk evals board (pre ++ move :: rest) moveScores)
    (hptr : ∀ b, ptr = some b →
      b = Board.makeMove board move.getFrom move.getTo move.getPromotionType
      ∧ ¬ Cache.InEval evals b) :
    MoveScoresOk evals board (pre ++ move :: rest)
      (moveScores.set pre.length ⟨move, board.getMovingSide, ptr⟩) := by
  constructor
  · rw [List.map_set, hok.1]
    exact set_append_self pre move rest
  · intro ms hms
    rcases List.mem_or_eq_of_mem_set hms with h | h
    · exact hok.2 ms h
    · subst h
      exact ⟨rfl, hptr⟩

theorem Cache.inEval_iff_status (evals : Cache) (b : Board) :
    Cache.InEval evals b
      ↔ (evals.find b).map (fun r => r.evalStatus) = some EvalStatus.IN_EVALUATION := by
  unfold Cache.InEval
  cases evals.find b with
  | none => simp
  | some r => simp

theorem makeMove_not_beq (B : Board) (f t : Position) (P : Nat) :
    ¬ B.beq (Board.makeMove B f t P) = true := by
  intro h
  have hg := ((Board.beq_iff _ _).mp h).2
  have h1 := Board.getMovingSide_congr _ _ hg
  rw [Board.makeMove_getMovingSide] at h1
  cases hs : B.getMovingSide <;> rw [hs] at h1 <;> simp at h1

theorem pointerOf_congr (e1 e2 : Cache) (board : Board) (record : EvalRecord)
    (searchMode : SearchMode) (move : Move)
    (h : ∀ b, ¬ board.beq b = true → (Cache.InEval e1 b ↔ Cache.InEval e2 b)) :
    pointerOf e1 board record searchMode move = pointerOf e2 board record searchMode move := by
  unfold pointerOf
  have := h _ (makeMove_not_beq board move.getFrom move.getTo move.getPromotionType)
  rw [Cache.inEval_iff_status, Cache.inEval_iff_status] at this
  simp only [ne_eq, this]

theorem pointedScores_congr (e1 e2 : Cache) (board : Board) (record : EvalRecord)
    (searchMode : SearchMode) (moves : List Move)
    (h : ∀ b, ¬ board.beq b = true → (Cache.InEval e1 b ↔ Cache.InEval e2 b)) :
    pointedScores e1 board record searchMode moves
      = pointedScores e2 board record searchMode moves := by
  unfold pointedScores
  apply List.map_congr_left
  intro m _
  rw [pointerOf_congr e1 e2 board record searchMode m h]

theorem pointerOf_skipped (evals : Cache) (board : Board) (record : EvalRecord)
    (searchMode : SearchMode) (move : Move)
    (h : examineMove searchMode record move = false) :
    pointerOf evals board record searchMode move = none := by
  unfold pointerOf
  rw [if_neg]
  rw [h]
  exact fun hh => Bool.noConfusion hh.1

theorem pointerOf_inEval (evals : Cache) (board : Board) (record : EvalRecord)
    (searchMode : SearchMode) (move : Move)
    (h : Cache.InEval evals
      (Board.makeMove board move.getFrom move.getTo move.getPromotionType)) :
    pointerOf evals board record searchMode move = none := by
  unfold pointerOf
  rw [if_neg]
  rw [Cache.inEval_iff_status] at h
  exact fun hh => hh.2 h

theorem pointerOf_set (evals : Cache) (board : Board) (record : EvalRecord)
    (searchMode : SearchMode) (move : Move)
    (hex : examineMove searchMode record move = true)
    (h : ¬ Cache.InEval evals
      (Board.makeMove board move.getFrom move.getTo move.getPromotionType)) :
    pointerOf evals board record searchMode move
      = some (Board.makeMove board move.getFrom move.getTo move.getPromotionType) := by
  unfold pointerOf
  rw [if_pos]
  rw [Cache.inEval_iff_status] at h
  exact ⟨hex, h⟩

theorem set_append_mid {α : Type} (pre : List α) (y x : α) (rest : List α) :
    (pre ++ y :: rest).set pre.length x = pre ++ x :: rest := by
  induction pre with
  | nil => rfl
  | cons a as ih =>
    simp only [List.cons_append, List.length_cons, List.set_cons_succ, ih]

/-- Move scores that all are among the move scores `pointedScores` of some moves are the
move scores `pointedScores` of their own moves. -/
theorem pointedScores_of_mem (evals : Cache) (board : Board) (record : EvalRecord)
    (searchMode : SearchMode) (moves : List Move) (L : List MoveScore)
    (h : ∀ m ∈ L, m ∈ pointedScores evals board record searchMode moves) :
    L = pointedScores evals board record searchMode (L.map (fun m => m.move)) := by
  unfold pointedScores
  rw [List.map_map]
  conv_lhs => rw [← List.map_id L]
  apply List.map_congr_left
  intro m hm
  have := h m hm
  unfold pointedScores at this
  obtain ⟨x, _, hx⟩ := List.mem_map.mp this
  rw [← hx]
  rfl

/-- The loop over the moves keeps the move scores in step with the moves of the record, with
the pointers `pointerOf` for the moves it has passed and no pointer for the others; and when
it ends with a cutoff, the table is the one of the writes of the cutoff at the index of a
move, from a table and move scores that are in step. -/
theorem searchLoop_scores
    (recurse : Board → SearchState → Int → Int → Int → Int → Bool →
      Option (SearchState × EvalResult))
    (hin : ∀ b s d mw mb q fq out, recurse b s d mw mb q fq = some out →
      ∀ b2, Cache.InEval out.1.evals b2 ↔ Cache.InEval s.evals b2)
    (hev : ∀ b s d mw mb q fq out, recurse b s d mw mb q fq = some out →
      Cache.Evaluated s.evals → Cache.Evaluated out.1.evals)
    (hsucc : ∀ b s d mw mb q fq out, recurse b s d mw mb q fq = some out →
      out.2.result = EvalResultCode.SUCCESS →
      out.2.record = some b ∧ ¬ Cache.InEval out.1.evals b)
    (hloop : ∀ b s d mw mb q fq out, recurse b s d mw mb q fq = some out →
      out.2.result = EvalResultCode.LOOP → Cache.InEval s.evals b)
    (board : Board) (record : EvalRecord) (searchMode : SearchMode) (toDepth toQsDepth : Int)
    (all : List Move) (moves : List Move) :
    ∀ (pre : List Move) (s : SearchState) (l : LoopState) (out : LoopOutcome),
      all = pre ++ moves →
      MoveScoresOk s.evals board all l.moveScores →
      l.moveScores = pointedScores s.evals board record searchMode pre
        ++ moves.map (fun m => (⟨m, board.getMovingSide, none⟩ : MoveScore)) →
      Cache.Evaluated s.evals →
      searchLoop recurse board record searchMode toDepth toQsDepth moves pre.length s l
        = some out →
      match out with
      | LoopOutcome.next s3 l3 =>
        MoveScoresOk s3.evals board all l3.moveScores ∧ Cache.Evaluated s3.evals
        ∧ l3.moveScores = pointedScores s3.evals board record searchMode all
      | LoopOutcome.done s3 r => r.result = EvalResultCode.SUCCESS →
        ∃ (k : Nat) (move : Move) (s2 : SearchState) (moveScores : List MoveScore)
          (setBound : EvalRecord → EvalRecord),
          pre.length ≤ k ∧ all.get? k = some move
          ∧ MoveScoresOk s2.evals board all moveScores ∧ Cache.Evaluated s2.evals
          ∧ (∀ b, Cache.InEval s2.evals b ↔ Cache.InEval s.evals b)
          ∧ s3.evals = cutoffWrites s2.evals board record toDepth toQsDepth k move moveScores
              setBound
          ∧ moveScores = pointedScores s2.evals board record searchMode (all.take (k + 1))
              ++ (all.drop (k + 1)).map
                (fun m => (⟨m, board.getMovingSide, none⟩ : MoveScore)) := by
  induction moves with
  | nil =>
    intro pre s l out hall hok hpt hT h
    rw [searchLoop] at h
    rw [← Option.some.inj h]
    refine ⟨hok, hT, ?_⟩
    rw [hpt, hall, List.map_nil, List.append_nil, List.append_nil]
  | cons move rest ih =>
    intro pre s l out hall hok hpt hT h
    have hall2 : all = (pre ++ [move]) ++ rest := by
      rw [hall, List.append_assoc]
      rfl
    have hlen : (pre ++ [move]).length = pre.length + 1 := by
      rw [List.length_append]
      rfl
    have hsnoc : ∀ (e : Cache) (ptr : Option Board),
        pointerOf e board record searchMode move = ptr →
        pointedScores e board record searchMode pre
            ++ (⟨move, board.getMovingSide, ptr⟩ : MoveScore)
              :: rest.map (fun m => (⟨m, board.getMovingSide, none⟩ : MoveScore))
          = pointedScores e board record searchMode (pre ++ [move])
            ++ rest.map (fun m => (⟨m, board.getMovingSide, none⟩ : MoveScore)) := by
      intro e ptr hp
      unfold pointedScores
      rw [List.map_append, List.map_singleton, hp, List.append_assoc]
      rfl
    by_cases hex : examineMove searchMode record move = true
    · cases hr : recurse (Board.makeMove board move.getFrom move.getTo move.getPromotionType) s
          (if toDepth > 0 then toDepth - 1 else 0) l.minWhite l.maxBlack
          (if toDepth > 0 then toQsDepth else wrapI16 (toQsDepth - 1))
          (record.isQuietPosition && decide (move.getMoveType = MoveType.MOVE)) with
      | none =>
        rw [searchLoop_child_none recurse board record searchMode toDepth toQsDepth move rest
          pre.length s l hex hr] at h
        exact Option.noConfusion h
      | some p =>
        obtain ⟨s2, res⟩ := p
        have hin2 := hin _ _ _ _ _ _ _ _ hr
        have hT2 := hev _ _ _ _ _ _ _ _ hr hT
        have hok2 : MoveScoresOk s2.evals board all l.moveScores :=
          scoresOk_congr s.evals s2.evals board all l.moveScores hin2 hok
        have hpt2 : l.moveScores = pointedScores s2.evals board record searchMode pre
            ++ (move :: rest).map (fun m => (⟨m, board.getMovingSide, none⟩ : MoveScore)) := by
          rw [hpt, pointedScores_congr s2.evals s.evals board record searchMode pre
            (fun b _ => hin2 b)]
        have hplen : (pointedScores s2.evals board record searchMode pre).length
            = pre.length := by
          unfold pointedScores
          rw [List.length_map]
        have hset : res.result = EvalResultCode.SUCCESS →
            MoveScoresOk s2.evals board all
              (l.moveScores.set pre.length ⟨move, board.getMovingSide, res.record⟩) := by
          intro hres
          obtain ⟨p1, p2⟩ := hsucc _ _ _ _ _ _ _ _ hr hres
          rw [hall] at hok2 ⊢
          refine scoresOk_set s2.evals board pre move rest l.moveScores res.record hok2 ?_
          intro b hb
          have e : res.record = some b := hb
          rw [p1] at e
          rw [← Option.some.inj e]
          exact ⟨rfl, p2⟩
        have hsetp : res.result = EvalResultCode.SUCCESS →
            l.moveScores.set pre.length ⟨move, board.getMovingSide, res.record⟩
              = pointedScores s2.evals board record searchMode (pre ++ [move])
                ++ rest.map (fun m => (⟨m, board.getMovingSide, none⟩ : MoveScore)) := by
          intro hres
          obtain ⟨p1, p2⟩ := hsucc _ _ _ _ _ _ _ _ hr hres
          rw [hpt2, List.map_cons, ← hplen, set_append_mid, p1]
          exact hsnoc s2.evals _ (pointerOf_set s2.evals board record searchMode move hex p2)
        have hkeep : res.result = EvalResultCode.LOOP →
            l.moveScores
              = pointedScores s2.evals board record searchMode (pre ++ [move])
                ++ rest.map (fun m => (⟨m, board.getMovingSide, none⟩ : MoveScore)) := by
          intro hres
          have hc := hloop _ _ _ _ _ _ _ _ hr hres
          rw [hpt2, List.map_cons]
          exact hsnoc s2.evals _ (pointerOf_inEval s2.evals board record searchMode move
            ((hin2 _).mpr hc))
        cases ha : afterChild board record toDepth toQsDepth pre.length move s2 l res with
        | done s3 r =>
          rw [searchLoop_child_done recurse board record searchMode toDepth toQsDepth move rest
            pre.length s s2 s3 l res r hex hr ha] at h
          rw [← Option.some.inj h]
          intro hres
          obtain ⟨c1, _, setBound, c3⟩ := afterChild_cutoff board record toDepth toQsDepth
            pre.length move s2 s3 l res r ha hres
          refine ⟨pre.length, move, s2, _, setBound, Nat.le_refl _, ?_, hset c1, hT2, hin2, c3,
            ?_⟩
          · rw [hall, List.get?_eq_getElem?, List.getElem?_append_right (Nat.le_refl _),
              Nat.sub_self]
            exact List.getElem?_cons_zero
          · rw [hsetp c1, hall2, ← hlen, List.take_left, List.drop_left]
        | next s3 l3 =>
          rw [searchLoop_child_next recurse board record searchMode toDepth toQsDepth move rest
            pre.length s s2 s3 l l3 res hex hr ha] at h
          have e3 := afterChild_next board record toDepth toQsDepth pre.length move s2 s3 l l3
            res ha
          subst e3
          have hboth : MoveScoresOk s3.evals board all l3.moveScores
              ∧ l3.moveScores
                = pointedScores s3.evals board record searchMode (pre ++ [move])
                  ++ rest.map (fun m => (⟨m, board.getMovingSide, none⟩ : MoveScore)) := by
            rcases afterChild_scores board record toDepth toQsDepth pre.length move s3 s3 l l3
              res ha with ⟨hres, e⟩ | ⟨hres, e⟩
            · rw [e]
              exact ⟨hok2, hkeep hres⟩
            · rw [e]
              exact ⟨hset hres, hsetp hres⟩
          rw [← hlen] at h
          have := ih (pre ++ [move]) s3 l3 out hall2 hboth.1 hboth.2 hT2 h
          cases out with
          | next s4 l4 => exact this
          | done s4 r =>
            intro hres
            obtain ⟨k, mv, s5, msc, setBound, d1, d2, d3, d4, d5, d6, d7⟩ := this hres
            refine ⟨k, mv, s5, msc, setBound, ?_, d2, d3, d4, ?_, d6, d7⟩
            · rw [hlen] at d1
              omega
            · intro b
              rw [d5 b, hin2 b]
    · have hex2 : examineMove searchMode record move = false := by
        cases hh : examineMove searchMode record move
        · rfl
        · exact absurd hh hex
      rw [searchLoop_skipped recurse board record searchMode toDepth toQsDepth move rest
        pre.length s l hex2] at h
      rw [← hlen] at h
      have hpt3 : l.moveScores
          = pointedScores s.evals board record searchMode (pre ++ [move])
            ++ rest.map (fun m => (⟨m, board.getMovingSide, none⟩ : MoveScore)) := by
        rw [hpt, List.map_cons]
        exact hsnoc s.evals _ (pointerOf_skipped s.evals board record searchMode move hex2)
      have := ih (pre ++ [move]) s l out hall2 hok hpt3 hT h
      cases out with
      | next s4 l4 => exact this
      | done s4 r =>
        intro hres
        obtain ⟨k, mv, s5, msc, setBound, d1, d2, d3, d4, d5, d6, d7⟩ := this hres
        refine ⟨k, mv, s5, msc, setBound, ?_, d2, d3, d4, d5, d6, d7⟩
        rw [hlen] at d1
        omega

end Engine

namespace Engine

theorem deref_congr (e1 e2 : Cache) (m : MoveScore)
    (h : ∀ b, m.record = some b → e1.find b = e2.find b) : m.deref e1 = m.deref e2 := by
  unfold MoveScore.deref
  cases hm : m.record with
  | none => rfl
  | some b => exact h b hm

theorem bestFirstKey_congr (e1 e2 : Cache) (side : Side) (m : MoveScore)
    (h : m.deref e1 = m.deref e2) : bestFirstKey e1 side m = bestFirstKey e2 side m := by
  unfold bestFirstKey
  rw [h]

/-- A pointer of move scores that are in step is not a pointer to the record of the board
while this record is of status IN_EVALUATION. -/
theorem scoresOk_ne (evals : Cache) (board : Board) (moves : List Move)
    (moveScores : List MoveScore) (hok : MoveScoresOk evals board moves moveScores)
    (hin : Cache.InEval evals board) (m : MoveScore) (hm : m ∈ moveScores) (b : Board)
    (hb : m.record = some b) : ¬ board.beq b = true := by
  intro hbeq
  exact ((hok.2 m hm).2 b hb).2 ((Cache.inEval_congr evals board b hbeq).mp hin)

/-- The child records of move scores that are in step have status DONE_COMPLETE or
DONE_PARTIAL, when the table holds no record of status NOT_EVALUATED. -/
theorem scoresOk_status (evals : Cache) (board : Board) (moves : List Move)
    (moveScores : List MoveScore) (hok : MoveScoresOk evals board moves moveScores)
    (hT : Cache.Evaluated evals) (m : MoveScore) (hm : m ∈ moveScores) (r : EvalRecord)
    (hr : m.deref evals = some r) :
    r.evalStatus = EvalStatus.DONE_COMPLETE ∨ r.evalStatus = EvalStatus.DONE_PARTIAL := by
  unfold MoveScore.deref at hr
  cases hrec : m.record with
  | none =>
    rw [hrec] at hr
    exact Option.noConfusion hr
  | some b =>
    rw [hrec] at hr
    have h1 := hT b r hr
    have h2 : r.evalStatus ≠ EvalStatus.IN_EVALUATION := fun h =>
      ((hok.2 m hm).2 b hrec).2 ⟨r, hr, h⟩
    cases hs : r.evalStatus with
    | NOT_EVALUATED => exact absurd hs h1
    | IN_EVALUATION => exact absurd hs h2
    | DONE_PARTIAL => exact Or.inr rfl
    | DONE_COMPLETE => exact Or.inl rfl

/-- A slice of move scores that are in step, sorted by `bestScoreFirst` on a table that
differs from the table of the loop in the record of the board only, is in the order of the
specification on every such table. -/
theorem sortBy_bestFirst (evals0 evals1 evalsF : Cache) (board : Board) (moves : List Move)
    (moveScores slice : List MoveScore)
    (hok : MoveScoresOk evals0 board moves moveScores) (hT : Cache.Evaluated evals0)
    (hin : Cache.InEval evals0 board)
    (h1 : ∀ b, ¬ board.beq b = true → evals1.find b = evals0.find b)
    (hF : ∀ b, ¬ board.beq b = true → evalsF.find b = evals0.find b)
    (hsub : ∀ m ∈ slice, m ∈ moveScores) :
    BestFirst evalsF board.getMovingSide (sortBy (bestScoreFirst evals1) slice) := by
  have hd1 : ∀ m ∈ moveScores, m.deref evals1 = m.deref evals0 := fun m hm =>
    deref_congr evals1 evals0 m (fun b hb =>
      h1 b (scoresOk_ne evals0 board moves moveScores hok hin m hm b hb))
  have hdF : ∀ m ∈ moveScores, m.deref evalsF = m.deref evals0 := fun m hm =>
    deref_congr evalsF evals0 m (fun b hb =>
      hF b (scoresOk_ne evals0 board moves moveScores hok hin m hm b hb))
  have hs := sortBy_sorted (bestScoreFirst evals1) (bestFirstKey evals1 board.getMovingSide)
    (fun m => m ∈ moveScores) (fun a b ha hb =>
      bestScoreFirst_key evals1 board.getMovingSide a b (hok.2 a ha).1 (hok.2 b hb).1
        (fun r hr => scoresOk_status evals0 board moves moveScores hok hT a ha r
          (by rw [← hd1 a ha]; exact hr))
        (fun r hr => scoresOk_status evals0 board moves moveScores hok hT b hb r
          (by rw [← hd1 b hb]; exact hr)))
    slice hsub
  unfold BestFirst
  refine List.Pairwise.imp_of_mem ?_ hs
  intro a b ha hb hab
  have ha2 := hsub a ((sortBy_perm (bestScoreFirst evals1) slice).subset ha)
  have hb2 := hsub b ((sortBy_perm (bestScoreFirst evals1) slice).subset hb)
  rw [bestFirstKey_congr evalsF evals1 board.getMovingSide a ((hdF a ha2).trans (hd1 a ha2).symm),
    bestFirstKey_congr evalsF evals1 board.getMovingSide b ((hdF b hb2).trans (hd1 b hb2).symm)]
  exact hab

theorem sortMoveScores_moves (evals : Cache) (moveScores : List MoveScore) (moves : List Move)
    (b e : Nat) :
    (sortMoveScores evals moveScores moves b e).2
      = moves.take b ++ (sortBy (bestScoreFirst evals) ((moveScores.drop b).take (e - b))).map
          (fun ms => ms.move) ++ moves.drop e := rfl

/-- The moves of the record of the board after the end of `evaluate`. -/
theorem finish_moves (board : Board) (record : EvalRecord) (toDepth toQsDepth : Int)
    (s : SearchState) (l : LoopState) (r0 r : EvalRecord)
    (h0 : s.evals.find board = some r0)
    (hfind : (finish board record toDepth toQsDepth s l).1.evals.find board = some r) :
    r.evalStatus = EvalStatus.DONE_COMPLETE ∧
    ∃ evals1 : Cache, (∀ b, ¬ board.beq b = true → evals1.find b = s.evals.find b)
      ∧ r.moves = (sortMoveScores evals1 l.moveScores record.moves 0 record.moves.length).2 := by
  unfold finish at hfind
  dsimp only at hfind
  rw [Cache.find_modify_same, Cache.find_modify_same, h0] at hfind
  rw [← Option.some.inj hfind]
  refine ⟨rfl, _, fun b hb => ?_, rfl⟩
  rw [Cache.find_modify, if_neg hb]

theorem finish_other (board : Board) (record : EvalRecord) (toDepth toQsDepth : Int)
    (s : SearchState) (l : LoopState) (b : Board) (hb : ¬ board.beq b = true) :
    (finish board record toDepth toQsDepth s l).1.evals.find b = s.evals.find b := by
  unfold finish
  dsimp only
  rw [Cache.find_modify, if_neg hb, Cache.find_modify, if_neg hb]

/-- The moves of the record of the board after the writes of a cutoff. -/
theorem cutoffWrites_moves (evals : Cache) (board : Board) (record : EvalRecord)
    (toDepth toQsDepth : Int) (moveIndex : Nat) (move : Move) (moveScores : List MoveScore)
    (setBound : EvalRecord → EvalRecord) (r0 r : EvalRecord)
    (h0 : evals.find board = some r0)
    (hfind : (cutoffWrites evals board record toDepth toQsDepth moveIndex move moveScores
      setBound).find board = some r) :
    r.evalStatus = EvalStatus.DONE_PARTIAL ∧ r.bestMove = move ∧
    ∃ evals1 : Cache, (∀ b, ¬ board.beq b = true → evals1.find b = evals.find b)
      ∧ r.moves = (sortMoveScores evals1 moveScores record.moves 1 (moveIndex + 1)).2 := by
  unfold cutoffWrites at hfind
  dsimp only at hfind
  rw [Cache.find_modify_same, Cache.find_modify_same, h0] at hfind
  rw [← Option.some.inj hfind]
  refine ⟨rfl, rfl, _, fun b hb => ?_, rfl⟩
  rw [Cache.find_modify, if_neg hb]

theorem cutoffWrites_other (evals : Cache) (board : Board) (record : EvalRecord)
    (toDepth toQsDepth : Int) (moveIndex : Nat) (move : Move) (moveScores : List MoveScore)
    (setBound : EvalRecord → EvalRecord) (b : Board) (hb : ¬ board.beq b = true) :
    (cutoffWrites evals board record toDepth toQsDepth moveIndex move moveScores
      setBound).find b = evals.find b := by
  unfold cutoffWrites
  dsimp only
  rw [Cache.find_modify, if_neg hb, Cache.find_modify, if_neg hb]

theorem partialCutoff_status (board : Board) (record : EvalRecord)
    (toDepth minWhite maxBlack toQsDepth score : Int)
    (h : partialCutoff board record toDepth minWhite maxBlack toQsDepth = some score) :
    record.evalStatus = EvalStatus.DONE_PARTIAL := by
  unfold partialCutoff at h
  by_cases hc : record.evalStatus = EvalStatus.DONE_PARTIAL
      ∧ (record.evalDepth : Int) ≥ toDepth ∧ (record.qsEvalDepth : Int) ≥ toQsDepth
  · exact hc.1
  · rw [if_neg hc] at h
    exact Option.noConfusion h

theorem resetPartial_status (s : SearchState) (board : Board) (r0 r : EvalRecord)
    (h0 : s.evals.find board = some r0)
    (hfind : (resetPartial s board r0).evals.find board = some r) :
    r.evalStatus ≠ EvalStatus.DONE_PARTIAL := by
  unfold resetPartial at hfind
  by_cases hc : r0.evalStatus = EvalStatus.DONE_PARTIAL
  · rw [if_pos hc] at hfind
    dsimp only at hfind
    rw [Cache.find_modify_same, h0] at hfind
    rw [← Option.some.inj hfind]
    exact fun h => EvalStatus.noConfusion h
  · rw [if_neg hc, h0] at hfind
    rw [← Option.some.inj hfind]
    exact hc

end Engine

namespace Engine

theorem initLoop_ok (evals : Cache) (board : Board) (record : EvalRecord)
    (minWhite maxBlack : Int) :
    MoveScoresOk evals board record.moves (initLoop board record minWhite maxBlack).moveScores := by
  constructor
  · show (record.moves.map _).map _ = record.moves
    rw [List.map_map]
    exact List.map_id _
  · intro ms hms
    have hms2 : ms ∈ record.moves.map
        (fun move => (⟨move, board.getMovingSide, none⟩ : MoveScore)) := hms
    obtain ⟨mv, _, rfl⟩ := List.mem_map.mp hms2
    exact ⟨rfl, fun b hb => Option.noConfusion hb⟩

theorem take_drop_mem {α : Type} (l : List α) (k : Nat) (m : α)
    (h : m ∈ (l.drop 1).take k) : m ∈ l.take (k + 1) := by
  cases l with
  | nil => simp at h
  | cons a t =>
    rw [List.drop_succ_cons, List.drop_zero] at h
    rw [List.take_succ_cons]
    exact List.mem_cons_of_mem _ h

/-- The ways `evaluate` returns SUCCESS, and the moves of the record of the board after each:
the record was of status DONE_PARTIAL and its bound cut the window; or the depths of the
record sufficed; or the loop ran over all moves, and the moves, with their pointers, are in
the order of the specification; or the loop ended with a cutoff at an index `k`, and the moves
at the indices 1 to `k`, with their pointers, are in the order of the specification, the
others being in their places. -/
theorem evaluate_paths (fuel : Nat) (board : Board) (s : SearchState)
    (toDepth minWhite maxBlack toQsDepth : Int) (fromQuietMove : Bool)
    (out : SearchState × EvalResult) (r : EvalRecord)
    (hT : Cache.Evaluated s.evals)
    (h : evaluate fuel board s toDepth minWhite maxBlack toQsDepth fromQuietMove = some out)
    (hres : out.2.result = EvalResultCode.SUCCESS)
    (hfind : out.1.evals.find board = some r) :
    ((∃ score, partialCutoff board
        (((lookupRecord s board).1.evals.find board).getD EvalRecord.new)
        toDepth minWhite maxBlack toQsDepth = some score)
      ∧ r.evalStatus = EvalStatus.DONE_PARTIAL)
    ∨ (depthAchieved (entryRecord s board) toDepth toQsDepth fromQuietMove = true
      ∧ r.evalStatus ≠ EvalStatus.DONE_PARTIAL)
    ∨ (r.evalStatus = EvalStatus.DONE_COMPLETE
      ∧ r.moves.Perm (entryRecord s board).moves
      ∧ BestFirst out.1.evals board.getMovingSide
          (pointedScores out.1.evals board (entryRecord s board)
            (searchModeOf (entryRecord s board) toDepth) r.moves))
    ∨ (r.evalStatus = EvalStatus.DONE_PARTIAL
      ∧ ∃ k : Nat,
        (entryRecord s board).moves.get? k = some r.bestMove
        ∧ r.moves = (entryRecord s board).moves.take 1 ++ (r.moves.drop 1).take k
            ++ (entryRecord s board).moves.drop (k + 1)
        ∧ ((r.moves.drop 1).take k).Perm (((entryRecord s board).moves.drop 1).take k)
        ∧ BestFirst out.1.evals board.getMovingSide
            (pointedScores out.1.evals board (entryRecord s board)
              (searchModeOf (entryRecord s board) toDepth) ((r.moves.drop 1).take k))) := by
  cases fuel with
  | zero =>
    rw [evaluate] at h
    exact Option.noConfusion h
  | succ fuel =>
    obtain ⟨r1, hr1⟩ := lookupRecord_find s board
    have hc := evaluate_cases fuel board s toDepth minWhite maxBlack toQsDepth fromQuietMove
      out h
    unfold entryRecord
    simp only [hr1, Option.getD_some] at hc ⊢
    have hl := lookupRecord_evaluated s board hT
    rcases hc with ⟨_, rfl⟩ | ⟨_, _, rfl⟩ | ⟨_, hst, score, hpc, rfl⟩ | ⟨_, hst, _, hc⟩
    · exact EvalResultCode.noConfusion hres
    · exact EvalResultCode.noConfusion hres
    · left
      refine ⟨⟨score, hpc⟩, ?_⟩
      have e : some r1 = some r := hr1.symm.trans hfind
      rw [← Option.some.inj e]
      exact partialCutoff_status board r1 toDepth minWhite maxBlack toQsDepth score hpc
    · obtain ⟨r2, hr2, hst2⟩ := resetPartial_find (lookupRecord s board).1 board r1 hr1 hst
      have hreset := resetPartial_evaluated (lookupRecord s board).1 board r1 hl
      have hmark := markInEvaluation_evaluated _ board hreset
      have hinm : Cache.InEval (markInEvaluation (resetPartial (lookupRecord s board).1 board
          r1) board).evals board :=
        (markInEvaluation_inEval _ board r2 hr2 board).mpr (Or.inr (Board.beq_refl board))
      simp only [hr2, Option.getD_some] at hc ⊢
      have hloop : ∀ b s d mw mb q fq out, evaluate fuel b s d mw mb q fq = some out →
          out.2.result = EvalResultCode.LOOP → Cache.InEval s.evals b := by
        intro b s d mw mb q fq out he hr
        obtain ⟨_, r0, a1, a2⟩ := evaluate_loop_inv fuel b s d mw mb q fq out he hr
        exact ⟨r0, a1, a2⟩
      rcases hc with ⟨hda, rfl⟩ | ⟨_, ⟨s3, rr, hsl, rfl⟩ | ⟨s3, l3, hsl, rfl⟩⟩
      · right; left
        exact ⟨hda, resetPartial_status (lookupRecord s board).1 board r1 r hr1 hfind⟩
      · right; right; right
        have hsc := searchLoop_scores (evaluate fuel) (evaluate_inEval fuel)
          (evaluate_evaluated fuel) (evaluate_success fuel) hloop board r2
          (searchModeOf r2 toDepth)
          toDepth toQsDepth r2.moves r2.moves [] _ _ _ rfl
          (initLoop_ok _ board r2 minWhite maxBlack) rfl hmark hsl
        obtain ⟨k, move, s2, moveScores, setBound, _, hk, hok, hT2, hin2, he, hpt⟩ := hsc hres
        obtain ⟨r0, hr0, _⟩ := (hin2 board).mpr hinm
        have hfind2 : (cutoffWrites s2.evals board r2 toDepth toQsDepth k move moveScores
            setBound).find board = some r := by
          rw [← he]
          exact hfind
        obtain ⟨c1, c2, evals1, c3, c4⟩ := cutoffWrites_moves s2.evals board r2 toDepth toQsDepth
          k move moveScores setBound r0 r hr0 hfind2
        have hklt : k < r2.moves.length := by
          rw [List.get?_eq_getElem?] at hk
          exact (List.getElem?_eq_some_iff.mp hk).1
        have hperm : ((sortBy (bestScoreFirst evals1)
            ((moveScores.drop 1).take (k + 1 - 1))).map (fun m => m.move)).Perm
              ((r2.moves.drop 1).take k) := by
          refine ((sortBy_perm _ _).map _).trans ?_
          rw [List.map_take, List.map_drop, hok.1, Nat.add_sub_cancel]
        have hmid : (r.moves.drop 1).take k
            = (sortBy (bestScoreFirst evals1) ((moveScores.drop 1).take (k + 1 - 1))).map
                (fun m => m.move) := by
          have hl1 : (r2.moves.take 1).length = 1 := by
            rw [List.length_take]
            omega
          have hl2 : ((sortBy (bestScoreFirst evals1)
              ((moveScores.drop 1).take (k + 1 - 1))).map (fun m => m.move)).length = k := by
            rw [List.Perm.length_eq hperm, List.length_take, List.length_drop]
            omega
          rw [c4, sortMoveScores_moves, List.append_assoc, List.drop_left' hl1,
            List.take_left' hl2]
        have hcongr : ∀ b, ¬ board.beq b = true →
            (Cache.InEval s2.evals b ↔ Cache.InEval s3.evals b) := by
          intro b hb
          rw [he, cutoffWrites_inEval]
          exact ⟨fun hh => ⟨hh, hb⟩, fun hh => hh.1⟩
        have hsorted : sortBy (bestScoreFirst evals1) ((moveScores.drop 1).take (k + 1 - 1))
            = pointedScores s3.evals board r2 (searchModeOf r2 toDepth)
                ((r.moves.drop 1).take k) := by
          rw [hmid, ← pointedScores_congr s2.evals s3.evals board r2 (searchModeOf r2 toDepth) _
            hcongr]
          refine pointedScores_of_mem s2.evals board r2 (searchModeOf r2 toDepth)
            (r2.moves.take (k + 1)) _ ?_
          intro m hm
          have hm2 := take_drop_mem moveScores k m (by
            have := (sortBy_perm (bestScoreFirst evals1) _).subset hm
            rw [Nat.add_sub_cancel] at this
            exact this)
          have hlenA : (pointedScores s2.evals board r2 (searchModeOf r2 toDepth)
              (r2.moves.take (k + 1))).length = k + 1 := by
            unfold pointedScores
            rw [List.length_map, List.length_take]
            omega
          rw [hpt, List.take_left' hlenA] at hm2
          exact hm2
        refine ⟨c1, k, ?_, ?_, ?_, ?_⟩
        · rw [c2]
          exact hk
        · rw [hmid, c4]
          rfl
        · rw [hmid]
          exact hperm
        · show BestFirst s3.evals board.getMovingSide _
          rw [← hsorted, he]
          refine sortBy_bestFirst s2.evals evals1 _ board r2.moves moveScores _ hok hT2
            ((hin2 board).mpr hinm) c3 ?_ ?_
          · intro b hb
            exact cutoffWrites_other s2.evals board r2 toDepth toQsDepth k move moveScores
              setBound b hb
          · intro m hm
            exact List.mem_of_mem_drop (List.mem_of_mem_take hm)
      · right; right; left
        have hsc := searchLoop_scores (evaluate fuel) (evaluate_inEval fuel)
          (evaluate_evaluated fuel) (evaluate_success fuel) hloop board r2
          (searchModeOf r2 toDepth)
          toDepth toQsDepth r2.moves r2.moves [] _ _ _ rfl
          (initLoop_ok _ board r2 minWhite maxBlack) rfl hmark hsl
        obtain ⟨hok, hT3, hpt⟩ := hsc
        have hin3 := searchLoop_inEval (evaluate fuel) (evaluate_inEval fuel) board r2
          (searchModeOf r2 toDepth) toDepth toQsDepth r2.moves 0 _ _ _ hsl
        have hinb : Cache.InEval s3.evals board := (hin3 board).mpr hinm
        obtain ⟨r0, hr0, _⟩ := hinb
        obtain ⟨c1, evals1, c3, c4⟩ := finish_moves board r2 toDepth toQsDepth s3 l3 r0 r hr0
          hfind
        have hlen : l3.moveScores.length = r2.moves.length := by
          rw [← hok.1, List.length_map]
        have hmoves : r.moves = (sortBy (bestScoreFirst evals1) l3.moveScores).map
            (fun m => m.move) := by
          rw [c4, sortMoveScores_moves, List.take_zero, List.drop_zero, Nat.sub_zero,
            List.drop_length, List.nil_append, List.append_nil, ← hlen, List.take_length]
        have hcongr : ∀ b, ¬ board.beq b = true →
            (Cache.InEval s3.evals b
              ↔ Cache.InEval (finish board r2 toDepth toQsDepth s3 l3).1.evals b) := by
          intro b hb
          rw [finish_inEval]
          exact ⟨fun hh => ⟨hh, hb⟩, fun hh => hh.1⟩
        have hsorted : sortBy (bestScoreFirst evals1) l3.moveScores
            = pointedScores (finish board r2 toDepth toQsDepth s3 l3).1.evals board r2
                (searchModeOf r2 toDepth) r.moves := by
          rw [hmoves, ← pointedScores_congr s3.evals _ board r2 (searchModeOf r2 toDepth) _
            hcongr]
          refine pointedScores_of_mem s3.evals board r2 (searchModeOf r2 toDepth) r2.moves _ ?_
          intro m hm
          rw [← hpt]
          exact (sortBy_perm _ _).subset hm
        refine ⟨c1, ?_, ?_⟩
        · rw [hmoves, ← hok.1]
          exact (sortBy_perm _ _).map _
        · rw [← hsorted]
          refine sortBy_bestFirst s3.evals evals1 _ board r2.moves l3.moveScores _ hok hT3
            ⟨r0, hr0, by assumption⟩ c3 ?_ (fun m hm => hm)
          intro b hb
          exact finish_other board r2 toDepth toQsDepth s3 l3 b hb

end Engine

namespace Engine

theorem pointedScores_all (evals : Cache) (board : Board) (record : EvalRecord)
    (moves : List Move) (h0 : ∀ b, ¬ Cache.InEval evals b) :
    pointedScores evals board record SearchMode.REGULAR moves = childScores board moves := by
  unfold pointedScores childScores
  apply List.map_congr_left
  intro m _
  rw [pointerOf_set evals board record SearchMode.REGULAR m (by unfold examineMove; simp)
    (h0 _)]

/-- C28: when `evaluate` returns SUCCESS after its loop has run over all moves (the depths of
the record did not suffice at the start and the record of the board is of status DONE_COMPLETE
at the end), the moves of the record are the moves it had, sorted best first by the order of
the specification on the table at the return, where the child record of a move is the record
of the board the move leads to when the loop examined the move and that record is not of
status IN_EVALUATION, and a move has no child record otherwise. When no record of the table
was of status IN_EVALUATION at the call and the search mode is REGULAR, every move has the
record of the board it leads to as child record. -/
theorem moves_sorted (fuel : Nat) (board : Board) (s : SearchState)
    (toDepth minWhite maxBlack toQsDepth : Int) (fromQuietMove : Bool)
    (hT : Cache.Evaluated s.evals)
    (hnot : depthAchieved (entryRecord s board) toDepth toQsDepth fromQuietMove = false)
    (hres : (evaluate fuel board s toDepth minWhite maxBlack toQsDepth fromQuietMove).map
      (fun out => out.2.result) = some EvalResultCode.SUCCESS)
    (hst : ((evaluate fuel board s toDepth minWhite maxBlack toQsDepth fromQuietMove).bind
      (fun out => out.1.evals.find board)).map (fun r => r.evalStatus)
        = some EvalStatus.DONE_COMPLETE) :
    ∃ (out : SearchState × EvalResult) (r : EvalRecord),
      evaluate fuel board s toDepth minWhite maxBlack toQsDepth fromQuietMove = some out
      ∧ out.1.evals.find board = some r
      ∧ r.moves.Perm (entryRecord s board).moves
      ∧ BestFirst out.1.evals board.getMovingSide
          (pointedScores out.1.evals board (entryRecord s board)
            (searchModeOf (entryRecord s board) toDepth) r.moves)
      ∧ ((∀ b, ¬ Cache.InEval s.evals b) →
          searchModeOf (entryRecord s board) toDepth = SearchMode.REGULAR →
          BestFirst out.1.evals board.getMovingSide (childScores board r.moves)) := by
  cases h : evaluate fuel board s toDepth minWhite maxBlack toQsDepth fromQuietMove with
  | none =>
    rw [h] at hres
    exact Option.noConfusion hres
  | some out =>
    rw [h] at hres hst
    have hres2 : out.2.result = EvalResultCode.SUCCESS := Option.some.inj hres
    cases hf : out.1.evals.find board with
    | none =>
      rw [Option.some_bind, hf] at hst
      exact Option.noConfusion hst
    | some r =>
      rw [Option.some_bind, hf] at hst
      have hst2 : r.evalStatus = EvalStatus.DONE_COMPLETE := Option.some.inj hst
      rcases evaluate_paths fuel board s toDepth minWhite maxBlack toQsDepth fromQuietMove out r
        hT h hres2 hf with ⟨_, c⟩ | ⟨c, _⟩ | ⟨_, c1, c2⟩ | ⟨c, _⟩
      · rw [hst2] at c
        exact EvalStatus.noConfusion c
      · rw [hnot] at c
        exact Bool.noConfusion c
      · refine ⟨out, r, rfl, hf, c1, c2, fun h0 hmode => ?_⟩
        rw [hmode] at c2
        rw [← pointedScores_all out.1.evals board (entryRecord s board) r.moves
          (fun b hb => h0 b ((evaluate_inEval fuel board s toDepth minWhite maxBlack toQsDepth
            fromQuietMove out h b).mp hb))]
        exact c2
      · rw [hst2] at c
        exact EvalStatus.noConfusion c

set_option maxRecDepth 1000000 in
theorem moves_sorted_witness :
    ∃ (out : SearchState × EvalResult) (r : EvalRecord),
      evaluate 4 quietSearchBoard ⟨[], EvalContext.make 0 1 (fun _ => 0)⟩ 1 MIN_SCORE MAX_SCORE 2
        true = some out
      ∧ out.1.evals.find quietSearchBoard = some r
      ∧ r.moves.Perm
          (entryRecord ⟨[], EvalContext.make 0 1 (fun _ => 0)⟩ quietSearchBoard).moves
      ∧ BestFirst out.1.evals quietSearchBoard.getMovingSide
          (childScores quietSearchBoard r.moves) := by
  obtain ⟨out, r, h1, h2, h3, _, h5⟩ :=
    moves_sorted 4 quietSearchBoard ⟨[], EvalContext.make 0 1 (fun _ => 0)⟩ 1 MIN_SCORE
      MAX_SCORE 2 true (fun _ _ h => Option.noConfusion h) (by decide) (by decide) (by decide)
  exact ⟨out, r, h1, h2, h3, h5 (fun b h => by obtain ⟨r, h1, _⟩ := h; exact Option.noConfusion h1)
    (by decide)⟩

set_option maxRecDepth 1000000 in
/-- C29, counterexample: on the board with the two kings, White to move, with depth 1 and the
window from `MIN_SCORE` to 20, `evaluate` ends with a cutoff at the move of index 2 of the
moves 1, 8, 9; after it the moves of the record are 1, 9, 8, and this list, with the records
of the three child boards, is not in the order of the specification: the child of the move 9
has the score 25, that of the first move 1 the score 10. -/
theorem cutoff_order_counterexample :
    ∃ (out : SearchState × EvalResult) (r : EvalRecord),
      evaluate 3 twoKingsBoard ⟨[], EvalContext.make 0 1 (fun _ => 0)⟩ 1 MIN_SCORE 20 0 true
        = some out
      ∧ out.2.result = EvalResultCode.SUCCESS
      ∧ out.1.evals.find twoKingsBoard = some r
      ∧ r.evalStatus = EvalStatus.DONE_PARTIAL
      ∧ (evaluateBoard twoKingsBoard).moves = [⟨1⟩, ⟨8⟩, ⟨9⟩]
      ∧ r.bestMove = ⟨9⟩
      ∧ r.moves = [⟨1⟩, ⟨9⟩, ⟨8⟩]
      ∧ (childScores twoKingsBoard r.moves).map (fun m => (m.deref out.1.evals).map
          (fun c => (c.evalStatus, c.score)))
          = [some (EvalStatus.DONE_COMPLETE, 10), some (EvalStatus.DONE_COMPLETE, 25),
              some (EvalStatus.DONE_COMPLETE, 10)]
      ∧ ¬ BestFirst out.1.evals twoKingsBoard.getMovingSide
          (childScores twoKingsBoard r.moves) :=
  ⟨(evaluate 3 twoKingsBoard ⟨[], EvalContext.make 0 1 (fun _ => 0)⟩ 1 MIN_SCORE 20 0 true).get
      (by decide),
    ((evaluate 3 twoKingsBoard ⟨[], EvalContext.make 0 1 (fun _ => 0)⟩ 1 MIN_SCORE 20 0
      true).get (by decide)).1.evals.find twoKingsBoard |>.get (by decide),
    by simp only [Option.some_get], by decide, by simp only [Option.some_get], by decide,
    by decide, by decide, by decide, by decide, by unfold BestFirst; decide⟩

end Engine

namespace Engine

/-- C29, amended: when `evaluate` returns SUCCESS with a cutoff in its loop (the stored bound
of the record did not cut the window at the start and the record of the board is of status
DONE_PARTIAL at the end), at the index `k` of the best move of the record, the first move of
the record and the moves after the index `k` are in their places, and the moves at the indices
1 to `k` are the moves that were there, sorted best first by the order of the specification on
the table at the return, where the child record of a move is the record of the board the move
leads to when the loop examined the move and that record is not of status IN_EVALUATION, and
a move has no child record otherwise. -/
theorem cutoff_order (fuel : Nat) (board : Board) (s : SearchState)
    (toDepth minWhite maxBlack toQsDepth : Int) (fromQuietMove : Bool)
    (hT : Cache.Evaluated s.evals)
    (hpc : partialCutoff board (((lookupRecord s board).1.evals.find board).getD EvalRecord.new)
      toDepth minWhite maxBlack toQsDepth = none)
    (hres : (evaluate fuel board s toDepth minWhite maxBlack toQsDepth fromQuietMove).map
      (fun out => out.2.result) = some EvalResultCode.SUCCESS)
    (hst : ((evaluate fuel board s toDepth minWhite maxBlack toQsDepth fromQuietMove).bind
      (fun out => out.1.evals.find board)).map (fun r => r.evalStatus)
        = some EvalStatus.DONE_PARTIAL) :
    ∃ (out : SearchState × EvalResult) (r : EvalRecord) (k : Nat),
      evaluate fuel board s toDepth minWhite maxBlack toQsDepth fromQuietMove = some out
      ∧ out.1.evals.find board = some r
      ∧ (entryRecord s board).moves.get? k = some r.bestMove
      ∧ r.moves = (entryRecord s board).moves.take 1 ++ (r.moves.drop 1).take k
          ++ (entryRecord s board).moves.drop (k + 1)
      ∧ ((r.moves.drop 1).take k).Perm (((entryRecord s board).moves.drop 1).take k)
      ∧ BestFirst out.1.evals board.getMovingSide
          (pointedScores out.1.evals board (entryRecord s board)
            (searchModeOf (entryRecord s board) toDepth) ((r.moves.drop 1).take k))
      ∧ ((∀ b, ¬ Cache.InEval s.evals b) →
          searchModeOf (entryRecord s board) toDepth = SearchMode.REGULAR →
          BestFirst out.1.evals board.getMovingSide
            (childScores board ((r.moves.drop 1).take k))) := by
  cases h : evaluate fuel board s toDepth minWhite maxBlack toQsDepth fromQuietMove with
  | none =>
    rw [h] at hres
    exact Option.noConfusion hres
  | some out =>
    rw [h] at hres hst
    have hres2 : out.2.result = EvalResultCode.SUCCESS := Option.some.inj hres
    cases hf : out.1.evals.find board with
    | none =>
      rw [Option.some_bind, hf] at hst
      exact Option.noConfusion hst
    | some r =>
      rw [Option.some_bind, hf] at hst
      have hst2 : r.evalStatus = EvalStatus.DONE_PARTIAL := Option.some.inj hst
      rcases evaluate_paths fuel board s toDepth minWhite maxBlack toQsDepth fromQuietMove out r
        hT h hres2 hf with ⟨⟨score, c⟩, _⟩ | ⟨_, c⟩ | ⟨c, _⟩ | ⟨_, k, c1, c2, c3, c4⟩
      · rw [hpc] at c
        exact Option.noConfusion c
      · exact absurd hst2 c
      · rw [hst2] at c
        exact EvalStatus.noConfusion c
      · refine ⟨out, r, k, rfl, hf, c1, c2, c3, c4, fun h0 hmode => ?_⟩
        rw [hmode] at c4
        rw [← pointedScores_all out.1.evals board (entryRecord s board) _
          (fun b hb => h0 b ((evaluate_inEval fuel board s toDepth minWhite maxBlack toQsDepth
            fromQuietMove out h b).mp hb))]
        exact c4

set_option maxRecDepth 1000000 in
theorem cutoff_order_witness :
    ∃ (out : SearchState × EvalResult) (r : EvalRecord) (k : Nat),
      evaluate 3 twoKingsBoard ⟨[], EvalContext.make 0 1 (fun _ => 0)⟩ 1 MIN_SCORE 20 0 true
        = some out
      ∧ out.1.evals.find twoKingsBoard = some r
      ∧ (entryRecord ⟨[], EvalContext.make 0 1 (fun _ => 0)⟩ twoKingsBoard).moves.get? k
          = some r.bestMove
      ∧ r.moves = (entryRecord ⟨[], EvalContext.make 0 1 (fun _ => 0)⟩ twoKingsBoard).moves.take 1
          ++ (r.moves.drop 1).take k
          ++ (entryRecord ⟨[], EvalContext.make 0 1 (fun _ => 0)⟩ twoKingsBoard).moves.drop (k + 1)
      ∧ BestFirst out.1.evals twoKingsBoard.getMovingSide
          (childScores twoKingsBoard ((r.moves.drop 1).take k)) := by
  obtain ⟨out, r, k, h1, h2, h3, h4, _, _, h7⟩ :=
    cutoff_order 3 twoKingsBoard ⟨[], EvalContext.make 0 1 (fun _ => 0)⟩ 1 MIN_SCORE 20 0 true
      (fun _ _ h => Option.noConfusion h) (by decide) (by decide) (by decide)
  exact ⟨out, r, k, h1, h2, h3, h4,
    h7 (fun b h => by obtain ⟨r, h1, _⟩ := h; exact Option.noConfusion h1) (by decide)⟩

end Engine

/-! ## Score symmetry under the mirror -/

theorem Side.other_other (s : Side) : s.other.other = s := by cases s <;> rfl

theorem Side.other_ne_self (s : Side) : s.other ≠ s := by cases s <;> decide

theorem Side.other_eq_iff (s t : Side) : s.other = t.other ↔ s = t := by
  cases s <;> cases t <;> decide

theorem Side.ne_iff_eq_other (s t : Side) : s ≠ t ↔ s = t.other := by
  cases s <;> cases t <;> decide

theorem getSideSign_other (s : Side) : Board.getSideSign s.other = - Board.getSideSign s := by
  cases s <;> rfl

theorem mirrorIndex_lt (i : Nat) (h : i < 64) : mirrorIndex i < 64 := by
  unfold mirrorIndex
  rw [if_pos h]
  omega

theorem mirrorIndex_invol (i : Nat) : mirrorIndex (mirrorIndex i) = i := by
  unfold mirrorIndex
  by_cases h : i < 64
  · rw [if_pos h]
    have h2 : 8 * (7 - i / 8) + i % 8 < 64 := by omega
    rw [if_pos h2]
    omega
  · rw [if_neg h, if_neg h]

theorem mirrorIndex_perm : ((List.range 64).map mirrorIndex).Perm (List.range 64) := by
  decide

namespace Square

theorem swapBit_cases (s : Square) :
    (if s.getSideBit = SideBit.WHITE then SideBit.BLACK else SideBit.WHITE) = 0
      ∨ (if s.getSideBit = SideBit.WHITE then SideBit.BLACK else SideBit.WHITE) = 8 := by
  by_cases h : s.getSideBit = SideBit.WHITE
  · rw [if_pos h]
    exact Or.inr rfl
  · rw [if_neg h]
    exact Or.inl rfl

theorem swapSide_getPieceType (s : Square) : s.swapSide.getPieceType = s.getPieceType := by
  unfold swapSide
  by_cases h : s.getPieceType = PieceType.NO_PIECE
  · rw [if_pos h]
  · rw [if_neg h]
    exact make_getPieceType _ _ _ _ (getPieceType_lt s) (swapBit_cases s)
      (getMovedBit_cases s) (getPawnMovedTwiceBit_cases s)

theorem swapSide_getMovedBit (s : Square) : s.swapSide.getMovedBit = s.getMovedBit := by
  unfold swapSide
  by_cases h : s.getPieceType = PieceType.NO_PIECE
  · rw [if_pos h]
  · rw [if_neg h]
    exact make_getMovedBit _ _ _ _ (getPieceType_lt s) (swapBit_cases s)
      (getMovedBit_cases s) (getPawnMovedTwiceBit_cases s)

theorem swapSide_getPawnMovedTwiceBit (s : Square) :
    s.swapSide.getPawnMovedTwiceBit = s.getPawnMovedTwiceBit := by
  unfold swapSide
  by_cases h : s.getPieceType = PieceType.NO_PIECE
  · rw [if_pos h]
  · rw [if_neg h]
    exact make_getPawnMovedTwiceBit _ _ _ _ (getPieceType_lt s) (swapBit_cases s)
      (getMovedBit_cases s) (getPawnMovedTwiceBit_cases s)

theorem swapSide_getSide (s : Square) (h : s.getPieceType ≠ PieceType.NO_PIECE) :
    Board.getSide s.swapSide.getSideBit = (Board.getSide s.getSideBit).other := by
  unfold swapSide
  rw [if_neg h, make_getSideBit _ _ _ _ (getPieceType_lt s) (swapBit_cases s)
      (getMovedBit_cases s) (getPawnMovedTwiceBit_cases s)]
  by_cases hs : s.getSideBit = SideBit.WHITE
  · rw [if_pos hs, hs]
    rfl
  · rw [if_neg hs]
    unfold Board.getSide
    rw [if_neg hs]
    rfl

end Square

namespace Board

theorem mirror_squares (B : Board) (i : Nat) (h : i < 64) :
    B.mirror.squares (mirrorIndex i) = (B.squares i).swapSide := by
  unfold mirror
  dsimp only
  rw [if_pos (mirrorIndex_lt i h), mirrorIndex_invol]

theorem mirror_getMovingSide (B : Board) : B.mirror.getMovingSide = B.getMovingSide.other := by
  unfold mirror
  exact getMovingSide_setMovingSide B _

end Board

namespace Engine

theorem ownCount_addScore (st : EvalState) (d : Int) (s : Side) (j : Nat) :
    (st.addScore d).evalContext.ownCount s j = st.evalContext.ownCount s j := rfl

theorem ownCount_pushMove (st : EvalState) (m : Move) (s : Side) (j : Nat) :
    (st.pushMove m).evalContext.ownCount s j = st.evalContext.ownCount s j := rfl

theorem ownCount_count (st : EvalState) (p : Position) (s : Side) (j : Nat)
    (hp : p.data < 64) :
    (st.count p s).evalContext.ownCount s j
      = st.evalContext.ownCount s j + (if j = p.data then 1 else 0) := by
  cases s <;>
    simp only [EvalState.count, countAttackerDefender, HeuristicsContext.ownCount, if_pos hp] <;>
    split_ifs <;> simp

theorem mirrorEff_add (e g : Int × Nat × (Nat → Int)) :
    mirrorEff (e + g) = mirrorEff e + mirrorEff g := by
  unfold mirrorEff
  refine Prod.ext ?_ (Prod.ext ?_ ?_)
  · simp only [Prod.fst_add]
    omega
  · simp only [Prod.fst_add, Prod.snd_add]
  · funext j
    simp only [Prod.snd_add, Pi.add_apply]

theorem mirrorEff_zero : mirrorEff 0 = 0 := by
  unfold mirrorEff
  refine Prod.ext ?_ (Prod.ext ?_ ?_)
  · simp
  · simp
  · funext j
    simp

theorem mirrorEff_sum (l : List (Int × Nat × (Nat → Int))) :
    mirrorEff l.sum = (l.map mirrorEff).sum := by
  induction l with
  | nil => exact mirrorEff_zero
  | cons x rest ih =>
    rw [List.sum_cons, mirrorEff_add, ih, List.map_cons, List.sum_cons]


theorem acts_id (sd : Side) (E : Nat → Int) : Acts sd E (fun st => st) 0 := by
  intro st h
  refine ⟨h, ?_, ?_, ?_, fun hr => hr⟩
  · simp
  · simp
  · intro j
    simp

theorem acts_addScore (sd : Side) (E : Nat → Int) (x : Int) :
    Acts sd E (fun st => st.addScore x) (x, 0, fun _ => 0) := by
  intro st h
  refine ⟨h, ?_, rfl, fun j => by simp [ownCount_addScore], fun _ => ?_⟩
  · show (wrapI16 (st.record.score + x) - st.record.score - x) % 65536 = 0
    unfold wrapI16
    omega
  · show -32768 ≤ wrapI16 (st.record.score + x) ∧ wrapI16 (st.record.score + x) ≤ 32767
    unfold wrapI16
    omega

theorem acts_pushMove (sd : Side) (E : Nat → Int) (m : Move) :
    Acts sd E (fun st => st.pushMove m) (0, 1, fun _ => 0) := by
  intro st h
  refine ⟨h, ?_, ?_, fun j => by simp [ownCount_pushMove], fun hr => hr⟩
  · show (st.record.score - st.record.score - 0) % 65536 = 0
    simp
  · show (st.record.moves ++ [m]).length = st.record.moves.length + 1
    simp

theorem acts_count (sd : Side) (E : Nat → Int) (p : Position) (hp : p.data < 64) :
    Acts sd E (fun st => st.count p sd) (0, 0, fun j => if j = p.data then 1 else 0) := by
  intro st h
  refine ⟨fun j => ?_, ?_, rfl, fun j => ownCount_count st p sd j hp, fun hr => hr⟩
  · rw [enemyCount_count _ _ _ _ hp]
    exact h j
  · show (st.record.score - st.record.score - 0) % 65536 = 0
    simp

theorem acts_comp (sd : Side) (E : Nat → Int) (F G : EvalState → EvalState)
    (e g : Int × Nat × (Nat → Int)) (hF : Acts sd E F e) (hG : Acts sd E G g) :
    Acts sd E (fun st => G (F st)) (e + g) := by
  intro st h
  obtain ⟨a1, a2, a3, a4, a5⟩ := hF st h
  obtain ⟨b1, b2, b3, b4, b5⟩ := hG (F st) a1
  refine ⟨b1, ?_, ?_, fun j => ?_, fun hr => b5 (a5 hr)⟩
  · simp only [Prod.fst_add]
    omega
  · simp only [Prod.fst_add, Prod.snd_add]
    omega
  · simp only [Prod.snd_add, Pi.add_apply]
    rw [b4 j, a4 j]
    omega

theorem acts_congr (sd : Side) (E : Nat → Int) (F F2 : EvalState → EvalState)
    (e : Int × Nat × (Nat → Int))
    (h : ∀ st : EvalState, (∀ j, st.evalContext.enemyCount sd j = E j) → F st = F2 st)
    (hF : Acts sd E F2 e) : Acts sd E F e := by
  intro st hst
  rw [h st hst]
  exact hF st hst

theorem acts_foldl {α : Type} (sd : Side) (E : Nat → Int) (f : α → EvalState → EvalState)
    (e : α → Int × Nat × (Nat → Int)) :
    ∀ l : List α, (∀ x ∈ l, Acts sd E (f x) (e x)) →
      Acts sd E (fun st => l.foldl (fun st x => f x st) st) (l.map e).sum := by
  intro l
  induction l with
  | nil =>
    intro _
    exact acts_id sd E
  | cons x rest ih =>
    intro h
    have h1 := h x (List.mem_cons_self _ _)
    have h2 := ih (fun y hy => h y (List.mem_cons_of_mem _ hy))
    rw [List.map_cons, List.sum_cons]
    exact acts_comp sd E (f x) (fun st => rest.foldl (fun st x => f x st) st) _ _ h1 h2


theorem sum_bound {α : Type} (e : α → Int × Nat × (Nat → Int)) (n : α → Int) :
    ∀ l : List α, (∀ x ∈ l, |(e x).1| ≤ n x ∧ 5 ∣ (e x).1) →
      |((l.map e).sum).1| ≤ (l.map n).sum ∧ 5 ∣ ((l.map e).sum).1 := by
  intro l
  induction l with
  | nil =>
    intro _
    simp
  | cons x rest ih =>
    intro h
    obtain ⟨a1, a2⟩ := h x (List.mem_cons_self _ _)
    obtain ⟨b1, b2⟩ := ih (fun y hy => h y (List.mem_cons_of_mem _ hy))
    rw [List.map_cons, List.sum_cons, List.map_cons, List.sum_cons, Prod.fst_add]
    exact ⟨(abs_add _ _).trans (add_le_add a1 b1), dvd_add a2 b2⟩


theorem mir_id (sd : Side) (E : Nat → Int) : Mir sd E 0 (fun st => st) (fun st => st) := by
  refine ⟨0, acts_id sd E, ?_, by simp, by simp⟩
  rw [mirrorEff_zero]
  exact acts_id _ _

theorem mir_addScore (sd : Side) (E : Nat → Int) (x : Int) (h5 : 5 ∣ x) :
    Mir sd E |x| (fun st => st.addScore x) (fun st => st.addScore (-x)) :=
  ⟨(x, 0, fun _ => 0), acts_addScore sd E x, acts_addScore _ _ (-x), le_refl _, h5⟩

theorem mir_pushMove (sd : Side) (E : Nat → Int) (m m2 : Move) :
    Mir sd E 0 (fun st => st.pushMove m) (fun st => st.pushMove m2) := by
  refine ⟨(0, 1, fun _ => 0), acts_pushMove sd E m, ?_, by simp, by simp⟩
  have : mirrorEff (0, 1, fun _ => 0) = (0, 1, fun _ => 0) := by
    unfold mirrorEff
    simp
  rw [this]
  exact acts_pushMove _ _ m2

theorem mir_count (sd : Side) (E : Nat → Int) (p p2 : Position)
    (h : p2.data = mirrorIndex p.data) (hp : p.data < 64) :
    Mir sd E 0 (fun st => st.count p sd) (fun st => st.count p2 sd.other) := by
  have hp2 : p2.data < 64 := by
    rw [h]
    exact mirrorIndex_lt _ hp
  refine ⟨(0, 0, fun j => if j = p.data then 1 else 0), acts_count sd E p hp, ?_, by simp,
    by simp⟩
  have : mirrorEff (0, 0, fun j => if j = p.data then 1 else 0)
      = (0, 0, fun j => if j = p2.data then 1 else 0) := by
    unfold mirrorEff
    refine Prod.ext (by simp) (Prod.ext rfl ?_)
    funext j
    show (if mirrorIndex j = p.data then (1 : Int) else 0) = if j = p2.data then 1 else 0
    have hiff : mirrorIndex j = p.data ↔ j = p2.data := by
      rw [h]
      constructor
      · intro h1
        rw [← h1, mirrorIndex_invol]
      · intro h1
        rw [h1, mirrorIndex_invol]
    by_cases hj : j = p2.data
    · rw [if_pos hj, if_pos (hiff.mpr hj)]
    · rw [if_neg hj, if_neg (fun h1 => hj (hiff.mp h1))]
  rw [this]
  exact acts_count _ _ p2 hp2

theorem mir_comp (sd : Side) (E : Nat → Int) (n k : Int) (F F2 G G2 : EvalState → EvalState)
    (hF : Mir sd E n F F2) (hG : Mir sd E k G G2) :
    Mir sd E (n + k) (fun st => G (F st)) (fun st => G2 (F2 st)) := by
  obtain ⟨e, a1, a2, a3, a4⟩ := hF
  obtain ⟨g, b1, b2, b3, b4⟩ := hG
  refine ⟨e + g, acts_comp sd E F G e g a1 b1, ?_, ?_, ?_⟩
  · rw [mirrorEff_add]
    exact acts_comp _ _ F2 G2 _ _ a2 b2
  · rw [Prod.fst_add]
    exact (abs_add _ _).trans (add_le_add a3 b3)
  · rw [Prod.fst_add]
    exact dvd_add a4 b4

/-- Composition with the order of the mirrored steps swapped. -/
theorem mir_comp_swap (sd : Side) (E : Nat → Int) (n k : Int)
    (F F2 G G2 : EvalState → EvalState)
    (hF : Mir sd E n F F2) (hG : Mir sd E k G G2) :
    Mir sd E (n + k) (fun st => G (F st)) (fun st => F2 (G2 st)) := by
  obtain ⟨e, a1, a2, a3, a4⟩ := hF
  obtain ⟨g, b1, b2, b3, b4⟩ := hG
  refine ⟨e + g, acts_comp sd E F G e g a1 b1, ?_, ?_, ?_⟩
  · rw [mirrorEff_add, add_comm]
    exact acts_comp _ _ G2 F2 _ _ b2 a2
  · rw [Prod.fst_add]
    exact (abs_add _ _).trans (add_le_add a3 b3)
  · rw [Prod.fst_add]
    exact dvd_add a4 b4

theorem mir_mono (sd : Side) (E : Nat → Int) (n k : Int) (F F2 : EvalState → EvalState)
    (hnk : n ≤ k) (h : Mir sd E n F F2) : Mir sd E k F F2 := by
  obtain ⟨e, a1, a2, a3, a4⟩ := h
  exact ⟨e, a1, a2, a3.trans hnk, a4⟩

theorem mir_congr (sd : Side) (E : Nat → Int) (n : Int) (F F2 G G2 : EvalState → EvalState)
    (h1 : ∀ st : EvalState, (∀ j, st.evalContext.enemyCount sd j = E j) → F st = G st)
    (h2 : ∀ st : EvalState, (∀ j, st.evalContext.enemyCount sd.other j = E (mirrorIndex j)) →
      F2 st = G2 st)
    (h : Mir sd E n G G2) : Mir sd E n F F2 := by
  obtain ⟨e, a1, a2, a3, a4⟩ := h
  exact ⟨e, acts_congr sd E F G e h1 a1, acts_congr _ _ F2 G2 _ h2 a2, a3, a4⟩

/-- A loop over a list, when the mirrored loop meets the mirrored steps in another order:
the step of `x` mirrors the mirrored step of `ν x`, for a map `ν` that permutes the list. -/
theorem mir_foldl {α : Type} (sd : Side) (E : Nat → Int) (l : List α) (ν : α → α)
    (hν : ∀ x, ν (ν x) = x) (hperm : (l.map ν).Perm l) (n : α → Int)
    (f f2 : α → EvalState → EvalState)
    (h : ∀ x ∈ l, Mir sd E (n x) (f x) (f2 (ν x))) :
    Mir sd E (l.map n).sum (fun st => l.foldl (fun st x => f x st) st)
      (fun st => l.foldl (fun st x => f2 x st) st) := by
  have h' : ∀ x, ∃ e : Int × Nat × (Nat → Int), x ∈ l → (Acts sd E (f x) e
      ∧ Acts sd.other (fun j => E (mirrorIndex j)) (f2 (ν x)) (mirrorEff e)
      ∧ |e.1| ≤ n x ∧ 5 ∣ e.1) := by
    intro x
    by_cases hx : x ∈ l
    · obtain ⟨e, he⟩ := h x hx
      exact ⟨e, fun _ => he⟩
    · exact ⟨0, fun hx2 => absurd hx2 hx⟩
  choose e he using h'
  have hmem : ∀ y ∈ l, ν y ∈ l := fun y hy =>
    hperm.subset (List.mem_map_of_mem ν hy)
  refine ⟨(l.map e).sum, acts_foldl sd E f e l (fun x hx => (he x hx).1), ?_,
    sum_bound e n l (fun x hx => (he x hx).2.2)⟩
  have hsum : mirrorEff (l.map e).sum = (l.map (fun y => mirrorEff (e (ν y)))).sum := by
    rw [← (hperm.map e).sum_eq, mirrorEff_sum, List.map_map, List.map_map]
    rfl
  rw [hsum]
  refine acts_foldl _ _ f2 (fun y => mirrorEff (e (ν y))) l (fun y hy => ?_)
  have := (he (ν y) (hmem y hy)).2.1
  rw [hν y] at this
  exact this


end Engine

theorem rowcolok_mirror (r : Int) : rowcolok (7 - r) = rowcolok r := by
  unfold rowcolok
  by_cases h1 : r ≥ 0 <;> by_cases h2 : r < 8 <;> simp [h1, h2] <;> omega

theorem Position.ofRC_mirror (r c : Int) (hr : 0 ≤ r ∧ r < 8) (hc : 0 ≤ c ∧ c < 8) :
    (Position.ofRC (7 - r) c).data = mirrorIndex (Position.ofRC r c).data := by
  have h1 := Position.ofRC_data r c hr hc
  have h2 := Position.ofRC_data (7 - r) c ⟨by omega, by omega⟩ hc
  have h3 := Position.ofRC_lt r c hr hc
  unfold mirrorIndex
  rw [if_pos h3]
  omega

theorem Position.mirror_getRow (i : Nat) (hi : i < 64) :
    ((⟨mirrorIndex i⟩ : Position).getRow : Int) = 7 - ((⟨i⟩ : Position).getRow : Int) := by
  rw [Position.getRow_eq, Position.getRow_eq]
  unfold mirrorIndex
  rw [if_pos hi]
  show (((8 * (7 - i / 8) + i % 8) / 8 : Nat) : Int) = 7 - ((i / 8 : Nat) : Int)
  omega

theorem Position.mirror_getCol (i : Nat) (hi : i < 64) :
    ((⟨mirrorIndex i⟩ : Position).getCol : Int) = ((⟨i⟩ : Position).getCol : Int) := by
  rw [Position.getCol_eq, Position.getCol_eq]
  unfold mirrorIndex
  rw [if_pos hi]
  show (((8 * (7 - i / 8) + i % 8) % 8 : Nat) : Int) = ((i % 8 : Nat) : Int)
  omega

namespace Board

theorem mirror_getSquare (B : Board) (i : Nat) (hi : i < 64) :
    B.mirror.getSquare ⟨mirrorIndex i⟩ = (B.getSquare ⟨i⟩).swapSide :=
  mirror_squares B i hi

theorem mirror_getSquare_ofRC (B : Board) (r c : Int) (hr : 0 ≤ r ∧ r < 8)
    (hc : 0 ≤ c ∧ c < 8) :
    B.mirror.getSquare (Position.ofRC (7 - r) c) = (B.getSquare (Position.ofRC r c)).swapSide := by
  unfold getSquare
  rw [Position.ofRC_mirror r c hr hc]
  exact mirror_squares B _ (Position.ofRC_lt r c hr hc)

end Board

namespace Engine

/-- The test of `evaluateRayMove` and of the king loop on the target square gives the same
on the mirrored board. -/
theorem free_mirror (a : Square) (sd : Side) :
    (a.swapSide.getPieceType = PieceType.NO_PIECE
      ∨ Board.getSide a.swapSide.getSideBit ≠ sd.other)
    ↔ (a.getPieceType = PieceType.NO_PIECE ∨ Board.getSide a.getSideBit ≠ sd) := by
  rw [Square.swapSide_getPieceType]
  by_cases h : a.getPieceType = PieceType.NO_PIECE
  · simp only [h, true_or]
  · rw [Square.swapSide_getSide a h]
    simp only [h, false_or, ne_eq, Side.other_eq_iff]

theorem evaluateRayMove_mir (B : Board) (E : Nat → Int) (i : Nat) (hi : i < 64)
    (hne : (B.getSquare ⟨i⟩).getPieceType ≠ PieceType.NO_PIECE) (r c : Int) :
    Mir (Board.getSide (B.getSquare ⟨i⟩).getSideBit) E 5
      (fun st => (evaluateRayMove B st ⟨i⟩ r c).1)
      (fun st => (evaluateRayMove B.mirror st ⟨mirrorIndex i⟩ (7 - r) c).1) := by
  have hsq := Board.mirror_getSquare B i hi
  have hside := Square.swapSide_getSide _ hne
  by_cases hrc : rowcolok r = true ∧ rowcolok c = true
  · obtain ⟨hr, hc⟩ := hrc
    have hr2 : rowcolok (7 - r) = true := by rw [rowcolok_mirror]; exact hr
    have hr' := (rowcolok_iff r).mp hr
    have hc' := (rowcolok_iff c).mp hc
    have hA := Board.mirror_getSquare_ofRC B r c hr' hc'
    have hp := Position.ofRC_mirror r c hr' hc'
    have hfree := free_mirror (B.getSquare (Position.ofRC r c))
      (Board.getSide (B.getSquare ⟨i⟩).getSideBit)
    have h5 : (5 : Int) ∣ CAN_MOVE_BONUS * Board.getSideSign
        (Board.getSide (B.getSquare ⟨i⟩).getSideBit) := Dvd.intro _ rfl
    have habs : |CAN_MOVE_BONUS * Board.getSideSign
        (Board.getSide (B.getSquare ⟨i⟩).getSideBit)| ≤ 5 := by
      rcases sign_cases (Board.getSide (B.getSquare ⟨i⟩).getSideBit) with h | h <;>
        rw [h] <;> decide
    have hneg : CAN_MOVE_BONUS * Board.getSideSign
        (Board.getSide (B.getSquare ⟨i⟩).getSideBit).other
        = -(CAN_MOVE_BONUS * Board.getSideSign (Board.getSide (B.getSquare ⟨i⟩).getSideBit)) := by
      rw [getSideSign_other]
      ring
    have hcount := mir_count (Board.getSide (B.getSquare ⟨i⟩).getSideBit) E
      (Position.ofRC r c) (Position.ofRC (7 - r) c) hp (Position.ofRC_lt r c hr' hc')
    have hadd := mir_addScore (Board.getSide (B.getSquare ⟨i⟩).getSideBit) E _ h5
    by_cases hf : (B.getSquare (Position.ofRC r c)).getPieceType = PieceType.NO_PIECE
        ∨ Board.getSide (B.getSquare (Position.ofRC r c)).getSideBit
          ≠ Board.getSide (B.getSquare ⟨i⟩).getSideBit
    · have hf2 := hfree.mpr hf
      by_cases hm : Board.getSide (B.getSquare ⟨i⟩).getSideBit = B.getMovingSide
      · have hm2 : (Board.getSide (B.getSquare ⟨i⟩).getSideBit).other
            = B.mirror.getMovingSide := by
          rw [Board.mirror_getMovingSide, hm]
        refine mir_congr _ E 5 _ _
          (fun st => ((st.addScore (CAN_MOVE_BONUS * Board.getSideSign
            (Board.getSide (B.getSquare ⟨i⟩).getSideBit))).pushMove
              (Move.make ⟨i⟩ (Position.ofRC r c)
                (if (B.getSquare (Position.ofRC r c)).getPieceType = PieceType.NO_PIECE
                  then MoveType.MOVE else MoveType.CAPTURE) PieceType.NO_PIECE)).count
            (Position.ofRC r c) (Board.getSide (B.getSquare ⟨i⟩).getSideBit))
          (fun st => ((st.addScore (-(CAN_MOVE_BONUS * Board.getSideSign
            (Board.getSide (B.getSquare ⟨i⟩).getSideBit)))).pushMove
              (Move.make ⟨mirrorIndex i⟩ (Position.ofRC (7 - r) c)
                (if (B.mirror.getSquare (Position.ofRC (7 - r) c)).getPieceType
                    = PieceType.NO_PIECE
                  then MoveType.MOVE else MoveType.CAPTURE) PieceType.NO_PIECE)).count
            (Position.ofRC (7 - r) c) (Board.getSide (B.getSquare ⟨i⟩).getSideBit).other)
          ?_ ?_ ?_
        · intro st _
          unfold evaluateRayMove
          simp only [hr, hc, Bool.not_true, Bool.or_self, Bool.false_eq_true, if_false,
            make_toU8]
          rw [if_pos hf, if_pos hm]
        · intro st _
          unfold evaluateRayMove
          simp only [hr2, hc, Bool.not_true, Bool.or_self, Bool.false_eq_true, if_false,
            make_toU8, hsq, hside, hA]
          rw [if_pos hf2, if_pos hm2, hneg]
        · exact mir_mono _ E _ 5 _ _ (by omega)
            (mir_comp _ E _ _ _ _ _ _ (mir_comp _ E _ _ _ _ _ _ hadd
              (mir_pushMove _ E _ _)) hcount)
      · have hm2 : ¬ (Board.getSide (B.getSquare ⟨i⟩).getSideBit).other
            = B.mirror.getMovingSide := by
          rw [Board.mirror_getMovingSide, Side.other_eq_iff]
          exact hm
        refine mir_congr _ E 5 _ _
          (fun st => (st.addScore (CAN_MOVE_BONUS * Board.getSideSign
            (Board.getSide (B.getSquare ⟨i⟩).getSideBit))).count
            (Position.ofRC r c) (Board.getSide (B.getSquare ⟨i⟩).getSideBit))
          (fun st => (st.addScore (-(CAN_MOVE_BONUS * Board.getSideSign
            (Board.getSide (B.getSquare ⟨i⟩).getSideBit)))).count
            (Position.ofRC (7 - r) c) (Board.getSide (B.getSquare ⟨i⟩).getSideBit).other)
          ?_ ?_ ?_
        · intro st _
          unfold evaluateRayMove
          simp only [hr, hc, Bool.not_true, Bool.or_self, Bool.false_eq_true, if_false,
            make_toU8]
          rw [if_pos hf, if_neg hm]
        · intro st _
          unfold evaluateRayMove
          simp only [hr2, hc, Bool.not_true, Bool.or_self, Bool.false_eq_true, if_false,
            make_toU8, hsq, hside, hA]
          rw [if_pos hf2, if_neg hm2, hneg]
        · exact mir_mono _ E _ 5 _ _ (by omega) (mir_comp _ E _ _ _ _ _ _ hadd hcount)
    · have hf2 : ¬ _ := fun h => hf (hfree.mp h)
      refine mir_congr _ E 5 _ _
        (fun st => st.count (Position.ofRC r c) (Board.getSide (B.getSquare ⟨i⟩).getSideBit))
        (fun st => st.count (Position.ofRC (7 - r) c)
          (Board.getSide (B.getSquare ⟨i⟩).getSideBit).other)
        ?_ ?_ ?_
      · intro st _
        unfold evaluateRayMove
        simp only [hr, hc, Bool.not_true, Bool.or_self, Bool.false_eq_true, if_false,
          make_toU8]
        rw [if_neg hf]
      · intro st _
        unfold evaluateRayMove
        simp only [hr2, hc, Bool.not_true, Bool.or_self, Bool.false_eq_true, if_false,
          make_toU8, hsq, hside, hA]
        rw [if_neg hf2]
      · exact mir_mono _ E _ 5 _ _ (by omega) hcount
  · have hrc2 : ¬ (rowcolok (7 - r) = true ∧ rowcolok c = true) := by
      rw [rowcolok_mirror]
      exact hrc
    refine mir_congr _ E 5 _ _ (fun st => st) (fun st => st) ?_ ?_
      (mir_mono _ E 0 5 _ _ (by omega) (mir_id _ E))
    · intro st _
      unfold evaluateRayMove
      have : (!rowcolok r || !rowcolok c) = true := by
        by_cases h1 : rowcolok r = true
        · by_cases h2 : rowcolok c = true
          · exact absurd ⟨h1, h2⟩ hrc
          · simp [h2]
        · simp [h1]
      rw [if_pos this]
    · intro st _
      unfold evaluateRayMove
      have : (!rowcolok (7 - r) || !rowcolok c) = true := by
        by_cases h1 : rowcolok (7 - r) = true
        · by_cases h2 : rowcolok c = true
          · exact absurd ⟨h1, h2⟩ hrc2
          · simp [h2]
        · simp [h1]
      rw [if_pos this]

/-- The flag `rayEnds` of `evaluateRayMove` is the same on the mirrored board. -/
theorem evaluateRayMove_ends_mirror (B : Board) (st st2 : EvalState) (pos pos2 : Position)
    (r c : Int) :
    (evaluateRayMove B.mirror st2 pos2 (7 - r) c).2 = (evaluateRayMove B st pos r c).2 := by
  rw [Bool.eq_iff_iff, evaluateRayMove_ends, evaluateRayMove_ends, rowcolok_mirror]
  by_cases hrc : rowcolok r = true ∧ rowcolok c = true
  · rw [Board.mirror_getSquare_ofRC B r c ((rowcolok_iff r).mp hrc.1)
      ((rowcolok_iff c).mp hrc.2), Square.swapSide_getPieceType]
  · simp only [hrc, not_false_eq_true, true_or]

end Engine

namespace Engine

theorem rayLoop_mir (B : Board) (E : Nat → Int) (i : Nat) (hi : i < 64)
    (hne : (B.getSquare ⟨i⟩).getPieceType ≠ PieceType.NO_PIECE)
    (inRange inRange2 : Int → Int → Bool) (hin : ∀ r c, inRange2 (7 - r) c = inRange r c)
    (dR dC dR2 : Int) (hd : dR2 = -dR) :
    ∀ (fuel : Nat) (r c r2 : Int), r2 = 7 - r →
      Mir (Board.getSide (B.getSquare ⟨i⟩).getSideBit) E (5 * fuel)
        (rayLoop B ⟨i⟩ inRange dR dC fuel r c)
        (rayLoop B.mirror ⟨mirrorIndex i⟩ inRange2 dR2 dC fuel r2 c) := by
  intro fuel
  induction fuel with
  | zero =>
    intro r c r2 _
    exact mir_id _ E
  | succ fuel ih =>
    intro r c r2 hr2
    subst hr2
    subst hd
    have hstep := evaluateRayMove_mir B E i hi hne r c
    by_cases hr : inRange r c = true
    · have hr' : inRange2 (7 - r) c = true := by rw [hin]; exact hr
      by_cases hend : ¬ (rowcolok r = true ∧ rowcolok c = true)
          ∨ (B.getSquare (Position.ofRC r c)).getPieceType ≠ PieceType.NO_PIECE
      · have he : ∀ st, (evaluateRayMove B st ⟨i⟩ r c).2 = true := fun st =>
          (evaluateRayMove_ends B st ⟨i⟩ r c).mpr hend
        refine mir_congr _ E _ _ _ (fun st => (evaluateRayMove B st ⟨i⟩ r c).1)
          (fun st => (evaluateRayMove B.mirror st ⟨mirrorIndex i⟩ (7 - r) c).1) ?_ ?_
          (mir_mono _ E 5 _ _ _ (by push_cast; omega) hstep)
        · intro st _
          rw [rayLoop]
          simp only [hr, if_true, he st]
        · intro st _
          rw [rayLoop]
          simp only [hr', if_true, evaluateRayMove_ends_mirror B st st ⟨i⟩ ⟨mirrorIndex i⟩ r c,
            he st]
      · have he : ∀ st, (evaluateRayMove B st ⟨i⟩ r c).2 = false := fun st => by
          cases h : (evaluateRayMove B st ⟨i⟩ r c).2
          · rfl
          · exact absurd ((evaluateRayMove_ends B st ⟨i⟩ r c).mp h) hend
        have hrec := ih (r + dR) (c + dC) (7 - r + -dR) (by ring)
        refine mir_congr _ E _ _ _
          (fun st => rayLoop B ⟨i⟩ inRange dR dC fuel (r + dR) (c + dC)
            (evaluateRayMove B st ⟨i⟩ r c).1)
          (fun st => rayLoop B.mirror ⟨mirrorIndex i⟩ inRange2 (-dR) dC fuel (7 - r + -dR)
            (c + dC) (evaluateRayMove B.mirror st ⟨mirrorIndex i⟩ (7 - r) c).1) ?_ ?_
          (mir_mono _ E _ _ _ _ (by push_cast; omega) (mir_comp _ E _ _ _ _ _ _ hstep hrec))
        · intro st _
          rw [rayLoop]
          simp only [hr, if_true, he st, Bool.false_eq_true, if_false]
        · intro st _
          rw [rayLoop]
          simp only [hr', if_true, evaluateRayMove_ends_mirror B st st ⟨i⟩ ⟨mirrorIndex i⟩ r c,
            he st, Bool.false_eq_true, if_false]
    · have hr' : ¬ inRange2 (7 - r) c = true := by rw [hin]; exact hr
      refine mir_congr _ E _ _ _ (fun st => st) (fun st => st) ?_ ?_
        (mir_mono _ E 0 _ _ _ (by push_cast; omega) (mir_id _ E))
      · intro st _
        rw [rayLoop]
        simp only [hr, Bool.false_eq_true, if_false]
      · intro st _
        rw [rayLoop]
        simp only [hr', Bool.false_eq_true, if_false]

theorem rookRays_mir (B : Board) (E : Nat → Int) (i : Nat) (hi : i < 64)
    (hne : (B.getSquare ⟨i⟩).getPieceType ≠ PieceType.NO_PIECE) (row col : Int) :
    Mir (Board.getSide (B.getSquare ⟨i⟩).getSideBit) E 160
      (rookRays B ⟨i⟩ row col) (rookRays B.mirror ⟨mirrorIndex i⟩ (7 - row) col) := by
  have up := rayLoop_mir B E i hi hne (fun r _ => decide (r < 8)) (fun r _ => decide (r ≥ 0))
    (fun r c => by simp only [decide_eq_decide]; omega) 1 0 (-1) rfl 8 (row + 1) col
    (7 - row - 1) (by ring)
  have down := rayLoop_mir B E i hi hne (fun r _ => decide (r ≥ 0)) (fun r _ => decide (r < 8))
    (fun r c => by simp only [decide_eq_decide]; omega) (-1) 0 1 (by norm_num) 8 (row - 1) col
    (7 - row + 1) (by ring)
  have right := rayLoop_mir B E i hi hne (fun _ c => decide (c < 8)) (fun _ c => decide (c < 8))
    (fun r c => rfl) 0 1 0 (by norm_num) 8 row (col + 1) (7 - row) rfl
  have left := rayLoop_mir B E i hi hne (fun _ c => decide (c ≥ 0)) (fun _ c => decide (c ≥ 0))
    (fun r c => rfl) 0 (-1) 0 (by norm_num) 8 row (col - 1) (7 - row) rfl
  have h := mir_comp _ E _ _ _ _ _ _
    (mir_comp _ E _ _ _ _ _ _ (mir_comp_swap _ E _ _ _ _ _ _ up down) right) left
  exact mir_mono _ E _ _ _ _ (by norm_num) h

theorem bishopRays_mir (B : Board) (E : Nat → Int) (i : Nat) (hi : i < 64)
    (hne : (B.getSquare ⟨i⟩).getPieceType ≠ PieceType.NO_PIECE) (row col : Int) :
    Mir (Board.getSide (B.getSquare ⟨i⟩).getSideBit) E 160
      (bishopRays B ⟨i⟩ row col) (bishopRays B.mirror ⟨mirrorIndex i⟩ (7 - row) col) := by
  have a := rayLoop_mir B E i hi hne (fun r _ => decide (r < 8)) (fun r _ => decide (r ≥ 0))
    (fun r c => by simp only [decide_eq_decide]; omega) 1 1 (-1) rfl 8 (row + 1) (col + 1)
    (7 - row - 1) (by ring)
  have b := rayLoop_mir B E i hi hne (fun r _ => decide (r < 8)) (fun r _ => decide (r ≥ 0))
    (fun r c => by simp only [decide_eq_decide]; omega) 1 (-1) (-1) rfl 8 (row + 1) (col - 1)
    (7 - row - 1) (by ring)
  have c := rayLoop_mir B E i hi hne (fun r _ => decide (r ≥ 0)) (fun r _ => decide (r < 8))
    (fun r c => by simp only [decide_eq_decide]; omega) (-1) (-1) 1 (by norm_num) 8 (row - 1) (col - 1)
    (7 - row + 1) (by ring)
  have d := rayLoop_mir B E i hi hne (fun r _ => decide (r ≥ 0)) (fun r _ => decide (r < 8))
    (fun r c => by simp only [decide_eq_decide]; omega) (-1) 1 1 (by norm_num) 8 (row - 1) (col + 1)
    (7 - row + 1) (by ring)
  -- the mirrored loops run in the order d, c, b, a
  have h := mir_comp_swap _ E _ _ _ _ _ _
    (mir_comp_swap _ E _ _ _ _ _ _ (mir_comp_swap _ E _ _ _ _ _ _ a b) c) d
  exact mir_mono _ E _ _ _ _ (by norm_num) h

theorem knightDeltas_perm :
    (knightDeltas.map (fun x : Int × Int => (-x.1, x.2))).Perm knightDeltas := by
  decide

theorem knightMoves_mir (B : Board) (E : Nat → Int) (i : Nat) (hi : i < 64)
    (hne : (B.getSquare ⟨i⟩).getPieceType ≠ PieceType.NO_PIECE) (row col : Int) :
    Mir (Board.getSide (B.getSquare ⟨i⟩).getSideBit) E 40
      (knightMoves B ⟨i⟩ row col) (knightMoves B.mirror ⟨mirrorIndex i⟩ (7 - row) col) := by
  have h := mir_foldl (Board.getSide (B.getSquare ⟨i⟩).getSideBit) E knightDeltas
    (fun x : Int × Int => (-x.1, x.2)) (fun x => by simp) knightDeltas_perm (fun _ => 5)
    (fun x st => (evaluateRayMove B st ⟨i⟩ (row + x.1) (col + x.2)).1)
    (fun x st => (evaluateRayMove B.mirror st ⟨mirrorIndex i⟩ (7 - row + x.1) (col + x.2)).1)
    (fun x _ => by
      have := evaluateRayMove_mir B E i hi hne (row + x.1) (col + x.2)
      have e : 7 - (row + x.1) = 7 - row + -x.1 := by ring
      rw [e] at this
      exact this)
  exact mir_mono _ E _ _ _ _ (by decide) h

end Engine

namespace Engine

theorem sideBit_mirror (B : Board) (sq : Square) (hne : sq.getPieceType ≠ PieceType.NO_PIECE) :
    sq.swapSide.getSideBit = Board.getSideBit B.mirror.getMovingSide
      ↔ sq.getSideBit = Board.getSideBit B.getMovingSide := by
  rw [sideBit_eq_iff, sideBit_eq_iff, Square.swapSide_getSide sq hne, Board.mirror_getMovingSide,
    Side.other_eq_iff]

theorem sign_mirror (sq : Square) (hne : sq.getPieceType ≠ PieceType.NO_PIECE) :
    Board.getSideSign (Board.getSide sq.swapSide.getSideBit)
      = - Board.getSideSign (Board.getSide sq.getSideBit) := by
  rw [Square.swapSide_getSide sq hne, getSideSign_other]

theorem bonus_mir (sd : Side) (E : Nat → Int) (k : Int) (s : Int) (hs : s = 1 ∨ s = -1) :
    Mir sd E (5 * |k|) (fun st => st.addScore (5 * k * s))
      (fun st => st.addScore (5 * k * -s)) := by
  have h := mir_addScore sd E (5 * k * s) (Dvd.intro (k * s) (by ring))
  have e : -(5 * k * s) = 5 * k * -s := by ring
  rw [e] at h
  refine mir_mono sd E _ _ _ _ ?_ h
  rcases hs with rfl | rfl
  · rw [mul_one, abs_mul]
    norm_num
  · rw [mul_neg, mul_one, abs_neg, abs_mul]
    norm_num

theorem pawnForward_mir (B : Board) (E : Nat → Int) (i : Nat)
    (hne : (B.getSquare ⟨i⟩).getPieceType ≠ PieceType.NO_PIECE) (row col : Int)
    (hcol : 0 ≤ col ∧ col < 8) :
    Mir (Board.getSide (B.getSquare ⟨i⟩).getSideBit) E 5
      (pawnForward B (Board.getSideBit B.getMovingSide) ⟨i⟩ (B.getSquare ⟨i⟩) row col)
      (pawnForward B.mirror (Board.getSideBit B.mirror.getMovingSide) ⟨mirrorIndex i⟩
        (B.getSquare ⟨i⟩).swapSide (7 - row) col) := by
  have hsign := sign_mirror _ hne
  have hbit := sideBit_mirror B _ hne
  have hadd := bonus_mir (Board.getSide (B.getSquare ⟨i⟩).getSideBit) E 1
    (Board.getSideSign (Board.getSide (B.getSquare ⟨i⟩).getSideBit)) (sign_cases _)
  have e1 : (5 : Int) * 1 * Board.getSideSign (Board.getSide (B.getSquare ⟨i⟩).getSideBit)
      = CAN_MOVE_BONUS * Board.getSideSign (Board.getSide (B.getSquare ⟨i⟩).getSideBit) := by
    ring
  have e2 : (5 : Int) * 1 * -Board.getSideSign (Board.getSide (B.getSquare ⟨i⟩).getSideBit)
      = CAN_MOVE_BONUS * -Board.getSideSign (Board.getSide (B.getSquare ⟨i⟩).getSideBit) := by
    ring
  rw [e1, e2] at hadd
  have e3 : 7 - row + -Board.getSideSign (Board.getSide (B.getSquare ⟨i⟩).getSideBit)
      = 7 - (row + Board.getSideSign (Board.getSide (B.getSquare ⟨i⟩).getSideBit)) := by ring
  by_cases hok : rowcolok (row + Board.getSideSign (Board.getSide (B.getSquare ⟨i⟩).getSideBit))
      = true
  · have hok' := (rowcolok_iff _).mp hok
    have hok2 : rowcolok (7 - (row + Board.getSideSign
        (Board.getSide (B.getSquare ⟨i⟩).getSideBit))) = true := by
      rw [rowcolok_mirror]; exact hok
    have hA := Board.mirror_getSquare_ofRC B _ col hok' hcol
    by_cases hemp : (B.getSquare (Position.ofRC (row + Board.getSideSign
        (Board.getSide (B.getSquare ⟨i⟩).getSideBit)) col)).getPieceType = PieceType.NO_PIECE
    · have hemp2 : ((B.getSquare (Position.ofRC (row + Board.getSideSign
          (Board.getSide (B.getSquare ⟨i⟩).getSideBit)) col)).swapSide).getPieceType
          = PieceType.NO_PIECE := by
        rw [Square.swapSide_getPieceType]; exact hemp
      by_cases hm : (B.getSquare ⟨i⟩).getSideBit = Board.getSideBit B.getMovingSide
      · refine mir_congr _ E 5 _ _ _ _ ?_ ?_ (mir_mono _ E _ 5 _ _ (by norm_num)
          (mir_comp _ E _ _ _ _ _ _ hadd (mir_pushMove _ E
            (Move.make ⟨i⟩ (Position.ofRC (row + Board.getSideSign
              (Board.getSide (B.getSquare ⟨i⟩).getSideBit)) col) MoveType.MOVE
              (promotionOf (Board.getSide (B.getSquare ⟨i⟩).getSideBit) (row + Board.getSideSign
                (Board.getSide (B.getSquare ⟨i⟩).getSideBit))))
            (Move.make ⟨mirrorIndex i⟩ (Position.ofRC (7 - (row + Board.getSideSign
              (Board.getSide (B.getSquare ⟨i⟩).getSideBit))) col) MoveType.MOVE
              (promotionOf (Board.getSide (B.getSquare ⟨i⟩).swapSide.getSideBit)
                (7 - (row + Board.getSideSign
                  (Board.getSide (B.getSquare ⟨i⟩).getSideBit))))))))
        · intro st _
          unfold pawnForward
          simp only [getSquareRC_eq, make_toU8, promotion_eq]
          rw [if_pos hok, if_pos hemp, if_pos hm]
        · intro st _
          unfold pawnForward
          simp only [getSquareRC_eq, make_toU8, promotion_eq, hsign, e3, hA]
          rw [if_pos hok2, if_pos hemp2, if_pos (hbit.mpr hm)]
      · refine mir_congr _ E 5 _ _ _ _ ?_ ?_ (mir_mono _ E _ 5 _ _ (by norm_num) hadd)
        · intro st _
          unfold pawnForward
          simp only [getSquareRC_eq, make_toU8, promotion_eq]
          rw [if_pos hok, if_pos hemp, if_neg hm]
        · intro st _
          unfold pawnForward
          simp only [getSquareRC_eq, make_toU8, promotion_eq, hsign, e3, hA]
          rw [if_pos hok2, if_pos hemp2, if_neg (fun h => hm (hbit.mp h))]
    · have hemp2 : ¬ ((B.getSquare (Position.ofRC (row + Board.getSideSign
          (Board.getSide (B.getSquare ⟨i⟩).getSideBit)) col)).swapSide).getPieceType
          = PieceType.NO_PIECE := by
        rw [Square.swapSide_getPieceType]; exact hemp
      refine mir_congr _ E 5 _ _ _ _ ?_ ?_ (mir_mono _ E 0 5 _ _ (by norm_num) (mir_id _ E))
      · intro st _
        unfold pawnForward
        simp only [getSquareRC_eq, make_toU8, promotion_eq]
        rw [if_pos hok, if_neg hemp]
      · intro st _
        unfold pawnForward
        simp only [getSquareRC_eq, make_toU8, promotion_eq, hsign, e3, hA]
        rw [if_pos hok2, if_neg hemp2]
  · have hok2 : ¬ rowcolok (7 - (row + Board.getSideSign
        (Board.getSide (B.getSquare ⟨i⟩).getSideBit))) = true := by
      rw [rowcolok_mirror]; exact hok
    refine mir_congr _ E 5 _ _ _ _ ?_ ?_ (mir_mono _ E 0 5 _ _ (by norm_num) (mir_id _ E))
    · intro st _
      unfold pawnForward
      simp only [getSquareRC_eq, make_toU8, promotion_eq]
      rw [if_neg hok]
    · intro st _
      unfold pawnForward
      simp only [getSquareRC_eq, make_toU8, promotion_eq, hsign, e3]
      rw [if_neg hok2]

end Engine

namespace Engine

theorem swapSide_getSideBit (a : Square) (ha : a.getPieceType ≠ PieceType.NO_PIECE) :
    a.swapSide.getSideBit = if a.getSideBit = SideBit.WHITE then SideBit.BLACK else SideBit.WHITE := by
  unfold Square.swapSide
  rw [if_neg ha]
  exact Square.make_getSideBit _ _ _ _ (Square.getPieceType_lt a) (Square.swapBit_cases a)
    (Square.getMovedBit_cases a) (Square.getPawnMovedTwiceBit_cases a)

theorem sideBit_ne_mirror (a b : Square) (ha : a.getPieceType ≠ PieceType.NO_PIECE)
    (hb : b.getPieceType ≠ PieceType.NO_PIECE) :
    a.swapSide.getSideBit ≠ b.swapSide.getSideBit ↔ a.getSideBit ≠ b.getSideBit := by
  rw [swapSide_getSideBit a ha, swapSide_getSideBit b hb]
  rcases Square.getSideBit_cases a with h1 | h1 <;> rcases Square.getSideBit_cases b with h2 | h2 <;>
    rw [h1, h2] <;> decide

theorem pawnTwiceForward_mir (B : Board) (E : Nat → Int) (i : Nat)
    (hne : (B.getSquare ⟨i⟩).getPieceType ≠ PieceType.NO_PIECE) (row col : Int)
    (hcol : 0 ≤ col ∧ col < 8) :
    Mir (Board.getSide (B.getSquare ⟨i⟩).getSideBit) E 5
      (pawnTwiceForward B (Board.getSideBit B.getMovingSide) ⟨i⟩ (B.getSquare ⟨i⟩) row col)
      (pawnTwiceForward B.mirror (Board.getSideBit B.mirror.getMovingSide) ⟨mirrorIndex i⟩
        (B.getSquare ⟨i⟩).swapSide (7 - row) col) := by
  have hsign := sign_mirror _ hne
  have hside := Square.swapSide_getSide _ hne
  have hbit := sideBit_mirror B _ hne
  have hadd := bonus_mir (Board.getSide (B.getSquare ⟨i⟩).getSideBit) E 1
    (Board.getSideSign (Board.getSide (B.getSquare ⟨i⟩).getSideBit)) (sign_cases _)
  have e1 : (5 : Int) * 1 * Board.getSideSign (Board.getSide (B.getSquare ⟨i⟩).getSideBit)
      = CAN_MOVE_BONUS * Board.getSideSign (Board.getSide (B.getSquare ⟨i⟩).getSideBit) := by
    ring
  have e2 : (5 : Int) * 1 * -Board.getSideSign (Board.getSide (B.getSquare ⟨i⟩).getSideBit)
      = CAN_MOVE_BONUS * -Board.getSideSign (Board.getSide (B.getSquare ⟨i⟩).getSideBit) := by
    ring
  rw [e1, e2] at hadd
  have e3 : 7 - row + -Board.getSideSign (Board.getSide (B.getSquare ⟨i⟩).getSideBit)
      = 7 - (row + Board.getSideSign (Board.getSide (B.getSquare ⟨i⟩).getSideBit)) := by ring
  have e4 : 7 - row + 2 * -Board.getSideSign (Board.getSide (B.getSquare ⟨i⟩).getSideBit)
      = 7 - (row + 2 * Board.getSideSign (Board.getSide (B.getSquare ⟨i⟩).getSideBit)) := by
    ring
  have hstart : (7 - row = if (Board.getSide (B.getSquare ⟨i⟩).getSideBit).other = Side.WHITE
        then (1 : Int) else 6)
      ↔ (row = if Board.getSide (B.getSquare ⟨i⟩).getSideBit = Side.WHITE
        then (1 : Int) else 6) := by
    cases Board.getSide (B.getSquare ⟨i⟩).getSideBit <;>
      simp only [Side.other, if_true, if_false, reduceCtorEq] <;> omega
  by_cases hc : (row = if Board.getSide (B.getSquare ⟨i⟩).getSideBit = Side.WHITE
        then (1 : Int) else 6)
      ∧ rowcolok (row + 2 * Board.getSideSign (Board.getSide (B.getSquare ⟨i⟩).getSideBit))
        = true
  · have hc2 : (7 - row = if (Board.getSide (B.getSquare ⟨i⟩).getSideBit).other = Side.WHITE
          then (1 : Int) else 6)
        ∧ rowcolok (7 - (row + 2 * Board.getSideSign
          (Board.getSide (B.getSquare ⟨i⟩).getSideBit))) = true :=
      ⟨hstart.mpr hc.1, by rw [rowcolok_mirror]; exact hc.2⟩
    have h2 := (rowcolok_iff _).mp hc.2
    have h1 : 0 ≤ row + Board.getSideSign (Board.getSide (B.getSquare ⟨i⟩).getSideBit)
        ∧ row + Board.getSideSign (Board.getSide (B.getSquare ⟨i⟩).getSideBit) < 8 := by
      have := hc.1
      rcases sign_cases (Board.getSide (B.getSquare ⟨i⟩).getSideBit) with hs | hs <;>
        rw [hs] at h2 ⊢ <;> split_ifs at this <;> omega
    have hA1 := Board.mirror_getSquare_ofRC B _ col h1 hcol
    have hA2 := Board.mirror_getSquare_ofRC B _ col h2 hcol
    by_cases hemp : (B.getSquare (Position.ofRC (row + Board.getSideSign
          (Board.getSide (B.getSquare ⟨i⟩).getSideBit)) col)).getPieceType = PieceType.NO_PIECE
        ∧ (B.getSquare (Position.ofRC (row + 2 * Board.getSideSign
          (Board.getSide (B.getSquare ⟨i⟩).getSideBit)) col)).getPieceType
            = PieceType.NO_PIECE
    · have hemp2 : ((B.getSquare (Position.ofRC (row + Board.getSideSign
            (Board.getSide (B.getSquare ⟨i⟩).getSideBit)) col)).swapSide).getPieceType
            = PieceType.NO_PIECE
          ∧ ((B.getSquare (Position.ofRC (row + 2 * Board.getSideSign
            (Board.getSide (B.getSquare ⟨i⟩).getSideBit)) col)).swapSide).getPieceType
              = PieceType.NO_PIECE := by
        rw [Square.swapSide_getPieceType, Square.swapSide_getPieceType]; exact hemp
      by_cases hm : (B.getSquare ⟨i⟩).getSideBit = Board.getSideBit B.getMovingSide
      · refine mir_congr _ E 5 _ _ _ _ ?_ ?_ (mir_mono _ E _ 5 _ _ (by norm_num)
          (mir_comp _ E _ _ _ _ _ _ hadd (mir_pushMove _ E
            (Move.make ⟨i⟩ (Position.ofRC (row + 2 * Board.getSideSign
              (Board.getSide (B.getSquare ⟨i⟩).getSideBit)) col) MoveType.MOVE
              PieceType.NO_PIECE)
            (Move.make ⟨mirrorIndex i⟩ (Position.ofRC (7 - (row + 2 * Board.getSideSign
              (Board.getSide (B.getSquare ⟨i⟩).getSideBit))) col) MoveType.MOVE
              PieceType.NO_PIECE))))
        · intro st _
          unfold pawnTwiceForward
          simp only [getSquareRC_eq, make_toU8]
          rw [if_pos hc, if_pos hemp, if_pos hm]
        · intro st _
          unfold pawnTwiceForward
          simp only [getSquareRC_eq, make_toU8, hside, getSideSign_other, e3, e4, hA1, hA2]
          rw [if_pos hc2, if_pos hemp2, if_pos (hbit.mpr hm)]
      · refine mir_congr _ E 5 _ _ _ _ ?_ ?_ (mir_mono _ E _ 5 _ _ (by norm_num) hadd)
        · intro st _
          unfold pawnTwiceForward
          simp only [getSquareRC_eq, make_toU8]
          rw [if_pos hc, if_pos hemp, if_neg hm]
        · intro st _
          unfold pawnTwiceForward
          simp only [getSquareRC_eq, make_toU8, hside, getSideSign_other, e3, e4, hA1, hA2]
          rw [if_pos hc2, if_pos hemp2, if_neg (fun h => hm (hbit.mp h))]
    · have hemp2 : ¬ (((B.getSquare (Position.ofRC (row + Board.getSideSign
            (Board.getSide (B.getSquare ⟨i⟩).getSideBit)) col)).swapSide).getPieceType
            = PieceType.NO_PIECE
          ∧ ((B.getSquare (Position.ofRC (row + 2 * Board.getSideSign
            (Board.getSide (B.getSquare ⟨i⟩).getSideBit)) col)).swapSide).getPieceType
              = PieceType.NO_PIECE) := by
        rw [Square.swapSide_getPieceType, Square.swapSide_getPieceType]; exact hemp
      refine mir_congr _ E 5 _ _ _ _ ?_ ?_ (mir_mono _ E 0 5 _ _ (by norm_num) (mir_id _ E))
      · intro st _
        unfold pawnTwiceForward
        simp only [getSquareRC_eq, make_toU8]
        rw [if_pos hc, if_neg hemp]
      · intro st _
        unfold pawnTwiceForward
        simp only [getSquareRC_eq, make_toU8, hside, getSideSign_other, e3, e4, hA1, hA2]
        rw [if_pos hc2, if_neg hemp2]
  · have hc2 : ¬ ((7 - row = if (Board.getSide (B.getSquare ⟨i⟩).getSideBit).other = Side.WHITE
          then (1 : Int) else 6)
        ∧ rowcolok (7 - (row + 2 * Board.getSideSign
          (Board.getSide (B.getSquare ⟨i⟩).getSideBit))) = true) := by
      rw [rowcolok_mirror, hstart]
      exact hc
    refine mir_congr _ E 5 _ _ _ _ ?_ ?_ (mir_mono _ E 0 5 _ _ (by norm_num) (mir_id _ E))
    · intro st _
      unfold pawnTwiceForward
      simp only [getSquareRC_eq, make_toU8]
      rw [if_neg hc]
    · intro st _
      unfold pawnTwiceForward
      simp only [getSquareRC_eq, make_toU8, hside, getSideSign_other, e3, e4]
      rw [if_neg hc2]

end Engine

namespace Engine

/-- A branch on a condition that does not depend on the state. -/
theorem mir_ite (sd : Side) (E : Nat → Int) (n : Int) (c c2 : Prop) [Decidable c]
    [Decidable c2] (hcc : c2 ↔ c) (F F2 G G2 : EvalState → EvalState)
    (h1 : Mir sd E n F F2) (h2 : Mir sd E n G G2) :
    Mir sd E n (fun st => if c then F st else G st) (fun st => if c2 then F2 st else G2 st) := by
  by_cases h : c
  · refine mir_congr sd E n _ _ F F2 ?_ ?_ h1
    · intro st _
      exact if_pos h
    · intro st _
      exact if_pos (hcc.mpr h)
  · refine mir_congr sd E n _ _ G G2 ?_ ?_ h2
    · intro st _
      exact if_neg h
    · intro st _
      exact if_neg (fun h2 => h (hcc.mp h2))

/-- A branch on a condition on the attack counts of the other side. -/
theorem mir_iteE (sd : Side) (E : Nat → Int) (n : Int) (p p2 : Nat) (hp : p2 = mirrorIndex p)
    (c : Int → Prop) [DecidablePred c] (F F2 G G2 : EvalState → EvalState)
    (h1 : Mir sd E n F F2) (h2 : Mir sd E n G G2) :
    Mir sd E n (fun st => if c (st.evalContext.enemyCount sd p) then F st else G st)
      (fun st => if c (st.evalContext.enemyCount sd.other p2) then F2 st else G2 st) := by
  by_cases h : c (E p)
  · refine mir_congr sd E n _ _ F F2 ?_ ?_ h1
    · intro st hst
      rw [hst p]
      exact if_pos h
    · intro st hst
      rw [hst p2, hp, mirrorIndex_invol]
      exact if_pos h
  · refine mir_congr sd E n _ _ G G2 ?_ ?_ h2
    · intro st hst
      rw [hst p]
      exact if_neg h
    · intro st hst
      rw [hst p2, hp, mirrorIndex_invol]
      exact if_neg h

theorem canMove_mir (sd : Side) (E : Nat → Int) :
    Mir sd E 5 (fun st => st.addScore (CAN_MOVE_BONUS * Board.getSideSign sd))
      (fun st => st.addScore (CAN_MOVE_BONUS * -Board.getSideSign sd)) := by
  have h := bonus_mir sd E 1 (Board.getSideSign sd) (sign_cases sd)
  have e1 : (5 : Int) * 1 * Board.getSideSign sd = CAN_MOVE_BONUS * Board.getSideSign sd := by
    ring
  have e2 : (5 : Int) * 1 * -Board.getSideSign sd = CAN_MOVE_BONUS * -Board.getSideSign sd := by
    ring
  rw [e1, e2] at h
  exact mir_mono sd E _ _ _ _ (by norm_num) h

/-- The bonus of a move, then the move itself when the piece is of the side to move. -/
theorem canMovePush_mir (sd : Side) (E : Nat → Int) (c c2 : Prop) [Decidable c] [Decidable c2]
    (hcc : c2 ↔ c) (m m2 : Move) :
    Mir sd E 5
      (fun st => if c then (st.addScore (CAN_MOVE_BONUS * Board.getSideSign sd)).pushMove m
        else st.addScore (CAN_MOVE_BONUS * Board.getSideSign sd))
      (fun st => if c2 then (st.addScore (CAN_MOVE_BONUS * -Board.getSideSign sd)).pushMove m2
        else st.addScore (CAN_MOVE_BONUS * -Board.getSideSign sd)) :=
  mir_ite sd E 5 c c2 hcc _ _ _ _
    (mir_mono sd E _ 5 _ _ (by norm_num)
      (mir_comp sd E _ _ _ _ _ _ (canMove_mir sd E) (mir_pushMove sd E m m2)))
    (canMove_mir sd E)

theorem pawnCapture_mir (B : Board) (E : Nat → Int) (i : Nat)
    (hne : (B.getSquare ⟨i⟩).getPieceType ≠ PieceType.NO_PIECE) (row col fwd : Int)
    (hrow : 0 ≤ row ∧ row < 8) (hfwd : 0 ≤ fwd ∧ fwd < 8) (cs : Int) :
    Mir (Board.getSide (B.getSquare ⟨i⟩).getSideBit) E 10
      (fun st => pawnCapture B (Board.getSideBit B.getMovingSide) ⟨i⟩ (B.getSquare ⟨i⟩) row col
        fwd st cs)
      (fun st => pawnCapture B.mirror (Board.getSideBit B.mirror.getMovingSide) ⟨mirrorIndex i⟩
        (B.getSquare ⟨i⟩).swapSide (7 - row) col (7 - fwd) st cs) := by
  have hside := Square.swapSide_getSide _ hne
  have hbit := sideBit_mirror B _ hne
  by_cases hok : rowcolok (col + cs) = true
  · have hok' := (rowcolok_iff _).mp hok
    have hA := Board.mirror_getSquare_ofRC B fwd (col + cs) hfwd hok'
    have hP := Board.mirror_getSquare_ofRC B row (col + cs) hrow hok'
    have hp := Position.ofRC_mirror fwd (col + cs) hfwd hok'
    have c1 : ((B.getSquare (Position.ofRC fwd (col + cs))).swapSide.getPieceType
          ≠ PieceType.NO_PIECE
        ∧ (B.getSquare (Position.ofRC fwd (col + cs))).swapSide.getSideBit
          ≠ (B.getSquare ⟨i⟩).swapSide.getSideBit)
        ↔ ((B.getSquare (Position.ofRC fwd (col + cs))).getPieceType ≠ PieceType.NO_PIECE
        ∧ (B.getSquare (Position.ofRC fwd (col + cs))).getSideBit
          ≠ (B.getSquare ⟨i⟩).getSideBit) := by
      rw [Square.swapSide_getPieceType]
      constructor
      · rintro ⟨a, b⟩
        exact ⟨a, (sideBit_ne_mirror _ _ a hne).mp b⟩
      · rintro ⟨a, b⟩
        exact ⟨a, (sideBit_ne_mirror _ _ a hne).mpr b⟩
    have c3 : ((B.getSquare (Position.ofRC row (col + cs))).swapSide.getPieceType
          = PieceType.PAWN_PIECE
        ∧ (B.getSquare (Position.ofRC row (col + cs))).swapSide.getSideBit
          ≠ (B.getSquare ⟨i⟩).swapSide.getSideBit
        ∧ (B.getSquare (Position.ofRC row (col + cs))).swapSide.getPawnMovedTwiceBit
          = PawnMovedTwiceBit.YES)
        ↔ ((B.getSquare (Position.ofRC row (col + cs))).getPieceType = PieceType.PAWN_PIECE
        ∧ (B.getSquare (Position.ofRC row (col + cs))).getSideBit
          ≠ (B.getSquare ⟨i⟩).getSideBit
        ∧ (B.getSquare (Position.ofRC row (col + cs))).getPawnMovedTwiceBit
          = PawnMovedTwiceBit.YES) := by
      rw [Square.swapSide_getPieceType, Square.swapSide_getPawnMovedTwiceBit]
      constructor
      · rintro ⟨a, b, c⟩
        exact ⟨a, (sideBit_ne_mirror _ _ (by rw [a]; decide) hne).mp b, c⟩
      · rintro ⟨a, b, c⟩
        exact ⟨a, (sideBit_ne_mirror _ _ (by rw [a]; decide) hne).mpr b, c⟩
    have P1 := mir_ite (Board.getSide (B.getSquare ⟨i⟩).getSideBit) E 5 _ _ c1 _ _ _ _
      (canMovePush_mir (Board.getSide (B.getSquare ⟨i⟩).getSideBit) E _ _ hbit
        (Move.make ⟨i⟩ (Position.ofRC fwd (col + cs)) MoveType.CAPTURE
          (promotionOf (Board.getSide (B.getSquare ⟨i⟩).getSideBit) fwd))
        (Move.make ⟨mirrorIndex i⟩ (Position.ofRC (7 - fwd) (col + cs)) MoveType.CAPTURE
          (promotionOf (Board.getSide (B.getSquare ⟨i⟩).getSideBit).other (7 - fwd))))
      (mir_mono _ E 0 5 _ _ (by norm_num) (mir_id _ E))
    have P2 := mir_count (Board.getSide (B.getSquare ⟨i⟩).getSideBit) E
      (Position.ofRC fwd (col + cs)) (Position.ofRC (7 - fwd) (col + cs)) hp
      (Position.ofRC_lt fwd (col + cs) hfwd hok')
    have P3 := mir_ite (Board.getSide (B.getSquare ⟨i⟩).getSideBit) E 5 _ _ c3 _ _ _ _
      (mir_mono _ E _ 5 _ _ (by norm_num)
        (mir_comp _ E _ _ _ _ _ _ (canMove_mir (Board.getSide (B.getSquare ⟨i⟩).getSideBit) E)
          (mir_pushMove _ E
            (Move.make ⟨i⟩ (Position.ofRC fwd (col + cs)) MoveType.CAPTURE PieceType.NO_PIECE)
            (Move.make ⟨mirrorIndex i⟩ (Position.ofRC (7 - fwd) (col + cs)) MoveType.CAPTURE
              PieceType.NO_PIECE))))
      (mir_mono _ E 0 5 _ _ (by norm_num) (mir_id _ E))
    refine mir_congr _ E 10 _ _ _ _ ?_ ?_ (mir_mono _ E _ 10 _ _ (by norm_num)
      (mir_comp _ E _ _ _ _ _ _ (mir_comp _ E _ _ _ _ _ _ P1 P2) P3))
    · intro st _
      unfold pawnCapture
      simp only [make_toU8, promotion_eq]
      rw [if_pos hok]
    · intro st _
      unfold pawnCapture
      simp only [make_toU8, promotion_eq, hside, getSideSign_other, hA, hP]
      rw [if_pos hok]
  · refine mir_congr _ E 10 _ _ _ _ ?_ ?_ (mir_mono _ E 0 10 _ _ (by norm_num) (mir_id _ E))
    · intro st _
      unfold pawnCapture
      simp only []
      rw [if_neg hok]
    · intro st _
      unfold pawnCapture
      simp only []
      rw [if_neg hok]

end Engine

namespace Engine

/-- A branch on a condition on the state that the attack counts of the other side decide. -/
theorem mir_iteS (sd : Side) (E : Nat → Int) (n : Int) (c c2 : EvalState → Prop)
    [DecidablePred c] [DecidablePred c2] (C : Prop)
    (hc : ∀ st : EvalState, (∀ j, st.evalContext.enemyCount sd j = E j) → (c st ↔ C))
    (hc2 : ∀ st : EvalState, (∀ j, st.evalContext.enemyCount sd.other j = E (mirrorIndex j)) →
      (c2 st ↔ C))
    (F F2 G G2 : EvalState → EvalState)
    (h1 : Mir sd E n F F2) (h2 : Mir sd E n G G2) :
    Mir sd E n (fun st => if c st then F st else G st)
      (fun st => if c2 st then F2 st else G2 st) := by
  by_cases h : C
  · refine mir_congr sd E n _ _ F F2 ?_ ?_ h1
    · intro st hst
      exact if_pos ((hc st hst).mpr h)
    · intro st hst
      exact if_pos ((hc2 st hst).mpr h)
  · refine mir_congr sd E n _ _ G G2 ?_ ?_ h2
    · intro st hst
      exact if_neg (fun hh => h ((hc st hst).mp hh))
    · intro st hst
      exact if_neg (fun hh => h ((hc2 st hst).mp hh))

theorem scaled_mir (sd : Side) (E : Nat → Int) (x s : Int) (hs : s = 1 ∨ s = -1)
    (h5 : 5 ∣ x) :
    Mir sd E |x| (fun st => st.addScore (x * s)) (fun st => st.addScore (x * -s)) := by
  have h := mir_addScore sd E (x * s) (Dvd.dvd.mul_right h5 s)
  have e : -(x * s) = x * -s := by ring
  rw [e] at h
  refine mir_mono sd E _ _ _ _ ?_ h
  rcases hs with rfl | rfl
  · rw [mul_one]
  · rw [mul_neg, mul_one, abs_neg]

theorem evalPawn_mir (B : Board) (E : Nat → Int) (i : Nat) (hi : i < 64)
    (hne : (B.getSquare ⟨i⟩).getPieceType ≠ PieceType.NO_PIECE)
    (hfwd : rowcolok (((⟨i⟩ : Position).getRow : Int)
      + Board.getSideSign (Board.getSide (B.getSquare ⟨i⟩).getSideBit)) = true) :
    Mir (Board.getSide (B.getSquare ⟨i⟩).getSideBit) E 250
      (evalPawn B (Board.getSideBit B.getMovingSide) ⟨i⟩ (B.getSquare ⟨i⟩)
        ((⟨i⟩ : Position).getRow : Int) ((⟨i⟩ : Position).getCol : Int))
      (evalPawn B.mirror (Board.getSideBit B.mirror.getMovingSide) ⟨mirrorIndex i⟩
        (B.getSquare ⟨i⟩).swapSide (7 - ((⟨i⟩ : Position).getRow : Int))
        ((⟨i⟩ : Position).getCol : Int)) := by
  have hside := Square.swapSide_getSide _ hne
  have hrow := Position.row_range i hi
  have hcol := Position.col_range i
  have hfwd' := (rowcolok_iff _).mp hfwd
  have hs := sign_cases (Board.getSide (B.getSquare ⟨i⟩).getSideBit)
  have e3 : 7 - ((⟨i⟩ : Position).getRow : Int)
        + -Board.getSideSign (Board.getSide (B.getSquare ⟨i⟩).getSideBit)
      = 7 - (((⟨i⟩ : Position).getRow : Int)
        + Board.getSideSign (Board.getSide (B.getSquare ⟨i⟩).getSideBit)) := by ring
  have hprog : (if (Board.getSide (B.getSquare ⟨i⟩).getSideBit).other = Side.WHITE
        then 7 - ((⟨i⟩ : Position).getRow : Int) - 1
        else 6 - (7 - ((⟨i⟩ : Position).getRow : Int)))
      = (if Board.getSide (B.getSquare ⟨i⟩).getSideBit = Side.WHITE
        then ((⟨i⟩ : Position).getRow : Int) - 1 else 6 - ((⟨i⟩ : Position).getRow : Int)) := by
    cases Board.getSide (B.getSquare ⟨i⟩).getSideBit <;>
      simp only [Side.other, if_true, if_false, reduceCtorEq] <;> omega
  have hpb : |((if Board.getSide (B.getSquare ⟨i⟩).getSideBit = Side.WHITE
        then ((⟨i⟩ : Position).getRow : Int) - 1 else 6 - ((⟨i⟩ : Position).getRow : Int))
      * PAWN_ROW_PROGRESS_BONUS)| ≤ 120 := by
    have key : ∀ p : Int, -1 ≤ p → p ≤ 6 → |p * PAWN_ROW_PROGRESS_BONUS| ≤ 120 := by
      intro p h1 h2
      rw [abs_le]
      constructor
      · show (-120 : Int) ≤ p * 20
        omega
      · show p * 20 ≤ (120 : Int)
        omega
    split_ifs
    · exact key _ (by omega) (by omega)
    · exact key _ (by omega) (by omega)
  have h5 : (5 : Int) ∣ ((if Board.getSide (B.getSquare ⟨i⟩).getSideBit = Side.WHITE
        then ((⟨i⟩ : Position).getRow : Int) - 1 else 6 - ((⟨i⟩ : Position).getRow : Int))
      * PAWN_ROW_PROGRESS_BONUS) := Dvd.dvd.mul_left (by decide) _
  have A1 := scaled_mir (Board.getSide (B.getSquare ⟨i⟩).getSideBit) E PAWN_BONUS _ hs
    (by decide)
  have A2 := scaled_mir (Board.getSide (B.getSquare ⟨i⟩).getSideBit) E _ _ hs h5
  have A3 := pawnForward_mir B E i hne ((⟨i⟩ : Position).getRow : Int)
    ((⟨i⟩ : Position).getCol : Int) hcol
  have A4 := pawnTwiceForward_mir B E i hne ((⟨i⟩ : Position).getRow : Int)
    ((⟨i⟩ : Position).getCol : Int) hcol
  have A5 := mir_foldl (Board.getSide (B.getSquare ⟨i⟩).getSideBit) E ([-1, 1] : List Int)
    (fun x => x) (fun _ => rfl) (by simp) (fun _ => 10)
    (fun cs st => pawnCapture B (Board.getSideBit B.getMovingSide) ⟨i⟩ (B.getSquare ⟨i⟩)
      ((⟨i⟩ : Position).getRow : Int) ((⟨i⟩ : Position).getCol : Int)
      (((⟨i⟩ : Position).getRow : Int)
        + Board.getSideSign (Board.getSide (B.getSquare ⟨i⟩).getSideBit)) st cs)
    (fun cs st => pawnCapture B.mirror (Board.getSideBit B.mirror.getMovingSide)
      ⟨mirrorIndex i⟩ (B.getSquare ⟨i⟩).swapSide (7 - ((⟨i⟩ : Position).getRow : Int))
      ((⟨i⟩ : Position).getCol : Int)
      (7 - (((⟨i⟩ : Position).getRow : Int)
        + Board.getSideSign (Board.getSide (B.getSquare ⟨i⟩).getSideBit))) st cs)
    (fun cs _ => pawnCapture_mir B E i hne _ _ _ hrow hfwd' cs)
  have h := mir_comp _ E _ _ _ _ _ _ (mir_comp _ E _ _ _ _ _ _ (mir_comp _ E _ _ _ _ _ _
    (mir_comp _ E _ _ _ _ _ _ A1 A2) A3) A4) A5
  refine mir_congr _ E 250 _ _ _ _ ?_ ?_ (mir_mono _ E _ 250 _ _ ?_ h)
  · intro st _
    rfl
  · intro st _
    unfold evalPawn
    simp only [hside, getSideSign_other, hprog, e3]
  · have : |PAWN_BONUS| = 100 := by decide
    rw [this]
    simp only [List.map_cons, List.map_nil, List.sum_cons, List.sum_nil]
    omega

end Engine

namespace Engine

theorem kingStep_mir (B : Board) (E : Nat → Int) (i : Nat)
    (hne : (B.getSquare ⟨i⟩).getPieceType ≠ PieceType.NO_PIECE) (row col rd cd : Int) :
    Mir (Board.getSide (B.getSquare ⟨i⟩).getSideBit) E 5
      (fun st => kingStep B ⟨i⟩ (B.getSquare ⟨i⟩) row col st rd cd)
      (fun st => kingStep B.mirror ⟨mirrorIndex i⟩ (B.getSquare ⟨i⟩).swapSide (7 - row) col st
        (-rd) cd) := by
  have hside := Square.swapSide_getSide _ hne
  have e3 : 7 - row + -rd = 7 - (row + rd) := by ring
  by_cases h0 : cd = 0 ∧ rd = 0
  · have h0' : cd = 0 ∧ -rd = 0 := ⟨h0.1, by omega⟩
    refine mir_congr _ E 5 _ _ _ _ ?_ ?_ (mir_mono _ E 0 5 _ _ (by norm_num) (mir_id _ E))
    · intro st _
      unfold kingStep
      simp only []
      rw [if_pos h0]
    · intro st _
      unfold kingStep
      simp only []
      rw [if_pos h0']
  · have h0' : ¬ (cd = 0 ∧ -rd = 0) := fun h => h0 ⟨h.1, by omega⟩
    by_cases hrange : (!rowcolok (row + rd) || !rowcolok (col + cd)) = true
    · have hrange' : (!rowcolok (7 - (row + rd)) || !rowcolok (col + cd)) = true := by
        rw [rowcolok_mirror]; exact hrange
      refine mir_congr _ E 5 _ _ _ _ ?_ ?_ (mir_mono _ E 0 5 _ _ (by norm_num) (mir_id _ E))
      · intro st _
        unfold kingStep
        simp only []
        rw [if_neg h0, if_pos hrange]
      · intro st _
        unfold kingStep
        simp only [e3]
        rw [if_neg h0', if_pos hrange']
    · have hrange' : ¬ (!rowcolok (7 - (row + rd)) || !rowcolok (col + cd)) = true := by
        rw [rowcolok_mirror]; exact hrange
      have hr : 0 ≤ row + rd ∧ row + rd < 8 := by
        rw [← rowcolok_iff]
        by_contra hh
        exact hrange (by simp [hh])
      have hc : 0 ≤ col + cd ∧ col + cd < 8 := by
        rw [← rowcolok_iff]
        by_contra hh
        exact hrange (by simp [hh])
      have hA := Board.mirror_getSquare_ofRC B _ _ hr hc
      have hp := Position.ofRC_mirror _ _ hr hc
      have hfree := free_mirror (B.getSquare (Position.ofRC (row + rd) (col + cd)))
        (Board.getSide (B.getSquare ⟨i⟩).getSideBit)
      have hm : (Board.getSide (B.getSquare ⟨i⟩).getSideBit).other = B.mirror.getMovingSide
          ↔ Board.getSide (B.getSquare ⟨i⟩).getSideBit = B.getMovingSide := by
        rw [Board.mirror_getMovingSide, Side.other_eq_iff]
      have hcount := mir_count (Board.getSide (B.getSquare ⟨i⟩).getSideBit) E
        (Position.ofRC (row + rd) (col + cd)) (Position.ofRC (7 - (row + rd)) (col + cd)) hp
        (Position.ofRC_lt _ _ hr hc)
      have inner := mir_iteE (Board.getSide (B.getSquare ⟨i⟩).getSideBit) E 5
        (Position.ofRC (row + rd) (col + cd)).data
        (Position.ofRC (7 - (row + rd)) (col + cd)).data hp (fun x => x > 0) _ _ _ _
        (mir_mono _ E 0 5 _ _ (by norm_num) (mir_id _ E))
        (mir_mono _ E _ 5 _ _ (by norm_num) (mir_comp _ E _ _ _ _ _ _
          (canMovePush_mir (Board.getSide (B.getSquare ⟨i⟩).getSideBit) E _ _ hm
            (Move.make ⟨i⟩ (Position.ofRC (row + rd) (col + cd))
              (if (B.getSquare (Position.ofRC (row + rd) (col + cd))).getPieceType
                = PieceType.NO_PIECE then MoveType.MOVE else MoveType.CAPTURE)
              PieceType.NO_PIECE)
            (Move.make ⟨mirrorIndex i⟩ (Position.ofRC (7 - (row + rd)) (col + cd))
              (if (B.getSquare (Position.ofRC (row + rd) (col + cd))).swapSide.getPieceType
                = PieceType.NO_PIECE then MoveType.MOVE else MoveType.CAPTURE)
              PieceType.NO_PIECE))
          hcount))
      have all := mir_ite (Board.getSide (B.getSquare ⟨i⟩).getSideBit) E 5 _ _ hfree _ _ _ _
        inner (mir_mono _ E 0 5 _ _ (by norm_num) hcount)
      refine mir_congr _ E 5 _ _ _ _ ?_ ?_ all
      · intro st _
        unfold kingStep
        simp only [make_toU8]
        rw [if_neg h0, if_neg hrange]
      · intro st _
        unfold kingStep
        simp only [make_toU8, e3, hside, getSideSign_other, hA]
        rw [if_neg h0', if_neg hrange']

theorem kingLoops_mir (B : Board) (E : Nat → Int) (i : Nat)
    (hne : (B.getSquare ⟨i⟩).getPieceType ≠ PieceType.NO_PIECE) (row col : Int) :
    Mir (Board.getSide (B.getSquare ⟨i⟩).getSideBit) E 45
      (fun st => ([-1, 0, 1] : List Int).foldl (fun st rowDelta =>
        ([-1, 0, 1] : List Int).foldl (fun st colDelta =>
          kingStep B ⟨i⟩ (B.getSquare ⟨i⟩) row col st rowDelta colDelta) st) st)
      (fun st => ([-1, 0, 1] : List Int).foldl (fun st rowDelta =>
        ([-1, 0, 1] : List Int).foldl (fun st colDelta =>
          kingStep B.mirror ⟨mirrorIndex i⟩ (B.getSquare ⟨i⟩).swapSide (7 - row) col st
            rowDelta colDelta) st) st) := by
  have inner : ∀ rd : Int, Mir (Board.getSide (B.getSquare ⟨i⟩).getSideBit) E 15
      (fun st => ([-1, 0, 1] : List Int).foldl (fun st colDelta =>
          kingStep B ⟨i⟩ (B.getSquare ⟨i⟩) row col st rd colDelta) st)
      (fun st => ([-1, 0, 1] : List Int).foldl (fun st colDelta =>
          kingStep B.mirror ⟨mirrorIndex i⟩ (B.getSquare ⟨i⟩).swapSide (7 - row) col st
            (-rd) colDelta) st) := by
    intro rd
    have h := mir_foldl (Board.getSide (B.getSquare ⟨i⟩).getSideBit) E ([-1, 0, 1] : List Int)
      (fun x => x) (fun _ => rfl) (by simp) (fun _ => 5)
      (fun cd st => kingStep B ⟨i⟩ (B.getSquare ⟨i⟩) row col st rd cd)
      (fun cd st => kingStep B.mirror ⟨mirrorIndex i⟩ (B.getSquare ⟨i⟩).swapSide (7 - row) col
        st (-rd) cd)
      (fun cd _ => kingStep_mir B E i hne row col rd cd)
    exact mir_mono _ E _ _ _ _ (by decide) h
  have h := mir_foldl (Board.getSide (B.getSquare ⟨i⟩).getSideBit) E ([-1, 0, 1] : List Int)
    (fun x => -x) (fun x => by simp) (by decide) (fun _ => 15)
    (fun rd st => ([-1, 0, 1] : List Int).foldl (fun st colDelta =>
          kingStep B ⟨i⟩ (B.getSquare ⟨i⟩) row col st rd colDelta) st)
    (fun rd st => ([-1, 0, 1] : List Int).foldl (fun st colDelta =>
          kingStep B.mirror ⟨mirrorIndex i⟩ (B.getSquare ⟨i⟩).swapSide (7 - row) col st
            rd colDelta) st)
    (fun rd _ => inner rd)
  exact mir_mono _ E _ _ _ _ (by decide) h

end Engine

namespace Engine

theorem castle_mir (B : Board) (E : Nat → Int) (i : Nat)
    (hne : (B.getSquare ⟨i⟩).getPieceType ≠ PieceType.NO_PIECE) (row : Int)
    (hrow : 0 ≤ row ∧ row < 8) (rookCol : Int) (hrook : 0 ≤ rookCol ∧ rookCol < 8)
    (middleCols : List Int) (hmid : ∀ c ∈ middleCols, 0 ≤ c ∧ c < 8) (toCol : Int) :
    Mir (Board.getSide (B.getSquare ⟨i⟩).getSideBit) E 5
      (castle B ⟨i⟩ (B.getSquare ⟨i⟩) row rookCol middleCols toCol)
      (castle B.mirror ⟨mirrorIndex i⟩ (B.getSquare ⟨i⟩).swapSide (7 - row) rookCol middleCols
        toCol) := by
  have hside := Square.swapSide_getSide _ hne
  have hR := Board.mirror_getSquare_ofRC B row rookCol hrow hrook
  have hm : (Board.getSide (B.getSquare ⟨i⟩).getSideBit).other = B.mirror.getMovingSide
      ↔ Board.getSide (B.getSquare ⟨i⟩).getSideBit = B.getMovingSide := by
    rw [Board.mirror_getMovingSide, Side.other_eq_iff]
  have hrk : ((B.getSquare (Position.ofRC row rookCol)).swapSide.getPieceType
        = PieceType.ROOK_PIECE
      ∧ (B.getSquare (Position.ofRC row rookCol)).swapSide.getMovedBit = MovedBit.NO)
      ↔ ((B.getSquare (Position.ofRC row rookCol)).getPieceType = PieceType.ROOK_PIECE
      ∧ (B.getSquare (Position.ofRC row rookCol)).getMovedBit = MovedBit.NO) := by
    rw [Square.swapSide_getPieceType, Square.swapSide_getMovedBit]
  have inner := mir_iteS (Board.getSide (B.getSquare ⟨i⟩).getSideBit) E 5
    (fun st => middleCols.foldl (fun (valid : Bool) middleCol =>
      valid && (decide ((B.getSquare (Position.ofRC row middleCol)).getPieceType
          = PieceType.NO_PIECE)
        && decide (st.evalContext.enemyCount (Board.getSide (B.getSquare ⟨i⟩).getSideBit)
          (Position.ofRC row middleCol).data = 0))) true = true)
    (fun st => middleCols.foldl (fun (valid : Bool) middleCol =>
      valid && (decide ((B.mirror.getSquare (Position.ofRC (7 - row) middleCol)).getPieceType
          = PieceType.NO_PIECE)
        && decide (st.evalContext.enemyCount (Board.getSide (B.getSquare ⟨i⟩).getSideBit).other
          (Position.ofRC (7 - row) middleCol).data = 0))) true = true)
    (∀ c ∈ middleCols, (B.getSquare (Position.ofRC row c)).getPieceType = PieceType.NO_PIECE
      ∧ E (Position.ofRC row c).data = 0)
    (fun st hst => by
      refine (validFold (fun c => decide ((B.getSquare (Position.ofRC row c)).getPieceType
          = PieceType.NO_PIECE)
        && decide (st.evalContext.enemyCount (Board.getSide (B.getSquare ⟨i⟩).getSideBit)
          (Position.ofRC row c).data = 0)) middleCols true).trans ?_
      simp only [true_and, Bool.and_eq_true, decide_eq_true_eq, hst])
    (fun st hst => by
      refine (validFold (fun c => decide ((B.mirror.getSquare
          (Position.ofRC (7 - row) c)).getPieceType = PieceType.NO_PIECE)
        && decide (st.evalContext.enemyCount (Board.getSide (B.getSquare ⟨i⟩).getSideBit).other
          (Position.ofRC (7 - row) c).data = 0)) middleCols true).trans ?_
      simp only [true_and, Bool.and_eq_true, decide_eq_true_eq, hst]
      constructor
      · intro h c hc
        have := h c hc
        rw [Board.mirror_getSquare_ofRC B row c hrow (hmid c hc), Square.swapSide_getPieceType,
          Position.ofRC_mirror row c hrow (hmid c hc), mirrorIndex_invol] at this
        exact this
      · intro h c hc
        rw [Board.mirror_getSquare_ofRC B row c hrow (hmid c hc), Square.swapSide_getPieceType,
          Position.ofRC_mirror row c hrow (hmid c hc), mirrorIndex_invol]
        exact h c hc)
    _ _ _ _
    (canMovePush_mir (Board.getSide (B.getSquare ⟨i⟩).getSideBit) E _ _ hm
      (Move.make ⟨i⟩ (Position.ofRC row toCol) MoveType.MOVE PieceType.NO_PIECE)
      (Move.make ⟨mirrorIndex i⟩ (Position.ofRC (7 - row) toCol) MoveType.MOVE
        PieceType.NO_PIECE))
    (mir_mono _ E 0 5 _ _ (by norm_num) (mir_id _ E))
  have all := mir_ite (Board.getSide (B.getSquare ⟨i⟩).getSideBit) E 5 _ _ hrk _ _ _ _
    inner (mir_mono _ E 0 5 _ _ (by norm_num) (mir_id _ E))
  refine mir_congr _ E 5 _ _ _ _ ?_ ?_ all
  · intro st _
    unfold castle
    simp only [make_toU8, getSquareRC_eq]
  · intro st _
    unfold castle
    simp only [make_toU8, getSquareRC_eq, hside, getSideSign_other, hR]

theorem evalKing_mir (B : Board) (E : Nat → Int) (i : Nat) (hi : i < 64)
    (hne : (B.getSquare ⟨i⟩).getPieceType ≠ PieceType.NO_PIECE) :
    Mir (Board.getSide (B.getSquare ⟨i⟩).getSideBit) E 55
      (evalKing B ⟨i⟩ (B.getSquare ⟨i⟩) ((⟨i⟩ : Position).getRow : Int)
        ((⟨i⟩ : Position).getCol : Int))
      (evalKing B.mirror ⟨mirrorIndex i⟩ (B.getSquare ⟨i⟩).swapSide
        (7 - ((⟨i⟩ : Position).getRow : Int)) ((⟨i⟩ : Position).getCol : Int)) := by
  have hside := Square.swapSide_getSide _ hne
  have hrow := Position.row_range i hi
  have hcolEq : (⟨mirrorIndex i⟩ : Position).getCol = (⟨i⟩ : Position).getCol := by
    have := Position.mirror_getCol i hi
    exact_mod_cast this
  have loops := kingLoops_mir B E i hne ((⟨i⟩ : Position).getRow : Int)
    ((⟨i⟩ : Position).getCol : Int)
  have c1 := castle_mir B E i hne _ hrow 7 (by decide) [5, 6]
    (fun c hc => by
      simp only [List.mem_cons, List.mem_singleton, List.not_mem_nil, or_false] at hc
      omega) 6
  have c2 := castle_mir B E i hne _ hrow 0 (by decide) [1, 2, 3]
    (fun c hc => by
      simp only [List.mem_cons, List.mem_singleton, List.not_mem_nil, or_false] at hc
      omega) 2
  have cc := mir_comp _ E _ _ _ _ _ _ c1 c2
  have att := mir_iteE (Board.getSide (B.getSquare ⟨i⟩).getSideBit) E 10 i (mirrorIndex i) rfl
    (fun x => x = 0) _ _ _ _ (mir_mono _ E _ 10 _ _ (by norm_num) cc)
    (mir_mono _ E 0 10 _ _ (by norm_num) (mir_id _ E))
  have cond : ((⟨mirrorIndex i⟩ : Position).getCol = 4
        ∧ (B.getSquare ⟨i⟩).swapSide.getMovedBit = MovedBit.NO)
      ↔ ((⟨i⟩ : Position).getCol = 4 ∧ (B.getSquare ⟨i⟩).getMovedBit = MovedBit.NO) := by
    rw [hcolEq, Square.swapSide_getMovedBit]
  have tail := mir_ite (Board.getSide (B.getSquare ⟨i⟩).getSideBit) E 10 _ _ cond _ _ _ _
    att (mir_mono _ E 0 10 _ _ (by norm_num) (mir_id _ E))
  have all := mir_comp _ E _ _ _ _ _ _ loops tail
  refine mir_congr _ E 55 _ _ _ _ ?_ ?_ (mir_mono _ E _ 55 _ _ (by norm_num) all)
  · intro st _
    rfl
  · intro st _
    unfold evalKing
    simp only [hside]

end Engine

namespace Engine

theorem center_mir (sd : Side) (E : Nat → Int) (row col : Int) :
    Mir sd E 20
      (fun st => if (row = 3 ∨ row = 4) ∧ (col = 3 ∨ col = 4) then
          st.addScore (CENTER_BONUS * Board.getSideSign sd)
        else if row ≥ 2 ∧ row ≤ 5 ∧ col ≥ 2 ∧ col ≤ 5 then
          st.addScore (NEAR_CENTER_BONUS * Board.getSideSign sd)
        else st)
      (fun st => if (7 - row = 3 ∨ 7 - row = 4) ∧ (col = 3 ∨ col = 4) then
          st.addScore (CENTER_BONUS * -Board.getSideSign sd)
        else if 7 - row ≥ 2 ∧ 7 - row ≤ 5 ∧ col ≥ 2 ∧ col ≤ 5 then
          st.addScore (NEAR_CENTER_BONUS * -Board.getSideSign sd)
        else st) :=
  mir_ite sd E 20 _ _ (by constructor <;> rintro ⟨a, b⟩ <;> exact ⟨by omega, b⟩) _ _ _ _
    (mir_mono sd E _ 20 _ _ (by decide)
      (scaled_mir sd E CENTER_BONUS _ (sign_cases sd) (by decide)))
    (mir_ite sd E 20 _ _ (by constructor <;> rintro ⟨a, b, c⟩ <;> exact ⟨by omega, by omega, c⟩)
      _ _ _ _
      (mir_mono sd E _ 20 _ _ (by decide)
        (scaled_mir sd E NEAR_CENTER_BONUS _ (sign_cases sd) (by decide)))
      (mir_mono sd E 0 20 _ _ (by decide) (mir_id sd E)))

/-- The step of the sweep for a square and the step of the sweep of the mirrored board for
the mirrored square mirror each other. -/
theorem evalSquare_mir (B : Board) (hB : InBounds B) (sd : Side) (E : Nat → Int) (i : Nat)
    (hi : i < 64) :
    Mir sd E (stepBound B sd i)
      (fun st => evalSquare B (Board.getSideBit B.getMovingSide) sd st i)
      (fun st => evalSquare B.mirror (Board.getSideBit B.mirror.getMovingSide) sd.other st
        (mirrorIndex i)) := by
  have hsq := Board.mirror_getSquare B i hi
  by_cases hne : (B.getSquare ⟨i⟩).getPieceType = PieceType.NO_PIECE
  · have hne2 : (B.mirror.getSquare ⟨mirrorIndex i⟩).getPieceType = PieceType.NO_PIECE := by
      rw [hsq, Square.swapSide_getPieceType]; exact hne
    refine mir_congr sd E _ _ _ _ _ ?_ ?_ (mir_mono sd E 0 _ _ _ ?_ (mir_id sd E))
    · intro st _
      unfold evalSquare
      simp only []
      rw [if_pos hne]
    · intro st _
      unfold evalSquare
      simp only []
      rw [if_pos hne2]
    · unfold stepBound
      rw [if_pos (Or.inl hne)]
  · have hne2 : ¬ (B.mirror.getSquare ⟨mirrorIndex i⟩).getPieceType = PieceType.NO_PIECE := by
      rw [hsq, Square.swapSide_getPieceType]; exact hne
    have hside := Square.swapSide_getSide _ hne
    by_cases hs : Board.getSide (B.getSquare ⟨i⟩).getSideBit = sd
    · have hs2 : ¬ Board.getSide (B.mirror.getSquare ⟨mirrorIndex i⟩).getSideBit ≠ sd.other := by
        rw [hsq, hside, hs]
        exact fun h => h rfl
      subst hs
      have hrow := Position.mirror_getRow i hi
      have hcol := Position.mirror_getCol i hi
      have hsg := sign_cases (Board.getSide (B.getSquare ⟨i⟩).getSideBit)
      have hc := center_mir (Board.getSide (B.getSquare ⟨i⟩).getSideBit) E
        ((⟨i⟩ : Position).getRow : Int) ((⟨i⟩ : Position).getCol : Int)
      have fin : ∀ (n : Int) (D D2 : EvalState → EvalState),
          n + 20 ≤ stepBound B (Board.getSide (B.getSquare ⟨i⟩).getSideBit) i →
          Mir (Board.getSide (B.getSquare ⟨i⟩).getSideBit) E n D D2 →
          (∀ st, evalSquare B (Board.getSideBit B.getMovingSide)
              (Board.getSide (B.getSquare ⟨i⟩).getSideBit) st i
            = (if (((⟨i⟩ : Position).getRow : Int) = 3 ∨ ((⟨i⟩ : Position).getRow : Int) = 4)
                ∧ (((⟨i⟩ : Position).getCol : Int) = 3 ∨ ((⟨i⟩ : Position).getCol : Int) = 4)
              then (D st).addScore (CENTER_BONUS
                * Board.getSideSign (Board.getSide (B.getSquare ⟨i⟩).getSideBit))
              else if ((⟨i⟩ : Position).getRow : Int) ≥ 2 ∧ ((⟨i⟩ : Position).getRow : Int) ≤ 5
                ∧ ((⟨i⟩ : Position).getCol : Int) ≥ 2 ∧ ((⟨i⟩ : Position).getCol : Int) ≤ 5
              then (D st).addScore (NEAR_CENTER_BONUS
                * Board.getSideSign (Board.getSide (B.getSquare ⟨i⟩).getSideBit))
              else D st)) →
          (∀ st, evalSquare B.mirror (Board.getSideBit B.mirror.getMovingSide)
              (Board.getSide (B.getSquare ⟨i⟩).getSideBit).other st (mirrorIndex i)
            = (if (7 - ((⟨i⟩ : Position).getRow : Int) = 3
                  ∨ 7 - ((⟨i⟩ : Position).getRow : Int) = 4)
                ∧ (((⟨i⟩ : Position).getCol : Int) = 3 ∨ ((⟨i⟩ : Position).getCol : Int) = 4)
              then (D2 st).addScore (CENTER_BONUS
                * -Board.getSideSign (Board.getSide (B.getSquare ⟨i⟩).getSideBit))
              else if 7 - ((⟨i⟩ : Position).getRow : Int) ≥ 2
                ∧ 7 - ((⟨i⟩ : Position).getRow : Int) ≤ 5
                ∧ ((⟨i⟩ : Position).getCol : Int) ≥ 2 ∧ ((⟨i⟩ : Position).getCol : Int) ≤ 5
              then (D2 st).addScore (NEAR_CENTER_BONUS
                * -Board.getSideSign (Board.getSide (B.getSquare ⟨i⟩).getSideBit))
              else D2 st)) →
          Mir (Board.getSide (B.getSquare ⟨i⟩).getSideBit) E
            (stepBound B (Board.getSide (B.getSquare ⟨i⟩).getSideBit) i)
            (fun st => evalSquare B (Board.getSideBit B.getMovingSide)
              (Board.getSide (B.getSquare ⟨i⟩).getSideBit) st i)
            (fun st => evalSquare B.mirror (Board.getSideBit B.mirror.getMovingSide)
              (Board.getSide (B.getSquare ⟨i⟩).getSideBit).other st (mirrorIndex i)) := by
        intro n D D2 hn hD h1 h2
        exact mir_congr _ E _ _ _ _ _ (fun st _ => h1 st) (fun st _ => h2 st)
          (mir_mono _ E _ _ _ _ hn (mir_comp _ E _ _ _ _ _ _ hD hc))
      have hb : ∀ n : Int, n ≤ 1240 →
          (B.getSquare ⟨i⟩).getPieceType ≠ PieceType.KING_PIECE →
          n ≤ stepBound B (Board.getSide (B.getSquare ⟨i⟩).getSideBit) i := by
        intro n hn hk
        unfold stepBound
        rw [if_neg (by rintro (h | h); exact hne h; exact h rfl), if_neg hk]
        exact hn
      by_cases h1 : (B.getSquare ⟨i⟩).getPieceType = PieceType.PAWN_PIECE
      · have hfwd := hB i hi h1
        refine fin _ _ _ (hb _ (by norm_num : (250 : Int) + 20 ≤ 1240) (by rw [h1]; decide))
          (evalPawn_mir B E i hi hne hfwd) ?_ ?_
        · intro st
          unfold evalSquare
          simp only []
          rw [if_neg hne, if_neg (fun h => h rfl), if_pos h1]
        · intro st
          unfold evalSquare
          simp only []
          rw [if_neg hne2, if_neg hs2]
          simp only [hsq, hside, getSideSign_other, hrow, hcol, Square.swapSide_getPieceType]
          rw [if_pos h1]
      · by_cases h2 : (B.getSquare ⟨i⟩).getPieceType = PieceType.ROOK_PIECE
        · refine fin _ _ _ (hb _ (by norm_num : |ROOK_BONUS| + 160 + 20 ≤ 1240)
              (by rw [h2]; decide))
            (mir_comp _ E _ _ _ _ _ _ (scaled_mir _ E ROOK_BONUS _ hsg (by decide))
              (rookRays_mir B E i hi hne
                  ((⟨i⟩ : Position).getRow : Int) ((⟨i⟩ : Position).getCol : Int))) ?_ ?_
          · intro st
            unfold evalSquare
            simp only []
            rw [if_neg hne, if_neg (fun h => h rfl), if_neg h1, if_pos h2]
          · intro st
            unfold evalSquare
            simp only []
            rw [if_neg hne2, if_neg hs2]
            simp only [hsq, hside, getSideSign_other, hrow, hcol, Square.swapSide_getPieceType]
            rw [if_neg h1, if_pos h2]
        · by_cases h3 : (B.getSquare ⟨i⟩).getPieceType = PieceType.BISHOP_PIECE
          · refine fin _ _ _ (hb _ (by norm_num : |BISHOP_BONUS| + 160 + 20 ≤ 1240)
                (by rw [h3]; decide))
              (mir_comp _ E _ _ _ _ _ _ (scaled_mir _ E BISHOP_BONUS _ hsg (by decide))
                (bishopRays_mir B E i hi hne
                  ((⟨i⟩ : Position).getRow : Int) ((⟨i⟩ : Position).getCol : Int))) ?_ ?_
            · intro st
              unfold evalSquare
              simp only []
              rw [if_neg hne, if_neg (fun h => h rfl), if_neg h1, if_neg h2, if_pos h3]
            · intro st
              unfold evalSquare
              simp only []
              rw [if_neg hne2, if_neg hs2]
              simp only [hsq, hside, getSideSign_other, hrow, hcol,
                Square.swapSide_getPieceType]
              rw [if_neg h1, if_neg h2, if_pos h3]
          · by_cases h4 : (B.getSquare ⟨i⟩).getPieceType = PieceType.QUEEN_PIECE
            · refine fin _ _ _ (hb _ (by norm_num : |QUEEN_BONUS| + 160 + 160 + 20 ≤ 1240)
                  (by rw [h4]; decide))
                (mir_comp _ E _ _ _ _ _ _ (mir_comp _ E _ _ _ _ _ _
                  (scaled_mir _ E QUEEN_BONUS _ hsg (by decide))
                  (rookRays_mir B E i hi hne
                  ((⟨i⟩ : Position).getRow : Int) ((⟨i⟩ : Position).getCol : Int))) (bishopRays_mir B E i hi hne
                  ((⟨i⟩ : Position).getRow : Int) ((⟨i⟩ : Position).getCol : Int))) ?_ ?_
              · intro st
                unfold evalSquare
                simp only []
                rw [if_neg hne, if_neg (fun h => h rfl), if_neg h1, if_neg h2, if_neg h3,
                  if_pos h4]
              · intro st
                unfold evalSquare
                simp only []
                rw [if_neg hne2, if_neg hs2]
                simp only [hsq, hside, getSideSign_other, hrow, hcol,
                  Square.swapSide_getPieceType]
                rw [if_neg h1, if_neg h2, if_neg h3, if_pos h4]
            · by_cases h5 : (B.getSquare ⟨i⟩).getPieceType = PieceType.KNIGHT_PIECE
              · refine fin _ _ _ (hb _ (by norm_num : |KNIGHT_BONUS| + 40 + 20 ≤ 1240)
                    (by rw [h5]; decide))
                  (mir_comp _ E _ _ _ _ _ _ (scaled_mir _ E KNIGHT_BONUS _ hsg (by decide))
                    (knightMoves_mir B E i hi hne
                  ((⟨i⟩ : Position).getRow : Int) ((⟨i⟩ : Position).getCol : Int))) ?_ ?_
                · intro st
                  unfold evalSquare
                  simp only []
                  rw [if_neg hne, if_neg (fun h => h rfl), if_neg h1, if_neg h2, if_neg h3,
                    if_neg h4, if_pos h5]
                · intro st
                  unfold evalSquare
                  simp only []
                  rw [if_neg hne2, if_neg hs2]
                  simp only [hsq, hside, getSideSign_other, hrow, hcol,
                    Square.swapSide_getPieceType]
                  rw [if_neg h1, if_neg h2, if_neg h3, if_neg h4, if_pos h5]
              · by_cases h6 : (B.getSquare ⟨i⟩).getPieceType = PieceType.KING_PIECE
                · have hbk : |KING_BONUS| + 55 + 20
                      ≤ stepBound B (Board.getSide (B.getSquare ⟨i⟩).getSideBit) i := by
                    unfold stepBound
                    rw [if_neg (by rintro (h | h); exact hne h; exact h rfl), if_pos h6]
                    norm_num
                  refine fin _ _ _ hbk
                    (mir_comp _ E _ _ _ _ _ _ (scaled_mir _ E KING_BONUS _ hsg (by decide))
                      (evalKing_mir B E i hi hne)) ?_ ?_
                  · intro st
                    unfold evalSquare
                    simp only []
                    rw [if_neg hne, if_neg (fun h => h rfl), if_neg h1, if_neg h2, if_neg h3,
                      if_neg h4, if_neg h5, if_pos h6]
                  · intro st
                    unfold evalSquare
                    simp only []
                    rw [if_neg hne2, if_neg hs2]
                    simp only [hsq, hside, getSideSign_other, hrow, hcol,
                      Square.swapSide_getPieceType]
                    rw [if_neg h1, if_neg h2, if_neg h3, if_neg h4, if_neg h5, if_pos h6]
                · refine fin _ _ _ (hb _ (by norm_num : (0 : Int) + 20 ≤ 1240) h6)
                    (mir_id _ E) ?_ ?_
                  · intro st
                    unfold evalSquare
                    simp only []
                    rw [if_neg hne, if_neg (fun h => h rfl), if_neg h1, if_neg h2, if_neg h3,
                      if_neg h4, if_neg h5, if_neg h6]
                  · intro st
                    unfold evalSquare
                    simp only []
                    rw [if_neg hne2, if_neg hs2]
                    simp only [hsq, hside, getSideSign_other, hrow, hcol,
                      Square.swapSide_getPieceType]
                    rw [if_neg h1, if_neg h2, if_neg h3, if_neg h4, if_neg h5, if_neg h6]
    · have hs2 : Board.getSide (B.mirror.getSquare ⟨mirrorIndex i⟩).getSideBit ≠ sd.other := by
        rw [hsq, hside]
        exact fun h => hs ((Side.other_eq_iff _ _).mp h)
      refine mir_congr sd E _ _ _ _ _ ?_ ?_ (mir_mono sd E 0 _ _ _ ?_ (mir_id sd E))
      · intro st _
        unfold evalSquare
        simp only []
        rw [if_neg hne, if_pos hs]
      · intro st _
        unfold evalSquare
        simp only []
        rw [if_neg hne2, if_pos hs2]
      · unfold stepBound
        rw [if_pos (Or.inr hs)]

end Engine

namespace Engine

theorem sweepSide_mir (B : Board) (hB : InBounds B) (sd : Side) (E : Nat → Int) :
    Mir sd E (sweepBound B sd) (sweepSide B sd) (sweepSide B.mirror sd.other) :=
  mir_foldl sd E (List.range 64) mirrorIndex mirrorIndex_invol mirrorIndex_perm
    (stepBound B sd)
    (fun x st => evalSquare B (Board.getSideBit B.getMovingSide) sd st x)
    (fun x st => evalSquare B.mirror (Board.getSideBit B.mirror.getMovingSide) sd.other st x)
    (fun x hx => evalSquare_mir B hB sd E x ((mem_range64 x).mp hx))

theorem enemyCount_eq_ownCount (ctx : HeuristicsContext) (s : Side) (j : Nat) :
    ctx.enemyCount s j = ctx.ownCount s.other j := by
  cases s <;> rfl

theorem ownCount_eq_enemyCount (ctx : HeuristicsContext) (s : Side) (j : Nat) :
    ctx.ownCount s j = ctx.enemyCount s.other j := by
  cases s <;> rfl

theorem sweep_eq_other (B : Board) :
    sweep B = sweepSide B B.getMovingSide
      (sweepSide B B.getMovingSide.other ⟨EvalRecord.new, HeuristicsContext.new⟩) := by
  rw [sweep_eq]
  cases B.getMovingSide <;> rfl

/-- The sweep of the mirrored board against the sweep of the board: the scores are opposite
in 16-bit arithmetic, with a multiple of 5 within the bounds of the two sides as the sum of
the changes; as many moves are listed; and the attack counts are those of the other side on
the mirrored squares. -/
theorem sweep_mirror (B : Board) (hB : InBounds B) :
    ∃ S : Int, ((sweep B).record.score - S) % 65536 = 0
      ∧ ((sweep B.mirror).record.score + S) % 65536 = 0
      ∧ |S| ≤ sweepBound B B.getMovingSide.other + sweepBound B B.getMovingSide
      ∧ 5 ∣ S
      ∧ (sweep B.mirror).record.moves.length = (sweep B).record.moves.length
      ∧ (∀ s j, (sweep B.mirror).evalContext.ownCount s j
          = (sweep B).evalContext.ownCount s.other (mirrorIndex j))
      ∧ (-32768 ≤ (sweep B).record.score ∧ (sweep B).record.score ≤ 32767)
      ∧ (-32768 ≤ (sweep B.mirror).record.score ∧ (sweep B.mirror).record.score ≤ 32767) := by
  obtain ⟨e1, a1, a1', b1, d1⟩ := sweepSide_mir B hB B.getMovingSide.other (fun _ => 0)
  have p1 := a1 ⟨EvalRecord.new, HeuristicsContext.new⟩ (fun j => by
    cases B.getMovingSide <;> rfl)
  have p1' := a1' ⟨EvalRecord.new, HeuristicsContext.new⟩ (fun j => by
    cases B.getMovingSide <;> rfl)
  rw [Side.other_other] at a1' p1'
  obtain ⟨e2, a2, a2', b2, d2⟩ := sweepSide_mir B hB B.getMovingSide
    (fun j => (sweepSide B B.getMovingSide.other
      ⟨EvalRecord.new, HeuristicsContext.new⟩).evalContext.enemyCount B.getMovingSide j)
  have p2 := a2 (sweepSide B B.getMovingSide.other ⟨EvalRecord.new, HeuristicsContext.new⟩)
    (fun j => rfl)
  have hz : ∀ (s : Side) (j : Nat),
      (⟨EvalRecord.new, HeuristicsContext.new⟩ : EvalState).evalContext.ownCount s j = 0 := by
    intro s j
    cases s <;> rfl
  have p2' := a2' (sweepSide B.mirror B.getMovingSide ⟨EvalRecord.new, HeuristicsContext.new⟩)
    (fun j => by
      show _ = (sweepSide B B.getMovingSide.other
        ⟨EvalRecord.new, HeuristicsContext.new⟩).evalContext.enemyCount B.getMovingSide
          (mirrorIndex j)
      rw [enemyCount_eq_ownCount, Side.other_other, p1'.2.2.2.1 j,
        enemyCount_eq_ownCount, p1.2.2.2.1 (mirrorIndex j), hz, hz]
      rfl)
  have hsw : sweep B = sweepSide B B.getMovingSide
      (sweepSide B B.getMovingSide.other ⟨EvalRecord.new, HeuristicsContext.new⟩) :=
    sweep_eq_other B
  have hsw' : sweep B.mirror = sweepSide B.mirror B.getMovingSide.other
      (sweepSide B.mirror B.getMovingSide ⟨EvalRecord.new, HeuristicsContext.new⟩) := by
    rw [sweep_eq_other, Board.mirror_getMovingSide, Side.other_other]
  rw [hsw, hsw']
  obtain ⟨p11, p12, p13, p14, p15⟩ := p1
  obtain ⟨q11, q12, q13, q14, q15⟩ := p1'
  obtain ⟨p21, p22, p23, p24, p25⟩ := p2
  obtain ⟨q21, q22, q23, q24, q25⟩ := p2'
  have r0 : -32768 ≤ (⟨EvalRecord.new, HeuristicsContext.new⟩ : EvalState).record.score
      ∧ (⟨EvalRecord.new, HeuristicsContext.new⟩ : EvalState).record.score ≤ 32767 := by
    decide
  have s0 : (⟨EvalRecord.new, HeuristicsContext.new⟩ : EvalState).record.score = 0 := rfl
  have l0 : (⟨EvalRecord.new, HeuristicsContext.new⟩ : EvalState).record.moves.length = 0 := rfl
  refine ⟨e1.1 + e2.1, ?_, ?_, ?_, dvd_add d1 d2, ?_, ?_, p25 (p15 r0), q25 (q15 r0)⟩
  · rw [s0] at p12
    omega
  · have h1 : (mirrorEff e1).1 = -e1.1 := rfl
    have h2 : (mirrorEff e2).1 = -e2.1 := rfl
    rw [s0, h1] at q12
    rw [h2] at q22
    omega
  · exact (abs_add _ _).trans (add_le_add b1 b2)
  · have h1 : (mirrorEff e1).2.1 = e1.2.1 := rfl
    have h2 : (mirrorEff e2).2.1 = e2.2.1 := rfl
    rw [q23, q13, p23, p13, h1, h2]
  · intro s j
    have h2 : (mirrorEff e2).2.2 j = e2.2.2 (mirrorIndex j) := rfl
    by_cases hs : s = B.getMovingSide
    · subst hs
      rw [ownCount_eq_enemyCount, q21 j, ownCount_eq_enemyCount, Side.other_other]
      exact (p21 (mirrorIndex j)).symm
    · have hs2 : s = B.getMovingSide.other := (Side.ne_iff_eq_other _ _).mp hs
      subst hs2
      rw [q24 j, h2, Side.other_other, p24 (mirrorIndex j),
        ownCount_eq_enemyCount _ B.getMovingSide.other j, Side.other_other, q11 j,
        ownCount_eq_enemyCount _ B.getMovingSide (mirrorIndex j), p11 (mirrorIndex j)]

end Engine

namespace Engine

theorem wrap_mod (x : Int) : (wrapI16 x - x) % 65536 = 0 := by
  unfold wrapI16
  omega

theorem wrap_range (x : Int) : -32768 ≤ wrapI16 x ∧ wrapI16 x ≤ 32767 := by
  unfold wrapI16
  omega

/-- The attacker-count loop, when it meets no king of the side not to move on a square the side
to move attacks: it runs to its end, keeps the moves, adds the terms of the squares to the
score in 16-bit arithmetic, and keeps the score in the range of `int16_t`. -/
theorem attackerPass_sum (board : Board) (evalContext : HeuristicsContext)
    (movingSide : Side) (movingSideSign : Int) (l : List Nat) :
    (¬ ∃ i ∈ l, (board.getSquare ⟨i⟩).getPieceType = PieceType.KING_PIECE
      ∧ Board.getSide (board.getSquare ⟨i⟩).getSideBit ≠ movingSide
      ∧ evalContext.enemyCount (Board.getSide (board.getSquare ⟨i⟩).getSideBit) i > 0) →
    ∀ record : EvalRecord, ∃ r : EvalRecord,
      attackerPass board evalContext movingSide movingSideSign l record = PassResult.running r
      ∧ r.moves = record.moves
      ∧ (r.score - record.score - (l.map (passTerm board evalContext)).sum) % 65536 = 0
      ∧ (-32768 ≤ record.score ∧ record.score ≤ 32767 →
          -32768 ≤ r.score ∧ r.score ≤ 32767) := by
  induction l with
  | nil =>
    intro _ record
    exact ⟨record, rfl, rfl, by simp, fun h => h⟩
  | cons i rest ih =>
    intro hK record
    have hKi : ¬ ((board.getSquare ⟨i⟩).getPieceType = PieceType.KING_PIECE
      ∧ Board.getSide (board.getSquare ⟨i⟩).getSideBit ≠ movingSide
      ∧ evalContext.enemyCount (Board.getSide (board.getSquare ⟨i⟩).getSideBit) i > 0) :=
      fun h => hK ⟨i, List.mem_cons_self i rest, h⟩
    have ih2 := ih (fun ⟨j, hj, h⟩ => hK ⟨j, List.mem_cons_of_mem i hj, h⟩)
    have done : ∀ record2 : EvalRecord, record2.moves = record.moves →
        (record2.score - record.score - passTerm board evalContext i) % 65536 = 0 →
        (-32768 ≤ record.score ∧ record.score ≤ 32767 →
          -32768 ≤ record2.score ∧ record2.score ≤ 32767) →
        ∃ r : EvalRecord,
          attackerPass board evalContext movingSide movingSideSign rest record2
            = PassResult.running r
          ∧ r.moves = record.moves
          ∧ (r.score - record.score
              - ((i :: rest).map (passTerm board evalContext)).sum) % 65536 = 0
          ∧ (-32768 ≤ record.score ∧ record.score ≤ 32767 →
              -32768 ≤ r.score ∧ r.score ≤ 32767) := by
      intro record2 h1 h2 h3
      obtain ⟨r, a, b, c, d⟩ := ih2 record2
      refine ⟨r, a, b.trans h1, ?_, fun h => d (h3 h)⟩
      rw [List.map_cons, List.sum_cons]
      omega
    unfold attackerPass
    simp only []
    by_cases h0 : (board.getSquare ⟨i⟩).getPieceType = PieceType.NO_PIECE
    · rw [if_pos h0]
      refine done record rfl ?_ (fun h => h)
      unfold passTerm
      rw [if_pos h0]
      simp
    · rw [if_neg h0]
      by_cases hz : evalContext.whiteAttackCount i = 0 ∧ evalContext.blackAttackCount i = 0
      · rw [if_pos hz]
        have hz2 := (c0_iff evalContext (Board.getSide (board.getSquare ⟨i⟩).getSideBit) i).mp hz
        refine done record rfl ?_ (fun h => h)
        unfold passTerm
        rw [if_neg h0, hz2.1, hz2.2]
        simp
      · rw [if_neg hz]
        by_cases h6 : (board.getSquare ⟨i⟩).getPieceType = PieceType.KING_PIECE
        · rw [if_neg (fun h => hKi ⟨h.1, h.2.1, (afterCheckmate_cond evalContext
            (Board.getSide (board.getSquare ⟨i⟩).getSideBit) i).mp h.2.2⟩), if_pos h6]
          have ht : passTerm board evalContext i
              = (if evalContext.enemyCount (Board.getSide (board.getSquare ⟨i⟩).getSideBit) i > 0
                then CHECK_PENALTY
                  * Board.getSideSign (Board.getSide (board.getSquare ⟨i⟩).getSideBit)
                else 0) := by
            unfold passTerm
            rw [if_neg h0, if_pos h6]
          by_cases hc : evalContext.enemyCount
              (Board.getSide (board.getSquare ⟨i⟩).getSideBit) i > 0
          · rw [if_pos ((check_iff _ _ _).mpr hc)]
            refine done _ rfl ?_ (fun _ => wrap_range _)
            rw [ht, if_pos hc]
            have := wrap_mod (record.score + CHECK_PENALTY
              * Board.getSideSign (Board.getSide (board.getSquare ⟨i⟩).getSideBit))
            show (wrapI16 (record.score + CHECK_PENALTY
              * Board.getSideSign (Board.getSide (board.getSquare ⟨i⟩).getSideBit))
              - record.score - CHECK_PENALTY
              * Board.getSideSign (Board.getSide (board.getSquare ⟨i⟩).getSideBit)) % 65536 = 0
            omega
          · rw [if_neg (fun h => hc ((check_iff _ _ _).mp h))]
            refine done record rfl ?_ (fun h => h)
            rw [ht, if_neg hc]
            simp
        · rw [if_neg (fun h => h6 h.1), if_neg h6]
          have ht : passTerm board evalContext i
              = (if evalContext.enemyCount (Board.getSide (board.getSquare ⟨i⟩).getSideBit) i
                  > evalContext.ownCount (Board.getSide (board.getSquare ⟨i⟩).getSideBit) i
                then UNDEFENDED_PIECE_PENALTY_WITH_ATTACKERS
                  * Board.getSideSign (Board.getSide (board.getSquare ⟨i⟩).getSideBit)
                else 0)
              + (if evalContext.enemyCount (Board.getSide (board.getSquare ⟨i⟩).getSideBit) i = 0
                  ∧ evalContext.ownCount (Board.getSide (board.getSquare ⟨i⟩).getSideBit) i > 0
                then NO_ATTACKERS_HAVE_DEFENDERS_BONUS
                  * Board.getSideSign (Board.getSide (board.getSquare ⟨i⟩).getSideBit)
                else 0) := by
            unfold passTerm
            rw [if_neg h0, if_neg h6]
          by_cases c1 : evalContext.enemyCount (Board.getSide (board.getSquare ⟨i⟩).getSideBit) i
              > evalContext.ownCount (Board.getSide (board.getSquare ⟨i⟩).getSideBit) i
          · rw [if_pos ((c1_iff _ _ _).mpr c1)]
            by_cases c2 : evalContext.enemyCount
                (Board.getSide (board.getSquare ⟨i⟩).getSideBit) i = 0
                ∧ evalContext.ownCount (Board.getSide (board.getSquare ⟨i⟩).getSideBit) i > 0
            · rw [if_pos ((c2_iff _ _ _).mpr c2)]
              refine done _ rfl ?_ (fun _ => wrap_range _)
              rw [ht, if_pos c1, if_pos c2]
              have w1 := wrap_mod (record.score + UNDEFENDED_PIECE_PENALTY_WITH_ATTACKERS
                * Board.getSideSign (Board.getSide (board.getSquare ⟨i⟩).getSideBit))
              have w2 := wrap_mod (wrapI16 (record.score
                + UNDEFENDED_PIECE_PENALTY_WITH_ATTACKERS
                  * Board.getSideSign (Board.getSide (board.getSquare ⟨i⟩).getSideBit))
                + NO_ATTACKERS_HAVE_DEFENDERS_BONUS
                  * Board.getSideSign (Board.getSide (board.getSquare ⟨i⟩).getSideBit))
              show (wrapI16 (wrapI16 (record.score
                + UNDEFENDED_PIECE_PENALTY_WITH_ATTACKERS
                  * Board.getSideSign (Board.getSide (board.getSquare ⟨i⟩).getSideBit))
                + NO_ATTACKERS_HAVE_DEFENDERS_BONUS
                  * Board.getSideSign (Board.getSide (board.getSquare ⟨i⟩).getSideBit))
                - record.score - (UNDEFENDED_PIECE_PENALTY_WITH_ATTACKERS
                  * Board.getSideSign (Board.getSide (board.getSquare ⟨i⟩).getSideBit)
                  + NO_ATTACKERS_HAVE_DEFENDERS_BONUS
                  * Board.getSideSign (Board.getSide (board.getSquare ⟨i⟩).getSideBit)))
                % 65536 = 0
              omega
            · rw [if_neg (fun h => c2 ((c2_iff _ _ _).mp h))]
              refine done _ rfl ?_ (fun _ => wrap_range _)
              rw [ht, if_pos c1, if_neg c2, add_zero]
              have w1 := wrap_mod (record.score + UNDEFENDED_PIECE_PENALTY_WITH_ATTACKERS
                * Board.getSideSign (Board.getSide (board.getSquare ⟨i⟩).getSideBit))
              show (wrapI16 (record.score + UNDEFENDED_PIECE_PENALTY_WITH_ATTACKERS
                * Board.getSideSign (Board.getSide (board.getSquare ⟨i⟩).getSideBit))
                - record.score - UNDEFENDED_PIECE_PENALTY_WITH_ATTACKERS
                * Board.getSideSign (Board.getSide (board.getSquare ⟨i⟩).getSideBit))
                % 65536 = 0
              omega
          · rw [if_neg (fun h => c1 ((c1_iff _ _ _).mp h))]
            by_cases c2 : evalContext.enemyCount
                (Board.getSide (board.getSquare ⟨i⟩).getSideBit) i = 0
                ∧ evalContext.ownCount (Board.getSide (board.getSquare ⟨i⟩).getSideBit) i > 0
            · rw [if_pos ((c2_iff _ _ _).mpr c2)]
              refine done _ rfl ?_ (fun _ => wrap_range _)
              rw [ht, if_neg c1, if_pos c2, zero_add]
              have w1 := wrap_mod (record.score + NO_ATTACKERS_HAVE_DEFENDERS_BONUS
                * Board.getSideSign (Board.getSide (board.getSquare ⟨i⟩).getSideBit))
              show (wrapI16 (record.score + NO_ATTACKERS_HAVE_DEFENDERS_BONUS
                * Board.getSideSign (Board.getSide (board.getSquare ⟨i⟩).getSideBit))
                - record.score - NO_ATTACKERS_HAVE_DEFENDERS_BONUS
                * Board.getSideSign (Board.getSide (board.getSquare ⟨i⟩).getSideBit))
                % 65536 = 0
              omega
            · rw [if_neg (fun h => c2 ((c2_iff _ _ _).mp h))]
              refine done record rfl ?_ (fun h => h)
              rw [ht, if_neg c1, if_neg c2]
              simp

end Engine

namespace Engine

/-- The term of the attacker-count loop on the mirrored board at the mirrored square, with the
attack counts of the sides exchanged and mirrored, is the opposite of the term on the board. -/
theorem passTerm_mirror (B : Board) (ctx ctx2 : HeuristicsContext)
    (hcnt : ∀ s j, ctx2.ownCount s j = ctx.ownCount s.other (mirrorIndex j))
    (i : Nat) (hi : i < 64) :
    passTerm B.mirror ctx2 (mirrorIndex i) = - passTerm B ctx i := by
  unfold passTerm
  rw [Board.mirror_getSquare B i hi, Square.swapSide_getPieceType]
  by_cases h0 : (B.getSquare ⟨i⟩).getPieceType = PieceType.NO_PIECE
  · rw [if_pos h0, if_pos h0]
    rfl
  · rw [if_neg h0, if_neg h0, Square.swapSide_getSide _ h0, getSideSign_other]
    have hown : ctx2.ownCount (Board.getSide (B.getSquare ⟨i⟩).getSideBit).other (mirrorIndex i)
        = ctx.ownCount (Board.getSide (B.getSquare ⟨i⟩).getSideBit) i := by
      rw [hcnt, Side.other_other, mirrorIndex_invol]
    have hen : ctx2.enemyCount (Board.getSide (B.getSquare ⟨i⟩).getSideBit).other (mirrorIndex i)
        = ctx.enemyCount (Board.getSide (B.getSquare ⟨i⟩).getSideBit) i := by
      rw [enemyCount_eq_ownCount, hcnt, mirrorIndex_invol, ← enemyCount_eq_ownCount,
        Side.other_other]
    rw [hown, hen]
    by_cases h6 : (B.getSquare ⟨i⟩).getPieceType = PieceType.KING_PIECE
    · rw [if_pos h6, if_pos h6]
      split_ifs <;> ring
    · rw [if_neg h6, if_neg h6]
      split_ifs <;> ring

theorem passTerm_bound (B : Board) (ctx : HeuristicsContext) (i : Nat) :
    |passTerm B ctx i| ≤ passBound B i ∧ 5 ∣ passTerm B ctx i := by
  unfold passTerm passBound
  by_cases h0 : (B.getSquare ⟨i⟩).getPieceType = PieceType.NO_PIECE
  · rw [if_pos h0, if_pos h0]
    simp
  · rw [if_neg h0, if_neg h0]
    rcases sign_cases (Board.getSide (B.getSquare ⟨i⟩).getSideBit) with hs | hs <;> rw [hs] <;>
      by_cases h6 : (B.getSquare ⟨i⟩).getPieceType = PieceType.KING_PIECE
    · rw [if_pos h6]
      split_ifs <;> constructor <;> decide
    · rw [if_neg h6]
      split_ifs <;> constructor <;> decide
    · rw [if_pos h6]
      split_ifs <;> constructor <;> decide
    · rw [if_neg h6]
      split_ifs <;> constructor <;> decide

theorem sum_dvd (f : Nat → Int) (l : List Nat) (h : ∀ i ∈ l, (5 : Int) ∣ f i) :
    (5 : Int) ∣ (l.map f).sum := by
  induction l with
  | nil => simp
  | cons a t ih =>
    rw [List.map_cons, List.sum_cons]
    exact dvd_add (h a (List.mem_cons_self a t))
      (ih (fun i hi => h i (List.mem_cons_of_mem a hi)))

theorem sum_abs (f g : Nat → Int) (l : List Nat) (h : ∀ i ∈ l, |f i| ≤ g i) :
    |(l.map f).sum| ≤ (l.map g).sum := by
  induction l with
  | nil => simp
  | cons a t ih =>
    rw [List.map_cons, List.sum_cons, List.map_cons, List.sum_cons]
    have h1 := h a (List.mem_cons_self a t)
    have h2 := ih (fun i hi => h i (List.mem_cons_of_mem a hi))
    rw [abs_le] at h1 h2 ⊢
    omega

/-- The sum of the terms of the attacker-count loop over the mirrored board is the opposite of
the sum over the board. -/
theorem passSum_mirror (B : Board) (ctx ctx2 : HeuristicsContext)
    (hcnt : ∀ s j, ctx2.ownCount s j = ctx.ownCount s.other (mirrorIndex j)) :
    ((List.range 64).map (passTerm B.mirror ctx2)).sum
      = - ((List.range 64).map (passTerm B ctx)).sum := by
  have h1 : ((List.range 64).map (passTerm B.mirror ctx2)).sum
      = (((List.range 64).map mirrorIndex).map (passTerm B.mirror ctx2)).sum :=
    ((mirrorIndex_perm.map (passTerm B.mirror ctx2)).sum_eq).symm
  rw [h1, List.map_map]
  have h2 : (List.range 64).map (passTerm B.mirror ctx2 ∘ mirrorIndex)
      = (List.range 64).map (fun i => - passTerm B ctx i) := by
    apply List.map_congr_left
    intro i hi
    exact passTerm_mirror B ctx ctx2 hcnt i (List.mem_range.mp hi)
  rw [h2]
  generalize List.range 64 = l
  induction l with
  | nil => simp
  | cons a t ih =>
    rw [List.map_cons, List.sum_cons, List.map_cons, List.sum_cons, ih]
    ring

/-- The after-checkmate condition holds on the mirrored board exactly when it holds on the
board. -/
theorem afterCheckmate_mirror (B : Board) (hB : InBounds B) :
    AfterCheckmate B.mirror ↔ AfterCheckmate B := by
  obtain ⟨S, _, _, _, _, _, hcnt, _, _⟩ := sweep_mirror B hB
  have key : ∀ i, i < 64 →
      (((B.mirror.getSquare ⟨mirrorIndex i⟩).getPieceType = PieceType.KING_PIECE
        ∧ Board.getSide (B.mirror.getSquare ⟨mirrorIndex i⟩).getSideBit ≠ B.mirror.getMovingSide
        ∧ (sweep B.mirror).evalContext.enemyCount
            (Board.getSide (B.mirror.getSquare ⟨mirrorIndex i⟩).getSideBit) (mirrorIndex i) > 0)
      ↔ ((B.getSquare ⟨i⟩).getPieceType = PieceType.KING_PIECE
        ∧ Board.getSide (B.getSquare ⟨i⟩).getSideBit ≠ B.getMovingSide
        ∧ (sweep B).evalContext.enemyCount
            (Board.getSide (B.getSquare ⟨i⟩).getSideBit) i > 0)) := by
    intro i hi
    rw [Board.mirror_getSquare B i hi, Square.swapSide_getPieceType, Board.mirror_getMovingSide]
    by_cases h6 : (B.getSquare ⟨i⟩).getPieceType = PieceType.KING_PIECE
    · have h0 : (B.getSquare ⟨i⟩).getPieceType ≠ PieceType.NO_PIECE := by
        rw [h6]; decide
      rw [Square.swapSide_getSide _ h0, enemyCount_eq_ownCount, hcnt, mirrorIndex_invol,
        ← enemyCount_eq_ownCount, Side.other_other]
      have e : (Board.getSide (B.getSquare ⟨i⟩).getSideBit).other ≠ B.getMovingSide.other
          ↔ Board.getSide (B.getSquare ⟨i⟩).getSideBit ≠ B.getMovingSide :=
        not_congr (Side.other_eq_iff _ _)
      rw [e]
    · constructor <;> intro h <;> exact absurd h.1 h6
  constructor
  · rintro ⟨j, hj, h⟩
    have hm := mirrorIndex_lt j hj
    refine ⟨mirrorIndex j, hm, (key (mirrorIndex j) hm).mp ?_⟩
    rw [mirrorIndex_invol]
    exact h
  · rintro ⟨i, hi, h⟩
    exact ⟨mirrorIndex i, mirrorIndex_lt i hi, (key i hi).mpr h⟩

end Engine

namespace Engine

theorem filter_len (p : Nat → Bool) (a : Nat) (t : List Nat) :
    (p a = true → (((a :: t).filter p).length : Int) = ((t.filter p).length : Int) + 1)
    ∧ (¬ p a = true → (((a :: t).filter p).length : Int) = ((t.filter p).length : Int)) := by
  rw [List.filter_cons]
  by_cases hp : p a = true
  · rw [if_pos hp, List.length_cons]
    push_cast
    exact ⟨fun _ => rfl, fun h => absurd hp h⟩
  · rw [if_neg hp]
    exact ⟨fun h => absurd h hp, fun _ => rfl⟩

/-- The bound of the sweep of one side over a list of squares, by the numbers of the kings and
of the other pieces of the side on the squares. -/
theorem stepBound_sum (B : Board) (s : Side) (l : List Nat) :
    (l.map (stepBound B s)).sum
      = 20075 * (((l.filter (fun i => decide ((B.squares i).getPieceType = PieceType.KING_PIECE
          ∧ Board.getSide (B.squares i).getSideBit = s))).length : Nat) : Int)
        + 1240 * (((l.filter (fun i => decide ((B.squares i).getPieceType ≠ PieceType.NO_PIECE
          ∧ (B.squares i).getPieceType ≠ PieceType.KING_PIECE
          ∧ Board.getSide (B.squares i).getSideBit = s))).length : Nat) : Int) := by
  induction l with
  | nil => rfl
  | cons a t ih =>
    rw [List.map_cons, List.sum_cons, ih]
    have a1 := filter_len (fun i => decide ((B.squares i).getPieceType = PieceType.KING_PIECE
          ∧ Board.getSide (B.squares i).getSideBit = s)) a t
    have a2 := filter_len (fun i => decide ((B.squares i).getPieceType ≠ PieceType.NO_PIECE
          ∧ (B.squares i).getPieceType ≠ PieceType.KING_PIECE
          ∧ Board.getSide (B.squares i).getSideBit = s)) a t
    by_cases h0 : (B.squares a).getPieceType = PieceType.NO_PIECE
    · have e : stepBound B s a = 0 := by
        unfold stepBound Board.getSquare
        rw [if_pos (Or.inl h0)]
      have hk : (B.squares a).getPieceType ≠ PieceType.KING_PIECE := by rw [h0]; decide
      have b1 := a1.2 (fun h => hk (of_decide_eq_true h).1)
      have b2 := a2.2 (fun h => (of_decide_eq_true h).1 h0)
      rw [e]
      omega
    · by_cases hs : Board.getSide (B.squares a).getSideBit = s
      · by_cases h6 : (B.squares a).getPieceType = PieceType.KING_PIECE
        · have e : stepBound B s a = 20075 := by
            unfold stepBound Board.getSquare
            rw [if_neg (fun h => h.elim h0 (fun h => h hs)), if_pos h6]
          have b1 := a1.1 (decide_eq_true ⟨h6, hs⟩)
          have b2 := a2.2 (fun h => (of_decide_eq_true h).2.1 h6)
          rw [e]
          omega
        · have e : stepBound B s a = 1240 := by
            unfold stepBound Board.getSquare
            rw [if_neg (fun h => h.elim h0 (fun h => h hs)), if_neg h6]
          have b1 := a1.2 (fun h => h6 (of_decide_eq_true h).1)
          have b2 := a2.1 (decide_eq_true ⟨h0, h6, hs⟩)
          rw [e]
          omega
      · have e : stepBound B s a = 0 := by
          unfold stepBound Board.getSquare
          rw [if_pos (Or.inr hs)]
        have b1 := a1.2 (fun h => hs (of_decide_eq_true h).2)
        have b2 := a2.2 (fun h => hs (of_decide_eq_true h).2.2)
        rw [e]
        omega

theorem sweepBound_eq (B : Board) (s : Side) :
    sweepBound B s = 20075 * (B.kingCount s : Int) + 1240 * (B.otherCount s : Int) :=
  stepBound_sum B s (List.range 64)

/-- The bound of the attacker-count loop over a list of squares, by the numbers of the pieces
on the squares. -/
theorem passBound_sum (B : Board) (l : List Nat) :
    (l.map (passBound B)).sum
      ≤ 100 * (((l.filter (fun i => decide ((B.squares i).getPieceType = PieceType.KING_PIECE
          ∧ Board.getSide (B.squares i).getSideBit = Side.WHITE))).length : Nat) : Int)
        + 100 * (((l.filter (fun i => decide ((B.squares i).getPieceType ≠ PieceType.NO_PIECE
          ∧ (B.squares i).getPieceType ≠ PieceType.KING_PIECE
          ∧ Board.getSide (B.squares i).getSideBit = Side.WHITE))).length : Nat) : Int)
        + 100 * (((l.filter (fun i => decide ((B.squares i).getPieceType = PieceType.KING_PIECE
          ∧ Board.getSide (B.squares i).getSideBit = Side.BLACK))).length : Nat) : Int)
        + 100 * (((l.filter (fun i => decide ((B.squares i).getPieceType ≠ PieceType.NO_PIECE
          ∧ (B.squares i).getPieceType ≠ PieceType.KING_PIECE
          ∧ Board.getSide (B.squares i).getSideBit = Side.BLACK))).length : Nat) : Int) := by
  induction l with
  | nil => exact le_refl _
  | cons a t ih =>
    rw [List.map_cons, List.sum_cons]
    have hlen : ∀ p : Nat → Bool, ((t.filter p).length : Int) ≤ (((a :: t).filter p).length : Int)
        ∧ (p a = true → (((a :: t).filter p).length : Int) = ((t.filter p).length : Int) + 1) := by
      intro p
      rw [List.filter_cons]
      by_cases hp : p a = true
      · rw [if_pos hp, List.length_cons]
        push_cast
        exact ⟨by omega, fun _ => rfl⟩
      · rw [if_neg hp]
        exact ⟨le_refl _, fun h => absurd h hp⟩
    have a1 := hlen (fun i => decide ((B.squares i).getPieceType = PieceType.KING_PIECE
          ∧ Board.getSide (B.squares i).getSideBit = Side.WHITE))
    have a2 := hlen (fun i => decide ((B.squares i).getPieceType ≠ PieceType.NO_PIECE
          ∧ (B.squares i).getPieceType ≠ PieceType.KING_PIECE
          ∧ Board.getSide (B.squares i).getSideBit = Side.WHITE))
    have a3 := hlen (fun i => decide ((B.squares i).getPieceType = PieceType.KING_PIECE
          ∧ Board.getSide (B.squares i).getSideBit = Side.BLACK))
    have a4 := hlen (fun i => decide ((B.squares i).getPieceType ≠ PieceType.NO_PIECE
          ∧ (B.squares i).getPieceType ≠ PieceType.KING_PIECE
          ∧ Board.getSide (B.squares i).getSideBit = Side.BLACK))
    by_cases h0 : (B.squares a).getPieceType = PieceType.NO_PIECE
    · have e : passBound B a = 0 := by
        unfold passBound Board.getSquare
        rw [if_pos h0]
      rw [e]
      omega
    · have e : passBound B a = 100 := by
        unfold passBound Board.getSquare
        rw [if_neg h0]
      rw [e]
      by_cases h6 : (B.squares a).getPieceType = PieceType.KING_PIECE
      · cases hs : Board.getSide (B.squares a).getSideBit
        · have := a1.2 (decide_eq_true ⟨h6, hs⟩)
          omega
        · have := a3.2 (decide_eq_true ⟨h6, hs⟩)
          omega
      · cases hs : Board.getSide (B.squares a).getSideBit
        · have := a2.2 (decide_eq_true ⟨h0, h6, hs⟩)
          omega
        · have := a4.2 (decide_eq_true ⟨h0, h6, hs⟩)
          omega

theorem passBound_le (B : Board) :
    ((List.range 64).map (passBound B)).sum
      ≤ 100 * (B.kingCount Side.WHITE : Int) + 100 * (B.otherCount Side.WHITE : Int)
        + 100 * (B.kingCount Side.BLACK : Int) + 100 * (B.otherCount Side.BLACK : Int) :=
  passBound_sum B (List.range 64)

end Engine

namespace Engine

theorem exact_neg (a b X : Int) (h1 : (a - X) % 65536 = 0) (h2 : (b + X) % 65536 = 0)
    (ha : -32768 ≤ a ∧ a ≤ 32767) (hb : -32768 ≤ b ∧ b ≤ 32767)
    (hX : -98303 ≤ X ∧ X ≤ 98303) (h5 : (5 : Int) ∣ X) : b = -a := by
  obtain ⟨k, hk⟩ := h5
  omega

/-- What C15 says holds on the boards with no pawn on the last row of its side, where the
evaluator reads only cells of its arrays: for every such board with at most one king and at
most 15 other pieces per side, the score
of `evaluateBoard` on the mirrored board (rows reversed, sides swapped, side to move swapped)
is exactly the opposite of the score on the board. -/
theorem score_mirror (B : Board) (hB : InBounds B)
    (hk : B.kingCount Side.WHITE ≤ 1 ∧ B.kingCount Side.BLACK ≤ 1)
    (ho : B.otherCount Side.WHITE ≤ 15 ∧ B.otherCount Side.BLACK ≤ 15) :
    (evaluateBoard B.mirror).score = - (evaluateBoard B).score := by
  obtain ⟨S, h1, h2, hS, h5, hlen, hcnt, hr, hr2⟩ := sweep_mirror B hB
  have hsign : Board.getSideSign B.mirror.getMovingSide = - Board.getSideSign B.getMovingSide := by
    rw [Board.mirror_getMovingSide, getSideSign_other]
  by_cases hA : AfterCheckmate B
  · have hA2 := (afterCheckmate_mirror B hB).mpr hA
    obtain ⟨i, hi, hc⟩ := hA
    obtain ⟨j, hj, hd⟩ := hA2
    obtain ⟨r, e, _, sc, _⟩ := attackerPass_returned B (sweep B).evalContext B.getMovingSide
      (Board.getSideSign B.getMovingSide) (List.range 64) (sweep B).record
      ⟨i, (mem_range64 i).mpr hi, hc⟩
    obtain ⟨r2, e2, _, sc2, _⟩ := attackerPass_returned B.mirror (sweep B.mirror).evalContext
      B.mirror.getMovingSide (Board.getSideSign B.mirror.getMovingSide) (List.range 64)
      (sweep B.mirror).record ⟨j, (mem_range64 j).mpr hj, hd⟩
    have v1 : (evaluateBoard B).score = r.score := by
      unfold evaluateBoard
      simp only [e]
    have v2 : (evaluateBoard B.mirror).score = r2.score := by
      unfold evaluateBoard
      simp only [e2]
    rw [v1, v2, sc, sc2, hsign]
    rcases sign_cases B.getMovingSide with h | h <;> rw [h] <;> decide
  · have hA2 : ¬ AfterCheckmate B.mirror := fun h => hA ((afterCheckmate_mirror B hB).mp h)
    have hA' : ¬ ∃ i ∈ List.range 64, (B.getSquare ⟨i⟩).getPieceType = PieceType.KING_PIECE
        ∧ Board.getSide (B.getSquare ⟨i⟩).getSideBit ≠ B.getMovingSide
        ∧ (sweep B).evalContext.enemyCount (Board.getSide (B.getSquare ⟨i⟩).getSideBit) i > 0 := by
      rintro ⟨i, hi, hc⟩
      exact hA ⟨i, (mem_range64 i).mp hi, hc⟩
    have hA2' : ¬ ∃ i ∈ List.range 64,
        (B.mirror.getSquare ⟨i⟩).getPieceType = PieceType.KING_PIECE
        ∧ Board.getSide (B.mirror.getSquare ⟨i⟩).getSideBit ≠ B.mirror.getMovingSide
        ∧ (sweep B.mirror).evalContext.enemyCount
            (Board.getSide (B.mirror.getSquare ⟨i⟩).getSideBit) i > 0 := by
      rintro ⟨i, hi, hc⟩
      exact hA2 ⟨i, (mem_range64 i).mp hi, hc⟩
    obtain ⟨r, e, m1, c1, g1⟩ := attackerPass_sum B (sweep B).evalContext B.getMovingSide
      (Board.getSideSign B.getMovingSide) (List.range 64) hA' (sweep B).record
    obtain ⟨r2, e2, m2, c2, g2⟩ := attackerPass_sum B.mirror (sweep B.mirror).evalContext
      B.mirror.getMovingSide (Board.getSideSign B.mirror.getMovingSide) (List.range 64) hA2'
      (sweep B.mirror).record
    have hl : r2.moves.length = r.moves.length := by rw [m1, m2, hlen]
    by_cases hz : r.moves.length = 0
    · have hz2 : r2.moves.length = 0 := hl.trans hz
      have v1 : (evaluateBoard B).score
          = wrapI16 (STALEMATE_SCORE * Board.getSideSign B.getMovingSide) := by
        unfold evaluateBoard
        simp only [e, hz, if_true]
        rfl
      have v2 : (evaluateBoard B.mirror).score
          = wrapI16 (STALEMATE_SCORE * Board.getSideSign B.mirror.getMovingSide) := by
        unfold evaluateBoard
        simp only [e2, hz2, if_true]
        rfl
      rw [v1, v2, hsign]
      rcases sign_cases B.getMovingSide with h | h <;> rw [h] <;> decide
    · have hz2 : ¬ r2.moves.length = 0 := fun h => hz (hl.symm.trans h)
      have v1 : (evaluateBoard B).score = r.score := by
        unfold evaluateBoard
        simp only [e, hz, if_false]
      have v2 : (evaluateBoard B.mirror).score = r2.score := by
        unfold evaluateBoard
        simp only [e2, hz2, if_false]
      rw [v1, v2]
      have hP := passSum_mirror B (sweep B).evalContext (sweep B.mirror).evalContext hcnt
      rw [hP] at c2
      have hPb := sum_abs (passTerm B (sweep B).evalContext) (passBound B) (List.range 64)
        (fun i _ => (passTerm_bound B (sweep B).evalContext i).1)
      have hP5 := sum_dvd (passTerm B (sweep B).evalContext) (List.range 64)
        (fun i _ => (passTerm_bound B (sweep B).evalContext i).2)
      have hPl := passBound_le B
      have b1 := sweepBound_eq B B.getMovingSide
      have b2 := sweepBound_eq B B.getMovingSide.other
      have hkk : ∀ s : Side, (B.kingCount s : Int) ≤ 1 ∧ (B.otherCount s : Int) ≤ 15 := by
        intro s
        cases s
        · exact ⟨by exact_mod_cast hk.1, by exact_mod_cast ho.1⟩
        · exact ⟨by exact_mod_cast hk.2, by exact_mod_cast ho.2⟩
      have k1 := hkk B.getMovingSide
      have k2 := hkk B.getMovingSide.other
      have k3 := hkk Side.WHITE
      have k4 := hkk Side.BLACK
      rw [abs_le] at hS hPb
      have g1' := g1 hr
      have g2' := g2 hr2
      refine exact_neg r.score r2.score
        (S + ((List.range 64).map (passTerm B (sweep B).evalContext)).sum) ?_ ?_ g1' g2' ?_
        (dvd_add h5 hP5)
      · omega
      · omega
      · omega

theorem score_mirror_witness :
    InBounds quietSearchBoard
    ∧ (quietSearchBoard.kingCount Side.WHITE ≤ 1 ∧ quietSearchBoard.kingCount Side.BLACK ≤ 1)
    ∧ (quietSearchBoard.otherCount Side.WHITE ≤ 15 ∧ quietSearchBoard.otherCount Side.BLACK ≤ 15)
    ∧ (evaluateBoard quietSearchBoard.mirror).score = - (evaluateBoard quietSearchBoard).score :=
  ⟨by unfold InBounds; decide, by decide, by decide,
    score_mirror quietSearchBoard (by unfold InBounds; decide) (by decide) (by decide)⟩

end Engine

namespace Board

end Board

namespace Engine

/-- C36: on the board with a white pawn on e4 that carries the moved-twice bit and a black
pawn on d4 beside it, White to move, the move list of `evaluateBoard` holds the en-passant
CAPTURE d4-e3, a move whose from-square holds a pawn of Black, the side not to move: the
en-passant branch appends its capture without a check of the side to move. -/
theorem stray_enPassant :
    strayEnpassantBoard.getMovingSide = Side.WHITE
    ∧ (strayEnpassantBoard.getSquare ⟨28⟩).getPieceType = PieceType.PAWN_PIECE
    ∧ Board.getSide (strayEnpassantBoard.getSquare ⟨28⟩).getSideBit = Side.WHITE
    ∧ (strayEnpassantBoard.getSquare ⟨28⟩).getPawnMovedTwiceBit = PawnMovedTwiceBit.YES
    ∧ ∃ m ∈ (evaluateBoard strayEnpassantBoard).moves,
        m = Move.make ⟨27⟩ ⟨20⟩ MoveType.CAPTURE PieceType.NO_PIECE
        ∧ (strayEnpassantBoard.getSquare m.getFrom).getPieceType = PieceType.PAWN_PIECE
        ∧ Board.getSide (strayEnpassantBoard.getSquare m.getFrom).getSideBit = Side.BLACK
        ∧ Board.getSide (strayEnpassantBoard.getSquare m.getFrom).getSideBit
            ≠ strayEnpassantBoard.getMovingSide :=
  ⟨by decide, by decide, by decide, by decide,
    Move.make ⟨27⟩ ⟨20⟩ MoveType.CAPTURE PieceType.NO_PIECE, by decide, rfl, by decide,
    by decide, by decide⟩

end Engine

namespace Engine

theorem lexLt_total : ∀ a b : List Int, a.length = b.length →
    lexLt a b = false → lexLt b a = false → a = b := by
  intro a
  induction a with
  | nil =>
    intro b hl _ _
    cases b with
    | nil => rfl
    | cons y ys => exact absurd hl (by simp)
  | cons x xs ih =>
    intro b hl h1 h2
    cases b with
    | nil => exact absurd hl (by simp)
    | cons y ys =>
      rw [lexLt] at h1 h2
      simp only [Bool.or_eq_false_iff, Bool.and_eq_false_iff, decide_eq_false_iff_not] at h1 h2
      have hxy : x = y := by omega
      subst hxy
      have hl2 : xs.length = ys.length := by
        simp only [List.length_cons] at hl
        omega
      have t1 : lexLt xs ys = false := by
        rcases h1.2 with h | h
        · exact absurd rfl h
        · exact h
      have t2 : lexLt ys xs = false := by
        rcases h2.2 with h | h
        · exact absurd rfl h
        · exact h
      rw [ih ys hl2 t1 t2]

theorem bestFirstKey_length (evals : Cache) (side : Side) (a : MoveScore) :
    (bestFirstKey evals side a).length = 6 := by
  unfold bestFirstKey
  cases a.deref evals <;> rfl

theorem bestFirstKey_data (evals : Cache) (side : Side) (a b : MoveScore)
    (h : bestFirstKey evals side a = bestFirstKey evals side b) :
    a.move.data = b.move.data := by
  have h5 : (bestFirstKey evals side a).get? 5 = (bestFirstKey evals side b).get? 5 := by
    rw [h]
  have e : ∀ c : MoveScore, (bestFirstKey evals side c).get? 5 = some (c.move.data : Int) := by
    intro c
    unfold bestFirstKey
    cases c.deref evals <;> rfl
  rw [e a, e b] at h5
  exact_mod_cast Option.some.inj h5

/-- C38: on move scores of one moving side whose child records, when present, are of status
DONE_COMPLETE or DONE_PARTIAL, `bestScoreFirst` is a strict weak ordering: it is irreflexive,
asymmetric and transitive, and incomparability is transitive; two move scores are incomparable
only if their moves have equal wire values, so that on moves with distinct wire values one of
two move scores comes before the other. -/
theorem bestScoreFirst_strictWeak (evals : Cache) (side : Side) :
    (∀ a, MoveScore.Sortable evals side a → bestScoreFirst evals a a = false)
    ∧ (∀ a b, MoveScore.Sortable evals side a → MoveScore.Sortable evals side b →
        bestScoreFirst evals a b = true → bestScoreFirst evals b a = false)
    ∧ (∀ a b c, MoveScore.Sortable evals side a → MoveScore.Sortable evals side b →
        MoveScore.Sortable evals side c →
        bestScoreFirst evals a b = true → bestScoreFirst evals b c = true →
        bestScoreFirst evals a c = true)
    ∧ (∀ a b c, MoveScore.Sortable evals side a → MoveScore.Sortable evals side b →
        MoveScore.Sortable evals side c →
        bestScoreFirst evals a b = false → bestScoreFirst evals b a = false →
        bestScoreFirst evals b c = false → bestScoreFirst evals c b = false →
        bestScoreFirst evals a c = false ∧ bestScoreFirst evals c a = false)
    ∧ (∀ a b, MoveScore.Sortable evals side a → MoveScore.Sortable evals side b →
        bestScoreFirst evals a b = false → bestScoreFirst evals b a = false →
        a.move.data = b.move.data)
    ∧ (∀ a b, MoveScore.Sortable evals side a → MoveScore.Sortable evals side b →
        a.move.data ≠ b.move.data →
        bestScoreFirst evals a b = true ∨ bestScoreFirst evals b a = true) := by
  have key : ∀ a b, MoveScore.Sortable evals side a → MoveScore.Sortable evals side b →
      bestScoreFirst evals a b
        = lexLt (bestFirstKey evals side a) (bestFirstKey evals side b) :=
    fun a b ha hb => bestScoreFirst_key evals side a b ha.1 hb.1 ha.2 hb.2
  have eqk : ∀ a b, MoveScore.Sortable evals side a → MoveScore.Sortable evals side b →
      bestScoreFirst evals a b = false → bestScoreFirst evals b a = false →
      bestFirstKey evals side a = bestFirstKey evals side b := by
    intro a b ha hb h1 h2
    rw [key a b ha hb] at h1
    rw [key b a hb ha] at h2
    exact lexLt_total _ _ ((bestFirstKey_length evals side a).trans
      (bestFirstKey_length evals side b).symm) h1 h2
  refine ⟨?_, ?_, ?_, ?_, ?_, ?_⟩
  · intro a ha
    rw [key a a ha ha]
    exact lexLt_irrefl _
  · intro a b ha hb h
    rw [key a b ha hb] at h
    rw [key b a hb ha]
    exact lexLt_asymm _ _ h
  · intro a b c ha hb hc h1 h2
    rw [key a b ha hb] at h1
    rw [key b c hb hc] at h2
    rw [key a c ha hc]
    exact lexLt_trans _ _ _ h1 h2
  · intro a b c ha hb hc h1 h2 h3 h4
    have e1 := eqk a b ha hb h1 h2
    have e2 := eqk b c hb hc h3 h4
    rw [key a c ha hc, key c a hc ha, e1, e2]
    exact ⟨lexLt_irrefl _, lexLt_irrefl _⟩
  · intro a b ha hb h1 h2
    exact bestFirstKey_data evals side a b (eqk a b ha hb h1 h2)
  · intro a b ha hb hne
    by_cases h1 : bestScoreFirst evals a b = true
    · exact Or.inl h1
    · by_cases h2 : bestScoreFirst evals b a = true
      · exact Or.inr h2
      · exact absurd (bestFirstKey_data evals side a b (eqk a b ha hb
          (Bool.eq_false_iff.mpr h1) (Bool.eq_false_iff.mpr h2))) hne

end Engine

namespace Engine

/-- C33: for depths `toDepth >= 0` and `toQsDepth >= 0` (in the range of `int16_t`), on every
board, table and window `evaluate` returns with `toDepth + toQsDepth` nested recursive calls
at most (one unit of fuel per nested call, and one for the call itself); a call with
`toDepth = 0` and `toQsDepth <= 0` returns without a recursive call; when the loop over the
moves is entered, the two depths of the recursive call are not negative and their sum is
smaller by exactly one; and with a root depth of at most `2 * maxDepth` the nesting is within
`2 * maxDepth + toQsDepth`. -/
theorem recursion_bound (board : Board) (s : SearchState)
    (toDepth minWhite maxBlack toQsDepth : Int) (fromQuietMove : Bool)
    (hd : 0 ≤ toDepth) (hq : 0 ≤ toQsDepth) (hq16 : toQsDepth ≤ 32767) :
    (∃ out, evaluate (toDepth.toNat + toQsDepth.toNat + 1) board s toDepth minWhite maxBlack
        toQsDepth fromQuietMove = some out)
    ∧ (∀ qs : Int, qs ≤ 0 → ∃ out, evaluate 1 board s 0 minWhite maxBlack qs fromQuietMove
        = some out)
    ∧ (∀ record : EvalRecord, depthAchieved record toDepth toQsDepth fromQuietMove = false →
        0 ≤ (if toDepth > 0 then toDepth - 1 else 0)
        ∧ 0 ≤ (if toDepth > 0 then toQsDepth else wrapI16 (toQsDepth - 1))
        ∧ (if toDepth > 0 then toDepth - 1 else 0)
            + (if toDepth > 0 then toQsDepth else wrapI16 (toQsDepth - 1))
          = toDepth + toQsDepth - 1)
    ∧ (∀ maxDepth : Int, toDepth ≤ 2 * maxDepth →
        ∃ out, evaluate ((2 * maxDepth).toNat + toQsDepth.toNat + 1) board s toDepth minWhite
          maxBlack toQsDepth fromQuietMove = some out) := by
  refine ⟨?_, ?_, ?_, ?_⟩
  · exact Option.isSome_iff_exists.mp (evaluate_total _ board s toDepth minWhite maxBlack
      toQsDepth fromQuietMove hq16 (Nat.lt_succ_self _))
  · intro qs hqs
    refine Option.isSome_iff_exists.mp (evaluate_total 1 board s 0 minWhite maxBlack qs
      fromQuietMove (by omega) ?_)
    have : qs.toNat = 0 := Int.toNat_eq_zero.mpr hqs
    rw [this]
    decide
  · intro record hda
    by_cases h0 : toDepth > 0
    · rw [if_pos h0, if_pos h0]
      refine ⟨by omega, hq, by omega⟩
    · rw [if_neg h0, if_neg h0]
      have h1 := depthAchieved_false record toDepth toQsDepth fromQuietMove hda (by omega)
      have hw : wrapI16 (toQsDepth - 1) = toQsDepth - 1 := by
        unfold wrapI16
        omega
      rw [hw]
      refine ⟨le_refl _, by omega, by omega⟩
  · intro maxDepth hm
    refine Option.isSome_iff_exists.mp (evaluate_total _ board s toDepth minWhite maxBlack
      toQsDepth fromQuietMove hq16 ?_)
    omega

theorem recursion_bound_witness :
    ((0 : Int) ≤ 1 ∧ (0 : Int) ≤ 2 ∧ (2 : Int) ≤ 32767)
    ∧ ∃ out, evaluate ((1 : Int).toNat + (2 : Int).toNat + 1) quietSearchBoard
        ⟨[], EvalContext.make 0 1 (fun _ => 0)⟩ 1 MIN_SCORE MAX_SCORE 2 true = some out :=
  ⟨by decide, (recursion_bound quietSearchBoard ⟨[], EvalContext.make 0 1 (fun _ => 0)⟩ 1
    MIN_SCORE MAX_SCORE 2 true (by decide) (by decide) (by decide)).1⟩

end Engine

namespace Engine

theorem markInEvaluation_find (s : SearchState) (board : Board) (r0 : EvalRecord)
    (h : s.evals.find board = some r0) :
    (markInEvaluation s board).evals.find board
      = some { r0 with evalStatus := EvalStatus.IN_EVALUATION } := by
  unfold markInEvaluation
  dsimp only
  rw [Cache.find_modify_same, h]
  rfl

/-- The call of `evaluate` on a board whose record in the table is exact: the steps up to the
test of the depths, and the run over the empty list of moves. -/
theorem evaluate_exact (fuel : Nat) (board : Board) (s : SearchState)
    (toDepth minWhite maxBlack toQsDepth : Int) (fromQuietMove : Bool) (r0 : EvalRecord)
    (hfind : s.evals.find board = some r0) (hm : r0.moves = [])
    (hs : r0.evalStatus = EvalStatus.DONE_COMPLETE) :
    evaluate (fuel + 1) board s toDepth minWhite maxBlack toQsDepth fromQuietMove
      = if depthAchieved r0 toDepth toQsDepth fromQuietMove = true then
          some (s, ⟨some board, EvalResultCode.SUCCESS, r0.score⟩)
        else some (finish board r0 toDepth toQsDepth (markInEvaluation s board)
          (initLoop board r0 minWhite maxBlack)) := by
  have hpc : partialCutoff board r0 toDepth minWhite maxBlack toQsDepth = none := by
    unfold partialCutoff
    rw [if_neg]
    rw [hs]
    exact fun h => EvalStatus.noConfusion h.1
  have hreset : resetPartial s board r0 = s := by
    unfold resetPartial
    rw [if_neg]
    rw [hs]
    exact fun h => EvalStatus.noConfusion h
  rw [evaluate, lookupRecord_found s board r0 hfind]
  dsimp only
  rw [if_neg (by decide), hfind, Option.getD_some, if_neg (by rw [hs]; decide), hpc]
  dsimp only
  rw [hreset, hfind, Option.getD_some]
  by_cases hda : depthAchieved r0 toDepth toQsDepth fromQuietMove = true
  · rw [if_pos hda, if_pos hda]
  · rw [if_neg hda, if_neg hda, hm, searchLoop]

set_option maxRecDepth 100000 in
/-- C40, counterexample: the table holds for the after-checkmate board (Black to move) the
record of the evaluator: no move, score -10000, evalDepth 100. The call of `evaluate` with
`toDepth = 0`, `toQsDepth = 1` and `fromQuietMove = false` returns SUCCESS with the score
-9995, and leaves the record with the score -9995 and evalDepth 0. -/
theorem exact_record_counterexample :
    (evaluateBoard afterCheckmateBoard).moves = []
    ∧ (evaluateBoard afterCheckmateBoard).evalDepth = 100
    ∧ (evaluateBoard afterCheckmateBoard).score = -10000
    ∧ (evaluate 1 afterCheckmateBoard
        ⟨[(afterCheckmateBoard, evaluateBoard afterCheckmateBoard)],
          EvalContext.make 0 1 (fun _ => 0)⟩ 0 MIN_SCORE MAX_SCORE 1 false).map
        (fun out => (out.2.result, out.2.score,
          (out.1.evals.find afterCheckmateBoard).map (fun r => (r.score, r.evalDepth))))
      = some (EvalResultCode.SUCCESS, -9995, some (-9995, 0)) := by
  decide

/-- C40, amended: let the table hold for the board an exact record (no move, evalDepth 100,
status DONE_COMPLETE, with a score in the range of `int16_t`), and let `0 <= toDepth <= 12`,
with any `toQsDepth`. The call of `evaluate` returns SUCCESS. When the record is quiet and
`fromQuietMove` is true, or the qsEvalDepth of the record is at least `toQsDepth`, the call
returns the score of the record and leaves the table as it is. Otherwise the loop over the
empty list of moves runs to its end: the record gets evalDepth `toDepth` and, as qsEvalDepth,
`toQsDepth` converted to the `uint8_t` of the field (`toQsDepth` itself when it is at most
255), and the score that is stored and returned is the score of the record, moved by 5 toward
zero when its absolute value exceeds 5000. -/
theorem exact_record (fuel : Nat) (board : Board) (s : SearchState)
    (toDepth minWhite maxBlack toQsDepth : Int) (fromQuietMove : Bool) (r0 : EvalRecord)
    (hfind : s.evals.find board = some r0) (hm : r0.moves = [])
    (hd : r0.evalDepth = EXACT_EVAL_DEPTH) (hs : r0.evalStatus = EvalStatus.DONE_COMPLETE)
    (hscore : -32768 ≤ r0.score ∧ r0.score ≤ 32767)
    (htd : 0 ≤ toDepth ∧ toDepth ≤ 12) :
    ∃ out, evaluate (fuel + 1) board s toDepth minWhite maxBlack toQsDepth fromQuietMove
        = some out
      ∧ out.2.result = EvalResultCode.SUCCESS ∧ out.2.record = some board
      ∧ (((r0.isQuietPosition = true ∧ fromQuietMove = true)
            ∨ (r0.qsEvalDepth : Int) ≥ toQsDepth) →
          out.2.score = r0.score ∧ out.1 = s)
      ∧ (¬ ((r0.isQuietPosition = true ∧ fromQuietMove = true)
            ∨ (r0.qsEvalDepth : Int) ≥ toQsDepth) →
          out.2.score = (if r0.score > 5000 then r0.score - 5
            else if r0.score < -5000 then r0.score + 5 else r0.score)
          ∧ out.1.context = s.context
          ∧ ∃ r, out.1.evals.find board = some r ∧ r.score = out.2.score
            ∧ ((r.evalDepth : Nat) : Int) = toDepth ∧ r.qsEvalDepth = toU8 toQsDepth
            ∧ (toQsDepth < 256 → ((r.qsEvalDepth : Nat) : Int) = toQsDepth)
            ∧ r.evalStatus = EvalStatus.DONE_COMPLETE ∧ r.moves = []) := by
  have hcond : depthAchieved r0 toDepth toQsDepth fromQuietMove = true
      ↔ ((r0.isQuietPosition = true ∧ fromQuietMove = true)
          ∨ (r0.qsEvalDepth : Int) ≥ toQsDepth) := by
    unfold depthAchieved
    have h100 : ((r0.evalDepth : Nat) : Int) ≥ toDepth := by
      rw [hd]
      show ((100 : Nat) : Int) ≥ toDepth
      omega
    simp only [h100, decide_True, Bool.true_and, Bool.or_eq_true, Bool.and_eq_true,
      Bool.not_eq_true', Bool.or_eq_false_iff, Bool.not_eq_false', decide_eq_true_eq]
  rw [evaluate_exact fuel board s toDepth minWhite maxBlack toQsDepth fromQuietMove r0 hfind
    hm hs]
  by_cases hda : depthAchieved r0 toDepth toQsDepth fromQuietMove = true
  · rw [if_pos hda]
    exact ⟨_, rfl, rfl, rfl, fun _ => ⟨rfl, rfl⟩, fun h => absurd (hcond.mp hda) h⟩
  · rw [if_neg hda]
    refine ⟨_, rfl, rfl, rfl, fun h => absurd (hcond.mpr h) hda, fun hn => ?_⟩
    have hnew : (if (initLoop board r0 minWhite maxBlack).newScore ≠ MIN_SCORE
        ∧ (initLoop board r0 minWhite maxBlack).newScore ≠ MAX_SCORE
        then (initLoop board r0 minWhite maxBlack).newScore else r0.score) = r0.score := by
      rw [if_neg]
      unfold initLoop
      dsimp only
      intro h
      by_cases hw : board.getMovingSide = Side.WHITE
      · rw [if_pos hw] at h
        exact h.1 rfl
      · rw [if_neg hw] at h
        exact h.2 rfl
    obtain ⟨moves, hf⟩ := finish_find board r0 toDepth toQsDepth (markInEvaluation s board)
      (initLoop board r0 minWhite maxBlack) _ (markInEvaluation_find s board r0 hfind)
    have hsc : (finish board r0 toDepth toQsDepth (markInEvaluation s board)
        (initLoop board r0 minWhite maxBlack)).2.score = mateDecay r0.score := by
      show mateDecay _ = mateDecay r0.score
      rw [hnew]
    have hmv : ∀ r, (finish board r0 toDepth toQsDepth (markInEvaluation s board)
        (initLoop board r0 minWhite maxBlack)).1.evals.find board = some r → r.moves = [] := by
      intro r hr
      obtain ⟨_, evals1, _, c4⟩ := finish_moves board r0 toDepth toQsDepth
        (markInEvaluation s board) (initLoop board r0 minWhite maxBlack) _ r
        (markInEvaluation_find s board r0 hfind) hr
      rw [c4, sortMoveScores_moves, hm]
      show ([] : List Move) ++ (sortBy (bestScoreFirst evals1)
        (((initLoop board r0 minWhite maxBlack).moveScores.drop 0).take (0 - 0))).map _
        ++ [] = []
      rw [Nat.sub_zero, List.take_zero]
      rfl
    refine ⟨?_, rfl, _, hf, ?_, ?_, rfl, fun h256 => ?_, rfl, hmv _ hf⟩
    · rw [hsc]
      exact mateDecay_spec r0.score hscore
    · rw [hsc]
      show mateDecay _ = mateDecay r0.score
      rw [hnew]
    · show ((toU8 toDepth : Nat) : Int) = toDepth
      unfold toU8
      omega
    · show ((toU8 toQsDepth : Nat) : Int) = toQsDepth
      have hlt : ¬ ((r0.qsEvalDepth : Nat) : Int) ≥ toQsDepth := fun h => hn (Or.inr h)
      unfold toU8
      omega

theorem exact_record_witness :
    (Cache.find [(afterCheckmateBoard, evaluateBoard afterCheckmateBoard)]
        afterCheckmateBoard = some (evaluateBoard afterCheckmateBoard)
      ∧ (evaluateBoard afterCheckmateBoard).moves = []
      ∧ (evaluateBoard afterCheckmateBoard).evalDepth = EXACT_EVAL_DEPTH
      ∧ (evaluateBoard afterCheckmateBoard).evalStatus = EvalStatus.DONE_COMPLETE)
    ∧ ∃ out, evaluate (0 + 1) afterCheckmateBoard
        ⟨[(afterCheckmateBoard, evaluateBoard afterCheckmateBoard)],
          EvalContext.make 0 1 (fun _ => 0)⟩ 2 MIN_SCORE MAX_SCORE 0 false = some out
      ∧ out.2.result = EvalResultCode.SUCCESS ∧ out.2.record = some afterCheckmateBoard :=
  ⟨⟨by rw [Cache.find, if_pos (Board.beq_refl _)], by decide, by decide, by decide⟩,
    (exact_record 0 afterCheckmateBoard
      ⟨[(afterCheckmateBoard, evaluateBoard afterCheckmateBoard)],
        EvalContext.make 0 1 (fun _ => 0)⟩ 2 MIN_SCORE MAX_SCORE 0 false
      (evaluateBoard afterCheckmateBoard) (by rw [Cache.find, if_pos (Board.beq_refl _)])
      (by decide) (by decide) (by decide) (by decide) (by decide)).imp (fun _ h => ⟨h.1, h.2.1, h.2.2.1⟩)⟩

end Engine

namespace Engine

theorem lookupRecord_depths (s : SearchState) (board : Board) :
    (lookupRecord s board).1.context.depthAchieved = s.context.depthAchieved
    ∧ (lookupRecord s board).1.context.depthRequired = s.context.depthRequired
    ∧ (s.context.depthAchieved < s.context.depthRequired → (lookupRecord s board).2 = false)
    := by
  cases h : s.evals.find board with
  | some r0 =>
    rw [lookupRecord_found s board r0 h]
    exact ⟨rfl, rfl, fun _ => rfl⟩
  | none =>
    unfold lookupRecord
    rw [h]
    refine ⟨rfl, rfl, fun hlt => ?_⟩
    dsimp only
    unfold EvalContext.searchShouldTimeout
    have : decide (s.context.depthAchieved ≥ s.context.depthRequired) = false :=
      decide_eq_false (by omega)
    dsimp only
    rw [this]
    simp

theorem afterChild_timeout (board : Board) (record : EvalRecord) (toDepth toQsDepth : Int)
    (moveIndex : Nat) (move : Move) (s2 s3 : SearchState) (l : LoopState) (res r : EvalResult)
    (h : afterChild board record toDepth toQsDepth moveIndex move s2 l res
      = LoopOutcome.done s3 r)
    (hr : r.result = EvalResultCode.TIMEOUT) : res.result = EvalResultCode.TIMEOUT := by
  unfold afterChild at h
  cases hres : res.result <;> simp only [hres] at h
  · split_ifs at h <;>
      first
      | exact LoopOutcome.noConfusion h
      | (obtain ⟨_, h2⟩ := LoopOutcome.done.inj h
         subst h2
         exact EvalResultCode.noConfusion hr)
  · rfl
  · exact LoopOutcome.noConfusion h

/-- The loop over the moves keeps the depths of the context, and does not end with TIMEOUT
while the depth achieved is below the depth required, when the recursive calls do so. -/
theorem searchLoop_depths
    (recurse : Board → SearchState → Int → Int → Int → Int → Bool →
      Option (SearchState × EvalResult))
    (hrec : ∀ b s d mw mb q fq out, recurse b s d mw mb q fq = some out →
      out.1.context.depthAchieved = s.context.depthAchieved
      ∧ out.1.context.depthRequired = s.context.depthRequired
      ∧ (s.context.depthAchieved < s.context.depthRequired →
          out.2.result ≠ EvalResultCode.TIMEOUT))
    (board : Board) (record : EvalRecord) (searchMode : SearchMode) (toDepth toQsDepth : Int)
    (moves : List Move) :
    ∀ (moveIndex : Nat) (s : SearchState) (l : LoopState) (out : LoopOutcome),
      searchLoop recurse board record searchMode toDepth toQsDepth moves moveIndex s l
        = some out →
      match out with
      | LoopOutcome.next s3 _ =>
        s3.context.depthAchieved = s.context.depthAchieved
        ∧ s3.context.depthRequired = s.context.depthRequired
      | LoopOutcome.done s3 r =>
        s3.context.depthAchieved = s.context.depthAchieved
        ∧ s3.context.depthRequired = s.context.depthRequired
        ∧ (s.context.depthAchieved < s.context.depthRequired →
            r.result ≠ EvalResultCode.TIMEOUT) := by
  induction moves with
  | nil =>
    intro moveIndex s l out h
    rw [searchLoop] at h
    rw [← Option.some.inj h]
    exact ⟨rfl, rfl⟩
  | cons move rest ih =>
    intro moveIndex s l out h
    by_cases hex : examineMove searchMode record move = true
    · cases hr : recurse (Board.makeMove board move.getFrom move.getTo move.getPromotionType) s
          (if toDepth > 0 then toDepth - 1 else 0) l.minWhite l.maxBlack
          (if toDepth > 0 then toQsDepth else wrapI16 (toQsDepth - 1))
          (record.isQuietPosition && decide (move.getMoveType = MoveType.MOVE)) with
      | none =>
        rw [searchLoop_child_none recurse board record searchMode toDepth toQsDepth move rest
          moveIndex s l hex hr] at h
        exact Option.noConfusion h
      | some p =>
        obtain ⟨s2, res⟩ := p
        obtain ⟨c1, c2, c3⟩ := hrec _ _ _ _ _ _ _ _ hr
        cases ha : afterChild board record toDepth toQsDepth moveIndex move s2 l res with
        | done s3 r =>
          rw [searchLoop_child_done recurse board record searchMode toDepth toQsDepth move rest
            moveIndex s s2 s3 l res r hex hr ha] at h
          rw [← Option.some.inj h]
          obtain ⟨_, a2, _, _⟩ := afterChild_done board record toDepth toQsDepth moveIndex
            move s2 s3 l res r ha
          show s3.context.depthAchieved = s.context.depthAchieved
            ∧ s3.context.depthRequired = s.context.depthRequired ∧ _
          rw [a2]
          refine ⟨c1, c2, fun hlt ht => c3 hlt ?_⟩
          exact afterChild_timeout board record toDepth toQsDepth moveIndex move s2 s3 l res r
            ha ht
        | next s3 l3 =>
          rw [searchLoop_child_next recurse board record searchMode toDepth toQsDepth move rest
            moveIndex s s2 s3 l l3 res hex hr ha] at h
          have e3 := afterChild_next board record toDepth toQsDepth moveIndex move s2 s3 l l3
            res ha
          subst e3
          have := ih (moveIndex + 1) s3 l3 out h
          cases out with
          | next s4 l4 => exact ⟨this.1.trans c1, this.2.trans c2⟩
          | done s4 r =>
            refine ⟨this.1.trans c1, this.2.1.trans c2, fun hlt => this.2.2 ?_⟩
            rw [c1, c2]
            exact hlt
    · have hex2 : examineMove searchMode record move = false := by
        cases hh : examineMove searchMode record move
        · rfl
        · exact absurd hh hex
      rw [searchLoop_skipped recurse board record searchMode toDepth toQsDepth move rest
        moveIndex s l hex2] at h
      exact ih (moveIndex + 1) s l out h

/-- A call of `evaluate` keeps the depths of the context, and does not return TIMEOUT while
the depth achieved is below the depth required. -/
theorem evaluate_depths : ∀ (fuel : Nat) (board : Board) (s : SearchState)
    (toDepth minWhite maxBlack toQsDepth : Int) (fromQuietMove : Bool)
    (out : SearchState × EvalResult),
    evaluate fuel board s toDepth minWhite maxBlack toQsDepth fromQuietMove = some out →
    out.1.context.depthAchieved = s.context.depthAchieved
    ∧ out.1.context.depthRequired = s.context.depthRequired
    ∧ (s.context.depthAchieved < s.context.depthRequired →
        out.2.result ≠ EvalResultCode.TIMEOUT) := by
  intro fuel
  induction fuel with
  | zero =>
    intro board s toDepth minWhite maxBlack toQsDepth fromQuietMove out h
    rw [evaluate] at h
    exact Option.noConfusion h
  | succ fuel ih =>
    intro board s toDepth minWhite maxBlack toQsDepth fromQuietMove out h
    have hc := evaluate_cases fuel board s toDepth minWhite maxBlack toQsDepth fromQuietMove
      out h
    obtain ⟨l1, l2, l3⟩ := lookupRecord_depths s board
    have e : (markInEvaluation (resetPartial (lookupRecord s board).1 board
        (((lookupRecord s board).1.evals.find board).getD EvalRecord.new))
        board).context = (lookupRecord s board).1.context := by
      show (resetPartial _ _ _).context = _
      rw [resetPartial_context]
    rcases hc with ⟨hf, rfl⟩ | ⟨_, _, rfl⟩ | ⟨_, _, score, _, rfl⟩ | ⟨_, hst, _, hc⟩
    · refine ⟨l1, l2, fun hlt => ?_⟩
      rw [l3 hlt] at hf
      exact Bool.noConfusion hf
    · exact ⟨l1, l2, fun _ h => EvalResultCode.noConfusion h⟩
    · exact ⟨l1, l2, fun _ h => EvalResultCode.noConfusion h⟩
    · rcases hc with ⟨_, rfl⟩ | ⟨_, ⟨s3, r, hsl, rfl⟩ | ⟨s3, l3', hsl, rfl⟩⟩
      · refine ⟨?_, ?_, fun _ h => EvalResultCode.noConfusion h⟩
        · show (resetPartial _ _ _).context.depthAchieved = _
          rw [resetPartial_context]
          exact l1
        · show (resetPartial _ _ _).context.depthRequired = _
          rw [resetPartial_context]
          exact l2
      · have := searchLoop_depths (evaluate fuel) ih board _ _ toDepth toQsDepth _ 0 _ _ _ hsl
        dsimp only at this
        rw [e] at this
        refine ⟨this.1.trans l1, this.2.1.trans l2, fun hlt => this.2.2 ?_⟩
        rw [l1, l2]
        exact hlt
      · have := searchLoop_depths (evaluate fuel) ih board _ _ toDepth toQsDepth _ 0 _ _ _ hsl
        dsimp only at this
        rw [e] at this
        exact ⟨this.1.trans l1, this.2.trans l2, fun _ h => EvalResultCode.noConfusion h⟩

/-- The loop over the depths, from a state whose depth achieved is below the depth of the
round: the depth achieved does not decrease, a pointer to the record of the board is kept,
the depths from the depth of the round to the depth achieved at the end are in the trace, and
when the record of the board is not of status IN_EVALUATION the depth achieved at the end is
at least `toDepth`, with the pointer set, if the loop is entered with a depth of at most
`toDepth`. -/
theorem depthLoop_achieved (board : Board) (toDepth toQsDepth allowedTimeMs : Int) :
    ∀ (fuel : Nat) (depth : Int) (haveTime : Bool) (s : SearchState) (record : Option Board)
      (trace : List Int) (out : SearchState × Option Board × List Int),
      depthLoop board toDepth toQsDepth allowedTimeMs fuel depth haveTime s record trace
        = some out →
      s.context.depthRequired = toDepth →
      s.context.depthAchieved < depth →
      s.context.depthAchieved ≤ out.1.context.depthAchieved
      ∧ (record = some board → out.2.1 = some board)
      ∧ (∀ k, depth ≤ k → k ≤ out.1.context.depthAchieved → k ∈ out.2.2)
      ∧ (∀ k ∈ trace, k ∈ out.2.2)
      ∧ (¬ Cache.InEval s.evals board → depth ≤ toDepth →
          toDepth ≤ out.1.context.depthAchieved ∧ out.2.1 = some board) := by
  intro fuel
  induction fuel with
  | zero =>
    intro depth haveTime s record trace out h
    rw [depthLoop] at h
    exact Option.noConfusion h
  | succ fuel ih =>
    intro depth haveTime s record trace out h hreq hlt
    rw [depthLoop] at h
    by_cases hc : depth ≤ toDepth ∨ haveTime = true
    · rw [if_pos hc] at h
      cases he : evaluate (depth.toNat + toQsDepth.toNat + 1) board s depth MIN_SCORE MAX_SCORE
          toQsDepth true with
      | none =>
        rw [he] at h
        exact Option.noConfusion h
      | some p =>
        obtain ⟨s2, result⟩ := p
        rw [he] at h
        dsimp only at h
        obtain ⟨d1, d2, d3⟩ := evaluate_depths _ board s depth MIN_SCORE MAX_SCORE toQsDepth
          true _ he
        dsimp only at d1 d2 d3
        by_cases hs : result.result = EvalResultCode.SUCCESS
        · rw [if_pos hs] at h
          have hrecd := (evaluate_success _ board s depth MIN_SCORE MAX_SCORE toQsDepth true _
            he hs).1
          dsimp only at hrecd
          have hin := evaluate_inEval _ board s depth MIN_SCORE MAX_SCORE toQsDepth true _ he
          dsimp only at hin
          obtain ⟨i1, i2, i3, i4, i5⟩ := ih (depth + 1) _ _ _ _ out h
            (by show s2.context.depthRequired = toDepth; rw [d2]; exact hreq)
            (by show depth < depth + 1; omega)
          have i1' : depth ≤ out.1.context.depthAchieved := i1
          refine ⟨by omega, fun _ => i2 hrecd, ?_, ?_, ?_⟩
          · intro k hk1 hk2
            by_cases hkd : k = depth
            · subst hkd
              exact i4 k (List.mem_append_right _ (List.mem_singleton_self k))
            · exact i3 k (by omega) hk2
          · intro k hk
            exact i4 k (List.mem_append_left _ hk)
          · intro _ _
            by_cases hd : depth + 1 ≤ toDepth
            · exact i5 (fun hh => by
                have : Cache.InEval s2.evals board := hh
                exact absurd ((hin board).mp this) (by assumption)) hd
            · exact ⟨by omega, i2 hrecd⟩
        · rw [if_neg hs] at h
          have ho := Option.some.inj h
          rw [← ho]
          dsimp only
          refine ⟨by omega, fun h => h, ?_, ?_, ?_⟩
          · intro k hk1 hk2
            omega
          · intro k hk
            exact List.mem_append_left _ hk
          · intro hnin hd
            exfalso
            cases hres : result.result with
            | SUCCESS => exact hs hres
            | TIMEOUT => exact d3 (by omega) hres
            | LOOP =>
              obtain ⟨_, r0, hf, hst⟩ := evaluate_loop_inv _ board s depth MIN_SCORE MAX_SCORE
                toQsDepth true _ he hres
              exact hnin ⟨r0, hf, hst⟩
    · rw [if_neg hc] at h
      have ho := Option.some.inj h
      rw [← ho]
      dsimp only
      refine ⟨le_refl _, fun h => h, ?_, fun k hk => hk, ?_⟩
      · intro k hk1 hk2
        omega
      · intro _ hd
        exact absurd (Or.inl hd) hc

/-- C31: `searchShouldTimeout` is true exactly when the depth achieved is at least the depth
required, the allowed time is positive and the elapsed time exceeds twice the allowed time;
hence no call of `evaluate` on a context whose depth achieved is below the depth required
returns TIMEOUT, and such a call keeps the two depths for the calls nested in it and after it.
For `toDepth >= 1` (clamped to `d`) and any clock `findBestMove` returns, and unless the
table holds the record of the board with status IN_EVALUATION, every round of the loop over
the depths up to `d` is run and returns SUCCESS: the depth achieved at the end is at least
`d`, the pointer to the record of the board is set, and every depth from `min d 3` to `d` is
in the trace of the calls. -/
theorem no_timeout_before_depth (evals : Cache) (board : Board)
    (toDepth toQsDepth allowedTimeMs : Int) (elapsedMs : Nat → Int)
    (h1 : 1 ≤ toDepth) (hq : toQsDepth ≤ 32767) :
    (∀ ctx : EvalContext, ctx.searchShouldTimeout = true ↔
      (ctx.depthAchieved ≥ ctx.depthRequired ∧ ctx.allowedRunTimeMs > 0
        ∧ ctx.elapsedMs ctx.nodesEvaluated > 2 * ctx.allowedRunTimeMs))
    ∧ (∀ (fuel : Nat) (b : Board) (st : SearchState) (d mw mb q : Int) (fq : Bool)
        (out : SearchState × EvalResult),
        st.context.depthAchieved < st.context.depthRequired →
        evaluate fuel b st d mw mb q fq = some out →
        out.2.result ≠ EvalResultCode.TIMEOUT
        ∧ out.1.context.depthAchieved = st.context.depthAchieved
        ∧ out.1.context.depthRequired = st.context.depthRequired)
    ∧ ∃ (s : SearchState) (record : Option Board) (trace : List Int),
      findBestMove evals board toDepth toQsDepth allowedTimeMs elapsedMs
        = some (s, record, trace)
      ∧ (¬ Cache.InEval (if evals.length > TRIM_TABLE_SIZE then [] else evals) board →
          min toDepth 6 ≤ s.context.depthAchieved ∧ record = some board
          ∧ ∀ k, min (min toDepth 6) 3 ≤ k → k ≤ min toDepth 6 → k ∈ trace) := by
  refine ⟨?_, ?_, ?_⟩
  · intro ctx
    unfold EvalContext.searchShouldTimeout
    simp only [Bool.and_eq_true, decide_eq_true_eq, and_assoc]
  · intro fuel b st d mw mb q fq out hlt he
    obtain ⟨d1, d2, d3⟩ := evaluate_depths fuel b st d mw mb q fq out he
    exact ⟨d3 hlt, d1, d2⟩
  · have htot := depthLoop_total board (min toDepth 6) toQsDepth allowedTimeMs hq (by omega)
      (2 * (min toDepth 6).toNat + 2) (min (min toDepth 6) 3) false
      ⟨if evals.length > TRIM_TABLE_SIZE then [] else evals,
        EvalContext.make allowedTimeMs (min toDepth 6) elapsedMs⟩ none []
      (by omega) (fun h => Bool.noConfusion h) (by omega)
    have hfb : findBestMove evals board toDepth toQsDepth allowedTimeMs elapsedMs
        = depthLoop board (min toDepth 6) toQsDepth allowedTimeMs
            (2 * (min toDepth 6).toNat + 2) (min (min toDepth 6) 3) false
            ⟨if evals.length > TRIM_TABLE_SIZE then [] else evals,
              EvalContext.make allowedTimeMs (min toDepth 6) elapsedMs⟩ none [] := by
      unfold findBestMove
      simp only [clamp_eq_min]
    rw [hfb]
    cases hdl : depthLoop board (min toDepth 6) toQsDepth allowedTimeMs
        (2 * (min toDepth 6).toNat + 2) (min (min toDepth 6) 3) false
        ⟨if evals.length > TRIM_TABLE_SIZE then [] else evals,
          EvalContext.make allowedTimeMs (min toDepth 6) elapsedMs⟩ none [] with
    | none =>
      rw [hdl] at htot
      exact Bool.noConfusion htot
    | some out =>
      obtain ⟨s, record, trace⟩ := out
      obtain ⟨_, _, a3, _, a5⟩ := depthLoop_achieved board (min toDepth 6) toQsDepth
        allowedTimeMs _ _ _ _ _ _ _ hdl rfl (by show (0 : Int) < min (min toDepth 6) 3; omega)
      refine ⟨s, record, trace, rfl, fun hnin => ?_⟩
      obtain ⟨b1, b2⟩ := a5 hnin (by omega)
      exact ⟨b1, b2, fun k hk1 hk2 => a3 k hk1 (le_trans hk2 b1)⟩

theorem no_timeout_before_depth_witness :
    ((1 : Int) ≤ 2 ∧ (1 : Int) ≤ 32767)
    ∧ ∃ (s : SearchState) (record : Option Board) (trace : List Int),
      findBestMove [] quietSearchBoard 2 1 600 (fun n => (n : Int)) = some (s, record, trace)
      ∧ (¬ Cache.InEval (if ([] : Cache).length > TRIM_TABLE_SIZE then [] else [])
            quietSearchBoard →
          min 2 6 ≤ s.context.depthAchieved ∧ record = some quietSearchBoard
          ∧ ∀ k, min (min (2 : Int) 6) 3 ≤ k → k ≤ min 2 6 → k ∈ trace) :=
  ⟨by decide,
    (no_timeout_before_depth [] quietSearchBoard 2 1 600 (fun n => (n : Int)) (by decide)
      (by decide)).2.2⟩

end Engine

namespace Engine

/-- Boards that `operator==` tells apart pairwise and that all have a record in the table are
at most as many as the entries of the table. -/
theorem distinct_le_length : ∀ (evals : Cache) (l : List Board),
    l.Pairwise (fun a b => ¬ a.beq b = true) →
    (∀ b ∈ l, (evals.find b).isSome = true) → l.length ≤ evals.length := by
  intro evals
  induction evals with
  | nil =>
    intro l _ hf
    cases l with
    | nil => exact Nat.le_refl _
    | cons a t => exact absurd (hf a (List.mem_cons_self a t)) (by simp [Cache.find])
  | cons e rest ih =>
    obtain ⟨k, r⟩ := e
    intro l hp hf
    by_cases hex : ∃ a ∈ l, k.beq a = true
    · obtain ⟨a, ha, hka⟩ := hex
      obtain ⟨l1, l2, rfl⟩ := List.append_of_mem ha
      have hp2 := List.pairwise_append.mp hp
      have hp3 := List.pairwise_cons.mp hp2.2.1
      have hnot : ∀ b ∈ l1 ++ l2, ¬ k.beq b = true := by
        intro b hb hkb
        have hab : a.beq b = true := Board.beq_trans a k b (Board.beq_symm k a hka) hkb
        rcases List.mem_append.mp hb with h | h
        · exact hp2.2.2 b h a (List.mem_cons_self a l2) (Board.beq_symm a b hab)
        · exact hp3.1 b h hab
      have hlen := ih (l1 ++ l2) (List.pairwise_append.mpr ⟨hp2.1, hp3.2,
          fun x hx y hy => hp2.2.2 x hx y (List.mem_cons_of_mem a hy)⟩) (by
        intro b hb
        have := hf b (by
          rcases List.mem_append.mp hb with h | h
          · exact List.mem_append_left _ h
          · exact List.mem_append_right _ (List.mem_cons_of_mem a h))
        rw [Cache.find_cons, if_neg (hnot b hb)] at this
        exact this)
      simp only [List.length_append, List.length_cons] at hlen ⊢
      omega
    · have hlen := ih l hp (by
        intro b hb
        have := hf b hb
        rw [Cache.find_cons, if_neg (fun h => hex ⟨b, hb, h⟩)] at this
        exact this)
      simp only [List.length_cons]
      omega

theorem walkBoards_snoc (board : Board) (res : List Move) (m : Move) :
    walkBoards board (res ++ [m]) = walkBoards board res ++ [res.foldl Board.makeMoveM board]
    := by
  unfold walkBoards
  rw [List.length_append, List.length_singleton, List.range_succ, List.map_append,
    List.map_singleton, List.take_left]
  congr 1
  apply List.map_congr_left
  intro k hk
  rw [List.take_append_of_le_length (Nat.le_of_lt (List.mem_range.mp hk))]

theorem walkBoards_length (board : Board) (res : List Move) :
    (walkBoards board res).length = res.length := by
  unfold walkBoards
  rw [List.length_map, List.length_range]

/-- What holds of the moves gathered so far in the loop of `getBestMoveSequence`: each is the
best move of the record of the board before it, a record with a depth above 0 and with moves;
the boards before the moves are told apart pairwise by `operator==`; and the loop ends at a
board that has no record, or a record with the depth 0 or without moves, or that is one of the
boards before the moves. -/
theorem bestMoveLoop_spec (evals : Cache) (board : Board) :
    ∀ (fuel : Nat) (curRecord : Option EvalRecord) (res : List Move),
      evals.length < fuel + res.length →
      (∀ k, k < res.length → ∃ r, evals.find ((res.take k).foldl Board.makeMoveM board) = some r
        ∧ res.get? k = some r.bestMove ∧ 0 < r.evalDepth ∧ r.moves ≠ []) →
      (walkBoards board res).Pairwise (fun a b => ¬ a.beq b = true) →
      ((curRecord = none
          ∧ ∃ b ∈ walkBoards board res, b.beq (res.foldl Board.makeMoveM board) = true)
        ∨ (curRecord = evals.find (res.foldl Board.makeMoveM board)
        ∧ ∀ b ∈ walkBoards board res, ¬ b.beq (res.foldl Board.makeMoveM board) = true)) →
      ∃ out, bestMoveLoop evals fuel (walkBoards board res) (res.foldl Board.makeMoveM board)
          curRecord res = some out
        ∧ (res.length = 0 → (curRecord = none ∨ ∃ r, curRecord = some r
            ∧ (r.evalDepth = 0 ∨ r.moves = [])) → out = [])
        ∧ (∀ k, k < out.length →
            ∃ r, evals.find ((out.take k).foldl Board.makeMoveM board) = some r
              ∧ out.get? k = some r.bestMove ∧ 0 < r.evalDepth ∧ r.moves ≠ [])
        ∧ (walkBoards board out).Pairwise (fun a b => ¬ a.beq b = true)
        ∧ (evals.find (out.foldl Board.makeMoveM board) = none
          ∨ (∃ r, evals.find (out.foldl Board.makeMoveM board) = some r
              ∧ (r.evalDepth = 0 ∨ r.moves = []))
          ∨ ∃ b ∈ walkBoards board out, b.beq (out.foldl Board.makeMoveM board) = true) := by
  intro fuel
  induction fuel with
  | zero =>
    intro curRecord res hfuel hP hW _
    exfalso
    have hfound : ∀ b ∈ walkBoards board res, (evals.find b).isSome = true := by
      intro b hb
      unfold walkBoards at hb
      obtain ⟨k, hk, rfl⟩ := List.mem_map.mp hb
      obtain ⟨r, hr, _⟩ := hP k (List.mem_range.mp hk)
      rw [hr]
      rfl
    have := distinct_le_length evals _ hW hfound
    rw [walkBoards_length] at this
    omega
  | succ fuel ih =>
    intro curRecord res hfuel hP hW hcur
    cases curRecord with
    | none =>
      rw [bestMoveLoop]
      refine ⟨res, rfl, fun h0 _ => List.length_eq_zero.mp h0, hP, hW, ?_⟩
      rcases hcur with ⟨_, h⟩ | ⟨h1, _⟩
      · exact Or.inr (Or.inr h)
      · exact Or.inl h1.symm
    | some record =>
      rw [bestMoveLoop]
      dsimp only
      have hfind : evals.find (res.foldl Board.makeMoveM board) = some record
          ∧ ∀ b ∈ walkBoards board res, ¬ b.beq (res.foldl Board.makeMoveM board) = true := by
        rcases hcur with ⟨h, _⟩ | ⟨h1, h2⟩
        · exact Option.noConfusion h
        · exact ⟨h1.symm, h2⟩
      by_cases hc : record.evalDepth > 0 ∧ record.moves.length > 0
      · rw [if_pos hc, if_neg (by omega)]
        have hne : record.moves ≠ [] := by
          intro h
          rw [h] at hc
          exact absurd hc.2 (by decide)
        have hP2 : ∀ k, k < (res ++ [record.bestMove]).length →
            ∃ r, evals.find (((res ++ [record.bestMove]).take k).foldl Board.makeMoveM board)
                = some r
              ∧ (res ++ [record.bestMove]).get? k = some r.bestMove ∧ 0 < r.evalDepth
              ∧ r.moves ≠ [] := by
          intro k hk
          rw [List.length_append, List.length_singleton] at hk
          by_cases hk2 : k < res.length
          · obtain ⟨r, a, b, c, d⟩ := hP k hk2
            refine ⟨r, ?_, ?_, c, d⟩
            · rw [List.take_append_of_le_length (Nat.le_of_lt hk2)]
              exact a
            · rw [List.get?_eq_getElem?, List.getElem?_append_left hk2, ← List.get?_eq_getElem?]
              exact b
          · have hk3 : k = res.length := by omega
            subst hk3
            refine ⟨record, ?_, ?_, hc.1, hne⟩
            · rw [List.take_left]
              exact hfind.1
            · rw [List.get?_eq_getElem?, List.getElem?_append_right (Nat.le_refl _),
                Nat.sub_self]
              rfl
        have hW2 : (walkBoards board (res ++ [record.bestMove])).Pairwise
            (fun a b => ¬ a.beq b = true) := by
          rw [walkBoards_snoc]
          refine List.pairwise_append.mpr ⟨hW, List.pairwise_singleton _ _, ?_⟩
          intro a ha b hb
          rw [List.mem_singleton.mp hb]
          exact hfind.2 a ha
        have hfold : (res ++ [record.bestMove]).foldl Board.makeMoveM board
            = Board.makeMoveM (res.foldl Board.makeMoveM board) record.bestMove := by
          rw [List.foldl_append]
          rfl
        have hfound : ∀ b ∈ walkBoards board (res ++ [record.bestMove]),
            (evals.find b).isSome = true := by
          intro b hb
          unfold walkBoards at hb
          obtain ⟨k, hk, rfl⟩ := List.mem_map.mp hb
          obtain ⟨r, hr, _⟩ := hP2 k (List.mem_range.mp hk)
          rw [hr]
          rfl
        have hlen := distinct_le_length evals _ hW2 hfound
        rw [walkBoards_length, List.length_append, List.length_singleton] at hlen
        have key := ih
          (if (walkBoards board res ++ [res.foldl Board.makeMoveM board]).any
              (fun b => b.beq (Board.makeMoveM (res.foldl Board.makeMoveM board)
                record.bestMove)) = true then none
            else evals.find (Board.makeMoveM (res.foldl Board.makeMoveM board) record.bestMove))
          (res ++ [record.bestMove])
          (by rw [List.length_append, List.length_singleton]; omega) hP2 hW2 (by
            by_cases hany : (walkBoards board res ++ [res.foldl Board.makeMoveM board]).any
                (fun b => b.beq (Board.makeMoveM (res.foldl Board.makeMoveM board)
                  record.bestMove)) = true
            · rw [if_pos hany]
              left
              rw [hfold, walkBoards_snoc]
              exact ⟨rfl, List.any_eq_true.mp hany⟩
            · rw [if_neg hany]
              right
              rw [hfold, walkBoards_snoc]
              refine ⟨rfl, fun b hb hbeq => hany ?_⟩
              exact List.any_eq_true.mpr ⟨b, hb, hbeq⟩)
        rw [walkBoards_snoc, hfold] at key
        obtain ⟨out, o1, _, o3, o4, o5⟩ := key
        refine ⟨out, o1, fun h0 hh => ?_, o3, o4, o5⟩
        exfalso
        rcases hh with h | ⟨r, h, h2⟩
        · exact Option.noConfusion h
        · have := Option.some.inj h
          subst this
          rcases h2 with h2 | h2
          · omega
          · exact hne h2
      · rw [if_neg hc]
        refine ⟨res, rfl, fun h0 _ => List.length_eq_zero.mp h0, hP, hW, ?_⟩
        refine Or.inr (Or.inl ⟨record, hfind.1, ?_⟩)
        by_cases hd : record.evalDepth > 0
        · right
          have : ¬ record.moves.length > 0 := fun h => hc ⟨hd, h⟩
          exact List.length_eq_zero.mp (by omega)
        · left
          omega

/-- C32: with more fuel than the table has entries, `getBestMoveSequence` returns. The result
is empty when the board has no record (so on the empty table), when its record has evalDepth
0, or when the record has no move; otherwise its first move is the best move of the record of
the board. Each move of the result is the best move of the record of the board that the moves
before it lead to from the board, a record with a depth above 0 and with moves; the walk ends
only at a board that has no record, or a record with evalDepth 0 or without moves, or that is
one of the boards before the moves; the boards before the moves are told apart pairwise by
`operator==`; and the result has at most as many moves as the table has entries. -/
theorem bestMoveSequence_spec (fuel : Nat) (evals : Cache) (board : Board)
    (hfuel : evals.length < fuel) :
    ∃ res, getBestMoveSequence fuel evals board = some res
      ∧ ((evals.find board = none
          ∨ ∃ r, evals.find board = some r ∧ (r.evalDepth = 0 ∨ r.moves = [])) → res = [])
      ∧ (∀ r, evals.find board = some r → 0 < r.evalDepth → r.moves ≠ [] →
          res.head? = some r.bestMove)
      ∧ (∀ k, k < res.length →
          ∃ r, evals.find ((res.take k).foldl Board.makeMoveM board) = some r
            ∧ res.get? k = some r.bestMove ∧ 0 < r.evalDepth ∧ r.moves ≠ [])
      ∧ (evals.find (res.foldl Board.makeMoveM board) = none
          ∨ (∃ r, evals.find (res.foldl Board.makeMoveM board) = some r
              ∧ (r.evalDepth = 0 ∨ r.moves = []))
          ∨ ∃ b ∈ walkBoards board res, b.beq (res.foldl Board.makeMoveM board) = true)
      ∧ (walkBoards board res).Pairwise (fun a b => ¬ a.beq b = true)
      ∧ res.length ≤ evals.length := by
  obtain ⟨out, o1, o2, o3, o4, o5⟩ := bestMoveLoop_spec evals board fuel (evals.find board) []
    (by simpa using hfuel) (fun k hk => absurd hk (Nat.not_lt_zero k)) List.Pairwise.nil
    (Or.inr ⟨rfl, fun b hb => absurd hb (List.not_mem_nil b)⟩)
  refine ⟨out, o1, o2 rfl, ?_, o3, o5, o4, ?_⟩
  · intro r hr hd hm
    cases out with
    | nil =>
      exfalso
      rcases o5 with h | ⟨r2, h, h2⟩ | ⟨b, hb, _⟩
      · rw [List.foldl_nil, hr] at h
        exact Option.noConfusion h
      · rw [List.foldl_nil, hr] at h
        have := Option.some.inj h
        subst this
        rcases h2 with h2 | h2
        · omega
        · exact hm h2
      · exact absurd hb (List.not_mem_nil b)
    | cons m rest =>
      obtain ⟨r2, h1, h2, _⟩ := o3 0 (Nat.succ_pos _)
      rw [List.take_zero, List.foldl_nil, hr] at h1
      have := Option.some.inj h1
      subst this
      exact h2
  · have hfound : ∀ b ∈ walkBoards board out, (evals.find b).isSome = true := by
      intro b hb
      unfold walkBoards at hb
      obtain ⟨k, hk, rfl⟩ := List.mem_map.mp hb
      obtain ⟨r, hr, _⟩ := o3 k (List.mem_range.mp hk)
      rw [hr]
      rfl
    have := distinct_le_length evals _ o4 hfound
    rw [walkBoards_length] at this
    exact this

set_option maxRecDepth 1000000 in
theorem bestMoveSequence_spec_witness :
    twoKingsCache.length < 5
    ∧ ∃ res, getBestMoveSequence 5 twoKingsCache twoKingsBoard = some res
      ∧ res.head? = some (⟨9⟩ : Move)
      ∧ res.length ≤ twoKingsCache.length :=
  ⟨by decide,
    (bestMoveSequence_spec 5 twoKingsCache twoKingsBoard (by decide)).imp
      (fun _ h => ⟨h.1, (h.2.2.1
        (((twoKingsCache.find twoKingsBoard).get (by decide)))
        (by simp only [Option.some_get]) (by decide) (by decide)).trans (by decide),
        h.2.2.2.2.2.2⟩)⟩

end Engine

namespace Engine

theorem bestListed_perm (r r2 : EvalRecord) (hb : r2.bestMove = r.bestMove)
    (hp : r2.moves.Perm r.moves) (h : EvalRecord.BestListed r) : EvalRecord.BestListed r2 := by
  unfold EvalRecord.BestListed at h ⊢
  rw [hb]
  rcases h with h | h
  · exact Or.inl h
  · exact Or.inr (hp.symm.subset h)

theorem Cache.movesKept_refl (e : Cache) : Cache.MovesKept e e := by
  intro b
  refine ⟨fun r hr => ⟨r, hr, List.Perm.refl _, fun h => h⟩, fun hn r2 hr => ?_⟩
  rw [hn] at hr
  exact Option.noConfusion hr

theorem Cache.movesKept_trans (e1 e2 e3 : Cache) (h12 : Cache.MovesKept e1 e2)
    (h23 : Cache.MovesKept e2 e3) : Cache.MovesKept e1 e3 := by
  intro b
  constructor
  · intro r hr
    obtain ⟨r2, a1, a2, a3⟩ := (h12 b).1 r hr
    obtain ⟨r3, b1, b2, b3⟩ := (h23 b).1 r2 a1
    exact ⟨r3, b1, b2.trans a2, fun h => b3 (a3 h)⟩
  · intro hn r3 hr3
    cases h2 : e2.find b with
    | none => exact (h23 b).2 h2 r3 hr3
    | some r2 =>
      obtain ⟨c, c1, c2⟩ := (h12 b).2 hn r2 h2
      obtain ⟨r3', b1, b2, _⟩ := (h23 b).1 r2 h2
      rw [hr3] at b1
      rw [Option.some.inj b1]
      exact ⟨c, c1, b2.trans c2⟩

/-- A write to the record of a board that keeps the moves up to their order, and a best move
that is listed. -/
theorem Cache.movesKept_modify (evals : Cache) (board : Board) (f : EvalRecord → EvalRecord)
    (hf : ∀ r0, evals.find board = some r0 → (f r0).moves.Perm r0.moves
      ∧ (EvalRecord.BestListed r0 → EvalRecord.BestListed (f r0))) :
    Cache.MovesKept evals (evals.modify board f) := by
  intro b
  rw [Cache.find_modify]
  by_cases hb : board.beq b = true
  · rw [if_pos hb]
    constructor
    · intro r hr
      rw [hr]
      have := hf r (by rw [Cache.find_congr evals board b hb]; exact hr)
      exact ⟨f r, rfl, this.1, this.2⟩
    · intro hn r2 hr2
      rw [hn] at hr2
      exact Option.noConfusion hr2
  · rw [if_neg hb]
    exact (Cache.movesKept_refl evals b)

theorem lookupRecord_movesKept (s : SearchState) (board : Board) :
    Cache.MovesKept s.evals (lookupRecord s board).1.evals := by
  cases h : s.evals.find board with
  | some r0 =>
    rw [lookupRecord_found s board r0 h]
    exact Cache.movesKept_refl _
  | none =>
    rw [(lookupRecord_new s board h).1]
    intro b
    rw [Cache.find_insert]
    constructor
    · intro r hr
      rw [hr]
      exact ⟨r, rfl, List.Perm.refl _, fun h => h⟩
    · intro hn r2 hr2
      rw [hn] at hr2
      dsimp only at hr2
      by_cases hb : board.beq b = true
      · rw [if_pos hb] at hr2
        rw [← Option.some.inj hr2]
        exact ⟨board, hb, List.Perm.refl _⟩
      · rw [if_neg hb] at hr2
        exact Option.noConfusion hr2

theorem resetPartial_movesKept (s : SearchState) (board : Board) (r0 : EvalRecord) :
    Cache.MovesKept s.evals (resetPartial s board r0).evals := by
  unfold resetPartial
  split_ifs
  · dsimp only
    refine Cache.movesKept_modify _ _ _ ?_
    intro r _
    exact ⟨List.Perm.refl _, fun h => h⟩
  · exact Cache.movesKept_refl _

theorem markInEvaluation_movesKept (s : SearchState) (board : Board) :
    Cache.MovesKept s.evals (markInEvaluation s board).evals := by
  unfold markInEvaluation
  dsimp only
  refine Cache.movesKept_modify _ _ _ ?_
  intro r _
  exact ⟨List.Perm.refl _, fun h => h⟩

/-- The moves `sortMoveScores` stores are the moves in some order, when the move scores are
in step with the moves. -/
theorem sortMoveScores_perm (evals : Cache) (moveScores : List MoveScore) (moves : List Move)
    (b e : Nat) (hbe : b ≤ e) (hmap : moveScores.map (fun ms => ms.move) = moves) :
    (sortMoveScores evals moveScores moves b e).2.Perm moves := by
  rw [sortMoveScores_moves]
  have h1 : ((sortBy (bestScoreFirst evals) ((moveScores.drop b).take (e - b))).map
      (fun ms => ms.move)).Perm ((moves.drop b).take (e - b)) := by
    refine ((sortBy_perm _ _).map _).trans ?_
    rw [List.map_take, List.map_drop, hmap]
  have h2 : moves = moves.take b ++ (moves.drop b).take (e - b) ++ moves.drop e := by
    have : moves.take e = moves.take b ++ (moves.drop b).take (e - b) := by
      have he : e = b + (e - b) := by omega
      conv_lhs => rw [he]
      exact List.take_add moves b (e - b)
    rw [← this, List.take_append_drop]
  conv_rhs => rw [h2]
  exact (List.Perm.append_left _ h1).append_right _

theorem cutoffWrites_movesKept (evals : Cache) (board : Board) (record : EvalRecord)
    (toDepth toQsDepth : Int) (moveIndex : Nat) (move : Move) (moveScores : List MoveScore)
    (setBound : EvalRecord → EvalRecord)
    (hset : ∀ r, (setBound r).moves = r.moves)
    (hmap : moveScores.map (fun ms => ms.move) = record.moves)
    (hmove : move ∈ record.moves)
    (hrec : ∀ r0, evals.find board = some r0 → r0.moves.Perm record.moves) :
    Cache.MovesKept evals
      (cutoffWrites evals board record toDepth toQsDepth moveIndex move moveScores setBound)
    := by
  unfold cutoffWrites
  dsimp only
  refine Cache.movesKept_trans _ _ _ (Cache.movesKept_modify evals board _ ?_)
    (Cache.movesKept_modify _ board _ ?_)
  · intro r0 h0
    dsimp only
    rw [hset r0]
    exact ⟨List.Perm.refl _, fun _ => Or.inr ((hrec r0 h0).symm.subset hmove)⟩
  · intro r1 h1
    rw [Cache.find_modify_same] at h1
    cases h0 : evals.find board with
    | none =>
      rw [h0] at h1
      exact Option.noConfusion h1
    | some r0 =>
      rw [h0] at h1
      have e1 := Option.some.inj h1
      have hm1 : r1.moves = r0.moves := by
        rw [← e1]
        exact hset r0
      have hb1 : r1.bestMove = move := by
        rw [← e1]
      have hp := sortMoveScores_perm (evals.modify board (fun r =>
        { setBound r with evalStatus := EvalStatus.DONE_PARTIAL, evalDepth := toU8 toDepth,
                          qsEvalDepth := toU8 toQsDepth, bestMove := move }))
        moveScores record.moves 1 (moveIndex + 1) (by omega) hmap
      dsimp only
      rw [hm1, hb1]
      exact ⟨hp.trans (hrec r0 h0).symm, fun _ => Or.inr (hp.symm.subset hmove)⟩

theorem finish_movesKept (board : Board) (record : EvalRecord) (toDepth toQsDepth : Int)
    (s : SearchState) (l : LoopState)
    (hmap : l.moveScores.map (fun ms => ms.move) = record.moves)
    (hbest : l.bestMove = ⟨0⟩ ∨ l.bestMove ∈ record.moves)
    (hrec : ∀ r0, s.evals.find board = some r0 → r0.moves.Perm record.moves) :
    Cache.MovesKept s.evals (finish board record toDepth toQsDepth s l).1.evals := by
  unfold finish
  dsimp only
  refine Cache.movesKept_trans _ _ _ (Cache.movesKept_modify s.evals board _ ?_)
    (Cache.movesKept_modify _ board _ ?_)
  · intro r0 h0
    dsimp only
    refine ⟨List.Perm.refl _, fun _ => ?_⟩
    rcases hbest with h | h
    · exact Or.inl h
    · exact Or.inr ((hrec r0 h0).symm.subset h)
  · intro r1 h1
    rw [Cache.find_modify_same] at h1
    cases h0 : s.evals.find board with
    | none =>
      rw [h0] at h1
      exact Option.noConfusion h1
    | some r0 =>
      rw [h0] at h1
      have e1 := Option.some.inj h1
      have hm1 : r1.moves = r0.moves := by
        rw [← e1]
      have hb1 : r1.bestMove = l.bestMove := by
        rw [← e1]
      have hp := sortMoveScores_perm (s.evals.modify board (fun r =>
        { r with score := if l.newScore ≠ MIN_SCORE ∧ l.newScore ≠ MAX_SCORE then l.newScore else record.score, evalStatus := EvalStatus.DONE_COMPLETE, evalDepth := toU8 toDepth, qsEvalDepth := toU8 toQsDepth, bestMove := l.bestMove }))
        l.moveScores record.moves 0 record.moves.length (Nat.zero_le _) hmap
      dsimp only
      rw [hm1]
      refine ⟨hp.trans (hrec r0 h0).symm, fun _ => ?_⟩
      show r1.bestMove = ⟨0⟩ ∨ r1.bestMove ∈ _
      rw [hb1]
      rcases hbest with h | h
      · exact Or.inl h
      · exact Or.inr (hp.symm.subset h)

/-- After the writes of a cutoff the best move of the record of the board is one of its
moves. -/
theorem cutoffWrites_best (evals : Cache) (board : Board) (record : EvalRecord)
    (toDepth toQsDepth : Int) (moveIndex : Nat) (move : Move) (moveScores : List MoveScore)
    (setBound : EvalRecord → EvalRecord) (r0 : EvalRecord)
    (h0 : evals.find board = some r0)
    (hmap : moveScores.map (fun ms => ms.move) = record.moves)
    (hmove : move ∈ record.moves) :
    ∃ r, (cutoffWrites evals board record toDepth toQsDepth moveIndex move moveScores
        setBound).find board = some r ∧ EvalRecord.BestListed r := by
  unfold cutoffWrites
  dsimp only
  rw [Cache.find_modify_same, Cache.find_modify_same, h0]
  refine ⟨_, rfl, Or.inr ?_⟩
  exact (sortMoveScores_perm _ moveScores record.moves 1 (moveIndex + 1) (by omega)
    hmap).symm.subset hmove

/-- After the end of `evaluate` the best move of the record of the board is the default move
or one of its moves. -/
theorem finish_best (board : Board) (record : EvalRecord) (toDepth toQsDepth : Int)
    (s : SearchState) (l : LoopState) (r0 : EvalRecord)
    (h0 : s.evals.find board = some r0)
    (hmap : l.moveScores.map (fun ms => ms.move) = record.moves)
    (hbest : l.bestMove = ⟨0⟩ ∨ l.bestMove ∈ record.moves) :
    ∃ r, (finish board record toDepth toQsDepth s l).1.evals.find board = some r
      ∧ EvalRecord.BestListed r := by
  unfold finish
  dsimp only
  rw [Cache.find_modify_same, Cache.find_modify_same, h0]
  refine ⟨_, rfl, ?_⟩
  rcases hbest with h | h
  · exact Or.inl h
  · exact Or.inr ((sortMoveScores_perm _ l.moveScores record.moves 0 record.moves.length
      (Nat.zero_le _) hmap).symm.subset h)

end Engine
namespace Engine

theorem map_set_move (moveScores : List MoveScore) (pre rest : List Move) (move : Move)
    (side : Side) (rec : Option Board)
    (hmap : moveScores.map (fun ms => ms.move) = pre ++ move :: rest) :
    (moveScores.set pre.length ⟨move, side, rec⟩).map (fun ms => ms.move)
      = pre ++ move :: rest := by
  rw [List.map_set, hmap]
  exact set_append_self pre move rest

/-- One step of the loop after the recursive call: the moves of the records are kept up to
their order, and when the loop goes on the move scores stay in step with the moves and the
best move so far is the default move or a move of the record. -/
theorem afterChild_movesKept (board : Board) (record : EvalRecord) (toDepth toQsDepth : Int)
    (pre rest : List Move) (move : Move) (s2 : SearchState) (l : LoopState) (res : EvalResult)
    (hall : record.moves = pre ++ move :: rest)
    (hmap : l.moveScores.map (fun ms => ms.move) = record.moves)
    (hbest : l.bestMove = ⟨0⟩ ∨ l.bestMove ∈ record.moves)
    (hrec : ∀ r0, s2.evals.find board = some r0 → r0.moves.Perm record.moves) :
    match afterChild board record toDepth toQsDepth pre.length move s2 l res with
    | LoopOutcome.next s3 l3 => s3 = s2
      ∧ l3.moveScores.map (fun ms => ms.move) = record.moves
      ∧ (l3.bestMove = ⟨0⟩ ∨ l3.bestMove ∈ record.moves)
    | LoopOutcome.done s3 r => Cache.MovesKept s2.evals s3.evals
      ∧ (r.result = EvalResultCode.SUCCESS → ∀ r0, s2.evals.find board = some r0 →
          ∃ r3, s3.evals.find board = some r3 ∧ EvalRecord.BestListed r3) := by
  have hmove : move ∈ record.moves := by
    rw [hall]
    exact List.mem_append_right _ (List.mem_cons_self move rest)
  have hmap2 : ∀ rec : Option Board,
      (l.moveScores.set pre.length ⟨move, board.getMovingSide, rec⟩).map (fun ms => ms.move)
        = record.moves := by
    intro rec
    rw [hall]
    exact map_set_move l.moveScores pre rest move _ rec (hmap.trans hall)
  unfold afterChild
  cases hr : res.result
  · dsimp only
    split_ifs <;> first
      | exact ⟨rfl, hmap2 _, Or.inr hmove⟩
      | exact ⟨rfl, hmap2 _, hbest⟩
      | (dsimp only
         refine ⟨cutoffWrites_movesKept _ _ _ _ _ _ _ _ _ ?_ ?_ hmove hrec, fun _ r0 h0 =>
           cutoffWrites_best _ _ _ _ _ _ _ _ _ r0 h0 (hmap2 _) hmove⟩
         · intro r
           rfl
         · exact hmap2 _)
  · dsimp only
    refine ⟨Cache.movesKept_modify _ _ _ ?_, fun h => EvalResultCode.noConfusion h⟩
    intro r _
    exact ⟨List.Perm.refl _, fun h => h⟩
  · exact ⟨rfl, hmap, hbest⟩

end Engine
namespace Engine

/-- The loop over the moves keeps the moves of the records up to their order when the
recursive calls do. -/
theorem searchLoop_movesKept
    (recurse : Board → SearchState → Int → Int → Int → Int → Bool →
      Option (SearchState × EvalResult))
    (hrecurse : ∀ b s d mw mb q fq out, recurse b s d mw mb q fq = some out →
      Cache.MovesKept s.evals out.1.evals)
    (board : Board) (record : EvalRecord) (searchMode : SearchMode) (toDepth toQsDepth : Int)
    (moves : List Move) :
    ∀ (pre : List Move) (s : SearchState) (l : LoopState) (out : LoopOutcome),
      record.moves = pre ++ moves →
      l.moveScores.map (fun ms => ms.move) = record.moves →
      (l.bestMove = ⟨0⟩ ∨ l.bestMove ∈ record.moves) →
      (∃ r0, s.evals.find board = some r0 ∧ r0.moves.Perm record.moves) →
      searchLoop recurse board record searchMode toDepth toQsDepth moves pre.length s l
        = some out →
      match out with
      | LoopOutcome.next s3 l3 => Cache.MovesKept s.evals s3.evals
        ∧ l3.moveScores.map (fun ms => ms.move) = record.moves
        ∧ (l3.bestMove = ⟨0⟩ ∨ l3.bestMove ∈ record.moves)
        ∧ (∃ r0, s3.evals.find board = some r0 ∧ r0.moves.Perm record.moves)
      | LoopOutcome.done s3 r => Cache.MovesKept s.evals s3.evals
        ∧ (r.result = EvalResultCode.SUCCESS →
            ∃ r3, s3.evals.find board = some r3 ∧ EvalRecord.BestListed r3) := by
  induction moves with
  | nil =>
    intro pre s l out _ hmap hbest hfind h
    rw [searchLoop] at h
    rw [← Option.some.inj h]
    exact ⟨Cache.movesKept_refl _, hmap, hbest, hfind⟩
  | cons move rest ih =>
    intro pre s l out hall hmap hbest hfind h
    have hall2 : record.moves = (pre ++ [move]) ++ rest := by
      rw [hall]
      simp
    have hlen : (pre ++ [move]).length = pre.length + 1 := by simp
    by_cases hex : examineMove searchMode record move = true
    · cases hr : recurse (Board.makeMove board move.getFrom move.getTo move.getPromotionType) s
          (if toDepth > 0 then toDepth - 1 else 0) l.minWhite l.maxBlack
          (if toDepth > 0 then toQsDepth else wrapI16 (toQsDepth - 1))
          (record.isQuietPosition && decide (move.getMoveType = MoveType.MOVE)) with
      | none =>
        rw [searchLoop_child_none recurse board record searchMode toDepth toQsDepth move rest
          pre.length s l hex hr] at h
        exact Option.noConfusion h
      | some p =>
        obtain ⟨s2, res⟩ := p
        have hk := hrecurse _ _ _ _ _ _ _ _ hr
        dsimp only at hk
        obtain ⟨r0, hr0, hp0⟩ := hfind
        obtain ⟨r2, hr2, hp2, _⟩ := (hk board).1 r0 hr0
        have hrec2 : ∀ x, s2.evals.find board = some x → x.moves.Perm record.moves := by
          intro x hx
          rw [hr2] at hx
          rw [← Option.some.inj hx]
          exact hp2.trans hp0
        have hac := afterChild_movesKept board record toDepth toQsDepth pre rest move s2 l res
          hall hmap hbest hrec2
        cases ha : afterChild board record toDepth toQsDepth pre.length move s2 l res with
        | done s3 r =>
          rw [searchLoop_child_done recurse board record searchMode toDepth toQsDepth move rest
            pre.length s s2 s3 l res r hex hr ha] at h
          rw [← Option.some.inj h]
          rw [ha] at hac
          exact ⟨Cache.movesKept_trans _ _ _ hk hac.1, fun hs => hac.2 hs r2 hr2⟩
        | next s3 l3 =>
          rw [searchLoop_child_next recurse board record searchMode toDepth toQsDepth move rest
            pre.length s s2 s3 l l3 res hex hr ha] at h
          rw [ha] at hac
          obtain ⟨e3, hm3, hb3⟩ := hac
          subst e3
          rw [← hlen] at h
          have := ih (pre ++ [move]) s3 l3 out hall2 hm3 hb3 ⟨r2, hr2, hp2.trans hp0⟩ h
          cases out with
          | next s4 l4 =>
            exact ⟨Cache.movesKept_trans _ _ _ hk this.1, this.2⟩
          | done s4 r => exact ⟨Cache.movesKept_trans _ _ _ hk this.1, this.2⟩
    · have hex2 : examineMove searchMode record move = false := by
        cases hh : examineMove searchMode record move
        · rfl
        · exact absurd hh hex
      rw [searchLoop_skipped recurse board record searchMode toDepth toQsDepth move rest
        pre.length s l hex2, ← hlen] at h
      exact ih (pre ++ [move]) s l out hall2 hmap hbest hfind h

/-- A call of `evaluate` keeps the moves of the records up to their order. -/
theorem evaluate_movesKept : ∀ (fuel : Nat) (board : Board) (s : SearchState)
    (toDepth minWhite maxBlack toQsDepth : Int) (fromQuietMove : Bool)
    (out : SearchState × EvalResult),
    evaluate fuel board s toDepth minWhite maxBlack toQsDepth fromQuietMove = some out →
    Cache.MovesKept s.evals out.1.evals := by
  intro fuel
  induction fuel with
  | zero =>
    intro board s toDepth minWhite maxBlack toQsDepth fromQuietMove out h
    rw [evaluate] at h
    exact Option.noConfusion h
  | succ fuel ih =>
    intro board s toDepth minWhite maxBlack toQsDepth fromQuietMove out h
    obtain ⟨r1, hr1⟩ := lookupRecord_find s board
    have hc := evaluate_cases fuel board s toDepth minWhite maxBlack toQsDepth fromQuietMove
      out h
    simp only [hr1, Option.getD_some] at hc
    have hl := lookupRecord_movesKept s board
    rcases hc with ⟨_, rfl⟩ | ⟨_, _, rfl⟩ | ⟨_, _, score, _, rfl⟩ | ⟨_, hst, _, hc⟩
    · exact hl
    · exact hl
    · exact hl
    · obtain ⟨r2, hr2, _⟩ := resetPartial_find (lookupRecord s board).1 board r1 hr1 hst
      have hreset := resetPartial_movesKept (lookupRecord s board).1 board r1
      have hmark := markInEvaluation_movesKept (resetPartial (lookupRecord s board).1 board r1)
        board
      simp only [hr2, Option.getD_some] at hc
      have hfindm : ∃ r0, (markInEvaluation (resetPartial (lookupRecord s board).1 board r1)
          board).evals.find board = some r0 ∧ r0.moves.Perm r2.moves := by
        obtain ⟨r3, a1, a2, _⟩ := (hmark board).1 r2 hr2
        exact ⟨r3, a1, a2⟩
      have hinit : (initLoop board r2 minWhite maxBlack).moveScores.map (fun ms => ms.move)
          = r2.moves := (initLoop_ok [] board r2 minWhite maxBlack).1
      rcases hc with ⟨_, rfl⟩ | ⟨_, ⟨s3, r, hsl, rfl⟩ | ⟨s3, l3, hsl, rfl⟩⟩
      · exact Cache.movesKept_trans _ _ _ hl hreset
      · have := searchLoop_movesKept (evaluate fuel) ih board r2 (searchModeOf r2 toDepth)
          toDepth toQsDepth r2.moves [] _ _ _ rfl hinit (Or.inl rfl) hfindm hsl
        exact Cache.movesKept_trans _ _ _ hl (Cache.movesKept_trans _ _ _ hreset
          (Cache.movesKept_trans _ _ _ hmark this.1))
      · have := searchLoop_movesKept (evaluate fuel) ih board r2 (searchModeOf r2 toDepth)
          toDepth toQsDepth r2.moves [] _ _ _ rfl hinit (Or.inl rfl) hfindm hsl
        obtain ⟨k1, k2, k3, r0, k4, k5⟩ := this
        have hfin := finish_movesKept board r2 toDepth toQsDepth s3 l3 k2 k3 (by
          intro x hx
          rw [k4] at hx
          rw [← Option.some.inj hx]
          exact k5)
        exact Cache.movesKept_trans _ _ _ hl (Cache.movesKept_trans _ _ _ hreset
          (Cache.movesKept_trans _ _ _ hmark (Cache.movesKept_trans _ _ _ k1 hfin)))

/-- C37: a call of `evaluate` (with the fuel its depths call for) returns, whatever its
result, and it only reorders the moves of the records of the table: the record of a board
that had a record before the call has the same moves after it, in some order; and the record
of a board that had none before the call and has one after it has, in some order, the moves
`evaluateBoard` gives for the board. -/
theorem moves_permuted (fuel : Nat) (board : Board) (s : SearchState)
    (toDepth minWhite maxBlack toQsDepth : Int) (fromQuietMove : Bool)
    (hq : toQsDepth ≤ 32767) (hfuel : toDepth.toNat + toQsDepth.toNat < fuel) :
    ∃ out, evaluate fuel board s toDepth minWhite maxBlack toQsDepth fromQuietMove = some out
      ∧ ∀ b, (∀ r, s.evals.find b = some r →
            ∃ r2, out.1.evals.find b = some r2 ∧ r2.moves.Perm r.moves)
        ∧ (s.evals.find b = none → ∀ r2, out.1.evals.find b = some r2 →
            ∃ c, c.beq b = true ∧ r2.moves.Perm (evaluateBoard c).moves) := by
  obtain ⟨out, ho⟩ := Option.isSome_iff_exists.mp (evaluate_total fuel board s toDepth
    minWhite maxBlack toQsDepth fromQuietMove hq hfuel)
  have hk := evaluate_movesKept fuel board s toDepth minWhite maxBlack toQsDepth fromQuietMove
    out ho
  refine ⟨out, ho, fun b => ⟨fun r hr => ?_, (hk b).2⟩⟩
  obtain ⟨r2, a1, a2, _⟩ := (hk b).1 r hr
  exact ⟨r2, a1, a2⟩

theorem moves_permuted_witness :
    ((2 : Int) ≤ 32767 ∧ (1 : Int).toNat + (2 : Int).toNat < 4)
    ∧ ∃ out, evaluate 4 quietSearchBoard ⟨[], EvalContext.make 0 1 (fun _ => 0)⟩ 1 MIN_SCORE
        MAX_SCORE 2 true = some out
      ∧ ∀ b, (∀ r, Cache.find [] b = some r →
            ∃ r2, out.1.evals.find b = some r2 ∧ r2.moves.Perm r.moves)
        ∧ (Cache.find [] b = none → ∀ r2, out.1.evals.find b = some r2 →
            ∃ c, c.beq b = true ∧ r2.moves.Perm (evaluateBoard c).moves) :=
  ⟨by decide, moves_permuted 4 quietSearchBoard ⟨[], EvalContext.make 0 1 (fun _ => 0)⟩ 1
    MIN_SCORE MAX_SCORE 2 true (by decide) (by decide)⟩

end Engine

namespace Engine

/-- The record of the evaluator for a board with a listed move has the depth 0. -/
theorem evaluateBoard_depth (B : Board) (hm : (evaluateBoard B).moves ≠ []) :
    (evaluateBoard B).evalDepth = 0 := by
  have hA : ¬ AfterCheckmate B := fun h => hm (evaluateBoard_returned B h)
  have h' : ¬ ∃ i ∈ List.range 64, (B.getSquare ⟨i⟩).getPieceType = PieceType.KING_PIECE
      ∧ Board.getSide (B.getSquare ⟨i⟩).getSideBit ≠ B.getMovingSide
      ∧ (sweep B).evalContext.enemyCount (Board.getSide (B.getSquare ⟨i⟩).getSideBit) i > 0 := by
    rintro ⟨i, hi, hc⟩
    exact hA ⟨i, (mem_range64 i).mp hi, hc⟩
  obtain ⟨r, e, h1, _, h3, _⟩ := attackerPass_running B (sweep B).evalContext B.getMovingSide
    (Board.getSideSign B.getMovingSide) (List.range 64) (sweep B).record h'
  have hd : r.evalDepth = 0 := h3.trans (sweep_flags B).2.2
  unfold evaluateBoard at hm ⊢
  simp only [e] at hm ⊢
  by_cases hz : r.moves.length = 0
  · rw [if_pos hz] at hm
    exact absurd (List.length_eq_zero.mp hz) hm
  · rw [if_neg hz]
    exact hd

/-- A call of `evaluate` with a depth of at least 1 on a board that has no record and a
listed move, when it returns SUCCESS: the record of the board holds the moves of the
evaluator in some order, and its best move is the default move or one of the moves. -/
theorem evaluate_fresh (fuel : Nat) (board : Board) (s : SearchState)
    (toDepth minWhite maxBlack toQsDepth : Int) (fromQuietMove : Bool)
    (out : SearchState × EvalResult)
    (hnone : s.evals.find board = none) (hm : (evaluateBoard board).moves ≠ [])
    (hd : 1 ≤ toDepth)
    (h : evaluate fuel board s toDepth minWhite maxBlack toQsDepth fromQuietMove = some out)
    (hres : out.2.result = EvalResultCode.SUCCESS) :
    ∃ r, out.1.evals.find board = some r ∧ r.moves.Perm (evaluateBoard board).moves
      ∧ EvalRecord.BestListed r := by
  cases fuel with
  | zero =>
    rw [evaluate] at h
    exact Option.noConfusion h
  | succ fuel =>
    have hr1 : (lookupRecord s board).1.evals.find board = some (evaluateBoard board) := by
      rw [(lookupRecord_new s board hnone).1]
      exact Cache.find_insert_same _ _ _ hnone
    have hc := evaluate_cases fuel board s toDepth minWhite maxBlack toQsDepth fromQuietMove
      out h
    simp only [hr1, Option.getD_some] at hc
    have hst : (evaluateBoard board).evalStatus = EvalStatus.DONE_COMPLETE :=
      evaluateBoard_status board
    have hreset : resetPartial (lookupRecord s board).1 board (evaluateBoard board)
        = (lookupRecord s board).1 := by
      unfold resetPartial
      rw [if_neg]
      rw [hst]
      exact fun h => EvalStatus.noConfusion h
    rcases hc with ⟨_, rfl⟩ | ⟨_, _, rfl⟩ | ⟨_, _, score, hpc, rfl⟩ | ⟨_, _, _, hc⟩
    · exact EvalResultCode.noConfusion hres
    · exact EvalResultCode.noConfusion hres
    · have := partialCutoff_status board _ toDepth minWhite maxBlack toQsDepth score hpc
      rw [hst] at this
      exact EvalStatus.noConfusion this
    · rw [hreset] at hc
      simp only [hr1, Option.getD_some] at hc
      have hmark := markInEvaluation_movesKept (lookupRecord s board).1 board
      obtain ⟨r3, a1, a2, _⟩ := (hmark board).1 _ hr1
      have hinit : (initLoop board (evaluateBoard board) minWhite maxBlack).moveScores.map
          (fun ms => ms.move) = (evaluateBoard board).moves :=
        (initLoop_ok [] board (evaluateBoard board) minWhite maxBlack).1
      rcases hc with ⟨hda, _⟩ | ⟨_, ⟨s3, r, hsl, rfl⟩ | ⟨s3, l3, hsl, rfl⟩⟩
      · exfalso
        unfold depthAchieved at hda
        have hz : ¬ (((evaluateBoard board).evalDepth : Nat) : Int) ≥ toDepth := by
          rw [evaluateBoard_depth board hm]
          show ¬ ((0 : Nat) : Int) ≥ toDepth
          omega
        simp only [hz, decide_False, Bool.false_and, Bool.or_self] at hda
        exact Bool.noConfusion hda
      · have := searchLoop_movesKept (evaluate fuel) (evaluate_movesKept fuel) board
          (evaluateBoard board) (searchModeOf (evaluateBoard board) toDepth)
          toDepth toQsDepth (evaluateBoard board).moves [] _ _ _ rfl hinit (Or.inl rfl)
          ⟨r3, a1, a2⟩ hsl
        obtain ⟨k1, k2⟩ := this
        obtain ⟨r4, b1, b2⟩ := k2 hres
        obtain ⟨r5, c1, c2, _⟩ := (k1 board).1 r3 a1
        rw [b1] at c1
        rw [← Option.some.inj c1] at c2
        exact ⟨r4, b1, c2.trans a2, b2⟩
      · have := searchLoop_movesKept (evaluate fuel) (evaluate_movesKept fuel) board
          (evaluateBoard board) (searchModeOf (evaluateBoard board) toDepth)
          toDepth toQsDepth (evaluateBoard board).moves [] _ _ _ rfl hinit (Or.inl rfl)
          ⟨r3, a1, a2⟩ hsl
        obtain ⟨_, k2, k3, r0, k4, k5⟩ := this
        obtain ⟨r4, b1, b2⟩ := finish_best board (evaluateBoard board) toDepth toQsDepth s3 l3
          r0 k4 k2 k3
        have hfin := finish_movesKept board (evaluateBoard board) toDepth toQsDepth s3 l3 k2 k3
          (by
            intro x hx
            rw [k4] at hx
            rw [← Option.some.inj hx]
            exact k5)
        obtain ⟨r5, c1, c2, _⟩ := (hfin board).1 r0 k4
        rw [b1] at c1
        rw [← Option.some.inj c1] at c2
        exact ⟨r4, b1, c2.trans k5, b2⟩

/-- The loop over the depths, on a board with a listed move: from a table without a record of
the board in a round of a depth of at most `toDepth`, or from a table whose record of the
board holds the moves of the evaluator in some order and a best move that is the default move
or one of the moves, with the pointer set, the loop ends with the pointer set and such a
record. -/
theorem depthLoop_best (board : Board) (toDepth toQsDepth allowedTimeMs : Int)
    (hm : (evaluateBoard board).moves ≠ []) :
    ∀ (fuel : Nat) (depth : Int) (haveTime : Bool) (s : SearchState) (record : Option Board)
      (trace : List Int) (out : SearchState × Option Board × List Int),
      depthLoop board toDepth toQsDepth allowedTimeMs fuel depth haveTime s record trace
        = some out →
      s.context.depthRequired = toDepth →
      s.context.depthAchieved < depth → 1 ≤ depth →
      ((record = none ∧ s.evals.find board = none ∧ depth ≤ toDepth)
        ∨ (record = some board ∧ ∃ r, s.evals.find board = some r
            ∧ r.moves.Perm (evaluateBoard board).moves ∧ EvalRecord.BestListed r)) →
      out.2.1 = some board ∧ ∃ r, out.1.evals.find board = some r
        ∧ r.moves.Perm (evaluateBoard board).moves ∧ EvalRecord.BestListed r := by
  intro fuel
  induction fuel with
  | zero =>
    intro depth haveTime s record trace out h
    rw [depthLoop] at h
    exact Option.noConfusion h
  | succ fuel ih =>
    intro depth haveTime s record trace out h hreq hlt hd1 hcase
    rw [depthLoop] at h
    by_cases hc : depth ≤ toDepth ∨ haveTime = true
    · rw [if_pos hc] at h
      cases he : evaluate (depth.toNat + toQsDepth.toNat + 1) board s depth MIN_SCORE MAX_SCORE
          toQsDepth true with
      | none =>
        rw [he] at h
        exact Option.noConfusion h
      | some p =>
        obtain ⟨s2, result⟩ := p
        rw [he] at h
        dsimp only at h
        obtain ⟨d1, d2, d3⟩ := evaluate_depths _ board s depth MIN_SCORE MAX_SCORE toQsDepth
          true _ he
        dsimp only at d1 d2 d3
        have hk := evaluate_movesKept _ board s depth MIN_SCORE MAX_SCORE toQsDepth true _ he
        dsimp only at hk
        have hgood : (∃ r, s.evals.find board = some r
            ∧ r.moves.Perm (evaluateBoard board).moves ∧ EvalRecord.BestListed r) →
            ∃ r, s2.evals.find board = some r
              ∧ r.moves.Perm (evaluateBoard board).moves ∧ EvalRecord.BestListed r := by
          rintro ⟨r, a1, a2, a3⟩
          obtain ⟨r2, b1, b2, b3⟩ := (hk board).1 r a1
          exact ⟨r2, b1, b2.trans a2, b3 a3⟩
        by_cases hs : result.result = EvalResultCode.SUCCESS
        · rw [if_pos hs] at h
          have hrecd := (evaluate_success _ board s depth MIN_SCORE MAX_SCORE toQsDepth true _
            he hs).1
          dsimp only at hrecd
          refine ih (depth + 1) _ _ _ _ out h
            (by show s2.context.depthRequired = toDepth; rw [d2]; exact hreq)
            (by show depth < depth + 1; omega) (by omega) (Or.inr ⟨hrecd, ?_⟩)
          show ∃ r, s2.evals.find board = some r ∧ _
          rcases hcase with ⟨_, hnone, _⟩ | ⟨_, hg⟩
          · exact evaluate_fresh _ board s depth MIN_SCORE MAX_SCORE toQsDepth true _ hnone hm
              hd1 he hs
          · exact hgood hg
        · rw [if_neg hs] at h
          have ho := Option.some.inj h
          rw [← ho]
          dsimp only
          rcases hcase with ⟨_, hnone, hdt⟩ | ⟨hrec, hg⟩
          · exfalso
            cases hres : result.result with
            | SUCCESS => exact hs hres
            | TIMEOUT => exact d3 (by omega) hres
            | LOOP =>
              obtain ⟨_, r0, hf, _⟩ := evaluate_loop_inv _ board s depth MIN_SCORE MAX_SCORE
                toQsDepth true _ he hres
              rw [hnone] at hf
              exact Option.noConfusion hf
          · exact ⟨hrec, hgood hg⟩
    · rw [if_neg hc] at h
      have ho := Option.some.inj h
      rw [← ho]
      dsimp only
      rcases hcase with ⟨_, _, hdt⟩ | ⟨hrec, hg⟩
      · exact absurd (Or.inl hdt) hc
      · exact ⟨hrec, hg⟩

set_option maxRecDepth 1000000 in
/-- C39, counterexample: on the board with a white pawn on a3, 11 black queens and the black
king, White to move, the evaluator lists the one move a3-a4 and detects no after-checkmate;
the move leads to a board of score -30590, which is not above the start value -30000 of the
best score. `findBestMove` with depth 1 and quiet-search depth 0 on the empty table returns
the best move of the record of the board, which is the default move a1a1, not a listed
move. -/
theorem findBestMove_null_counterexample :
    (evaluateBoard elevenQueensBoard).moves
      = [Move.make ⟨16⟩ ⟨24⟩ MoveType.MOVE PieceType.NO_PIECE]
    ∧ ¬ AfterCheckmate elevenQueensBoard
    ∧ (evaluateBoard (Board.makeMoveM elevenQueensBoard
        (Move.make ⟨16⟩ ⟨24⟩ MoveType.MOVE PieceType.NO_PIECE))).score = -30590
    ∧ (findBestMove [] elevenQueensBoard 1 0 0 (fun _ => 0)).map
        (fun out => (out.2.1.map (fun b => b.beq elevenQueensBoard),
          out.2.1.bind (fun b => (out.1.evals.find b).map (fun r => r.bestMove))))
      = some (some true, some ⟨0⟩)
    ∧ (⟨0⟩ : Move) ∉ (evaluateBoard elevenQueensBoard).moves := by
  unfold AfterCheckmate
  decide

end Engine

namespace Cache

end Cache

namespace Engine

end Engine
namespace Engine

end Engine
namespace Engine

end Engine

open Engine
namespace Engine

set_option maxRecDepth 1000000 in
/-- C15 fails on a board with a pawn on the last row of its side. With a white king on a1, a
white pawn on b8 and a black king on h8, White to move, the capture branch of the pawn counts
an attack at the position of row 8, column 0: the counter `whiteAttackCount[64]` is the cell
`blackAttackCount[0]`, the white king on a1 counts as attacked, and the check penalty makes
the score 120. On the mirrored board the count of the black pawn on b1 falls behind both
arrays, no king counts as attacked, and the score is -220. -/
theorem mirror_lastRowPawn :
    (lastRowPawnBoard.kingCount Side.WHITE ≤ 1 ∧ lastRowPawnBoard.kingCount Side.BLACK ≤ 1)
    ∧ (lastRowPawnBoard.otherCount Side.WHITE ≤ 15 ∧ lastRowPawnBoard.otherCount Side.BLACK ≤ 15)
    ∧ (sweep lastRowPawnBoard).evalContext.blackAttackCount 0 = 1
    ∧ (evaluateBoard lastRowPawnBoard).isQuietPosition = false
    ∧ (evaluateBoard lastRowPawnBoard).score = 120
    ∧ (evaluateBoard lastRowPawnBoard.mirror).score = -220
    ∧ (evaluateBoard lastRowPawnBoard.mirror).score ≠ - (evaluateBoard lastRowPawnBoard).score := by
  decide

set_option maxRecDepth 1000000 in
/-- C18 fails on a board with a pawn on the last row of its side. With a black pawn with the
moved-twice bit on a8, a white pawn on b8 and a white rook on c8, White to move, the
en-passant branch of the white pawn lists the CAPTURE from b8 to the position of row 8,
column 0, with data 64. In the word of the move the target overflows its 6 bits into the
origin: the listed move reads as a CAPTURE from c8, where the rook stands, onto the empty
square a1. -/
theorem moveKind_lastRowPawn :
    Move.make ⟨57⟩ (Position.make 8 0) MoveType.CAPTURE PieceType.NO_PIECE
      ∈ (evaluateBoard strayCaptureBoard).moves
    ∧ (Move.make ⟨57⟩ (Position.make 8 0) MoveType.CAPTURE PieceType.NO_PIECE).getFrom = ⟨58⟩
    ∧ (Move.make ⟨57⟩ (Position.make 8 0) MoveType.CAPTURE PieceType.NO_PIECE).getTo = ⟨0⟩
    ∧ (Move.make ⟨57⟩ (Position.make 8 0) MoveType.CAPTURE PieceType.NO_PIECE).getMoveType
        = MoveType.CAPTURE
    ∧ (strayCaptureBoard.getSquare ⟨0⟩).getPieceType = PieceType.NO_PIECE
    ∧ (strayCaptureBoard.getSquare ⟨58⟩).getPieceType = PieceType.ROOK_PIECE := by
  decide

set_option maxRecDepth 1000000 in
/-- C20 fails on a board with a pawn on the last row of its side. On the board of black pawn
a8 (with the moved-twice bit), white pawn b8 and white rook c8, White to move, no
after-checkmate is detected, and the record lists a move from c8, the square of the rook, to
a1, which lies neither on the row nor on the column of c8: the move the en-passant branch of
the pawn on b8 lists with the target of row 8. -/
theorem slider_lastRowPawn :
    ¬ AfterCheckmate strayCaptureBoard
    ∧ (strayCaptureBoard.getSquare ⟨58⟩).getPieceType = PieceType.ROOK_PIECE
    ∧ Board.getSide (strayCaptureBoard.getSquare ⟨58⟩).getSideBit
        = strayCaptureBoard.getMovingSide
    ∧ (∃ m ∈ (evaluateBoard strayCaptureBoard).moves, m.getFrom = ⟨58⟩ ∧ m.getTo = ⟨0⟩)
    ∧ (⟨0⟩ : Position).getRow ≠ (⟨58⟩ : Position).getRow
    ∧ (⟨0⟩ : Position).getCol ≠ (⟨58⟩ : Position).getCol := by
  refine ⟨by unfold AfterCheckmate; decide, by decide, by decide, by decide, by decide,
    by decide⟩

set_option maxRecDepth 1000000 in
/-- C17 fails on a board with a pawn on the last row of its side. With a white king on a1, a
white pawn on b8, and a black king on e8 and a black rook on h8 that have not moved, Black to
move: the king and the rook have not moved, e8, f8 and g8 are not attacked by White, f8 and g8
are empty, and the sweep lists the castling move e8-g8. The capture branch of the white pawn
has counted an attack in `whiteAttackCount[64]`, the cell `blackAttackCount[0]`; the attacker
loop takes the white king on a1 for attacked, and the record has no move and the score -10000.
Without the pawn no attack on a1 is counted and the castling move is in the record. -/
theorem castling_lastRowPawn :
    (phantomCheckBoard.getSquare ⟨60⟩).getPieceType = PieceType.KING_PIECE
    ∧ Board.getSide (phantomCheckBoard.getSquare ⟨60⟩).getSideBit
        = phantomCheckBoard.getMovingSide
    ∧ (phantomCheckBoard.getSquare ⟨60⟩).getMovedBit = MovedBit.NO
    ∧ (phantomCheckBoard.getSquare ⟨63⟩).getPieceType = PieceType.ROOK_PIECE
    ∧ (phantomCheckBoard.getSquare ⟨63⟩).getMovedBit = MovedBit.NO
    ∧ (phantomCheckBoard.getSquare ⟨61⟩).getPieceType = PieceType.NO_PIECE
    ∧ (phantomCheckBoard.getSquare ⟨62⟩).getPieceType = PieceType.NO_PIECE
    ∧ (sweep phantomCheckBoard).evalContext.whiteAttackCount 60 = 0
    ∧ (sweep phantomCheckBoard).evalContext.whiteAttackCount 61 = 0
    ∧ (sweep phantomCheckBoard).evalContext.whiteAttackCount 62 = 0
    ∧ Move.make ⟨60⟩ ⟨62⟩ MoveType.MOVE PieceType.NO_PIECE
        ∈ (sweep phantomCheckBoard).record.moves
    ∧ (sweep phantomCheckBoard).evalContext.blackAttackCount 0 = 1
    ∧ (evaluateBoard phantomCheckBoard).moves = []
    ∧ (evaluateBoard phantomCheckBoard).score = -10000
    ∧ (sweep (phantomCheckBoard.setSquare ⟨57⟩ ⟨0⟩)).evalContext.blackAttackCount 0 = 0
    ∧ Move.make ⟨60⟩ ⟨62⟩ MoveType.MOVE PieceType.NO_PIECE
        ∈ (evaluateBoard (phantomCheckBoard.setSquare ⟨57⟩ ⟨0⟩)).moves := by
  decide

end Engine

namespace Engine

set_option maxRecDepth 1000000 in
/-- C25, counterexample: on the board with the two kings, White to move, the call of
`evaluate` with depth 1, the window from `MIN_SCORE` to 20 and `toQsDepth` 256 ends with a
cutoff: it returns SUCCESS with the score 20, and the record has the bound 20 and the status
DONE_PARTIAL; its qsEvalDepth, a `uint8_t`, is 0 and not 256. -/
theorem cutoff_contract_counterexample :
    ∃ (out : SearchState × EvalResult) (r : EvalRecord),
      evaluate 3 twoKingsBoard ⟨[], EvalContext.make 0 1 (fun _ => 0)⟩ 1 MIN_SCORE 20 256 true
        = some out
      ∧ out.2.result = EvalResultCode.SUCCESS
      ∧ out.2.score = 20
      ∧ out.1.evals.find twoKingsBoard = some r
      ∧ r.evalStatus = EvalStatus.DONE_PARTIAL
      ∧ r.maxBlack = 20
      ∧ r.evalDepth = 1
      ∧ r.qsEvalDepth = 0
      ∧ ((r.qsEvalDepth : Nat) : Int) ≠ 256 :=
  ⟨(evaluate 3 twoKingsBoard ⟨[], EvalContext.make 0 1 (fun _ => 0)⟩ 1 MIN_SCORE 20 256
      true).get (by decide),
    ((evaluate 3 twoKingsBoard ⟨[], EvalContext.make 0 1 (fun _ => 0)⟩ 1 MIN_SCORE 20 256
      true).get (by decide)).1.evals.find twoKingsBoard |>.get (by decide),
    by simp only [Option.some_get], by decide, by decide, by simp only [Option.some_get],
    by decide, by decide, by decide, by decide, by decide⟩

end Engine

namespace Engine

theorem loopCalls_skipped
    (recurse : Board → SearchState → Int → Int → Int → Int → Bool →
      Option (SearchState × EvalResult))
    (board : Board) (record : EvalRecord) (searchMode : SearchMode) (toDepth toQsDepth : Int)
    (move : Move) (rest : List Move) (moveIndex : Nat) (s : SearchState) (l : LoopState)
    (hex : examineMove searchMode record move = false) :
    loopCalls recurse board record searchMode toDepth toQsDepth (move :: rest) moveIndex s l
      = loopCalls recurse board record searchMode toDepth toQsDepth rest (moveIndex + 1)
          s l := by
  rw [loopCalls]
  simp only [hex, Bool.not_false, if_true]

theorem loopCalls_child_none
    (recurse : Board → SearchState → Int → Int → Int → Int → Bool →
      Option (SearchState × EvalResult))
    (board : Board) (record : EvalRecord) (searchMode : SearchMode) (toDepth toQsDepth : Int)
    (move : Move) (rest : List Move) (moveIndex : Nat) (s : SearchState) (l : LoopState)
    (hex : examineMove searchMode record move = true)
    (hrec : recurse (Board.makeMove board move.getFrom move.getTo move.getPromotionType) s
      (if toDepth > 0 then toDepth - 1 else 0) l.minWhite l.maxBlack
      (if toDepth > 0 then toQsDepth else wrapI16 (toQsDepth - 1))
      (record.isQuietPosition && decide (move.getMoveType = MoveType.MOVE)) = none) :
    loopCalls recurse board record searchMode toDepth toQsDepth (move :: rest) moveIndex s l
      = [⟨move, Board.makeMove board move.getFrom move.getTo move.getPromotionType, s,
          if toDepth > 0 then toDepth - 1 else 0, l.minWhite, l.maxBlack,
          if toDepth > 0 then toQsDepth else wrapI16 (toQsDepth - 1),
          record.isQuietPosition && decide (move.getMoveType = MoveType.MOVE), none⟩] := by
  rw [loopCalls]
  simp only [hex, Bool.not_true, Bool.false_eq_true, if_false, hrec]

theorem loopCalls_child_done
    (recurse : Board → SearchState → Int → Int → Int → Int → Bool →
      Option (SearchState × EvalResult))
    (board : Board) (record : EvalRecord) (searchMode : SearchMode) (toDepth toQsDepth : Int)
    (move : Move) (rest : List Move) (moveIndex : Nat) (s s2 s3 : SearchState) (l : LoopState)
    (res r : EvalResult)
    (hex : examineMove searchMode record move = true)
    (hrec : recurse (Board.makeMove board move.getFrom move.getTo move.getPromotionType) s
      (if toDepth > 0 then toDepth - 1 else 0) l.minWhite l.maxBlack
      (if toDepth > 0 then toQsDepth else wrapI16 (toQsDepth - 1))
      (record.isQuietPosition && decide (move.getMoveType = MoveType.MOVE)) = some (s2, res))
    (hafter : afterChild board record toDepth toQsDepth moveIndex move s2 l res
      = LoopOutcome.done s3 r) :
    loopCalls recurse board record searchMode toDepth toQsDepth (move :: rest) moveIndex s l
      = [⟨move, Board.makeMove board move.getFrom move.getTo move.getPromotionType, s,
          if toDepth > 0 then toDepth - 1 else 0, l.minWhite, l.maxBlack,
          if toDepth > 0 then toQsDepth else wrapI16 (toQsDepth - 1),
          record.isQuietPosition && decide (move.getMoveType = MoveType.MOVE),
          some (s2, res)⟩] := by
  rw [loopCalls]
  simp only [hex, Bool.not_true, Bool.false_eq_true, if_false, hrec, hafter]

theorem loopCalls_child_next
    (recurse : Board → SearchState → Int → Int → Int → Int → Bool →
      Option (SearchState × EvalResult))
    (board : Board) (record : EvalRecord) (searchMode : SearchMode) (toDepth toQsDepth : Int)
    (move : Move) (rest : List Move) (moveIndex : Nat) (s s2 s3 : SearchState) (l l3 : LoopState)
    (res : EvalResult)
    (hex : examineMove searchMode record move = true)
    (hrec : recurse (Board.makeMove board move.getFrom move.getTo move.getPromotionType) s
      (if toDepth > 0 then toDepth - 1 else 0) l.minWhite l.maxBlack
      (if toDepth > 0 then toQsDepth else wrapI16 (toQsDepth - 1))
      (record.isQuietPosition && decide (move.getMoveType = MoveType.MOVE)) = some (s2, res))
    (hafter : afterChild board record toDepth toQsDepth moveIndex move s2 l res
      = LoopOutcome.next s3 l3) :
    loopCalls recurse board record searchMode toDepth toQsDepth (move :: rest) moveIndex s l
      = ⟨move, Board.makeMove board move.getFrom move.getTo move.getPromotionType, s,
          if toDepth > 0 then toDepth - 1 else 0, l.minWhite, l.maxBlack,
          if toDepth > 0 then toQsDepth else wrapI16 (toQsDepth - 1),
          record.isQuietPosition && decide (move.getMoveType = MoveType.MOVE),
          some (s2, res)⟩
        :: loopCalls recurse board record searchMode toDepth toQsDepth rest (moveIndex + 1)
          s3 l3 := by
  rw [loopCalls]
  simp only [hex, Bool.not_true, Bool.false_eq_true, if_false, hrec, hafter]

/-- The moves the loop over the moves recurses into: when the loop runs over all moves, the
moves that are examined; when it ends at a move, the examined moves up to this move, which is
examined. -/
theorem loopCalls_moves
    (recurse : Board → SearchState → Int → Int → Int → Int → Bool →
      Option (SearchState × EvalResult))
    (board : Board) (record : EvalRecord) (searchMode : SearchMode) (toDepth toQsDepth : Int)
    (moves : List Move) :
    ∀ (moveIndex : Nat) (s : SearchState) (l : LoopState),
      ((∃ s3 l3, searchLoop recurse board record searchMode toDepth toQsDepth moves moveIndex
            s l = some (LoopOutcome.next s3 l3))
        ∧ (loopCalls recurse board record searchMode toDepth toQsDepth moves moveIndex s l).map
            (fun c => c.move) = moves.filter (examineMove searchMode record))
      ∨ ((∀ s3 l3, searchLoop recurse board record searchMode toDepth toQsDepth moves moveIndex
            s l ≠ some (LoopOutcome.next s3 l3))
        ∧ ∃ (pre : List Move) (m : Move) (post : List Move), moves = pre ++ m :: post
          ∧ examineMove searchMode record m = true
          ∧ (loopCalls recurse board record searchMode toDepth toQsDepth moves moveIndex
              s l).map (fun c => c.move)
            = pre.filter (examineMove searchMode record) ++ [m]) := by
  induction moves with
  | nil =>
    intro moveIndex s l
    left
    exact ⟨⟨s, l, by rw [searchLoop]⟩, by rw [loopCalls]; rfl⟩
  | cons move rest ih =>
    intro moveIndex s l
    have hend : ∀ c : LoopCall, c.move = move →
        loopCalls recurse board record searchMode toDepth toQsDepth (move :: rest) moveIndex s l
          = [c] → examineMove searchMode record move = true →
        ∃ (pre : List Move) (m : Move) (post : List Move), move :: rest = pre ++ m :: post
          ∧ examineMove searchMode record m = true
          ∧ (loopCalls recurse board record searchMode toDepth toQsDepth (move :: rest)
              moveIndex s l).map (fun c => c.move)
            = pre.filter (examineMove searchMode record) ++ [m] := by
      intro c hc he hex
      refine ⟨[], move, rest, rfl, hex, ?_⟩
      rw [he, List.map_singleton, hc]
      rfl
    by_cases hex : examineMove searchMode record move = true
    · cases hr : recurse (Board.makeMove board move.getFrom move.getTo move.getPromotionType) s
          (if toDepth > 0 then toDepth - 1 else 0) l.minWhite l.maxBlack
          (if toDepth > 0 then toQsDepth else wrapI16 (toQsDepth - 1))
          (record.isQuietPosition && decide (move.getMoveType = MoveType.MOVE)) with
      | none =>
        right
        rw [searchLoop_child_none recurse board record searchMode toDepth toQsDepth move rest
          moveIndex s l hex hr]
        exact ⟨fun _ _ h => Option.noConfusion h, hend _ rfl
          (loopCalls_child_none recurse board record searchMode toDepth toQsDepth move rest
            moveIndex s l hex hr) hex⟩
      | some p =>
        obtain ⟨s2, res⟩ := p
        cases ha : afterChild board record toDepth toQsDepth moveIndex move s2 l res with
        | done s3 r =>
          right
          rw [searchLoop_child_done recurse board record searchMode toDepth toQsDepth move rest
            moveIndex s s2 s3 l res r hex hr ha]
          exact ⟨fun _ _ h => LoopOutcome.noConfusion (Option.some.inj h), hend _ rfl
            (loopCalls_child_done recurse board record searchMode toDepth toQsDepth move rest
              moveIndex s s2 s3 l res r hex hr ha) hex⟩
        | next s3 l3 =>
          rw [searchLoop_child_next recurse board record searchMode toDepth toQsDepth move rest
            moveIndex s s2 s3 l l3 res hex hr ha,
            loopCalls_child_next recurse board record searchMode toDepth toQsDepth move rest
            moveIndex s s2 s3 l l3 res hex hr ha]
          rcases ih (moveIndex + 1) s3 l3 with ⟨h1, h2⟩ | ⟨h1, pre, m, post, h2, h3, h4⟩
          · left
            refine ⟨h1, ?_⟩
            rw [List.map_cons, h2, List.filter_cons_of_pos hex]
          · right
            refine ⟨h1, move :: pre, m, post, by rw [h2]; rfl, h3, ?_⟩
            rw [List.map_cons, h4, List.filter_cons_of_pos hex]
            rfl
    · have hex2 : examineMove searchMode record move = false := by
        cases hh : examineMove searchMode record move
        · rfl
        · exact absurd hh hex
      rw [searchLoop_skipped recurse board record searchMode toDepth toQsDepth move rest
        moveIndex s l hex2,
        loopCalls_skipped recurse board record searchMode toDepth toQsDepth move rest
        moveIndex s l hex2]
      rcases ih (moveIndex + 1) s l with ⟨h1, h2⟩ | ⟨h1, pre, m, post, h2, h3, h4⟩
      · left
        refine ⟨h1, ?_⟩
        rw [h2, List.filter_cons_of_neg hex]
      · right
        refine ⟨h1, move :: pre, m, post, by rw [h2]; rfl, h3, ?_⟩
        rw [h4, List.filter_cons_of_neg hex]

/-- The recursive calls of a call of `evaluate` that reaches its loop are those of the loop. -/
theorem evaluateCalls_loop (fuel : Nat) (board : Board) (s : SearchState)
    (toDepth minWhite maxBlack toQsDepth : Int) (fromQuietMove : Bool)
    (h1 : (lookupRecord s board).2 = false)
    (h2 : (((lookupRecord s board).1.evals.find board).getD EvalRecord.new).evalStatus
      ≠ EvalStatus.IN_EVALUATION)
    (h3 : partialCutoff board (((lookupRecord s board).1.evals.find board).getD EvalRecord.new)
      toDepth minWhite maxBlack toQsDepth = none)
    (h4 : depthAchieved (entryRecord s board) toDepth toQsDepth fromQuietMove = false) :
    evaluateCalls (fuel + 1) board s toDepth minWhite maxBlack toQsDepth fromQuietMove
      = loopCalls (evaluate fuel) board (entryRecord s board)
          (searchModeOf (entryRecord s board) toDepth) toDepth toQsDepth
          (entryRecord s board).moves 0
          (markInEvaluation (resetPartial (lookupRecord s board).1 board
            (((lookupRecord s board).1.evals.find board).getD EvalRecord.new)) board)
          (initLoop board (entryRecord s board) minWhite maxBlack) := by
  unfold entryRecord at h4 ⊢
  rw [evaluateCalls, if_neg (by rw [h1]; decide)]
  simp only [if_neg h2, h3, h4, Bool.false_eq_true, if_false]

end Engine

namespace Engine

/-- When the loop over the moves ends with a cutoff, it ends at a move that is examined, after
having recursed into the examined moves up to it, and the record of the board has the status
DONE_PARTIAL and this move as best move. -/
theorem loopCalls_cutoff
    (recurse : Board → SearchState → Int → Int → Int → Int → Bool →
      Option (SearchState × EvalResult))
    (hin : ∀ b s d mw mb q fq out, recurse b s d mw mb q fq = some out →
      ∀ b2, Cache.InEval out.1.evals b2 ↔ Cache.InEval s.evals b2)
    (board : Board) (record : EvalRecord) (searchMode : SearchMode) (toDepth toQsDepth : Int)
    (moves : List Move) :
    ∀ (moveIndex : Nat) (s : SearchState) (l : LoopState) (s3 : SearchState) (r : EvalResult),
      Cache.InEval s.evals board →
      searchLoop recurse board record searchMode toDepth toQsDepth moves moveIndex s l
        = some (LoopOutcome.done s3 r) →
      ∃ (pre : List Move) (m : Move) (post : List Move), moves = pre ++ m :: post
        ∧ examineMove searchMode record m = true
        ∧ (loopCalls recurse board record searchMode toDepth toQsDepth moves moveIndex
            s l).map (fun c => c.move)
          = pre.filter (examineMove searchMode record) ++ [m]
        ∧ (r.result = EvalResultCode.TIMEOUT
          ∨ (r.result = EvalResultCode.SUCCESS
            ∧ ∃ r1, s3.evals.find board = some r1
              ∧ r1.evalStatus = EvalStatus.DONE_PARTIAL ∧ r1.bestMove = m)) := by
  induction moves with
  | nil =>
    intro moveIndex s l s3 r _ h
    rw [searchLoop] at h
    exact LoopOutcome.noConfusion (Option.some.inj h)
  | cons move rest ih =>
    intro moveIndex s l s3 r hinb h
    by_cases hex : examineMove searchMode record move = true
    · cases hrec : recurse (Board.makeMove board move.getFrom move.getTo move.getPromotionType)
          s (if toDepth > 0 then toDepth - 1 else 0) l.minWhite l.maxBlack
          (if toDepth > 0 then toQsDepth else wrapI16 (toQsDepth - 1))
          (record.isQuietPosition && decide (move.getMoveType = MoveType.MOVE)) with
      | none =>
        rw [searchLoop_child_none recurse board record searchMode toDepth toQsDepth move rest
          moveIndex s l hex hrec] at h
        exact Option.noConfusion h
      | some p =>
        obtain ⟨s2, res⟩ := p
        have hin2 := hin _ _ _ _ _ _ _ _ hrec
        cases ha : afterChild board record toDepth toQsDepth moveIndex move s2 l res with
        | done s4 r4 =>
          rw [searchLoop_child_done recurse board record searchMode toDepth toQsDepth move rest
            moveIndex s s2 s4 l res r4 hex hrec ha] at h
          obtain ⟨e1, e2⟩ := LoopOutcome.done.inj (Option.some.inj h)
          subst e1 e2
          rw [loopCalls_child_done recurse board record searchMode toDepth toQsDepth move rest
            moveIndex s s2 s4 l res r4 hex hrec ha]
          refine ⟨[], move, rest, rfl, hex, rfl, ?_⟩
          obtain ⟨_, _, hnl, _⟩ := afterChild_done board record toDepth toQsDepth moveIndex
            move s2 s4 l res r4 ha
          cases hr4 : r4.result with
          | TIMEOUT => exact Or.inl rfl
          | LOOP => exact absurd hr4 hnl
          | SUCCESS =>
            right
            refine ⟨rfl, ?_⟩
            obtain ⟨_, _, setBound, c3⟩ := afterChild_cutoff board record toDepth toQsDepth
              moveIndex move s2 s4 l res r4 ha hr4
            obtain ⟨r0, hr0, _⟩ := (hin2 board).mpr hinb
            obtain ⟨mvs, hf⟩ := cutoffWrites_find s2.evals board record toDepth toQsDepth
              moveIndex move (l.moveScores.set moveIndex ⟨move, board.getMovingSide,
                res.record⟩) setBound r0 hr0
            rw [c3]
            exact ⟨_, hf, rfl, rfl⟩
        | next s4 l4 =>
          rw [searchLoop_child_next recurse board record searchMode toDepth toQsDepth move rest
            moveIndex s s2 s4 l l4 res hex hrec ha] at h
          rw [loopCalls_child_next recurse board record searchMode toDepth toQsDepth move rest
            moveIndex s s2 s4 l l4 res hex hrec ha]
          have e3 := afterChild_next board record toDepth toQsDepth moveIndex move s2 s4 l l4
            res ha
          subst e3
          obtain ⟨pre, m, post, a1, a2, a3, a4⟩ := ih (moveIndex + 1) s4 l4 s3 r
            ((hin2 board).mpr hinb) h
          refine ⟨move :: pre, m, post, by rw [a1]; rfl, a2, ?_, a4⟩
          rw [List.map_cons, a3, List.filter_cons_of_pos hex]
          rfl
    · have hex2 : examineMove searchMode record move = false := by
        cases hh : examineMove searchMode record move
        · rfl
        · exact absurd hh hex
      rw [searchLoop_skipped recurse board record searchMode toDepth toQsDepth move rest
        moveIndex s l hex2] at h
      rw [loopCalls_skipped recurse board record searchMode toDepth toQsDepth move rest
        moveIndex s l hex2]
      obtain ⟨pre, m, post, a1, a2, a3, a4⟩ := ih (moveIndex + 1) s l s3 r hinb h
      refine ⟨move :: pre, m, post, by rw [a1]; rfl, a2, ?_, a4⟩
      rw [a3, List.filter_cons_of_neg hex]

/-- The moves a call of `evaluate` recurses into: none when the call returns before its loop;
the examined moves of the record when the loop runs over all moves; and the examined moves up
to a move `m`, which is examined, when the loop ends at `m` with a TIMEOUT or a cutoff. -/
theorem evaluateCalls_moves (fuel : Nat) (board : Board) (s : SearchState)
    (toDepth minWhite maxBlack toQsDepth : Int) (fromQuietMove : Bool)
    (out : SearchState × EvalResult)
    (h : evaluate fuel board s toDepth minWhite maxBlack toQsDepth fromQuietMove = some out) :
    (evaluateCalls fuel board s toDepth minWhite maxBlack toQsDepth fromQuietMove = []
      ∧ ((lookupRecord s board).2 = true
        ∨ out.2.result = EvalResultCode.LOOP
        ∨ (∃ score, partialCutoff board
            (((lookupRecord s board).1.evals.find board).getD EvalRecord.new)
            toDepth minWhite maxBlack toQsDepth = some score)
        ∨ depthAchieved (entryRecord s board) toDepth toQsDepth fromQuietMove = true))
    ∨ ((evaluateCalls fuel board s toDepth minWhite maxBlack toQsDepth fromQuietMove).map
          (fun c => c.move)
        = (entryRecord s board).moves.filter
            (examineMove (searchModeOf (entryRecord s board) toDepth) (entryRecord s board))
      ∧ out.2.result = EvalResultCode.SUCCESS
      ∧ ∃ r, out.1.evals.find board = some r ∧ r.evalStatus = EvalStatus.DONE_COMPLETE)
    ∨ (∃ (pre : List Move) (m : Move) (post : List Move),
        (entryRecord s board).moves = pre ++ m :: post
        ∧ examineMove (searchModeOf (entryRecord s board) toDepth) (entryRecord s board) m
            = true
        ∧ (evaluateCalls fuel board s toDepth minWhite maxBlack toQsDepth fromQuietMove).map
            (fun c => c.move)
          = pre.filter
              (examineMove (searchModeOf (entryRecord s board) toDepth) (entryRecord s board))
            ++ [m]
        ∧ (out.2.result = EvalResultCode.TIMEOUT
          ∨ (out.2.result = EvalResultCode.SUCCESS
            ∧ ∃ r, out.1.evals.find board = some r
              ∧ r.evalStatus = EvalStatus.DONE_PARTIAL ∧ r.bestMove = m))) := by
  cases fuel with
  | zero =>
    rw [evaluate] at h
    exact Option.noConfusion h
  | succ fuel =>
    have hc := evaluate_cases fuel board s toDepth minWhite maxBlack toQsDepth fromQuietMove
      out h
    rcases hc with ⟨hto, _⟩ | ⟨h1, h2, rfl⟩ | ⟨h1, h2, score, hpc, rfl⟩ | ⟨h1, hst, hpc, hc⟩
    · left
      refine ⟨?_, Or.inl hto⟩
      rw [evaluateCalls, if_pos hto]
    · left
      refine ⟨?_, Or.inr (Or.inl rfl)⟩
      rw [evaluateCalls, if_neg (by rw [h1]; decide)]
      simp only [if_pos h2]
    · left
      refine ⟨?_, Or.inr (Or.inr (Or.inl ⟨score, hpc⟩))⟩
      rw [evaluateCalls, if_neg (by rw [h1]; decide)]
      simp only [if_neg h2, hpc]
    · rcases hc with ⟨hda, rfl⟩ | ⟨hda, ⟨s3, r, hl, rfl⟩ | ⟨s3, l3, hl, rfl⟩⟩
      · left
        refine ⟨?_, Or.inr (Or.inr (Or.inr hda))⟩
        rw [evaluateCalls, if_neg (by rw [h1]; decide)]
        simp only [if_neg hst, hpc, hda, if_true]
      · right; right
        rw [evaluateCalls_loop fuel board s toDepth minWhite maxBlack toQsDepth
          fromQuietMove h1 hst hpc hda]
        obtain ⟨r1, hr1⟩ := lookupRecord_find s board
        have hst2 := hst
        simp only [hr1, Option.getD_some] at hst2
        obtain ⟨r2, hr2, _⟩ := resetPartial_find (lookupRecord s board).1 board r1 hr1 hst2
        have hinb : Cache.InEval (markInEvaluation (resetPartial (lookupRecord s board).1 board
            (((lookupRecord s board).1.evals.find board).getD EvalRecord.new)) board).evals
            board := by
          simp only [hr1, Option.getD_some]
          exact (markInEvaluation_inEval _ board r2 hr2 board).mpr
            (Or.inr (Board.beq_refl board))
        exact loopCalls_cutoff (evaluate fuel) (evaluate_inEval fuel) board _ _ toDepth
          toQsDepth _ 0 _ _ s3 r hinb hl
      · right; left
        rw [evaluateCalls_loop fuel board s toDepth minWhite maxBlack toQsDepth
          fromQuietMove h1 hst hpc hda]
        refine ⟨?_, rfl, ?_⟩
        · rcases loopCalls_moves (evaluate fuel) board (entryRecord s board)
            (searchModeOf (entryRecord s board) toDepth) toDepth toQsDepth
            (entryRecord s board).moves 0
            (markInEvaluation (resetPartial (lookupRecord s board).1 board
              (((lookupRecord s board).1.evals.find board).getD EvalRecord.new)) board)
            (initLoop board (entryRecord s board) minWhite maxBlack) with ⟨_, a⟩ | ⟨a, _⟩
          · exact a
          · exact absurd hl (a s3 l3)
        · obtain ⟨r1, hr1⟩ := lookupRecord_find s board
          have hst2 := hst
          simp only [hr1, Option.getD_some] at hst2
          obtain ⟨r2, hr2, _⟩ := resetPartial_find (lookupRecord s board).1 board r1 hr1 hst2
          simp only [hr1, Option.getD_some, hr2] at hl ⊢
          have hin3 := searchLoop_inEval (evaluate fuel) (evaluate_inEval fuel) board r2
            (searchModeOf r2 toDepth) toDepth toQsDepth r2.moves 0 _ _ _ hl
          have hinb : Cache.InEval s3.evals board := (hin3 board).mpr
            ((markInEvaluation_inEval _ board r2 hr2 board).mpr
              (Or.inr (Board.beq_refl board)))
          obtain ⟨r0, hr0, _⟩ := hinb
          unfold finish
          dsimp only
          rw [Cache.find_modify_same, Cache.find_modify_same, hr0]
          exact ⟨_, rfl, rfl⟩

end Engine

namespace Engine

set_option maxRecDepth 1000000 in
/-- C23, counterexample: on the board with the two kings, White to move, the call of
`evaluate` with depth 1 and the window from `MIN_SCORE` to 10 on the empty table searches the
record in the mode REGULAR; the record has the moves 1, 8 and 9; the call returns SUCCESS
after a cutoff at the first move: the move 1 is the one move it recurses into, and the boards
the moves 8 and 9 lead to have no record in the table at the return. -/
theorem quiescence_filter_counterexample :
    searchModeOf (entryRecord ⟨[], EvalContext.make 0 1 (fun _ => 0)⟩ twoKingsBoard) 1
      = SearchMode.REGULAR
    ∧ (entryRecord ⟨[], EvalContext.make 0 1 (fun _ => 0)⟩ twoKingsBoard).moves
      = [⟨1⟩, ⟨8⟩, ⟨9⟩]
    ∧ (evaluate 3 twoKingsBoard ⟨[], EvalContext.make 0 1 (fun _ => 0)⟩ 1 MIN_SCORE 10 0
        true).map (fun out => out.2.result) = some EvalResultCode.SUCCESS
    ∧ (evaluateCalls 3 twoKingsBoard ⟨[], EvalContext.make 0 1 (fun _ => 0)⟩ 1 MIN_SCORE 10 0
        true).map (fun c => c.move) = [⟨1⟩]
    ∧ (evaluate 3 twoKingsBoard ⟨[], EvalContext.make 0 1 (fun _ => 0)⟩ 1 MIN_SCORE 10 0
        true).map (fun out =>
          ((out.1.evals.find (Board.makeMove twoKingsBoard (⟨8⟩ : Move).getFrom
              (⟨8⟩ : Move).getTo (⟨8⟩ : Move).getPromotionType)).isNone,
            (out.1.evals.find (Board.makeMove twoKingsBoard (⟨9⟩ : Move).getFrom
              (⟨9⟩ : Move).getTo (⟨9⟩ : Move).getPromotionType)).isNone))
      = some (true, true) := by
  decide

set_option maxRecDepth 1000000 in
/-- C23, amended: the search mode of a call of `evaluate` is QUIET exactly from
`record.evalDepth >= toDepth` on. In the mode QUIET a move is examined exactly when the
position of the record is not quiet or the move is a CAPTURE; in the mode REGULAR every move
is examined. The loop over the moves recurses into the examined moves, in their order, until a
recursive call ends it: when the loop runs over all moves, the moves it recurses into are the
examined moves of the record; when it ends at a move (a TIMEOUT of the recursive call, or a
cutoff, after which the record has the status DONE_PARTIAL and this move as best move), they
are the examined moves up to this move, which is examined; and a call that returns before its
loop recurses into no move. On the first board of the quiet-search test, with depth 1,
quiescence depth 2, the full window and an empty table, 6 positions are evaluated. -/
theorem quiescence_filter :
    (∀ (record : EvalRecord) (move : Move),
      examineMove SearchMode.QUIET record move = true
        ↔ (record.isQuietPosition = false ∨ move.getMoveType = MoveType.CAPTURE))
    ∧ (∀ (record : EvalRecord) (move : Move),
      examineMove SearchMode.REGULAR record move = true)
    ∧ (∀ (record : EvalRecord) (toDepth : Int),
      searchModeOf record toDepth = SearchMode.QUIET ↔ (record.evalDepth : Int) ≥ toDepth)
    ∧ (∀ (recurse : Board → SearchState → Int → Int → Int → Int → Bool →
          Option (SearchState × EvalResult))
        (board : Board) (record : EvalRecord) (searchMode : SearchMode)
        (toDepth toQsDepth : Int) (moves : List Move) (moveIndex : Nat)
        (s : SearchState) (l : LoopState),
      ((∃ s3 l3, searchLoop recurse board record searchMode toDepth toQsDepth moves moveIndex
            s l = some (LoopOutcome.next s3 l3))
        ∧ (loopCalls recurse board record searchMode toDepth toQsDepth moves moveIndex s l).map
            (fun c => c.move) = moves.filter (examineMove searchMode record))
      ∨ ((∀ s3 l3, searchLoop recurse board record searchMode toDepth toQsDepth moves moveIndex
            s l ≠ some (LoopOutcome.next s3 l3))
        ∧ ∃ (pre : List Move) (m : Move) (post : List Move), moves = pre ++ m :: post
          ∧ examineMove searchMode record m = true
          ∧ (loopCalls recurse board record searchMode toDepth toQsDepth moves moveIndex
              s l).map (fun c => c.move)
            = pre.filter (examineMove searchMode record) ++ [m]))
    ∧ (∀ (fuel : Nat) (board : Board) (s : SearchState)
        (toDepth minWhite maxBlack toQsDepth : Int) (fromQuietMove : Bool)
        (out : SearchState × EvalResult),
      evaluate fuel board s toDepth minWhite maxBlack toQsDepth fromQuietMove = some out →
      (evaluateCalls fuel board s toDepth minWhite maxBlack toQsDepth fromQuietMove = []
        ∧ ((lookupRecord s board).2 = true
          ∨ out.2.result = EvalResultCode.LOOP
          ∨ (∃ score, partialCutoff board
              (((lookupRecord s board).1.evals.find board).getD EvalRecord.new)
              toDepth minWhite maxBlack toQsDepth = some score)
          ∨ depthAchieved (entryRecord s board) toDepth toQsDepth fromQuietMove = true))
      ∨ ((evaluateCalls fuel board s toDepth minWhite maxBlack toQsDepth fromQuietMove).map
            (fun c => c.move)
          = (entryRecord s board).moves.filter
              (examineMove (searchModeOf (entryRecord s board) toDepth) (entryRecord s board))
        ∧ out.2.result = EvalResultCode.SUCCESS
        ∧ ∃ r, out.1.evals.find board = some r ∧ r.evalStatus = EvalStatus.DONE_COMPLETE)
      ∨ (∃ (pre : List Move) (m : Move) (post : List Move),
          (entryRecord s board).moves = pre ++ m :: post
          ∧ examineMove (searchModeOf (entryRecord s board) toDepth) (entryRecord s board) m
              = true
          ∧ (evaluateCalls fuel board s toDepth minWhite maxBlack toQsDepth fromQuietMove).map
              (fun c => c.move)
            = pre.filter
                (examineMove (searchModeOf (entryRecord s board) toDepth)
                  (entryRecord s board))
              ++ [m]
          ∧ (out.2.result = EvalResultCode.TIMEOUT
            ∨ (out.2.result = EvalResultCode.SUCCESS
              ∧ ∃ r, out.1.evals.find board = some r
                ∧ r.evalStatus = EvalStatus.DONE_PARTIAL ∧ r.bestMove = m))))
    ∧ (evaluate 4 quietSearchBoard ⟨[], EvalContext.make 0 1 (fun _ => 0)⟩ 1 MIN_SCORE
        MAX_SCORE 2 true).map (fun x => x.1.context.nodesEvaluated) = some 6 := by
  refine ⟨?_, ?_, ?_, ?_, ?_, by decide⟩
  · intro record move
    unfold examineMove
    simp
  · intro record move
    unfold examineMove
    simp
  · intro record toDepth
    unfold searchModeOf
    split_ifs with h
    · simp only [reduceCtorEq, false_iff]
      omega
    · simp only [true_iff]
      omega
  · intro recurse board record searchMode toDepth toQsDepth moves moveIndex s l
    exact loopCalls_moves recurse board record searchMode toDepth toQsDepth moves moveIndex s l
  · intro fuel board s toDepth minWhite maxBlack toQsDepth fromQuietMove out h
    exact evaluateCalls_moves fuel board s toDepth minWhite maxBlack toQsDepth fromQuietMove
      out h

end Engine

namespace Engine

/-- The table after a TIMEOUT of a recursive call: the record of the board is reset. -/
theorem afterChild_timeout_state (board : Board) (record : EvalRecord)
    (toDepth toQsDepth : Int) (moveIndex : Nat) (move : Move) (s2 s3 : SearchState)
    (l : LoopState) (res r : EvalResult)
    (h : afterChild board record toDepth toQsDepth moveIndex move s2 l res
      = LoopOutcome.done s3 r)
    (hr : r.result = EvalResultCode.TIMEOUT) :
    s3.evals = s2.evals.modify board (fun r =>
      { r with evalStatus := EvalStatus.DONE_COMPLETE, evalDepth := 0, qsEvalDepth := 0 }) := by
  unfold afterChild at h
  cases hres : res.result <;> simp only [hres] at h
  · split_ifs at h <;>
      first
      | exact LoopOutcome.noConfusion h
      | (obtain ⟨_, h2⟩ := LoopOutcome.done.inj h
         subst h2
         exact EvalResultCode.noConfusion hr)
  · obtain ⟨h1, _⟩ := LoopOutcome.done.inj h
    rw [← h1]
  · exact LoopOutcome.noConfusion h

/-- The loop goes on after a recursive call only when the call did not return TIMEOUT. -/
theorem afterChild_next_result (board : Board) (record : EvalRecord)
    (toDepth toQsDepth : Int) (moveIndex : Nat) (move : Move) (s2 s3 : SearchState)
    (l l3 : LoopState) (res : EvalResult)
    (h : afterChild board record toDepth toQsDepth moveIndex move s2 l res
      = LoopOutcome.next s3 l3) : res.result ≠ EvalResultCode.TIMEOUT := by
  intro hres
  unfold afterChild at h
  simp only [hres] at h
  exact LoopOutcome.noConfusion h

/-- When the loop over the moves ends with TIMEOUT, one of its recursive calls returned
TIMEOUT, the first one that did is found among the calls, and the table is the one this call
left, with the record of the board reset. -/
theorem loopCalls_timeout
    (recurse : Board → SearchState → Int → Int → Int → Int → Bool →
      Option (SearchState × EvalResult))
    (board : Board) (record : EvalRecord) (searchMode : SearchMode) (toDepth toQsDepth : Int)
    (moves : List Move) :
    ∀ (moveIndex : Nat) (s : SearchState) (l : LoopState) (s3 : SearchState) (r : EvalResult),
      searchLoop recurse board record searchMode toDepth toQsDepth moves moveIndex s l
        = some (LoopOutcome.done s3 r) →
      r.result = EvalResultCode.TIMEOUT →
      ∃ (c : LoopCall) (s2 : SearchState) (res : EvalResult),
        (loopCalls recurse board record searchMode toDepth toQsDepth moves moveIndex s l).find?
          LoopCall.timedOut = some c
        ∧ recurse c.board c.s c.toDepth c.minWhite c.maxBlack c.toQsDepth c.fromQuietMove
          = some (s2, res)
        ∧ res.result = EvalResultCode.TIMEOUT
        ∧ s3.evals = s2.evals.modify board (fun r =>
            { r with evalStatus := EvalStatus.DONE_COMPLETE, evalDepth := 0,
                     qsEvalDepth := 0 }) := by
  induction moves with
  | nil =>
    intro moveIndex s l s3 r h _
    rw [searchLoop] at h
    exact LoopOutcome.noConfusion (Option.some.inj h)
  | cons move rest ih =>
    intro moveIndex s l s3 r h hr
    by_cases hex : examineMove searchMode record move = true
    · cases hrec : recurse (Board.makeMove board move.getFrom move.getTo move.getPromotionType)
          s (if toDepth > 0 then toDepth - 1 else 0) l.minWhite l.maxBlack
          (if toDepth > 0 then toQsDepth else wrapI16 (toQsDepth - 1))
          (record.isQuietPosition && decide (move.getMoveType = MoveType.MOVE)) with
      | none =>
        rw [searchLoop_child_none recurse board record searchMode toDepth toQsDepth move rest
          moveIndex s l hex hrec] at h
        exact Option.noConfusion h
      | some p =>
        obtain ⟨s2, res⟩ := p
        cases ha : afterChild board record toDepth toQsDepth moveIndex move s2 l res with
        | done s4 r4 =>
          rw [searchLoop_child_done recurse board record searchMode toDepth toQsDepth move rest
            moveIndex s s2 s4 l res r4 hex hrec ha] at h
          obtain ⟨e1, e2⟩ := LoopOutcome.done.inj (Option.some.inj h)
          subst e1 e2
          have hres := afterChild_timeout board record toDepth toQsDepth moveIndex move s2 s4 l
            res r4 ha hr
          rw [loopCalls_child_done recurse board record searchMode toDepth toQsDepth move rest
            moveIndex s s2 s4 l res r4 hex hrec ha]
          refine ⟨_, s2, res, List.find?_cons_of_pos _ ?_, hrec, hres,
            afterChild_timeout_state board record toDepth toQsDepth moveIndex move s2 s4 l res
              r4 ha hr⟩
          unfold LoopCall.timedOut
          simp only [hres, decide_True]
        | next s4 l4 =>
          rw [searchLoop_child_next recurse board record searchMode toDepth toQsDepth move rest
            moveIndex s s2 s4 l l4 res hex hrec ha] at h
          rw [loopCalls_child_next recurse board record searchMode toDepth toQsDepth move rest
            moveIndex s s2 s4 l l4 res hex hrec ha]
          have hres := afterChild_next_result board record toDepth toQsDepth moveIndex move s2
            s4 l l4 res ha
          obtain ⟨c, s5, res5, a1, a2, a3, a4⟩ := ih (moveIndex + 1) s4 l4 s3 r h hr
          refine ⟨c, s5, res5, ?_, a2, a3, a4⟩
          rw [List.find?_cons_of_neg]
          · exact a1
          · unfold LoopCall.timedOut
            simp only [hres, decide_False]
            exact fun hh => Bool.noConfusion hh
    · have hex2 : examineMove searchMode record move = false := by
        cases hh : examineMove searchMode record move
        · rfl
        · exact absurd hh hex
      rw [searchLoop_skipped recurse board record searchMode toDepth toQsDepth move rest
        moveIndex s l hex2] at h
      rw [loopCalls_skipped recurse board record searchMode toDepth toQsDepth move rest
        moveIndex s l hex2]
      exact ih (moveIndex + 1) s l s3 r h hr

/-- When a call of `evaluate` returns TIMEOUT, every board that was under search when the
TIMEOUT came up has in the table a record of status DONE_COMPLETE with both depths 0. -/
theorem timeoutPath_reset : ∀ (fuel : Nat) (board : Board) (s : SearchState)
    (toDepth minWhite maxBlack toQsDepth : Int) (fromQuietMove : Bool)
    (out : SearchState × EvalResult),
    evaluate fuel board s toDepth minWhite maxBlack toQsDepth fromQuietMove = some out →
    out.2.result = EvalResultCode.TIMEOUT →
    ∀ b ∈ timeoutPath fuel board s toDepth minWhite maxBlack toQsDepth fromQuietMove,
      ∃ r, out.1.evals.find b = some r ∧ r.evalStatus = EvalStatus.DONE_COMPLETE
        ∧ r.evalDepth = 0 ∧ r.qsEvalDepth = 0 := by
  intro fuel
  induction fuel with
  | zero =>
    intro board s toDepth minWhite maxBlack toQsDepth fromQuietMove out h
    rw [evaluate] at h
    exact Option.noConfusion h
  | succ fuel ih =>
    intro board s toDepth minWhite maxBlack toQsDepth fromQuietMove out h hres b hb
    obtain ⟨r1, hr1⟩ := lookupRecord_find s board
    have hc := evaluate_cases fuel board s toDepth minWhite maxBlack toQsDepth fromQuietMove
      out h
    rcases hc with ⟨hto, _⟩ | ⟨_, _, rfl⟩ | ⟨_, _, score, _, rfl⟩ | ⟨h1, hst, hpc, hc⟩
    · exfalso
      rw [timeoutPath, evaluateCalls, if_pos hto] at hb
      exact absurd hb (List.not_mem_nil b)
    · exact EvalResultCode.noConfusion hres
    · exact EvalResultCode.noConfusion hres
    · rcases hc with ⟨_, rfl⟩ | ⟨hda, ⟨s3, r, hl, rfl⟩ | ⟨s3, l3, hl, rfl⟩⟩
      · exact EvalResultCode.noConfusion hres
      · have hcalls := evaluateCalls_loop fuel board s toDepth minWhite maxBlack toQsDepth
          fromQuietMove h1 hst hpc hda
        obtain ⟨c, s2, res, a1, a2, a3, a4⟩ := loopCalls_timeout (evaluate fuel) board _ _
          toDepth toQsDepth _ 0 _ _ s3 r hl hres
        rw [timeoutPath, hcalls] at hb
        unfold entryRecord at hb
        rw [a1] at hb
        simp only [hr1, Option.getD_some] at hl hst
        obtain ⟨r2, hr2, _⟩ := resetPartial_find (lookupRecord s board).1 board r1 hr1 hst
        simp only [hr2, Option.getD_some] at hl
        have hin := searchLoop_inEval (evaluate fuel) (evaluate_inEval fuel) board r2
          (searchModeOf r2 toDepth) toDepth toQsDepth r2.moves 0 _ _ _ hl
        have hinb : Cache.InEval (markInEvaluation (resetPartial (lookupRecord s board).1 board
            r1) board).evals board :=
          (markInEvaluation_inEval _ board r2 hr2 board).mpr (Or.inr (Board.beq_refl board))
        rcases List.mem_cons.mp hb with hb1 | hb2
        · rw [hb1]
          exact hin.2.2 hres hinb
        · obtain ⟨r5, b1, b2, b3, b4⟩ := ih c.board c.s c.toDepth c.minWhite c.maxBlack
            c.toQsDepth c.fromQuietMove (s2, res) a2 a3 b hb2
          show ∃ r, s3.evals.find b = some r ∧ _
          rw [a4, Cache.find_modify]
          by_cases hbb : board.beq b = true
          · rw [if_pos hbb, b1]
            exact ⟨_, rfl, rfl, rfl, rfl⟩
          · rw [if_neg hbb]
            exact ⟨r5, b1, b2, b3, b4⟩
      · exact EvalResultCode.noConfusion hres

end Engine

namespace Engine

/-- C26: a call of `evaluate` on a table without a record of status IN_EVALUATION returns
when it has more fuel than the sum of its depths; when it returns, the table holds no record of
status IN_EVALUATION and the result is not LOOP; and when it returns TIMEOUT, the record of
its board has status DONE_COMPLETE, with both depths 0 unless the board had no record and the
search timed out when the record was created, and every board that was under search when the
TIMEOUT came up (the boards of `timeoutPath`: the board of the call, unless the search timed
out when its record was created, and the boards of the nested calls through which the TIMEOUT
came up) has a record of status DONE_COMPLETE with both depths 0. -/
theorem no_inEvaluation_left (fuel : Nat) (board : Board) (s : SearchState)
    (toDepth minWhite maxBlack toQsDepth : Int) (fromQuietMove : Bool)
    (h0 : ∀ b, ¬ Cache.InEval s.evals b) :
    (toQsDepth ≤ 32767 → toDepth.toNat + toQsDepth.toNat < fuel →
      (evaluate fuel board s toDepth minWhite maxBlack toQsDepth fromQuietMove).isSome = true)
    ∧ ∀ out, evaluate fuel board s toDepth minWhite maxBlack toQsDepth fromQuietMove
        = some out →
      (∀ b, ¬ Cache.InEval out.1.evals b)
      ∧ out.2.result ≠ EvalResultCode.LOOP
      ∧ (out.2.result = EvalResultCode.TIMEOUT →
        (∃ r, out.1.evals.find board = some r ∧ r.evalStatus = EvalStatus.DONE_COMPLETE
          ∧ ((r.evalDepth = 0 ∧ r.qsEvalDepth = 0)
            ∨ (s.evals.find board = none ∧ (lookupRecord s board).2 = true)))
        ∧ ((s.evals.find board = none ∧ (lookupRecord s board).2 = true)
          ∨ (timeoutPath fuel board s toDepth minWhite maxBlack toQsDepth
              fromQuietMove).head? = some board)
        ∧ ∀ b ∈ timeoutPath fuel board s toDepth minWhite maxBlack toQsDepth fromQuietMove,
          ∃ r, out.1.evals.find b = some r ∧ r.evalStatus = EvalStatus.DONE_COMPLETE
            ∧ r.evalDepth = 0 ∧ r.qsEvalDepth = 0) := by
  refine ⟨fun hq hf => evaluate_total fuel board s toDepth minWhite maxBlack toQsDepth
    fromQuietMove hq hf, fun out h => ⟨fun b hb => h0 b ((evaluate_inEval fuel board s toDepth
      minWhite maxBlack toQsDepth fromQuietMove out h b).mp hb), fun hres => ?_, fun hres =>
      ⟨?_, ?_, timeoutPath_reset fuel board s toDepth minWhite maxBlack toQsDepth fromQuietMove
        out h hres⟩⟩⟩
  · obtain ⟨_, r0, hf, hst⟩ := evaluate_loop_inv fuel board s toDepth minWhite maxBlack
      toQsDepth fromQuietMove out h hres
    exact h0 board ⟨r0, hf, hst⟩
  · cases fuel with
    | zero =>
      rw [evaluate] at h
      exact Option.noConfusion h
    | succ fuel =>
      obtain ⟨r1, hr1⟩ := lookupRecord_find s board
      have hc := evaluate_cases fuel board s toDepth minWhite maxBlack toQsDepth fromQuietMove
        out h
      simp only [hr1, Option.getD_some] at hc
      rcases hc with ⟨hto, rfl⟩ | ⟨_, _, rfl⟩ | ⟨_, _, score, _, rfl⟩ | ⟨_, hst, _, hc⟩
      · cases hfind : s.evals.find board with
        | some r0 =>
          rw [lookupRecord_found s board r0 hfind] at hto
          exact Bool.noConfusion hto
        | none =>
          have hr1b := hr1
          rw [(lookupRecord_new s board hfind).1, Cache.find_insert_same _ _ _ hfind] at hr1b
          refine ⟨r1, hr1, ?_, Or.inr ⟨rfl, hto⟩⟩
          rw [← Option.some.inj hr1b]
          exact evaluateBoard_status board
      · exact EvalResultCode.noConfusion hres
      · exact EvalResultCode.noConfusion hres
      · obtain ⟨r2, hr2, _⟩ := resetPartial_find (lookupRecord s board).1 board r1 hr1 hst
        simp only [hr2, Option.getD_some] at hc
        rcases hc with ⟨_, rfl⟩ | ⟨_, ⟨s3, r, hl, rfl⟩ | ⟨s3, l3, hl, rfl⟩⟩
        · exact EvalResultCode.noConfusion hres
        · have := searchLoop_inEval (evaluate fuel) (evaluate_inEval fuel) board r2
            (searchModeOf r2 toDepth) toDepth toQsDepth r2.moves 0 _ _ _ hl
          have hin : Cache.InEval (markInEvaluation (resetPartial (lookupRecord s board).1 board
              r1) board).evals board :=
            (markInEvaluation_inEval _ board r2 hr2 board).mpr (Or.inr (Board.beq_refl board))
          obtain ⟨r3, a, b, c, d⟩ := this.2.2 hres hin
          exact ⟨r3, a, b, Or.inl ⟨c, d⟩⟩
        · exact EvalResultCode.noConfusion hres
  · cases fuel with
    | zero =>
      rw [evaluate] at h
      exact Option.noConfusion h
    | succ fuel =>
      have hc := evaluate_cases fuel board s toDepth minWhite maxBlack toQsDepth fromQuietMove
        out h
      rcases hc with ⟨hto, _⟩ | ⟨_, _, rfl⟩ | ⟨_, _, score, _, rfl⟩ | ⟨h1, hst, hpc, hc⟩
      · left
        cases hfind : s.evals.find board with
        | some r0 =>
          rw [lookupRecord_found s board r0 hfind] at hto
          exact Bool.noConfusion hto
        | none => exact ⟨rfl, hto⟩
      · exact EvalResultCode.noConfusion hres
      · exact EvalResultCode.noConfusion hres
      · rcases hc with ⟨_, rfl⟩ | ⟨hda, ⟨s3, r, hl, rfl⟩ | ⟨s3, l3, hl, rfl⟩⟩
        · exact EvalResultCode.noConfusion hres
        · right
          have hcalls := evaluateCalls_loop fuel board s toDepth minWhite maxBlack toQsDepth
            fromQuietMove h1 hst hpc hda
          obtain ⟨c, s2, res, a1, _⟩ := loopCalls_timeout (evaluate fuel) board _ _
            toDepth toQsDepth _ 0 _ _ s3 r hl hres
          rw [timeoutPath, hcalls]
          unfold entryRecord
          rw [a1]
          rfl
        · exact EvalResultCode.noConfusion hres

set_option maxRecDepth 1000000 in
theorem no_inEvaluation_left_witness :
    (evaluate 4 twoKingsBoard ⟨[], ⟨0, 1, 1, 3, 1, fun _ => 100⟩⟩ 2 MIN_SCORE MAX_SCORE 0
      true).map (fun out => out.2.result) = some EvalResultCode.TIMEOUT
    ∧ (timeoutPath 4 twoKingsBoard ⟨[], ⟨0, 1, 1, 3, 1, fun _ => 100⟩⟩ 2 MIN_SCORE MAX_SCORE 0
        true).map (fun b => (b.beq twoKingsBoard, b.beq (Board.makeMoveM twoKingsBoard ⟨1⟩)))
      = [(true, false), (false, true)]
    ∧ ∀ out, evaluate 4 twoKingsBoard ⟨[], ⟨0, 1, 1, 3, 1, fun _ => 100⟩⟩ 2 MIN_SCORE
        MAX_SCORE 0 true = some out →
      (∀ b, ¬ Cache.InEval out.1.evals b)
      ∧ (out.2.result = EvalResultCode.TIMEOUT →
        ∀ b ∈ timeoutPath 4 twoKingsBoard ⟨[], ⟨0, 1, 1, 3, 1, fun _ => 100⟩⟩ 2 MIN_SCORE
            MAX_SCORE 0 true,
          ∃ r, out.1.evals.find b = some r ∧ r.evalStatus = EvalStatus.DONE_COMPLETE
            ∧ r.evalDepth = 0 ∧ r.qsEvalDepth = 0) :=
  ⟨by decide, by decide,
    fun out h => ⟨((no_inEvaluation_left 4 twoKingsBoard
      ⟨[], ⟨0, 1, 1, 3, 1, fun _ => 100⟩⟩ 2 MIN_SCORE MAX_SCORE 0 true
      (fun b h => by obtain ⟨r, h1, _⟩ := h; exact Option.noConfusion h1)).2 out h).1,
      fun hres => (((no_inEvaluation_left 4 twoKingsBoard
      ⟨[], ⟨0, 1, 1, 3, 1, fun _ => 100⟩⟩ 2 MIN_SCORE MAX_SCORE 0 true
      (fun b h => by obtain ⟨r, h1, _⟩ := h; exact Option.noConfusion h1)).2 out h).2.2
        hres).2.2⟩⟩

end Engine

namespace Engine

/-- What the loop does with the best score and the best move when it goes on after a
recursive call: after a LOOP they are as they were; after a SUCCESS with a score better for
the side to move than the best score so far, they are this score and the move; after another
SUCCESS they are as they were. -/
theorem afterChild_next_best (board : Board) (record : EvalRecord) (toDepth toQsDepth : Int)
    (moveIndex : Nat) (move : Move) (s2 s3 : SearchState) (l l3 : LoopState) (res : EvalResult)
    (h : afterChild board record toDepth toQsDepth moveIndex move s2 l res
      = LoopOutcome.next s3 l3) :
    (res.result = EvalResultCode.LOOP ∧ l3.bestMove = l.bestMove ∧ l3.newScore = l.newScore)
    ∨ (res.result = EvalResultCode.SUCCESS ∧ l3.bestMove = move)
    ∨ (res.result = EvalResultCode.SUCCESS
      ∧ ¬ ((board.getMovingSide = Side.WHITE ∧ l.newScore < res.score)
          ∨ (board.getMovingSide = Side.BLACK ∧ l.newScore > res.score))
      ∧ l3.bestMove = l.bestMove ∧ l3.newScore = l.newScore) := by
  unfold afterChild at h
  cases hres : res.result <;> simp only [hres] at h
  · right
    by_cases himp : (board.getMovingSide = Side.WHITE ∧ l.newScore < res.score)
        ∨ (board.getMovingSide = Side.BLACK ∧ l.newScore > res.score)
    · left
      refine ⟨rfl, ?_⟩
      simp only [himp, if_true] at h
      split_ifs at h <;>
        first
        | exact LoopOutcome.noConfusion h
        | (rw [← (LoopOutcome.next.inj h).2])
    · right
      refine ⟨rfl, himp, ?_⟩
      simp only [himp, if_false] at h
      split_ifs at h <;>
        first
        | exact LoopOutcome.noConfusion h
        | (rw [← (LoopOutcome.next.inj h).2]; exact ⟨rfl, rfl⟩)
  · exact LoopOutcome.noConfusion h
  · left
    refine ⟨rfl, ?_⟩
    rw [← (LoopOutcome.next.inj h).2]
    exact ⟨rfl, rfl⟩

/-- The best move of the loop over the moves when the loop has run over all moves, on a table
in which the record of the board is the one record of status IN_EVALUATION: it is one of the
moves; or it is the best move the loop started with, the best score is the one the loop
started with, and every recursive call of the loop returned SUCCESS with a score that is not
better for the side to move than this best score. -/
theorem searchLoop_best
    (recurse : Board → SearchState → Int → Int → Int → Int → Bool →
      Option (SearchState × EvalResult))
    (hin : ∀ b s d mw mb q fq out, recurse b s d mw mb q fq = some out →
      ∀ b2, Cache.InEval out.1.evals b2 ↔ Cache.InEval s.evals b2)
    (hloop : ∀ b s d mw mb q fq out, recurse b s d mw mb q fq = some out →
      out.2.result = EvalResultCode.LOOP → Cache.InEval s.evals b)
    (board : Board) (record : EvalRecord) (searchMode : SearchMode) (toDepth toQsDepth : Int)
    (moves : List Move) :
    ∀ (moveIndex : Nat) (s : SearchState) (l : LoopState) (s3 : SearchState) (l3 : LoopState),
      (∀ b2, Cache.InEval s.evals b2 → board.beq b2 = true) →
      searchLoop recurse board record searchMode toDepth toQsDepth moves moveIndex s l
        = some (LoopOutcome.next s3 l3) →
      l3.bestMove ∈ moves
      ∨ (l3.bestMove = l.bestMove ∧ l3.newScore = l.newScore
        ∧ ∀ c ∈ loopCalls recurse board record searchMode toDepth toQsDepth moves moveIndex
            s l,
          ∃ (s2 : SearchState) (res : EvalResult), c.out = some (s2, res)
            ∧ res.result = EvalResultCode.SUCCESS
            ∧ ¬ ((board.getMovingSide = Side.WHITE ∧ l.newScore < res.score)
                ∨ (board.getMovingSide = Side.BLACK ∧ l.newScore > res.score))) := by
  induction moves with
  | nil =>
    intro moveIndex s l s3 l3 _ h
    rw [searchLoop] at h
    obtain ⟨_, e2⟩ := LoopOutcome.next.inj (Option.some.inj h)
    right
    rw [← e2]
    refine ⟨rfl, rfl, ?_⟩
    intro c hc
    rw [loopCalls] at hc
    exact absurd hc (List.not_mem_nil c)
  | cons move rest ih =>
    intro moveIndex s l s3 l3 honly h
    by_cases hex : examineMove searchMode record move = true
    · cases hrec : recurse (Board.makeMove board move.getFrom move.getTo move.getPromotionType)
          s (if toDepth > 0 then toDepth - 1 else 0) l.minWhite l.maxBlack
          (if toDepth > 0 then toQsDepth else wrapI16 (toQsDepth - 1))
          (record.isQuietPosition && decide (move.getMoveType = MoveType.MOVE)) with
      | none =>
        rw [searchLoop_child_none recurse board record searchMode toDepth toQsDepth move rest
          moveIndex s l hex hrec] at h
        exact Option.noConfusion h
      | some p =>
        obtain ⟨s2, res⟩ := p
        have hin2 := hin _ _ _ _ _ _ _ _ hrec
        cases ha : afterChild board record toDepth toQsDepth moveIndex move s2 l res with
        | done s4 r4 =>
          rw [searchLoop_child_done recurse board record searchMode toDepth toQsDepth move rest
            moveIndex s s2 s4 l res r4 hex hrec ha] at h
          exact LoopOutcome.noConfusion (Option.some.inj h)
        | next s4 l4 =>
          rw [searchLoop_child_next recurse board record searchMode toDepth toQsDepth move rest
            moveIndex s s2 s4 l l4 res hex hrec ha] at h
          rw [loopCalls_child_next recurse board record searchMode toDepth toQsDepth move rest
            moveIndex s s2 s4 l l4 res hex hrec ha]
          have e3 := afterChild_next board record toDepth toQsDepth moveIndex move s2 s4 l l4
            res ha
          subst e3
          have honly2 : ∀ b2, Cache.InEval s4.evals b2 → board.beq b2 = true :=
            fun b2 hb2 => honly b2 ((hin2 b2).mp hb2)
          have key := ih (moveIndex + 1) s4 l4 s3 l3 honly2 h
          rcases afterChild_next_best board record toDepth toQsDepth moveIndex move s4 s4 l l4
            res ha with ⟨hres, _, _⟩ | ⟨_, hb⟩ | ⟨hres, himp, hb, hn⟩
          · exfalso
            have hc := hloop _ _ _ _ _ _ _ _ hrec hres
            exact makeMove_not_beq board move.getFrom move.getTo move.getPromotionType
              (honly _ hc)
          · left
            rcases key with k | ⟨k, _⟩
            · exact List.mem_cons_of_mem _ k
            · rw [k, hb]
              exact List.mem_cons_self _ _
          · rcases key with k | ⟨k1, k2, k3⟩
            · exact Or.inl (List.mem_cons_of_mem _ k)
            · right
              refine ⟨k1.trans hb, k2.trans hn, ?_⟩
              intro c hc
              rcases List.mem_cons.mp hc with hc1 | hc2
              · rw [hc1]
                exact ⟨s4, res, rfl, hres, himp⟩
              · obtain ⟨s5, res5, a1, a2, a3⟩ := k3 c hc2
                rw [hn] at a3
                exact ⟨s5, res5, a1, a2, a3⟩
    · have hex2 : examineMove searchMode record move = false := by
        cases hh : examineMove searchMode record move
        · rfl
        · exact absurd hh hex
      rw [searchLoop_skipped recurse board record searchMode toDepth toQsDepth move rest
        moveIndex s l hex2] at h
      rw [loopCalls_skipped recurse board record searchMode toDepth toQsDepth move rest
        moveIndex s l hex2]
      rcases ih (moveIndex + 1) s l s3 l3 honly h with k | k
      · exact Or.inl (List.mem_cons_of_mem _ k)
      · exact Or.inr k

end Engine

namespace Engine

/-- When the loop over the moves ends with a cutoff, the record of the board has the depth of
the call and one of the moves as best move. -/
theorem searchLoop_cutoff_record
    (recurse : Board → SearchState → Int → Int → Int → Int → Bool →
      Option (SearchState × EvalResult))
    (hin : ∀ b s d mw mb q fq out, recurse b s d mw mb q fq = some out →
      ∀ b2, Cache.InEval out.1.evals b2 ↔ Cache.InEval s.evals b2)
    (board : Board) (record : EvalRecord) (searchMode : SearchMode) (toDepth toQsDepth : Int)
    (moves : List Move) :
    ∀ (moveIndex : Nat) (s : SearchState) (l : LoopState) (s3 : SearchState) (r : EvalResult),
      Cache.InEval s.evals board →
      searchLoop recurse board record searchMode toDepth toQsDepth moves moveIndex s l
        = some (LoopOutcome.done s3 r) →
      r.result = EvalResultCode.SUCCESS →
      ∃ r1, s3.evals.find board = some r1 ∧ r1.evalDepth = toU8 toDepth
        ∧ r1.bestMove ∈ moves := by
  induction moves with
  | nil =>
    intro moveIndex s l s3 r _ h
    rw [searchLoop] at h
    exact LoopOutcome.noConfusion (Option.some.inj h)
  | cons move rest ih =>
    intro moveIndex s l s3 r hinb h hr
    by_cases hex : examineMove searchMode record move = true
    · cases hrec : recurse (Board.makeMove board move.getFrom move.getTo move.getPromotionType)
          s (if toDepth > 0 then toDepth - 1 else 0) l.minWhite l.maxBlack
          (if toDepth > 0 then toQsDepth else wrapI16 (toQsDepth - 1))
          (record.isQuietPosition && decide (move.getMoveType = MoveType.MOVE)) with
      | none =>
        rw [searchLoop_child_none recurse board record searchMode toDepth toQsDepth move rest
          moveIndex s l hex hrec] at h
        exact Option.noConfusion h
      | some p =>
        obtain ⟨s2, res⟩ := p
        have hin2 := hin _ _ _ _ _ _ _ _ hrec
        cases ha : afterChild board record toDepth toQsDepth moveIndex move s2 l res with
        | done s4 r4 =>
          rw [searchLoop_child_done recurse board record searchMode toDepth toQsDepth move rest
            moveIndex s s2 s4 l res r4 hex hrec ha] at h
          obtain ⟨e1, e2⟩ := LoopOutcome.done.inj (Option.some.inj h)
          subst e1 e2
          obtain ⟨_, _, setBound, c3⟩ := afterChild_cutoff board record toDepth toQsDepth
            moveIndex move s2 s4 l res r4 ha hr
          obtain ⟨r0, hr0, _⟩ := (hin2 board).mpr hinb
          obtain ⟨mvs, hf⟩ := cutoffWrites_find s2.evals board record toDepth toQsDepth
            moveIndex move (l.moveScores.set moveIndex ⟨move, board.getMovingSide,
              res.record⟩) setBound r0 hr0
          rw [c3]
          exact ⟨_, hf, rfl, List.mem_cons_self _ _⟩
        | next s4 l4 =>
          rw [searchLoop_child_next recurse board record searchMode toDepth toQsDepth move rest
            moveIndex s s2 s4 l l4 res hex hrec ha] at h
          have e3 := afterChild_next board record toDepth toQsDepth moveIndex move s2 s4 l l4
            res ha
          subst e3
          obtain ⟨r1, a1, a2, a3⟩ := ih (moveIndex + 1) s4 l4 s3 r ((hin2 board).mpr hinb) h hr
          exact ⟨r1, a1, a2, List.mem_cons_of_mem _ a3⟩
    · have hex2 : examineMove searchMode record move = false := by
        cases hh : examineMove searchMode record move
        · rfl
        · exact absurd hh hex
      rw [searchLoop_skipped recurse board record searchMode toDepth toQsDepth move rest
        moveIndex s l hex2] at h
      obtain ⟨r1, a1, a2, a3⟩ := ih (moveIndex + 1) s l s3 r hinb h hr
      exact ⟨r1, a1, a2, List.mem_cons_of_mem _ a3⟩

/-- The record of the board after `resetPartial`. -/
theorem resetPartial_record (s : SearchState) (board : Board) (r1 : EvalRecord)
    (h : s.evals.find board = some r1) :
    (resetPartial s board r1).evals.find board
      = some (if r1.evalStatus = EvalStatus.DONE_PARTIAL then
          { r1 with evalDepth := 0, qsEvalDepth := 0, evalStatus := EvalStatus.DONE_COMPLETE }
        else r1) := by
  unfold resetPartial
  by_cases hc : r1.evalStatus = EvalStatus.DONE_PARTIAL
  · rw [if_pos hc, if_pos hc]
    dsimp only
    rw [Cache.find_modify_same, h]
    rfl
  · rw [if_neg hc, if_neg hc]
    exact h

/-- A call of `evaluate` on a table without a record of status IN_EVALUATION, with a depth
above the depth of the record of the board, that returns SUCCESS: the record of the board has
the depth of the call, and its best move is one of the moves the record had at the start of
the loop; or it is the default move, the call recursed into every move of the record, and
every recursive call returned SUCCESS with a score that is not better for the side to move
than the start value of the best score. -/
theorem evaluate_root_best (fuel : Nat) (board : Board) (s : SearchState)
    (toDepth minWhite maxBlack toQsDepth : Int) (fromQuietMove : Bool)
    (out : SearchState × EvalResult)
    (h0 : ∀ b, ¬ Cache.InEval s.evals b)
    (hd : (((((lookupRecord s board).1.evals.find board).getD EvalRecord.new).evalDepth : Nat)
      : Int) < toDepth)
    (h : evaluate fuel board s toDepth minWhite maxBlack toQsDepth fromQuietMove = some out)
    (hres : out.2.result = EvalResultCode.SUCCESS) :
    ∃ r, out.1.evals.find board = some r ∧ r.evalDepth = toU8 toDepth
      ∧ (r.bestMove ∈ (entryRecord s board).moves
        ∨ (r.bestMove = ⟨0⟩
          ∧ (evaluateCalls fuel board s toDepth minWhite maxBlack toQsDepth
              fromQuietMove).map (fun c => c.move) = (entryRecord s board).moves
          ∧ ∀ c ∈ evaluateCalls fuel board s toDepth minWhite maxBlack toQsDepth
              fromQuietMove,
            ∃ (s2 : SearchState) (res : EvalResult), c.out = some (s2, res)
              ∧ res.result = EvalResultCode.SUCCESS
              ∧ ¬ ((board.getMovingSide = Side.WHITE ∧ MIN_SCORE < res.score)
                  ∨ (board.getMovingSide = Side.BLACK ∧ MAX_SCORE > res.score)))) := by
  cases fuel with
  | zero =>
    rw [evaluate] at h
    exact Option.noConfusion h
  | succ fuel =>
    obtain ⟨r1, hr1⟩ := lookupRecord_find s board
    have hc := evaluate_cases fuel board s toDepth minWhite maxBlack toQsDepth fromQuietMove
      out h
    rw [hr1, Option.getD_some] at hd
    have hentry : entryRecord s board
        = if r1.evalStatus = EvalStatus.DONE_PARTIAL then
            { r1 with evalDepth := 0, qsEvalDepth := 0,
                      evalStatus := EvalStatus.DONE_COMPLETE }
          else r1 := by
      unfold entryRecord
      rw [hr1, Option.getD_some, resetPartial_record _ board r1 hr1, Option.getD_some]
    have hed : (((entryRecord s board).evalDepth : Nat) : Int) < toDepth := by
      rw [hentry]
      split_ifs
      · show ((0 : Nat) : Int) < toDepth
        omega
      · exact hd
    have hda : depthAchieved (entryRecord s board) toDepth toQsDepth fromQuietMove = false := by
      unfold depthAchieved
      have hz : ¬ (((entryRecord s board).evalDepth : Nat) : Int) ≥ toDepth := by omega
      simp only [hz, decide_False, Bool.false_and, Bool.or_self]
    have hmode : searchModeOf (entryRecord s board) toDepth = SearchMode.REGULAR := by
      unfold searchModeOf
      rw [if_pos hed]
    rcases hc with ⟨_, rfl⟩ | ⟨_, _, rfl⟩ | ⟨_, _, score, hpc, rfl⟩ | ⟨h1, hst, hpc, hc⟩
    · exact EvalResultCode.noConfusion hres
    · exact EvalResultCode.noConfusion hres
    · exfalso
      rw [hr1, Option.getD_some] at hpc
      unfold partialCutoff at hpc
      rw [if_neg (fun hh => by have := hh.2.1; omega)] at hpc
      exact Option.noConfusion hpc
    · have hcalls := evaluateCalls_loop fuel board s toDepth minWhite maxBlack toQsDepth
        fromQuietMove h1 hst hpc hda
      have hst2 := hst
      rw [hr1, Option.getD_some] at hst2
      obtain ⟨r2, hr2, _⟩ := resetPartial_find (lookupRecord s board).1 board r1 hr1 hst2
      have he2 : entryRecord s board = r2 := by
        unfold entryRecord
        rw [hr1, Option.getD_some, hr2, Option.getD_some]
      have hmark := markInEvaluation_inEval (resetPartial (lookupRecord s board).1 board r1)
        board r2 hr2
      have hinb : Cache.InEval (markInEvaluation (resetPartial (lookupRecord s board).1 board
          r1) board).evals board := (hmark board).mpr (Or.inr (Board.beq_refl board))
      have honly : ∀ b2, Cache.InEval (markInEvaluation (resetPartial (lookupRecord s board).1
          board r1) board).evals b2 → board.beq b2 = true := by
        intro b2 hb2
        rcases (hmark b2).mp hb2 with hh | hh
        · exfalso
          rw [resetPartial_inEval _ board r1 hr1 hst2, lookupRecord_inEval] at hh
          exact h0 b2 hh
        · exact hh
      have hloop : ∀ b s d mw mb q fq out, evaluate fuel b s d mw mb q fq = some out →
          out.2.result = EvalResultCode.LOOP → Cache.InEval s.evals b := by
        intro b s d mw mb q fq out he hr
        obtain ⟨_, r0, a1, a2⟩ := evaluate_loop_inv fuel b s d mw mb q fq out he hr
        exact ⟨r0, a1, a2⟩
      simp only [hr1, Option.getD_some, hr2] at hc
      rw [he2] at hcalls hda hmode ⊢
      simp only [hr1, Option.getD_some] at hcalls
      rcases hc with ⟨hda2, _⟩ | ⟨_, ⟨s3, r, hl, rfl⟩ | ⟨s3, l3, hl, rfl⟩⟩
      · rw [hda] at hda2
        exact Bool.noConfusion hda2
      · obtain ⟨r3, a1, a2, a3⟩ := searchLoop_cutoff_record (evaluate fuel)
          (evaluate_inEval fuel) board r2 (searchModeOf r2 toDepth) toDepth toQsDepth r2.moves
          0 _ _ s3 r hinb hl hres
        exact ⟨r3, a1, a2, Or.inl a3⟩
      · have hin3 := searchLoop_inEval (evaluate fuel) (evaluate_inEval fuel) board r2
          (searchModeOf r2 toDepth) toDepth toQsDepth r2.moves 0 _ _ _ hl
        obtain ⟨r0, hr0, _⟩ := (hin3 board).mpr hinb
        have hbest := searchLoop_best (evaluate fuel) (evaluate_inEval fuel) hloop board r2
          (searchModeOf r2 toDepth) toDepth toQsDepth r2.moves 0 _ _ s3 l3 honly hl
        have hfin : (finish board r2 toDepth toQsDepth s3 l3).1.evals.find board
            = some { { r0 with
                score := if l3.newScore ≠ MIN_SCORE ∧ l3.newScore ≠ MAX_SCORE then l3.newScore
                  else r2.score,
                evalStatus := EvalStatus.DONE_COMPLETE,
                evalDepth := toU8 toDepth, qsEvalDepth := toU8 toQsDepth,
                bestMove := l3.bestMove } with
              moves := (sortMoveScores (s3.evals.modify board (fun r =>
                { r with
                  score := if l3.newScore ≠ MIN_SCORE ∧ l3.newScore ≠ MAX_SCORE then
                    l3.newScore else r2.score,
                  evalStatus := EvalStatus.DONE_COMPLETE,
                  evalDepth := toU8 toDepth, qsEvalDepth := toU8 toQsDepth,
                  bestMove := l3.bestMove })) l3.moveScores r2.moves 0 r2.moves.length).2,
              score := mateDecay (if l3.newScore ≠ MIN_SCORE ∧ l3.newScore ≠ MAX_SCORE then
                l3.newScore else r2.score) } := by
          unfold finish
          dsimp only
          rw [Cache.find_modify_same, Cache.find_modify_same, hr0]
          rfl
        refine ⟨_, hfin, rfl, ?_⟩
        show l3.bestMove ∈ r2.moves ∨ (l3.bestMove = ⟨0⟩ ∧ _)
        rcases hbest with k | ⟨k1, _, k3⟩
        · exact Or.inl k
        · right
          refine ⟨k1, ?_, ?_⟩
          · rw [hcalls]
            rcases loopCalls_moves (evaluate fuel) board r2 (searchModeOf r2 toDepth) toDepth
              toQsDepth r2.moves 0
              (markInEvaluation (resetPartial (lookupRecord s board).1 board r1) board)
              (initLoop board r2 minWhite maxBlack) with ⟨_, a⟩ | ⟨a, _⟩
            · rw [a, hmode]
              apply List.filter_eq_self.mpr
              intro m _
              unfold examineMove
              simp
            · exact absurd hl (a s3 l3)
          · intro c hc
            rw [hcalls] at hc
            obtain ⟨s2, res, b1, b2, b3⟩ := k3 c hc
            refine ⟨s2, res, b1, b2, ?_⟩
            intro hh
            apply b3
            unfold initLoop
            dsimp only
            rcases hh with ⟨hw, hlt⟩ | ⟨hb, hgt⟩
            · left
              rw [if_pos hw]
              exact ⟨hw, hlt⟩
            · right
              have hnw : ¬ board.getMovingSide = Side.WHITE := by
                rw [hb]
                exact fun hh => Side.noConfusion hh
              rw [if_neg hnw]
              exact ⟨hb, hgt⟩

end Engine

namespace Engine

theorem lookupRecord_keep (s : SearchState) (board b : Board) (r : EvalRecord)
    (h : s.evals.find b = some r) : (lookupRecord s board).1.evals.find b = some r := by
  cases hf : s.evals.find board with
  | some r0 =>
    rw [lookupRecord_found s board r0 hf]
    exact h
  | none =>
    rw [(lookupRecord_new s board hf).1, Cache.find_insert, h]

theorem resetPartial_other (s : SearchState) (board : Board) (r0 : EvalRecord) (b : Board)
    (hb : ¬ board.beq b = true) :
    (resetPartial s board r0).evals.find b = s.evals.find b := by
  unfold resetPartial
  split_ifs
  · dsimp only
    rw [Cache.find_modify, if_neg hb]
  · rfl

theorem markInEvaluation_other (s : SearchState) (board b : Board)
    (hb : ¬ board.beq b = true) :
    (markInEvaluation s board).evals.find b = s.evals.find b := by
  unfold markInEvaluation
  dsimp only
  rw [Cache.find_modify, if_neg hb]

/-- When `evaluate` returns after a recursive call, the records of the other boards are as the
call left them. -/
theorem afterChild_done_other (board : Board) (record : EvalRecord) (toDepth toQsDepth : Int)
    (moveIndex : Nat) (move : Move) (s2 s3 : SearchState) (l : LoopState) (res r : EvalResult)
    (h : afterChild board record toDepth toQsDepth moveIndex move s2 l res
      = LoopOutcome.done s3 r) (b : Board) (hb : ¬ board.beq b = true) :
    s3.evals.find b = s2.evals.find b := by
  unfold afterChild at h
  cases hres : res.result <;> simp only [hres] at h
  · split_ifs at h <;>
      first
      | exact LoopOutcome.noConfusion h
      | (obtain ⟨h1, _⟩ := LoopOutcome.done.inj h
         rw [← h1]
         exact cutoffWrites_other _ _ _ _ _ _ _ _ _ b hb)
  · obtain ⟨h1, _⟩ := LoopOutcome.done.inj h
    rw [← h1]
    dsimp only
    rw [Cache.find_modify, if_neg hb]
  · exact LoopOutcome.noConfusion h

/-- The loop over the moves leaves the records of status IN_EVALUATION as they are while it
goes on; when it ends inside the loop, they are as they were in the table the last recursive
call left, from which the table at the end differs in the record of the board only. -/
theorem searchLoop_frozen
    (recurse : Board → SearchState → Int → Int → Int → Int → Bool →
      Option (SearchState × EvalResult))
    (hfro : ∀ b s d mw mb q fq out, recurse b s d mw mb q fq = some out →
      ∀ b2 r, s.evals.find b2 = some r → r.evalStatus = EvalStatus.IN_EVALUATION →
        out.1.evals.find b2 = some r)
    (board : Board) (record : EvalRecord) (searchMode : SearchMode) (toDepth toQsDepth : Int)
    (moves : List Move) :
    ∀ (moveIndex : Nat) (s : SearchState) (l : LoopState) (out : LoopOutcome),
      searchLoop recurse board record searchMode toDepth toQsDepth moves moveIndex s l
        = some out →
      match out with
      | LoopOutcome.next s3 _ =>
        ∀ b2 r, s.evals.find b2 = some r → r.evalStatus = EvalStatus.IN_EVALUATION →
          s3.evals.find b2 = some r
      | LoopOutcome.done s3 res =>
        ∃ s2 : SearchState,
          (∀ b2 r, s.evals.find b2 = some r → r.evalStatus = EvalStatus.IN_EVALUATION →
            s2.evals.find b2 = some r)
          ∧ (∀ b2, ¬ board.beq b2 = true → s3.evals.find b2 = s2.evals.find b2)
          ∧ (res.result = EvalResultCode.TIMEOUT →
              s3.evals = s2.evals.modify board (fun r =>
                { r with evalStatus := EvalStatus.DONE_COMPLETE, evalDepth := 0,
                         qsEvalDepth := 0 })) := by
  induction moves with
  | nil =>
    intro moveIndex s l out h
    rw [searchLoop] at h
    rw [← Option.some.inj h]
    exact fun b2 r h1 _ => h1
  | cons move rest ih =>
    intro moveIndex s l out h
    by_cases hex : examineMove searchMode record move = true
    · cases hrec : recurse (Board.makeMove board move.getFrom move.getTo move.getPromotionType)
          s (if toDepth > 0 then toDepth - 1 else 0) l.minWhite l.maxBlack
          (if toDepth > 0 then toQsDepth else wrapI16 (toQsDepth - 1))
          (record.isQuietPosition && decide (move.getMoveType = MoveType.MOVE)) with
      | none =>
        rw [searchLoop_child_none recurse board record searchMode toDepth toQsDepth move rest
          moveIndex s l hex hrec] at h
        exact Option.noConfusion h
      | some p =>
        obtain ⟨s2, res⟩ := p
        have hf2 := hfro _ _ _ _ _ _ _ _ hrec
        cases ha : afterChild board record toDepth toQsDepth moveIndex move s2 l res with
        | done s4 r4 =>
          rw [searchLoop_child_done recurse board record searchMode toDepth toQsDepth move rest
            moveIndex s s2 s4 l res r4 hex hrec ha] at h
          rw [← Option.some.inj h]
          exact ⟨s2, hf2, fun b2 hb2 => afterChild_done_other board record toDepth toQsDepth
            moveIndex move s2 s4 l res r4 ha b2 hb2,
            fun hr => afterChild_timeout_state board record toDepth toQsDepth moveIndex move s2
              s4 l res r4 ha hr⟩
        | next s4 l4 =>
          rw [searchLoop_child_next recurse board record searchMode toDepth toQsDepth move rest
            moveIndex s s2 s4 l l4 res hex hrec ha] at h
          have e3 := afterChild_next board record toDepth toQsDepth moveIndex move s2 s4 l l4
            res ha
          subst e3
          have := ih (moveIndex + 1) s4 l4 out h
          cases out with
          | next s5 l5 =>
            exact fun b2 r h1 h2 => this b2 r (hf2 b2 r h1 h2) h2
          | done s5 r5 =>
            obtain ⟨s6, a1, a2, a3⟩ := this
            exact ⟨s6, fun b2 r h1 h2 => a1 b2 r (hf2 b2 r h1 h2) h2, a2, a3⟩
    · have hex2 : examineMove searchMode record move = false := by
        cases hh : examineMove searchMode record move
        · rfl
        · exact absurd hh hex
      rw [searchLoop_skipped recurse board record searchMode toDepth toQsDepth move rest
        moveIndex s l hex2] at h
      exact ih (moveIndex + 1) s l out h

/-- A call of `evaluate` leaves the records of status IN_EVALUATION as they are. -/
theorem evaluate_frozen : ∀ (fuel : Nat) (board : Board) (s : SearchState)
    (toDepth minWhite maxBlack toQsDepth : Int) (fromQuietMove : Bool)
    (out : SearchState × EvalResult),
    evaluate fuel board s toDepth minWhite maxBlack toQsDepth fromQuietMove = some out →
    ∀ b r, s.evals.find b = some r → r.evalStatus = EvalStatus.IN_EVALUATION →
      out.1.evals.find b = some r := by
  intro fuel
  induction fuel with
  | zero =>
    intro board s toDepth minWhite maxBlack toQsDepth fromQuietMove out h
    rw [evaluate] at h
    exact Option.noConfusion h
  | succ fuel ih =>
    intro board s toDepth minWhite maxBlack toQsDepth fromQuietMove out h b r hb hst
    obtain ⟨r1, hr1⟩ := lookupRecord_find s board
    have hc := evaluate_cases fuel board s toDepth minWhite maxBlack toQsDepth fromQuietMove
      out h
    simp only [hr1, Option.getD_some] at hc
    have hk := lookupRecord_keep s board b r hb
    rcases hc with ⟨_, rfl⟩ | ⟨_, _, rfl⟩ | ⟨_, _, score, _, rfl⟩ | ⟨_, hst1, _, hc⟩
    · exact hk
    · exact hk
    · exact hk
    · have hne : ¬ board.beq b = true := by
        intro hbeq
        rw [← Cache.find_congr _ board b hbeq, hr1] at hk
        rw [Option.some.inj hk] at hst1
        exact hst1 hst
      obtain ⟨r2, hr2, _⟩ := resetPartial_find (lookupRecord s board).1 board r1 hr1 hst1
      simp only [hr2, Option.getD_some] at hc
      have hk2 : (markInEvaluation (resetPartial (lookupRecord s board).1 board r1)
          board).evals.find b = some r := by
        rw [markInEvaluation_other _ board b hne, resetPartial_other _ board r1 b hne]
        exact hk
      rcases hc with ⟨_, rfl⟩ | ⟨_, ⟨s3, rr, hl, rfl⟩ | ⟨s3, l3, hl, rfl⟩⟩
      · show (resetPartial (lookupRecord s board).1 board r1).evals.find b = some r
        rw [resetPartial_other _ board r1 b hne]
        exact hk
      · obtain ⟨s2, a1, a2, _⟩ := searchLoop_frozen (evaluate fuel) ih board r2
          (searchModeOf r2 toDepth) toDepth toQsDepth r2.moves 0 _ _ _ hl
        show s3.evals.find b = some r
        rw [a2 b hne]
        exact a1 b r hk2 hst
      · have := searchLoop_frozen (evaluate fuel) ih board r2
          (searchModeOf r2 toDepth) toDepth toQsDepth r2.moves 0 _ _ _ hl
        show (finish board r2 toDepth toQsDepth s3 l3).1.evals.find b = some r
        rw [finish_other board r2 toDepth toQsDepth s3 l3 b hne]
        exact this b r hk2 hst

/-- A call of `evaluate` that returns TIMEOUT on a board whose record is not of status
IN_EVALUATION leaves the best move and the moves of this record as they are. -/
theorem evaluate_timeout_root (fuel : Nat) (board : Board) (s : SearchState)
    (toDepth minWhite maxBlack toQsDepth : Int) (fromQuietMove : Bool)
    (out : SearchState × EvalResult) (r : EvalRecord)
    (h : evaluate fuel board s toDepth minWhite maxBlack toQsDepth fromQuietMove = some out)
    (hres : out.2.result = EvalResultCode.TIMEOUT)
    (hfind : s.evals.find board = some r) :
    ∃ r2, out.1.evals.find board = some r2 ∧ r2.bestMove = r.bestMove
      ∧ r2.moves = r.moves := by
  cases fuel with
  | zero =>
    rw [evaluate] at h
    exact Option.noConfusion h
  | succ fuel =>
    have hr1 : (lookupRecord s board).1.evals.find board = some r := by
      rw [lookupRecord_found s board r hfind]
      exact hfind
    have hc := evaluate_cases fuel board s toDepth minWhite maxBlack toQsDepth fromQuietMove
      out h
    simp only [hr1, Option.getD_some] at hc
    rcases hc with ⟨hto, _⟩ | ⟨_, _, rfl⟩ | ⟨_, _, score, _, rfl⟩ | ⟨_, hst1, _, hc⟩
    · rw [lookupRecord_found s board r hfind] at hto
      exact Bool.noConfusion hto
    · exact EvalResultCode.noConfusion hres
    · exact EvalResultCode.noConfusion hres
    · have hr2 := resetPartial_record (lookupRecord s board).1 board r hr1
      simp only [hr2, Option.getD_some] at hc
      rcases hc with ⟨_, rfl⟩ | ⟨_, ⟨s3, rr, hl, rfl⟩ | ⟨s3, l3, hl, rfl⟩⟩
      · exact EvalResultCode.noConfusion hres
      · obtain ⟨s2, a1, _, a3⟩ := searchLoop_frozen (evaluate fuel) (evaluate_frozen fuel)
          board _ _ toDepth toQsDepth _ 0 _ _ _ hl
        have hm := markInEvaluation_find (resetPartial (lookupRecord s board).1 board r) board
          _ hr2
        have := a1 board _ hm rfl
        show ∃ r2, s3.evals.find board = some r2 ∧ _
        rw [a3 hres, Cache.find_modify_same, this]
        refine ⟨_, rfl, ?_, ?_⟩
        · show (if r.evalStatus = EvalStatus.DONE_PARTIAL then _ else r).bestMove = r.bestMove
          split_ifs <;> rfl
        · show (if r.evalStatus = EvalStatus.DONE_PARTIAL then _ else r).moves = r.moves
          split_ifs <;> rfl
      · exact EvalResultCode.noConfusion hres

end Engine

namespace Engine

theorem entryRecord_moves (s : SearchState) (board : Board) (r1 : EvalRecord)
    (h : (lookupRecord s board).1.evals.find board = some r1) :
    (entryRecord s board).moves = r1.moves := by
  unfold entryRecord
  rw [h, Option.getD_some, resetPartial_record _ board r1 h, Option.getD_some]
  split_ifs <;> rfl

/-- The loop over the depths, on a board with a listed move and a table without a record of
status IN_EVALUATION: from a table without a record of the board in a round of a depth of at
most `toDepth`, or from a table whose record of the board holds the moves of the evaluator in
some order, with the pointer set and a last search that accounts for the best move of the
record, the loop ends with the pointer set and a last search that accounts for the best move
of the record: the best move is one of the moves, or it is the default move and no recursive
call of the last search returned a score better than the start value of the best score. -/
theorem depthLoop_last (board : Board) (toDepth toQsDepth allowedTimeMs : Int)
    (hm : (evaluateBoard board).moves ≠ []) :
    ∀ (fuel : Nat) (depth : Int) (haveTime : Bool) (s : SearchState) (record : Option Board)
      (trace : List Int) (last : Option (Int × SearchState))
      (out : SearchState × Option Board × List Int),
      depthLoop board toDepth toQsDepth allowedTimeMs fuel depth haveTime s record trace
        = some out →
      s.context.depthRequired = toDepth →
      s.context.depthAchieved < depth → 1 ≤ depth → depth + (fuel : Int) ≤ 255 →
      (∀ b, ¬ Cache.InEval s.evals b) →
      ((record = none ∧ s.evals.find board = none ∧ depth ≤ toDepth ∧ last = none)
        ∨ (record = some board ∧ ∃ (r : EvalRecord) (d0 : Int) (s0 : SearchState),
            s.evals.find board = some r
            ∧ r.moves.Perm (evaluateBoard board).moves
            ∧ ((r.evalDepth : Nat) : Int) < depth
            ∧ last = some (d0, s0)
            ∧ (r.bestMove ∈ (evaluateBoard board).moves
              ∨ (r.bestMove = ⟨0⟩ ∧ NoBetterMove board (evaluateBoard board).moves
                  (evaluateCalls (d0.toNat + toQsDepth.toNat + 1) board s0 d0 MIN_SCORE
                    MAX_SCORE toQsDepth true))))) →
      out.2.1 = some board ∧ ∃ (r : EvalRecord) (d0 : Int) (s0 : SearchState),
        out.1.evals.find board = some r
        ∧ lastSearch board toDepth toQsDepth allowedTimeMs fuel depth haveTime s last
          = some (d0, s0)
        ∧ (r.bestMove ∈ (evaluateBoard board).moves
          ∨ (r.bestMove = ⟨0⟩ ∧ NoBetterMove board (evaluateBoard board).moves
              (evaluateCalls (d0.toNat + toQsDepth.toNat + 1) board s0 d0 MIN_SCORE
                MAX_SCORE toQsDepth true))) := by
  intro fuel
  induction fuel with
  | zero =>
    intro depth haveTime s record trace last out h
    rw [depthLoop] at h
    exact Option.noConfusion h
  | succ fuel ih =>
    intro depth haveTime s record trace last out h hreq hlt hd1 hbound h0 hcase
    rw [depthLoop] at h
    rw [lastSearch]
    by_cases hc : depth ≤ toDepth ∨ haveTime = true
    · rw [if_pos hc] at h
      rw [if_pos hc]
      cases he : evaluate (depth.toNat + toQsDepth.toNat + 1) board s depth MIN_SCORE MAX_SCORE
          toQsDepth true with
      | none =>
        rw [he] at h
        exact Option.noConfusion h
      | some p =>
        obtain ⟨s2, result⟩ := p
        rw [he] at h
        dsimp only at h ⊢
        obtain ⟨d1, d2, d3⟩ := evaluate_depths _ board s depth MIN_SCORE MAX_SCORE toQsDepth
          true _ he
        dsimp only at d1 d2 d3
        have hk := evaluate_movesKept _ board s depth MIN_SCORE MAX_SCORE toQsDepth true _ he
        dsimp only at hk
        have h02 : ∀ b, ¬ Cache.InEval s2.evals b := fun b hb =>
          h0 b ((evaluate_inEval _ board s depth MIN_SCORE MAX_SCORE toQsDepth true _ he b).mp hb)
        by_cases hs : result.result = EvalResultCode.SUCCESS
        · rw [if_pos hs] at h
          rw [if_pos hs]
          have hrecd := (evaluate_success _ board s depth MIN_SCORE MAX_SCORE toQsDepth true _
            he hs).1
          dsimp only at hrecd
          -- the record of the board at the lookup
          have hlook : ∃ r1, (lookupRecord s board).1.evals.find board = some r1
              ∧ r1.moves.Perm (evaluateBoard board).moves
              ∧ ((r1.evalDepth : Nat) : Int) < depth := by
            rcases hcase with ⟨_, hnone, _, _⟩ | ⟨_, r, _, _, a1, a2, a3, _⟩
            · refine ⟨evaluateBoard board, ?_, List.Perm.refl _, ?_⟩
              · rw [(lookupRecord_new s board hnone).1]
                exact Cache.find_insert_same _ _ _ hnone
              · rw [evaluateBoard_depth board hm]
                show ((0 : Nat) : Int) < depth
                omega
            · refine ⟨r, ?_, a2, a3⟩
              rw [lookupRecord_found s board r a1]
              exact a1
          obtain ⟨r1, l1, l2, l3⟩ := hlook
          obtain ⟨r2, e1, e2, e3⟩ := evaluate_root_best _ board s depth MIN_SCORE MAX_SCORE
            toQsDepth true _ h0 (by rw [l1, Option.getD_some]; exact l3) he hs
          dsimp only at e1
          have hperm : r2.moves.Perm (evaluateBoard board).moves := by
            rcases hcase with ⟨_, hnone, _, _⟩ | ⟨_, r, _, _, a1, a2, _⟩
            · obtain ⟨r3, b1, b2, _⟩ := evaluate_fresh _ board s depth MIN_SCORE MAX_SCORE
                toQsDepth true _ hnone hm hd1 he hs
              dsimp only at b1
              rw [e1] at b1
              rw [Option.some.inj b1]
              exact b2
            · obtain ⟨r3, b1, b2, _⟩ := (hk board).1 r a1
              rw [e1] at b1
              rw [Option.some.inj b1]
              exact b2.trans a2
          have hem := entryRecord_moves s board r1 l1
          refine ih (depth + 1) _ _ _ _ (some (depth, s)) out h
            (by show s2.context.depthRequired = toDepth; rw [d2]; exact hreq)
            (by show depth < depth + 1; omega) (by omega)
            (by push_cast at hbound ⊢; omega) h02 (Or.inr ⟨hrecd, r2, depth, s, e1, hperm, ?_,
              rfl, ?_⟩)
          · rw [e2]
            have : ((toU8 depth : Nat) : Int) = depth :=
              toU8_small depth ⟨by omega, by push_cast at hbound; omega⟩
            rw [this]
            omega
          · rcases e3 with k | ⟨k1, k2, k3⟩
            · left
              rw [hem] at k
              exact l2.subset k
            · right
              refine ⟨k1, ?_, k3⟩
              rw [k2, hem]
              exact l2
        · rw [if_neg hs] at h
          rw [if_neg hs]
          have ho := Option.some.inj h
          rw [← ho]
          dsimp only
          rcases hcase with ⟨_, hnone, hdt, _⟩ | ⟨hrec, r, d0, s0, a1, a2, _, a4, a5⟩
          · exfalso
            cases hres : result.result with
            | SUCCESS => exact hs hres
            | TIMEOUT => exact d3 (by omega) hres
            | LOOP =>
              obtain ⟨_, r0, hf, _⟩ := evaluate_loop_inv _ board s depth MIN_SCORE MAX_SCORE
                toQsDepth true _ he hres
              rw [hnone] at hf
              exact Option.noConfusion hf
          · refine ⟨hrec, ?_⟩
            cases hres : result.result with
            | SUCCESS => exact absurd hres hs
            | LOOP =>
              exfalso
              obtain ⟨_, r0, hf, hst⟩ := evaluate_loop_inv _ board s depth MIN_SCORE MAX_SCORE
                toQsDepth true _ he hres
              exact h0 board ⟨r0, hf, hst⟩
            | TIMEOUT =>
              obtain ⟨r3, b1, b2, _⟩ := evaluate_timeout_root _ board s depth MIN_SCORE
                MAX_SCORE toQsDepth true _ r he hres a1
              dsimp only at b1
              refine ⟨r3, d0, s0, b1, a4, ?_⟩
              rw [b2]
              exact a5
    · rw [if_neg hc] at h
      rw [if_neg hc]
      have ho := Option.some.inj h
      rw [← ho]
      dsimp only
      rcases hcase with ⟨_, _, hdt, _⟩ | ⟨hrec, r, d0, s0, a1, _, _, a4, a5⟩
      · exact absurd (Or.inl hdt) hc
      · exact ⟨hrec, r, d0, s0, a1, a4, a5⟩

end Engine

namespace Engine

/-- C39, amended: for a board with a listed move (so not an after-checkmate position), a
depth `toDepth >= 1`, a quiet-search depth in the range of `int16_t` and any clock,
`findBestMove` on the empty table returns with the pointer to the record of the board set, and
the best move of this record, which is the move returned, is one of the moves of
`evaluateBoard` on the board; or it is the default move a1a1, and then the last call of
`evaluate` on the board that returned SUCCESS recursed into every move of the board and every
one of these recursive calls returned SUCCESS with a score that is not better for the side to
move than the start value of the best score (not above `MIN_SCORE` for White, not below
`MAX_SCORE` for Black). -/
theorem findBestMove_listed (board : Board) (toDepth toQsDepth allowedTimeMs : Int)
    (elapsedMs : Nat → Int) (h1 : 1 ≤ toDepth) (hq : toQsDepth ≤ 32767)
    (hm : (evaluateBoard board).moves ≠ []) :
    ∃ (s : SearchState) (trace : List Int) (r : EvalRecord) (depth : Int) (s0 : SearchState),
      findBestMove [] board toDepth toQsDepth allowedTimeMs elapsedMs
        = some (s, some board, trace)
      ∧ s.evals.find board = some r
      ∧ findBestMoveLast [] board toDepth toQsDepth allowedTimeMs elapsedMs = some (depth, s0)
      ∧ (r.bestMove ∈ (evaluateBoard board).moves
        ∨ (r.bestMove = ⟨0⟩
          ∧ ((evaluateCalls (depth.toNat + toQsDepth.toNat + 1) board s0 depth MIN_SCORE
              MAX_SCORE toQsDepth true).map (fun c => c.move)).Perm (evaluateBoard board).moves
          ∧ ∀ c ∈ evaluateCalls (depth.toNat + toQsDepth.toNat + 1) board s0 depth MIN_SCORE
              MAX_SCORE toQsDepth true,
            ∃ (s2 : SearchState) (res : EvalResult), c.out = some (s2, res)
              ∧ res.result = EvalResultCode.SUCCESS
              ∧ ¬ ((board.getMovingSide = Side.WHITE ∧ MIN_SCORE < res.score)
                  ∨ (board.getMovingSide = Side.BLACK ∧ MAX_SCORE > res.score)))) := by
  have htot := depthLoop_total board (min toDepth 6) toQsDepth allowedTimeMs hq (by omega)
    (2 * (min toDepth 6).toNat + 2) (min (min toDepth 6) 3) false
    ⟨[], EvalContext.make allowedTimeMs (min toDepth 6) elapsedMs⟩ none []
    (by omega) (fun h => Bool.noConfusion h) (by omega)
  have hfb : findBestMove [] board toDepth toQsDepth allowedTimeMs elapsedMs
      = depthLoop board (min toDepth 6) toQsDepth allowedTimeMs
          (2 * (min toDepth 6).toNat + 2) (min (min toDepth 6) 3) false
          ⟨[], EvalContext.make allowedTimeMs (min toDepth 6) elapsedMs⟩ none [] := by
    unfold findBestMove
    simp only [clamp_eq_min]
    rfl
  have hfl : findBestMoveLast [] board toDepth toQsDepth allowedTimeMs elapsedMs
      = lastSearch board (min toDepth 6) toQsDepth allowedTimeMs
          (2 * (min toDepth 6).toNat + 2) (min (min toDepth 6) 3) false
          ⟨[], EvalContext.make allowedTimeMs (min toDepth 6) elapsedMs⟩ none := by
    unfold findBestMoveLast
    simp only [clamp_eq_min]
    rfl
  rw [hfb, hfl]
  cases hdl : depthLoop board (min toDepth 6) toQsDepth allowedTimeMs
      (2 * (min toDepth 6).toNat + 2) (min (min toDepth 6) 3) false
      ⟨[], EvalContext.make allowedTimeMs (min toDepth 6) elapsedMs⟩ none [] with
  | none =>
    rw [hdl] at htot
    exact Bool.noConfusion htot
  | some out =>
    obtain ⟨s, record, trace⟩ := out
    obtain ⟨a1, r, d0, s0, a2, a3, a4⟩ := depthLoop_last board (min toDepth 6) toQsDepth
      allowedTimeMs hm _ _ _ _ _ _ none _ hdl rfl
      (by show (0 : Int) < min (min toDepth 6) 3; omega) (by omega)
      (by
        have : ((2 * (min toDepth 6).toNat + 2 : Nat) : Int) ≤ 14 := by omega
        omega)
      (fun b hb => by obtain ⟨r, h1, _⟩ := hb; exact Option.noConfusion h1)
      (Or.inl ⟨rfl, rfl, by omega, rfl⟩)
    dsimp only at a1 a2
    subst a1
    exact ⟨s, trace, r, d0, s0, rfl, a2, a3, a4⟩

set_option maxRecDepth 1000000 in
theorem findBestMove_listed_witness :
    ((1 : Int) ≤ 2 ∧ (1 : Int) ≤ 32767 ∧ (evaluateBoard quietSearchBoard).moves ≠ [])
    ∧ ∃ (s : SearchState) (trace : List Int) (r : EvalRecord) (depth : Int)
        (s0 : SearchState),
      findBestMove [] quietSearchBoard 2 1 600 (fun n => (n : Int))
        = some (s, some quietSearchBoard, trace)
      ∧ s.evals.find quietSearchBoard = some r
      ∧ findBestMoveLast [] quietSearchBoard 2 1 600 (fun n => (n : Int)) = some (depth, s0)
      ∧ (r.bestMove ∈ (evaluateBoard quietSearchBoard).moves
        ∨ (r.bestMove = ⟨0⟩
          ∧ ((evaluateCalls (depth.toNat + (1 : Int).toNat + 1) quietSearchBoard s0 depth
              MIN_SCORE MAX_SCORE 1 true).map (fun c => c.move)).Perm
                (evaluateBoard quietSearchBoard).moves
          ∧ ∀ c ∈ evaluateCalls (depth.toNat + (1 : Int).toNat + 1) quietSearchBoard s0 depth
              MIN_SCORE MAX_SCORE 1 true,
            ∃ (s2 : SearchState) (res : EvalResult), c.out = some (s2, res)
              ∧ res.result = EvalResultCode.SUCCESS
              ∧ ¬ ((quietSearchBoard.getMovingSide = Side.WHITE ∧ MIN_SCORE < res.score)
                  ∨ (quietSearchBoard.getMovingSide = Side.BLACK
                    ∧ MAX_SCORE > res.score)))) :=
  ⟨⟨by decide, by decide, by decide⟩,
    findBestMove_listed quietSearchBoard 2 1 600 (fun n => (n : Int)) (by decide) (by decide)
      (by decide)⟩

end Engine

namespace Engine

theorem lookupRecord_keeps (s : SearchState) (board : Board) :
    Cache.Keeps s.evals (lookupRecord s board).1.evals :=
  fun b r h => ⟨r, lookupRecord_keep s board b r h⟩

end Engine

namespace Engine

end Engine

namespace Engine

end Engine

end chesseng
